import Mathlib

/-!
Lua 5.3.6 parser (`lparser.c`): scope resolution, goto/label patching,
operator precedence and assignment adjustment.

A shallow embedding of the parser state of `src/lua-5/5.3.6/src/lparser.c`
and of the functions that own its invariants.  C arrays with a fill counter
(`f->upvalues` / `fs->nups`, `dyd->gt.arr` / `dyd->gt.n`, ...) are lists,
whose length is the counter.  The chain `fs->prev` of function states is a
list with the current function first, and the chain `bl->previous` of blocks
is a list with the current block first.  `int` is `Int`, `lu_byte` is `Nat`
(reduced modulo 256 where the source casts), and a non-local error exit
(`luaX_syntaxerror`, `semerror`, `errorlimit`) is the `Except.error` result.
-/

namespace LuaParser

/-! ## Data model -/

deriving instance DecidableEq for Except

/-- Interned string of the scanner. Strings are unified by the scanner, so the
pointer equality of the source is equality of the contents. -/
abbrev TString := String

/-- The macro `eqstr(a,b)` of the source: `((a) == (b))`. -/
def eqstr (a b : TString) : Bool := decide (a = b)

/-- Modelled from the spec: the kinds of expression descriptor (`expkind` of
lparser.h, which is not among the sources), in the order of the spec's data
model: void, nil, true, false, constant-pool reference, float constant,
integer constant, fixed register, local register, upvalue reference,
indexed access, jump, relocatable pending instruction, multi-result call,
vararg expansion. -/
inductive expkind where
  | VVOID | VNIL | VTRUE | VFALSE | VK | VKFLT | VKINT | VNONRELOC | VLOCAL
  | VUPVAL | VINDEXED | VJMP | VRELOCABLE | VCALL | VVARARG
  deriving DecidableEq, Repr

/-- The constant `NO_JUMP` of the code generator: the empty jump list. -/
def NO_JUMP : Int := -1

/-- Modelled from the spec: the expression descriptor (`expdesc` of lparser.h,
not among the sources): kind, the payload `u.info` (register, upvalue index,
constant index or instruction index according to the kind), the integer
payload `u.ival`, the operands `u.ind` of an indexed access, and the two
jump-patch-list handles `t` (true exit) and `f` (false exit). -/
structure expdesc where
  k : expkind
  info : Int := 0
  ival : Int := 0
  ind_idx : Int := 0
  ind_t : Int := 0
  ind_vt : expkind := expkind.VVOID
  t : Int := NO_JUMP
  f : Int := NO_JUMP
  deriving DecidableEq, Repr

/-- The macro `hasmultret(k)`: `((k) == VCALL || (k) == VVARARG)`. -/
def hasmultret (k : expkind) : Bool :=
  decide (k = expkind.VCALL) || decide (k = expkind.VVARARG)

/-- Source function `init_exp`: `e->f = e->t = NO_JUMP; e->k = k; e->u.info = i`. -/
def init_exp (k : expkind) (i : Int) : expdesc :=
  { k := k, info := i, t := NO_JUMP, f := NO_JUMP }

/-- Local variable descriptor (`LocVar`): name and liveness range. -/
structure LocVar where
  varname : TString
  startpc : Int := 0
  endpc : Int := 0
  deriving DecidableEq, Repr

/-- Upvalue descriptor (`Upvaldesc`): name, whether the captured variable is a
local of the enclosing function (`instack`), and its index there (register
if local, upvalue index otherwise). -/
structure Upvaldesc where
  name : TString
  instack : Bool
  idx : Nat
  deriving DecidableEq, Repr

/-- Block context (`BlockCnt`); the link `previous` is the tail of the list
that holds the block. -/
structure BlockCnt where
  firstlabel : Nat
  firstgoto : Nat
  nactvar : Nat
  upval : Bool
  isloop : Bool
  deriving DecidableEq, Repr

/-- Label or pending-goto entry (`Labeldesc`). -/
structure Labeldesc where
  name : TString
  pc : Int
  line : Int
  nactvar : Nat
  deriving DecidableEq, Repr

/-- Entry of the list of active local variables (`Vardesc`): the index of the
variable in `f->locvars`. -/
structure Vardesc where
  idx : Nat
  deriving DecidableEq, Repr

/-- Dynamic data shared by all functions of one parse (`Dyndata`): the active
variables, the pending gotos and the active labels. -/
structure Dyndata where
  actvar : List Vardesc := []
  gt : List Labeldesc := []
  label : List Labeldesc := []
  deriving DecidableEq, Repr

/-- Modelled from the spec: the unary operators (`UnOpr` of lcode.h, not among
the sources), as `getunopr` names them. -/
inductive UnOpr where
  | OPR_MINUS | OPR_BNOT | OPR_NOT | OPR_LEN | OPR_NOUNOPR
  deriving DecidableEq, Repr

/-- Modelled from the spec: the binary operators (`BinOpr` of lcode.h, not among
the sources), in the order of the table `priority[]` (ORDER OPR). -/
inductive BinOpr where
  | OPR_ADD | OPR_SUB | OPR_MUL | OPR_MOD | OPR_POW | OPR_DIV | OPR_IDIV
  | OPR_BAND | OPR_BOR | OPR_BXOR | OPR_SHL | OPR_SHR | OPR_CONCAT
  | OPR_EQ | OPR_LT | OPR_LE | OPR_NE | OPR_GT | OPR_GE
  | OPR_AND | OPR_OR | OPR_NOBINOPR
  deriving DecidableEq, Repr

/-- Modelled from the spec: the instructions the parser asks for by name
(`OpCode` of lopcodes.h, not among the sources). -/
inductive OpCode where
  | OP_MOVE | OP_GETUPVAL | OP_NEWTABLE | OP_SETTABLE | OP_CALL | OP_TAILCALL | OP_VARARG
  | OP_CLOSURE | OP_FORPREP | OP_FORLOOP | OP_TFORCALL | OP_TFORLOOP
  deriving DecidableEq, Repr

/-- Modelled from the spec: one call of the parser into the code emitter
(lcode.c is not among the sources).  The emitter is an external collaborator
of the parser; its calls are recorded, in order, with their arguments. -/
inductive KCall where
  | patchlist (list target : Int)
  | patchclose (list : Int) (level : Nat)
  | patchtohere (list : Int)
  | jump (pc : Int)
  | getlabel (pc : Int)
  | ret (first nret : Int)
  | setreturns (e : expdesc) (nresults : Int)
  | reserveregs (n : Nat)
  | exp2nextreg (e : expdesc)
  | nil (from_ n : Nat)
  | codeABC (pc : Int) (op : OpCode) (a b c : Int)
  | prefixOp (op : UnOpr) (e : expdesc) (line : Int)
  | infixOp (op : BinOpr) (v : expdesc)
  | posfixOp (op : BinOpr) (e1 e2 : expdesc) (line : Int)
  | setlist (base nelems tostore : Int)
  | exp2RK (e : expdesc)
  | exp2val (e : expdesc)
  | exp2anyreg (e : expdesc)
  | exp2anyregup (e : expdesc)
  | dischargevars (e : expdesc)
  | indexed (t k : expdesc)
  | self (e key : expdesc)
  | storevar (var ex : expdesc)
  | setoneret (e : expdesc)
  | goiftrue (e : expdesc)
  | goiffalse (e : expdesc)
  | concat (l1 l2 : Int)
  | fixline (line : Int)
  | codeABx (pc : Int) (op : OpCode) (a bx : Int)
  | codeAsBx (pc : Int) (op : OpCode) (a sbx : Int)
  | codek (reg k : Int)
  | checkstack (n : Nat)
  | setargB (pc b : Int)
  | setargC (pc c : Int)
  | setopcode (pc : Int) (op : OpCode)
  deriving DecidableEq, Repr

/-- The part of the function prototype (`Proto`) that the parser fills in:
local-variable debug records and upvalue descriptors (the entries below
`fs->nlocvars` and `fs->nups`), the vararg flag, the parameter count and the
line of the definition. -/
structure Proto where
  locvars : List LocVar := []
  upvalues : List Upvaldesc := []
  is_vararg : Bool := false
  numparams : Nat := 0
  linedefined : Int := 0
  deriving DecidableEq, Repr

/-- Modelled from the spec: an entry of the constant pool of a function: a
string or an integer (the other constants are not represented). -/
inductive Konst where
  | str (s : TString)
  | int (i : Int)
  deriving DecidableEq, Repr

/-- Function compile-state (`FuncState`).  `prev` is the tail of the list that
holds the state, `bl` is the chain of active blocks (current block first),
`nlocvars` and `nups` are the lengths of `f.locvars` and `f.upvalues`, `k` is
the pool of constants (`nk` its length), and `kcalls` is the record of the calls
made into the code emitter for this function. -/
structure FuncState where
  f : Proto := {}
  bl : List BlockCnt := []
  pc : Int := 0
  lasttarget : Int := 0
  jpc : Int := NO_JUMP
  k : List Konst := []
  np : Int := 0
  firstlocal : Nat := 0
  nactvar : Nat := 0
  freereg : Nat := 0
  kcalls : List KCall := []
  deriving DecidableEq, Repr

/-- The counter `fs->nups`. -/
def FuncState.nups (fs : FuncState) : Nat := fs.f.upvalues.length

/-- The counter `fs->nlocvars`. -/
def FuncState.nlocvars (fs : FuncState) : Nat := fs.f.locvars.length

/-- Modelled from the spec: the token kinds of the scanner (llex.h is not among
the sources).  A single-character token is its character, as in the source
(`';'`, `'='`, ...); the other kinds are the terminals the parser names
`TK_...`. -/
inductive Tok where
  | chr (c : Char)
  | TK_AND | TK_BREAK | TK_DO | TK_ELSE | TK_ELSEIF | TK_END | TK_FALSE | TK_FOR
  | TK_FUNCTION | TK_GOTO | TK_IF | TK_IN | TK_LOCAL | TK_NIL | TK_NOT | TK_OR
  | TK_REPEAT | TK_RETURN | TK_THEN | TK_TRUE | TK_UNTIL | TK_WHILE
  | TK_IDIV | TK_CONCAT | TK_DOTS | TK_EQ | TK_GE | TK_LE | TK_NE | TK_SHL | TK_SHR
  | TK_DBCOLON | TK_EOS | TK_FLT | TK_INT | TK_NAME | TK_STRING
  deriving DecidableEq, Repr

/-- The error exits of the parser.  The message texts of the source are kept
as constructors with the values that the message is formatted from. -/
inductive ParseError where
  /-- Raised by `errorlimit`: "too many <what> (limit is <limit>) in <function at line>". -/
  | limit (what : String) (limit : Int) (linedefined : Int)
  /-- Raised by `luaX_syntaxerror` with a fixed message. -/
  | syntaxerror (msg : String)
  /-- Raised by `error_expected`: "<token> expected". -/
  | expected (token : Tok)
  /-- Raised by `closegoto`: "<goto name> at line N jumps into the scope of local 'vname'". -/
  | jumpsIntoScope (name : TString) (line : Int) (vname : TString)
  /-- Raised by `undefgoto` for a reserved name: "<name> at line N not inside a loop". -/
  | notInsideLoop (name : TString) (line : Int)
  /-- Raised by `undefgoto` for other names: "no visible label 'name' for <goto> at line N". -/
  | noVisibleLabel (name : TString) (line : Int)
  /-- Raised by `checkrepeated`: "label 'name' already defined on line N". -/
  | labelRepeated (name : TString) (line : Int)
  /-- Raised by `luaM_growvector`: "too many <what> (limit is <limit>)". -/
  | tooMany (what : String) (limit : Int)
  /-- Raised by `check_match`: "<what> expected (to close <who> at line <line>)". -/
  | expectedToClose (what who : Tok) (line : Int)
  /-- The source dereferences a null pointer or reads an array out of bounds. -/
  | undefinedBehaviour
  /-- The model ran out of fuel (no counterpart in the source). -/
  | outOfFuel
  deriving DecidableEq, Repr

/-- Modelled from the spec: the bound on the upvalues of one function
(`MAXUPVAL` of lfunc.h, not among the sources; "list of upvalues (bounded,
e.g., ≤255)"). -/
def MAXUPVAL : Int := 255

/-- The constant `MAXVARS`: maximum number of local variables per function. -/
def MAXVARS : Int := 200

/-- The cast `cast_byte(i)` to `lu_byte`. -/
def cast_byte (i : Int) : Nat := (i % 256).toNat

/-! ## Name resolution -/

/-- Source function `checklimit`: `if (v > l) errorlimit(fs, l, what)`. -/
def checklimit (fs : FuncState) (v l : Int) (what : String) : Except ParseError Unit :=
  if v > l then Except.error (ParseError.limit what l fs.f.linedefined) else Except.ok ()

/-- Source function `getlocvar`: the record of the `i`-th active local of `fs`,
`fs->f->locvars[dyd->actvar.arr[fs->firstlocal + i].idx]`; `none` when an index
is outside the filled part of its array. -/
def getlocvar (dyd : Dyndata) (fs : FuncState) (i : Nat) : Option LocVar :=
  match dyd.actvar.get? (fs.firstlocal + i) with
  | none => none
  | some vd => fs.f.locvars.get? vd.idx

/-- The test `eqstr(n, getlocvar(fs, i)->varname)` of `searchvar`: the `i`-th
active local of `fs` is named `n`. -/
def localNamed (dyd : Dyndata) (fs : FuncState) (n : TString) (i : Nat) : Bool :=
  match getlocvar dyd fs i with
  | some lv => eqstr n lv.varname
  | none => false

/-- Loop of `searchvar`, entered with `i = k - 1`:
`for (; i >= 0; i--) if (eqstr(n, getlocvar(fs, i)->varname)) return i;`
followed by `return -1`. -/
def searchvar_loop (dyd : Dyndata) (fs : FuncState) (n : TString) : Nat → Int
  | 0 => -1
  | i + 1 => if localNamed dyd fs n i then (i : Int) else searchvar_loop dyd fs n i

/-- Source function `searchvar`: index of the innermost active local named `n`,
or -1. -/
def searchvar (dyd : Dyndata) (fs : FuncState) (n : TString) : Int :=
  searchvar_loop dyd fs n fs.nactvar

/-- Loop of `searchupvalue` over `up[i..]`: first index holding the name. -/
def searchupvalue_loop (name : TString) : List Upvaldesc → Nat → Int
  | [], _ => -1
  | up :: rest, i => if eqstr up.name name then (i : Int) else searchupvalue_loop name rest (i + 1)

/-- Source function `searchupvalue`: index of the first upvalue of `fs` named
`name`, or -1. -/
def searchupvalue (fs : FuncState) (name : TString) : Int :=
  searchupvalue_loop name fs.f.upvalues 0

/-- Source function `newupvalue`: after the limit check, appends the descriptor
`{name, instack = (v->k == VLOCAL), idx = cast_byte(v->u.info)}` and returns
its index `fs->nups++`. -/
def newupvalue (fs : FuncState) (name : TString) (v : expdesc) :
    Except ParseError (Int × FuncState) :=
  match checklimit fs ((fs.nups : Int) + 1) MAXUPVAL "upvalues" with
  | Except.error e => Except.error e
  | Except.ok _ =>
    Except.ok ((fs.nups : Int),
      { fs with f := { fs.f with upvalues := fs.f.upvalues ++
          [{ name := name, instack := decide (v.k = expkind.VLOCAL), idx := cast_byte v.info }] } })

/-- Loop of `markupval`: `while (bl->nactvar > level) bl = bl->previous; bl->upval = 1`.
`none` when the walk leaves the chain (a null `previous` is dereferenced). -/
def markupval_loop (level : Int) : List BlockCnt → Option (List BlockCnt)
  | [] => none
  | bl :: previous =>
    if (bl.nactvar : Int) > level then
      match markupval_loop level previous with
      | none => none
      | some previous1 => some (bl :: previous1)
    else some ({ bl with upval := true } :: previous)

/-- Source function `markupval`: marks the block that owns the local at `level`. -/
def markupval (fs : FuncState) (level : Int) : Option FuncState :=
  match markupval_loop level fs.bl with
  | none => none
  | some bl1 => some { fs with bl := bl1 }

/-- Source function `singlevaraux`.  The argument list is the chain
`fs, fs->prev, ...` (empty for `fs == NULL`); the result is the descriptor
written to `var` and the updated chain. -/
def singlevaraux (dyd : Dyndata) : List FuncState → TString → Bool →
    Except ParseError (expdesc × List FuncState)
  | [], _, _ => Except.ok (init_exp expkind.VVOID 0, [])
  | fs :: prev, n, base =>
    let v := searchvar dyd fs n
    if v ≥ 0 then
      if base then Except.ok (init_exp expkind.VLOCAL v, fs :: prev)
      else
        match markupval fs v with
        | none => Except.error ParseError.undefinedBehaviour
        | some fs1 => Except.ok (init_exp expkind.VLOCAL v, fs1 :: prev)
    else
      let idx := searchupvalue fs n
      if idx < 0 then
        match singlevaraux dyd prev n false with
        | Except.error e => Except.error e
        | Except.ok (var, prev1) =>
          if var.k = expkind.VVOID then Except.ok (var, fs :: prev1)
          else
            match newupvalue fs n var with
            | Except.error e => Except.error e
            | Except.ok (idx1, fs1) => Except.ok (init_exp expkind.VUPVAL idx1, fs1 :: prev1)
      else Except.ok (init_exp expkind.VUPVAL idx, fs :: prev)

/-! ## Token source and lexical state -/

/-- Modelled from the spec: a token of the token source: kind, line number and
payload (`seminfo.ts` for names and strings, `seminfo.i` for integer
literals; the float payload is not represented). -/
structure Token where
  token : Tok
  ts : TString := ""
  i : Int := 0
  line : Int := 1
  deriving DecidableEq, Repr

/-- Lexical state (`LexState`) together with the parts of `lua_State` the
parser uses: the current token `t`, the tokens the scanner has not delivered
yet, the current line, the chain of function states (`ls->fs` first, empty for
a null `ls->fs`), the dynamic data `ls->dyd`, the nesting counter
`L->nCcalls` and the environment name `ls->envn`. -/
structure LexState where
  t : Token := { token := Tok.TK_EOS }
  input : List Token := []
  linenumber : Int := 1
  fs : List FuncState := []
  dyd : Dyndata := {}
  nCcalls : Nat := 0
  envn : TString := "_ENV"
  deriving DecidableEq, Repr

/-- Modelled from the spec: `next()` of the token source (`luaX_next`): the next
token becomes the current one; past the end the token is end-of-stream. -/
def luaX_next (ls : LexState) : LexState :=
  match ls.input with
  | [] => { ls with t := { token := Tok.TK_EOS, line := ls.linenumber } }
  | tk :: rest => { ls with t := tk, input := rest, linenumber := tk.line }

/-- Modelled from the spec: the reserved words of the scanner; `isreserved(s)` of
the source tests the mark the scanner puts on their strings. -/
def isreserved (s : TString) : Bool :=
  decide (s ∈ ["and", "break", "do", "else", "elseif", "end", "false", "for", "function",
    "goto", "if", "in", "local", "nil", "not", "or", "repeat", "return", "then", "true",
    "until", "while"])

/-- Modelled from the spec: the bound `LUAI_MAXCCALLS` on the nesting depth
(llimits.h is not among the sources; 200 in the distribution). -/
def LUAI_MAXCCALLS : Int := 200

/-- The constant `SHRT_MAX` of the C library, the limit of the label and goto
lists. -/
def SHRT_MAX : Int := 32767

/-- Source function `testnext`: consumes the current token if it is `c`. -/
def testnext (ls : LexState) (c : Tok) : Bool × LexState :=
  if ls.t.token = c then (true, luaX_next ls) else (false, ls)

/-- Source function `check`: `if (ls->t.token != c) error_expected(ls, c)`. -/
def check (ls : LexState) (c : Tok) : Except ParseError Unit :=
  if ls.t.token ≠ c then Except.error (ParseError.expected c) else Except.ok ()

/-- Source function `checknext`: `check(ls, c); luaX_next(ls)`. -/
def checknext (ls : LexState) (c : Tok) : Except ParseError LexState :=
  match check ls c with
  | Except.error e => Except.error e
  | Except.ok _ => Except.ok (luaX_next ls)

/-- Source function `str_checkname`: the name carried by the current token,
which must be a name, and the state after it. -/
def str_checkname (ls : LexState) : Except ParseError (TString × LexState) :=
  match check ls Tok.TK_NAME with
  | Except.error e => Except.error e
  | Except.ok _ => Except.ok (ls.t.ts, luaX_next ls)

/-- Source function `block_follow`: the current token is in the follow set of
a block. -/
def block_follow (ls : LexState) (withuntil : Bool) : Bool :=
  match ls.t.token with
  | Tok.TK_ELSE => true
  | Tok.TK_ELSEIF => true
  | Tok.TK_END => true
  | Tok.TK_EOS => true
  | Tok.TK_UNTIL => withuntil
  | _ => false

/-- Source function `enterlevel`: `++L->nCcalls` and the check against
`LUAI_MAXCCALLS` ("C levels"). -/
def enterlevel (ls : LexState) : Except ParseError LexState :=
  let n := ls.nCcalls + 1
  match ls.fs with
  | [] => Except.error ParseError.undefinedBehaviour
  | fs :: _ =>
    match checklimit fs (n : Int) LUAI_MAXCCALLS "C levels" with
    | Except.error e => Except.error e
    | Except.ok _ => Except.ok { ls with nCcalls := n }

/-- The macro `leavelevel(ls)`: `((ls)->L->nCcalls--)`. -/
def leavelevel (ls : LexState) : LexState :=
  { ls with nCcalls := ls.nCcalls - 1 }

/-! ## Code emitter -/

/-- Appends a call to the record of emitter calls of `fs`. -/
def FuncState.emit (fs : FuncState) (c : KCall) : FuncState :=
  { fs with kcalls := fs.kcalls ++ [c] }

/-- Modelled from the spec: `luaK_patchlist(fs, list, target)`, "patch-to-target"
of a jump list; the call is recorded. -/
def luaK_patchlist (fs : FuncState) (list target : Int) : FuncState :=
  fs.emit (KCall.patchlist list target)

/-- Modelled from the spec: `luaK_patchclose(fs, list, level)`, which marks the
jumps of `list` to close the upvalues from register `level` on; the call is
recorded. -/
def luaK_patchclose (fs : FuncState) (list : Int) (level : Nat) : FuncState :=
  fs.emit (KCall.patchclose list level)

/-- Modelled from the spec: `luaK_patchtohere(fs, list)`, "patch-to-here" of a
jump list; the call is recorded. -/
def luaK_patchtohere (fs : FuncState) (list : Int) : FuncState :=
  fs.emit (KCall.patchtohere list)

/-- Modelled from the spec: `luaK_jump(fs)` emits a jump instruction at the
current program counter and returns its position. -/
def luaK_jump (fs : FuncState) : Int × FuncState :=
  (fs.pc, { fs with pc := fs.pc + 1, kcalls := fs.kcalls ++ [KCall.jump fs.pc] })

/-- Modelled from the spec: `luaK_getlabel(fs)` marks the current program counter
as a jump target and returns it. -/
def luaK_getlabel (fs : FuncState) : Int × FuncState :=
  (fs.pc, { fs with lasttarget := fs.pc, kcalls := fs.kcalls ++ [KCall.getlabel fs.pc] })

/-! ## Blocks, labels and gotos -/

/-- Source function `closegoto`: the pending goto `g` is checked against the
label (a goto with fewer active locals than the label jumps into the scope of
the local `getlocvar(fs, gt->nactvar)`), patched to the label's position and
removed from the pending list. -/
def closegoto (ls : LexState) (g : Nat) (label : Labeldesc) : Except ParseError LexState :=
  match ls.fs, ls.dyd.gt.get? g with
  | fs :: prev, some gt =>
    if gt.nactvar < label.nactvar then
      match getlocvar ls.dyd fs gt.nactvar with
      | some lv => Except.error (ParseError.jumpsIntoScope gt.name gt.line lv.varname)
      | none => Except.error ParseError.undefinedBehaviour
    else
      Except.ok { ls with
        fs := luaK_patchlist fs gt.pc label.pc :: prev,
        dyd := { ls.dyd with gt := ls.dyd.gt.eraseIdx g } }
  | _, _ => Except.error ParseError.undefinedBehaviour

/-- Source function `findlabel`: tries to close the pending goto `g` with the
first label of the current block (indices from `bl->firstlabel`) that has its
name; the result flag is the returned 1 or 0. -/
def findlabel (ls : LexState) (g : Nat) : Except ParseError (Bool × LexState) :=
  match ls.fs, ls.dyd.gt.get? g with
  | fs :: prev, some gt =>
    match fs.bl with
    | [] => Except.error ParseError.undefinedBehaviour
    | bl :: _ =>
      match (ls.dyd.label.drop bl.firstlabel).find? (fun lb => eqstr lb.name gt.name) with
      | none => Except.ok (false, ls)
      | some lb =>
        let fs1 :=
          if gt.nactvar > lb.nactvar ∧ (bl.upval = true ∨ ls.dyd.label.length > bl.firstlabel)
          then luaK_patchclose fs gt.pc lb.nactvar else fs
        match closegoto { ls with fs := fs1 :: prev } g lb with
        | Except.error e => Except.error e
        | Except.ok ls1 => Except.ok (true, ls1)
  | _, _ => Except.error ParseError.undefinedBehaviour

/-- Source function `newlabelentry` on the list `l` (the label list or the
pending-goto list): appends `{name, line, nactvar = ls->fs->nactvar, pc}` and
returns its index with the grown list.  `luaM_growvector` fails at `SHRT_MAX`
entries ("labels/gotos"). -/
def newlabelentry (ls : LexState) (l : List Labeldesc) (name : TString) (line pc : Int) :
    Except ParseError (Nat × List Labeldesc) :=
  match ls.fs with
  | [] => Except.error ParseError.undefinedBehaviour
  | fs :: _ =>
    if (l.length : Int) ≥ SHRT_MAX then Except.error (ParseError.tooMany "labels/gotos" SHRT_MAX)
    else Except.ok (l.length,
      l ++ [{ name := name, line := line, nactvar := fs.nactvar, pc := pc }])

/-- Loop of `findgotos`: `while (i < gl->n) { if (eqstr(gl->arr[i].name, lb->name))
closegoto(ls, i, lb); else i++; }`.  Every turn brings `i` one step closer to
`gl->n`, so `gl->n - i` turns are enough. -/
def findgotos_loop (lb : Labeldesc) : Nat → Nat → LexState → Except ParseError LexState
  | 0, i, ls =>
    match ls.dyd.gt.get? i with
    | none => Except.ok ls
    | some _ => Except.error ParseError.outOfFuel
  | fuel + 1, i, ls =>
    match ls.dyd.gt.get? i with
    | none => Except.ok ls
    | some gt =>
      if eqstr gt.name lb.name then
        match closegoto ls i lb with
        | Except.error e => Except.error e
        | Except.ok ls1 => findgotos_loop lb fuel i ls1
      else findgotos_loop lb fuel (i + 1) ls

/-- Source function `findgotos`: closes with the new label `lb` every pending
goto of the current block (indices from `bl->firstgoto`) that has its name. -/
def findgotos (ls : LexState) (lb : Labeldesc) : Except ParseError LexState :=
  match ls.fs with
  | fs :: _ =>
    match fs.bl with
    | bl :: _ => findgotos_loop lb (ls.dyd.gt.length - bl.firstgoto) bl.firstgoto ls
    | [] => Except.error ParseError.undefinedBehaviour
  | [] => Except.error ParseError.undefinedBehaviour

/-- Loop of `movegotosout`: every pending goto from `i` on is re-homed to the
level of the block `bl` being left (closing upvalues if the block has any)
and tried against the labels of the enclosing block. -/
def movegotosout_loop (bl : BlockCnt) : Nat → Nat → LexState → Except ParseError LexState
  | 0, i, ls =>
    match ls.dyd.gt.get? i with
    | none => Except.ok ls
    | some _ => Except.error ParseError.outOfFuel
  | fuel + 1, i, ls =>
    match ls.fs, ls.dyd.gt.get? i with
    | _, none => Except.ok ls
    | [], some _ => Except.error ParseError.undefinedBehaviour
    | fs :: prev, some gt =>
      let ls1 : LexState :=
        if gt.nactvar > bl.nactvar then
          { ls with
            fs := (if bl.upval then luaK_patchclose fs gt.pc bl.nactvar else fs) :: prev,
            dyd := { ls.dyd with gt := ls.dyd.gt.set i { gt with nactvar := bl.nactvar } } }
        else ls
      match findlabel ls1 i with
      | Except.error e => Except.error e
      | Except.ok (true, ls2) => movegotosout_loop bl fuel i ls2
      | Except.ok (false, ls2) => movegotosout_loop bl fuel (i + 1) ls2

/-- Source function `movegotosout`: exports the pending gotos of the block `bl`
(already unlinked from `fs->bl`) to the enclosing block. -/
def movegotosout (ls : LexState) (bl : BlockCnt) : Except ParseError LexState :=
  movegotosout_loop bl (ls.dyd.gt.length - bl.firstgoto) bl.firstgoto ls

/-- Source function `enterblock`: pushes a block that records the current
numbers of active locals, labels and pending gotos. -/
def enterblock (ls : LexState) (isloop : Bool) : Except ParseError LexState :=
  match ls.fs with
  | [] => Except.error ParseError.undefinedBehaviour
  | fs :: prev =>
    Except.ok { ls with fs := { fs with bl :=
      { isloop := isloop, nactvar := fs.nactvar, firstlabel := ls.dyd.label.length,
        firstgoto := ls.dyd.gt.length, upval := false } :: fs.bl } :: prev }

/-- Source function `breaklabel`: creates a label named "break" at the current
position and closes the pending breaks of the block with it. -/
def breaklabel (ls : LexState) : Except ParseError LexState :=
  match ls.fs with
  | [] => Except.error ParseError.undefinedBehaviour
  | fs :: _ =>
    match newlabelentry ls ls.dyd.label "break" 0 fs.pc with
    | Except.error e => Except.error e
    | Except.ok (_, label1) =>
      findgotos { ls with dyd := { ls.dyd with label := label1 } }
        { name := "break", line := 0, nactvar := fs.nactvar, pc := fs.pc }

/-- Source function `undefgoto`: the error for a goto without label; the
message depends on whether the name is a reserved word. -/
def undefgoto (gt : Labeldesc) : ParseError :=
  if isreserved gt.name then ParseError.notInsideLoop gt.name gt.line
  else ParseError.noVisibleLabel gt.name gt.line

/-- Loop of `removevars`: `while (fs->nactvar > tolevel) getlocvar(fs, --fs->nactvar)->endpc = fs->pc`,
for `k` locals above `tolevel`. -/
def removevars_loop (dyd : Dyndata) (tolevel : Nat) : Nat → FuncState → Option FuncState
  | 0, fs => some fs
  | k + 1, fs =>
    match dyd.actvar.get? (fs.firstlocal + (tolevel + k)) with
    | none => none
    | some vd =>
      match fs.f.locvars.get? vd.idx with
      | none => none
      | some lv =>
        removevars_loop dyd tolevel k
          { fs with f := { fs.f with locvars := fs.f.locvars.set vd.idx { lv with endpc := fs.pc } } }

/-- Source function `removevars`: takes the locals above `tolevel` out of the
active-variable list and ends their liveness at the current position.  With
fewer than `tolevel` active locals the source would grow the list counter over
unset entries. -/
def removevars (ls : LexState) (tolevel : Nat) : Except ParseError LexState :=
  match ls.fs with
  | [] => Except.error ParseError.undefinedBehaviour
  | fs :: prev =>
    if fs.nactvar < tolevel ∨ ls.dyd.actvar.length < fs.nactvar - tolevel then
      Except.error ParseError.undefinedBehaviour
    else
      match removevars_loop ls.dyd tolevel (fs.nactvar - tolevel) fs with
      | none => Except.error ParseError.undefinedBehaviour
      | some fs1 =>
        Except.ok { ls with
          fs := { fs1 with nactvar := tolevel } :: prev,
          dyd := { ls.dyd with
            actvar := ls.dyd.actvar.take (ls.dyd.actvar.length - (fs.nactvar - tolevel)) } }

/-- Source function `leaveblock`. -/
def leaveblock (ls : LexState) : Except ParseError LexState :=
  match ls.fs with
  | [] => Except.error ParseError.undefinedBehaviour
  | fs :: prev =>
    match fs.bl with
    | [] => Except.error ParseError.undefinedBehaviour
    | bl :: previous =>
      let fs1 :=
        if previous ≠ [] ∧ bl.upval = true then
          let (j, fsj) := luaK_jump fs
          luaK_patchtohere (luaK_patchclose fsj j bl.nactvar) j
        else fs
      let ls1 : LexState := { ls with fs := fs1 :: prev }
      match (if bl.isloop then breaklabel ls1 else Except.ok ls1) with
      | Except.error e => Except.error e
      | Except.ok ls2 =>
        match ls2.fs with
        | [] => Except.error ParseError.undefinedBehaviour
        | fs2 :: prev2 =>
          match removevars { ls2 with fs := { fs2 with bl := previous } :: prev2 } bl.nactvar with
          | Except.error e => Except.error e
          | Except.ok ls3 =>
            match ls3.fs with
            | [] => Except.error ParseError.undefinedBehaviour
            | fs3 :: prev3 =>
              let ls4 : LexState := { ls3 with
                fs := { fs3 with freereg := fs3.nactvar } :: prev3,
                dyd := { ls3.dyd with label := ls3.dyd.label.take bl.firstlabel } }
              if previous ≠ [] then movegotosout ls4 bl
              else
                match ls4.dyd.gt.get? bl.firstgoto with
                | some gt => Except.error (undefgoto gt)
                | none => Except.ok ls4

/-- Source function `gotostat`: parses `goto NAME` or `break`, records a
pending goto at the jump `pc` and tries to close it with a label that is
already defined. -/
def gotostat (ls : LexState) (pc : Int) : Except ParseError LexState :=
  let line := ls.linenumber
  let r : Except ParseError (TString × LexState) :=
    match testnext ls Tok.TK_GOTO with
    | (true, ls1) => str_checkname ls1
    | (false, ls1) => Except.ok ("break", luaX_next ls1)
  match r with
  | Except.error e => Except.error e
  | Except.ok (label, ls1) =>
    match newlabelentry ls1 ls1.dyd.gt label line pc with
    | Except.error e => Except.error e
    | Except.ok (g, gt1) =>
      match findlabel { ls1 with dyd := { ls1.dyd with gt := gt1 } } g with
      | Except.error e => Except.error e
      | Except.ok (_, ls2) => Except.ok ls2

/-- Source function `checkrepeated`: a label of the same name in the current
block (indices from `bl->firstlabel`) is an error. -/
def checkrepeated (fs : FuncState) (ll : List Labeldesc) (label : TString) :
    Except ParseError Unit :=
  match fs.bl with
  | [] => Except.error ParseError.undefinedBehaviour
  | bl :: _ =>
    match (ll.drop bl.firstlabel).find? (fun lb => eqstr label lb.name) with
    | some lb => Except.error (ParseError.labelRepeated label lb.line)
    | none => Except.ok ()

/-- Source function `check_match`: the closing token `what` of the construct
opened by `who` at line `where_`. -/
def check_match (ls : LexState) (what who : Tok) (where_ : Int) : Except ParseError LexState :=
  match testnext ls what with
  | (true, ls1) => Except.ok ls1
  | (false, _) =>
    if where_ = ls.linenumber then Except.error (ParseError.expected what)
    else Except.error (ParseError.expectedToClose what who where_)

/-- The statement forms whose parsing functions are not embedded here: the
callees of `statement` other than `labelstat` and `gotostat`, each with the
arguments `statement` passes to it. -/
structure StatRules where
  ifstat : LexState → Int → Except ParseError LexState
  whilestat : LexState → Int → Except ParseError LexState
  block : LexState → Except ParseError LexState
  forstat : LexState → Int → Except ParseError LexState
  repeatstat : LexState → Int → Except ParseError LexState
  funcstat : LexState → Int → Except ParseError LexState
  localfunc : LexState → Except ParseError LexState
  localstat : LexState → Except ParseError LexState
  retstat : LexState → Except ParseError LexState
  exprstat : LexState → Except ParseError LexState

mutual

/-- Source function `statement`.  The first argument bounds the depth of the
recursion through `labelstat` and `skipnoopstat`. -/
def statement (R : StatRules) : Nat → LexState → Except ParseError LexState
  | 0, _ => Except.error ParseError.outOfFuel
  | fuel + 1, ls0 =>
    let line := ls0.linenumber
    match enterlevel ls0 with
    | Except.error e => Except.error e
    | Except.ok ls =>
      let r : Except ParseError LexState :=
        match ls.t.token with
        | Tok.chr ';' => Except.ok (luaX_next ls)
        | Tok.TK_IF => R.ifstat ls line
        | Tok.TK_WHILE => R.whilestat ls line
        | Tok.TK_DO =>
          match R.block (luaX_next ls) with
          | Except.error e => Except.error e
          | Except.ok ls1 => check_match ls1 Tok.TK_END Tok.TK_DO line
        | Tok.TK_FOR => R.forstat ls line
        | Tok.TK_REPEAT => R.repeatstat ls line
        | Tok.TK_FUNCTION => R.funcstat ls line
        | Tok.TK_LOCAL =>
          match testnext (luaX_next ls) Tok.TK_FUNCTION with
          | (true, ls1) => R.localfunc ls1
          | (false, ls1) => R.localstat ls1
        | Tok.TK_DBCOLON =>
          match str_checkname (luaX_next ls) with
          | Except.error e => Except.error e
          | Except.ok (label, ls1) => labelstat R fuel ls1 label line
        | Tok.TK_RETURN => R.retstat (luaX_next ls)
        | Tok.TK_BREAK | Tok.TK_GOTO =>
          match ls.fs with
          | [] => Except.error ParseError.undefinedBehaviour
          | fs :: prev =>
            let (pc, fs1) := luaK_jump fs
            gotostat { ls with fs := fs1 :: prev } pc
        | _ => R.exprstat ls
      match r with
      | Except.error e => Except.error e
      | Except.ok ls1 =>
        match ls1.fs with
        | [] => Except.error ParseError.undefinedBehaviour
        | fs :: prev =>
          Except.ok (leavelevel { ls1 with fs := { fs with freereg := fs.nactvar } :: prev })

/-- Source function `skipnoopstat`: `while (ls->t.token == ';' || ls->t.token == TK_DBCOLON) statement(ls)`. -/
def skipnoopstat (R : StatRules) : Nat → LexState → Except ParseError LexState
  | 0, _ => Except.error ParseError.outOfFuel
  | fuel + 1, ls =>
    if ls.t.token = Tok.chr ';' ∨ ls.t.token = Tok.TK_DBCOLON then
      match statement R fuel ls with
      | Except.error e => Except.error e
      | Except.ok ls1 => skipnoopstat R fuel ls1
    else Except.ok ls

/-- Source function `labelstat`: declares the label `label`, skips the no-op
statements after it, moves a label that ends its block to the level of the
block, and closes the pending gotos of the block that have its name. -/
def labelstat (R : StatRules) : Nat → LexState → TString → Int → Except ParseError LexState
  | 0, _, _, _ => Except.error ParseError.outOfFuel
  | fuel + 1, ls, label, line =>
    match ls.fs with
    | [] => Except.error ParseError.undefinedBehaviour
    | fs :: prev =>
      match checkrepeated fs ls.dyd.label label with
      | Except.error e => Except.error e
      | Except.ok _ =>
        match checknext ls Tok.TK_DBCOLON with
        | Except.error e => Except.error e
        | Except.ok ls1 =>
          let (pc, fs1) := luaK_getlabel fs
          match newlabelentry ls1 ls1.dyd.label label line pc with
          | Except.error e => Except.error e
          | Except.ok (l, label1) =>
            match skipnoopstat R fuel
                { ls1 with fs := fs1 :: prev, dyd := { ls1.dyd with label := label1 } } with
            | Except.error e => Except.error e
            | Except.ok ls2 =>
              match ls2.fs, ls2.dyd.label.get? l with
              | fs2 :: _, some lb =>
                match fs2.bl with
                | [] => Except.error ParseError.undefinedBehaviour
                | bl :: _ =>
                  let lb1 : Labeldesc :=
                    if block_follow ls2 false then { lb with nactvar := bl.nactvar } else lb
                  findgotos { ls2 with dyd := { ls2.dyd with label := ls2.dyd.label.set l lb1 } } lb1
              | _, _ => Except.error ParseError.undefinedBehaviour

end

/-! ## Expressions and assignment adjustment -/

/-- Modelled from the spec: `luaK_reserveregs(fs, n)`, register reservation: the
register frontier advances by `n`; the call is recorded. -/
def luaK_reserveregs (fs : FuncState) (n : Nat) : FuncState :=
  { fs with freereg := fs.freereg + n, kcalls := fs.kcalls ++ [KCall.reserveregs n] }

/-- Modelled from the spec: `luaK_nil(fs, from, n)`, the nil-fill of `n` registers
starting at `from`; the call is recorded. -/
def luaK_nil (fs : FuncState) (from_ n : Nat) : FuncState :=
  fs.emit (KCall.nil from_ n)

/-- Modelled from the spec: `luaK_setreturns(fs, e, nresults)` fixes the number of
results that the multi-result expression `e` is asked for; the call is
recorded. -/
def luaK_setreturns (fs : FuncState) (e : expdesc) (nresults : Int) : FuncState :=
  fs.emit (KCall.setreturns e nresults)

/-- Modelled from the spec: `luaK_exp2nextreg(fs, e)` materialises `e` into the
next register: a descriptor that already sits in a temporary register gives
that register back first, then one register is reserved and `e` becomes a
fixed-register descriptor for it; the call is recorded. -/
def luaK_exp2nextreg (fs : FuncState) (e : expdesc) : expdesc × FuncState :=
  let base : Nat :=
    if e.k = expkind.VNONRELOC ∧ (fs.nactvar : Int) ≤ e.info then fs.freereg - 1 else fs.freereg
  (init_exp expkind.VNONRELOC (base : Int),
    { fs with freereg := base + 1, kcalls := fs.kcalls ++ [KCall.exp2nextreg e] })

/-- Modelled from the spec: `luaK_codeABC(fs, op, a, b, c)`, instruction emission:
the instruction is recorded at the current program counter, which is
returned. -/
def luaK_codeABC (fs : FuncState) (op : OpCode) (a b c : Int) : Int × FuncState :=
  (fs.pc, { fs with pc := fs.pc + 1, kcalls := fs.kcalls ++ [KCall.codeABC fs.pc op a b c] })

/-- Modelled from the spec: `luaK_stringK(fs, s)`, constant-pool interning: the
index of the string constant, appended to the pool unless already there. -/
def luaK_stringK (fs : FuncState) (s : TString) : Int × FuncState :=
  if Konst.str s ∈ fs.k then ((fs.k.indexOf (Konst.str s) : Nat), fs)
  else ((fs.k.length : Nat), { fs with k := fs.k ++ [Konst.str s] })

/-- Modelled from the spec: `luaK_prefix(fs, op, e, line)` folds the operand of a
unary operator: the call is recorded and the result is a relocatable pending
instruction. -/
def luaK_prefix (fs : FuncState) (op : UnOpr) (e : expdesc) (line : Int) : expdesc × FuncState :=
  (init_exp expkind.VRELOCABLE fs.pc,
    { fs with pc := fs.pc + 1, kcalls := fs.kcalls ++ [KCall.prefixOp op e line] })

/-- Modelled from the spec: `luaK_infix(fs, op, v)` prepares the first operand of
a binary operator before the second is read; the call is recorded. -/
def luaK_infix (fs : FuncState) (op : BinOpr) (v : expdesc) : expdesc × FuncState :=
  (v, fs.emit (KCall.infixOp op v))

/-- Modelled from the spec: `luaK_posfix(fs, op, e1, e2, line)` folds both
operands of a binary operator: the call is recorded and the result is a
relocatable pending instruction. -/
def luaK_posfix (fs : FuncState) (op : BinOpr) (e1 e2 : expdesc) (line : Int) :
    expdesc × FuncState :=
  (init_exp expkind.VRELOCABLE fs.pc,
    { fs with pc := fs.pc + 1, kcalls := fs.kcalls ++ [KCall.posfixOp op e1 e2 line] })

/-- Modelled from the spec: the constant `LUA_MULTRET` (lua.h is not among the
sources): the open, runtime-determined count of results. -/
def LUA_MULTRET : Int := -1

/-- Modelled from the spec: the constant `LFIELDS_PER_FLUSH` (lopcodes.h is not
among the sources): "a fixed flush threshold, e.g. 50". -/
def LFIELDS_PER_FLUSH : Int := 50

/-- Modelled from the spec: the constant `MAX_INT` (llimits.h is not among the
sources), the largest `int`. -/
def MAX_INT : Int := 2147483647

/-- Modelled from the spec: the constant `MAXARG_Bx` (lopcodes.h is not among the
sources), the bound on the child prototypes of one function. -/
def MAXARG_Bx : Int := 262143

/-- Modelled from the spec: emission of one instruction that is described by
the recorded call `c`; the program counter advances and the position of the
instruction is returned. -/
def FuncState.code (fs : FuncState) (c : KCall) : Int × FuncState :=
  (fs.pc, { fs with pc := fs.pc + 1, kcalls := fs.kcalls ++ [c] })

/-- Modelled from the spec: the operand A of the instruction at `pc`, read back
from the recorded `luaK_codeABC` call that emitted it (0 when there is
none). -/
def FuncState.argA (fs : FuncState) (pc : Int) : Int :=
  match fs.kcalls.find? (fun c =>
      match c with
      | KCall.codeABC p _ _ _ _ => decide (p = pc)
      | _ => false) with
  | some (KCall.codeABC _ _ a _ _) => a
  | _ => 0

/-- Modelled from the spec: `luaK_ret(fs, first, nret)`, emission of a return
of `nret` values from register `first` on. -/
def luaK_ret (fs : FuncState) (first nret : Int) : FuncState :=
  (fs.code (KCall.ret first nret)).2

/-- Modelled from the spec: `luaK_setmultret(fs, e)`, the macro
`luaK_setreturns(fs, e, LUA_MULTRET)`. -/
def luaK_setmultret (fs : FuncState) (e : expdesc) : FuncState :=
  luaK_setreturns fs e LUA_MULTRET

/-- Modelled from the spec: `luaK_setlist(fs, base, nelems, tostore)`, the bulk
"write list into table" operation; the registers above the table are
released. -/
def luaK_setlist (fs : FuncState) (base nelems tostore : Int) : FuncState :=
  { (fs.code (KCall.setlist base nelems tostore)).2 with freereg := (base + 1).toNat }

/-- Modelled from the spec: `luaK_setoneret(fs, e)` fixes a multi-result
expression to one result: a call becomes a fixed-register descriptor for the
register of the call, a vararg expansion a relocatable one. -/
def luaK_setoneret (fs : FuncState) (e : expdesc) : expdesc × FuncState :=
  (if e.k = expkind.VCALL then { e with k := expkind.VNONRELOC, info := fs.argA e.info }
   else if e.k = expkind.VVARARG then { e with k := expkind.VRELOCABLE }
   else e,
   fs.emit (KCall.setoneret e))

/-- Modelled from the spec: the descriptor that `luaK_dischargevars` leaves: a
variable is read (a local stays in its register, an upvalue or an indexed
access becomes a relocatable pending instruction at `pc`), a multi-result
expression is fixed to one result, every other kind is left as it is. -/
def dischargedKind (fs : FuncState) (e : expdesc) : expdesc :=
  match e.k with
  | expkind.VLOCAL => { e with k := expkind.VNONRELOC }
  | expkind.VUPVAL => { e with k := expkind.VRELOCABLE, info := fs.pc }
  | expkind.VINDEXED => { e with k := expkind.VRELOCABLE, info := fs.pc }
  | expkind.VCALL => { e with k := expkind.VNONRELOC, info := fs.argA e.info }
  | expkind.VVARARG => { e with k := expkind.VRELOCABLE }
  | _ => e

/-- Modelled from the spec: `luaK_dischargevars(fs, e)`; reading an upvalue or
an indexed access emits one instruction. -/
def luaK_dischargevars (fs : FuncState) (e : expdesc) : expdesc × FuncState :=
  (dischargedKind fs e,
   if e.k = expkind.VUPVAL ∨ e.k = expkind.VINDEXED then
     (fs.code (KCall.dischargevars e)).2
   else fs.emit (KCall.dischargevars e))

/-- Modelled from the spec: `luaK_exp2val(fs, e)` ensures that `e` is a value
(a register or a constant); the call is recorded. -/
def luaK_exp2val (fs : FuncState) (e : expdesc) : expdesc × FuncState :=
  (dischargedKind fs e,
   if e.k = expkind.VUPVAL ∨ e.k = expkind.VINDEXED then (fs.code (KCall.exp2val e)).2
   else fs.emit (KCall.exp2val e))

/-- Modelled from the spec: `luaK_exp2anyreg(fs, e)` ensures that `e` is in some
register: a local or a fixed-register descriptor stays where it is, every
other kind is put into the next free register; the call is recorded. -/
def luaK_exp2anyreg (fs : FuncState) (e : expdesc) : expdesc × FuncState :=
  if e.k = expkind.VLOCAL ∨ e.k = expkind.VNONRELOC then
    (init_exp expkind.VNONRELOC e.info, fs.emit (KCall.exp2anyreg e))
  else
    (init_exp expkind.VNONRELOC (fs.freereg : Int),
      { fs with freereg := fs.freereg + 1, kcalls := fs.kcalls ++ [KCall.exp2anyreg e] })

/-- Modelled from the spec: `luaK_exp2anyregup(fs, e)` ensures that `e` is in some
register or is an upvalue; the call is recorded. -/
def luaK_exp2anyregup (fs : FuncState) (e : expdesc) : expdesc × FuncState :=
  if e.k = expkind.VUPVAL then (e, fs.emit (KCall.exp2anyregup e))
  else if e.k = expkind.VLOCAL ∨ e.k = expkind.VNONRELOC then
    (init_exp expkind.VNONRELOC e.info, fs.emit (KCall.exp2anyregup e))
  else
    (init_exp expkind.VNONRELOC (fs.freereg : Int),
      { fs with freereg := fs.freereg + 1, kcalls := fs.kcalls ++ [KCall.exp2anyregup e] })

/-- Modelled from the spec: `luaK_exp2RK(fs, e)` ensures that `e` is a register or
a constant-pool reference and returns its operand code: the index of the
constant with the constant bit (256) set, or the register; the call is
recorded. -/
def luaK_exp2RK (fs : FuncState) (e : expdesc) : Int × FuncState :=
  if e.k = expkind.VK ∧ e.info ≤ 255 then (e.info + 256, fs.emit (KCall.exp2RK e))
  else if e.k = expkind.VLOCAL ∨ e.k = expkind.VNONRELOC then
    (e.info, fs.emit (KCall.exp2RK e))
  else
    ((fs.freereg : Int),
      { fs with freereg := fs.freereg + 1, kcalls := fs.kcalls ++ [KCall.exp2RK e] })

/-- Modelled from the spec: `luaK_indexed(fs, t, k)` makes `t` the indexed access
`t[k]`: the table operand is the register or upvalue of `t`, the key operand
the register or constant of `k`; the call is recorded. -/
def luaK_indexed (fs : FuncState) (t k : expdesc) : expdesc × FuncState :=
  let r := luaK_exp2RK fs k
  ({ t with k := expkind.VINDEXED, ind_t := t.info, ind_idx := r.1,
            ind_vt := if t.k = expkind.VUPVAL then expkind.VUPVAL else expkind.VLOCAL },
   r.2.emit (KCall.indexed t k))

/-- Modelled from the spec: `luaK_self(fs, e, key)`, the method-call sugar: the
receiver is put into a register, two registers are reserved for the callee
and the receiver, and `e` becomes the fixed-register descriptor of the
callee; the call is recorded. -/
def luaK_self (fs : FuncState) (e key : expdesc) : expdesc × FuncState :=
  (init_exp expkind.VNONRELOC (fs.freereg : Int),
   { fs with pc := fs.pc + 1, freereg := fs.freereg + 2,
             kcalls := fs.kcalls ++ [KCall.self e key] })

/-- Modelled from the spec: `luaK_storevar(fs, var, ex)` stores the value `ex`
into the variable `var`; the call is recorded. -/
def luaK_storevar (fs : FuncState) (var ex : expdesc) : FuncState :=
  fs.emit (KCall.storevar var ex)

/-- Modelled from the spec: `luaK_goiftrue(fs, e)`: the code falls through when
`e` is true and jumps when it is false; the jump, unless `e` is a constant
that is true, is a new instruction that joins the false-exit list of `e`;
the call is recorded. -/
def luaK_goiftrue (fs : FuncState) (e : expdesc) : expdesc × FuncState :=
  if e.k = expkind.VK ∨ e.k = expkind.VKFLT ∨ e.k = expkind.VKINT ∨ e.k = expkind.VTRUE then
    ({ e with t := NO_JUMP }, fs.emit (KCall.goiftrue e))
  else
    ({ e with f := fs.pc, t := NO_JUMP }, (fs.code (KCall.goiftrue e)).2)

/-- Modelled from the spec: `luaK_goiffalse(fs, e)`: the code falls through when
`e` is false and jumps when it is true; the jump, unless `e` is `nil` or
`false`, is a new instruction that joins the true-exit list of `e`; the call
is recorded. -/
def luaK_goiffalse (fs : FuncState) (e : expdesc) : expdesc × FuncState :=
  if e.k = expkind.VNIL ∨ e.k = expkind.VFALSE then
    ({ e with f := NO_JUMP }, fs.emit (KCall.goiffalse e))
  else
    ({ e with t := fs.pc, f := NO_JUMP }, (fs.code (KCall.goiffalse e)).2)

/-- Modelled from the spec: `luaK_concat(fs, l1, l2)`, concatenation of two jump
lists; the call is recorded and the joined list is returned. -/
def luaK_concat (fs : FuncState) (l1 l2 : Int) : Int × FuncState :=
  (if l2 = NO_JUMP then l1 else if l1 = NO_JUMP then l2 else l1, fs.emit (KCall.concat l1 l2))

/-- Modelled from the spec: `luaK_jumpto(fs, t)`, the macro
`luaK_patchlist(fs, luaK_jump(fs), t)`. -/
def luaK_jumpto (fs : FuncState) (t : Int) : FuncState :=
  luaK_patchlist (luaK_jump fs).2 (luaK_jump fs).1 t

/-- Modelled from the spec: `luaK_fixline(fs, line)`, "fixing the source line of
the most recent instruction". -/
def luaK_fixline (fs : FuncState) (line : Int) : FuncState :=
  fs.emit (KCall.fixline line)

/-- Modelled from the spec: `luaK_codeABx(fs, op, a, bx)`, instruction emission. -/
def luaK_codeABx (fs : FuncState) (op : OpCode) (a bx : Int) : Int × FuncState :=
  fs.code (KCall.codeABx fs.pc op a bx)

/-- Modelled from the spec: `luaK_codeAsBx(fs, op, a, sbx)`, the macro over
`luaK_codeABx` for a signed operand. -/
def luaK_codeAsBx (fs : FuncState) (op : OpCode) (a sbx : Int) : Int × FuncState :=
  fs.code (KCall.codeAsBx fs.pc op a sbx)

/-- Modelled from the spec: `luaK_intK(fs, n)`, constant-pool interning of an
integer. -/
def luaK_intK (fs : FuncState) (n : Int) : Int × FuncState :=
  if Konst.int n ∈ fs.k then ((fs.k.indexOf (Konst.int n) : Nat), fs)
  else ((fs.k.length : Nat), { fs with k := fs.k ++ [Konst.int n] })

/-- Modelled from the spec: `luaK_codek(fs, reg, k)` loads the constant `k` into
the register `reg`. -/
def luaK_codek (fs : FuncState) (reg k : Int) : Int × FuncState :=
  fs.code (KCall.codek reg k)

/-- Modelled from the spec: `luaK_checkstack(fs, n)` makes room for `n` more
registers; the call is recorded. -/
def luaK_checkstack (fs : FuncState) (n : Nat) : FuncState :=
  fs.emit (KCall.checkstack n)

/-- Source function `getunopr`. -/
def getunopr (op : Tok) : UnOpr :=
  match op with
  | Tok.TK_NOT => UnOpr.OPR_NOT
  | Tok.chr '-' => UnOpr.OPR_MINUS
  | Tok.chr '~' => UnOpr.OPR_BNOT
  | Tok.chr '#' => UnOpr.OPR_LEN
  | _ => UnOpr.OPR_NOUNOPR

/-- Source function `getbinopr`. -/
def getbinopr (op : Tok) : BinOpr :=
  match op with
  | Tok.chr '+' => BinOpr.OPR_ADD
  | Tok.chr '-' => BinOpr.OPR_SUB
  | Tok.chr '*' => BinOpr.OPR_MUL
  | Tok.chr '%' => BinOpr.OPR_MOD
  | Tok.chr '^' => BinOpr.OPR_POW
  | Tok.chr '/' => BinOpr.OPR_DIV
  | Tok.TK_IDIV => BinOpr.OPR_IDIV
  | Tok.chr '&' => BinOpr.OPR_BAND
  | Tok.chr '|' => BinOpr.OPR_BOR
  | Tok.chr '~' => BinOpr.OPR_BXOR
  | Tok.TK_SHL => BinOpr.OPR_SHL
  | Tok.TK_SHR => BinOpr.OPR_SHR
  | Tok.TK_CONCAT => BinOpr.OPR_CONCAT
  | Tok.TK_NE => BinOpr.OPR_NE
  | Tok.TK_EQ => BinOpr.OPR_EQ
  | Tok.chr '<' => BinOpr.OPR_LT
  | Tok.TK_LE => BinOpr.OPR_LE
  | Tok.chr '>' => BinOpr.OPR_GT
  | Tok.TK_GE => BinOpr.OPR_GE
  | Tok.TK_AND => BinOpr.OPR_AND
  | Tok.TK_OR => BinOpr.OPR_OR
  | _ => BinOpr.OPR_NOBINOPR

/-- The table `priority[]` of the source (ORDER OPR): left and right priority
of each binary operator.  The entry of `OPR_NOBINOPR`, which the source never
reads, is (0, 0). -/
def priority (op : BinOpr) : Nat × Nat :=
  match op with
  | BinOpr.OPR_ADD => (10, 10)
  | BinOpr.OPR_SUB => (10, 10)
  | BinOpr.OPR_MUL => (11, 11)
  | BinOpr.OPR_MOD => (11, 11)
  | BinOpr.OPR_POW => (14, 13)
  | BinOpr.OPR_DIV => (11, 11)
  | BinOpr.OPR_IDIV => (11, 11)
  | BinOpr.OPR_BAND => (6, 6)
  | BinOpr.OPR_BOR => (4, 4)
  | BinOpr.OPR_BXOR => (5, 5)
  | BinOpr.OPR_SHL => (7, 7)
  | BinOpr.OPR_SHR => (7, 7)
  | BinOpr.OPR_CONCAT => (9, 8)
  | BinOpr.OPR_EQ => (3, 3)
  | BinOpr.OPR_LT => (3, 3)
  | BinOpr.OPR_LE => (3, 3)
  | BinOpr.OPR_NE => (3, 3)
  | BinOpr.OPR_GT => (3, 3)
  | BinOpr.OPR_GE => (3, 3)
  | BinOpr.OPR_AND => (2, 2)
  | BinOpr.OPR_OR => (1, 1)
  | BinOpr.OPR_NOBINOPR => (0, 0)

/-- The constant `UNARY_PRIORITY`: priority for unary operators. -/
def UNARY_PRIORITY : Nat := 12

/-- A parsing function that yields an expression descriptor. -/
abbrev ExprParser := LexState → Except ParseError (expdesc × LexState)

/-- Runs an emitter function on the current function state `ls->fs`. -/
def LexState.onFs {α : Type} (ls : LexState) (k : FuncState → α × FuncState) :
    Except ParseError (α × LexState) :=
  match ls.fs with
  | [] => Except.error ParseError.undefinedBehaviour
  | fs :: prev => Except.ok ((k fs).1, { ls with fs := (k fs).2 :: prev })

mutual

/-- Source function `subexpr`: `subexpr -> (simpleexp | unop subexpr) { binop subexpr }`
where `binop` is any binary operator with a priority higher than `limit`.
The result is the descriptor and the first untreated operator.  The first
argument bounds the number of nested calls and loop turns; `simpleexp` is the
parser of simple expressions. -/
def subexpr (simpleexp : ExprParser) :
    Nat → LexState → Nat → Except ParseError ((expdesc × BinOpr) × LexState)
  | 0, _, _ => Except.error ParseError.outOfFuel
  | fuel + 1, ls0, limit =>
    match enterlevel ls0 with
    | Except.error e => Except.error e
    | Except.ok ls =>
      let uop := getunopr ls.t.token
      let r : Except ParseError (expdesc × LexState) :=
        if uop ≠ UnOpr.OPR_NOUNOPR then
          let line := ls.linenumber
          match subexpr simpleexp fuel (luaX_next ls) UNARY_PRIORITY with
          | Except.error e => Except.error e
          | Except.ok ((v, _), ls1) => ls1.onFs (fun fs => luaK_prefix fs uop v line)
        else simpleexp ls
      match r with
      | Except.error e => Except.error e
      | Except.ok (v, ls1) => subexpr_while simpleexp fuel ls1 v (getbinopr ls1.t.token) limit

/-- The loop of `subexpr`: `while (op != OPR_NOBINOPR && priority[op].left > limit)`,
which folds one more operand per turn, followed by `leavelevel(ls); return op`. -/
def subexpr_while (simpleexp : ExprParser) :
    Nat → LexState → expdesc → BinOpr → Nat → Except ParseError ((expdesc × BinOpr) × LexState)
  | 0, _, _, _, _ => Except.error ParseError.outOfFuel
  | fuel + 1, ls, v, op, limit =>
    if op ≠ BinOpr.OPR_NOBINOPR ∧ (priority op).1 > limit then
      let line := ls.linenumber
      match (luaX_next ls).onFs (fun fs => luaK_infix fs op v) with
      | Except.error e => Except.error e
      | Except.ok (v1, ls1) =>
        match subexpr simpleexp fuel ls1 (priority op).2 with
        | Except.error e => Except.error e
        | Except.ok ((v2, nextop), ls2) =>
          match ls2.onFs (fun fs => luaK_posfix fs op v1 v2 line) with
          | Except.error e => Except.error e
          | Except.ok (v3, ls3) => subexpr_while simpleexp fuel ls3 v3 nextop limit
    else Except.ok ((v, op), leavelevel ls)

end

/-- Source function `expr`: `subexpr(ls, v, 0)`. -/
def expr (simpleexp : ExprParser) (fuel : Nat) : ExprParser :=
  fun ls =>
    match subexpr simpleexp fuel ls 0 with
    | Except.error e => Except.error e
    | Except.ok ((v, _), ls1) => Except.ok (v, ls1)

/-- The callees of `simpleexp` whose parsing functions are not embedded here:
table constructor, function body (with the arguments `ismethod` and `line`)
and suffixed expression. -/
structure ExpRules where
  constructor : ExprParser
  body : LexState → Bool → Int → Except ParseError (expdesc × LexState)
  suffixedexp : ExprParser

/-- Source function `simpleexp`:
`simpleexp -> FLT | INT | STRING | NIL | TRUE | FALSE | ... | constructor | FUNCTION body | suffixedexp`. -/
def simpleexp (E : ExpRules) : ExprParser :=
  fun ls =>
    match ls.t.token with
    | Tok.TK_FLT => Except.ok (init_exp expkind.VKFLT 0, luaX_next ls)
    | Tok.TK_INT => Except.ok ({ init_exp expkind.VKINT 0 with ival := ls.t.i }, luaX_next ls)
    | Tok.TK_STRING =>
      match ls.onFs (fun fs => luaK_stringK fs ls.t.ts) with
      | Except.error e => Except.error e
      | Except.ok (i, ls1) => Except.ok (init_exp expkind.VK i, luaX_next ls1)
    | Tok.TK_NIL => Except.ok (init_exp expkind.VNIL 0, luaX_next ls)
    | Tok.TK_TRUE => Except.ok (init_exp expkind.VTRUE 0, luaX_next ls)
    | Tok.TK_FALSE => Except.ok (init_exp expkind.VFALSE 0, luaX_next ls)
    | Tok.TK_DOTS =>
      match ls.fs with
      | [] => Except.error ParseError.undefinedBehaviour
      | fs :: _ =>
        if ¬ fs.f.is_vararg then
          Except.error (ParseError.syntaxerror "cannot use '...' outside a vararg function")
        else
          match ls.onFs (fun fs => luaK_codeABC fs OpCode.OP_VARARG 0 1 0) with
          | Except.error e => Except.error e
          | Except.ok (pc, ls1) => Except.ok (init_exp expkind.VVARARG pc, luaX_next ls1)
    | Tok.chr '{' => E.constructor ls
    | Tok.TK_FUNCTION => E.body (luaX_next ls) false (luaX_next ls).linenumber
    | _ => E.suffixedexp ls

/-- Source function `registerlocalvar`: appends the debug record of a new local
named `varname` and returns its index.  `luaM_growvector` fails at `SHRT_MAX`
records ("local variables"). -/
def registerlocalvar (ls : LexState) (varname : TString) : Except ParseError (Nat × LexState) :=
  match ls.fs with
  | [] => Except.error ParseError.undefinedBehaviour
  | fs :: prev =>
    if (fs.nlocvars : Int) ≥ SHRT_MAX then
      Except.error (ParseError.tooMany "local variables" SHRT_MAX)
    else
      Except.ok (fs.nlocvars, { ls with fs :=
        { fs with f := { fs.f with locvars := fs.f.locvars ++ [{ varname := varname }] } } :: prev })

/-- Source function `new_localvar`: registers a new local named `name` and
appends it to the list of active variables, after the check against
`MAXVARS`.  The index fits the `short` of the entry, by the limit of
`registerlocalvar`; the growth of the list itself is bounded by `MAX_INT`
only, which is not represented. -/
def new_localvar (ls : LexState) (name : TString) : Except ParseError LexState :=
  match registerlocalvar ls name with
  | Except.error e => Except.error e
  | Except.ok (reg, ls1) =>
    match ls1.fs with
    | [] => Except.error ParseError.undefinedBehaviour
    | fs :: _ =>
      match checklimit fs ((ls1.dyd.actvar.length : Int) + 1 - (fs.firstlocal : Int)) MAXVARS
          "local variables" with
      | Except.error e => Except.error e
      | Except.ok _ =>
        Except.ok { ls1 with dyd := { ls1.dyd with actvar := ls1.dyd.actvar ++ [{ idx := reg }] } }

/-- Loop of `adjustlocalvars`: `for (; nvars; nvars--) getlocvar(fs, fs->nactvar - nvars)->startpc = fs->pc`. -/
def adjustlocalvars_loop (dyd : Dyndata) : Nat → FuncState → Option FuncState
  | 0, fs => some fs
  | nvars + 1, fs =>
    match dyd.actvar.get? (fs.firstlocal + (fs.nactvar - (nvars + 1))) with
    | none => none
    | some vd =>
      match fs.f.locvars.get? vd.idx with
      | none => none
      | some lv =>
        adjustlocalvars_loop dyd nvars
          { fs with f := { fs.f with locvars := fs.f.locvars.set vd.idx { lv with startpc := fs.pc } } }

/-- Source function `adjustlocalvars`: activates the last `nvars` declared
locals; their liveness starts at the current position.  When the byte
`fs->nactvar` wraps below `nvars` the source indexes the active variables with
a negative number. -/
def adjustlocalvars (ls : LexState) (nvars : Nat) : Except ParseError LexState :=
  match ls.fs with
  | [] => Except.error ParseError.undefinedBehaviour
  | fs :: prev =>
    if cast_byte (fs.nactvar + nvars) < nvars then Except.error ParseError.undefinedBehaviour
    else
      match adjustlocalvars_loop ls.dyd nvars
          { fs with nactvar := cast_byte (fs.nactvar + nvars) } with
      | none => Except.error ParseError.undefinedBehaviour
      | some fs1 => Except.ok { ls with fs := fs1 :: prev }

/-- Source function `adjust_assign`: adjusts `nexps` values, the last one
described by `e`, to `nvars` variables. -/
def adjust_assign (ls : LexState) (nvars nexps : Int) (e : expdesc) : Except ParseError LexState :=
  match ls.fs with
  | [] => Except.error ParseError.undefinedBehaviour
  | fs :: prev =>
    let extra : Int := nvars - nexps
    let fs1 : FuncState :=
      if hasmultret e.k then
        let extra1 : Int := if extra + 1 < 0 then 0 else extra + 1
        let fsr := luaK_setreturns fs e extra1
        if extra1 > 1 then luaK_reserveregs fsr (extra1 - 1).toNat else fsr
      else
        let fse := if e.k ≠ expkind.VVOID then (luaK_exp2nextreg fs e).2 else fs
        if extra > 0 then
          let reg := fse.freereg
          luaK_nil (luaK_reserveregs fse extra.toNat) reg extra.toNat
        else fse
    let fs2 : FuncState :=
      if nexps > nvars then { fs1 with freereg := cast_byte ((fs1.freereg : Int) - (nexps - nvars)) }
      else fs1
    Except.ok { ls with fs := fs2 :: prev }

/-- Source function `explist`: `explist -> expr { ',' expr }`; all values but the
last are put into registers.  The result is the number of expressions, the
descriptor of the last one and the state. -/
def explist (expr : ExprParser) (ls : LexState) :
    Nat → Except ParseError ((Nat × expdesc) × LexState)
  | 0 => Except.error ParseError.outOfFuel
  | fuel + 1 =>
    match expr ls with
    | Except.error e => Except.error e
    | Except.ok (v, ls1) => explist_loop expr fuel 1 v ls1
where
  /-- The loop `while (testnext(ls, ',')) { luaK_exp2nextreg(ls->fs, v); expr(ls, v); n++; }`. -/
  explist_loop (expr : ExprParser) :
      Nat → Nat → expdesc → LexState → Except ParseError ((Nat × expdesc) × LexState)
    | 0, _, _, _ => Except.error ParseError.outOfFuel
    | fuel + 1, n, v, ls =>
      match testnext ls (Tok.chr ',') with
      | (true, ls1) =>
        match ls1.onFs (fun fs => luaK_exp2nextreg fs v) with
        | Except.error e => Except.error e
        | Except.ok (_, ls2) =>
          match expr ls2 with
          | Except.error e => Except.error e
          | Except.ok (v1, ls3) => explist_loop expr fuel (n + 1) v1 ls3
      | (false, ls1) => Except.ok ((n, v), ls1)

/-- Source function `localstat`: `stat -> LOCAL NAME {',' NAME} ['=' explist]`. -/
def localstat (expr : ExprParser) (fuel : Nat) (ls : LexState) : Except ParseError LexState :=
  match localstat_names fuel 0 ls with
  | Except.error e => Except.error e
  | Except.ok (nvars, ls1) =>
    let r : Except ParseError ((Nat × expdesc) × LexState) :=
      match testnext ls1 (Tok.chr '=') with
      | (true, ls2) => explist expr ls2 fuel
      | (false, ls2) => Except.ok ((0, { k := expkind.VVOID }), ls2)
    match r with
    | Except.error e => Except.error e
    | Except.ok ((nexps, e), ls3) =>
      match adjust_assign ls3 nvars nexps e with
      | Except.error err => Except.error err
      | Except.ok ls4 => adjustlocalvars ls4 nvars
where
  /-- The loop `do { new_localvar(ls, str_checkname(ls)); nvars++; } while (testnext(ls, ','))`. -/
  localstat_names : Nat → Nat → LexState → Except ParseError (Nat × LexState)
    | 0, _, _ => Except.error ParseError.outOfFuel
    | fuel + 1, nvars, ls =>
      match str_checkname ls with
      | Except.error e => Except.error e
      | Except.ok (name, ls1) =>
        match new_localvar ls1 name with
        | Except.error e => Except.error e
        | Except.ok ls2 =>
          match testnext ls2 (Tok.chr ',') with
          | (true, ls3) => localstat_names fuel (nvars + 1) ls3
          | (false, ls3) => Except.ok (nvars + 1, ls3)

/-! ## Names, fields and table constructors -/

/-- A parser of statements: the state after the statement, or the error. -/
abbrev StmtParser := LexState → Except ParseError LexState

/-- Runs an emitter function without result on the current function state
`ls->fs`. -/
def LexState.doFs (ls : LexState) (k : FuncState → FuncState) : Except ParseError LexState :=
  match ls.fs with
  | [] => Except.error ParseError.undefinedBehaviour
  | fs :: prev => Except.ok { ls with fs := k fs :: prev }

/-- Source function `codestring`: `init_exp(e, VK, luaK_stringK(ls->fs, s))`. -/
def codestring (ls : LexState) (s : TString) : Except ParseError (expdesc × LexState) :=
  match ls.onFs (fun fs => luaK_stringK fs s) with
  | Except.error e => Except.error e
  | Except.ok (i, ls1) => Except.ok (init_exp expkind.VK i, ls1)

/-- Source function `checkname`: `codestring(ls, e, str_checkname(ls))`. -/
def checkname (ls : LexState) : Except ParseError (expdesc × LexState) :=
  match str_checkname ls with
  | Except.error e => Except.error e
  | Except.ok (s, ls1) => codestring ls1 s

/-- Source function `singlevar`: resolves the name at the current token; a name
that no function of the chain knows is a global, rewritten as the access
`_ENV[name]` through the resolution of the environment name.  The assertion
that the environment name resolves is not executed. -/
def singlevar (ls : LexState) : Except ParseError (expdesc × LexState) :=
  match str_checkname ls with
  | Except.error e => Except.error e
  | Except.ok (varname, ls1) =>
    match singlevaraux ls1.dyd ls1.fs varname true with
    | Except.error e => Except.error e
    | Except.ok (var, fss) =>
      if var.k = expkind.VVOID then
        match singlevaraux ls1.dyd fss ls1.envn true with
        | Except.error e => Except.error e
        | Except.ok (var1, fss1) =>
          match codestring { ls1 with fs := fss1 } varname with
          | Except.error e => Except.error e
          | Except.ok (key, ls2) => ls2.onFs (fun fs => luaK_indexed fs var1 key)
      else Except.ok (var, { ls1 with fs := fss })

/-- Source function `fieldsel`: `fieldsel -> ['.' | ':'] NAME`. -/
def fieldsel (ls : LexState) (v : expdesc) : Except ParseError (expdesc × LexState) :=
  match ls.onFs (fun fs => luaK_exp2anyregup fs v) with
  | Except.error e => Except.error e
  | Except.ok (v1, ls1) =>
    match checkname (luaX_next ls1) with
    | Except.error e => Except.error e
    | Except.ok (key, ls2) => ls2.onFs (fun fs => luaK_indexed fs v1 key)

/-- Source function `yindex`: `index -> '[' expr ']'`. -/
def yindex (expr : ExprParser) (ls : LexState) : Except ParseError (expdesc × LexState) :=
  match expr (luaX_next ls) with
  | Except.error e => Except.error e
  | Except.ok (v, ls1) =>
    match ls1.onFs (fun fs => luaK_exp2val fs v) with
    | Except.error e => Except.error e
    | Except.ok (v1, ls2) =>
      match checknext ls2 (Tok.chr ']') with
      | Except.error e => Except.error e
      | Except.ok ls3 => Except.ok (v1, ls3)

/-- The structure `ConsControl` of the source: the last list item read `v`, the
table descriptor `t` (a pointer in the source; the table descriptor does not
change while the fields are read), the numbers `nh` of record elements and
`na` of array elements, and the number `tostore` of array elements pending
to be stored. -/
structure ConsControl where
  v : expdesc
  t : expdesc
  nh : Int := 0
  na : Int := 0
  tostore : Int := 0
  deriving DecidableEq, Repr

/-- Source function `closelistfield`: puts the pending list item into the next
register and flushes the pending items when there are `LFIELDS_PER_FLUSH` of
them. -/
def closelistfield (fs : FuncState) (cc : ConsControl) : ConsControl × FuncState :=
  if cc.v.k = expkind.VVOID then (cc, fs)
  else
    let r := luaK_exp2nextreg fs cc.v
    let cc1 : ConsControl := { cc with v := { r.1 with k := expkind.VVOID } }
    if cc1.tostore = LFIELDS_PER_FLUSH then
      ({ cc1 with tostore := 0 }, luaK_setlist r.2 cc1.t.info cc1.na cc1.tostore)
    else (cc1, r.2)

/-- Source function `lastlistfield`: the final flush of a constructor; a last
list item with multiple results is stored with an open count and is not
counted in `na`. -/
def lastlistfield (fs : FuncState) (cc : ConsControl) : ConsControl × FuncState :=
  if cc.tostore = 0 then (cc, fs)
  else if hasmultret cc.v.k then
    ({ cc with na := cc.na - 1 },
      luaK_setlist (luaK_setmultret fs cc.v) cc.t.info cc.na LUA_MULTRET)
  else
    let r : expdesc × FuncState :=
      if cc.v.k ≠ expkind.VVOID then luaK_exp2nextreg fs cc.v else (cc.v, fs)
    ({ cc with v := r.1 }, luaK_setlist r.2 cc.t.info cc.na cc.tostore)

/-- Source function `listfield`: `listfield -> exp`. -/
def listfield (expr : ExprParser) (ls : LexState) (cc : ConsControl) :
    Except ParseError (ConsControl × LexState) :=
  match expr ls with
  | Except.error e => Except.error e
  | Except.ok (v, ls1) =>
    match ls1.fs with
    | [] => Except.error ParseError.undefinedBehaviour
    | fs :: _ =>
      match checklimit fs cc.na MAX_INT "items in a constructor" with
      | Except.error e => Except.error e
      | Except.ok _ =>
        Except.ok ({ cc with v := v, na := cc.na + 1, tostore := cc.tostore + 1 }, ls1)

/-- Source function `recfield`: `recfield -> (NAME | '['exp1']') = exp1`; the
element is written to the table at once and its registers are released. -/
def recfield (expr : ExprParser) (ls : LexState) (cc : ConsControl) :
    Except ParseError (ConsControl × LexState) :=
  match ls.fs with
  | [] => Except.error ParseError.undefinedBehaviour
  | fs :: _ =>
    let reg := fs.freereg
    let rkey : Except ParseError (expdesc × LexState) :=
      if ls.t.token = Tok.TK_NAME then
        match checklimit fs cc.nh MAX_INT "items in a constructor" with
        | Except.error e => Except.error e
        | Except.ok _ => checkname ls
      else yindex expr ls
    match rkey with
    | Except.error e => Except.error e
    | Except.ok (key, ls1) =>
      match checknext ls1 (Tok.chr '=') with
      | Except.error e => Except.error e
      | Except.ok ls2 =>
        match ls2.onFs (fun fs => luaK_exp2RK fs key) with
        | Except.error e => Except.error e
        | Except.ok (rkkey, ls3) =>
          match expr ls3 with
          | Except.error e => Except.error e
          | Except.ok (val, ls4) =>
            match ls4.onFs (fun fs => luaK_exp2RK fs val) with
            | Except.error e => Except.error e
            | Except.ok (rkval, ls5) =>
              match ls5.doFs (fun fs =>
                  { (luaK_codeABC fs OpCode.OP_SETTABLE cc.t.info rkkey rkval).2 with
                    freereg := reg }) with
              | Except.error e => Except.error e
              | Except.ok ls6 => Except.ok ({ cc with nh := cc.nh + 1 }, ls6)

/-- Modelled from the spec: `luaX_lookahead(ls)`, the "lookahead-next" probe of
the token source: the kind of the token after the current one, which stays
to be delivered. -/
def luaX_lookahead (ls : LexState) : Tok :=
  match ls.input with
  | [] => Tok.TK_EOS
  | tk :: _ => tk.token

/-- Source function `field`: `field -> listfield | recfield`. -/
def field (expr : ExprParser) (ls : LexState) (cc : ConsControl) :
    Except ParseError (ConsControl × LexState) :=
  match ls.t.token with
  | Tok.TK_NAME =>
    if luaX_lookahead ls ≠ Tok.chr '=' then listfield expr ls cc else recfield expr ls cc
  | Tok.chr '[' => recfield expr ls cc
  | _ => listfield expr ls cc

/-- The loop of `constructor`:
`do { if (ls->t.token == '}') break; closelistfield(fs, &cc); field(ls, &cc); }
while (testnext(ls, ',') || testnext(ls, ';'))`. -/
def constructor_loop (expr : ExprParser) :
    Nat → ConsControl → LexState → Except ParseError (ConsControl × LexState)
  | 0, _, _ => Except.error ParseError.outOfFuel
  | fuel + 1, cc, ls =>
    if ls.t.token = Tok.chr '}' then Except.ok (cc, ls)
    else
      match ls.onFs (fun fs => closelistfield fs cc) with
      | Except.error e => Except.error e
      | Except.ok (cc1, ls1) =>
        match field expr ls1 cc1 with
        | Except.error e => Except.error e
        | Except.ok (cc2, ls2) =>
          match testnext ls2 (Tok.chr ',') with
          | (true, ls3) => constructor_loop expr fuel cc2 ls3
          | (false, ls3) =>
            match testnext ls3 (Tok.chr ';') with
            | (true, ls4) => constructor_loop expr fuel cc2 ls4
            | (false, ls4) => Except.ok (cc2, ls4)

/-- The first part of `constructor`, up to the opening brace: the new-table
instruction is emitted at `pc` and fixed at the next register, and the
control structure starts with no list item and all counts 0.  The result is
`pc`, the control structure and the state after the brace. -/
def constructor_open (ls : LexState) : Except ParseError ((Int × ConsControl) × LexState) :=
  match ls.onFs (fun fs => luaK_codeABC fs OpCode.OP_NEWTABLE 0 0 0) with
  | Except.error e => Except.error e
  | Except.ok (pc, ls1) =>
    match ls1.onFs (fun fs => luaK_exp2nextreg fs (init_exp expkind.VRELOCABLE pc)) with
    | Except.error e => Except.error e
    | Except.ok (t, ls2) =>
      match checknext ls2 (Tok.chr '{') with
      | Except.error e => Except.error e
      | Except.ok ls3 => Except.ok ((pc, { v := init_exp expkind.VVOID 0, t := t }), ls3)

/-- The last part of `constructor`, from the closing brace on: the final flush
and the two size operands of the new-table instruction at `pc`, recorded as
the counts `cc.na` and `cc.nh` themselves (the source encodes each with
`luaO_int2fb`). -/
def constructor_close (ls : LexState) (line pc : Int) (cc : ConsControl) :
    Except ParseError LexState :=
  match check_match ls (Tok.chr '}') (Tok.chr '{') line with
  | Except.error e => Except.error e
  | Except.ok ls1 =>
    match ls1.onFs (fun fs => lastlistfield fs cc) with
    | Except.error e => Except.error e
    | Except.ok (cc1, ls2) =>
      ls2.doFs (fun fs => (fs.emit (KCall.setargB pc cc1.na)).emit (KCall.setargC pc cc1.nh))

/-- Source function `constructor`:
`constructor -> '{' [ field { sep field } [sep] ] '}'`. -/
def constructor (expr : ExprParser) (fuel : Nat) : ExprParser :=
  fun ls =>
    let line := ls.linenumber
    match constructor_open ls with
    | Except.error e => Except.error e
    | Except.ok ((pc, cc), ls1) =>
      match constructor_loop expr fuel cc ls1 with
      | Except.error e => Except.error e
      | Except.ok (cc1, ls2) =>
        match constructor_close ls2 line pc cc1 with
        | Except.error e => Except.error e
        | Except.ok ls3 => Except.ok (cc.t, ls3)

/-! ## Function bodies -/

/-- Source function `statlist`: `statlist -> { stat [';'] }`; a `return` statement
is the last statement of its list.  The first argument bounds the number of
statements. -/
def statlist (statement : StmtParser) : Nat → LexState → Except ParseError LexState
  | 0, _ => Except.error ParseError.outOfFuel
  | fuel + 1, ls =>
    if block_follow ls true then Except.ok ls
    else if ls.t.token = Tok.TK_RETURN then statement ls
    else
      match statement ls with
      | Except.error e => Except.error e
      | Except.ok ls1 => statlist statement fuel ls1

/-- Source function `block`: `block -> statlist`, in a block of its own. -/
def block (statement : StmtParser) (fuel : Nat) : StmtParser :=
  fun ls =>
    match enterblock ls false with
    | Except.error e => Except.error e
    | Except.ok ls1 =>
      match statlist statement fuel ls1 with
      | Except.error e => Except.error e
      | Except.ok ls2 => leaveblock ls2

/-- Source function `addprototype`: a new, empty prototype is added to the
prototypes of the current function; `luaM_growvector` fails at `MAXARG_Bx`
prototypes ("functions").  The list of child prototypes itself is not
represented, only its length `fs->np`. -/
def addprototype (ls : LexState) : Except ParseError (Proto × LexState) :=
  match ls.fs with
  | [] => Except.error ParseError.undefinedBehaviour
  | fs :: prev =>
    if fs.np ≥ MAXARG_Bx then Except.error (ParseError.tooMany "functions" MAXARG_Bx)
    else Except.ok ({}, { ls with fs := { fs with np := fs.np + 1 } :: prev })

/-- Source function `open_func`: a new function state for the prototype `f`
becomes the current one, linked to the previous one, with all its counters
reset, and enters its outermost block. -/
def open_func (ls : LexState) (f : Proto) : Except ParseError LexState :=
  enterblock
    { ls with fs :=
      { f := { f with locvars := [], upvalues := [] }, bl := [], pc := 0, lasttarget := 0,
        jpc := NO_JUMP, k := [], np := 0, firstlocal := ls.dyd.actvar.length, nactvar := 0,
        freereg := 0, kcalls := [] } :: ls.fs } false

/-- Source function `close_func`: the final return is emitted, the outermost
block is left and the previous function state becomes the current one.  The
result holds the function state that was closed. -/
def close_func (ls : LexState) : Except ParseError (FuncState × LexState) :=
  match ls.doFs (fun fs => luaK_ret fs 0 0) with
  | Except.error e => Except.error e
  | Except.ok ls1 =>
    match leaveblock ls1 with
    | Except.error e => Except.error e
    | Except.ok ls2 =>
      match ls2.fs with
      | [] => Except.error ParseError.undefinedBehaviour
      | fs :: prev => Except.ok (fs, { ls2 with fs := prev })

/-- Source function `codeclosure`: the instruction that creates the closure of
the function being closed is emitted in the enclosing function
(`ls->fs->prev`) and fixed at its next register. -/
def codeclosure (ls : LexState) : Except ParseError (expdesc × LexState) :=
  match ls.fs with
  | cur :: fs :: prev =>
    let r := luaK_codeABx fs OpCode.OP_CLOSURE 0 (fs.np - 1)
    let r1 := luaK_exp2nextreg r.2 (init_exp expkind.VRELOCABLE r.1)
    Except.ok (r1.1, { ls with fs := cur :: r1.2 :: prev })
  | _ => Except.error ParseError.undefinedBehaviour

/-- The loop of `parlist`: one parameter per turn,
`do { ... } while (!f->is_vararg && testnext(ls, ','))`; the result is the number
of named parameters. -/
def parlist_loop : Nat → Nat → LexState → Except ParseError (Nat × LexState)
  | 0, _, _ => Except.error ParseError.outOfFuel
  | fuel + 1, nparams, ls =>
    let r : Except ParseError (Nat × LexState) :=
      match ls.t.token with
      | Tok.TK_NAME =>
        match str_checkname ls with
        | Except.error e => Except.error e
        | Except.ok (name, ls1) =>
          match new_localvar ls1 name with
          | Except.error e => Except.error e
          | Except.ok ls2 => Except.ok (nparams + 1, ls2)
      | Tok.TK_DOTS =>
        match (luaX_next ls).doFs (fun fs => { fs with f := { fs.f with is_vararg := true } }) with
        | Except.error e => Except.error e
        | Except.ok ls1 => Except.ok (nparams, ls1)
      | _ => Except.error (ParseError.syntaxerror "<name> or '...' expected")
    match r with
    | Except.error e => Except.error e
    | Except.ok (n1, ls1) =>
      match ls1.fs with
      | [] => Except.error ParseError.undefinedBehaviour
      | fs :: _ =>
        if fs.f.is_vararg then Except.ok (n1, ls1)
        else
          match testnext ls1 (Tok.chr ',') with
          | (true, ls2) => parlist_loop fuel n1 ls2
          | (false, ls2) => Except.ok (n1, ls2)

/-- Source function `parlist`: `parlist -> [ param { ',' param } ]`; the parameters
become active locals, in registers of their own. -/
def parlist (fuel : Nat) (ls : LexState) : Except ParseError LexState :=
  match ls.doFs (fun fs => { fs with f := { fs.f with is_vararg := false } }) with
  | Except.error e => Except.error e
  | Except.ok ls0 =>
    let r : Except ParseError (Nat × LexState) :=
      if ls0.t.token ≠ Tok.chr ')' then parlist_loop fuel 0 ls0 else Except.ok (0, ls0)
    match r with
    | Except.error e => Except.error e
    | Except.ok (nparams, ls1) =>
      match adjustlocalvars ls1 nparams with
      | Except.error e => Except.error e
      | Except.ok ls2 =>
        ls2.doFs (fun fs =>
          luaK_reserveregs { fs with f := { fs.f with numparams := cast_byte fs.nactvar } }
            fs.nactvar)

/-- Source function `body`: `body -> '(' parlist ')' block END`, parsed in a new
function state; the closure is created in the enclosing function.  The field
`lastlinedefined` of the prototype is not represented. -/
def body (statement : StmtParser) (fuel : Nat) (ls : LexState) (ismethod : Bool)
    (line : Int) : Except ParseError (expdesc × LexState) :=
  match addprototype ls with
  | Except.error e => Except.error e
  | Except.ok (clp, ls1) =>
    match open_func ls1 { clp with linedefined := line } with
    | Except.error e => Except.error e
    | Except.ok ls2 =>
      match checknext ls2 (Tok.chr '(') with
      | Except.error e => Except.error e
      | Except.ok ls3 =>
        let r : Except ParseError LexState :=
          if ismethod then
            match new_localvar ls3 "self" with
            | Except.error e => Except.error e
            | Except.ok ls4 => adjustlocalvars ls4 1
          else Except.ok ls3
        match r with
        | Except.error e => Except.error e
        | Except.ok ls5 =>
          match parlist fuel ls5 with
          | Except.error e => Except.error e
          | Except.ok ls6 =>
            match checknext ls6 (Tok.chr ')') with
            | Except.error e => Except.error e
            | Except.ok ls7 =>
              match statlist statement fuel ls7 with
              | Except.error e => Except.error e
              | Except.ok ls8 =>
                match check_match ls8 Tok.TK_END Tok.TK_FUNCTION line with
                | Except.error e => Except.error e
                | Except.ok ls9 =>
                  match codeclosure ls9 with
                  | Except.error e => Except.error e
                  | Except.ok (e, ls10) =>
                    match close_func ls10 with
                    | Except.error err => Except.error err
                    | Except.ok (_, ls11) => Except.ok (e, ls11)

/-! ## Suffixed expressions -/

/-- Source function `funcargs`: the arguments of a call of the function in
register `f.info` (a parenthesised list, a table constructor or a string),
and the call instruction; the result describes the call. -/
def funcargs (expr : ExprParser) (fuel : Nat) (ls : LexState) (f : expdesc) (line : Int) :
    Except ParseError (expdesc × LexState) :=
  let rargs : Except ParseError (expdesc × LexState) :=
    match ls.t.token with
    | Tok.chr '(' =>
      let ls1 := luaX_next ls
      let r : Except ParseError (expdesc × LexState) :=
        if ls1.t.token = Tok.chr ')' then Except.ok ({ k := expkind.VVOID }, ls1)
        else
          match explist expr ls1 fuel with
          | Except.error e => Except.error e
          | Except.ok ((_, args), ls2) =>
            match ls2.doFs (fun fs => luaK_setmultret fs args) with
            | Except.error e => Except.error e
            | Except.ok ls3 => Except.ok (args, ls3)
      match r with
      | Except.error e => Except.error e
      | Except.ok (args, ls2) =>
        match check_match ls2 (Tok.chr ')') (Tok.chr '(') line with
        | Except.error e => Except.error e
        | Except.ok ls3 => Except.ok (args, ls3)
    | Tok.chr '{' => constructor expr fuel ls
    | Tok.TK_STRING =>
      match codestring ls ls.t.ts with
      | Except.error e => Except.error e
      | Except.ok (args, ls1) => Except.ok (args, luaX_next ls1)
    | _ => Except.error (ParseError.syntaxerror "function arguments expected")
  match rargs with
  | Except.error e => Except.error e
  | Except.ok (args, ls1) =>
    let base := f.info
    ls1.onFs (fun fs =>
      let r : Int × FuncState :=
        if hasmultret args.k then (LUA_MULTRET, fs)
        else
          let fs1 := if args.k ≠ expkind.VVOID then (luaK_exp2nextreg fs args).2 else fs
          ((fs1.freereg : Int) - (base + 1), fs1)
      let c := luaK_codeABC r.2 OpCode.OP_CALL base (r.1 + 1) 2
      (init_exp expkind.VCALL c.1,
        { luaK_fixline c.2 line with freereg := (base + 1).toNat }))

/-- Source function `primaryexp`: `primaryexp -> NAME | '(' expr ')'`. -/
def primaryexp (expr : ExprParser) : ExprParser :=
  fun ls =>
    match ls.t.token with
    | Tok.chr '(' =>
      let line := ls.linenumber
      match expr (luaX_next ls) with
      | Except.error e => Except.error e
      | Except.ok (v, ls1) =>
        match check_match ls1 (Tok.chr ')') (Tok.chr '(') line with
        | Except.error e => Except.error e
        | Except.ok ls2 => ls2.onFs (fun fs => luaK_dischargevars fs v)
    | Tok.TK_NAME => singlevar ls
    | _ => Except.error (ParseError.syntaxerror "unexpected symbol")

/-- The loop of `suffixedexp`: one suffix (`.NAME`, `[exp]`, `:NAME funcargs` or
`funcargs`) per turn. -/
def suffixedexp_loop (expr : ExprParser) (line : Int) :
    Nat → expdesc → LexState → Except ParseError (expdesc × LexState)
  | 0, _, _ => Except.error ParseError.outOfFuel
  | fuel + 1, v, ls =>
    match ls.t.token with
    | Tok.chr '.' =>
      match fieldsel ls v with
      | Except.error e => Except.error e
      | Except.ok (v1, ls1) => suffixedexp_loop expr line fuel v1 ls1
    | Tok.chr '[' =>
      match ls.onFs (fun fs => luaK_exp2anyregup fs v) with
      | Except.error e => Except.error e
      | Except.ok (v1, ls1) =>
        match yindex expr ls1 with
        | Except.error e => Except.error e
        | Except.ok (key, ls2) =>
          match ls2.onFs (fun fs => luaK_indexed fs v1 key) with
          | Except.error e => Except.error e
          | Except.ok (v2, ls3) => suffixedexp_loop expr line fuel v2 ls3
    | Tok.chr ':' =>
      match checkname (luaX_next ls) with
      | Except.error e => Except.error e
      | Except.ok (key, ls1) =>
        match ls1.onFs (fun fs => luaK_self fs v key) with
        | Except.error e => Except.error e
        | Except.ok (v1, ls2) =>
          match funcargs expr fuel ls2 v1 line with
          | Except.error e => Except.error e
          | Except.ok (v2, ls3) => suffixedexp_loop expr line fuel v2 ls3
    | Tok.chr '(' | Tok.TK_STRING | Tok.chr '{' =>
      match ls.onFs (fun fs => luaK_exp2nextreg fs v) with
      | Except.error e => Except.error e
      | Except.ok (v1, ls1) =>
        match funcargs expr fuel ls1 v1 line with
        | Except.error e => Except.error e
        | Except.ok (v2, ls2) => suffixedexp_loop expr line fuel v2 ls2
    | _ => Except.ok (v, ls)

/-- Source function `suffixedexp`:
`suffixedexp -> primaryexp { '.' NAME | '[' exp ']' | ':' NAME funcargs | funcargs }`. -/
def suffixedexp (expr : ExprParser) (fuel : Nat) : ExprParser :=
  fun ls =>
    let line := ls.linenumber
    match primaryexp expr ls with
    | Except.error e => Except.error e
    | Except.ok (v, ls1) => suffixedexp_loop expr line fuel v ls1

/-! ## Assignments, calls, returns and function statements -/

/-- Modelled from the spec: the macro `vkisvar(k)` of lparser.h (not among the
sources): the kind is a variable, "local, upvalue or indexed". -/
def vkisvar (k : expkind) : Bool :=
  decide (k = expkind.VLOCAL) || decide (k = expkind.VUPVAL) || decide (k = expkind.VINDEXED)

/-- The loop of `check_conflict` over the chain of earlier targets (the most
recent first): an indexed target whose table or index operand is the
variable `v` is redirected to the register `extra`.  The result is the chain
and the flag `conflict`. -/
def check_conflict_loop (v : expdesc) (extra : Int) : List expdesc → List expdesc × Bool
  | [] => ([], false)
  | lh :: rest =>
    let r := check_conflict_loop v extra rest
    if lh.k = expkind.VINDEXED then
      let c1 : Bool := decide (lh.ind_vt = v.k ∧ lh.ind_t = v.info)
      let lh1 : expdesc := if c1 then { lh with ind_vt := expkind.VLOCAL, ind_t := extra } else lh
      let c2 : Bool := decide (v.k = expkind.VLOCAL ∧ lh1.ind_idx = v.info)
      let lh2 : expdesc := if c2 then { lh1 with ind_idx := extra } else lh1
      (lh2 :: r.1, c1 || c2 || r.2)
    else (lh :: r.1, r.2)

/-- Source function `check_conflict`: in an assignment to the local or upvalue
`v`, the earlier indexed targets that use `v` use a copy of it instead, made
in the register at the frontier. -/
def check_conflict (fs : FuncState) (lh : List expdesc) (v : expdesc) :
    List expdesc × FuncState :=
  let extra : Int := fs.freereg
  let r := check_conflict_loop v extra lh
  if r.2 then
    let op := if v.k = expkind.VLOCAL then OpCode.OP_MOVE else OpCode.OP_GETUPVAL
    (r.1, luaK_reserveregs (luaK_codeABC fs op extra v.info 0).2 1)
  else (r.1, fs)

/-- Source function `assignment`: the rest of an assignment whose targets so
far are `lh` (the most recent first, `nvars` of them).  The result holds the
chain of targets as the conflict checks have left it.  The first argument
bounds the number of further targets. -/
def assignment (suffixedexp expr : ExprParser) :
    Nat → LexState → List expdesc → Int → Except ParseError (List expdesc × LexState)
  | 0, _, _, _ => Except.error ParseError.outOfFuel
  | _, _, [], _ => Except.error ParseError.undefinedBehaviour
  | fuel + 1, ls, lhv :: prev, nvars =>
    if ¬ vkisvar lhv.k then Except.error (ParseError.syntaxerror "syntax error")
    else
      let r : Except ParseError (Bool × List expdesc × LexState) :=
        match testnext ls (Tok.chr ',') with
        | (true, ls1) =>
          match suffixedexp ls1 with
          | Except.error e => Except.error e
          | Except.ok (nv, ls2) =>
            match ls2.fs with
            | [] => Except.error ParseError.undefinedBehaviour
            | fs :: fprev =>
              let c : List expdesc × FuncState :=
                if nv.k ≠ expkind.VINDEXED then check_conflict fs (lhv :: prev) nv
                else (lhv :: prev, fs)
              match checklimit c.2 (nvars + (ls2.nCcalls : Int)) LUAI_MAXCCALLS "C levels" with
              | Except.error e => Except.error e
              | Except.ok _ =>
                match assignment suffixedexp expr fuel { ls2 with fs := c.2 :: fprev }
                    (nv :: c.1) (nvars + 1) with
                | Except.error e => Except.error e
                | Except.ok (chain, ls3) => Except.ok (true, chain.tail, ls3)
        | (false, ls1) =>
          match checknext ls1 (Tok.chr '=') with
          | Except.error e => Except.error e
          | Except.ok ls2 =>
            match explist expr ls2 fuel with
            | Except.error e => Except.error e
            | Except.ok ((nexps, e), ls3) =>
              if (nexps : Int) ≠ nvars then
                match adjust_assign ls3 nvars nexps e with
                | Except.error err => Except.error err
                | Except.ok ls4 => Except.ok (true, lhv :: prev, ls4)
              else
                match ls3.onFs (fun fs => luaK_setoneret fs e) with
                | Except.error err => Except.error err
                | Except.ok (e1, ls4) =>
                  match ls4.doFs (fun fs => luaK_storevar fs lhv e1) with
                  | Except.error err => Except.error err
                  | Except.ok ls5 => Except.ok (false, lhv :: prev, ls5)
      match r with
      | Except.error e => Except.error e
      | Except.ok (false, chain, ls1) => Except.ok (chain, ls1)
      | Except.ok (true, chain, ls1) =>
        match chain with
        | [] => Except.error ParseError.undefinedBehaviour
        | lh1 :: _ =>
          match ls1.doFs (fun fs =>
              luaK_storevar fs lh1 (init_exp expkind.VNONRELOC ((fs.freereg : Int) - 1))) with
          | Except.error e => Except.error e
          | Except.ok ls2 => Except.ok (chain, ls2)

/-- Source function `exprstat`: `stat -> func | assignment`; a call statement
uses no results (operand C of the call instruction is set to 1). -/
def exprstat (suffixedexp expr : ExprParser) (fuel : Nat) : StmtParser :=
  fun ls =>
    match suffixedexp ls with
    | Except.error e => Except.error e
    | Except.ok (v, ls1) =>
      if ls1.t.token = Tok.chr '=' ∨ ls1.t.token = Tok.chr ',' then
        match assignment suffixedexp expr fuel ls1 [v] 1 with
        | Except.error e => Except.error e
        | Except.ok (_, ls2) => Except.ok ls2
      else if v.k ≠ expkind.VCALL then Except.error (ParseError.syntaxerror "syntax error")
      else ls1.doFs (fun fs => fs.emit (KCall.setargC v.info 1))

/-- Source function `retstat`: `stat -> RETURN [explist] [';']`. -/
def retstat (expr : ExprParser) (fuel : Nat) : StmtParser :=
  fun ls =>
    let r : Except ParseError ((Int × Int) × LexState) :=
      if block_follow ls true ∨ ls.t.token = Tok.chr ';' then Except.ok ((0, 0), ls)
      else
        match explist expr ls fuel with
        | Except.error e => Except.error e
        | Except.ok ((nret, e), ls1) =>
          if hasmultret e.k then
            ls1.onFs (fun fs =>
              let fs1 := luaK_setmultret fs e
              let fs2 :=
                if e.k = expkind.VCALL ∧ nret = 1 then
                  fs1.emit (KCall.setopcode e.info OpCode.OP_TAILCALL)
                else fs1
              (((fs2.nactvar : Int), LUA_MULTRET), fs2))
          else if nret = 1 then
            ls1.onFs (fun fs =>
              let a := luaK_exp2anyreg fs e
              ((a.1.info, (nret : Int)), a.2))
          else
            ls1.onFs (fun fs =>
              let a := luaK_exp2nextreg fs e
              (((a.2.nactvar : Int), (nret : Int)), a.2))
    match r with
    | Except.error e => Except.error e
    | Except.ok ((first, nret), ls1) =>
      match ls1.doFs (fun fs => luaK_ret fs first nret) with
      | Except.error e => Except.error e
      | Except.ok ls2 => Except.ok (testnext ls2 (Tok.chr ';')).2

/-- Source function `localfunc`: the new local is active while the body is
parsed; its debug record starts after the closure is created. -/
def localfunc (body : LexState → Bool → Int → Except ParseError (expdesc × LexState)) :
    StmtParser :=
  fun ls =>
    match str_checkname ls with
    | Except.error e => Except.error e
    | Except.ok (name, ls1) =>
      match new_localvar ls1 name with
      | Except.error e => Except.error e
      | Except.ok ls2 =>
        match adjustlocalvars ls2 1 with
        | Except.error e => Except.error e
        | Except.ok ls3 =>
          match body ls3 false ls3.linenumber with
          | Except.error e => Except.error e
          | Except.ok (b, ls4) =>
            match ls4.fs with
            | [] => Except.error ParseError.undefinedBehaviour
            | fs :: prev =>
              if b.info < 0 then Except.error ParseError.undefinedBehaviour
              else
                match ls4.dyd.actvar.get? (fs.firstlocal + b.info.toNat) with
                | none => Except.error ParseError.undefinedBehaviour
                | some vd =>
                  match fs.f.locvars.get? vd.idx with
                  | none => Except.error ParseError.undefinedBehaviour
                  | some lv =>
                    Except.ok { ls4 with fs :=
                      { fs with f := { fs.f with
                          locvars := fs.f.locvars.set vd.idx { lv with startpc := fs.pc } } }
                        :: prev }

/-- The loop of `funcname`: `while (ls->t.token == '.') fieldsel(ls, v)`. -/
def funcname_loop : Nat → expdesc → LexState → Except ParseError (expdesc × LexState)
  | 0, _, _ => Except.error ParseError.outOfFuel
  | fuel + 1, v, ls =>
    if ls.t.token = Tok.chr '.' then
      match fieldsel ls v with
      | Except.error e => Except.error e
      | Except.ok (v1, ls1) => funcname_loop fuel v1 ls1
    else Except.ok (v, ls)

/-- Source function `funcname`: `funcname -> NAME {fieldsel} [':' NAME]`; the
result tells whether the name is a method name. -/
def funcname (fuel : Nat) (ls : LexState) : Except ParseError ((Bool × expdesc) × LexState) :=
  match singlevar ls with
  | Except.error e => Except.error e
  | Except.ok (v, ls1) =>
    match funcname_loop fuel v ls1 with
    | Except.error e => Except.error e
    | Except.ok (v1, ls2) =>
      if ls2.t.token = Tok.chr ':' then
        match fieldsel ls2 v1 with
        | Except.error e => Except.error e
        | Except.ok (v2, ls3) => Except.ok ((true, v2), ls3)
      else Except.ok ((false, v1), ls2)

/-- Source function `funcstat`: `funcstat -> FUNCTION funcname body`. -/
def funcstat (body : LexState → Bool → Int → Except ParseError (expdesc × LexState))
    (fuel : Nat) (ls : LexState) (line : Int) : Except ParseError LexState :=
  match funcname fuel (luaX_next ls) with
  | Except.error e => Except.error e
  | Except.ok ((ismethod, v), ls1) =>
    match body ls1 ismethod line with
    | Except.error e => Except.error e
    | Except.ok (b, ls2) =>
      ls2.doFs (fun fs => luaK_fixline (luaK_storevar fs v b) line)

/-! ## Loops and conditionals -/

/-- Source function `cond`: `cond -> exp`; the result is the false-exit list of
the condition. -/
def cond (expr : ExprParser) (ls : LexState) : Except ParseError (Int × LexState) :=
  match expr ls with
  | Except.error e => Except.error e
  | Except.ok (v, ls1) =>
    let v1 : expdesc := if v.k = expkind.VNIL then { v with k := expkind.VFALSE } else v
    match ls1.onFs (fun fs => luaK_goiftrue fs v1) with
    | Except.error e => Except.error e
    | Except.ok (v2, ls2) => Except.ok (v2.f, ls2)

/-- Source function `whilestat`: `whilestat -> WHILE cond DO block END`. -/
def whilestat (expr : ExprParser) (statement : StmtParser) (fuel : Nat) (ls : LexState)
    (line : Int) : Except ParseError LexState :=
  match (luaX_next ls).onFs luaK_getlabel with
  | Except.error e => Except.error e
  | Except.ok (whileinit, ls1) =>
    match cond expr ls1 with
    | Except.error e => Except.error e
    | Except.ok (condexit, ls2) =>
      match enterblock ls2 true with
      | Except.error e => Except.error e
      | Except.ok ls3 =>
        match checknext ls3 Tok.TK_DO with
        | Except.error e => Except.error e
        | Except.ok ls4 =>
          match block statement fuel ls4 with
          | Except.error e => Except.error e
          | Except.ok ls5 =>
            match ls5.doFs (fun fs => luaK_jumpto fs whileinit) with
            | Except.error e => Except.error e
            | Except.ok ls6 =>
              match check_match ls6 Tok.TK_END Tok.TK_WHILE line with
              | Except.error e => Except.error e
              | Except.ok ls7 =>
                match leaveblock ls7 with
                | Except.error e => Except.error e
                | Except.ok ls8 => ls8.doFs (fun fs => luaK_patchtohere fs condexit)

/-- Source function `repeatstat`: `repeatstat -> REPEAT block UNTIL cond`; the
condition is read inside the scope block of the body. -/
def repeatstat (expr : ExprParser) (statement : StmtParser) (fuel : Nat) (ls : LexState)
    (line : Int) : Except ParseError LexState :=
  match ls.onFs luaK_getlabel with
  | Except.error e => Except.error e
  | Except.ok (repeat_init, ls1) =>
    match enterblock ls1 true with
    | Except.error e => Except.error e
    | Except.ok ls2 =>
      match enterblock ls2 false with
      | Except.error e => Except.error e
      | Except.ok ls3 =>
        match statlist statement fuel (luaX_next ls3) with
        | Except.error e => Except.error e
        | Except.ok ls4 =>
          match check_match ls4 Tok.TK_UNTIL Tok.TK_REPEAT line with
          | Except.error e => Except.error e
          | Except.ok ls5 =>
            match cond expr ls5 with
            | Except.error e => Except.error e
            | Except.ok (condexit, ls6) =>
              match ls6.fs with
              | [] => Except.error ParseError.undefinedBehaviour
              | fs :: prev =>
                match fs.bl with
                | [] => Except.error ParseError.undefinedBehaviour
                | bl2 :: _ =>
                  let fs1 := if bl2.upval then luaK_patchclose fs condexit bl2.nactvar else fs
                  match leaveblock { ls6 with fs := fs1 :: prev } with
                  | Except.error e => Except.error e
                  | Except.ok ls7 =>
                    match ls7.doFs (fun fs => luaK_patchlist fs condexit repeat_init) with
                    | Except.error e => Except.error e
                    | Except.ok ls8 => leaveblock ls8

/-- Source function `exp1`: an expression put into the next register, whose
number is the result. -/
def exp1 (expr : ExprParser) (ls : LexState) : Except ParseError (Int × LexState) :=
  match expr ls with
  | Except.error e => Except.error e
  | Except.ok (e, ls1) =>
    match ls1.onFs (fun fs => luaK_exp2nextreg fs e) with
    | Except.error err => Except.error err
    | Except.ok (e1, ls2) => Except.ok (e1.info, ls2)

/-- Source function `forbody`: `forbody -> DO block`, shared by both kinds of
`for`: the three control variables become active, then the `nvars` declared
variables in a scope of their own. -/
def forbody (statement : StmtParser) (fuel : Nat) (ls : LexState) (base line : Int)
    (nvars : Nat) (isnum : Bool) : Except ParseError LexState :=
  match adjustlocalvars ls 3 with
  | Except.error e => Except.error e
  | Except.ok ls1 =>
    match checknext ls1 Tok.TK_DO with
    | Except.error e => Except.error e
    | Except.ok ls2 =>
      match ls2.onFs (fun fs =>
          if isnum then luaK_codeAsBx fs OpCode.OP_FORPREP base NO_JUMP else luaK_jump fs) with
      | Except.error e => Except.error e
      | Except.ok (prep, ls3) =>
        match enterblock ls3 false with
        | Except.error e => Except.error e
        | Except.ok ls4 =>
          match adjustlocalvars ls4 nvars with
          | Except.error e => Except.error e
          | Except.ok ls5 =>
            match ls5.doFs (fun fs => luaK_reserveregs fs nvars) with
            | Except.error e => Except.error e
            | Except.ok ls6 =>
              match block statement fuel ls6 with
              | Except.error e => Except.error e
              | Except.ok ls7 =>
                match leaveblock ls7 with
                | Except.error e => Except.error e
                | Except.ok ls8 =>
                  ls8.doFs (fun fs =>
                    let fs1 := luaK_patchtohere fs prep
                    let r : Int × FuncState :=
                      if isnum then luaK_codeAsBx fs1 OpCode.OP_FORLOOP base NO_JUMP
                      else
                        luaK_codeAsBx
                          (luaK_fixline
                            (luaK_codeABC fs1 OpCode.OP_TFORCALL base 0 (nvars : Int)).2 line)
                          OpCode.OP_TFORLOOP (base + 2) NO_JUMP
                    luaK_fixline (luaK_patchlist r.2 r.1 (prep + 1)) line)

/-- Source function `fornum`: `fornum -> NAME = exp1,exp1[,exp1] forbody`. -/
def fornum (expr : ExprParser) (statement : StmtParser) (fuel : Nat) (ls : LexState)
    (varname : TString) (line : Int) : Except ParseError LexState :=
  match ls.fs with
  | [] => Except.error ParseError.undefinedBehaviour
  | fs :: _ =>
    let base : Int := fs.freereg
    match new_localvar ls "(for index)" with
    | Except.error e => Except.error e
    | Except.ok ls1 =>
      match new_localvar ls1 "(for limit)" with
      | Except.error e => Except.error e
      | Except.ok ls2 =>
        match new_localvar ls2 "(for step)" with
        | Except.error e => Except.error e
        | Except.ok ls3 =>
          match new_localvar ls3 varname with
          | Except.error e => Except.error e
          | Except.ok ls4 =>
            match checknext ls4 (Tok.chr '=') with
            | Except.error e => Except.error e
            | Except.ok ls5 =>
              match exp1 expr ls5 with
              | Except.error e => Except.error e
              | Except.ok (_, ls6) =>
                match checknext ls6 (Tok.chr ',') with
                | Except.error e => Except.error e
                | Except.ok ls7 =>
                  match exp1 expr ls7 with
                  | Except.error e => Except.error e
                  | Except.ok (_, ls8) =>
                    let r : Except ParseError LexState :=
                      match testnext ls8 (Tok.chr ',') with
                      | (true, ls9) =>
                        match exp1 expr ls9 with
                        | Except.error e => Except.error e
                        | Except.ok (_, ls10) => Except.ok ls10
                      | (false, ls9) =>
                        ls9.doFs (fun fs =>
                          let k := luaK_intK fs 1
                          luaK_reserveregs (luaK_codek k.2 (k.2.freereg : Int) k.1).2 1)
                    match r with
                    | Except.error e => Except.error e
                    | Except.ok ls11 => forbody statement fuel ls11 base line 1 true

/-- The loop of `forlist` over the declared names:
`while (testnext(ls, ',')) { new_localvar(ls, str_checkname(ls)); nvars++; }`. -/
def forlist_names : Nat → Nat → LexState → Except ParseError (Nat × LexState)
  | 0, _, _ => Except.error ParseError.outOfFuel
  | fuel + 1, nvars, ls =>
    match testnext ls (Tok.chr ',') with
    | (true, ls1) =>
      match str_checkname ls1 with
      | Except.error e => Except.error e
      | Except.ok (name, ls2) =>
        match new_localvar ls2 name with
        | Except.error e => Except.error e
        | Except.ok ls3 => forlist_names fuel (nvars + 1) ls3
    | (false, ls1) => Except.ok (nvars, ls1)

/-- Source function `forlist`: `forlist -> NAME {,NAME} IN explist forbody`. -/
def forlist (expr : ExprParser) (statement : StmtParser) (fuel : Nat) (ls : LexState)
    (indexname : TString) : Except ParseError LexState :=
  match ls.fs with
  | [] => Except.error ParseError.undefinedBehaviour
  | fs :: _ =>
    let base : Int := fs.freereg
    match new_localvar ls "(for generator)" with
    | Except.error e => Except.error e
    | Except.ok ls1 =>
      match new_localvar ls1 "(for state)" with
      | Except.error e => Except.error e
      | Except.ok ls2 =>
        match new_localvar ls2 "(for control)" with
        | Except.error e => Except.error e
        | Except.ok ls3 =>
          match new_localvar ls3 indexname with
          | Except.error e => Except.error e
          | Except.ok ls4 =>
            match forlist_names fuel 4 ls4 with
            | Except.error e => Except.error e
            | Except.ok (nvars, ls5) =>
              match checknext ls5 Tok.TK_IN with
              | Except.error e => Except.error e
              | Except.ok ls6 =>
                let line := ls6.linenumber
                match explist expr ls6 fuel with
                | Except.error e => Except.error e
                | Except.ok ((nexps, e), ls7) =>
                  match adjust_assign ls7 3 nexps e with
                  | Except.error err => Except.error err
                  | Except.ok ls8 =>
                    match ls8.doFs (fun fs => luaK_checkstack fs 3) with
                    | Except.error err => Except.error err
                    | Except.ok ls9 => forbody statement fuel ls9 base line (nvars - 3) false

/-- Source function `forstat`: `forstat -> FOR (fornum | forlist) END`, in a loop
block for the loop and its control variables. -/
def forstat (expr : ExprParser) (statement : StmtParser) (fuel : Nat) (ls : LexState)
    (line : Int) : Except ParseError LexState :=
  match enterblock ls true with
  | Except.error e => Except.error e
  | Except.ok ls1 =>
    match str_checkname (luaX_next ls1) with
    | Except.error e => Except.error e
    | Except.ok (varname, ls2) =>
      let r : Except ParseError LexState :=
        match ls2.t.token with
        | Tok.chr '=' => fornum expr statement fuel ls2 varname line
        | Tok.chr ',' | Tok.TK_IN => forlist expr statement fuel ls2 varname
        | _ => Except.error (ParseError.syntaxerror "'=' or 'in' expected")
      match r with
      | Except.error e => Except.error e
      | Except.ok ls3 =>
        match check_match ls3 Tok.TK_END Tok.TK_FOR line with
        | Except.error e => Except.error e
        | Except.ok ls4 => leaveblock ls4

/-- The loop `while (testnext(ls, ';')) {}` of `test_then_block`. -/
def skipsemicolons : Nat → LexState → Except ParseError LexState
  | 0, _ => Except.error ParseError.outOfFuel
  | fuel + 1, ls =>
    match testnext ls (Tok.chr ';') with
    | (true, ls1) => skipsemicolons fuel ls1
    | (false, ls1) => Except.ok ls1

/-- Source function `test_then_block`:
`test_then_block -> [IF | ELSEIF] cond THEN block`; a condition followed at once
by `goto` or `break` jumps to the label when it is true.  The result is the
escape list with the jump over the remaining parts added. -/
def test_then_block (expr : ExprParser) (statement : StmtParser) (fuel : Nat)
    (ls : LexState) (escapelist : Int) : Except ParseError (Int × LexState) :=
  match expr (luaX_next ls) with
  | Except.error e => Except.error e
  | Except.ok (v, ls1) =>
    match checknext ls1 Tok.TK_THEN with
    | Except.error e => Except.error e
    | Except.ok ls2 =>
      let r : Except ParseError (Option Int × LexState) :=
        if ls2.t.token = Tok.TK_GOTO ∨ ls2.t.token = Tok.TK_BREAK then
          match ls2.onFs (fun fs => luaK_goiffalse fs v) with
          | Except.error e => Except.error e
          | Except.ok (v1, ls3) =>
            match enterblock ls3 false with
            | Except.error e => Except.error e
            | Except.ok ls4 =>
              match gotostat ls4 v1.t with
              | Except.error e => Except.error e
              | Except.ok ls5 =>
                match skipsemicolons fuel ls5 with
                | Except.error e => Except.error e
                | Except.ok ls6 =>
                  if block_follow ls6 false then
                    match leaveblock ls6 with
                    | Except.error e => Except.error e
                    | Except.ok ls7 => Except.ok (none, ls7)
                  else
                    match ls6.onFs luaK_jump with
                    | Except.error e => Except.error e
                    | Except.ok (jf, ls7) =>
                      match statlist statement fuel ls7 with
                      | Except.error e => Except.error e
                      | Except.ok ls8 =>
                        match leaveblock ls8 with
                        | Except.error e => Except.error e
                        | Except.ok ls9 => Except.ok (some jf, ls9)
        else
          match ls2.onFs (fun fs => luaK_goiftrue fs v) with
          | Except.error e => Except.error e
          | Except.ok (v1, ls3) =>
            match enterblock ls3 false with
            | Except.error e => Except.error e
            | Except.ok ls4 =>
              match statlist statement fuel ls4 with
              | Except.error e => Except.error e
              | Except.ok ls5 =>
                match leaveblock ls5 with
                | Except.error e => Except.error e
                | Except.ok ls6 => Except.ok (some v1.f, ls6)
      match r with
      | Except.error e => Except.error e
      | Except.ok (none, ls3) => Except.ok (escapelist, ls3)
      | Except.ok (some jf, ls3) =>
        let r1 : Except ParseError (Int × LexState) :=
          if ls3.t.token = Tok.TK_ELSE ∨ ls3.t.token = Tok.TK_ELSEIF then
            ls3.onFs (fun fs => luaK_concat (luaK_jump fs).2 escapelist (luaK_jump fs).1)
          else Except.ok (escapelist, ls3)
        match r1 with
        | Except.error e => Except.error e
        | Except.ok (esc1, ls4) =>
          match ls4.doFs (fun fs => luaK_patchtohere fs jf) with
          | Except.error e => Except.error e
          | Except.ok ls5 => Except.ok (esc1, ls5)

/-- The loop of `ifstat`: `while (ls->t.token == TK_ELSEIF) test_then_block(ls, &escapelist)`. -/
def ifstat_loop (expr : ExprParser) (statement : StmtParser) (fuel : Nat) :
    Nat → Int → LexState → Except ParseError (Int × LexState)
  | 0, _, _ => Except.error ParseError.outOfFuel
  | n + 1, escapelist, ls =>
    if ls.t.token = Tok.TK_ELSEIF then
      match test_then_block expr statement fuel ls escapelist with
      | Except.error e => Except.error e
      | Except.ok (esc1, ls1) => ifstat_loop expr statement fuel n esc1 ls1
    else Except.ok (escapelist, ls)

/-- Source function `ifstat`:
`ifstat -> IF cond THEN block {ELSEIF cond THEN block} [ELSE block] END`. -/
def ifstat (expr : ExprParser) (statement : StmtParser) (fuel : Nat) (ls : LexState)
    (line : Int) : Except ParseError LexState :=
  match test_then_block expr statement fuel ls NO_JUMP with
  | Except.error e => Except.error e
  | Except.ok (esc, ls1) =>
    match ifstat_loop expr statement fuel fuel esc ls1 with
    | Except.error e => Except.error e
    | Except.ok (esc1, ls2) =>
      let r : Except ParseError LexState :=
        match testnext ls2 Tok.TK_ELSE with
        | (true, ls3) => block statement fuel ls3
        | (false, ls3) => Except.ok ls3
      match r with
      | Except.error e => Except.error e
      | Except.ok ls4 =>
        match check_match ls4 Tok.TK_END Tok.TK_IF line with
        | Except.error e => Except.error e
        | Except.ok ls5 => ls5.doFs (fun fs => luaK_patchtohere fs esc1)

/-! ## The main function and the whole parser -/

/-- Source function `mainfunc`: compiles the main function, a vararg function
with one upvalue named after the environment.  The result holds the function
state of the main function as `close_func` leaves it. -/
def mainfunc (statement : StmtParser) (fuel : Nat) (ls : LexState) :
    Except ParseError (FuncState × LexState) :=
  match open_func ls {} with
  | Except.error e => Except.error e
  | Except.ok ls1 =>
    match ls1.fs with
    | [] => Except.error ParseError.undefinedBehaviour
    | fs :: prev =>
      match newupvalue { fs with f := { fs.f with is_vararg := true } } ls1.envn
          (init_exp expkind.VLOCAL 0) with
      | Except.error e => Except.error e
      | Except.ok (_, fs1) =>
        match statlist statement fuel (luaX_next { ls1 with fs := fs1 :: prev }) with
        | Except.error e => Except.error e
        | Except.ok ls2 =>
          match check ls2 Tok.TK_EOS with
          | Except.error e => Except.error e
          | Except.ok _ => close_func ls2

/-- The lexical state that `luaY_parser` sets up before `mainfunc`: the tokens
of the chunk are still to be delivered, no function is open and the three
lists of the dynamic data are empty. -/
def initialState (input : List Token) : LexState :=
  { input := input, fs := [], dyd := { actvar := [], gt := [], label := [] } }

/-- Source function `luaY_parser` (named `luaYParser` here): parses the chunk
with `mainfunc`.  The result holds the function state of the main function and the final lexical
state; the assertions after `mainfunc` are not executed. -/
def luaYParser (statement : StmtParser) (fuel : Nat) (input : List Token) :
    Except ParseError (FuncState × LexState) :=
  mainfunc statement fuel (initialState input)

/-- The callees of `statement` at one nesting level, built from the parsers
`S` of statements and `X` of expressions of the level below; `n` bounds the
loops. -/
def statRules (S : StmtParser) (X : ExprParser) (n : Nat) : StatRules :=
  { ifstat := ifstat X S n
    whilestat := whilestat X S n
    block := block S n
    forstat := forstat X S n
    repeatstat := repeatstat X S n
    funcstat := funcstat (body S n) n
    localfunc := localfunc (body S n)
    localstat := localstat X n
    retstat := retstat X n
    exprstat := exprstat (suffixedexp X n) X n }

/-- The callees of `simpleexp` at one nesting level, built from the parsers of
the level below. -/
def expRules (S : StmtParser) (X : ExprParser) (n : Nat) : ExpRules :=
  { constructor := constructor X n
    body := body S n
    suffixedexp := suffixedexp X n }

/-- The mutually recursive parsers `statement` and `expr` of the source, with
the nesting of statements and expressions bounded by the argument: a
statement or expression nested deeper fails with `outOfFuel`. -/
def parsers : Nat → StmtParser × ExprParser
  | 0 => (fun _ => Except.error ParseError.outOfFuel, fun _ => Except.error ParseError.outOfFuel)
  | n + 1 =>
    (statement (statRules (parsers n).1 (parsers n).2 n) n,
     expr (simpleexp (expRules (parsers n).1 (parsers n).2 n)) n)

/-- The whole parser: `luaY_parser` on the tokens of a chunk, with nesting and
loops bounded by `n`. -/
def parseChunk (n : Nat) (input : List Token) : Except ParseError (FuncState × LexState) :=
  luaYParser (parsers n).1 n input

/-- The test of `field` at the current token: the field is array-style
(`listfield`) and not a record field (`recfield`). -/
def isListField (ls : LexState) : Bool :=
  match ls.t.token with
  | Tok.TK_NAME => decide (luaX_lookahead ls ≠ Tok.chr '=')
  | Tok.chr '[' => false
  | _ => true

/-- The current token is a field separator, `,` or `;`. -/
def isSep (ls : LexState) : Bool :=
  decide (ls.t.token = Tok.chr ',' ∨ ls.t.token = Tok.chr ';')

/-- One turn of the loop of `constructor` reads one field, array-style or not
as `isList` tells: the current token is not the closing brace, the pending
list item is closed and `field` reads the field, which leads from `cc`, `ls`
to `cc2`, `ls2`. -/
def FieldStep (expr : ExprParser) (isList : Bool) (cc : ConsControl) (ls : LexState)
    (cc2 : ConsControl) (ls2 : LexState) : Prop :=
  ls.t.token ≠ Tok.chr '}' ∧ isListField ls = isList ∧
  ∃ cc1 ls1, ls.onFs (fun fs => closelistfield fs cc) = Except.ok (cc1, ls1) ∧
    field expr ls1 cc1 = Except.ok (cc2, ls2)

/-- The fields of one constructor, in order: `Fields expr kinds cc ls cc1 ls1`
holds when the loop of `constructor`, started at `cc`, `ls`, reads exactly the
fields whose kinds (`true` for array-style) are `kinds`, each but the last
followed by a separator and a further field, and stops at `cc1`, `ls1`:
after the last field when no separator follows it, or at the closing brace
after its separator. -/
inductive Fields (expr : ExprParser) :
    List Bool → ConsControl → LexState → ConsControl → LexState → Prop
  | last (kind : Bool) (cc : ConsControl) (ls : LexState) (cc2 : ConsControl) (ls2 : LexState) :
      FieldStep expr kind cc ls cc2 ls2 → isSep ls2 = false → Fields expr [kind] cc ls cc2 ls2
  | lastSep (kind : Bool) (cc : ConsControl) (ls : LexState) (cc2 : ConsControl)
      (ls2 : LexState) :
      FieldStep expr kind cc ls cc2 ls2 → isSep ls2 = true → (luaX_next ls2).t.token = Tok.chr '}' →
      Fields expr [kind] cc ls cc2 (luaX_next ls2)
  | more (kind : Bool) (kinds : List Bool) (cc : ConsControl) (ls : LexState)
      (cc2 : ConsControl) (ls2 : LexState) (cc3 : ConsControl) (ls3 : LexState) :
      FieldStep expr kind cc ls cc2 ls2 → isSep ls2 = true → (luaX_next ls2).t.token ≠ Tok.chr '}' →
      Fields expr kinds cc2 (luaX_next ls2) cc3 ls3 →
      Fields expr (kind :: kinds) cc ls cc3 ls3

/-- The state `ls` after the names `names` are declared in the current
function, in this order, by `new_localvar`: one debug record and one entry of
the active-variable list per name; none of them is active yet. -/
def withLocals (ls : LexState) (names : List TString) : LexState :=
  match ls.fs with
  | [] => ls
  | fs :: prev =>
    { ls with
      fs := { fs with f := { fs.f with
        locvars := fs.f.locvars ++ names.map (fun n => { varname := n }) } } :: prev,
      dyd := { ls.dyd with actvar := ls.dyd.actvar ++
        (List.range names.length).map (fun j => { idx := fs.nlocvars + j }) } }

/-- The end of `forbody`, after `leaveblock`: the preparation jump `prep` is
patched to here, the loop instruction (for the generic loop the call and the
loop instruction) is emitted and patched back to the instruction after `prep`. -/
def forbody_end (prep base line : Int) (nvars : Nat) (isnum : Bool) (fs : FuncState) :
    FuncState :=
  let fs1 := luaK_patchtohere fs prep
  let r : Int × FuncState :=
    if isnum then luaK_codeAsBx fs1 OpCode.OP_FORLOOP base NO_JUMP
    else
      luaK_codeAsBx
        (luaK_fixline
          (luaK_codeABC fs1 OpCode.OP_TFORCALL base 0 (nvars : Int)).2 line)
        OpCode.OP_TFORLOOP (base + 2) NO_JUMP
  luaK_fixline (luaK_patchlist r.2 r.1 (prep + 1)) line

/-- The tokens of a non-empty parameter list, read from the state `ls`: the
names `names` separated by commas and, when `dots` holds, a final `...`
(after a comma if there are names); `lsT` is the state at the token after the
list.  Without `...` the list ends at a name that no comma follows. -/
inductive Params : LexState → List TString → Bool → LexState → Prop where
  | last (ls : LexState) :
      ls.t.token = Tok.TK_NAME → (luaX_next ls).t.token ≠ Tok.chr ',' →
      Params ls [ls.t.ts] false (luaX_next ls)
  | dots (ls : LexState) :
      ls.t.token = Tok.TK_DOTS → Params ls [] true (luaX_next ls)
  | more (ls : LexState) (names : List TString) (d : Bool) (lsT : LexState) :
      ls.t.token = Tok.TK_NAME → (luaX_next ls).t.token = Tok.chr ',' →
      Params (luaX_next (luaX_next ls)) names d lsT →
      Params ls (ls.t.ts :: names) d lsT

/-- The first part of `body`, up to the call of `parlist`: the new prototype,
its function state, the opening parenthesis and, for a method, the parameter
`self`. -/
def body_open (ls : LexState) (ismethod : Bool) (line : Int) : Except ParseError LexState :=
  match addprototype ls with
  | Except.error e => Except.error e
  | Except.ok (clp, ls1) =>
    match open_func ls1 { clp with linedefined := line } with
    | Except.error e => Except.error e
    | Except.ok ls2 =>
      match checknext ls2 (Tok.chr '(') with
      | Except.error e => Except.error e
      | Except.ok ls3 =>
        if ismethod then
          match new_localvar ls3 "self" with
          | Except.error e => Except.error e
          | Except.ok ls4 => adjustlocalvars ls4 1
        else Except.ok ls3

/-- The binary operators of the table `priority[]`, in the order of its
entries (ORDER OPR); `OPR_NOBINOPR` has no entry. -/
def binaryOperators : List BinOpr :=
  [BinOpr.OPR_ADD, BinOpr.OPR_SUB, BinOpr.OPR_MUL, BinOpr.OPR_MOD, BinOpr.OPR_POW,
    BinOpr.OPR_DIV, BinOpr.OPR_IDIV, BinOpr.OPR_BAND, BinOpr.OPR_BOR, BinOpr.OPR_BXOR,
    BinOpr.OPR_SHL, BinOpr.OPR_SHR, BinOpr.OPR_CONCAT, BinOpr.OPR_EQ, BinOpr.OPR_LT,
    BinOpr.OPR_LE, BinOpr.OPR_NE, BinOpr.OPR_GT, BinOpr.OPR_GE, BinOpr.OPR_AND,
    BinOpr.OPR_OR]

/-- The bounds of the pending-item counter of a table constructor at the head
of its loop: `0 <= tostore <= LFIELDS_PER_FLUSH`, the assertion of the loop
(`cc.v.k == VVOID || cc.tostore > 0`), and a full buffer still holds its last
item. -/
def PendingOk (cc : ConsControl) : Prop :=
  0 ≤ cc.tostore ∧ cc.tostore ≤ LFIELDS_PER_FLUSH ∧
  (cc.v.k = expkind.VVOID ∨ 0 < cc.tostore) ∧
  (cc.tostore = LFIELDS_PER_FLUSH → cc.v.k ≠ expkind.VVOID)

/-- An expression parser whose descriptors are never of the kind `VVOID`. -/
def NonVoid (X : ExprParser) : Prop :=
  ∀ (ls ls1 : LexState) (v : expdesc), X ls = Except.ok (v, ls1) → v.k ≠ expkind.VVOID

/-- The simplified version of `findlabel` of the claim: as the source function,
but an upvalue close is attached to the goto on the only condition
`gt->nactvar > lb->nactvar`. -/
def findlabel_simple (ls : LexState) (g : Nat) : Except ParseError (Bool × LexState) :=
  match ls.fs, ls.dyd.gt.get? g with
  | fs :: prev, some gt =>
    match fs.bl with
    | [] => Except.error ParseError.undefinedBehaviour
    | bl :: _ =>
      match (ls.dyd.label.drop bl.firstlabel).find? (fun lb => eqstr lb.name gt.name) with
      | none => Except.ok (false, ls)
      | some lb =>
        let fs1 := if gt.nactvar > lb.nactvar then luaK_patchclose fs gt.pc lb.nactvar else fs
        match closegoto { ls with fs := fs1 :: prev } g lb with
        | Except.error e => Except.error e
        | Except.ok ls1 => Except.ok (true, ls1)
  | _, _ => Except.error ParseError.undefinedBehaviour

/-- The outermost function state of the chain (the main function) has an
upvalue named `envn`. -/
def EnvAtBottom (envn : TString) (fss : List FuncState) : Prop :=
  ∃ fs, fss.getLast? = some fs ∧ envn ∈ fs.f.upvalues.map Upvaldesc.name

universe u

/-- Two function states agree on what the invariants of the parse look at: the
upvalue descriptors and the vararg flag of the prototype, the chain of
blocks, the number of active locals and the index of the first local. -/
def sameFrame (fs fs1 : FuncState) : Prop :=
  fs1.f.upvalues = fs.f.upvalues ∧ fs1.f.is_vararg = fs.f.is_vararg ∧ fs1.bl = fs.bl ∧
  fs1.nactvar = fs.nactvar ∧ fs1.firstlocal = fs.firstlocal

/-- The laws of an invariant `J` of the lexical state that is indexed by a
context `c`: how each primitive step of the parser, the steps that are not
compositions of other steps, transports it.  `up c` is the context inside one
more nesting level, `decl c` the context with one more local that is declared
and not yet active, `push s c` the context inside a block entered in the state
`s`, and `fn s c` the context inside a function opened in the state `s`. -/
structure FrameLaws {C : Type u} (J : C → LexState → Prop) (up decl : C → C)
    (push fn : LexState → C → C) : Prop where
  push_decl : ∀ (s : LexState) (c : C), push s (decl c) = decl (push s c)
  next : ∀ {c : C} {ls : LexState}, J c ls → J c (luaX_next ls)
  head : ∀ {c : C} {ls : LexState} {fs fs1 : FuncState} {prev : List FuncState},
    ls.fs = fs :: prev → sameFrame fs fs1 → J c ls → J c { ls with fs := fs1 :: prev }
  second : ∀ {c : C} {ls : LexState} {cur fs fs1 : FuncState} {prev : List FuncState},
    ls.fs = cur :: fs :: prev → sameFrame fs fs1 → J c ls →
    J c { ls with fs := cur :: fs1 :: prev }
  newvar : ∀ {c : C} {ls ls1 : LexState} {name : TString},
    new_localvar ls name = Except.ok ls1 → J c ls → J (decl c) ls1
  adjust : ∀ {c : C} {ls ls1 : LexState} {n : Nat},
    adjustlocalvars ls n = Except.ok ls1 → J (Nat.iterate decl n c) ls → J c ls1
  enter : ∀ {c : C} {ls ls1 : LexState}, enterlevel ls = Except.ok ls1 → J c ls → J (up c) ls1
  leave : ∀ {c : C} {ls : LexState}, J (up c) ls → J c (leavelevel ls)
  vararg : ∀ {c : C} {s ls : LexState} {fs : FuncState} {prev : List FuncState} {b : Bool}
    {k : Nat}, ls.fs = fs :: prev → J (Nat.iterate decl k (fn s c)) ls →
    J (Nat.iterate decl k (fn s c))
      { ls with fs := { fs with f := { fs.f with is_vararg := b } } :: prev }
  enterblock : ∀ {c : C} {ls ls1 : LexState} {b : Bool},
    enterblock ls b = Except.ok ls1 → J c ls → J (push ls c) ls1
  leaveblock : ∀ {c : C} {s ls ls1 : LexState},
    leaveblock ls = Except.ok ls1 → J (push s c) ls → J c ls1
  openf : ∀ {c : C} {ls ls1 : LexState} {f : Proto},
    open_func ls f = Except.ok ls1 → J c ls → J (fn ls c) ls1
  closef : ∀ {c : C} {s ls ls1 : LexState} {fs : FuncState},
    close_func ls = Except.ok (fs, ls1) → J (fn s c) ls → J c ls1
  resolve : ∀ {c : C} {ls : LexState} {fss0 fss : List FuncState} {n : TString} {v : expdesc},
    singlevaraux ls.dyd fss0 n true = Except.ok (v, fss) →
    J c { ls with fs := fss0 } → J c { ls with fs := fss }
  jump : ∀ {c : C} {ls ls1 : LexState} {pc : Int},
    gotostat ls pc = Except.ok ls1 → J c ls → J c ls1
  addlabel : ∀ {c : C} {ls : LexState} {name : TString} {line pc : Int} {l : Nat}
    {label1 : List Labeldesc},
    newlabelentry ls ls.dyd.label name line pc = Except.ok (l, label1) → J c ls →
    J c { ls with dyd := { ls.dyd with label := label1 } }
  setlabel : ∀ {c : C} {ls0 ls : LexState} {fs : FuncState} {prev : List FuncState}
    {bl : BlockCnt} {rest : List BlockCnt} {lb : Labeldesc},
    J c ls0 → J c ls → ls.fs = fs :: prev → fs.bl = bl :: rest →
    ls.dyd.label.get? ls0.dyd.label.length = some lb →
    J c { ls with dyd := { ls.dyd with
      label := ls.dyd.label.set ls0.dyd.label.length { lb with nactvar := bl.nactvar } } }
  closegotos : ∀ {c : C} {ls ls1 : LexState} {lb : Labeldesc},
    findgotos ls lb = Except.ok ls1 → J c ls → J c ls1

/-- The parser `S` of statements keeps the invariant `J` in every context. -/
def KeepS {C : Type u} (J : C → LexState → Prop) (S : LexState → Except ParseError LexState) :
    Prop :=
  ∀ {c : C} {ls ls1 : LexState}, S ls = Except.ok ls1 → J c ls → J c ls1

/-- The parser `X`, which returns a value with the state, keeps the invariant
`J` in every context. -/
def KeepX {C : Type u} {α : Type} (J : C → LexState → Prop)
    (X : LexState → Except ParseError (α × LexState)) : Prop :=
  ∀ {c : C} {ls ls1 : LexState} {a : α}, X ls = Except.ok (a, ls1) → J c ls → J c ls1

/-- The callees `R` of `statement` keep the invariant `J`. -/
structure KeepR {C : Type u} (J : C → LexState → Prop) (R : StatRules) : Prop where
  ifstat : ∀ line, KeepS J (fun ls => R.ifstat ls line)
  whilestat : ∀ line, KeepS J (fun ls => R.whilestat ls line)
  block : KeepS J R.block
  forstat : ∀ line, KeepS J (fun ls => R.forstat ls line)
  repeatstat : ∀ line, KeepS J (fun ls => R.repeatstat ls line)
  funcstat : ∀ line, KeepS J (fun ls => R.funcstat ls line)
  localfunc : KeepS J R.localfunc
  localstat : KeepS J R.localstat
  retstat : KeepS J R.retstat
  exprstat : KeepS J R.exprstat

/-- The callees `E` of `simpleexp` keep the invariant `J`. -/
structure KeepE {C : Type u} (J : C → LexState → Prop) (E : ExpRules) : Prop where
  constructor : KeepX J E.constructor
  body : ∀ ismethod line, KeepX J (fun ls => E.body ls ismethod line)
  suffixedexp : KeepX J E.suffixedexp

/-- The invariant of the nesting counter: `nCcalls` has the value `n`. -/
def LevelIs (n : Nat) (ls : LexState) : Prop := ls.nCcalls = n

/-- What the invariants of the parse look at in a block: the indices of its
first label and first pending goto, and the number of active locals at its
entry. -/
def blockSnap (b : BlockCnt) : Nat × Nat × Nat := (b.firstlabel, b.firstgoto, b.nactvar)

/-- What the invariants of the parse look at in a function state besides its
prototype: the index of its first local, the number of active locals and the
chain of blocks. -/
def frameSnap (fs : FuncState) : Nat × Nat × List (Nat × Nat × Nat) :=
  (fs.firstlocal, fs.nactvar, fs.bl.map blockSnap)

/-- The chain `fss` of function states has `c + 1` functions, and the
outermost one has the upvalue descriptors `U` and is a vararg function. -/
def MainKept (U : List Upvaldesc) (c : Nat) (fss : List FuncState) : Prop :=
  fss.length = c + 1 ∧
  ∃ fs, fss.getLast? = some fs ∧ fs.f.upvalues = U ∧ fs.f.is_vararg = true

/-- The invariant of the main function: the chain of function states of `ls`
is as `MainKept` describes. -/
def MainKeptIn (U : List Upvaldesc) (c : Nat) (ls : LexState) : Prop := MainKept U c ls.fs

/-- The view of a lexical state that the scope invariant looks at: the chain
of function states reduced to `frameSnap`, the label list, the pending-goto
list and the length of the active-variable list. -/
structure ScopeView where
  frames : List (Nat × Nat × List (Nat × Nat × Nat))
  label : List Labeldesc
  gt : List Labeldesc
  nact : Nat

/-- The scope view of the lexical state `ls`. -/
def viewOf (ls : LexState) : ScopeView :=
  { frames := ls.fs.map frameSnap, label := ls.dyd.label, gt := ls.dyd.gt,
    nact := ls.dyd.actvar.length }

/-- The context of the scope invariant, fixed while a statement or an
expression is parsed: `hb` are the snapshots (`blockSnap`) of the blocks of
the current function above its outermost block, innermost first; `tl` the
snapshots of the enclosing functions; `L0` and `G0` the label list and the
pending-goto list as they were when the current function was opened; `fl` the
index of the first local of the current function; `d` the number of locals
that are declared and not yet active; `hold` what is known of the state in
which the current function was opened. -/
structure ScopeCtx where
  hb : List (Nat × Nat × Nat)
  tl : List (Nat × Nat × List (Nat × Nat × Nat))
  L0 : List Labeldesc
  G0 : List Labeldesc
  fl : Nat
  d : Nat
  hold : Prop

/-- The blocks `hb` of the current function above its outermost block, with
the labels and pending gotos of the function, which start at the indices `L`
and `G`, and `N` active locals: the blocks are nested (an inner block starts
at higher indices and with at least as many active locals), within the lists,
and with at most `N` active locals at entry; every label of the function was
recorded with at most `N` active locals, and a label below the first label of
a block with at most the count of the block; every pending goto from the first
goto of a block on was recorded with at least the count of the block. -/
def BlocksOk (L G N : Nat) (hb : List (Nat × Nat × Nat)) (label gt : List Labeldesc) : Prop :=
  hb.Pairwise (fun a b => b.1 ≤ a.1 ∧ b.2.1 ≤ a.2.1 ∧ b.2.2 ≤ a.2.2) ∧
  (∀ b ∈ hb, L ≤ b.1 ∧ b.1 ≤ label.length ∧ G ≤ b.2.1 ∧ b.2.1 ≤ gt.length ∧ b.2.2 ≤ N) ∧
  (∀ j lb, L ≤ j → label.get? j = some lb → lb.nactvar ≤ N) ∧
  (∀ b ∈ hb, ∀ j lb, L ≤ j → j < b.1 → label.get? j = some lb → lb.nactvar ≤ b.2.2) ∧
  (∀ b ∈ hb, ∀ g ∈ gt.drop b.2.1, b.2.2 ≤ g.nactvar)

/-- The scope invariant on a view: the current function has the first local
`c.fl`, some number `N` of active locals and the blocks `c.hb` above an
outermost block that starts at the ends of `c.L0` and `c.G0` with no active
local; the enclosing functions are `c.tl`; the active-variable list holds the
locals of the enclosing functions, the `N` active ones and the `c.d` declared
ones, at most `MAXVARS` together; `c.L0` and `c.G0` are still the first
entries of the label list and the pending-goto list; and the blocks are as
`BlocksOk` describes. -/
def Scoped (c : ScopeCtx) (v : ScopeView) : Prop :=
  c.hold ∧
  ∃ N : Nat, v.frames = (c.fl, N, c.hb ++ [(c.L0.length, c.G0.length, 0)]) :: c.tl ∧
    v.nact = c.fl + N + c.d ∧ ((N : Int) + (c.d : Int) ≤ MAXVARS) ∧
    v.label.take c.L0.length = c.L0 ∧ v.gt.take c.G0.length = c.G0 ∧
    BlocksOk c.L0.length c.G0.length N c.hb v.label v.gt

/-- The scope invariant of the lexical state `ls` in the context `c`. -/
def ScopeInv (c : ScopeCtx) (ls : LexState) : Prop := Scoped c (viewOf ls)

/-- The context with one more local that is declared and not yet active. -/
def ScopeCtx.decl (c : ScopeCtx) : ScopeCtx := { c with d := c.d + 1 }

/-- The context inside a block that is entered in the state `s`. -/
def ScopeCtx.push (s : LexState) (c : ScopeCtx) : ScopeCtx :=
  { c with hb := (s.dyd.label.length, s.dyd.gt.length,
      match s.fs with
      | fs :: _ => fs.nactvar
      | [] => 0) :: c.hb }

/-- The context inside a function that is opened in the state `s`, itself in
the context `c`. -/
def ScopeCtx.fn (s : LexState) (c : ScopeCtx) : ScopeCtx :=
  { hb := [], tl := s.fs.map frameSnap, L0 := s.dyd.label, G0 := s.dyd.gt,
    fl := s.dyd.actvar.length, d := 0, hold := ScopeInv c s }

/-- The context of the main function of a chunk. -/
def mainCtx : ScopeCtx :=
  { hb := [], tl := [], L0 := [], G0 := [], fl := 0, d := 0, hold := True }

/-- The state `ls1` has the frame of `ls`: the same list of active variables,
the same enclosing functions, and a current function with the same prototype,
chain of blocks, number of active locals and first local; and a block whose
first pending goto was within the pending list of `ls` has it within the list
of `ls1`. -/
def FrameKept (ls ls1 : LexState) : Prop :=
  ls1.dyd.actvar = ls.dyd.actvar ∧
  ∀ fs prev, ls.fs = fs :: prev →
    ∃ fs1, ls1.fs = fs1 :: prev ∧ fs1.f = fs.f ∧ fs1.bl = fs.bl ∧
      fs1.nactvar = fs.nactvar ∧ fs1.firstlocal = fs.firstlocal ∧
      ∀ (b : BlockCnt) (rest : List BlockCnt), fs.bl = b :: rest →
        b.firstgoto ≤ ls.dyd.gt.length → b.firstgoto ≤ ls1.dyd.gt.length

/-- The laws of an invariant `J` of the lexical state, indexed by a context
`c`, for the primitive steps of the expression grammar outside function
bodies: the next token, a change of the current function state that keeps its
frame, the nesting level, and the resolution of a variable name. -/
structure ExprLaws {C : Type u} (J : C → LexState → Prop) (up : C → C) : Prop where
  next : ∀ {c : C} {ls : LexState}, J c ls → J c (luaX_next ls)
  head : ∀ {c : C} {ls : LexState} {fs fs1 : FuncState} {prev : List FuncState},
    ls.fs = fs :: prev → sameFrame fs fs1 → J c ls → J c { ls with fs := fs1 :: prev }
  enter : ∀ {c : C} {ls ls1 : LexState}, enterlevel ls = Except.ok ls1 → J c ls → J (up c) ls1
  leave : ∀ {c : C} {ls : LexState}, J (up c) ls → J c (leavelevel ls)
  resolve : ∀ {c : C} {ls : LexState} {fss0 fss : List FuncState} {n : TString} {v : expdesc},
    singlevaraux ls.dyd fss0 n true = Except.ok (v, fss) →
    J c { ls with fs := fss0 } → J c { ls with fs := fss }

/-- The scope invariant holds in the context `p.1`, and the state has the
frames (`frameSnap`) and the pending gotos of the state `p.2`. -/
def FramesAt (p : ScopeCtx × LexState) (ls : LexState) : Prop :=
  ScopeInv p.1 ls ∧ ls.fs.map frameSnap = p.2.fs.map frameSnap ∧ ls.dyd.gt = p.2.dyd.gt

/-- No goto is pending in the current block: the pending list ends where the
block starts. -/
def EmptyRange (ls : LexState) : Prop :=
  ∃ fs prev bl rest, ls.fs = fs :: prev ∧ fs.bl = bl :: rest ∧
    bl.firstgoto = ls.dyd.gt.length

/-- Every goto pending in the current block was recorded with at least the
current number of active locals. -/
def GotosAbove (ls : LexState) : Prop :=
  ∃ fs prev bl rest, ls.fs = fs :: prev ∧ fs.bl = bl :: rest ∧
    ∀ g ∈ ls.dyd.gt.drop bl.firstgoto, fs.nactvar ≤ g.nactvar

/-- The statements of `whilestat` before its call of `leaveblock`: the result
is the exit list of the condition with the state in which the loop block is
left. -/
def whilestat_exit (expr : ExprParser) (statement : StmtParser) (fuel : Nat) (ls : LexState)
    (line : Int) : Except ParseError (Int × LexState) :=
  match (luaX_next ls).onFs luaK_getlabel with
  | Except.error e => Except.error e
  | Except.ok (whileinit, ls1) =>
    match cond expr ls1 with
    | Except.error e => Except.error e
    | Except.ok (condexit, ls2) =>
      match enterblock ls2 true with
      | Except.error e => Except.error e
      | Except.ok ls3 =>
        match checknext ls3 Tok.TK_DO with
        | Except.error e => Except.error e
        | Except.ok ls4 =>
          match block statement fuel ls4 with
          | Except.error e => Except.error e
          | Except.ok ls5 =>
            match ls5.doFs (fun fs => luaK_jumpto fs whileinit) with
            | Except.error e => Except.error e
            | Except.ok ls6 =>
              match check_match ls6 Tok.TK_END Tok.TK_WHILE line with
              | Except.error e => Except.error e
              | Except.ok ls7 => Except.ok (condexit, ls7)

/-- The statements of `repeatstat` before its last call of `leaveblock`, the
one that leaves the loop block: the result is the state in which the loop
block is left, after the scope block of the body was left. -/
def repeatstat_exit (expr : ExprParser) (statement : StmtParser) (fuel : Nat) (ls : LexState)
    (line : Int) : Except ParseError LexState :=
  match ls.onFs luaK_getlabel with
  | Except.error e => Except.error e
  | Except.ok (repeat_init, ls1) =>
    match enterblock ls1 true with
    | Except.error e => Except.error e
    | Except.ok ls2 =>
      match enterblock ls2 false with
      | Except.error e => Except.error e
      | Except.ok ls3 =>
        match statlist statement fuel (luaX_next ls3) with
        | Except.error e => Except.error e
        | Except.ok ls4 =>
          match check_match ls4 Tok.TK_UNTIL Tok.TK_REPEAT line with
          | Except.error e => Except.error e
          | Except.ok ls5 =>
            match cond expr ls5 with
            | Except.error e => Except.error e
            | Except.ok (condexit, ls6) =>
              match ls6.fs with
              | [] => Except.error ParseError.undefinedBehaviour
              | fs :: prev =>
                match fs.bl with
                | [] => Except.error ParseError.undefinedBehaviour
                | bl2 :: _ =>
                  let fs1 := if bl2.upval then luaK_patchclose fs condexit bl2.nactvar else fs
                  match leaveblock { ls6 with fs := fs1 :: prev } with
                  | Except.error e => Except.error e
                  | Except.ok ls7 =>
                    ls7.doFs (fun fs => luaK_patchlist fs condexit repeat_init)

/-- The statements of `forstat` before its call of `leaveblock`: the result is
the state in which the loop block is left. -/
def forstat_exit (expr : ExprParser) (statement : StmtParser) (fuel : Nat) (ls : LexState)
    (line : Int) : Except ParseError LexState :=
  match enterblock ls true with
  | Except.error e => Except.error e
  | Except.ok ls1 =>
    match str_checkname (luaX_next ls1) with
    | Except.error e => Except.error e
    | Except.ok (varname, ls2) =>
      let r : Except ParseError LexState :=
        match ls2.t.token with
        | Tok.chr '=' => fornum expr statement fuel ls2 varname line
        | Tok.chr ',' | Tok.TK_IN => forlist expr statement fuel ls2 varname
        | _ => Except.error (ParseError.syntaxerror "'=' or 'in' expected")
      match r with
      | Except.error e => Except.error e
      | Except.ok ls3 => check_match ls3 Tok.TK_END Tok.TK_FOR line

/-- The loop flags of the blocks of every function state of the chain, the
current function and its innermost block first. -/
def loopView (ls : LexState) : List (List Bool) :=
  ls.fs.map (fun fs => fs.bl.map BlockCnt.isloop)

/-- The invariant of the loop flags.  The context has one entry `(k, l)` for
each function state of the chain: `l` are the loop flags of its blocks below
the `k` innermost ones. -/
def LoopsAt (c : List (Nat × List Bool)) (ls : LexState) : Prop :=
  List.Forall₂ (fun (l : List Bool) (e : Nat × List Bool) => l.drop e.1 = e.2 ∧ e.1 ≤ l.length)
    (loopView ls) c

/-- The context of the loop flags inside one more block. -/
def pushLoop (c : List (Nat × List Bool)) : List (Nat × List Bool) :=
  match c with
  | (k, l) :: t => (k + 1, l) :: t
  | [] => []

/-- The state in which a loop statement leaves its loop block: the current
block is a loop block that starts within the label list, and every goto
pending in it was recorded with at least the current number of active
locals. -/
def LoopExit (ls : LexState) : Prop :=
  ∃ fs prev bl rest, ls.fs = fs :: prev ∧ fs.bl = bl :: rest ∧ bl.isloop = true ∧
    bl.firstlabel ≤ ls.dyd.label.length ∧
    ∀ g ∈ ls.dyd.gt.drop bl.firstgoto, fs.nactvar ≤ g.nactvar

/-- The entries of a goto list that are named `name`, in order. -/
def gotosNamed (name : TString) (l : List Labeldesc) : List Labeldesc :=
  l.filter (fun x => eqstr x.name name)

/-- The entries of a goto list that are not named `name`, in order. -/
def gotosNotNamed (name : TString) (l : List Labeldesc) : List Labeldesc :=
  l.filter (fun x => !eqstr x.name name)

/-- The emitter calls that patch each goto of `l` to the position `target`. -/
def patchCalls (target : Int) (l : List Labeldesc) : List KCall :=
  l.map (fun x => KCall.patchlist x.pc target)

/-- The pending goto `g` as `movegotosout` leaves it when the block `bl` is
left: `if (gt->nactvar > bl->nactvar) gt->nactvar = bl->nactvar`. -/
def rehomed (bl : BlockCnt) (g : Labeldesc) : Labeldesc :=
  if g.nactvar > bl.nactvar then { g with nactvar := bl.nactvar } else g

/-- The emitter call of `movegotosout` for the pending goto `g` before its
label is looked up: `luaK_patchclose(fs, gt->pc, bl->nactvar)` when the goto's
level is lowered and the block has an upvalue. -/
def closeCall (bl : BlockCnt) (g : Labeldesc) : List KCall :=
  if g.nactvar > bl.nactvar ∧ bl.upval = true then [KCall.patchclose g.pc bl.nactvar] else []

/-- The label that `findlabel` finds for the pending goto `g` once the block
`parent` is current: the first label from `parent.firstlabel` on with the
name of `g`. -/
def parentLabel (parent : BlockCnt) (labels : List Labeldesc) (g : Labeldesc) :
    Option Labeldesc :=
  (labels.drop parent.firstlabel).find? (fun lb => eqstr lb.name g.name)

/-- The emitter calls of one turn of the loop of `movegotosout` for the pending
goto `g`: the close of `closeCall`, then, when a label of the enclosing block
matches, the calls of `findlabel` and `closegoto`. -/
def moveCalls (bl parent : BlockCnt) (labels : List Labeldesc) (g : Labeldesc) : List KCall :=
  closeCall bl g ++
  match parentLabel parent labels g with
  | none => []
  | some lb =>
    (if (rehomed bl g).nactvar > lb.nactvar ∧
        (parent.upval = true ∨ labels.length > parent.firstlabel)
      then [KCall.patchclose g.pc lb.nactvar] else []) ++ [KCall.patchlist g.pc lb.pc]

/-- The pending gotos that `movegotosout` leaves of the list `suf`: those
without a matching label in the enclosing block, re-homed to the level of the
block that is left. -/
def movedOut (bl parent : BlockCnt) (labels suf : List Labeldesc) : List Labeldesc :=
  suf.filterMap (fun g =>
    match parentLabel parent labels g with
    | none => some (rehomed bl g)
    | some _ => none)

/-- The emitter calls of the close jump of `leaveblock`, made when the block has
an enclosing block and an upvalue: `j = luaK_jump(fs); luaK_patchclose(fs, j,
bl->nactvar); luaK_patchtohere(fs, j)`. -/
def closeJump (fs : FuncState) (bl : BlockCnt) (previous : List BlockCnt) : List KCall :=
  if previous ≠ [] ∧ bl.upval = true then
    [KCall.jump fs.pc, KCall.patchclose fs.pc bl.nactvar, KCall.patchtohere fs.pc]
  else []

/-- The program counter after the close jump of `leaveblock`, if there is one. -/
def exitPc (fs : FuncState) (bl : BlockCnt) (previous : List BlockCnt) : Int :=
  if previous ≠ [] ∧ bl.upval = true then fs.pc + 1 else fs.pc

/-- The emitter calls of `breaklabel` in `leaveblock`: for a loop block, every
pending `break` of the block is patched to `pc`. -/
def breakCalls (bl : BlockCnt) (pc : Int) (gt : List Labeldesc) : List KCall :=
  if bl.isloop then patchCalls pc (gotosNamed "break" (gt.drop bl.firstgoto)) else []

/-- The pending gotos of the block that `breaklabel` leaves in `leaveblock`. -/
def afterBreaks (bl : BlockCnt) (gt : List Labeldesc) : List Labeldesc :=
  if bl.isloop then gotosNotNamed "break" (gt.drop bl.firstgoto) else gt.drop bl.firstgoto

/-- The label list after `leaveblock`: for a loop block the label "break" is
appended at the position `pc`, then `ls->dyd->label.n = bl->firstlabel`. -/
def labelsLeft (bl : BlockCnt) (nactvar : Nat) (pc : Int) (label : List Labeldesc) :
    List Labeldesc :=
  (if bl.isloop then label ++ [{ name := "break", line := 0, nactvar := nactvar, pc := pc }]
    else label).take bl.firstlabel

/-- The emitter calls of the last step of `leaveblock`: those of `movegotosout`
for an inner block, none for the outermost block. -/
def leaveCalls (bl : BlockCnt) (previous : List BlockCnt) (labels pend : List Labeldesc) :
    List KCall :=
  match previous with
  | [] => []
  | parent :: _ => pend.flatMap (moveCalls bl parent labels)

/-- The pending gotos of the block after the last step of `leaveblock`. -/
def leaveGotos (bl : BlockCnt) (previous : List BlockCnt) (labels pend : List Labeldesc) :
    List Labeldesc :=
  match previous with
  | [] => pend
  | parent :: _ => movedOut bl parent labels pend

/-- The function state `fs` with the upvalue descriptor `d` appended. -/
def FuncState.addUpvalue (fs : FuncState) (d : Upvaldesc) : FuncState :=
  { fs with f := { fs.f with upvalues := fs.f.upvalues ++ [d] } }

/-- Sample grammar: every callee of `simpleexp` that is not embedded rejects
its input.  With it the parser runs on inputs whose operands are literals. -/
def literalExpRules : ExpRules :=
  { constructor := fun _ => Except.error (ParseError.syntaxerror "unexpected symbol")
    body := fun _ _ _ => Except.error (ParseError.syntaxerror "unexpected symbol")
    suffixedexp := fun _ => Except.error (ParseError.syntaxerror "unexpected symbol") }

/-- Sample grammar: the statement forms are `local` declarations with literal
initialisers, labels, gotos, breaks and empty statements; every other callee
of `statement` rejects its input. -/
def localStatRules : StatRules :=
  { ifstat := fun _ _ => Except.error (ParseError.syntaxerror "unexpected symbol")
    whilestat := fun _ _ => Except.error (ParseError.syntaxerror "unexpected symbol")
    block := fun _ => Except.error (ParseError.syntaxerror "unexpected symbol")
    forstat := fun _ _ => Except.error (ParseError.syntaxerror "unexpected symbol")
    repeatstat := fun _ _ => Except.error (ParseError.syntaxerror "unexpected symbol")
    funcstat := fun _ _ => Except.error (ParseError.syntaxerror "unexpected symbol")
    localfunc := fun _ => Except.error (ParseError.syntaxerror "unexpected symbol")
    localstat := localstat (expr (simpleexp literalExpRules) 16) 16
    retstat := fun _ => Except.error (ParseError.syntaxerror "unexpected symbol")
    exprstat := fun _ => Except.error (ParseError.syntaxerror "unexpected symbol") }

/-- Sample state: the parser at the first token of `toks`, in a main function
that `open_func` has just set up (one block, no locals, labels or gotos). -/
def sampleStart (toks : List Token) : LexState :=
  luaX_next
    { input := toks,
      fs := [{ f := { is_vararg := true },
               bl := [{ firstlabel := 0, firstgoto := 0, nactvar := 0, upval := false,
                        isloop := false }] }] }

/-- A name token. -/
def tkName (s : TString) : Token := { token := Tok.TK_NAME, ts := s }

/-- An integer literal token. -/
def tkInt (i : Int) : Token := { token := Tok.TK_INT, i := i }

/-- A token without payload. -/
def tk (t : Tok) : Token := { token := t }

/-- Sample state: the outermost block of a function. -/
def sampleBlock : BlockCnt :=
  { firstlabel := 0, firstgoto := 0, nactvar := 0, upval := false, isloop := false }

/-- Sample state: the pending goto of `goto L` at line 1, whose jump is
instruction 0. -/
def samplePendingGoto : Labeldesc := { name := "L", pc := 0, line := 1, nactvar := 0 }

/-- Sample state: the main function after `goto L`. -/
def sampleFsGoto : FuncState :=
  { f := { is_vararg := true }, bl := [sampleBlock], pc := 1, kcalls := [KCall.jump 0] }

/-- Sample state: the parser in `goto L ::L::` at the closing `::` of the
label, which ends the chunk. -/
def sampleAtLabelClose : LexState :=
  { t := tk Tok.TK_DBCOLON, fs := [sampleFsGoto], dyd := { gt := [samplePendingGoto] } }

/-- Sample state: the label of `::L::` at position 0. -/
def sampleLabel : Labeldesc := { name := "L", pc := 0, line := 1, nactvar := 0 }

/-- Sample state: the main function in `::L:: goto L` after the label and
the jump instruction of the goto. -/
def sampleFsLabel : FuncState :=
  { f := { is_vararg := true }, bl := [sampleBlock], pc := 1,
    kcalls := [KCall.getlabel 0, KCall.jump 0] }

/-- Sample state: the parser in `::L:: goto L` at the `goto`. -/
def sampleAtGoto : LexState :=
  { t := tk Tok.TK_GOTO, input := [tkName "L"], fs := [sampleFsLabel],
    dyd := { label := [sampleLabel] } }

/-- Sample state: the main function after `goto L local x`. -/
def sampleFsLocal : FuncState :=
  { f := { locvars := [{ varname := "x", startpc := 1 }], is_vararg := true },
    bl := [sampleBlock], pc := 1, nactvar := 1, freereg := 1,
    kcalls := [KCall.jump 0, KCall.reserveregs 1, KCall.nil 0 1] }

/-- Sample state: the parser in `goto L local x ::L:: local y` at the closing
`::` of the label. -/
def sampleAtLabelAfterLocal : LexState :=
  { t := tk Tok.TK_DBCOLON, input := [tk Tok.TK_LOCAL, tkName "y"], fs := [sampleFsLocal],
    dyd := { actvar := [{ idx := 0 }], gt := [samplePendingGoto] } }

/-- Sample input: the chunk `goto L local x ::L::`. -/
def cexToks : List Token :=
  [tk Tok.TK_GOTO, tkName "L", tk Tok.TK_LOCAL, tkName "x", tk Tok.TK_DBCOLON, tkName "L",
    tk Tok.TK_DBCOLON]

/-- Sample state: the parser in `goto L local x ::L::` after `goto L`. -/
def cexAfterGoto : LexState :=
  { t := tk Tok.TK_LOCAL,
    input := [tkName "x", tk Tok.TK_DBCOLON, tkName "L", tk Tok.TK_DBCOLON],
    fs := [sampleFsGoto], dyd := { gt := [samplePendingGoto] } }

/-- Sample state: the parser in `goto L local x ::L::` after `local x`. -/
def cexAfterLocal : LexState :=
  { t := tk Tok.TK_DBCOLON, input := [tkName "L", tk Tok.TK_DBCOLON], fs := [sampleFsLocal],
    dyd := { actvar := [{ idx := 0 }], gt := [samplePendingGoto] } }

/-- Sample state: the parser after the whole chunk `goto L local x ::L::`: the
goto is patched to the label at position 1 and no goto is pending. -/
def cexAfterLabel : LexState :=
  { t := tk Tok.TK_EOS,
    fs := [{ sampleFsLocal with
      lasttarget := 1,
      kcalls := [KCall.jump 0, KCall.reserveregs 1, KCall.nil 0 1, KCall.getlabel 1,
        KCall.patchlist 0 1] }],
    dyd := { actvar := [{ idx := 0 }],
             label := [{ name := "L", pc := 1, line := 1, nactvar := 0 }] } }

/-- Sample input: the chunk `goto foo break`. -/
def brkToks : List Token := [tk Tok.TK_GOTO, tkName "foo", tk Tok.TK_BREAK]

/-- Sample state: the parser in `goto foo break` after `goto foo`. -/
def brkAfterGoto : LexState :=
  { t := tk Tok.TK_BREAK,
    fs := [sampleFsGoto], dyd := { gt := [{ name := "foo", pc := 0, line := 1, nactvar := 0 }] } }

/-- Sample state: the parser after the whole chunk `goto foo break`: both
gotos are pending. -/
def brkAfterBreak : LexState :=
  { t := tk Tok.TK_EOS,
    fs := [{ sampleFsGoto with pc := 2, kcalls := [KCall.jump 0, KCall.jump 1] }],
    dyd := { gt := [{ name := "foo", pc := 0, line := 1, nactvar := 0 },
                    { name := "break", pc := 1, line := 1, nactvar := 0 }] } }

/-- Sample state: the parser in `do break end` after the break, inside the
inner block. -/
def brkInBlock : LexState :=
  { t := tk Tok.TK_END,
    fs := [{ sampleFsGoto with bl := [sampleBlock, sampleBlock] }],
    dyd := { gt := [{ name := "break", pc := 0, line := 1, nactvar := 0 }] } }

/-- Sample state: the parser in `do break end` after the inner block was
left: the break is pending in the outermost block. -/
def brkAfterBlock : LexState :=
  { t := tk Tok.TK_END,
    fs := [sampleFsGoto],
    dyd := { gt := [{ name := "break", pc := 0, line := 1, nactvar := 0 }] } }

/-- Sample input: the expression `2 ^ 1 ^ 2`. -/
def powToks : List Token :=
  [tkInt 2, tk (Tok.chr '^'), tkInt 1, tk (Tok.chr '^'), tkInt 2]

/-- Sample input: the expression `1 + 2 * 3`. -/
def addMulToks : List Token :=
  [tkInt 1, tk (Tok.chr '+'), tkInt 2, tk (Tok.chr '*'), tkInt 3]

/-- Sample input: the expression `1 * 2 + 3`. -/
def mulAddToks : List Token :=
  [tkInt 1, tk (Tok.chr '*'), tkInt 2, tk (Tok.chr '+'), tkInt 3]

/-- The descriptor `simpleexp` gives an integer literal. -/
def intLit (i : Int) : expdesc := { init_exp expkind.VKINT 0 with ival := i }

/-- Sample input: the statement `local a, b, c = 1, 2`. -/
def localPadToks : List Token :=
  [tk Tok.TK_LOCAL, tkName "a", tk (Tok.chr ','), tkName "b", tk (Tok.chr ','), tkName "c",
    tk (Tok.chr '='), tkInt 1, tk (Tok.chr ','), tkInt 2]

/-- Sample input: the statement `local a, b = 1, 2, 3`. -/
def localDropToks : List Token :=
  [tk Tok.TK_LOCAL, tkName "a", tk (Tok.chr ','), tkName "b", tk (Tok.chr '='), tkInt 1,
    tk (Tok.chr ','), tkInt 2, tk (Tok.chr ','), tkInt 3]

/-- Sample input: the statement `local a, b`. -/
def localBareToks : List Token :=
  [tk Tok.TK_LOCAL, tkName "a", tk (Tok.chr ','), tkName "b"]

/-- Sample input: the statement `local a, b = ...`. -/
def localVarargToks : List Token :=
  [tk Tok.TK_LOCAL, tkName "a", tk (Tok.chr ','), tkName "b", tk (Tok.chr '='), tk Tok.TK_DOTS]

/-- Sample input: the statement `local a, b, c = 1, ...`. -/
def localLitVarargToks : List Token :=
  [tk Tok.TK_LOCAL, tkName "a", tk (Tok.chr ','), tkName "b", tk (Tok.chr ','), tkName "c",
    tk (Tok.chr '='), tkInt 1, tk (Tok.chr ','), tk Tok.TK_DOTS]

/-- Sample state: the main function of a chunk that is one `local` statement,
after the names `names` are declared and the initialisers are parsed, with the
program counter, the register frontier and the emitter log given. -/
def sampleFsDecl (names : List TString) (pc : Int) (freereg : Nat) (calls : List KCall) :
    FuncState :=
  { f := { locvars := names.map (fun n => { varname := n }), is_vararg := true },
    bl := [sampleBlock], pc := pc, freereg := freereg, kcalls := calls }

/-- Sample state: the parser at the end of a chunk that is one `local`
statement, just before the statement calls `adjust_assign`. -/
def sampleAtAdjust (names : List TString) (pc : Int) (freereg : Nat) (calls : List KCall) :
    LexState :=
  { t := tk Tok.TK_EOS, fs := [sampleFsDecl names pc freereg calls],
    dyd := { actvar := (List.range names.length).map (fun i => { idx := i }) } }

/-- The descriptor `simpleexp` gives `...` whose instruction is at `pc`. -/
def varargExp (pc : Int) : expdesc := init_exp expkind.VVARARG pc

/-- Sample state: the parser at the first token of the chunk `toks`, as
`mainfunc` sets it up before it calls `statlist`: the main function is a
vararg function with the environment upvalue, in its outermost block. -/
def chunkStart (toks : List Token) : LexState :=
  luaX_next
    { input := toks,
      fs := [{ f := { is_vararg := true,
                      upvalues := [{ name := "_ENV", instack := true, idx := 0 }] },
               bl := [sampleBlock] }] }

/-- Sample input: the constructor `{1, 2, 3}`. -/
def ctorLitToks : List Token :=
  [tk (Tok.chr '{'), tkInt 1, tk (Tok.chr ','), tkInt 2, tk (Tok.chr ','), tkInt 3,
    tk (Tok.chr '}')]

/-- Sample input: the constructor `{1, 2, f()}`. -/
def ctorCallToks : List Token :=
  [tk (Tok.chr '{'), tkInt 1, tk (Tok.chr ','), tkInt 2, tk (Tok.chr ','), tkName "f",
    tk (Tok.chr '('), tk (Tok.chr ')'), tk (Tok.chr '}')]

/-- Sample input: the constructor `{f(), x = 1}`. -/
def ctorCallRecToks : List Token :=
  [tk (Tok.chr '{'), tkName "f", tk (Tok.chr '('), tk (Tok.chr ')'), tk (Tok.chr ','),
    tkName "x", tk (Tok.chr '='), tkInt 1, tk (Tok.chr '}')]

/-- Sample state: the parser at the closing `::` of a label that ends the
chunk, in an inner block entered after the label `sampleLabel` of the
enclosing block was declared. -/
def sampleAtInnerLabel : LexState :=
  { t := tk Tok.TK_DBCOLON,
    fs := [{ f := { is_vararg := true },
             bl := [{ firstlabel := 1, firstgoto := 0, nactvar := 0, upval := false,
                      isloop := false }, sampleBlock] }],
    dyd := { label := [sampleLabel] } }

/-- Sample state: the parser at the closing `::` of a label that ends the
chunk, in the block in which the label `sampleLabel` was declared. -/
def sampleAtSameBlockLabel : LexState :=
  { t := tk Tok.TK_DBCOLON,
    fs := [{ f := { is_vararg := true }, bl := [sampleBlock] }],
    dyd := { label := [sampleLabel] } }

/-- Sample state: a main function with `n` declared and active locals, each
with its debug record. -/
def sampleWithLocals (n : Nat) : LexState :=
  { t := tkName "x",
    fs := [{ f := { is_vararg := true, locvars := List.replicate n { varname := "v" } },
             bl := [sampleBlock], nactvar := n, freereg := n }],
    dyd := { actvar := (List.range n).map (fun i => { idx := i }) } }

/-- Sample input: the statement `f()`. -/
def callStatToks : List Token := [tkName "f", tk (Tok.chr '('), tk (Tok.chr ')')]

/-- Sample input: the statement `x`. -/
def nameStatToks : List Token := [tkName "x"]

/-- Sample input: the statement `f() = 1`. -/
def callAssignToks : List Token :=
  [tkName "f", tk (Tok.chr '('), tk (Tok.chr ')'), tk (Tok.chr '='), tkInt 1]

/-- Sample input: the statement `x, f() = 1, 2`. -/
def nameCallAssignToks : List Token :=
  [tkName "x", tk (Tok.chr ','), tkName "f", tk (Tok.chr '('), tk (Tok.chr ')'),
    tk (Tok.chr '='), tkInt 1, tk (Tok.chr ','), tkInt 2]

/-- Sample input: what follows `local function` in the statement
`local function f() return f end`. -/
def localFuncToks : List Token :=
  [tkName "f", tk (Tok.chr '('), tk (Tok.chr ')'), tk Tok.TK_RETURN, tkName "f", tk Tok.TK_END]

/-- Sample state: a function state as `open_func` creates it, in its outermost
block, when one variable is active in the enclosing functions. -/
def sampleOpened : FuncState :=
  { firstlocal := 1, bl := [sampleBlock] }

/-- Sample input: the statement `for i = 1 do end`. -/
def forOneToks : List Token :=
  [tk Tok.TK_FOR, tkName "i", tk (Tok.chr '='), tkInt 1, tk Tok.TK_DO, tk Tok.TK_END]

/-- Sample input: what follows `for i` in `for i = 1 do end`. -/
def forOneArgs : List Token := [tk (Tok.chr '='), tkInt 1, tk Tok.TK_DO, tk Tok.TK_END]

/-- Sample input: what follows `for i` in `for i = 1, 2 do end`. -/
def forTwoArgs : List Token :=
  [tk (Tok.chr '='), tkInt 1, tk (Tok.chr ','), tkInt 2, tk Tok.TK_DO, tk Tok.TK_END]

/-- Sample input: what follows `for i` in `for i = 1, 2, 3 do end`. -/
def forThreeArgs : List Token :=
  [tk (Tok.chr '='), tkInt 1, tk (Tok.chr ','), tkInt 2, tk (Tok.chr ','), tkInt 3,
    tk Tok.TK_DO, tk Tok.TK_END]

/-- Sample input: the statement `for a in x do end`. -/
def forInToks : List Token :=
  [tk Tok.TK_FOR, tkName "a", tk Tok.TK_IN, tkName "x", tk Tok.TK_DO, tk Tok.TK_END]

/-- Sample input: what follows `for a` in `for a, b in x do end`. -/
def forInArgs : List Token :=
  [tk (Tok.chr ','), tkName "b", tk Tok.TK_IN, tkName "x", tk Tok.TK_DO, tk Tok.TK_END]

/-- Sample input: the parameters and the end of `function (a, b, ...) end`. -/
def paramToks : List Token :=
  [tk (Tok.chr '('), tkName "a", tk (Tok.chr ','), tkName "b", tk (Tok.chr ','), tk Tok.TK_DOTS,
    tk (Tok.chr ')'), tk Tok.TK_END]

/-- Sample state: the state `body` gives to `parlist` for a method with the
parameters `paramToks`. -/
def sampleAtParams : LexState :=
  match body_open (chunkStart paramToks) true 1 with
  | Except.ok s => s
  | Except.error _ => chunkStart []

/-- Sample input: the parameters of `function (a, ..., b) end`. -/
def paramDotsMidToks : List Token :=
  [tk (Tok.chr '('), tkName "a", tk (Tok.chr ','), tk Tok.TK_DOTS, tk (Tok.chr ','), tkName "b",
    tk (Tok.chr ')'), tk Tok.TK_END]

/-- Sample state: the state `body` gives to `parlist` for a function with the
parameters `paramDotsMidToks`. -/
def sampleAtParamsMid : LexState :=
  match body_open (chunkStart paramDotsMidToks) false 1 with
  | Except.ok s => s
  | Except.error _ => chunkStart []

/-- Sample input: what follows `return` in `return f() end`. -/
def retCallToks : List Token :=
  [tkName "f", tk (Tok.chr '('), tk (Tok.chr ')'), tk Tok.TK_END]

/-- Sample input: what follows `return` in `return 1, f() end`. -/
def retTwoToks : List Token :=
  [tkInt 1, tk (Tok.chr ','), tkName "f", tk (Tok.chr '('), tk (Tok.chr ')'), tk Tok.TK_END]

/-- Sample input: the chunk `goto L do ::L:: end`. -/
def gotoIntoBlockToks : List Token :=
  [tk Tok.TK_GOTO, tkName "L", tk Tok.TK_DO, tk Tok.TK_DBCOLON, tkName "L", tk Tok.TK_DBCOLON,
    tk Tok.TK_END]

/-- Sample state: the parser at the closing `::` of `::L::` in a block entered
after one `goto L` of the enclosing block (pending entry 0); the block holds a
`goto L` of its own (pending entry 1, its jump is instruction 1). -/
def sampleAtLabelTwoGotos : LexState :=
  { t := tk Tok.TK_DBCOLON, input := [tk Tok.TK_LOCAL, tkName "y"],
    fs := [{ f := { is_vararg := true },
             bl := [{ firstlabel := 0, firstgoto := 1, nactvar := 0, upval := false,
                      isloop := false }, sampleBlock],
             pc := 2, kcalls := [KCall.jump 0, KCall.jump 1] }],
    dyd := { gt := [samplePendingGoto, { name := "L", pc := 1, line := 1, nactvar := 0 }] } }

/-- Sample state: a function at the end of a loop block that holds the local
`y` (after the local `x` of the enclosing block) and has a captured upvalue.
The enclosing block has the label `L`.  Pending are a `goto N` of the enclosing
block (entry 0) and, from inside the loop block, a `break`, a `goto L` and a
`goto M`. -/
def sampleLoopExit : LexState :=
  { fs := [{ f := { locvars := [{ varname := "x" }, { varname := "y", startpc := 3 }],
                    is_vararg := true },
             bl := [{ firstlabel := 1, firstgoto := 1, nactvar := 1, upval := true,
                      isloop := true }, sampleBlock],
             pc := 9, nactvar := 2, freereg := 2 }],
    dyd := { actvar := [{ idx := 0 }, { idx := 1 }],
             gt := [{ name := "N", pc := 0, line := 1, nactvar := 0 },
                    { name := "break", pc := 5, line := 2, nactvar := 2 },
                    { name := "L", pc := 6, line := 2, nactvar := 2 },
                    { name := "M", pc := 7, line := 2, nactvar := 2 }],
             label := [{ name := "L", pc := 2, line := 1, nactvar := 1 }] } }

/-- Sample state: `sampleLoopExit` after the loop block was left.  The close
jump is instruction 9 and the exit point is 10; the break is patched to 10;
`y` ends at 10; the `goto L` is closed at level 1 and patched to the label; the
`goto M` is closed at level 1 and stays pending at that level. -/
def sampleLoopLeft : LexState :=
  { fs := [{ f := { locvars := [{ varname := "x" },
                                { varname := "y", startpc := 3, endpc := 10 }],
                    is_vararg := true },
             bl := [sampleBlock],
             pc := 10, nactvar := 1, freereg := 1,
             kcalls := [KCall.jump 9, KCall.patchclose 9 1, KCall.patchtohere 9,
                        KCall.patchlist 5 10,
                        KCall.patchclose 6 1, KCall.patchlist 6 2,
                        KCall.patchclose 7 1] }],
    dyd := { actvar := [{ idx := 0 }],
             gt := [{ name := "N", pc := 0, line := 1, nactvar := 0 },
                    { name := "M", pc := 7, line := 2, nactvar := 1 }],
             label := [{ name := "L", pc := 2, line := 1, nactvar := 1 }] } }

/-- Sample input: the chunk `local x function f() return x end`. -/
def upvalOuterToks : List Token :=
  [tk Tok.TK_LOCAL, tkName "x", tk Tok.TK_FUNCTION, tkName "f", tk (Tok.chr '('),
    tk (Tok.chr ')'), tk Tok.TK_RETURN, tkName "x", tk Tok.TK_END]

/-- Sample state: the main function after the statements of the chunk
`local x function f() return x end`, before it is closed. -/
def sampleOuterUpval : LexState :=
  match statlist (parsers 6).1 6 (chunkStart upvalOuterToks) with
  | Except.ok s => s
  | Except.error _ => chunkStart []

/-- Sample input: the expression `1 - 2 - 3`. -/
def subSubToks : List Token :=
  [tkInt 1, tk (Tok.chr '-'), tkInt 2, tk (Tok.chr '-'), tkInt 3]

/-- Sample input: the expression `1 .. 2 .. 3`. -/
def concatToks : List Token :=
  [tkInt 1, tk Tok.TK_CONCAT, tkInt 2, tk Tok.TK_CONCAT, tkInt 3]

/-- Sample input: the expression `-1 ^ 2`. -/
def negPowToks : List Token :=
  [tk (Tok.chr '-'), tkInt 1, tk (Tok.chr '^'), tkInt 2]

/-- Sample input: the expression `-1 * 2`. -/
def negMulToks : List Token :=
  [tk (Tok.chr '-'), tkInt 1, tk (Tok.chr '*'), tkInt 2]

/-- Sample input: the expression `not 1 == 2`. -/
def notEqToks : List Token :=
  [tk Tok.TK_NOT, tkInt 1, tk Tok.TK_EQ, tkInt 2]

/-- Sample state: a function state with three registers in use. -/
def sampleFsThree : FuncState := { f := {}, freereg := 3, nactvar := 3 }

/-- Sample chain of earlier targets, the most recent first: `a[b]` with the
table in local register 0 and the index in local register 1, the local in
register 2, and `b[a]` with the table in register 1 and the index in
register 0. -/
def sampleTargets : List expdesc :=
  [{ k := expkind.VINDEXED, ind_vt := expkind.VLOCAL, ind_t := 0, ind_idx := 1 },
   init_exp expkind.VLOCAL 2,
   { k := expkind.VINDEXED, ind_vt := expkind.VLOCAL, ind_t := 1, ind_idx := 0 }]

/-- Sample control structure: a constructor with 50 items pending, the last
one the integer 7, whose table is in register 0. -/
def sampleFullCc : ConsControl :=
  { v := intLit 7, t := init_exp expkind.VNONRELOC 0, na := 50, tostore := 50 }

/-- Sample input: the list item `8` before the closing brace. -/
def lastItemToks : List Token := [tkInt 8, tk (Tok.chr '}')]

/-- Sample state: the parser in `do goto L local x ::L:: ; end` at the closing
`::` of the label: the `do` block was entered with no active local, the local
`x` is active and the goto is pending. -/
def sampleAtLabelBeforeEnd : LexState :=
  { t := tk Tok.TK_DBCOLON, input := [tk (Tok.chr ';'), tk Tok.TK_END],
    fs := [{ sampleFsLocal with bl := [sampleBlock, sampleBlock] }],
    dyd := { actvar := [{ idx := 0 }], gt := [samplePendingGoto] } }

/-- Sample state: a goto `L` with one active local, pending in a block that
has the label `L` with no active local and no captured upvalue. -/
def sampleGotoOverLabel : LexState :=
  { t := tk Tok.TK_EOS, fs := [{ sampleFsLabel with nactvar := 1 }],
    dyd := { gt := [{ name := "L", pc := 1, line := 1, nactvar := 1 }], label := [sampleLabel] } }

/-- Sample state: the parser at the `(` of the nested function `() ::L:: end`,
in a main function with one pending `goto L`. -/
def sampleNestedLabel : LexState :=
  { chunkStart [tk (Tok.chr '('), tk (Tok.chr ')'), tk Tok.TK_DBCOLON, tkName "L",
      tk Tok.TK_DBCOLON, tk Tok.TK_END] with
    dyd := { gt := [samplePendingGoto] } }

/-- Sample state: the parser in `goto L local x ::L:: ; local y` at the closing
`::` of the label. -/
def sampleAtLabelNoop : LexState :=
  { sampleAtLabelAfterLocal with input := [tk (Tok.chr ';'), tk Tok.TK_LOCAL, tkName "y"] }

/-- Sample state: the parser in `goto L ::L:: ;` at the closing `::` of the
label; the `;` ends the chunk. -/
def sampleAtLabelCloseNoop : LexState :=
  { sampleAtLabelClose with input := [tk (Tok.chr ';')] }

/-- Sample state: the parser in `goto L goto M local x ::L:: ::M:: f` at the
closing `::` of the label `L`; both gotos are pending with no active local. -/
def sampleAtTwoLabels : LexState :=
  { t := tk Tok.TK_DBCOLON,
    input := [tk Tok.TK_DBCOLON, tkName "M", tk Tok.TK_DBCOLON, tkName "f"],
    fs := [sampleFsLocal],
    dyd := { actvar := [{ idx := 0 }],
             gt := [samplePendingGoto, { name := "M", pc := 1, line := 1, nactvar := 0 }] } }

/-- Sample state: the parser in `goto L local x ::L:: ; local y` after the `;`
that follows the label: the label is recorded with one active local and the
goto is still pending. -/
def sampleAfterNoop : LexState :=
  { t := tk Tok.TK_LOCAL, input := [tkName "y"],
    fs := [{ sampleFsLocal with
      lasttarget := 1,
      kcalls := [KCall.jump 0, KCall.reserveregs 1, KCall.nil 0 1, KCall.getlabel 1] }],
    dyd := { actvar := [{ idx := 0 }], gt := [samplePendingGoto],
             label := [{ name := "L", pc := 1, line := 1, nactvar := 1 }] } }

/-- Sample state: the parser in `goto L ::L:: ;` after the `;`, at the end of
the chunk. -/
def sampleAfterCloseNoop : LexState :=
  { t := tk Tok.TK_EOS,
    fs := [{ sampleFsGoto with lasttarget := 1, kcalls := [KCall.jump 0, KCall.getlabel 1] }],
    dyd := { gt := [samplePendingGoto],
             label := [{ name := "L", pc := 1, line := 1, nactvar := 0 }] } }

/-- Sample input: the chunk `local x ::L:: goto L`. -/
def labelGotoToks : List Token :=
  [tk Tok.TK_LOCAL, tkName "x", tk Tok.TK_DBCOLON, tkName "L", tk Tok.TK_DBCOLON,
    tk Tok.TK_GOTO, tkName "L"]

/-- Sample state: the parser in the chunk `local x ::L:: goto L` at the `goto`:
the local `x` is active and the label `L` is recorded with one active local. -/
def sampleBeforeGoto : LexState :=
  { t := { tk Tok.TK_GOTO with line := 1 }, input := [{ tkName "L" with line := 1 }],
    linenumber := 1,
    fs := [{ f := { locvars := [{ varname := "x" }],
                    upvalues := [{ name := "_ENV", instack := true, idx := 0 }],
                    is_vararg := true },
             bl := [sampleBlock], nactvar := 1, freereg := 1,
             kcalls := [KCall.reserveregs 1, KCall.nil 0 1, KCall.getlabel 0] }],
    dyd := { actvar := [{ idx := 0 }],
             label := [{ name := "L", pc := 0, line := 1, nactvar := 1 }] } }

/-- Sample input: the statement `for i = 1, 2 do local x break end`. -/
def forBreakToks : List Token :=
  [tk Tok.TK_FOR, tkName "i", tk (Tok.chr '='), tkInt 1, tk (Tok.chr ','), tkInt 2, tk Tok.TK_DO,
    tk Tok.TK_LOCAL, tkName "x", tk Tok.TK_BREAK, tk Tok.TK_END]

/-- Sample state: the state in which `forstat` leaves the loop block of
`for i = 1, 2 do local x break end` at the start of a chunk. -/
def sampleForExit : LexState :=
  match forstat_exit (parsers 6).2 (parsers 6).1 6 (chunkStart forBreakToks) 1 with
  | Except.ok s => s
  | Except.error _ => chunkStart []

/-- Sample state: the active-variable list of a chunk with the locals
`x`, `y`, `x` active in the main function. -/
def sampleDyd : Dyndata :=
  { actvar := [{ idx := 0 }, { idx := 1 }, { idx := 2 }] }

/-- Sample state: a main function with the environment upvalue, the active
locals `x`, `y`, `x` and one block. -/
def sampleMain : FuncState :=
  { f := { locvars := [{ varname := "x" }, { varname := "y" }, { varname := "x" }],
           upvalues := [{ name := "_ENV", instack := true, idx := 0 }],
           is_vararg := true },
    bl := [{ firstlabel := 0, firstgoto := 0, nactvar := 0, upval := false, isloop := false }],
    nactvar := 3, freereg := 3 }

/-- Sample state: a function without locals or upvalues, nested in another
function (its locals start after the three of `sampleMain`). -/
def sampleInner : FuncState :=
  { bl := [{ firstlabel := 0, firstgoto := 0, nactvar := 0, upval := false, isloop := false }],
    firstlocal := 3 }

/-- Sample state: `sampleMain` inside two nested blocks: the outermost block,
a block entered after the first local and a block entered after all three. -/
def sampleMainBlocks : FuncState :=
  { sampleMain with
    bl := [{ firstlabel := 0, firstgoto := 0, nactvar := 3, upval := false, isloop := false },
           { firstlabel := 0, firstgoto := 0, nactvar := 1, upval := false, isloop := true },
           sampleBlock] }

/-- Sample state: `sampleMain` after its local `y` was captured: the block
that owns it is flagged. -/
def sampleMainMarked : FuncState :=
  { sampleMain with
    bl := [{ firstlabel := 0, firstgoto := 0, nactvar := 0, upval := true, isloop := false }] }

theorem cast_byte_natCast (n : Nat) (h : n < 256) : cast_byte (n : Int) = n := by
  unfold cast_byte
  have : ((n : Int) % 256) = (n : Int) := Int.emod_eq_of_lt (by omega) (by omega)
  rw [this]; simp

theorem searchvar_loop_spec (dyd : Dyndata) (fs : FuncState) (n : TString) (k : Nat) :
    (searchvar_loop dyd fs n k = -1 ∧ ∀ j, j < k → localNamed dyd fs n j = false) ∨
    (∃ i, i < k ∧ searchvar_loop dyd fs n k = (i : Int) ∧ localNamed dyd fs n i = true ∧
      ∀ j, i < j → j < k → localNamed dyd fs n j = false) := by
  induction k with
  | zero => left; simp [searchvar_loop]
  | succ k ih =>
    by_cases hk : localNamed dyd fs n k = true
    · right
      refine ⟨k, by omega, by simp [searchvar_loop, hk], hk, ?_⟩
      intro j h1 h2; omega
    · have hk2 : localNamed dyd fs n k = false := by simpa using hk
      rcases ih with ⟨h1, h2⟩ | ⟨i, hi, h1, h2, h3⟩
      · left
        refine ⟨by simp [searchvar_loop, hk2, h1], ?_⟩
        intro j hj
        by_cases hjk : j = k
        · subst hjk; exact hk2
        · exact h2 j (by omega)
      · right
        refine ⟨i, by omega, by simp [searchvar_loop, hk2, h1], h2, ?_⟩
        intro j hj1 hj2
        by_cases hjk : j = k
        · subst hjk; exact hk2
        · exact h3 j hj1 (by omega)

theorem searchupvalue_loop_ge (name : TString) (ups : List Upvaldesc) (s : Nat) :
    searchupvalue_loop name ups s = -1 ∨ (s : Int) ≤ searchupvalue_loop name ups s := by
  induction ups generalizing s with
  | nil => left; rfl
  | cons up rest ih =>
    by_cases h : eqstr up.name name = true
    · right; simp [searchupvalue_loop, h]
    · have h2 : eqstr up.name name = false := by simpa using h
      rcases ih (s + 1) with h3 | h3
      · left; simp [searchupvalue_loop, h2, h3]
      · right; simp [searchupvalue_loop, h2]; omega

theorem searchupvalue_loop_neg_iff (name : TString) (ups : List Upvaldesc) (s : Nat) :
    searchupvalue_loop name ups s < 0 ↔ name ∉ ups.map Upvaldesc.name := by
  induction ups generalizing s with
  | nil => simp [searchupvalue_loop]
  | cons up rest ih =>
    by_cases h : up.name = name
    · simp [searchupvalue_loop, eqstr, h]
    · have h2 : ¬ name = up.name := fun e => h e.symm
      simp [searchupvalue_loop, eqstr, h, h2, ih (s + 1)]

theorem newupvalue_ok (fs : FuncState) (name : TString) (v : expdesc) (idx : Int)
    (fs1 : FuncState) (h : newupvalue fs name v = Except.ok (idx, fs1)) :
    idx = (fs.nups : Int) ∧ (fs.nups : Int) + 1 ≤ MAXUPVAL ∧
    fs1 = fs.addUpvalue
      { name := name, instack := decide (v.k = expkind.VLOCAL), idx := cast_byte v.info } := by
  unfold newupvalue checklimit at h
  by_cases hl : (fs.nups : Int) + 1 > MAXUPVAL
  · simp [hl] at h
  · simp [hl] at h
    refine ⟨h.1.symm, by omega, ?_⟩
    rw [← h.2]; rfl

theorem newupvalue_eq (fs : FuncState) (name : TString) (v : expdesc)
    (h : (fs.nups : Int) + 1 ≤ MAXUPVAL) :
    newupvalue fs name v = Except.ok ((fs.nups : Int), fs.addUpvalue
      { name := name, instack := decide (v.k = expkind.VLOCAL), idx := cast_byte v.info }) := by
  unfold newupvalue checklimit
  have hl : ¬ ((fs.nups : Int) + 1 > MAXUPVAL) := by omega
  simp [hl, FuncState.addUpvalue]

/-- C1: whenever some active local of the current function is named `n`,
`singlevaraux` with `base = 1` answers `VLOCAL` with the greatest index of an
active local of that name, whatever the upvalues and the enclosing functions
hold, and leaves every function state (so every upvalue list) as it was. -/
theorem singlevaraux_innermost_local (dyd : Dyndata) (fs : FuncState)
    (prev : List FuncState) (n : TString)
    (h : ∃ i, i < fs.nactvar ∧ localNamed dyd fs n i = true) :
    ∃ i, i < fs.nactvar ∧ localNamed dyd fs n i = true ∧
      (∀ j, i < j → j < fs.nactvar → localNamed dyd fs n j = false) ∧
      singlevaraux dyd (fs :: prev) n true =
        Except.ok (init_exp expkind.VLOCAL (i : Int), fs :: prev) := by
  obtain ⟨i0, hi0, hn0⟩ := h
  rcases searchvar_loop_spec dyd fs n fs.nactvar with ⟨_, h2⟩ | ⟨i, hi, h1, h2, h3⟩
  · rw [h2 i0 hi0] at hn0; cases hn0
  · refine ⟨i, hi, h2, h3, ?_⟩
    have hv : searchvar dyd fs n = (i : Int) := h1
    simp [singlevaraux, hv]

/-- Witness of C1: in the sample main function the locals `x`, `y`, `x` are
active and `x` resolves to the innermost one. -/
theorem singlevaraux_innermost_local_witness :
    (∃ i, i < sampleMain.nactvar ∧ localNamed sampleDyd sampleMain "x" i = true) ∧
    ∃ i, i < sampleMain.nactvar ∧ localNamed sampleDyd sampleMain "x" i = true ∧
      (∀ j, i < j → j < sampleMain.nactvar → localNamed sampleDyd sampleMain "x" j = false) ∧
      singlevaraux sampleDyd [sampleMain] "x" true =
        Except.ok (init_exp expkind.VLOCAL (i : Int), [sampleMain]) :=
  ⟨⟨0, by decide, by decide⟩,
   singlevaraux_innermost_local sampleDyd sampleMain [] "x" ⟨0, by decide, by decide⟩⟩

theorem markupval_f (fs fs1 : FuncState) (level : Int) (h : markupval fs level = some fs1) :
    fs1.f = fs.f := by
  unfold markupval at h
  cases hm : markupval_loop level fs.bl with
  | none => simp [hm] at h
  | some bl1 => simp [hm] at h; rw [← h]

theorem searchvar_neg_of_none (dyd : Dyndata) (fs : FuncState) (n : TString)
    (h : ∀ i, i < fs.nactvar → localNamed dyd fs n i = false) : ¬ searchvar dyd fs n ≥ 0 := by
  rcases searchvar_loop_spec dyd fs n fs.nactvar with ⟨h1, _⟩ | ⟨i, hi, _, h2, _⟩
  · unfold searchvar; rw [h1]; omega
  · rw [h i hi] at h2; cases h2

theorem searchvar_eq_of_innermost (dyd : Dyndata) (fs : FuncState) (n : TString) (v : Nat)
    (hv : v < fs.nactvar) (hn : localNamed dyd fs n v = true)
    (hmax : ∀ j, v < j → j < fs.nactvar → localNamed dyd fs n j = false) :
    searchvar dyd fs n = (v : Int) := by
  rcases searchvar_loop_spec dyd fs n fs.nactvar with ⟨_, h2⟩ | ⟨i, hi, h1, h2, h3⟩
  · rw [h2 v hv] at hn; cases hn
  · have hiv : i = v := by
      rcases Nat.lt_trichotomy i v with hlt | heq | hgt
      · rw [h3 v hlt hv] at hn; cases hn
      · exact heq
      · rw [hmax i hgt hi] at h2; cases h2
    unfold searchvar; rw [h1, hiv]

theorem upvalue_chain_aux (dyd : Dyndata) (owner owner1 : FuncState) (rest : List FuncState)
    (n : TString) (v : Nat) (hown : searchvar dyd owner n = (v : Int)) (hv : v < 256)
    (hmark : markupval owner (v : Int) = some owner1) :
    ∀ (inner : List FuncState) (fs : FuncState) (base : Bool),
      (∀ g ∈ fs :: inner, (¬ searchvar dyd g n ≥ 0) ∧ searchupvalue g n < 0 ∧
        (g.nups : Int) + 1 ≤ MAXUPVAL) →
      ∃ inner1 : List FuncState,
        singlevaraux dyd (fs :: inner ++ owner :: rest) n base =
          Except.ok (init_exp expkind.VUPVAL (fs.nups : Int), inner1 ++ owner1 :: rest) ∧
        inner1.length = inner.length + 1 ∧
        ∀ (i : Nat) (g : FuncState), (fs :: inner)[i]? = some g →
          ∃ d : Upvaldesc, inner1[i]? = some (g.addUpvalue d) ∧ d.name = n ∧
            match (fs :: inner)[i + 1]? with
            | none => d.instack = true ∧ d.idx = v
            | some parent => d.instack = false ∧ d.idx = parent.nups := by
  intro inner
  induction inner with
  | nil =>
    intro fs base h
    obtain ⟨h1, h2, h3⟩ := h fs (List.mem_cons_self _ _)
    have hrec : singlevaraux dyd (owner :: rest) n false =
        Except.ok (init_exp expkind.VLOCAL (v : Int), owner1 :: rest) := by
      unfold singlevaraux
      simp [hown, hmark]
    refine ⟨[fs.addUpvalue { name := n, instack := true, idx := v }], ?_, rfl, ?_⟩
    · have hnew := newupvalue_eq fs n (init_exp expkind.VLOCAL (v : Int)) h3
      have hcb : cast_byte (init_exp expkind.VLOCAL (v : Int)).info = v :=
        cast_byte_natCast v hv
      rw [hcb] at hnew
      simp only [List.cons_append, List.nil_append]
      rw [singlevaraux]
      simp only []
      rw [if_neg h1, if_pos h2]
      simp only [hrec]
      simp only [init_exp] at hnew ⊢
      simp [hnew]
    · intro i g hg
      cases i with
      | zero =>
        simp at hg
        subst hg
        exact ⟨{ name := n, instack := true, idx := v }, by simp, rfl, by simp⟩
      | succ j => simp at hg
  | cons fs2 more ih =>
    intro fs base h
    obtain ⟨h1, h2, h3⟩ := h fs (List.mem_cons_self _ _)
    have hmore : ∀ g ∈ fs2 :: more, (¬ searchvar dyd g n ≥ 0) ∧ searchupvalue g n < 0 ∧
        (g.nups : Int) + 1 ≤ MAXUPVAL := fun g hg => h g (List.mem_cons_of_mem _ hg)
    obtain ⟨inner2, hrec, hlen, hchain⟩ := ih fs2 false hmore
    have h32 := (hmore fs2 (List.mem_cons_self _ _)).2.2
    have hlt : fs2.nups < 256 := by unfold MAXUPVAL at h32; omega
    refine ⟨fs.addUpvalue { name := n, instack := false, idx := fs2.nups } :: inner2,
      ?_, by simp [hlen], ?_⟩
    · have hnew := newupvalue_eq fs n (init_exp expkind.VUPVAL (fs2.nups : Int)) h3
      have hcb : cast_byte (init_exp expkind.VUPVAL (fs2.nups : Int)).info = fs2.nups :=
        cast_byte_natCast fs2.nups hlt
      rw [hcb] at hnew
      have hrec2 : singlevaraux dyd (fs2 :: (more ++ owner :: rest)) n false =
          Except.ok (init_exp expkind.VUPVAL (fs2.nups : Int), inner2 ++ owner1 :: rest) := by
        simpa using hrec
      simp only [List.cons_append]
      rw [singlevaraux]
      simp only []
      rw [if_neg h1, if_pos h2]
      simp only [hrec2]
      simp only [init_exp] at hnew ⊢
      simp [hnew]
    · intro i g hg
      cases i with
      | zero =>
        simp at hg
        subst hg
        exact ⟨{ name := n, instack := false, idx := fs2.nups }, by simp, rfl, by simp⟩
      | succ j =>
        have hg2 : (fs2 :: more)[j]? = some g := by simpa using hg
        obtain ⟨d, hd1, hd2, hd3⟩ := hchain j g hg2
        exact ⟨d, by simpa using hd1, hd2, by simpa using hd3⟩

/-- C3: chained capture.  Let the frames `inner` (innermost first, at least
one; the claim asks for two or more) be nested below `owner`, none of them
with an active local or an upvalue named `n`, and let `v` be the slot of the
innermost active local named `n` of `owner`.  Resolving `n` from the innermost
frame yields its new upvalue, and every frame of `inner` gets exactly one
descriptor appended, named `n`: the outermost nested frame (no parent within
`inner`) with `instack = 1` and `idx = v`, every deeper one with `instack = 0`
and `idx` the index of the descriptor just appended to its parent (the
parent's former upvalue count). -/
theorem upvalue_chain (dyd : Dyndata) (inner : List FuncState) (top owner owner1 : FuncState)
    (rest : List FuncState) (n : TString) (v : Nat)
    (hk : inner.head? = some top)
    (hinner : ∀ g ∈ inner, (∀ i, i < g.nactvar → localNamed dyd g n i = false) ∧
      n ∉ g.f.upvalues.map Upvaldesc.name ∧ (g.nups : Int) + 1 ≤ MAXUPVAL)
    (hv : v < owner.nactvar) (hn : localNamed dyd owner n v = true)
    (hmax : ∀ j, v < j → j < owner.nactvar → localNamed dyd owner n j = false)
    (hvars : (owner.nactvar : Int) ≤ MAXVARS)
    (hmark : markupval owner (v : Int) = some owner1) :
    ∃ inner1 : List FuncState,
      singlevaraux dyd (inner ++ owner :: rest) n true =
        Except.ok (init_exp expkind.VUPVAL (top.nups : Int), inner1 ++ owner1 :: rest) ∧
      inner1.length = inner.length ∧
      ∀ (i : Nat) (g : FuncState), inner[i]? = some g →
        ∃ d : Upvaldesc, inner1[i]? = some (g.addUpvalue d) ∧ d.name = n ∧
          match inner[i + 1]? with
          | none => d.instack = true ∧ d.idx = v
          | some parent => d.instack = false ∧ d.idx = parent.nups := by
  cases inner with
  | nil => simp at hk
  | cons fs more =>
    have htop : fs = top := by simpa using hk
    subst htop
    have hown := searchvar_eq_of_innermost dyd owner n v hv hn hmax
    have hv256 : v < 256 := by unfold MAXVARS at hvars; omega
    have hall : ∀ g ∈ fs :: more, (¬ searchvar dyd g n ≥ 0) ∧ searchupvalue g n < 0 ∧
        (g.nups : Int) + 1 ≤ MAXUPVAL := by
      intro g hg
      obtain ⟨a, b, c⟩ := hinner g hg
      exact ⟨searchvar_neg_of_none dyd g n a,
        (searchupvalue_loop_neg_iff n g.f.upvalues 0).mpr b, c⟩
    obtain ⟨inner1, h1, h2, h3⟩ :=
      upvalue_chain_aux dyd owner owner1 rest n v hown hv256 hmark more fs true hall
    exact ⟨inner1, by simpa using h1, by simpa using h2, h3⟩

/-- Witness of C3: two functions nested in the sample main function; the
innermost one references the local `x` in slot 2 of the main function. -/
theorem upvalue_chain_witness :
    (∀ g ∈ [sampleInner, sampleInner],
      (∀ i, i < g.nactvar → localNamed sampleDyd g "x" i = false) ∧
      "x" ∉ g.f.upvalues.map Upvaldesc.name ∧ (g.nups : Int) + 1 ≤ MAXUPVAL) ∧
    markupval sampleMain ((2 : Nat) : Int) = some sampleMainMarked ∧
    ∃ inner1 : List FuncState,
      singlevaraux sampleDyd ([sampleInner, sampleInner] ++ sampleMain :: []) "x" true =
        Except.ok (init_exp expkind.VUPVAL (sampleInner.nups : Int),
          inner1 ++ sampleMainMarked :: []) ∧
      inner1.length = [sampleInner, sampleInner].length ∧
      ∀ (i : Nat) (g : FuncState), [sampleInner, sampleInner][i]? = some g →
        ∃ d : Upvaldesc, inner1[i]? = some (g.addUpvalue d) ∧ d.name = "x" ∧
          match [sampleInner, sampleInner][i + 1]? with
          | none => d.instack = true ∧ d.idx = 2
          | some parent => d.instack = false ∧ d.idx = parent.nups :=
  ⟨by decide, rfl,
    upvalue_chain sampleDyd [sampleInner, sampleInner] sampleInner sampleMain sampleMainMarked
      [] "x" 2 rfl (by decide) (by decide) (by decide)
      (fun j h1 h2 => absurd h2 (by have : sampleMain.nactvar = 3 := rfl; omega))
      (by decide) rfl⟩

/-! ## Theorems: gotos and labels -/

theorem closegoto_ok (ls : LexState) (fs : FuncState) (prev : List FuncState) (g : Nat)
    (gt lb : Labeldesc) (hfs : ls.fs = fs :: prev) (hg : ls.dyd.gt.get? g = some gt)
    (h : lb.nactvar ≤ gt.nactvar) :
    closegoto ls g lb = Except.ok { ls with
      fs := luaK_patchlist fs gt.pc lb.pc :: prev,
      dyd := { ls.dyd with gt := ls.dyd.gt.eraseIdx g } } := by
  unfold closegoto
  rw [hfs, hg]
  have h2 : ¬ gt.nactvar < lb.nactvar := by omega
  simp [h2]

theorem closegoto_err (ls : LexState) (fs : FuncState) (prev : List FuncState) (g : Nat)
    (gt lb : Labeldesc) (lv : LocVar) (hfs : ls.fs = fs :: prev)
    (hg : ls.dyd.gt.get? g = some gt) (h : gt.nactvar < lb.nactvar)
    (hlv : getlocvar ls.dyd fs gt.nactvar = some lv) :
    closegoto ls g lb = Except.error (ParseError.jumpsIntoScope gt.name gt.line lv.varname) := by
  unfold closegoto
  rw [hfs, hg]
  simp [h, hlv]

theorem getlocvar_congr (d1 d2 : Dyndata) (f1 f2 : FuncState) (i : Nat)
    (h1 : d1.actvar = d2.actvar) (h2 : f1.f.locvars = f2.f.locvars)
    (h3 : f1.firstlocal = f2.firstlocal) : getlocvar d1 f1 i = getlocvar d2 f2 i := by
  unfold getlocvar; rw [h1, h2, h3]

theorem get?_append_length {α : Type} (pre : List α) (x : α) (suf : List α) :
    (pre ++ x :: suf).get? pre.length = some x := by
  induction pre with
  | nil => rfl
  | cons a pre ih => simpa using ih

theorem eraseIdx_append_length {α : Type} (pre : List α) (x : α) (suf : List α) :
    (pre ++ x :: suf).eraseIdx pre.length = pre ++ suf := by
  induction pre with
  | nil => rfl
  | cons a pre ih => simpa using ih

theorem findgotos_loop_ok (lb : Labeldesc) :
    ∀ (suf pre : List Labeldesc) (fuel : Nat) (ls : LexState) (fs : FuncState)
      (prev : List FuncState),
      suf.length ≤ fuel → ls.fs = fs :: prev → ls.dyd.gt = pre ++ suf →
      (∀ x ∈ suf, eqstr x.name lb.name = true → lb.nactvar ≤ x.nactvar) →
      findgotos_loop lb fuel pre.length ls = Except.ok { ls with
        fs := { fs with
          kcalls := fs.kcalls ++ patchCalls lb.pc (gotosNamed lb.name suf) } :: prev,
        dyd := { ls.dyd with gt := pre ++ gotosNotNamed lb.name suf } } := by
  intro suf
  induction suf with
  | nil =>
    intro pre fuel ls fs prev _ hfs hgt _
    have hget : ls.dyd.gt.get? pre.length = none := by
      rw [hgt]; simp
    have hls : ls = { ls with
        fs := { fs with
          kcalls := fs.kcalls ++ patchCalls lb.pc (gotosNamed lb.name []) } :: prev,
        dyd := { ls.dyd with gt := pre ++ gotosNotNamed lb.name [] } } := by
      cases ls with
      | mk t input linenumber fs0 dyd nCcalls envn =>
        cases dyd with
        | mk actvar gt label =>
          simp at hfs hgt
          simp [hfs, hgt, patchCalls, gotosNamed, gotosNotNamed]
    cases fuel with
    | zero => unfold findgotos_loop; rw [hget]; exact congrArg Except.ok hls
    | succ f => unfold findgotos_loop; rw [hget]; exact congrArg Except.ok hls
  | cons x suf ih =>
    intro pre fuel ls fs prev hfuel hfs hgt hall
    cases fuel with
    | zero => simp at hfuel
    | succ f =>
      have hget : ls.dyd.gt.get? pre.length = some x := by
        rw [hgt]; exact get?_append_length pre x suf
      unfold findgotos_loop
      rw [hget]
      by_cases hm : eqstr x.name lb.name = true
      · have hx : lb.nactvar ≤ x.nactvar := hall x (List.mem_cons_self _ _) hm
        simp only [hm, if_true]
        rw [closegoto_ok ls fs prev pre.length x lb hfs hget hx]
        simp only []
        have herase : ls.dyd.gt.eraseIdx pre.length = pre ++ suf := by
          rw [hgt]; exact eraseIdx_append_length pre x suf
        rw [ih pre f _ (luaK_patchlist fs x.pc lb.pc) prev (by simp at hfuel; omega) rfl
          (by simpa using herase) (fun y hy => hall y (List.mem_cons_of_mem _ hy))]
        simp [luaK_patchlist, FuncState.emit, hm, patchCalls, gotosNamed, gotosNotNamed]
      · have hm2 : eqstr x.name lb.name = false := by simpa using hm
        simp only [hm2]
        have hgt2 : ls.dyd.gt = (pre ++ [x]) ++ suf := by rw [hgt]; simp
        have := ih (pre ++ [x]) f ls fs prev (by simp at hfuel; omega) hfs hgt2
          (fun y hy => hall y (List.mem_cons_of_mem _ hy))
        simp only [List.length_append, List.length_singleton] at this
        simp only [Bool.false_eq_true, if_false]
        rw [this]
        simp [hm2, patchCalls, gotosNamed, gotosNotNamed]

theorem findgotos_loop_err (lb bad : Labeldesc) (rest : List Labeldesc) (lv : LocVar) :
    ∀ (suf pre : List Labeldesc) (fuel : Nat) (ls : LexState) (fs : FuncState)
      (prev : List FuncState),
      suf.length + 1 + rest.length ≤ fuel → ls.fs = fs :: prev →
      ls.dyd.gt = pre ++ (suf ++ bad :: rest) →
      (∀ x ∈ suf, eqstr x.name lb.name = true → lb.nactvar ≤ x.nactvar) →
      eqstr bad.name lb.name = true → bad.nactvar < lb.nactvar →
      getlocvar ls.dyd fs bad.nactvar = some lv →
      findgotos_loop lb fuel pre.length ls =
        Except.error (ParseError.jumpsIntoScope bad.name bad.line lv.varname) := by
  intro suf
  induction suf with
  | nil =>
    intro pre fuel ls fs prev hfuel hfs hgt _ hbm hbn hlv
    cases fuel with
    | zero => simp at hfuel
    | succ f =>
      have hget : ls.dyd.gt.get? pre.length = some bad := by
        rw [hgt]; exact get?_append_length pre bad rest
      unfold findgotos_loop
      rw [hget]
      simp only [hbm, if_true]
      rw [closegoto_err ls fs prev pre.length bad lb lv hfs hget hbn hlv]
  | cons x suf ih =>
    intro pre fuel ls fs prev hfuel hfs hgt hall hbm hbn hlv
    cases fuel with
    | zero => simp at hfuel
    | succ f =>
      have hget : ls.dyd.gt.get? pre.length = some x := by
        rw [hgt]; exact get?_append_length pre x (suf ++ bad :: rest)
      unfold findgotos_loop
      rw [hget]
      by_cases hm : eqstr x.name lb.name = true
      · have hx : lb.nactvar ≤ x.nactvar := hall x (List.mem_cons_self _ _) hm
        simp only [hm, if_true]
        rw [closegoto_ok ls fs prev pre.length x lb hfs hget hx]
        simp only []
        have herase : ls.dyd.gt.eraseIdx pre.length = pre ++ (suf ++ bad :: rest) := by
          rw [hgt]; exact eraseIdx_append_length pre x (suf ++ bad :: rest)
        exact ih pre f _ (luaK_patchlist fs x.pc lb.pc) prev (by simp at hfuel; omega) rfl
          (by simpa using herase) (fun y hy => hall y (List.mem_cons_of_mem _ hy)) hbm hbn
          (by rw [← hlv]; exact getlocvar_congr _ _ _ _ _ rfl rfl rfl)
      · have hm2 : eqstr x.name lb.name = false := by simpa using hm
        simp only [hm2, Bool.false_eq_true, if_false]
        have hgt2 : ls.dyd.gt = (pre ++ [x]) ++ (suf ++ bad :: rest) := by rw [hgt]; simp
        have := ih (pre ++ [x]) f ls fs prev (by simp at hfuel; omega) hfs hgt2
          (fun y hy => hall y (List.mem_cons_of_mem _ hy)) hbm hbn hlv
        simpa using this

theorem findgotos_ok (ls : LexState) (lb : Labeldesc) (fs : FuncState)
    (prev : List FuncState) (bl : BlockCnt) (previous : List BlockCnt)
    (hfs : ls.fs = fs :: prev) (hbl : fs.bl = bl :: previous)
    (hfg : bl.firstgoto ≤ ls.dyd.gt.length)
    (hall : ∀ x ∈ ls.dyd.gt.drop bl.firstgoto, eqstr x.name lb.name = true →
      lb.nactvar ≤ x.nactvar) :
    findgotos ls lb = Except.ok { ls with
      fs := { fs with
        kcalls := fs.kcalls ++
          patchCalls lb.pc (gotosNamed lb.name (ls.dyd.gt.drop bl.firstgoto)) } :: prev,
      dyd := { ls.dyd with
        gt := ls.dyd.gt.take bl.firstgoto ++
          gotosNotNamed lb.name (ls.dyd.gt.drop bl.firstgoto) } } := by
  unfold findgotos
  rw [hfs]
  simp only [hbl]
  have hlen : (ls.dyd.gt.take bl.firstgoto).length = bl.firstgoto := by
    simp [List.length_take]; omega
  have := findgotos_loop_ok lb (ls.dyd.gt.drop bl.firstgoto) (ls.dyd.gt.take bl.firstgoto)
    (ls.dyd.gt.length - bl.firstgoto) ls fs prev (by simp) hfs
    (by simp) hall
  rw [hlen] at this
  simp only [hbl] at this
  exact this

theorem findgotos_err (ls : LexState) (lb bad : Labeldesc) (fs : FuncState)
    (prev : List FuncState) (bl : BlockCnt) (previous : List BlockCnt)
    (suf rest : List Labeldesc) (lv : LocVar)
    (hfs : ls.fs = fs :: prev) (hbl : fs.bl = bl :: previous)
    (hfg : bl.firstgoto ≤ ls.dyd.gt.length)
    (hsplit : ls.dyd.gt.drop bl.firstgoto = suf ++ bad :: rest)
    (hall : ∀ x ∈ suf, eqstr x.name lb.name = true → lb.nactvar ≤ x.nactvar)
    (hbm : eqstr bad.name lb.name = true) (hbn : bad.nactvar < lb.nactvar)
    (hlv : getlocvar ls.dyd fs bad.nactvar = some lv) :
    findgotos ls lb = Except.error (ParseError.jumpsIntoScope bad.name bad.line lv.varname) := by
  unfold findgotos
  rw [hfs]
  simp only [hbl]
  have hlen : (ls.dyd.gt.take bl.firstgoto).length = bl.firstgoto := by
    simp [List.length_take]; omega
  have hlen2 : suf.length + 1 + rest.length = ls.dyd.gt.length - bl.firstgoto := by
    have := congrArg List.length hsplit
    simp at this; omega
  have := findgotos_loop_err lb bad rest lv suf (ls.dyd.gt.take bl.firstgoto)
    (ls.dyd.gt.length - bl.firstgoto) ls fs prev (by omega) hfs
    (by rw [← hsplit]; simp) hall hbm hbn hlv
  rw [hlen] at this
  exact this

theorem luaX_next_fs (ls : LexState) : (luaX_next ls).fs = ls.fs := by
  unfold luaX_next; split <;> rfl

theorem luaX_next_dyd (ls : LexState) : (luaX_next ls).dyd = ls.dyd := by
  unfold luaX_next; split <;> rfl

theorem luaX_next_nCcalls (ls : LexState) : (luaX_next ls).nCcalls = ls.nCcalls := by
  unfold luaX_next; split <;> rfl

theorem find?_eq_none_of_forall {α : Type} (p : α → Bool) (l : List α)
    (h : ∀ x ∈ l, p x = false) : l.find? p = none := by
  induction l with
  | nil => rfl
  | cons a l ih =>
    have ha := h a (List.mem_cons_self _ _)
    simp only [List.find?, ha]
    exact ih (fun x hx => h x (List.mem_cons_of_mem _ hx))

theorem eraseIdx_length_append {α : Type} (l : List α) (x : α) :
    (l ++ [x]).eraseIdx l.length = l := by
  have := eraseIdx_append_length l x []
  simpa using this

theorem get?_length_append {α : Type} (l : List α) (x : α) :
    (l ++ [x]).get? l.length = some x := get?_append_length l x []

theorem set_length_append {α : Type} (l : List α) (x y : α) :
    (l ++ [x]).set l.length y = l ++ [y] := by
  induction l with
  | nil => rfl
  | cons a l ih => simp

theorem mem_gotosNamed (name : TString) (l : List Labeldesc) (x : Labeldesc) :
    x ∈ gotosNamed name l ↔ x ∈ l ∧ x.name = name := by
  simp [gotosNamed, eqstr]

theorem mem_gotosNotNamed (name : TString) (l : List Labeldesc) (x : Labeldesc) :
    x ∈ gotosNotNamed name l ↔ x ∈ l ∧ x.name ≠ name := by
  simp [gotosNotNamed, eqstr]

theorem drop_take_append {α : Type} (l m : List α) (n : Nat) (h : n ≤ l.length) :
    (l.take n ++ m).drop n = m := by
  have hlen : (l.take n).length = n := by simp [List.length_take]; omega
  have := List.drop_left (l.take n) m
  rw [hlen] at this
  exact this

theorem labelstat_eq_findgotos (R : StatRules) (fuel : Nat) (ls : LexState) (fs : FuncState)
    (prev : List FuncState) (bl : BlockCnt) (previous : List BlockCnt) (L : TString)
    (line : Int) (lvl : Nat)
    (hfs : ls.fs = fs :: prev) (hbl : fs.bl = bl :: previous)
    (htok : ls.t.token = Tok.TK_DBCOLON)
    (hnoop : ¬ ((luaX_next ls).t.token = Tok.chr ';' ∨ (luaX_next ls).t.token = Tok.TK_DBCOLON))
    (hrep : ∀ lb ∈ ls.dyd.label.drop bl.firstlabel, lb.name ≠ L)
    (hlim : (ls.dyd.label.length : Int) < SHRT_MAX)
    (hlvl : lvl = if block_follow (luaX_next ls) false then bl.nactvar else fs.nactvar) :
    labelstat R (fuel + 2) ls L line =
      findgotos
        { luaX_next ls with
          fs := { fs with
            bl := bl :: previous, lasttarget := fs.pc,
            kcalls := fs.kcalls ++ [KCall.getlabel fs.pc] } :: prev,
          dyd := { (luaX_next ls).dyd with
            label := ls.dyd.label ++
              [{ name := L, line := line, nactvar := lvl, pc := fs.pc }] } }
        { name := L, line := line, nactvar := lvl, pc := fs.pc } := by
  have hchk : checkrepeated fs ls.dyd.label L = Except.ok () := by
    unfold checkrepeated
    rw [hbl]
    simp only []
    rw [find?_eq_none_of_forall _ _ (fun lb hlb => by
      have := hrep lb hlb
      simp [eqstr]; exact fun e => this e.symm)]
  have hnext : checknext ls Tok.TK_DBCOLON = Except.ok (luaX_next ls) := by
    simp [checknext, check, htok]
  have hnew : newlabelentry (luaX_next ls) (luaX_next ls).dyd.label L line fs.pc =
      Except.ok (ls.dyd.label.length,
        ls.dyd.label ++ [{ name := L, line := line, nactvar := fs.nactvar, pc := fs.pc }]) := by
    unfold newlabelentry
    rw [luaX_next_fs, hfs, luaX_next_dyd]
    have : ¬ ((ls.dyd.label.length : Int) ≥ SHRT_MAX) := by omega
    simp [this]
  have hskip : ∀ s : LexState, s.t = (luaX_next ls).t →
      skipnoopstat R (fuel + 1) s = Except.ok s := by
    intro s hs
    unfold skipnoopstat
    rw [hs]
    simp only [hnoop, if_false]
  have hbf : ∀ s : LexState, s.t = (luaX_next ls).t →
      block_follow s false = block_follow (luaX_next ls) false := by
    intro s hs; unfold block_follow; rw [hs]
  unfold labelstat
  rw [hfs]
  simp only [hchk, hnext, luaK_getlabel, hnew]
  rw [hskip]
  swap
  · rfl
  simp only [get?_length_append, set_length_append]
  rw [hbl]
  simp only []
  rw [hbf]
  swap
  · rfl
  have hlb : (if block_follow (luaX_next ls) false = true then
        ({ name := L, pc := fs.pc, line := line, nactvar := bl.nactvar } : Labeldesc)
      else { name := L, pc := fs.pc, line := line, nactvar := fs.nactvar }) =
      { name := L, pc := fs.pc, line := line, nactvar := lvl } := by
    rw [hlvl]; split <;> rfl
  simp only [hlb]

theorem labelstat_forward (R : StatRules) (fuel : Nat) (ls : LexState) (fs : FuncState)
    (prev : List FuncState) (bl : BlockCnt) (previous : List BlockCnt) (L : TString)
    (line : Int) (lvl : Nat)
    (hfs : ls.fs = fs :: prev) (hbl : fs.bl = bl :: previous)
    (htok : ls.t.token = Tok.TK_DBCOLON)
    (hnoop : ¬ ((luaX_next ls).t.token = Tok.chr ';' ∨ (luaX_next ls).t.token = Tok.TK_DBCOLON))
    (hrep : ∀ lb ∈ ls.dyd.label.drop bl.firstlabel, lb.name ≠ L)
    (hlim : (ls.dyd.label.length : Int) < SHRT_MAX)
    (hfg : bl.firstgoto ≤ ls.dyd.gt.length)
    (hlvl : lvl = if block_follow (luaX_next ls) false then bl.nactvar else fs.nactvar)
    (hall : ∀ x ∈ ls.dyd.gt.drop bl.firstgoto, x.name = L → lvl ≤ x.nactvar) :
    ∃ ls1 : LexState, labelstat R (fuel + 2) ls L line = Except.ok ls1 ∧
      ls1.fs = { fs with
        lasttarget := fs.pc,
        kcalls := fs.kcalls ++ KCall.getlabel fs.pc ::
          patchCalls fs.pc (gotosNamed L (ls.dyd.gt.drop bl.firstgoto)) } :: prev ∧
      ls1.dyd.gt = ls.dyd.gt.take bl.firstgoto ++
        gotosNotNamed L (ls.dyd.gt.drop bl.firstgoto) ∧
      ls1.dyd.label = ls.dyd.label ++
        [{ name := L, line := line, nactvar := lvl, pc := fs.pc }] := by
  rw [labelstat_eq_findgotos R fuel ls fs prev bl previous L line lvl hfs hbl htok hnoop hrep
    hlim hlvl]
  rw [findgotos_ok _ { name := L, pc := fs.pc, line := line, nactvar := lvl }
    { fs with bl := bl :: previous, lasttarget := fs.pc,
              kcalls := fs.kcalls ++ [KCall.getlabel fs.pc] } prev bl
    previous rfl rfl (by simpa [luaX_next_dyd] using hfg)
    (by
      intro x hx hm
      have hx2 : x ∈ ls.dyd.gt.drop bl.firstgoto := by simpa [luaX_next_dyd] using hx
      exact hall x hx2 (by simpa [eqstr] using hm))]
  refine ⟨_, rfl, ?_, ?_, ?_⟩
  · simp [luaX_next_dyd, ← hbl]
  · simp [luaX_next_dyd]
  · simp [luaX_next_dyd]

theorem labelstat_scope_error (R : StatRules) (fuel : Nat) (ls : LexState) (fs : FuncState)
    (prev : List FuncState) (bl : BlockCnt) (previous : List BlockCnt) (L : TString)
    (line : Int) (lvl : Nat) (suf rest : List Labeldesc) (bad : Labeldesc) (lv : LocVar)
    (hfs : ls.fs = fs :: prev) (hbl : fs.bl = bl :: previous)
    (htok : ls.t.token = Tok.TK_DBCOLON)
    (hnoop : ¬ ((luaX_next ls).t.token = Tok.chr ';' ∨ (luaX_next ls).t.token = Tok.TK_DBCOLON))
    (hrep : ∀ lb ∈ ls.dyd.label.drop bl.firstlabel, lb.name ≠ L)
    (hlim : (ls.dyd.label.length : Int) < SHRT_MAX)
    (hfg : bl.firstgoto ≤ ls.dyd.gt.length)
    (hlvl : lvl = if block_follow (luaX_next ls) false then bl.nactvar else fs.nactvar)
    (hsplit : ls.dyd.gt.drop bl.firstgoto = suf ++ bad :: rest)
    (hall : ∀ x ∈ suf, x.name = L → lvl ≤ x.nactvar)
    (hbm : bad.name = L) (hbn : bad.nactvar < lvl)
    (hlv : getlocvar ls.dyd fs bad.nactvar = some lv) :
    labelstat R (fuel + 2) ls L line =
      Except.error (ParseError.jumpsIntoScope L bad.line lv.varname) := by
  rw [labelstat_eq_findgotos R fuel ls fs prev bl previous L line lvl hfs hbl htok hnoop hrep
    hlim hlvl]
  rw [findgotos_err _ { name := L, pc := fs.pc, line := line, nactvar := lvl } bad
    { fs with bl := bl :: previous, lasttarget := fs.pc,
              kcalls := fs.kcalls ++ [KCall.getlabel fs.pc] } prev bl
    previous suf rest lv rfl rfl (by simpa [luaX_next_dyd] using hfg)
    (by simpa [luaX_next_dyd] using hsplit)
    (by
      intro x hx hm
      exact hall x hx (by simpa [eqstr] using hm))
    (by simp [eqstr, hbm]) hbn
    (by rw [← hlv]; exact getlocvar_congr _ _ _ _ _ (by rw [luaX_next_dyd]) rfl rfl)]
  rw [hbm]

theorem gotostat_backward (ls : LexState) (fs : FuncState) (prev : List FuncState)
    (bl : BlockCnt) (previous : List BlockCnt) (L : TString) (pc : Int) (nameTok : Token)
    (rest : List Token) (lb : Labeldesc)
    (hfs : ls.fs = fs :: prev) (hbl : fs.bl = bl :: previous)
    (htok : ls.t.token = Tok.TK_GOTO) (hin : ls.input = nameTok :: rest)
    (hname : nameTok.token = Tok.TK_NAME) (hts : nameTok.ts = L)
    (hlim : (ls.dyd.gt.length : Int) < SHRT_MAX)
    (hlab : (ls.dyd.label.drop bl.firstlabel).find? (fun x => eqstr x.name L) = some lb)
    (hn : lb.nactvar = fs.nactvar) :
    ∃ ls1 : LexState, gotostat ls pc = Except.ok ls1 ∧
      ls1.fs = { fs with kcalls := fs.kcalls ++ [KCall.patchlist pc lb.pc] } :: prev ∧
      ls1.dyd.gt = ls.dyd.gt ∧ ls1.dyd.label = ls.dyd.label := by
  have h1 : testnext ls Tok.TK_GOTO = (true, luaX_next ls) := by simp [testnext, htok]
  have ht : (luaX_next ls).t = nameTok := by simp [luaX_next, hin]
  have h2 : str_checkname (luaX_next ls) = Except.ok (L, luaX_next (luaX_next ls)) := by
    simp [str_checkname, check, ht, hname, hts]
  have h3 : newlabelentry (luaX_next (luaX_next ls)) (luaX_next (luaX_next ls)).dyd.gt L
      ls.linenumber pc = Except.ok (ls.dyd.gt.length,
        ls.dyd.gt ++ [{ name := L, line := ls.linenumber, nactvar := fs.nactvar, pc := pc }]) := by
    unfold newlabelentry
    rw [luaX_next_fs, luaX_next_fs, hfs, luaX_next_dyd, luaX_next_dyd]
    have : ¬ ((ls.dyd.gt.length : Int) ≥ SHRT_MAX) := by omega
    simp [this]
  unfold gotostat
  simp only [h1, h2, h3]
  unfold findlabel
  simp only [luaX_next_fs, hfs, get?_length_append, hbl, luaX_next_dyd]
  rw [hlab]
  simp only [hn, gt_iff_lt, lt_irrefl, false_and, if_false]
  rw [closegoto_ok _ fs prev ls.dyd.gt.length
    { name := L, line := ls.linenumber, nactvar := fs.nactvar, pc := pc } lb
    rfl (by simp [get?_length_append]) (le_of_eq hn)]
  refine ⟨_, rfl, ?_, ?_, ?_⟩
  · simp [luaK_patchlist, FuncState.emit, hbl]
  · simp [eraseIdx_length_append]
  · simp [luaX_next_dyd]

/-- C4: a goto and a label of the same name in the same block, with no local
declared between them, in either order.
Goto first: at the closing `::` of the label (not followed by another no-op
statement), when every pending goto of the block named `L` has as many active
locals as the label site, `labelstat` succeeds, appends to the emitter calls
`luaK_getlabel` and then exactly one `luaK_patchlist` per pending goto of that
name, each to the label's position `fs.pc` (in particular one for `gt`), and
no goto named `L` is left in the block's part of the pending list.
Label first: at `goto L`, when the first label named `L` of the current block
has as many active locals as the goto site, `gotostat` succeeds, appends
exactly one `luaK_patchlist` from the goto's jump `pc` to the label's position,
and leaves the pending list as it was (the new goto is not pending). -/
theorem goto_label_same_block :
    (∀ (R : StatRules) (fuel : Nat) (ls : LexState) (fs : FuncState) (prev : List FuncState)
      (bl : BlockCnt) (previous : List BlockCnt) (L : TString) (line : Int) (gt : Labeldesc),
      ls.fs = fs :: prev → fs.bl = bl :: previous → ls.t.token = Tok.TK_DBCOLON →
      ¬ ((luaX_next ls).t.token = Tok.chr ';' ∨ (luaX_next ls).t.token = Tok.TK_DBCOLON) →
      (∀ lb ∈ ls.dyd.label.drop bl.firstlabel, lb.name ≠ L) →
      (ls.dyd.label.length : Int) < SHRT_MAX →
      bl.firstgoto ≤ ls.dyd.gt.length → bl.nactvar ≤ fs.nactvar →
      gt ∈ ls.dyd.gt.drop bl.firstgoto → gt.name = L →
      (∀ x ∈ ls.dyd.gt.drop bl.firstgoto, x.name = L → x.nactvar = fs.nactvar) →
      ∃ ls1 : LexState, labelstat R (fuel + 2) ls L line = Except.ok ls1 ∧
        ls1.fs = { fs with
          lasttarget := fs.pc,
          kcalls := fs.kcalls ++ KCall.getlabel fs.pc ::
            patchCalls fs.pc (gotosNamed L (ls.dyd.gt.drop bl.firstgoto)) } :: prev ∧
        KCall.patchlist gt.pc fs.pc ∈
          patchCalls fs.pc (gotosNamed L (ls.dyd.gt.drop bl.firstgoto)) ∧
        (patchCalls fs.pc (gotosNamed L (ls.dyd.gt.drop bl.firstgoto))).length =
          (gotosNamed L (ls.dyd.gt.drop bl.firstgoto)).length ∧
        ls1.dyd.gt.take bl.firstgoto = ls.dyd.gt.take bl.firstgoto ∧
        ∀ x ∈ ls1.dyd.gt.drop bl.firstgoto, x.name ≠ L) ∧
    (∀ (ls : LexState) (fs : FuncState) (prev : List FuncState) (bl : BlockCnt)
      (previous : List BlockCnt) (L : TString) (pc : Int) (nameTok : Token)
      (rest : List Token) (lb : Labeldesc),
      ls.fs = fs :: prev → fs.bl = bl :: previous → ls.t.token = Tok.TK_GOTO →
      ls.input = nameTok :: rest → nameTok.token = Tok.TK_NAME → nameTok.ts = L →
      (ls.dyd.gt.length : Int) < SHRT_MAX →
      (ls.dyd.label.drop bl.firstlabel).find? (fun x => eqstr x.name L) = some lb →
      lb.nactvar = fs.nactvar →
      ∃ ls1 : LexState, gotostat ls pc = Except.ok ls1 ∧
        ls1.fs = { fs with kcalls := fs.kcalls ++ [KCall.patchlist pc lb.pc] } :: prev ∧
        ls1.dyd.gt = ls.dyd.gt ∧ ls1.dyd.label = ls.dyd.label) := by
  constructor
  · intro R fuel ls fs prev bl previous L line gt hfs hbl htok hnoop hrep hlim hfg hbn hgt
      hname hsame
    have hlvl : ∀ x ∈ ls.dyd.gt.drop bl.firstgoto, x.name = L →
        (if block_follow (luaX_next ls) false then bl.nactvar else fs.nactvar) ≤ x.nactvar := by
      intro x hx hn
      rw [hsame x hx hn]
      split
      · exact hbn
      · exact Nat.le_refl _
    obtain ⟨ls1, h1, h2, h3, _⟩ := labelstat_forward R fuel ls fs prev bl previous L line _
      hfs hbl htok hnoop hrep hlim hfg rfl hlvl
    refine ⟨ls1, h1, h2, ?_, ?_, ?_, ?_⟩
    · unfold patchCalls
      exact List.mem_map.mpr ⟨gt, (mem_gotosNamed L _ gt).mpr ⟨hgt, hname⟩, rfl⟩
    · simp [patchCalls]
    · rw [h3]
      have hlen : (ls.dyd.gt.take bl.firstgoto).length = bl.firstgoto := by
        simp [List.length_take]; omega
      have := List.take_left (ls.dyd.gt.take bl.firstgoto)
        (gotosNotNamed L (ls.dyd.gt.drop bl.firstgoto))
      rw [hlen] at this
      exact this
    · intro x hx
      rw [h3, drop_take_append _ _ _ hfg] at hx
      exact ((mem_gotosNotNamed L _ x).mp hx).2
  · intro ls fs prev bl previous L pc nameTok rest lb hfs hbl htok hin hname hts hlim hlab hn
    exact gotostat_backward ls fs prev bl previous L pc nameTok rest lb hfs hbl htok hin hname
      hts hlim hlab hn

/-- Witness of C4: `goto L ::L::` at the closing `::` of the label, and
`::L:: goto L` at the `goto`. -/
theorem goto_label_same_block_witness :
    (∃ ls1 : LexState, labelstat localStatRules 2 sampleAtLabelClose "L" 1 = Except.ok ls1 ∧
      ls1.fs = [{ sampleFsGoto with
        lasttarget := 1,
        kcalls := [KCall.jump 0, KCall.getlabel 1, KCall.patchlist 0 1] }] ∧
      ∀ x ∈ ls1.dyd.gt.drop 0, x.name ≠ "L") ∧
    (∃ ls1 : LexState, gotostat sampleAtGoto 0 = Except.ok ls1 ∧
      ls1.fs = [{ sampleFsLabel with
        kcalls := [KCall.getlabel 0, KCall.jump 0, KCall.patchlist 0 0] }] ∧
      ls1.dyd.gt = []) :=
  ⟨(goto_label_same_block.1 localStatRules 0 sampleAtLabelClose sampleFsGoto [] sampleBlock []
      "L" 1 samplePendingGoto rfl rfl rfl (by decide) (by decide) (by decide) (by decide)
      (by decide) (by decide) rfl (by decide)).imp
      (fun _ h => ⟨h.1, h.2.1, h.2.2.2.2.2⟩),
    (goto_label_same_block.2 sampleAtGoto sampleFsLabel [] sampleBlock [] "L" 0 (tkName "L") []
      sampleLabel rfl rfl rfl rfl rfl rfl (by decide) rfl rfl).imp
      (fun _ h => ⟨h.1, h.2.1, h.2.2.1⟩)⟩

/-- Counterexample to C5 as stated: in the chunk `goto L local x ::L::` the
local `x` is declared between the goto and the label and is still active at
the label, yet the three statements parse without error: the label ends its
block, takes the level of the block, and the goto is patched to it. -/
theorem label_at_block_end_after_local :
    statement localStatRules 4 (sampleStart cexToks) = Except.ok cexAfterGoto ∧
    statement localStatRules 4 cexAfterGoto = Except.ok cexAfterLocal ∧
    statement localStatRules 4 cexAfterLocal = Except.ok cexAfterLabel ∧
    cexAfterLocal.fs.map FuncState.nactvar = [1] ∧
    cexAfterLocal.dyd.gt = [{ name := "L", pc := 0, line := 1, nactvar := 0 }] ∧
    cexAfterLabel.dyd.gt = [] := by
  refine ⟨?_, ?_, ?_, rfl, rfl, rfl⟩
  · decide
  · decide
  · decide

/-! ## Theorems: leaving blocks -/

theorem removevars_loop_some (dyd : Dyndata) (tolevel : Nat) :
    ∀ (n : Nat) (fs : FuncState),
      (∀ i, tolevel ≤ i → i < tolevel + n →
        ∃ vd, dyd.actvar.get? (fs.firstlocal + i) = some vd ∧ vd.idx < fs.f.locvars.length) →
      ∃ fs1, removevars_loop dyd tolevel n fs = some fs1 ∧ fs1.bl = fs.bl ∧
        fs1.kcalls = fs.kcalls ∧ fs1.pc = fs.pc ∧ fs1.firstlocal = fs.firstlocal ∧
        fs1.f.upvalues = fs.f.upvalues ∧ fs1.f.locvars.length = fs.f.locvars.length := by
  intro n
  induction n with
  | zero => intro fs _; exact ⟨fs, rfl, rfl, rfl, rfl, rfl, rfl, rfl⟩
  | succ k ih =>
    intro fs h
    obtain ⟨vd, hvd, hidx⟩ := h (tolevel + k) (by omega) (by omega)
    obtain ⟨lv, hlv⟩ : ∃ lv, fs.f.locvars.get? vd.idx = some lv := by
      cases hg : fs.f.locvars.get? vd.idx with
      | none =>
        have := List.get?_eq_none.mp hg
        omega
      | some lv => exact ⟨lv, rfl⟩
    unfold removevars_loop
    rw [hvd]
    simp only [hlv]
    obtain ⟨fs1, h1, h2, h3, h4, h5, h6, h7⟩ := ih
      { fs with f := { fs.f with
          locvars := fs.f.locvars.set vd.idx { lv with endpc := fs.pc } } }
      (by
        intro i hi1 hi2
        obtain ⟨vd2, hv2, hi3⟩ := h i hi1 (by omega)
        exact ⟨vd2, hv2, by simpa using hi3⟩)
    exact ⟨fs1, h1, h2, h3, h4, h5, h6, by simpa using h7⟩

theorem getlocvar_isSome (dyd : Dyndata) (fs : FuncState) (i : Nat)
    (h : (getlocvar dyd fs i).isSome = true) :
    ∃ vd, dyd.actvar.get? (fs.firstlocal + i) = some vd ∧ vd.idx < fs.f.locvars.length := by
  unfold getlocvar at h
  cases hvd : dyd.actvar.get? (fs.firstlocal + i) with
  | none => rw [hvd] at h; simp at h
  | some vd =>
    rw [hvd] at h
    refine ⟨vd, rfl, ?_⟩
    cases hg : fs.f.locvars.get? vd.idx with
    | none => simp only [hg] at h; simp at h
    | some lv =>
      have := List.get?_eq_some.mp hg
      exact this.1

theorem removevars_ok (ls : LexState) (fs : FuncState) (prev : List FuncState) (tolevel : Nat)
    (hfs : ls.fs = fs :: prev) (hge : tolevel ≤ fs.nactvar)
    (hwf : ∀ i, tolevel ≤ i → i < fs.nactvar → (getlocvar ls.dyd fs i).isSome = true) :
    ∃ ls1 fs1, removevars ls tolevel = Except.ok ls1 ∧ ls1.fs = fs1 :: prev ∧
      fs1.bl = fs.bl ∧ fs1.kcalls = fs.kcalls ∧ fs1.pc = fs.pc ∧ fs1.nactvar = tolevel ∧
      ls1.dyd.gt = ls.dyd.gt ∧ ls1.dyd.label = ls.dyd.label := by
  have hex : ∀ i, tolevel ≤ i → i < tolevel + (fs.nactvar - tolevel) →
      ∃ vd, ls.dyd.actvar.get? (fs.firstlocal + i) = some vd ∧
        vd.idx < fs.f.locvars.length := by
    intro i h1 h2
    exact getlocvar_isSome ls.dyd fs i (hwf i h1 (by omega))
  have hlen : ¬ (fs.nactvar < tolevel ∨ ls.dyd.actvar.length < fs.nactvar - tolevel) := by
    intro h
    rcases h with h | h
    · omega
    · by_cases hz : fs.nactvar - tolevel = 0
      · omega
      · obtain ⟨vd, hvd, _⟩ := hex (fs.nactvar - 1) (by omega) (by omega)
        have := (List.get?_eq_some.mp hvd).1
        omega
  obtain ⟨fs1, h1, h2, h3, h4, _, _, _⟩ :=
    removevars_loop_some ls.dyd tolevel (fs.nactvar - tolevel) fs hex
  unfold removevars
  rw [hfs]
  simp only [hlen, if_false, h1]
  exact ⟨_, _, rfl, rfl, h2, h3, h4, rfl, rfl, rfl⟩

theorem leaveblock_outermost_eq (ls : LexState) (fs : FuncState) (prev : List FuncState)
    (bl : BlockCnt) (hfs : ls.fs = fs :: prev) (hbl : fs.bl = [bl])
    (hloop : bl.isloop = false) (hge : bl.nactvar ≤ fs.nactvar)
    (hwf : ∀ i, bl.nactvar ≤ i → i < fs.nactvar → (getlocvar ls.dyd fs i).isSome = true) :
    ∃ ls4 : LexState, ls4.dyd.gt = ls.dyd.gt ∧
      leaveblock ls =
        match ls.dyd.gt.get? bl.firstgoto with
        | some gt => Except.error (undefgoto gt)
        | none => Except.ok ls4 := by
  obtain ⟨ls3, fs3, h1, h2, _, _, _, _, h7, _⟩ :=
    removevars_ok { ls with fs := { fs with bl := [] } :: prev } { fs with bl := [] } prev
      bl.nactvar rfl hge
      (by
        intro i hi1 hi2
        rw [← hwf i hi1 hi2]
        exact congrArg Option.isSome (getlocvar_congr _ _ _ _ _ rfl rfl rfl))
  refine ⟨{ ls3 with
      fs := { fs3 with freereg := fs3.nactvar } :: prev,
      dyd := { ls3.dyd with label := ls3.dyd.label.take bl.firstlabel } }, ?_, ?_⟩
  · simpa using h7
  · unfold leaveblock
    rw [hfs]
    simp only [hbl, hloop, ne_eq, not_true_eq_false, false_and, if_false, Bool.false_eq_true]
    rw [h1]
    simp only [h2]
    have hgt : ls3.dyd.gt = ls.dyd.gt := by simpa using h7
    rw [hgt]

/-- C6: leaving the outermost block of a function (no previous block; such a
block is entered by `open_func` with the loop flag clear), in a state whose
active locals have their records: `leaveblock` raises an undefined-label error
if and only if a goto is pending at or after the block's `firstgoto`; the
error is the one of the first pending goto; and when none is pending
`leaveblock` returns normally with the pending-goto list unchanged. -/
theorem leaveblock_outermost (ls : LexState) (fs : FuncState) (prev : List FuncState)
    (bl : BlockCnt) (hfs : ls.fs = fs :: prev) (hbl : fs.bl = [bl])
    (hloop : bl.isloop = false) (hge : bl.nactvar ≤ fs.nactvar)
    (hwf : ∀ i, bl.nactvar ≤ i → i < fs.nactvar → (getlocvar ls.dyd fs i).isSome = true) :
    ((∃ gt, leaveblock ls = Except.error (undefgoto gt)) ↔
      bl.firstgoto < ls.dyd.gt.length) ∧
    (∀ gt, ls.dyd.gt.get? bl.firstgoto = some gt →
      leaveblock ls = Except.error (undefgoto gt)) ∧
    (ls.dyd.gt.length ≤ bl.firstgoto →
      ∃ ls1 : LexState, leaveblock ls = Except.ok ls1 ∧ ls1.dyd.gt = ls.dyd.gt) := by
  obtain ⟨ls4, h4, heq⟩ := leaveblock_outermost_eq ls fs prev bl hfs hbl hloop hge hwf
  have hsome : ∀ gt, ls.dyd.gt.get? bl.firstgoto = some gt →
      leaveblock ls = Except.error (undefgoto gt) := by
    intro gt hgt
    rw [heq, hgt]
  have hnone : ls.dyd.gt.length ≤ bl.firstgoto →
      ∃ ls1 : LexState, leaveblock ls = Except.ok ls1 ∧ ls1.dyd.gt = ls.dyd.gt := by
    intro hle
    have hg : ls.dyd.gt.get? bl.firstgoto = none := List.get?_eq_none.mpr hle
    exact ⟨ls4, by rw [heq, hg], h4⟩
  refine ⟨⟨?_, ?_⟩, hsome, hnone⟩
  · rintro ⟨gt, hgt⟩
    by_contra hlt
    obtain ⟨ls1, h1, _⟩ := hnone (by omega)
    rw [h1] at hgt
    cases hgt
  · intro hlt
    cases hg : ls.dyd.gt.get? bl.firstgoto with
    | none =>
      have := List.get?_eq_none.mp hg
      omega
    | some gt => exact ⟨gt, hsome gt hg⟩

/-- Witness of C6: after `goto L local x` the main function is left with the
goto pending (error), and after `goto L local x ::L::` with none pending. -/
theorem leaveblock_outermost_witness :
    leaveblock cexAfterLocal = Except.error (ParseError.noVisibleLabel "L" 1) ∧
    ∃ ls1 : LexState, leaveblock cexAfterLabel = Except.ok ls1 ∧
      ls1.dyd.gt = cexAfterLabel.dyd.gt :=
  ⟨(leaveblock_outermost cexAfterLocal sampleFsLocal [] sampleBlock rfl rfl rfl (by decide)
      (by decide)).2.1 samplePendingGoto rfl,
    (leaveblock_outermost cexAfterLabel _ [] sampleBlock rfl rfl rfl (by decide)
      (by decide)).2.2 (by decide)⟩

/-! ## Theorems: breaks outside loops -/

theorem gotosNamed_set (n : TString) :
    ∀ (l : List Labeldesc) (i : Nat) (x y : Labeldesc), l.get? i = some x →
      y.name = x.name → y.pc = x.pc →
      (gotosNamed n (l.set i y)).map Labeldesc.pc = (gotosNamed n l).map Labeldesc.pc := by
  intro l
  induction l with
  | nil => intro i x y h; simp at h
  | cons a l ih =>
    intro i x y h hn hp
    cases i with
    | zero =>
      have ha : a = x := by simpa using h
      subst ha
      by_cases hm : eqstr a.name n = true
      · have hm2 : eqstr y.name n = true := by rw [hn]; exact hm
        simp [gotosNamed, List.filter, hm, hm2, hp]
      · have hm1 : eqstr a.name n = false := by simpa using hm
        have hm2 : eqstr y.name n = false := by rw [hn]; exact hm1
        simp [gotosNamed, List.filter, hm1, hm2]
    | succ j =>
      have h2 : l.get? j = some x := by simpa using h
      have := ih j x y h2 hn hp
      by_cases hm : eqstr a.name n = true
      · simp only [gotosNamed, List.set, List.filter, hm, List.map] at this ⊢
        rw [this]
      · have hm1 : eqstr a.name n = false := by simpa using hm
        simp only [gotosNamed, List.set, List.filter, hm1] at this ⊢
        exact this

theorem gotosNamed_eraseIdx (n : TString) :
    ∀ (l : List Labeldesc) (i : Nat) (x : Labeldesc), l.get? i = some x → x.name ≠ n →
      gotosNamed n (l.eraseIdx i) = gotosNamed n l := by
  intro l
  induction l with
  | nil => intro i x h; simp at h
  | cons a l ih =>
    intro i x h hn
    cases i with
    | zero =>
      have ha : a = x := by simpa using h
      subst ha
      have hm : eqstr a.name n = false := by simp [eqstr, hn]
      simp [gotosNamed, List.filter, hm]
    | succ j =>
      have h2 : l.get? j = some x := by simpa using h
      have := ih j x h2 hn
      by_cases hm : eqstr a.name n = true
      · simp only [gotosNamed, List.eraseIdx, List.filter, hm] at this ⊢
        rw [this]
      · have hm1 : eqstr a.name n = false := by simpa using hm
        simp only [gotosNamed, List.eraseIdx, List.filter, hm1] at this ⊢
        exact this

theorem take_set_of_le {α : Type} :
    ∀ (l : List α) (i fg : Nat) (y : α), fg ≤ i → (l.set i y).take fg = l.take fg := by
  intro l
  induction l with
  | nil => intro i fg y _; simp
  | cons a l ih =>
    intro i fg y h
    cases fg with
    | zero => simp
    | succ k =>
      cases i with
      | zero => omega
      | succ j => simp [ih j k y (by omega)]

theorem take_eraseIdx_of_le {α : Type} :
    ∀ (l : List α) (i fg : Nat), fg ≤ i → (l.eraseIdx i).take fg = l.take fg := by
  intro l
  induction l with
  | nil => intro i fg _; simp
  | cons a l ih =>
    intro i fg h
    cases fg with
    | zero => simp
    | succ k =>
      cases i with
      | zero => omega
      | succ j => simp [ih j k (by omega)]

theorem mem_of_find?_eq_some {α : Type} (p : α → Bool) :
    ∀ (l : List α) (x : α), l.find? p = some x → x ∈ l ∧ p x = true := by
  intro l
  induction l with
  | nil => intro x h; simp at h
  | cons a l ih =>
    intro x h
    by_cases hp : p a = true
    · simp [List.find?, hp] at h
      subst h
      exact ⟨List.mem_cons_self _ _, hp⟩
    · have hp2 : p a = false := by simpa using hp
      simp only [List.find?, hp2] at h
      obtain ⟨h1, h2⟩ := ih x h
      exact ⟨List.mem_cons_of_mem _ h1, h2⟩

theorem findlabel_cases (ls ls2 : LexState) (i : Nat) (b : Bool)
    (h : findlabel ls i = Except.ok (b, ls2)) :
    ls2.dyd.label = ls.dyd.label ∧ ls2.fs.length = ls.fs.length ∧
    ((b = false ∧ ls2 = ls) ∨
     (b = true ∧ ∃ gt lb, ls.dyd.gt.get? i = some gt ∧ lb ∈ ls.dyd.label ∧
       lb.name = gt.name ∧ ls2.dyd.gt = ls.dyd.gt.eraseIdx i)) := by
  unfold findlabel at h
  cases hfs : ls.fs with
  | nil => rw [hfs] at h; simp at h
  | cons fs prev =>
    cases hg : ls.dyd.gt.get? i with
    | none => rw [hfs, hg] at h; simp at h
    | some gt =>
      rw [hfs, hg] at h
      simp only [] at h
      cases hbl : fs.bl with
      | nil => rw [hbl] at h; simp at h
      | cons bl previous =>
        rw [hbl] at h
        simp only [] at h
        cases hf : (ls.dyd.label.drop bl.firstlabel).find? (fun lb => eqstr lb.name gt.name) with
        | none =>
          rw [hf] at h
          simp only [Except.ok.injEq, Prod.mk.injEq] at h
          obtain ⟨hb, hl⟩ := h
          subst hb; subst hl
          exact ⟨rfl, by rw [hfs], Or.inl ⟨rfl, rfl⟩⟩
        | some lb =>
          rw [hf] at h
          simp only [] at h
          obtain ⟨hmem, hname⟩ := mem_of_find?_eq_some _ _ _ hf
          have hmem2 : lb ∈ ls.dyd.label := List.mem_of_mem_drop hmem
          have hname2 : lb.name = gt.name := by simpa [eqstr] using hname
          by_cases hlt : gt.nactvar < lb.nactvar
          · unfold closegoto at h
            simp only [hg] at h
            cases hv : getlocvar ls.dyd
                (if gt.nactvar > lb.nactvar ∧
                    (bl.upval = true ∨ ls.dyd.label.length > bl.firstlabel)
                  then luaK_patchclose fs gt.pc lb.nactvar else fs) gt.nactvar with
            | none => simp [hlt, hv] at h
            | some lv => simp [hlt, hv] at h
          · unfold closegoto at h
            simp only [hg, hlt, if_false] at h
            simp only [Except.ok.injEq, Prod.mk.injEq] at h
            obtain ⟨hb, hl⟩ := h
            subst hb; subst hl
            refine ⟨rfl, by simp [hfs], Or.inr ⟨rfl, gt, lb, rfl, hmem2, hname2, rfl⟩⟩

theorem movegotosout_loop_breaks (bl : BlockCnt) (fg : Nat) (n : TString) :
    ∀ (fuel i : Nat) (ls ls1 : LexState), fg ≤ i →
      (∀ lb ∈ ls.dyd.label, lb.name ≠ n) →
      movegotosout_loop bl fuel i ls = Except.ok ls1 →
      ls1.dyd.gt.take fg = ls.dyd.gt.take fg ∧
      (gotosNamed n ls1.dyd.gt).map Labeldesc.pc = (gotosNamed n ls.dyd.gt).map Labeldesc.pc ∧
      ls1.dyd.label = ls.dyd.label := by
  intro fuel
  induction fuel with
  | zero =>
    intro i ls ls1 _ _ h
    unfold movegotosout_loop at h
    cases hg : ls.dyd.gt.get? i with
    | none =>
      rw [hg] at h
      simp only [Except.ok.injEq] at h
      subst h
      exact ⟨rfl, rfl, rfl⟩
    | some gt => rw [hg] at h; simp at h
  | succ fuel ih =>
    intro i ls ls1 hi hnb h
    unfold movegotosout_loop at h
    cases hg : ls.dyd.gt.get? i with
    | none =>
      rw [hg] at h
      cases hfs : ls.fs with
      | nil =>
        rw [hfs] at h
        simp only [Except.ok.injEq] at h
        subst h
        exact ⟨rfl, rfl, rfl⟩
      | cons fs prev =>
        rw [hfs] at h
        simp only [Except.ok.injEq] at h
        subst h
        exact ⟨rfl, rfl, rfl⟩
    | some gt =>
      rw [hg] at h
      cases hfs : ls.fs with
      | nil => rw [hfs] at h; simp at h
      | cons fs prev =>
        rw [hfs] at h
        simp only [] at h
        generalize hmid :
          (if gt.nactvar > bl.nactvar then
            ({ ls with
              fs := (if bl.upval = true then luaK_patchclose fs gt.pc bl.nactvar else fs) :: prev,
              dyd := { ls.dyd with
                gt := ls.dyd.gt.set i { gt with nactvar := bl.nactvar } } } : LexState)
          else ls) = lsm at h
        have hm1 : lsm.dyd.label = ls.dyd.label := by
          rw [← hmid]; split <;> rfl
        have hm2 : lsm.dyd.gt.take fg = ls.dyd.gt.take fg := by
          rw [← hmid]; split
          · exact take_set_of_le _ _ _ _ hi
          · rfl
        have hm3 : (gotosNamed n lsm.dyd.gt).map Labeldesc.pc =
            (gotosNamed n ls.dyd.gt).map Labeldesc.pc := by
          rw [← hmid]; split
          · exact gotosNamed_set n _ i gt _ hg rfl rfl
          · rfl
        cases hfl : findlabel lsm i with
        | error e => rw [hfl] at h; simp at h
        | ok r =>
          obtain ⟨b, ls2⟩ := r
          rw [hfl] at h
          obtain ⟨hl, _, hcase⟩ := findlabel_cases lsm ls2 i b hfl
          have hnb2 : ∀ lb ∈ ls2.dyd.label, lb.name ≠ n := by
            intro lb hlb
            rw [hl, hm1] at hlb
            exact hnb lb hlb
          rcases hcase with ⟨hb, h2⟩ | ⟨hb, g, lb, hgi, hlb, hname, hgt2⟩
          · subst hb
            simp only [] at h
            obtain ⟨a1, a2, a3⟩ := ih (i + 1) ls2 ls1 (by omega) hnb2 h
            rw [h2] at a1 a2 a3
            exact ⟨a1.trans hm2, a2.trans hm3, a3.trans hm1⟩
          · subst hb
            simp only [] at h
            obtain ⟨a1, a2, a3⟩ := ih i ls2 ls1 hi hnb2 h
            have hgn : g.name ≠ n := by
              rw [← hname]
              exact hnb lb (by rw [hm1] at hlb; exact hlb)
            have e1 : ls2.dyd.gt.take fg = lsm.dyd.gt.take fg := by
              rw [hgt2]; exact take_eraseIdx_of_le _ _ _ hi
            have e2 : gotosNamed n ls2.dyd.gt = gotosNamed n lsm.dyd.gt := by
              rw [hgt2]; exact gotosNamed_eraseIdx n _ i g hgi hgn
            refine ⟨a1.trans (e1.trans hm2), ?_, a3.trans (hl.trans hm1)⟩
            rw [a2, e2, hm3]

theorem removevars_dyd (ls ls1 : LexState) (tolevel : Nat)
    (h : removevars ls tolevel = Except.ok ls1) :
    ls1.dyd.gt = ls.dyd.gt ∧ ls1.dyd.label = ls.dyd.label := by
  unfold removevars at h
  cases hfs : ls.fs with
  | nil => rw [hfs] at h; simp at h
  | cons fs prev =>
    rw [hfs] at h
    simp only [] at h
    split at h
    · simp at h
    · cases hr : removevars_loop ls.dyd tolevel (fs.nactvar - tolevel) fs with
      | none => rw [hr] at h; simp at h
      | some fs1 =>
        rw [hr] at h
        simp only [Except.ok.injEq] at h
        subst h
        exact ⟨rfl, rfl⟩

theorem gotosNamed_take_drop (n : TString) (l : List Labeldesc) (k : Nat) :
    gotosNamed n l = gotosNamed n (l.take k) ++ gotosNamed n (l.drop k) := by
  unfold gotosNamed
  rw [← List.filter_append, List.take_append_drop]

theorem gotostat_break (ls : LexState) (fs : FuncState) (prev : List FuncState)
    (bl : BlockCnt) (previous : List BlockCnt) (pc : Int)
    (hfs : ls.fs = fs :: prev) (hbl : fs.bl = bl :: previous)
    (htok : ls.t.token = Tok.TK_BREAK)
    (hlim : (ls.dyd.gt.length : Int) < SHRT_MAX)
    (hnb : ∀ lb ∈ ls.dyd.label.drop bl.firstlabel, lb.name ≠ "break") :
    ∃ ls1 : LexState, gotostat ls pc = Except.ok ls1 ∧
      ls1.dyd.gt = ls.dyd.gt ++
        [{ name := "break", line := ls.linenumber, nactvar := fs.nactvar, pc := pc }] ∧
      ls1.fs = ls.fs ∧ ls1.dyd.label = ls.dyd.label := by
  have h1 : testnext ls Tok.TK_GOTO = (false, ls) := by simp [testnext, htok]
  have h3 : newlabelentry (luaX_next ls) (luaX_next ls).dyd.gt "break" ls.linenumber pc =
      Except.ok (ls.dyd.gt.length, ls.dyd.gt ++
        [{ name := "break", line := ls.linenumber, nactvar := fs.nactvar, pc := pc }]) := by
    unfold newlabelentry
    rw [luaX_next_fs, hfs, luaX_next_dyd]
    have : ¬ ((ls.dyd.gt.length : Int) ≥ SHRT_MAX) := by omega
    simp [this]
  have hfind : (ls.dyd.label.drop bl.firstlabel).find? (fun lb => eqstr lb.name "break") =
      none :=
    find?_eq_none_of_forall _ _ (fun lb hlb => by simp [eqstr, hnb lb hlb])
  unfold gotostat
  simp only [h1, h3]
  unfold findlabel
  simp only [luaX_next_fs, hfs, get?_length_append, hbl, luaX_next_dyd, hfind]
  exact ⟨_, rfl, rfl, by simp [luaX_next_fs, hfs, hbl], by simp [luaX_next_dyd]⟩

theorem leaveblock_inner_breaks (ls ls1 : LexState) (fs : FuncState) (prev : List FuncState)
    (bl : BlockCnt) (previous : List BlockCnt) (n : TString)
    (hfs : ls.fs = fs :: prev) (hbl : fs.bl = bl :: previous) (hprev : previous ≠ [])
    (hloop : bl.isloop = false) (hnb : ∀ lb ∈ ls.dyd.label, lb.name ≠ n)
    (h : leaveblock ls = Except.ok ls1) :
    ls1.dyd.gt.take bl.firstgoto = ls.dyd.gt.take bl.firstgoto ∧
    (gotosNamed n (ls1.dyd.gt.drop bl.firstgoto)).map Labeldesc.pc =
      (gotosNamed n (ls.dyd.gt.drop bl.firstgoto)).map Labeldesc.pc := by
  unfold leaveblock at h
  rw [hfs] at h
  simp only [hbl, hloop, Bool.false_eq_true, if_false] at h
  generalize hmid : removevars _ bl.nactvar = r at h
  cases r with
  | error e => simp at h
  | ok ls3 =>
    obtain ⟨hg3, hl3⟩ := removevars_dyd _ ls3 bl.nactvar hmid
    simp only [] at h
    cases hfs3 : ls3.fs with
    | nil => rw [hfs3] at h; simp at h
    | cons fs3 prev3 =>
      rw [hfs3] at h
      simp only [ne_eq, hprev, not_false_eq_true, if_true] at h
      unfold movegotosout at h
      obtain ⟨a1, a2, _⟩ := movegotosout_loop_breaks bl bl.firstgoto n _ _ _ ls1
        (Nat.le_refl _)
        (by
          intro lb hlb
          have hlb2 : lb ∈ ls3.dyd.label := List.mem_of_mem_take hlb
          rw [hl3] at hlb2
          exact hnb lb hlb2)
        h
      have b1 : ls1.dyd.gt.take bl.firstgoto = ls.dyd.gt.take bl.firstgoto := by
        rw [a1]; simp only []; rw [hg3]
      have b2 : (gotosNamed n ls1.dyd.gt).map Labeldesc.pc =
          (gotosNamed n ls.dyd.gt).map Labeldesc.pc := by
        rw [a2]; simp only []; rw [hg3]
      refine ⟨b1, ?_⟩
      have s1 := gotosNamed_take_drop n ls1.dyd.gt bl.firstgoto
      have s2 := gotosNamed_take_drop n ls.dyd.gt bl.firstgoto
      rw [s1, s2, b1, List.map_append, List.map_append] at b2
      exact List.append_cancel_left b2

/-- Counterexample to C7 as stated: in the chunk `goto foo break` the break is
not enclosed by any loop, yet the parse does not fail with the "not inside a
loop" variant: when the main function is left the error is reported for the
first pending goto, `goto foo`, in the "no visible label" variant. -/
theorem break_after_pending_goto :
    statement localStatRules 4 (sampleStart brkToks) = Except.ok brkAfterGoto ∧
    statement localStatRules 4 brkAfterGoto = Except.ok brkAfterBreak ∧
    leaveblock brkAfterBreak = Except.error (ParseError.noVisibleLabel "foo" 1) := by
  refine ⟨?_, ?_, ?_⟩
  · decide
  · decide
  · decide

/-- C7, amended: a `break` outside any loop block of its function.
(1) `gotostat` at a `break` token, with no label named "break" among the labels
of the current block, records a pending goto named "break" and resolves
nothing.  (2) Leaving an inner block that is not a loop, with no label named
"break" in the label list, leaves the pending gotos below the block's
`firstgoto` as they are and keeps exactly the pending breaks of the block (the
same jumps, in the same order).  (3) Leaving the outermost block of the
function while a goto is pending fails with the undefined-label error of the
first pending goto of the function: the "not inside a loop" variant when that
goto is a break, the "no visible label" variant when its name is not
reserved.  Function states of enclosing functions (`prev`) and their loops
play no part. -/
theorem break_outside_loop :
    (∀ (ls : LexState) (fs : FuncState) (prev : List FuncState) (bl : BlockCnt)
      (previous : List BlockCnt) (pc : Int),
      ls.fs = fs :: prev → fs.bl = bl :: previous → ls.t.token = Tok.TK_BREAK →
      (ls.dyd.gt.length : Int) < SHRT_MAX →
      (∀ lb ∈ ls.dyd.label.drop bl.firstlabel, lb.name ≠ "break") →
      ∃ ls1 : LexState, gotostat ls pc = Except.ok ls1 ∧
        ls1.dyd.gt = ls.dyd.gt ++
          [{ name := "break", line := ls.linenumber, nactvar := fs.nactvar, pc := pc }] ∧
        ls1.fs = ls.fs ∧ ls1.dyd.label = ls.dyd.label) ∧
    (∀ (ls ls1 : LexState) (fs : FuncState) (prev : List FuncState) (bl : BlockCnt)
      (previous : List BlockCnt),
      ls.fs = fs :: prev → fs.bl = bl :: previous → previous ≠ [] → bl.isloop = false →
      (∀ lb ∈ ls.dyd.label, lb.name ≠ "break") → leaveblock ls = Except.ok ls1 →
      ls1.dyd.gt.take bl.firstgoto = ls.dyd.gt.take bl.firstgoto ∧
      (gotosNamed "break" (ls1.dyd.gt.drop bl.firstgoto)).map Labeldesc.pc =
        (gotosNamed "break" (ls.dyd.gt.drop bl.firstgoto)).map Labeldesc.pc) ∧
    (∀ (ls : LexState) (fs : FuncState) (prev : List FuncState) (bl : BlockCnt)
      (gt : Labeldesc),
      ls.fs = fs :: prev → fs.bl = [bl] → bl.isloop = false → bl.nactvar ≤ fs.nactvar →
      (∀ i, bl.nactvar ≤ i → i < fs.nactvar → (getlocvar ls.dyd fs i).isSome = true) →
      ls.dyd.gt.get? bl.firstgoto = some gt →
      leaveblock ls = Except.error (undefgoto gt) ∧
      (gt.name = "break" → undefgoto gt = ParseError.notInsideLoop "break" gt.line) ∧
      (isreserved gt.name = false → undefgoto gt = ParseError.noVisibleLabel gt.name gt.line)) := by
  refine ⟨?_, ?_, ?_⟩
  · intro ls fs prev bl previous pc hfs hbl htok hlim hnb
    exact gotostat_break ls fs prev bl previous pc hfs hbl htok hlim hnb
  · intro ls ls1 fs prev bl previous hfs hbl hprev hloop hnb h
    exact leaveblock_inner_breaks ls ls1 fs prev bl previous "break" hfs hbl hprev hloop hnb h
  · intro ls fs prev bl gt hfs hbl hloop hge hwf hgt
    obtain ⟨ls4, _, heq⟩ := leaveblock_outermost_eq ls fs prev bl hfs hbl hloop hge hwf
    refine ⟨by rw [heq, hgt], ?_, ?_⟩
    · intro hn
      unfold undefgoto
      rw [hn]
      rfl
    · intro hr
      unfold undefgoto
      rw [hr]
      rfl

/-- Witness of C7: the break of `goto foo break` is recorded as pending; in
`do break end` the break stays pending when the inner block is left; and
leaving the main function with the break as first pending goto fails with the
"not inside a loop" error. -/
theorem break_outside_loop_witness :
    (∃ ls1 : LexState, gotostat brkAfterGoto 1 = Except.ok ls1 ∧
      ls1.dyd.gt = [{ name := "foo", pc := 0, line := 1, nactvar := 0 },
                    { name := "break", pc := 1, line := 1, nactvar := 0 }]) ∧
    (leaveblock brkInBlock = Except.ok brkAfterBlock ∧
      (gotosNamed "break" (brkAfterBlock.dyd.gt.drop 0)).map Labeldesc.pc = [0]) ∧
    leaveblock brkAfterBlock = Except.error (ParseError.notInsideLoop "break" 1) :=
  ⟨(break_outside_loop.1 brkAfterGoto sampleFsGoto [] sampleBlock [] 1 rfl rfl rfl (by decide)
      (by decide)).imp (fun _ h => ⟨h.1, h.2.1⟩),
    ⟨by decide,
      (break_outside_loop.2.1 brkInBlock brkAfterBlock _ [] sampleBlock [sampleBlock] rfl rfl
        (by decide) rfl (by decide) (by decide)).2⟩,
    (break_outside_loop.2.2 brkAfterBlock sampleFsGoto [] sampleBlock
      { name := "break", pc := 0, line := 1, nactvar := 0 } rfl rfl rfl (by decide) (by decide)
      rfl).1⟩

/-! ## Theorems: operator precedence -/

theorem priority_left_pos (op : BinOpr) (h : op ≠ BinOpr.OPR_NOBINOPR) : (priority op).1 > 0 := by
  cases op <;> simp [priority] at h ⊢

theorem subexpr_operand (simpleexp : ExprParser) (fuel : Nat) (ls0 a ls1 : LexState)
    (limit : Nat) (v : expdesc)
    (h0 : enterlevel ls0 = Except.ok a) (hu : getunopr a.t.token = UnOpr.OPR_NOUNOPR)
    (hv : simpleexp a = Except.ok (v, ls1)) :
    subexpr simpleexp (fuel + 1) ls0 limit =
      subexpr_while simpleexp fuel ls1 v (getbinopr ls1.t.token) limit := by
  rw [subexpr]
  simp only [h0, hu, ne_eq, not_true_eq_false, if_false, hv]

theorem subexpr_while_stop (simpleexp : ExprParser) (fuel : Nat) (ls : LexState)
    (v : expdesc) (op : BinOpr) (limit : Nat)
    (h : ¬ (op ≠ BinOpr.OPR_NOBINOPR ∧ (priority op).1 > limit)) :
    subexpr_while simpleexp (fuel + 1) ls v op limit = Except.ok ((v, op), leavelevel ls) := by
  rw [subexpr_while]
  simp only [h, if_false]

theorem subexpr_while_fold (simpleexp : ExprParser) (fuel : Nat) (ls ls1 ls2 ls3 : LexState)
    (v v1 v2 v3 : expdesc) (op nextop : BinOpr) (limit : Nat)
    (hne : op ≠ BinOpr.OPR_NOBINOPR) (hp : (priority op).1 > limit)
    (hi : (luaX_next ls).onFs (fun fs => luaK_infix fs op v) = Except.ok (v1, ls1))
    (hs : subexpr simpleexp fuel ls1 (priority op).2 = Except.ok ((v2, nextop), ls2))
    (hf : ls2.onFs (fun fs => luaK_posfix fs op v1 v2 ls.linenumber) = Except.ok (v3, ls3)) :
    subexpr_while simpleexp (fuel + 1) ls v op limit =
      subexpr_while simpleexp fuel ls3 v3 nextop limit := by
  rw [subexpr_while]
  have hc : op ≠ BinOpr.OPR_NOBINOPR ∧ (priority op).1 > limit := ⟨hne, hp⟩
  rw [if_pos hc]
  simp only [hi, hs, hf]

/-- C8: the operand sequence `x op1 y op2 z`, with `x`, `y`, `z` read by
`simpleexp` (no unary operator in front) and no binary operator after `z`.
After `x`, `op1`, `y` have been read and `op2` is the current token:
if `priority[op2].left > priority[op1].right`, `subexpr` folds `y op2 z` first
(`luaK_posfix` on `y`, `z`) and then folds `x` with that result, i.e.
`x op1 (y op2 z)`; otherwise it folds `x op1 y` first and then that result
with `z`, i.e. `(x op1 y) op2 z`.  In both cases the whole chain is consumed
(the operator returned is `OPR_NOBINOPR`). -/
theorem subexpr_grouping (simpleexp : ExprParser) (fuel : Nat)
    (s0 a0 a1 a2 a3 a4 : LexState) (x x1 y : expdesc) (op1 op2 : BinOpr)
    (h0 : enterlevel s0 = Except.ok a0) (hu0 : getunopr a0.t.token = UnOpr.OPR_NOUNOPR)
    (hx : simpleexp a0 = Except.ok (x, a1))
    (hop1 : getbinopr a1.t.token = op1) (hne1 : op1 ≠ BinOpr.OPR_NOBINOPR)
    (hi1 : (luaX_next a1).onFs (fun fs => luaK_infix fs op1 x) = Except.ok (x1, a2))
    (h2 : enterlevel a2 = Except.ok a3) (hu2 : getunopr a3.t.token = UnOpr.OPR_NOUNOPR)
    (hy : simpleexp a3 = Except.ok (y, a4))
    (hop2 : getbinopr a4.t.token = op2) (hne2 : op2 ≠ BinOpr.OPR_NOBINOPR) :
    ((priority op2).1 > (priority op1).2 →
      ∀ (y1 z r r2 : expdesc) (a5 a6 a7 a8 a9 : LexState),
        (luaX_next a4).onFs (fun fs => luaK_infix fs op2 y) = Except.ok (y1, a5) →
        enterlevel a5 = Except.ok a6 → getunopr a6.t.token = UnOpr.OPR_NOUNOPR →
        simpleexp a6 = Except.ok (z, a7) → getbinopr a7.t.token = BinOpr.OPR_NOBINOPR →
        (leavelevel a7).onFs (fun fs => luaK_posfix fs op2 y1 z a4.linenumber) =
          Except.ok (r, a8) →
        (leavelevel a8).onFs (fun fs => luaK_posfix fs op1 x1 r a1.linenumber) =
          Except.ok (r2, a9) →
        subexpr simpleexp (fuel + 6) s0 0 =
          Except.ok ((r2, BinOpr.OPR_NOBINOPR), leavelevel a9)) ∧
    (¬ (priority op2).1 > (priority op1).2 →
      ∀ (r r1 z r2 : expdesc) (b5 b6 b7 b8 b9 : LexState),
        (leavelevel a4).onFs (fun fs => luaK_posfix fs op1 x1 y a1.linenumber) =
          Except.ok (r, b5) →
        (luaX_next b5).onFs (fun fs => luaK_infix fs op2 r) = Except.ok (r1, b6) →
        enterlevel b6 = Except.ok b7 → getunopr b7.t.token = UnOpr.OPR_NOUNOPR →
        simpleexp b7 = Except.ok (z, b8) → getbinopr b8.t.token = BinOpr.OPR_NOBINOPR →
        (leavelevel b8).onFs (fun fs => luaK_posfix fs op2 r1 z b5.linenumber) =
          Except.ok (r2, b9) →
        subexpr simpleexp (fuel + 6) s0 0 =
          Except.ok ((r2, BinOpr.OPR_NOBINOPR), leavelevel b9)) := by
  have hstart : subexpr simpleexp (fuel + 6) s0 0 =
      subexpr_while simpleexp (fuel + 5) a1 x op1 0 := by
    rw [subexpr_operand simpleexp (fuel + 5) s0 a0 a1 0 x h0 hu0 hx, hop1]
  have hinner : subexpr simpleexp (fuel + 4) a2 (priority op1).2 =
      subexpr_while simpleexp (fuel + 3) a4 y op2 (priority op1).2 := by
    rw [subexpr_operand simpleexp (fuel + 3) a2 a3 a4 _ y h2 hu2 hy, hop2]
  have hnb : ∀ limit : Nat,
      ¬ (BinOpr.OPR_NOBINOPR ≠ BinOpr.OPR_NOBINOPR ∧
        (priority BinOpr.OPR_NOBINOPR).1 > limit) := by
    intro limit h; exact h.1 rfl
  constructor
  · intro hgt y1 z r r2 a5 a6 a7 a8 a9 hi2 h5 hu5 hz hend hf2 hf1
    have hz1 : subexpr simpleexp (fuel + 2) a5 (priority op2).2 =
        Except.ok ((z, BinOpr.OPR_NOBINOPR), leavelevel a7) := by
      rw [subexpr_operand simpleexp (fuel + 1) a5 a6 a7 _ z h5 hu5 hz, hend]
      exact subexpr_while_stop simpleexp fuel a7 z _ _ (hnb _)
    have hy1 : subexpr simpleexp (fuel + 4) a2 (priority op1).2 =
        Except.ok ((r, BinOpr.OPR_NOBINOPR), leavelevel a8) := by
      rw [hinner, subexpr_while_fold simpleexp (fuel + 2) a4 a5 (leavelevel a7) a8 y y1 z r op2
        BinOpr.OPR_NOBINOPR _ hne2 hgt hi2 hz1 hf2]
      exact subexpr_while_stop simpleexp (fuel + 1) a8 r _ _ (hnb _)
    rw [hstart, subexpr_while_fold simpleexp (fuel + 4) a1 a2 (leavelevel a8) a9 x x1 r r2 op1
      BinOpr.OPR_NOBINOPR 0 hne1 (priority_left_pos op1 hne1) hi1 hy1 hf1]
    exact subexpr_while_stop simpleexp (fuel + 3) a9 r2 _ _ (hnb _)
  · intro hle r r1 z r2 b5 b6 b7 b8 b9 hf1 hi2 h6 hu6 hz hend hf2
    have hy1 : subexpr simpleexp (fuel + 4) a2 (priority op1).2 =
        Except.ok ((y, op2), leavelevel a4) := by
      rw [hinner]
      exact subexpr_while_stop simpleexp (fuel + 2) a4 y op2 _ (fun h => hle h.2)
    have hz1 : subexpr simpleexp (fuel + 3) b6 (priority op2).2 =
        Except.ok ((z, BinOpr.OPR_NOBINOPR), leavelevel b8) := by
      rw [subexpr_operand simpleexp (fuel + 2) b6 b7 b8 _ z h6 hu6 hz, hend]
      exact subexpr_while_stop simpleexp (fuel + 1) b8 z _ _ (hnb _)
    rw [hstart, subexpr_while_fold simpleexp (fuel + 4) a1 a2 (leavelevel a4) b5 x x1 y r op1
      op2 0 hne1 (priority_left_pos op1 hne1) hi1 hy1 hf1,
      subexpr_while_fold simpleexp (fuel + 3) b5 b6 (leavelevel b8) b9 r r1 z r2 op2
      BinOpr.OPR_NOBINOPR 0 hne2 (priority_left_pos op2 hne2) hi2 hz1 hf2]
    exact subexpr_while_stop simpleexp (fuel + 2) b9 r2 _ _ (hnb _)

/-- Witness of C8: `2 ^ 1 ^ 2` folds `1 ^ 2` first and then `2 ^ (...)`;
`1 + 2 * 3` folds `2 * 3` first and then `1 + (...)`; `1 * 2 + 3` folds `1 * 2`
first and then `(...) + 3`. -/
theorem subexpr_grouping_witness :
    (∃ ls : LexState,
      subexpr (simpleexp literalExpRules) 6 (sampleStart powToks) 0 =
        Except.ok ((init_exp expkind.VRELOCABLE 1, BinOpr.OPR_NOBINOPR), ls) ∧
      ls.fs.map FuncState.kcalls =
        [[KCall.infixOp BinOpr.OPR_POW (intLit 2),
          KCall.infixOp BinOpr.OPR_POW (intLit 1),
          KCall.posfixOp BinOpr.OPR_POW (intLit 1) (intLit 2) 1,
          KCall.posfixOp BinOpr.OPR_POW (intLit 2) (init_exp expkind.VRELOCABLE 0) 1]]) ∧
    (∃ ls : LexState,
      subexpr (simpleexp literalExpRules) 6 (sampleStart addMulToks) 0 =
        Except.ok ((init_exp expkind.VRELOCABLE 1, BinOpr.OPR_NOBINOPR), ls) ∧
      ls.fs.map FuncState.kcalls =
        [[KCall.infixOp BinOpr.OPR_ADD (intLit 1),
          KCall.infixOp BinOpr.OPR_MUL (intLit 2),
          KCall.posfixOp BinOpr.OPR_MUL (intLit 2) (intLit 3) 1,
          KCall.posfixOp BinOpr.OPR_ADD (intLit 1) (init_exp expkind.VRELOCABLE 0) 1]]) ∧
    (∃ ls : LexState,
      subexpr (simpleexp literalExpRules) 6 (sampleStart mulAddToks) 0 =
        Except.ok ((init_exp expkind.VRELOCABLE 1, BinOpr.OPR_NOBINOPR), ls) ∧
      ls.fs.map FuncState.kcalls =
        [[KCall.infixOp BinOpr.OPR_MUL (intLit 1),
          KCall.posfixOp BinOpr.OPR_MUL (intLit 1) (intLit 2) 1,
          KCall.infixOp BinOpr.OPR_ADD (init_exp expkind.VRELOCABLE 0),
          KCall.posfixOp BinOpr.OPR_ADD (init_exp expkind.VRELOCABLE 0) (intLit 3) 1]]) :=
  ⟨⟨_, (subexpr_grouping (simpleexp literalExpRules) 0 (sampleStart powToks) _ _ _ _ _ _ _ _
      BinOpr.OPR_POW BinOpr.OPR_POW rfl rfl rfl rfl (by decide) rfl rfl rfl rfl rfl
      (by decide)).1 (by decide) _ _ _ _ _ _ _ _ _ rfl rfl rfl rfl rfl rfl rfl, rfl⟩,
    ⟨_, (subexpr_grouping (simpleexp literalExpRules) 0 (sampleStart addMulToks) _ _ _ _ _ _ _ _
      BinOpr.OPR_ADD BinOpr.OPR_MUL rfl rfl rfl rfl (by decide) rfl rfl rfl rfl rfl
      (by decide)).1 (by decide) _ _ _ _ _ _ _ _ _ rfl rfl rfl rfl rfl rfl rfl, rfl⟩,
    ⟨_, (subexpr_grouping (simpleexp literalExpRules) 0 (sampleStart mulAddToks) _ _ _ _ _ _ _ _
      BinOpr.OPR_MUL BinOpr.OPR_ADD rfl rfl rfl rfl (by decide) rfl rfl rfl rfl rfl
      (by decide)).2 (by decide) _ _ _ _ _ _ _ _ _ rfl rfl rfl rfl rfl rfl rfl, rfl⟩⟩

/-- C9: `adjust_assign` with a last expression `e` that is not multi-result.
Let `fse` be the function state after `e` has been placed (`luaK_exp2nextreg`,
skipped for the empty expression).  With more variables than expressions the
call reserves `nvars - nexps` registers and emits one nil-fill of that many
registers starting at the frontier of `fse`, which moves the frontier up by
`nvars - nexps`; otherwise nothing is emitted after placing `e`, so no
nil-fill; and with more expressions than variables the frontier is lowered by
`nexps - nvars` (the frontier is a byte that holds at least that many
registers). -/
theorem adjust_assign_single (ls : LexState) (fs : FuncState) (prev : List FuncState)
    (nvars nexps : Int) (e : expdesc)
    (hfs : ls.fs = fs :: prev) (hm : hasmultret e.k = false) :
    ∃ fse fs1 : FuncState,
      fse = (if e.k ≠ expkind.VVOID then (luaK_exp2nextreg fs e).2 else fs) ∧
      adjust_assign ls nvars nexps e = Except.ok { ls with fs := fs1 :: prev } ∧
      (nvars > nexps →
        fs1.kcalls = fse.kcalls ++
          [KCall.reserveregs (nvars - nexps).toNat,
           KCall.nil fse.freereg (nvars - nexps).toNat] ∧
        (fs1.freereg : Int) = fse.freereg + (nvars - nexps)) ∧
      (nvars ≤ nexps →
        fs1.kcalls = fse.kcalls ∧
        ∀ (r n : Nat), KCall.nil r n ∉ fs1.kcalls.drop fs.kcalls.length) ∧
      (nvars = nexps → fs1.freereg = fse.freereg) ∧
      (nexps > nvars → nexps - nvars ≤ fse.freereg → fse.freereg < 256 →
        (fs1.freereg : Int) = fse.freereg - (nexps - nvars)) := by
  have hkc : (if e.k ≠ expkind.VVOID then (luaK_exp2nextreg fs e).2 else fs).kcalls.drop
      fs.kcalls.length = if e.k ≠ expkind.VVOID then [KCall.exp2nextreg e] else [] := by
    by_cases hv : e.k = expkind.VVOID
    · simp [hv]
    · simp [hv, luaK_exp2nextreg]
  generalize hfse : (if e.k ≠ expkind.VVOID then (luaK_exp2nextreg fs e).2 else fs) = fse at hkc
  have hadj : adjust_assign ls nvars nexps e =
      Except.ok { ls with fs :=
        (if nexps > nvars then
          { (if nvars - nexps > 0 then
              luaK_nil (luaK_reserveregs fse (nvars - nexps).toNat) fse.freereg
                (nvars - nexps).toNat
             else fse) with
            freereg := cast_byte
              (((if nvars - nexps > 0 then
                  luaK_nil (luaK_reserveregs fse (nvars - nexps).toNat) fse.freereg
                    (nvars - nexps).toNat
                 else fse).freereg : Int) - (nexps - nvars)) }
         else
          (if nvars - nexps > 0 then
            luaK_nil (luaK_reserveregs fse (nvars - nexps).toNat) fse.freereg
              (nvars - nexps).toNat
           else fse)) :: prev } := by
    unfold adjust_assign
    rw [hfs]
    simp only [hm, hfse]
    rfl
  refine ⟨fse, _, rfl, hadj, ?_, ?_, ?_, ?_⟩
  · intro hgt
    have h1 : nvars - nexps > 0 := by omega
    have h2 : ¬ nexps > nvars := by omega
    rw [if_neg h2, if_pos h1]
    refine ⟨by simp [luaK_nil, luaK_reserveregs, FuncState.emit], ?_⟩
    simp only [luaK_nil, luaK_reserveregs, FuncState.emit]
    push_cast
    rw [Int.toNat_of_nonneg (by omega)]
  · intro hle
    have h1 : ¬ nvars - nexps > 0 := by omega
    simp only [if_neg h1]
    have hk : (if nexps > nvars then
        { fse with freereg := cast_byte ((fse.freereg : Int) - (nexps - nvars)) }
        else fse).kcalls = fse.kcalls := by
      split <;> rfl
    refine ⟨hk, ?_⟩
    intro r n
    rw [hk, hkc]
    split <;> simp
  · intro heq
    have h1 : ¬ nvars - nexps > 0 := by omega
    have h2 : ¬ nexps > nvars := by omega
    rw [if_neg h2, if_neg h1]
  · intro h hle hlt
    have h1 : ¬ nvars - nexps > 0 := by omega
    simp only [if_pos h, if_neg h1]
    unfold cast_byte
    rw [Int.toNat_of_nonneg (by omega)]
    omega

/-- Witness of C9: the statements `local a, b, c = 1, 2`, `local a, b = 1, 2, 3`
and `local a, b` reach `adjust_assign` with 3 and 2, 2 and 3, 2 and 0 variables
and values; the first call reserves one register and nil-fills it, the second
emits nothing after placing `3` and lowers the frontier from 3 to 2, the third
reserves two registers and nil-fills them from register 0. -/
theorem adjust_assign_single_witness :
    ((∃ s1 : LexState,
        localstat.localstat_names 16 0 (luaX_next (sampleStart localPadToks)) =
          Except.ok (3, s1) ∧
        explist (expr (simpleexp literalExpRules) 16) (testnext s1 (Tok.chr '=')).2 16 =
          Except.ok ((2, intLit 2),
            sampleAtAdjust ["a", "b", "c"] 0 1 [KCall.exp2nextreg (intLit 1)])) ∧
      ∃ s : LexState,
        adjust_assign (sampleAtAdjust ["a", "b", "c"] 0 1 [KCall.exp2nextreg (intLit 1)]) 3 2
          (intLit 2) = Except.ok s ∧
        s.fs.map FuncState.kcalls =
          [[KCall.exp2nextreg (intLit 1), KCall.exp2nextreg (intLit 2), KCall.reserveregs 1,
            KCall.nil 2 1]] ∧
        s.fs.map (fun fs => (fs.freereg : Int)) = [3]) ∧
    ((∃ s1 : LexState,
        localstat.localstat_names 16 0 (luaX_next (sampleStart localDropToks)) =
          Except.ok (2, s1) ∧
        explist (expr (simpleexp literalExpRules) 16) (testnext s1 (Tok.chr '=')).2 16 =
          Except.ok ((3, intLit 3),
            sampleAtAdjust ["a", "b"] 0 2
              [KCall.exp2nextreg (intLit 1), KCall.exp2nextreg (intLit 2)])) ∧
      ∃ s : LexState,
        adjust_assign (sampleAtAdjust ["a", "b"] 0 2
          [KCall.exp2nextreg (intLit 1), KCall.exp2nextreg (intLit 2)]) 2 3 (intLit 3) =
          Except.ok s ∧
        s.fs.map FuncState.kcalls =
          [[KCall.exp2nextreg (intLit 1), KCall.exp2nextreg (intLit 2),
            KCall.exp2nextreg (intLit 3)]] ∧
        s.fs.map (fun fs => (fs.freereg : Int)) = [2]) ∧
    ((∃ s1 : LexState,
        localstat.localstat_names 16 0 (luaX_next (sampleStart localBareToks)) =
          Except.ok (2, s1) ∧
        testnext s1 (Tok.chr '=') = (false, sampleAtAdjust ["a", "b"] 0 0 [])) ∧
      ∃ s : LexState,
        adjust_assign (sampleAtAdjust ["a", "b"] 0 0 []) 2 0 { k := expkind.VVOID } =
          Except.ok s ∧
        s.fs.map FuncState.kcalls = [[KCall.reserveregs 2, KCall.nil 0 2]] ∧
        s.fs.map (fun fs => (fs.freereg : Int)) = [2]) := by
  refine ⟨⟨⟨_, rfl, rfl⟩, ?_⟩, ⟨⟨_, rfl, rfl⟩, ?_⟩, ⟨⟨_, rfl, rfl⟩, ?_⟩⟩
  · obtain ⟨fse, fs1, hfse, hadj, hgt, -, -, -⟩ :=
      adjust_assign_single (sampleAtAdjust ["a", "b", "c"] 0 1 [KCall.exp2nextreg (intLit 1)])
        _ [] 3 2 (intLit 2) rfl rfl
    refine ⟨_, hadj, ?_, ?_⟩
    · simp only [List.map, (hgt (by decide)).1, hfse]
      rfl
    · simp only [List.map, (hgt (by decide)).2, hfse]
      rfl
  · obtain ⟨fse, fs1, hfse, hadj, -, hle, -, hlow⟩ :=
      adjust_assign_single (sampleAtAdjust ["a", "b"] 0 2
        [KCall.exp2nextreg (intLit 1), KCall.exp2nextreg (intLit 2)])
        _ [] 2 3 (intLit 3) rfl rfl
    refine ⟨_, hadj, ?_, ?_⟩
    · simp only [List.map, (hle (by decide)).1, hfse]
      rfl
    · have h := hlow (by decide) (by rw [hfse]; decide) (by rw [hfse]; decide)
      simp only [List.map, h, hfse]
      rfl
  · obtain ⟨fse, fs1, hfse, hadj, hgt, -, -, -⟩ :=
      adjust_assign_single (sampleAtAdjust ["a", "b"] 0 0 []) _ [] 2 0 { k := expkind.VVOID }
        rfl rfl
    refine ⟨_, hadj, ?_, ?_⟩
    · simp only [List.map, (hgt (by decide)).1, hfse]
      rfl
    · simp only [List.map, (hgt (by decide)).2, hfse]
      rfl

/-- C10: `adjust_assign` with a last expression `e` that is a call or a vararg
expansion.  The calls it adds to the emitter log are one `luaK_setreturns` that
asks `e` for `max (nvars - nexps + 1) 0` results, followed by one
`luaK_reserveregs` of `nvars - nexps` registers when that number is positive
and by nothing otherwise; no nil-fill is among them.  Without surplus
expressions the frontier ends `max (nvars - nexps) 0` registers above the one
that `luaK_setreturns` leaves. -/
theorem adjust_assign_multret (ls : LexState) (fs : FuncState) (prev : List FuncState)
    (nvars nexps : Int) (e : expdesc)
    (hfs : ls.fs = fs :: prev) (hm : hasmultret e.k = true) :
    ∃ fs1 : FuncState,
      adjust_assign ls nvars nexps e = Except.ok { ls with fs := fs1 :: prev } ∧
      fs1.kcalls = fs.kcalls ++
        KCall.setreturns e (max (nvars - nexps + 1) 0) ::
          (if nvars - nexps > 0 then [KCall.reserveregs (nvars - nexps).toNat] else []) ∧
      (∀ (r n : Nat), KCall.nil r n ∉ fs1.kcalls.drop fs.kcalls.length) ∧
      (nexps ≤ nvars →
        (fs1.freereg : Int) =
          (luaK_setreturns fs e (max (nvars - nexps + 1) 0)).freereg + max (nvars - nexps) 0) := by
  have hadj : adjust_assign ls nvars nexps e =
      Except.ok { ls with fs :=
        (if nexps > nvars then
          { (if (if nvars - nexps + 1 < 0 then 0 else nvars - nexps + 1) > 1 then
              luaK_reserveregs
                (luaK_setreturns fs e (if nvars - nexps + 1 < 0 then 0 else nvars - nexps + 1))
                ((if nvars - nexps + 1 < 0 then 0 else nvars - nexps + 1) - 1).toNat
             else luaK_setreturns fs e (if nvars - nexps + 1 < 0 then 0 else nvars - nexps + 1))
            with
            freereg := cast_byte
              (((if (if nvars - nexps + 1 < 0 then 0 else nvars - nexps + 1) > 1 then
                  luaK_reserveregs
                    (luaK_setreturns fs e
                      (if nvars - nexps + 1 < 0 then 0 else nvars - nexps + 1))
                    ((if nvars - nexps + 1 < 0 then 0 else nvars - nexps + 1) - 1).toNat
                 else luaK_setreturns fs e
                  (if nvars - nexps + 1 < 0 then 0 else nvars - nexps + 1)).freereg : Int) -
                (nexps - nvars)) }
         else
          (if (if nvars - nexps + 1 < 0 then 0 else nvars - nexps + 1) > 1 then
            luaK_reserveregs
              (luaK_setreturns fs e (if nvars - nexps + 1 < 0 then 0 else nvars - nexps + 1))
              ((if nvars - nexps + 1 < 0 then 0 else nvars - nexps + 1) - 1).toNat
           else luaK_setreturns fs e
            (if nvars - nexps + 1 < 0 then 0 else nvars - nexps + 1))) :: prev } := by
    unfold adjust_assign
    rw [hfs]
    simp only [hm]
    rfl
  have hx : (if nvars - nexps + 1 < 0 then (0 : Int) else nvars - nexps + 1) =
      max (nvars - nexps + 1) 0 := by
    split <;> omega
  rw [hx] at hadj
  have hk : ∀ fs1 : FuncState, fs1.kcalls = fs.kcalls ++
        KCall.setreturns e (max (nvars - nexps + 1) 0) ::
          (if nvars - nexps > 0 then [KCall.reserveregs (nvars - nexps).toNat] else []) →
      ∀ (r n : Nat), KCall.nil r n ∉ fs1.kcalls.drop fs.kcalls.length := by
    intro fs1 h r n
    rw [h]
    split <;> simp
  by_cases hgt : nvars - nexps > 0
  · have h1 : max (nvars - nexps + 1) 0 > 1 := by omega
    have h2 : ¬ nexps > nvars := by omega
    have h3 : max (nvars - nexps + 1) 0 - 1 = nvars - nexps := by omega
    rw [if_neg h2, if_pos h1, h3] at hadj
    have hkc : (luaK_reserveregs (luaK_setreturns fs e (max (nvars - nexps + 1) 0))
        (nvars - nexps).toNat).kcalls = fs.kcalls ++
        KCall.setreturns e (max (nvars - nexps + 1) 0) ::
          (if nvars - nexps > 0 then [KCall.reserveregs (nvars - nexps).toNat] else []) := by
      simp [luaK_reserveregs, luaK_setreturns, FuncState.emit, hgt]
    refine ⟨_, hadj, hkc, hk _ hkc, ?_⟩
    intro _
    simp only [luaK_reserveregs, luaK_setreturns, FuncState.emit]
    push_cast
    rw [Int.toNat_of_nonneg (by omega)]
    omega
  · have h1 : ¬ max (nvars - nexps + 1) 0 > 1 := by omega
    rw [if_neg h1] at hadj
    have hkc : (if nexps > nvars then
        { luaK_setreturns fs e (max (nvars - nexps + 1) 0) with
          freereg := cast_byte
            (((luaK_setreturns fs e (max (nvars - nexps + 1) 0)).freereg : Int) -
              (nexps - nvars)) }
        else luaK_setreturns fs e (max (nvars - nexps + 1) 0)).kcalls = fs.kcalls ++
        KCall.setreturns e (max (nvars - nexps + 1) 0) ::
          (if nvars - nexps > 0 then [KCall.reserveregs (nvars - nexps).toNat] else []) := by
      rw [if_neg hgt]
      split <;> simp [luaK_setreturns, FuncState.emit]
    refine ⟨_, hadj, hkc, hk _ hkc, ?_⟩
    intro hle
    have h2 : ¬ nexps > nvars := by omega
    rw [if_neg h2]
    simp only [luaK_setreturns, FuncState.emit]
    omega

/-- Witness of C10: the statements `local a, b = ...` and
`local a, b, c = 1, ...` reach `adjust_assign` with 2 and 1, 3 and 2 variables
and values and the vararg expansion last; each call asks the expansion for 2
results and reserves one more register. -/
theorem adjust_assign_multret_witness :
    ((∃ s1 : LexState,
        localstat.localstat_names 16 0 (luaX_next (sampleStart localVarargToks)) =
          Except.ok (2, s1) ∧
        explist (expr (simpleexp literalExpRules) 16) (testnext s1 (Tok.chr '=')).2 16 =
          Except.ok ((1, varargExp 0),
            sampleAtAdjust ["a", "b"] 1 0 [KCall.codeABC 0 OpCode.OP_VARARG 0 1 0])) ∧
      ∃ s : LexState,
        adjust_assign (sampleAtAdjust ["a", "b"] 1 0 [KCall.codeABC 0 OpCode.OP_VARARG 0 1 0])
          2 1 (varargExp 0) = Except.ok s ∧
        s.fs.map FuncState.kcalls =
          [[KCall.codeABC 0 OpCode.OP_VARARG 0 1 0, KCall.setreturns (varargExp 0) 2,
            KCall.reserveregs 1]] ∧
        s.fs.map (fun fs => (fs.freereg : Int)) = [1]) ∧
    ((∃ s1 : LexState,
        localstat.localstat_names 16 0 (luaX_next (sampleStart localLitVarargToks)) =
          Except.ok (3, s1) ∧
        explist (expr (simpleexp literalExpRules) 16) (testnext s1 (Tok.chr '=')).2 16 =
          Except.ok ((2, varargExp 0),
            sampleAtAdjust ["a", "b", "c"] 1 1
              [KCall.exp2nextreg (intLit 1), KCall.codeABC 0 OpCode.OP_VARARG 0 1 0])) ∧
      ∃ s : LexState,
        adjust_assign (sampleAtAdjust ["a", "b", "c"] 1 1
          [KCall.exp2nextreg (intLit 1), KCall.codeABC 0 OpCode.OP_VARARG 0 1 0])
          3 2 (varargExp 0) = Except.ok s ∧
        s.fs.map FuncState.kcalls =
          [[KCall.exp2nextreg (intLit 1), KCall.codeABC 0 OpCode.OP_VARARG 0 1 0,
            KCall.setreturns (varargExp 0) 2, KCall.reserveregs 1]] ∧
        s.fs.map (fun fs => (fs.freereg : Int)) = [2]) := by
  refine ⟨⟨⟨_, rfl, rfl⟩, ?_⟩, ⟨⟨_, rfl, rfl⟩, ?_⟩⟩
  · obtain ⟨fs1, hadj, hk, -, hfr⟩ :=
      adjust_assign_multret
        (sampleAtAdjust ["a", "b"] 1 0 [KCall.codeABC 0 OpCode.OP_VARARG 0 1 0])
        _ [] 2 1 (varargExp 0) rfl rfl
    refine ⟨_, hadj, ?_, ?_⟩
    · simp only [List.map, hk]
      rfl
    · simp only [List.map, hfr (by decide)]
      rfl
  · obtain ⟨fs1, hadj, hk, -, hfr⟩ :=
      adjust_assign_multret
        (sampleAtAdjust ["a", "b", "c"] 1 1
          [KCall.exp2nextreg (intLit 1), KCall.codeABC 0 OpCode.OP_VARARG 0 1 0])
        _ [] 3 2 (varargExp 0) rfl rfl
    refine ⟨_, hadj, ?_, ?_⟩
    · simp only [List.map, hk]
      rfl
    · simp only [List.map, hfr (by decide)]
      rfl

/-! ## Theorems: table constructors -/

theorem onFs_frame {α : Type} (ls ls1 : LexState) (k : FuncState → α × FuncState) (a : α)
    (h : ls.onFs k = Except.ok (a, ls1)) :
    ls1.t = ls.t ∧ ls1.input = ls.input ∧ ls1.dyd = ls.dyd ∧ ls1.nCcalls = ls.nCcalls ∧
    ls1.linenumber = ls.linenumber ∧ ls1.envn = ls.envn ∧
    ∃ fs prev, ls.fs = fs :: prev ∧ a = (k fs).1 ∧ ls1.fs = (k fs).2 :: prev := by
  unfold LexState.onFs at h
  cases hfs : ls.fs with
  | nil => rw [hfs] at h; cases h
  | cons fs prev =>
    rw [hfs] at h
    simp only [Except.ok.injEq, Prod.mk.injEq] at h
    obtain ⟨h1, h2⟩ := h
    subst h2
    exact ⟨rfl, rfl, rfl, rfl, rfl, rfl, fs, prev, rfl, h1.symm, rfl⟩

theorem closelistfield_spec (fs : FuncState) (cc : ConsControl) :
    (closelistfield fs cc).1.na = cc.na ∧ (closelistfield fs cc).1.nh = cc.nh ∧
    (closelistfield fs cc).1.t = cc.t ∧ (closelistfield fs cc).1.v.k = expkind.VVOID ∧
    ((closelistfield fs cc).1.tostore = cc.tostore ∨ (closelistfield fs cc).1.tostore = 0) := by
  unfold closelistfield
  by_cases hv : cc.v.k = expkind.VVOID
  · simp [hv]
  · simp only [hv, if_false]
    split <;> simp

theorem listfield_spec (expr : ExprParser) (ls ls2 : LexState) (cc cc2 : ConsControl)
    (h : listfield expr ls cc = Except.ok (cc2, ls2)) :
    ∃ v, expr ls = Except.ok (v, ls2) ∧
      cc2 = { cc with v := v, na := cc.na + 1, tostore := cc.tostore + 1 } := by
  unfold listfield at h
  split at h
  · cases h
  · rename_i v ls1 hv
    split at h
    · cases h
    · split at h
      · cases h
      · simp only [Except.ok.injEq, Prod.mk.injEq] at h
        obtain ⟨h1, h2⟩ := h
        subst h2
        exact ⟨v, hv, h1.symm⟩

theorem recfield_spec (expr : ExprParser) (ls ls2 : LexState) (cc cc2 : ConsControl)
    (h : recfield expr ls cc = Except.ok (cc2, ls2)) :
    cc2 = { cc with nh := cc.nh + 1 } := by
  unfold recfield at h
  split at h
  · cases h
  · dsimp only at h
    repeat' split at h
    all_goals (cases h; try rfl)

theorem field_eq (expr : ExprParser) (ls : LexState) (cc : ConsControl) :
    field expr ls cc = if isListField ls then listfield expr ls cc else recfield expr ls cc := by
  unfold field isListField
  split <;> simp

theorem fieldStep_spec (expr : ExprParser) (kind : Bool) (cc cc2 : ConsControl)
    (ls ls2 : LexState) (h : FieldStep expr kind cc ls cc2 ls2) :
    cc2.t = cc.t ∧
    (kind = true → cc2.na = cc.na + 1 ∧ cc2.nh = cc.nh ∧
      (0 ≤ cc.tostore → 1 ≤ cc2.tostore) ∧ ∃ s1, expr s1 = Except.ok (cc2.v, ls2)) ∧
    (kind = false → cc2.na = cc.na ∧ cc2.nh = cc.nh + 1 ∧
      (0 ≤ cc.tostore → 0 ≤ cc2.tostore) ∧ cc2.v.k = expkind.VVOID) := by
  obtain ⟨_, hk, cc1, ls1, hc, hf⟩ := h
  obtain ⟨ht, hin, _, _, _, _, fs, prev, _, hcc1, _⟩ := onFs_frame ls ls1 _ _ hc
  have hl : isListField ls1 = isListField ls := by
    unfold isListField luaX_lookahead
    rw [ht, hin]
  obtain ⟨c1, c2, c3, c4, c5⟩ := closelistfield_spec fs cc
  rw [← hcc1] at c1 c2 c3 c4 c5
  rw [field_eq, hl, hk] at hf
  cases kind with
  | true =>
    simp only [if_true] at hf
    obtain ⟨v, hv, hcc2⟩ := listfield_spec expr ls1 ls2 cc1 cc2 hf
    subst hcc2
    refine ⟨c3, fun _ => ⟨by simp [c1], c2, ?_, ls1, hv⟩, fun h => (by cases h)⟩
    intro h0
    show 1 ≤ cc1.tostore + 1
    rcases c5 with c5 | c5 <;> omega
  | false =>
    simp only [Bool.false_eq_true, if_false] at hf
    have hcc2 := recfield_spec expr ls1 ls2 cc1 cc2 hf
    subst hcc2
    refine ⟨c3, (fun h => (by cases h)), fun _ => ⟨c1, by simp [c2], ?_, c4⟩⟩
    intro h0
    show 0 ≤ cc1.tostore
    rcases c5 with c5 | c5 <;> omega

theorem constructor_loop_step (expr : ExprParser) (fuel : Nat) (kind : Bool)
    (cc cc2 : ConsControl) (ls ls2 : LexState) (h : FieldStep expr kind cc ls cc2 ls2) :
    constructor_loop expr (fuel + 1) cc ls =
      if ls2.t.token = Tok.chr ',' ∨ ls2.t.token = Tok.chr ';' then
        constructor_loop expr fuel cc2 (luaX_next ls2)
      else Except.ok (cc2, ls2) := by
  obtain ⟨hne, _, cc1, ls1, hc, hf⟩ := h
  rw [constructor_loop]
  simp only [hne, if_false, hc, hf]
  unfold testnext
  by_cases h1 : ls2.t.token = Tok.chr ','
  · simp [h1]
  · by_cases h2 : ls2.t.token = Tok.chr ';'
    · simp [h1, h2]
    · simp [h1, h2]

theorem fields_loop (expr : ExprParser) (kinds : List Bool) (cc cc1 : ConsControl)
    (ls ls1 : LexState) (h : Fields expr kinds cc ls cc1 ls1) :
    (∀ fuel, kinds.length < fuel → constructor_loop expr fuel cc ls = Except.ok (cc1, ls1)) ∧
    cc1.t = cc.t ∧ cc1.na = cc.na + kinds.count true ∧ cc1.nh = cc.nh + kinds.count false ∧
    (0 ≤ cc.tostore → 0 ≤ cc1.tostore) ∧
    (kinds.getLast? = some true →
      (0 ≤ cc.tostore → 1 ≤ cc1.tostore) ∧ ∃ s1 s2, expr s1 = Except.ok (cc1.v, s2)) ∧
    (kinds.getLast? = some false → cc1.v.k = expkind.VVOID) := by
  induction h with
  | last kind cc ls cc2 ls2 hstep hsep =>
    obtain ⟨ht, hT, hF⟩ := fieldStep_spec expr kind cc cc2 ls ls2 hstep
    simp only [isSep, decide_eq_true_eq, decide_eq_false_iff_not] at hsep
    refine ⟨?_, ht, ?_, ?_, ?_, ?_, ?_⟩
    · intro fuel hf
      obtain ⟨m, rfl⟩ : ∃ m, fuel = m + 1 := ⟨fuel - 1, by simp at hf; omega⟩
      rw [constructor_loop_step expr m kind cc cc2 ls ls2 hstep, if_neg hsep]
    · cases kind <;> simp_all
    · cases kind <;> simp_all
    · cases kind
      · exact (hF rfl).2.2.1
      · intro h0; have := (hT rfl).2.2.1 h0; omega
    · intro hk
      simp only [List.getLast?_singleton, Option.some.injEq] at hk
      obtain ⟨s1, hs1⟩ := (hT hk).2.2.2
      exact ⟨(hT hk).2.2.1, s1, ls2, hs1⟩
    · intro hk
      simp only [List.getLast?_singleton, Option.some.injEq] at hk
      exact (hF hk).2.2.2
  | lastSep kind cc ls cc2 ls2 hstep hsep hclose =>
    obtain ⟨ht, hT, hF⟩ := fieldStep_spec expr kind cc cc2 ls ls2 hstep
    simp only [isSep, decide_eq_true_eq, decide_eq_false_iff_not] at hsep
    refine ⟨?_, ht, ?_, ?_, ?_, ?_, ?_⟩
    · intro fuel hf
      obtain ⟨m, rfl⟩ : ∃ m, fuel = m + 2 := ⟨fuel - 2, by simp at hf; omega⟩
      rw [constructor_loop_step expr (m + 1) kind cc cc2 ls ls2 hstep, if_pos hsep,
        constructor_loop, if_pos hclose]
    · cases kind <;> simp_all
    · cases kind <;> simp_all
    · cases kind
      · exact (hF rfl).2.2.1
      · intro h0; have := (hT rfl).2.2.1 h0; omega
    · intro hk
      simp only [List.getLast?_singleton, Option.some.injEq] at hk
      obtain ⟨s1, hs1⟩ := (hT hk).2.2.2
      exact ⟨(hT hk).2.2.1, s1, ls2, hs1⟩
    · intro hk
      simp only [List.getLast?_singleton, Option.some.injEq] at hk
      exact (hF hk).2.2.2
  | more kind kinds cc ls cc2 ls2 cc3 ls3 hstep hsep hne hrest ih =>
    obtain ⟨ht, hT, hF⟩ := fieldStep_spec expr kind cc cc2 ls ls2 hstep
    obtain ⟨i1, i2, i3, i4, i5, i6, i7⟩ := ih
    simp only [isSep, decide_eq_true_eq, decide_eq_false_iff_not] at hsep
    have hnil : kinds ≠ [] := by
      intro hk
      subst hk
      cases hrest
    have hlast : (kind :: kinds).getLast? = kinds.getLast? := by
      cases kinds with
      | nil => exact absurd rfl hnil
      | cons a l => simp [List.getLast?_cons_cons]
    have h0 : 0 ≤ cc.tostore → 0 ≤ cc2.tostore := by
      cases kind
      · exact (hF rfl).2.2.1
      · intro h0; have := (hT rfl).2.2.1 h0; omega
    refine ⟨?_, i2.trans ht, ?_, ?_, fun h => i5 (h0 h), ?_, ?_⟩
    · intro fuel hf
      obtain ⟨m, rfl⟩ : ∃ m, fuel = m + 1 := ⟨fuel - 1, by simp at hf; omega⟩
      rw [constructor_loop_step expr m kind cc cc2 ls ls2 hstep, if_pos hsep]
      exact i1 m (by simp at hf; omega)
    · cases kind
      · rw [i3, (hF rfl).1]; simp
      · rw [i3, (hT rfl).1]; simp; omega
    · cases kind
      · rw [i4, (hF rfl).2.1]; simp; omega
      · rw [i4, (hT rfl).2.1]; simp
    · rw [hlast]
      intro hk
      exact ⟨fun h => (i6 hk).1 (h0 h), (i6 hk).2⟩
    · rw [hlast]
      exact i7

theorem constructor_open_spec (ls ls0 : LexState) (pc : Int) (cc0 : ConsControl)
    (h : constructor_open ls = Except.ok ((pc, cc0), ls0)) :
    cc0.na = 0 ∧ cc0.nh = 0 ∧ cc0.tostore = 0 ∧ cc0.v.k = expkind.VVOID := by
  unfold constructor_open at h
  repeat' split at h
  all_goals (cases h; try exact ⟨rfl, rfl, rfl, rfl⟩)

theorem lastlistfield_spec (fs : FuncState) (cc : ConsControl) (h : 1 ≤ cc.tostore) :
    (lastlistfield fs cc).1.na = (if hasmultret cc.v.k then cc.na - 1 else cc.na) ∧
    (lastlistfield fs cc).1.nh = cc.nh ∧
    (lastlistfield fs cc).2.kcalls = fs.kcalls ++
      (if hasmultret cc.v.k then
        [KCall.setreturns cc.v LUA_MULTRET, KCall.setlist cc.t.info cc.na LUA_MULTRET]
       else
        (if cc.v.k ≠ expkind.VVOID then [KCall.exp2nextreg cc.v] else []) ++
          [KCall.setlist cc.t.info cc.na cc.tostore]) := by
  have h0 : cc.tostore ≠ 0 := by omega
  unfold lastlistfield
  simp only [h0, if_false]
  by_cases hm : hasmultret cc.v.k = true
  · simp [hm, luaK_setlist, luaK_setmultret, luaK_setreturns, FuncState.code, FuncState.emit]
  · by_cases hv : cc.v.k = expkind.VVOID
    · simp [hv, hasmultret, luaK_setlist, FuncState.code]
    · simp [hm, hv, luaK_setlist, FuncState.code, luaK_exp2nextreg]

theorem constructor_close_ok (ls : LexState) (line pc : Int) (cc : ConsControl)
    (fs : FuncState) (prev : List FuncState)
    (htok : ls.t.token = Tok.chr '}') (hfs : ls.fs = fs :: prev) :
    ∃ fs1 : FuncState,
      constructor_close ls line pc cc = Except.ok { luaX_next ls with fs := fs1 :: prev } ∧
      fs1 = ((lastlistfield fs cc).2.emit (KCall.setargB pc (lastlistfield fs cc).1.na)).emit
        (KCall.setargC pc (lastlistfield fs cc).1.nh) := by
  have hn : (luaX_next ls).fs = fs :: prev := by rw [luaX_next_fs, hfs]
  refine ⟨_, ?_, rfl⟩
  unfold constructor_close check_match testnext
  simp only [htok, if_true]
  unfold LexState.onFs LexState.doFs
  simp only [hn]

/-- C11: a table constructor that consists of `n` array-style fields and
nothing else (the loop of `constructor` reads exactly `n` fields, all of them
list fields, and stops at the closing brace).  Then `n ≥ 1`, the constructor
succeeds, and the calls it makes after the closing brace are the final flush
followed by the two size operands of the new-table instruction at `pc`: the
array size is `n - 1` when the last field (the descriptor `cc1.v` that `expr`
returned for it) is a call or a vararg expansion, which is stored with the
open count `LUA_MULTRET`, and `n` otherwise; the hash size is 0. -/
theorem constructor_array_size (expr : ExprParser) (n : Nat) (ls ls0 ls1 : LexState)
    (pc : Int) (cc0 cc1 : ConsControl) (fs : FuncState) (prev : List FuncState)
    (hopen : constructor_open ls = Except.ok ((pc, cc0), ls0))
    (hrun : Fields expr (List.replicate n true) cc0 ls0 cc1 ls1)
    (hclose : ls1.t.token = Tok.chr '}') (hfs : ls1.fs = fs :: prev) :
    1 ≤ n ∧ (∃ s1 s2, expr s1 = Except.ok (cc1.v, s2)) ∧
    ∀ fuel, n < fuel →
      ∃ fs1 : FuncState,
        constructor expr fuel ls = Except.ok (cc0.t, { luaX_next ls1 with fs := fs1 :: prev }) ∧
        fs1.kcalls = fs.kcalls ++
          (if hasmultret cc1.v.k then
            [KCall.setreturns cc1.v LUA_MULTRET, KCall.setlist cc0.t.info n LUA_MULTRET,
             KCall.setargB pc ((n : Int) - 1), KCall.setargC pc 0]
           else
            (if cc1.v.k ≠ expkind.VVOID then [KCall.exp2nextreg cc1.v] else []) ++
              [KCall.setlist cc0.t.info n cc1.tostore, KCall.setargB pc n,
               KCall.setargC pc 0]) := by
  obtain ⟨o1, o2, o3, _⟩ := constructor_open_spec ls ls0 pc cc0 hopen
  obtain ⟨f1, f2, f3, f4, _, f6, _⟩ := fields_loop expr _ cc0 cc1 ls0 ls1 hrun
  have hn : 1 ≤ n := by
    cases n with
    | zero => cases hrun
    | succ m => omega
  have hlast : (List.replicate n true).getLast? = some true := by
    obtain ⟨m, rfl⟩ : ∃ m, n = m + 1 := ⟨n - 1, by omega⟩
    rw [List.getLast?_eq_getLast _ (by simp)]
    simp
  have hna : cc1.na = n := by rw [f3, o1]; simp
  have hcf : List.count false (List.replicate n true) = 0 :=
    List.count_eq_zero.mpr (fun h => by simp at h)
  have hnh : cc1.nh = 0 := by rw [f4, o2, hcf]; simp
  obtain ⟨g1, g2⟩ := f6 hlast
  have hts : 1 ≤ cc1.tostore := g1 (by omega)
  obtain ⟨l1, l2, l3⟩ := lastlistfield_spec fs cc1 hts
  refine ⟨hn, g2, ?_⟩
  intro fuel hfuel
  obtain ⟨fs1, hc1, hc2⟩ := constructor_close_ok ls1 ls.linenumber pc cc1 fs prev hclose hfs
  refine ⟨fs1, ?_, ?_⟩
  · unfold constructor
    simp only [hopen, f1 fuel (by simpa using hfuel), hc1]
  · rw [hc2]
    simp only [FuncState.emit, l1, l2, l3, f2, hna, hnh, List.append_assoc]
    by_cases hm : hasmultret cc1.v.k = true
    · simp [hm]
    · simp [hm]

/-- Witness of C11: `{1, 2, 3}` patches the array size 3 and `{1, 2, f()}` the
array size 2, the call being stored with an open count; the hash size is 0
in both. -/
theorem constructor_array_size_witness :
    (∃ ls2 : LexState,
      constructor (parsers 4).2 4 (chunkStart ctorLitToks) =
        Except.ok (init_exp expkind.VNONRELOC 0, ls2) ∧
      ls2.fs.map (fun fs => fs.kcalls.drop 4) =
        [[KCall.exp2nextreg (intLit 3), KCall.setlist 0 3 3, KCall.setargB 0 3,
          KCall.setargC 0 0]]) ∧
    (∃ ls2 : LexState,
      constructor (parsers 4).2 4 (chunkStart ctorCallToks) =
        Except.ok (init_exp expkind.VNONRELOC 0, ls2) ∧
      ls2.fs.map (fun fs => fs.kcalls.drop 9) =
        [[KCall.setreturns (init_exp expkind.VCALL 1) LUA_MULTRET,
          KCall.setlist 0 3 LUA_MULTRET, KCall.setargB 0 2, KCall.setargC 0 0]]) := by
  refine ⟨?_, ?_⟩
  · obtain ⟨fs1, h1, h2⟩ :=
      (constructor_array_size (parsers 4).2 3 (chunkStart ctorLitToks) _ _ _ _ _ _ _ rfl
        (Fields.more true [true, true] _ _ _ _ _ _ ⟨by decide, rfl, _, _, rfl, rfl⟩
          rfl (by decide)
          (Fields.more true [true] _ _ _ _ _ _ ⟨by decide, rfl, _, _, rfl, rfl⟩
            rfl (by decide)
            (Fields.last true _ _ _ _ ⟨by decide, rfl, _, _, rfl, rfl⟩ rfl)))
        rfl rfl).2.2 4 (by decide)
    exact ⟨_, h1, by simp only [List.map, h2]; rfl⟩
  · obtain ⟨fs1, h1, h2⟩ :=
      (constructor_array_size (parsers 4).2 3 (chunkStart ctorCallToks) _ _ _ _ _ _ _ rfl
        (Fields.more true [true, true] _ _ _ _ _ _ ⟨by decide, rfl, _, _, rfl, rfl⟩
          rfl (by decide)
          (Fields.more true [true] _ _ _ _ _ _ ⟨by decide, rfl, _, _, rfl, rfl⟩
            rfl (by decide)
            (Fields.last true _ _ _ _ ⟨by decide, rfl, _, _, rfl, rfl⟩ rfl)))
        rfl rfl).2.2 4 (by decide)
    exact ⟨_, h1, by simp only [List.map, h2]; rfl⟩

theorem lastlistfield_void (fs : FuncState) (cc : ConsControl) (hv : cc.v.k = expkind.VVOID) :
    (lastlistfield fs cc).1.na = cc.na ∧ (lastlistfield fs cc).1.nh = cc.nh ∧
    (lastlistfield fs cc).2.kcalls = fs.kcalls ++
      (if cc.tostore = 0 then [] else [KCall.setlist cc.t.info cc.na cc.tostore]) := by
  unfold lastlistfield
  by_cases h0 : cc.tostore = 0
  · simp [h0]
  · simp [h0, hv, hasmultret, luaK_setlist, FuncState.code]

/-- Counterexample to C12 as stated: in `{f(), x = 1}` the last array-style
field is the call `f()` and a record field follows it.  The call is put into
one register when the record field starts; it is not given an open result
count (no `luaK_setreturns` call is made, the list store has the count 1) and
it is counted: the array size patched into the new-table instruction is 1. -/
theorem call_before_record_field :
    ∃ ls2 : LexState,
      constructor (parsers 4).2 4 (chunkStart ctorCallRecToks) =
        Except.ok (init_exp expkind.VNONRELOC 0, ls2) ∧
      ls2.fs.map (fun fs => fs.kcalls.drop 7) =
        [[KCall.exp2nextreg (init_exp expkind.VCALL 1),
          KCall.exp2RK (init_exp expkind.VK 1), KCall.exp2RK (intLit 1),
          KCall.codeABC 2 OpCode.OP_SETTABLE 0 257 3,
          KCall.setlist 0 1 1, KCall.setargB 0 1, KCall.setargC 0 1]] ∧
      ls2.fs.map (fun fs => fs.kcalls.all (fun c =>
        match c with
        | KCall.setreturns _ _ => false
        | _ => true)) = [true] :=
  ⟨_, rfl, rfl, rfl⟩

/-- C12, amended: a table constructor whose loop reads the fields of the kinds
`kinds` and stops at the closing brace.  When the last field of the
constructor is array-style and its descriptor `cc1.v` is a call or a vararg
expansion, the final flush gives it the open count `LUA_MULTRET` and the array
size patched into the new-table instruction at `pc` is the number of
array-style fields less one.  When the last field of the constructor is a
record field, no field is given an open count and the array size is the
number of all array-style fields, whatever their descriptors were. -/
theorem constructor_multret_last (expr : ExprParser) (kinds : List Bool)
    (ls ls0 ls1 : LexState) (pc : Int) (cc0 cc1 : ConsControl) (fs : FuncState)
    (prev : List FuncState)
    (hopen : constructor_open ls = Except.ok ((pc, cc0), ls0))
    (hrun : Fields expr kinds cc0 ls0 cc1 ls1)
    (hclose : ls1.t.token = Tok.chr '}') (hfs : ls1.fs = fs :: prev) :
    ∀ fuel, kinds.length < fuel →
      ∃ fs1 : FuncState,
        constructor expr fuel ls = Except.ok (cc0.t, { luaX_next ls1 with fs := fs1 :: prev }) ∧
        (kinds.getLast? = some true → hasmultret cc1.v.k = true →
          fs1.kcalls = fs.kcalls ++
            [KCall.setreturns cc1.v LUA_MULTRET,
             KCall.setlist cc0.t.info (kinds.count true) LUA_MULTRET,
             KCall.setargB pc ((kinds.count true : Int) - 1),
             KCall.setargC pc (kinds.count false)]) ∧
        (kinds.getLast? = some false →
          fs1.kcalls = fs.kcalls ++
            (if cc1.tostore = 0 then []
             else [KCall.setlist cc0.t.info (kinds.count true) cc1.tostore]) ++
            [KCall.setargB pc (kinds.count true), KCall.setargC pc (kinds.count false)]) := by
  obtain ⟨o1, o2, o3, _⟩ := constructor_open_spec ls ls0 pc cc0 hopen
  obtain ⟨f1, f2, f3, f4, _, f6, f7⟩ := fields_loop expr _ cc0 cc1 ls0 ls1 hrun
  have hna : cc1.na = kinds.count true := by rw [f3, o1]; simp
  have hnh : cc1.nh = kinds.count false := by rw [f4, o2]; simp
  intro fuel hfuel
  obtain ⟨fs1, hc1, hc2⟩ := constructor_close_ok ls1 ls.linenumber pc cc1 fs prev hclose hfs
  refine ⟨fs1, ?_, ?_, ?_⟩
  · unfold constructor
    simp only [hopen, f1 fuel hfuel, hc1]
  · intro hl hm
    obtain ⟨l1, l2, l3⟩ := lastlistfield_spec fs cc1 ((f6 hl).1 (by omega))
    rw [hc2]
    simp [FuncState.emit, l1, l2, l3, f2, hna, hnh, hm]
  · intro hl
    obtain ⟨l1, l2, l3⟩ := lastlistfield_void fs cc1 (f7 hl)
    rw [hc2]
    simp [FuncState.emit, l1, l2, l3, f2, hna, hnh]

/-- Witness of C12, amended: in `{1, 2, f()}` the call is the last field, is
stored with an open count, and the array size is 2; in `{f(), x = 1}` the last
field is a record field, the list store has the count 1 and the array size
is 1. -/
theorem constructor_multret_last_witness :
    (∃ ls2 : LexState,
      constructor (parsers 4).2 4 (chunkStart ctorCallToks) =
        Except.ok (init_exp expkind.VNONRELOC 0, ls2) ∧
      ls2.fs.map (fun fs => fs.kcalls.drop 9) =
        [[KCall.setreturns (init_exp expkind.VCALL 1) LUA_MULTRET,
          KCall.setlist 0 3 LUA_MULTRET, KCall.setargB 0 2, KCall.setargC 0 0]]) ∧
    (∃ ls2 : LexState,
      constructor (parsers 4).2 4 (chunkStart ctorCallRecToks) =
        Except.ok (init_exp expkind.VNONRELOC 0, ls2) ∧
      ls2.fs.map (fun fs => fs.kcalls.drop 11) =
        [[KCall.setlist 0 1 1, KCall.setargB 0 1, KCall.setargC 0 1]]) := by
  refine ⟨?_, ?_⟩
  · obtain ⟨fs1, h1, h2, -⟩ :=
      constructor_multret_last (parsers 4).2 [true, true, true] (chunkStart ctorCallToks)
        _ _ _ _ _ _ _ rfl
        (Fields.more true [true, true] _ _ _ _ _ _ ⟨by decide, rfl, _, _, rfl, rfl⟩
          rfl (by decide)
          (Fields.more true [true] _ _ _ _ _ _ ⟨by decide, rfl, _, _, rfl, rfl⟩
            rfl (by decide)
            (Fields.last true _ _ _ _ ⟨by decide, rfl, _, _, rfl, rfl⟩ rfl)))
        rfl rfl 4 (by decide)
    exact ⟨_, h1, by simp only [List.map, h2 rfl rfl]; rfl⟩
  · obtain ⟨fs1, h1, -, h2⟩ :=
      constructor_multret_last (parsers 4).2 [true, false] (chunkStart ctorCallRecToks)
        _ _ _ _ _ _ _ rfl
        (Fields.more true [false] _ _ _ _ _ _ ⟨by decide, rfl, _, _, rfl, rfl⟩
          rfl (by decide)
          (Fields.last false _ _ _ _ ⟨by decide, rfl, _, _, rfl, rfl⟩ rfl))
        rfl rfl 4 (by decide)
    exact ⟨_, h1, by simp only [List.map, h2 rfl]; rfl⟩

/-! ## Theorems: duplicate labels and the limit of locals -/

theorem closegoto_inv (ls ls1 : LexState) (g : Nat) (lb : Labeldesc)
    (h : closegoto ls g lb = Except.ok ls1) :
    ∃ fs prev gt, ls.fs = fs :: prev ∧ ls.dyd.gt.get? g = some gt ∧
      ls1 = { ls with
        fs := luaK_patchlist fs gt.pc lb.pc :: prev,
        dyd := { ls.dyd with gt := ls.dyd.gt.eraseIdx g } } := by
  unfold closegoto at h
  split at h
  · rename_i fs prev gt hfs hg
    split at h
    · split at h <;> cases h
    · cases h
      exact ⟨fs, prev, gt, hfs, hg, rfl⟩
  · cases h

theorem closegoto_error (ls : LexState) (g : Nat) (lb : Labeldesc) (e : ParseError)
    (h : closegoto ls g lb = Except.error e) :
    (∃ n l v, e = ParseError.jumpsIntoScope n l v) ∨ e = ParseError.undefinedBehaviour := by
  unfold closegoto at h
  split at h
  · split at h
    · split at h
      · cases h; exact Or.inl ⟨_, _, _, rfl⟩
      · cases h; exact Or.inr rfl
    · cases h
  · cases h; exact Or.inr rfl

theorem findgotos_loop_label (lb : Labeldesc) :
    ∀ (fuel i : Nat) (ls ls1 : LexState),
      findgotos_loop lb fuel i ls = Except.ok ls1 → ls1.dyd.label = ls.dyd.label := by
  intro fuel
  induction fuel with
  | zero =>
    intro i ls ls1 h
    unfold findgotos_loop at h
    split at h
    · cases h; rfl
    · cases h
  | succ n ih =>
    intro i ls ls1 h
    unfold findgotos_loop at h
    split at h
    · cases h; rfl
    · split at h
      · split at h
        · cases h
        · rename_i ls2 hc
          obtain ⟨fs, prev, gt, _, _, rfl⟩ := closegoto_inv _ _ _ _ hc
          have h1 := ih _ _ _ h
          exact h1
      · exact ih _ _ _ h

theorem findgotos_loop_error (lb : Labeldesc) :
    ∀ (fuel i : Nat) (ls : LexState) (e : ParseError),
      findgotos_loop lb fuel i ls = Except.error e →
      (∃ n l v, e = ParseError.jumpsIntoScope n l v) ∨ e = ParseError.undefinedBehaviour ∨
        e = ParseError.outOfFuel := by
  intro fuel
  induction fuel with
  | zero =>
    intro i ls e h
    unfold findgotos_loop at h
    split at h
    · cases h
    · cases h; exact Or.inr (Or.inr rfl)
  | succ n ih =>
    intro i ls e h
    unfold findgotos_loop at h
    split at h
    · cases h
    · split at h
      · split at h
        · rename_i e1 hc
          cases h
          rcases closegoto_error _ _ _ _ hc with h1 | h1
          · exact Or.inl h1
          · exact Or.inr (Or.inl h1)
        · exact ih _ _ _ h
      · exact ih _ _ _ h

theorem checkrepeated_iff (fs : FuncState) (bl : BlockCnt) (previous : List BlockCnt)
    (ll : List Labeldesc) (label : TString) (hbl : fs.bl = bl :: previous) :
    ((∃ l, checkrepeated fs ll label = Except.error (ParseError.labelRepeated label l)) ↔
      ∃ lb ∈ ll.drop bl.firstlabel, lb.name = label) ∧
    (checkrepeated fs ll label = Except.ok () ↔
      ∀ lb ∈ ll.drop bl.firstlabel, lb.name ≠ label) := by
  unfold checkrepeated
  rw [hbl]
  simp only []
  cases hf : (ll.drop bl.firstlabel).find? (fun lb => eqstr label lb.name) with
  | none =>
    have hn : ∀ lb ∈ ll.drop bl.firstlabel, lb.name ≠ label := by
      intro lb hlb heq
      have := List.find?_eq_none.mp hf lb hlb
      simp [eqstr, heq] at this
    refine ⟨⟨fun ⟨l, h⟩ => (by cases h), fun ⟨lb, hlb, heq⟩ => absurd heq (hn lb hlb)⟩,
      ⟨fun _ => hn, fun _ => rfl⟩⟩
  | some lb =>
    obtain ⟨hmem, hp⟩ := mem_of_find?_eq_some _ _ _ hf
    have hname : lb.name = label := by
      simp only [eqstr, decide_eq_true_eq] at hp
      exact hp.symm
    refine ⟨⟨fun _ => ⟨lb, hmem, hname⟩, fun _ => ⟨lb.line, rfl⟩⟩,
      ⟨fun h => (by cases h), fun h => absurd hname (h lb hmem)⟩⟩

theorem findgotos_label (ls ls1 : LexState) (lb : Labeldesc)
    (h : findgotos ls lb = Except.ok ls1) : ls1.dyd.label = ls.dyd.label := by
  unfold findgotos at h
  split at h
  · split at h
    · exact findgotos_loop_label lb _ _ _ _ h
    · cases h
  · cases h

theorem findgotos_error (ls : LexState) (lb : Labeldesc) (e : ParseError)
    (h : findgotos ls lb = Except.error e) : ∀ n l, e ≠ ParseError.labelRepeated n l := by
  intro n l he
  subst he
  unfold findgotos at h
  split at h
  · split at h
    · rcases findgotos_loop_error lb _ _ _ _ h with ⟨_, _, _, h1⟩ | h1 | h1 <;> cases h1
    · cases h
  · cases h

theorem labelstat_cases (R : StatRules) (fuel : Nat) (ls : LexState) (fs : FuncState)
    (prev : List FuncState) (bl : BlockCnt) (previous : List BlockCnt) (L : TString)
    (line : Int)
    (hfs : ls.fs = fs :: prev) (hbl : fs.bl = bl :: previous)
    (hnoop : ¬ ((luaX_next ls).t.token = Tok.chr ';' ∨ (luaX_next ls).t.token = Tok.TK_DBCOLON))
    (hrep : ∀ lb ∈ ls.dyd.label.drop bl.firstlabel, lb.name ≠ L) :
    labelstat R (fuel + 2) ls L line = Except.error (ParseError.expected Tok.TK_DBCOLON) ∨
    labelstat R (fuel + 2) ls L line =
      Except.error (ParseError.tooMany "labels/gotos" SHRT_MAX) ∨
    ∃ (s : LexState) (entry : Labeldesc),
      entry.name = L ∧ entry.line = line ∧ entry.pc = fs.pc ∧
      s.dyd.label = ls.dyd.label ++ [entry] ∧
      labelstat R (fuel + 2) ls L line = findgotos s entry := by
  have hchk : checkrepeated fs ls.dyd.label L = Except.ok () :=
    ((checkrepeated_iff fs bl previous ls.dyd.label L hbl).2).mpr hrep
  by_cases htok : ls.t.token = Tok.TK_DBCOLON
  · by_cases hlim : (ls.dyd.label.length : Int) < SHRT_MAX
    · refine Or.inr (Or.inr ⟨_, _, ?_, ?_, ?_, ?_,
        labelstat_eq_findgotos R fuel ls fs prev bl previous L line _ hfs hbl htok hnoop hrep
          hlim rfl⟩)
      · rfl
      · rfl
      · rfl
      · rfl
    · refine Or.inr (Or.inl ?_)
      unfold labelstat
      rw [hfs]
      simp only [hchk, checknext, check, htok, ne_eq, not_true_eq_false, if_false]
      unfold newlabelentry
      rw [luaX_next_fs, hfs, luaX_next_dyd]
      have : (ls.dyd.label.length : Int) ≥ SHRT_MAX := by omega
      simp [this]
  · refine Or.inl ?_
    unfold labelstat
    rw [hfs]
    simp [hchk, checknext, check, htok]

/-- C13: declaring the label `label` in a state whose current block is `bl`.
(1) `checkrepeated` raises the duplicate-label error if and only if a label of
that name is in the label range of the block, the indices from `bl.firstlabel`
on, and passes if and only if none is: labels of that name below
`bl.firstlabel` (of enclosing blocks and functions) do not count.
(2) With such a label `labelstat` raises the duplicate-label error.
(3) Without one, for a label that no other no-op statement follows,
`labelstat` does not raise a duplicate-label error, and whenever it returns
the label list has grown by exactly one entry, which has the name, the line
and the position of the label. -/
theorem label_duplicate (R : StatRules) (fuel : Nat) (ls : LexState) (fs : FuncState)
    (prev : List FuncState) (bl : BlockCnt) (previous : List BlockCnt) (label : TString)
    (line : Int)
    (hfs : ls.fs = fs :: prev) (hbl : fs.bl = bl :: previous) :
    ((∃ l, checkrepeated fs ls.dyd.label label =
        Except.error (ParseError.labelRepeated label l)) ↔
      ∃ lb ∈ ls.dyd.label.drop bl.firstlabel, lb.name = label) ∧
    (checkrepeated fs ls.dyd.label label = Except.ok () ↔
      ∀ lb ∈ ls.dyd.label.drop bl.firstlabel, lb.name ≠ label) ∧
    ((∃ lb ∈ ls.dyd.label.drop bl.firstlabel, lb.name = label) →
      ∃ l, labelstat R (fuel + 1) ls label line =
        Except.error (ParseError.labelRepeated label l)) ∧
    ((∀ lb ∈ ls.dyd.label.drop bl.firstlabel, lb.name ≠ label) →
      ¬ ((luaX_next ls).t.token = Tok.chr ';' ∨ (luaX_next ls).t.token = Tok.TK_DBCOLON) →
      (∀ n l, labelstat R (fuel + 2) ls label line ≠
        Except.error (ParseError.labelRepeated n l)) ∧
      (∀ ls1, labelstat R (fuel + 2) ls label line = Except.ok ls1 →
        ∃ entry : Labeldesc, entry.name = label ∧ entry.line = line ∧ entry.pc = fs.pc ∧
          ls1.dyd.label = ls.dyd.label ++ [entry])) := by
  obtain ⟨c1, c2⟩ := checkrepeated_iff fs bl previous ls.dyd.label label hbl
  refine ⟨c1, c2, ?_, ?_⟩
  · intro hex
    obtain ⟨l, hl⟩ := c1.mpr hex
    refine ⟨l, ?_⟩
    unfold labelstat
    rw [hfs]
    simp only [hl]
  · intro hrep hnoop
    rcases labelstat_cases R fuel ls fs prev bl previous label line hfs hbl hnoop hrep with
      h | h | ⟨s, entry, e1, e2, e3, e4, h⟩
    · rw [h]
      exact ⟨fun n l he => (by cases he), fun ls1 he => (by cases he)⟩
    · rw [h]
      exact ⟨fun n l he => (by cases he), fun ls1 he => (by cases he)⟩
    · rw [h]
      refine ⟨?_, ?_⟩
      · intro n l he
        exact findgotos_error s entry _ he n l rfl
      · intro ls1 he
        exact ⟨entry, e1, e2, e3, by rw [findgotos_label s ls1 entry he, e4]⟩

/-- Witness of C13: with the label `L` declared in the enclosing block only,
declaring `L` in the inner block passes the check and appends one entry; in
the block that has `L` already it raises the duplicate-label error. -/
theorem label_duplicate_witness :
    (∃ ls1 : LexState, ∃ entry : Labeldesc,
      labelstat localStatRules 2 sampleAtInnerLabel "L" 2 = Except.ok ls1 ∧
      entry.name = "L" ∧ ls1.dyd.label = [sampleLabel, entry]) ∧
    (∃ l, labelstat localStatRules 1 sampleAtSameBlockLabel "L" 2 =
      Except.error (ParseError.labelRepeated "L" l)) := by
  refine ⟨?_, ?_⟩
  · have hok : ∃ ls1, labelstat localStatRules 2 sampleAtInnerLabel "L" 2 = Except.ok ls1 :=
      ⟨_, rfl⟩
    obtain ⟨ls1, h1⟩ := hok
    obtain ⟨entry, e1, _, _, e4⟩ :=
      ((label_duplicate localStatRules 0 sampleAtInnerLabel _ _ _ _ "L" 2 rfl rfl).2.2.2
        (by decide) (by decide)).2 ls1 h1
    exact ⟨ls1, entry, h1, e1, e4⟩
  · exact (label_duplicate localStatRules 0 sampleAtSameBlockLabel _ _ _ _ "L" 2 rfl rfl).2.2.1
      ⟨sampleLabel, by decide, rfl⟩

/-- C14: `new_localvar` in a function `fs` that has room for one more debug
record (fewer than `SHRT_MAX`, the limit of `registerlocalvar`).  It fails with
the limit error "local variables" (limit `MAXVARS` = 200) if and only if the
function has 200 or more declared locals already, `actvar.n - firstlocal ≥ 200`;
otherwise it returns, the active-variable list has grown by exactly one
entry, which refers to the new debug record, and `nactvar` is unchanged. -/
theorem new_localvar_limit (ls : LexState) (fs : FuncState) (prev : List FuncState)
    (name : TString) (hfs : ls.fs = fs :: prev) (hrec : (fs.nlocvars : Int) < SHRT_MAX) :
    (new_localvar ls name =
        Except.error (ParseError.limit "local variables" 200 fs.f.linedefined) ↔
      (ls.dyd.actvar.length : Int) - fs.firstlocal ≥ 200) ∧
    ((ls.dyd.actvar.length : Int) - fs.firstlocal < 200 →
      ∃ ls1 fs1, new_localvar ls name = Except.ok ls1 ∧ ls1.fs = fs1 :: prev ∧
        ls1.dyd.actvar = ls.dyd.actvar ++ [{ idx := fs.nlocvars }] ∧
        fs1.f.locvars = fs.f.locvars ++ [{ varname := name }] ∧
        fs1.nactvar = fs.nactvar ∧ fs1.firstlocal = fs.firstlocal) := by
  have hr : ¬ ((fs.nlocvars : Int) ≥ SHRT_MAX) := by omega
  have hreg : registerlocalvar ls name = Except.ok (fs.nlocvars, { ls with fs :=
      { fs with f := { fs.f with locvars := fs.f.locvars ++ [{ varname := name }] } } ::
        prev }) := by
    unfold registerlocalvar
    rw [hfs]
    simp only [hr, if_false]
  by_cases hlim : (ls.dyd.actvar.length : Int) + 1 - (fs.firstlocal : Int) > MAXVARS
  · have h200 : (ls.dyd.actvar.length : Int) - fs.firstlocal ≥ 200 := by
      unfold MAXVARS at hlim; omega
    have herr : new_localvar ls name =
        Except.error (ParseError.limit "local variables" 200 fs.f.linedefined) := by
      unfold new_localvar
      rw [hreg]
      simp only [checklimit, hlim, if_true]
      rfl
    exact ⟨⟨fun _ => h200, fun _ => herr⟩, fun h => absurd h200 (by omega)⟩
  · have h200 : (ls.dyd.actvar.length : Int) - fs.firstlocal < 200 := by
      unfold MAXVARS at hlim; omega
    have hok : new_localvar ls name = Except.ok { ls with
        fs := { fs with f := { fs.f with locvars := fs.f.locvars ++ [{ varname := name }] } } ::
          prev,
        dyd := { ls.dyd with actvar := ls.dyd.actvar ++ [{ idx := fs.nlocvars }] } } := by
      unfold new_localvar
      rw [hreg]
      simp only [checklimit, hlim, if_false]
    refine ⟨⟨fun h => ?_, fun h => absurd h (by omega)⟩, fun _ => ⟨_, _, hok, rfl, rfl, rfl, rfl, rfl⟩⟩
    rw [hok] at h
    cases h

/-- Witness of C14: with 199 declared locals a 200th is accepted; with 200 a
201st fails with the limit error. -/
theorem new_localvar_limit_witness :
    (∃ ls1, new_localvar (sampleWithLocals 199) "x" = Except.ok ls1 ∧
      ls1.dyd.actvar.length = 200) ∧
    new_localvar (sampleWithLocals 200) "x" =
      Except.error (ParseError.limit "local variables" 200 0) := by
  have hrec : ∀ n : Nat, n ≤ 200 →
      ((List.replicate n ({ varname := "v" } : LocVar)).length : Int) < SHRT_MAX := by
    intro n hn
    rw [List.length_replicate]
    unfold SHRT_MAX
    omega
  have hlen : ∀ n : Nat, (sampleWithLocals n).dyd.actvar.length = n := by
    intro n
    simp only [sampleWithLocals, List.length_map, List.length_range]
  refine ⟨?_, ?_⟩
  · obtain ⟨ls1, fs1, h1, _, h3, _⟩ :=
      (new_localvar_limit (sampleWithLocals 199) _ [] "x" rfl (hrec 199 (by decide))).2
        (by rw [hlen]; decide)
    exact ⟨ls1, h1, by rw [h3, List.length_append, hlen]; rfl⟩
  · exact (new_localvar_limit (sampleWithLocals 200) _ [] "x" rfl (hrec 200 (by decide))).1.mpr
      (by rw [hlen]; decide)

/-! ## Theorems: expression statements -/

theorem assignment_not_var (suffixedexp expr : ExprParser) (fuel : Nat) (ls : LexState)
    (lh : expdesc) (prev : List expdesc) (nvars : Int) (h : vkisvar lh.k = false) :
    assignment suffixedexp expr (fuel + 1) ls (lh :: prev) nvars =
      Except.error (ParseError.syntaxerror "syntax error") := by
  rw [assignment]
  simp [h]

/-- C16: a statement that starts with a suffixed expression, whose descriptor
is `v` and whose parse leaves the state `ls1`.
(1) When neither `=` nor `,` follows, `exprstat` accepts the statement if the
descriptor is a call, and then sets operand C of the call instruction to 1 (no
results), and fails with "syntax error" for every other kind.
(2) When `=` or `,` follows, `exprstat` is the assignment chain that starts
with the target `v`.
(3) The variable kinds are the local, the upvalue and the indexed access;
`assignment` fails with "syntax error" when its current target is not of a
variable kind, and so does the chain when the target read after a `,` is
not. -/
theorem exprstat_call_or_assignment (suffixedexp expr : ExprParser)
    (ls ls1 : LexState) (v : expdesc) (fs : FuncState) (prev : List FuncState)
    (hs : suffixedexp ls = Except.ok (v, ls1)) (hfs : ls1.fs = fs :: prev) :
    (¬ (ls1.t.token = Tok.chr '=' ∨ ls1.t.token = Tok.chr ',') →
      (v.k = expkind.VCALL → ∀ fuel,
        exprstat suffixedexp expr fuel ls =
          Except.ok { ls1 with fs := fs.emit (KCall.setargC v.info 1) :: prev }) ∧
      (v.k ≠ expkind.VCALL → ∀ fuel,
        exprstat suffixedexp expr fuel ls =
          Except.error (ParseError.syntaxerror "syntax error"))) ∧
    ((ls1.t.token = Tok.chr '=' ∨ ls1.t.token = Tok.chr ',') → ∀ fuel,
      exprstat suffixedexp expr fuel ls =
        (assignment suffixedexp expr fuel ls1 [v] 1).map (fun r => r.2)) ∧
    (∀ k : expkind, vkisvar k = true ↔
      k = expkind.VLOCAL ∨ k = expkind.VUPVAL ∨ k = expkind.VINDEXED) ∧
    (∀ (fuel : Nat) (s : LexState) (lh : expdesc) (targets : List expdesc) (nvars : Int),
      vkisvar lh.k = false →
      assignment suffixedexp expr (fuel + 1) s (lh :: targets) nvars =
        Except.error (ParseError.syntaxerror "syntax error")) ∧
    (∀ (fuel : Nat) (s s2 : LexState) (lh nv : expdesc) (targets : List expdesc)
      (nvars : Int),
      vkisvar lh.k = true → s.t.token = Tok.chr ',' →
      suffixedexp (luaX_next s) = Except.ok (nv, s2) → s2.fs ≠ [] →
      nvars + (s2.nCcalls : Int) ≤ LUAI_MAXCCALLS → vkisvar nv.k = false →
      assignment suffixedexp expr (fuel + 2) s (lh :: targets) nvars =
        Except.error (ParseError.syntaxerror "syntax error")) := by
  refine ⟨?_, ?_, ?_, ?_, ?_⟩
  · intro hne
    refine ⟨?_, ?_⟩
    · intro hk fuel
      unfold exprstat
      simp only [hs, hne, if_false, hk, ne_eq, not_true_eq_false]
      unfold LexState.doFs
      rw [hfs]
    · intro hk fuel
      unfold exprstat
      simp only [hs, hne, if_false, hk, ne_eq, not_false_eq_true, if_true]
  · intro he fuel
    unfold exprstat
    simp only [hs, he, if_true]
    cases assignment suffixedexp expr fuel ls1 [v] 1 with
    | error e => rfl
    | ok r => rfl
  · intro k
    cases k <;> simp [vkisvar]
  · intro fuel s lh targets nvars h
    exact assignment_not_var suffixedexp expr fuel s lh targets nvars h
  · intro fuel s s2 lh nv targets nvars hlh htok hnv hfs2 hlim hk
    rw [assignment]
    obtain ⟨f2, p2, hf2⟩ : ∃ f2 p2, s2.fs = f2 :: p2 := by
      cases h : s2.fs with
      | nil => exact absurd h hfs2
      | cons a b => exact ⟨a, b, rfl⟩
    have hl : ¬ (nvars + (s2.nCcalls : Int) > LUAI_MAXCCALLS) := by omega
    simp only [hlh, testnext, htok, if_true, hnv, hf2, checklimit, hl, if_false,
      Bool.not_eq_true, Bool.true_eq_false, not_false_eq_true]
    rw [assignment_not_var suffixedexp expr fuel _ nv _ _ hk]
    simp

/-- Witness of C16: `f()` is accepted and its call uses no results; `x` alone,
`f() = 1` and `x, f() = 1, 2` fail with "syntax error". -/
theorem exprstat_call_or_assignment_witness :
    (∃ ls2 : LexState,
      exprstat (suffixedexp (parsers 4).2 4) (parsers 4).2 4 (chunkStart callStatToks) =
        Except.ok ls2 ∧
      ls2.fs.map (fun fs => fs.kcalls.drop 5) = [[KCall.setargC 0 1]]) ∧
    exprstat (suffixedexp (parsers 4).2 4) (parsers 4).2 4 (chunkStart nameStatToks) =
      Except.error (ParseError.syntaxerror "syntax error") ∧
    exprstat (suffixedexp (parsers 4).2 4) (parsers 4).2 4 (chunkStart callAssignToks) =
      Except.error (ParseError.syntaxerror "syntax error") ∧
    exprstat (suffixedexp (parsers 4).2 4) (parsers 4).2 4 (chunkStart nameCallAssignToks) =
      Except.error (ParseError.syntaxerror "syntax error") := by
  refine ⟨?_, ?_, ?_, ?_⟩
  · have h := ((exprstat_call_or_assignment (suffixedexp (parsers 4).2 4) (parsers 4).2
      (chunkStart callStatToks) _ _ _ _ rfl rfl).1 (by decide)).1 rfl 4
    exact ⟨_, h, rfl⟩
  · exact ((exprstat_call_or_assignment (suffixedexp (parsers 4).2 4) (parsers 4).2
      (chunkStart nameStatToks) _ _ _ _ rfl rfl).1 (by decide)).2 (by decide) 4
  · have h := (exprstat_call_or_assignment (suffixedexp (parsers 4).2 4) (parsers 4).2
      (chunkStart callAssignToks) _ _ _ _ rfl rfl)
    rw [h.2.1 (by decide) 4, h.2.2.2.1 3]
    · rfl
    · rfl
  · have h := (exprstat_call_or_assignment (suffixedexp (parsers 4).2 4) (parsers 4).2
      (chunkStart nameCallAssignToks) _ _ _ _ rfl rfl)
    rw [h.2.1 (by decide) 4]
    refine Eq.trans (congrArg (Except.map fun r => r.2)
      (h.2.2.2.2 2 _ ?s2 _ ?nv _ _ ?h1 ?h2 ?h3 ?h4 ?h5 ?h6)) rfl
    case h1 => rfl
    case h2 => rfl
    case h3 => exact rfl
    case h4 => decide
    case h5 => decide
    case h6 => rfl

/-! ## Theorems: visibility of declared locals -/

theorem get?_append_of_isSome {α : Type} (l l2 : List α) (i : Nat) (x : α)
    (h : l.get? i = some x) : (l ++ l2).get? i = some x := by
  have hlt : i < l.length := by
    have := List.get?_eq_some.mp h
    exact this.1
  rw [List.get?_eq_getElem?, List.getElem?_append_left hlt, ← List.get?_eq_getElem?, h]

theorem new_localvar_ok (ls : LexState) (fs : FuncState) (prev : List FuncState)
    (name : TString) (hfs : ls.fs = fs :: prev) (hrec : (fs.nlocvars : Int) < SHRT_MAX)
    (hlim : (ls.dyd.actvar.length : Int) - fs.firstlocal < 200) :
    new_localvar ls name = Except.ok { ls with
      fs := { fs with f := { fs.f with locvars := fs.f.locvars ++ [{ varname := name }] } } ::
        prev,
      dyd := { ls.dyd with actvar := ls.dyd.actvar ++ [{ idx := fs.nlocvars }] } } := by
  have hr : ¬ ((fs.nlocvars : Int) ≥ SHRT_MAX) := by omega
  have hl : ¬ ((ls.dyd.actvar.length : Int) + 1 - (fs.firstlocal : Int) > MAXVARS) := by
    unfold MAXVARS; omega
  unfold new_localvar registerlocalvar
  rw [hfs]
  simp only [hr, if_false, checklimit, hl]

theorem new_localvar_inv (ls ls1 : LexState) (name : TString)
    (h : new_localvar ls name = Except.ok ls1) :
    ∃ fs prev, ls.fs = fs :: prev ∧ ls1 = { ls with
      fs := { fs with f := { fs.f with locvars := fs.f.locvars ++ [{ varname := name }] } } ::
        prev,
      dyd := { ls.dyd with actvar := ls.dyd.actvar ++ [{ idx := fs.nlocvars }] } } ∧
      (ls.dyd.actvar.length : Int) + 1 - (fs.firstlocal : Int) ≤ MAXVARS := by
  unfold new_localvar registerlocalvar at h
  cases hfs : ls.fs with
  | nil => rw [hfs] at h; cases h
  | cons fs prev =>
    rw [hfs] at h
    by_cases hr : (fs.nlocvars : Int) ≥ SHRT_MAX
    · simp [hr] at h
    · simp only [hr, if_false, checklimit] at h
      by_cases hl : (ls.dyd.actvar.length : Int) + 1 - (fs.firstlocal : Int) > MAXVARS
      · simp [hl] at h
      · simp only [hl, if_false] at h
        cases h
        exact ⟨fs, prev, rfl, rfl, by omega⟩

theorem adjustlocalvars_loop_spec (dyd : Dyndata) :
    ∀ (n : Nat) (fs : FuncState), n ≤ fs.nactvar →
      (∀ i, fs.nactvar - n ≤ i → i < fs.nactvar →
        ∃ vd, dyd.actvar.get? (fs.firstlocal + i) = some vd ∧ vd.idx < fs.f.locvars.length) →
      ∃ fs1, adjustlocalvars_loop dyd n fs = some fs1 ∧
        fs1 = { fs with f := { fs.f with locvars := fs1.f.locvars } } ∧
        fs1.f.locvars.length = fs.f.locvars.length ∧
        (∀ j lv0, fs.f.locvars.get? j = some lv0 →
          ∃ lv1, fs1.f.locvars.get? j = some lv1 ∧
            (lv1 = lv0 ∨ lv1 = { lv0 with startpc := fs.pc })) ∧
        (∀ i vd, fs.nactvar - n ≤ i → i < fs.nactvar →
          dyd.actvar.get? (fs.firstlocal + i) = some vd →
          ∃ lv1, fs1.f.locvars.get? vd.idx = some lv1 ∧ lv1.startpc = fs.pc) := by
  intro n
  induction n with
  | zero =>
    intro fs _ _
    refine ⟨fs, rfl, rfl, rfl, fun j lv0 h => ⟨lv0, h, Or.inl rfl⟩, ?_⟩
    intro i vd h1 h2
    omega
  | succ k ih =>
    intro fs hk hwf
    obtain ⟨vd, hvd, hidx⟩ := hwf (fs.nactvar - (k + 1)) (le_refl _) (by omega)
    obtain ⟨lv, hlv⟩ : ∃ lv, fs.f.locvars.get? vd.idx = some lv :=
      ⟨fs.f.locvars.get ⟨vd.idx, hidx⟩, List.get?_eq_get hidx⟩
    have hstep : adjustlocalvars_loop dyd (k + 1) fs =
        adjustlocalvars_loop dyd k { fs with f := { fs.f with
          locvars := fs.f.locvars.set vd.idx { lv with startpc := fs.pc } } } := by
      rw [adjustlocalvars_loop]
      simp only [hvd, hlv]
    obtain ⟨fs1, e1, e2, e3, e4, e5⟩ := ih { fs with f := { fs.f with
        locvars := fs.f.locvars.set vd.idx { lv with startpc := fs.pc } } } (by simp; omega)
      (by
        intro i h1 h2
        obtain ⟨vd1, hv1, hi1⟩ := hwf i (by simp at h1; omega) h2
        exact ⟨vd1, hv1, by simpa using hi1⟩)
    refine ⟨fs1, by rw [hstep, e1], ?_, by simpa using e3, ?_, ?_⟩
    · rw [e2]
    · intro j lv0 hj
      by_cases hjv : j = vd.idx
      · subst hjv
        have hlv0 : lv0 = lv := by rw [hlv] at hj; exact (Option.some.inj hj).symm
        subst hlv0
        obtain ⟨lv1, g1, g2⟩ := e4 vd.idx { lv0 with startpc := fs.pc }
          (by simp [List.get?_eq_getElem?, List.getElem?_set, hidx])
        refine ⟨lv1, g1, Or.inr ?_⟩
        rcases g2 with g2 | g2
        · exact g2
        · rw [g2]
      · obtain ⟨lv1, g1, g2⟩ := e4 j lv0
          (by
            rw [List.get?_eq_getElem?, List.getElem?_set_ne (fun h => hjv h.symm),
              ← List.get?_eq_getElem?, hj])
        exact ⟨lv1, g1, g2⟩
    · intro i vd1 h1 h2 hv1
      by_cases hi : i = fs.nactvar - (k + 1)
      · subst hi
        have hvv : vd1 = vd := by rw [hvd] at hv1; exact (Option.some.inj hv1).symm
        subst hvv
        obtain ⟨lv1, g1, g2⟩ := e4 vd1.idx { lv with startpc := fs.pc }
          (by simp [List.get?_eq_getElem?, List.getElem?_set, hidx])
        refine ⟨lv1, g1, ?_⟩
        rcases g2 with g2 | g2
        · rw [g2]
        · rw [g2]
      · exact e5 i vd1 (by simp; omega) h2 hv1

theorem str_checkname_inv (ls ls1 : LexState) (name : TString)
    (h : str_checkname ls = Except.ok (name, ls1)) :
    ls.t.token = Tok.TK_NAME ∧ name = ls.t.ts ∧ ls1 = luaX_next ls := by
  unfold str_checkname check at h
  by_cases ht : ls.t.token = Tok.TK_NAME
  · simp only [ht, ne_eq, not_true_eq_false, if_false, Except.ok.injEq, Prod.mk.injEq] at h
    exact ⟨ht, h.1.symm, h.2.symm⟩
  · simp [ht] at h

theorem testnext_snd (ls : LexState) (c : Tok) :
    (testnext ls c).2 = ls ∨ (testnext ls c).2 = luaX_next ls := by
  unfold testnext
  split
  · exact Or.inr rfl
  · exact Or.inl rfl

theorem testnext_fs (ls : LexState) (c : Tok) : (testnext ls c).2.fs = ls.fs := by
  rcases testnext_snd ls c with h | h <;> rw [h]
  rw [luaX_next_fs]

theorem testnext_dyd (ls : LexState) (c : Tok) : (testnext ls c).2.dyd = ls.dyd := by
  rcases testnext_snd ls c with h | h <;> rw [h]
  rw [luaX_next_dyd]

theorem searchupvalue_loop_get (name : TString) :
    ∀ (ups : List Upvaldesc) (s : Nat), ¬ searchupvalue_loop name ups s < 0 →
      ∃ (i : Nat) (d : Upvaldesc), searchupvalue_loop name ups s = ((s + i : Nat) : Int) ∧
        ups.get? i = some d ∧ d.name = name := by
  intro ups
  induction ups with
  | nil => intro s h; simp [searchupvalue_loop] at h
  | cons up rest ih =>
    intro s h
    by_cases h1 : up.name = name
    · exact ⟨0, up, by simp [searchupvalue_loop, eqstr, h1], rfl, h1⟩
    · have h2 : eqstr up.name name = false := by simp [eqstr, h1]
      have h3 : ¬ searchupvalue_loop name rest (s + 1) < 0 := by
        simpa [searchupvalue_loop, h2] using h
      obtain ⟨i, d, e1, e2, e3⟩ := ih (s + 1) h3
      refine ⟨i + 1, d, ?_, by simpa using e2, e3⟩
      simp only [searchupvalue_loop, h2, e1]
      simp only [Bool.false_eq_true, if_false]
      congr 1
      omega

theorem markupval_loop_some (level : Int) :
    ∀ bl : List BlockCnt, (∃ b ∈ bl, (b.nactvar : Int) ≤ level) →
      ∃ bl1, markupval_loop level bl = some bl1 ∧ ∃ b ∈ bl1, (b.nactvar : Int) ≤ level := by
  intro bl
  induction bl with
  | nil => intro h; obtain ⟨b, hb, _⟩ := h; cases hb
  | cons b0 rest ih =>
    intro h
    by_cases h0 : (b0.nactvar : Int) > level
    · have hrest : ∃ b ∈ rest, (b.nactvar : Int) ≤ level := by
        obtain ⟨b, hb, hle⟩ := h
        rcases List.mem_cons.mp hb with e | e
        · subst e; omega
        · exact ⟨b, e, hle⟩
      obtain ⟨bl1, e1, b, hb, hle⟩ := ih hrest
      refine ⟨b0 :: bl1, by simp [markupval_loop, h0, e1], b, List.mem_cons_of_mem _ hb, hle⟩
    · refine ⟨{ b0 with upval := true } :: rest, by simp [markupval_loop, h0],
        { b0 with upval := true }, List.mem_cons_self _ _, ?_⟩
      simp only []
      omega

theorem singlevaraux_enclosing_local (dyd : Dyndata) (g fsA : FuncState)
    (prev : List FuncState) (name : TString) (v : Nat) (hv : v < 256)
    (hA : searchvar dyd fsA name = (v : Int))
    (hbl : ∃ b ∈ fsA.bl, (b.nactvar : Int) ≤ (v : Int))
    (hg : ∀ i, i < g.nactvar → localNamed dyd g name i = false)
    (hinv : ∀ d ∈ g.f.upvalues, d.name = name → d.instack = true ∧ d.idx = v)
    (hroom : name ∈ g.f.upvalues.map Upvaldesc.name ∨ (g.nups : Int) + 1 ≤ MAXUPVAL) :
    ∃ (i : Nat) (g1 fsA1 : FuncState) (d : Upvaldesc),
      singlevaraux dyd (g :: fsA :: prev) name true =
        Except.ok (init_exp expkind.VUPVAL (i : Int), g1 :: fsA1 :: prev) ∧
      g1.f.upvalues.get? i = some d ∧ d.name = name ∧ d.instack = true ∧ d.idx = v ∧
      (∀ d1 ∈ g1.f.upvalues, d1.name = name → d1.instack = true ∧ d1.idx = v) ∧
      (g1 = g ∨ g1 = g.addUpvalue d) ∧
      fsA1.f = fsA.f ∧ fsA1.firstlocal = fsA.firstlocal ∧ fsA1.nactvar = fsA.nactvar ∧
      ∃ b ∈ fsA1.bl, (b.nactvar : Int) ≤ (v : Int) := by
  have hsg : ¬ searchvar dyd g name ≥ 0 := searchvar_neg_of_none dyd g name hg
  by_cases hi : searchupvalue g name < 0
  · have hnot : name ∉ g.f.upvalues.map Upvaldesc.name :=
      (searchupvalue_loop_neg_iff name g.f.upvalues 0).mp hi
    have hlimit : ¬ ((g.nups : Int) + 1 > MAXUPVAL) := by
      rcases hroom with h | h
      · exact absurd h hnot
      · omega
    obtain ⟨bl1, hm, hb1⟩ := markupval_loop_some (v : Int) fsA.bl hbl
    have hrec : singlevaraux dyd (fsA :: prev) name false =
        Except.ok (init_exp expkind.VLOCAL (v : Int), { fsA with bl := bl1 } :: prev) := by
      rw [singlevaraux]
      simp [hA, markupval, hm]
    refine ⟨g.nups, g.addUpvalue ⟨name, true, v⟩, { fsA with bl := bl1 }, ⟨name, true, v⟩,
      ?_, ?_, rfl, rfl, rfl, ?_, Or.inr rfl, rfl, rfl, rfl, hb1⟩
    · rw [singlevaraux]
      simp only [hsg, hi, if_true, if_false, hrec]
      simp [init_exp, newupvalue, checklimit, hlimit, FuncState.addUpvalue,
        cast_byte_natCast v hv]
    · simp [FuncState.addUpvalue, FuncState.nups, List.get?_eq_getElem?]
    · intro d1 hd1 hn1
      simp only [FuncState.addUpvalue, List.mem_append, List.mem_singleton] at hd1
      rcases hd1 with h | h
      · exact hinv d1 h hn1
      · subst h; exact ⟨rfl, rfl⟩
  · obtain ⟨i, d, e1, e2, e3⟩ := searchupvalue_loop_get name g.f.upvalues 0 hi
    have hmem : d ∈ g.f.upvalues := List.get?_mem e2
    obtain ⟨q1, q2⟩ := hinv d hmem e3
    refine ⟨i, g, fsA, d, ?_, e2, e3, q1, q2, hinv, Or.inl rfl, rfl, rfl, rfl, hbl⟩
    rw [singlevaraux]
    simp only [hsg, hi, if_false]
    unfold searchupvalue
    rw [e1]
    simp

theorem searchvar_dyd_congr (dyd dyd1 : Dyndata) (fs : FuncState) (n : TString)
    (h : dyd1.actvar = dyd.actvar) : searchvar dyd1 fs n = searchvar dyd fs n := by
  have hl : ∀ k, localNamed dyd1 fs n k = localNamed dyd fs n k := by
    intro k; simp [localNamed, getlocvar, h]
  have hk : ∀ k, searchvar_loop dyd1 fs n k = searchvar_loop dyd fs n k := by
    intro k
    induction k with
    | zero => rfl
    | succ k ih => simp [searchvar_loop, ih, hl]
  exact hk fs.nactvar

theorem localfunc_activate (ls : LexState) (fs : FuncState) (prev : List FuncState)
    (hfs : ls.fs = fs :: prev) (htok : ls.t.token = Tok.TK_NAME)
    (hrec : (fs.nlocvars : Int) < SHRT_MAX)
    (hlen : ls.dyd.actvar.length = fs.firstlocal + fs.nactvar) (hlim : fs.nactvar < 200) :
    str_checkname ls = Except.ok (ls.t.ts, luaX_next ls) ∧
    ∃ ls2, new_localvar (luaX_next ls) ls.t.ts = Except.ok ls2 ∧
      adjustlocalvars ls2 1 = Except.ok { luaX_next ls with
        fs := { fs with nactvar := fs.nactvar + 1, f := { fs.f with
          locvars := fs.f.locvars ++ [{ varname := ls.t.ts, startpc := fs.pc }] } } :: prev,
        dyd := { ls.dyd with actvar := ls.dyd.actvar ++ [{ idx := fs.nlocvars }] } } := by
  refine ⟨by simp [str_checkname, check, htok], _, new_localvar_ok (luaX_next ls) fs prev ls.t.ts
    (by rw [luaX_next_fs, hfs]) hrec (by rw [luaX_next_dyd, hlen]; push_cast; omega), ?_⟩
  have hc : cast_byte ((fs.nactvar : Int) + 1) = fs.nactvar + 1 := by
    have := cast_byte_natCast (fs.nactvar + 1) (by omega)
    rwa [Nat.cast_add] at this
  have hget : (ls.dyd.actvar ++ [({ idx := fs.nlocvars } : Vardesc)]).get?
      (fs.firstlocal + fs.nactvar) = some { idx := fs.nlocvars } := by
    rw [← hlen]; simp [List.get?_eq_getElem?]
  have hget2 : (fs.f.locvars ++ [({ varname := ls.t.ts } : LocVar)]).get? fs.nlocvars =
      some { varname := ls.t.ts } := by
    simp [FuncState.nlocvars, List.get?_eq_getElem?]
  unfold adjustlocalvars
  simp only [Nat.cast_one, hc, luaX_next_dyd]
  rw [if_neg (by omega)]
  simp only [adjustlocalvars_loop, Nat.add_sub_cancel, hget, hget2]
  simp [FuncState.nlocvars]

/-- C19: in `local function f ... end` the local `f` is active while the body
is parsed.  `localfunc` declares and activates the name (`nactvar` grows by
one, `searchvar` finds `f` in the slot `nactvar` had) and calls `body` in that
state only; the function state `open_func` creates there has no upvalue and no
local; and in every state of the body in which the enclosing function still
has these locals, a reference to `f` from the new function, not shadowed by a
local of that function, resolves to an upvalue whose descriptor has
`instack = 1` and `idx` the slot of `f`, as long as every earlier upvalue named
`f` is of this form, a property that the resolution keeps. -/
theorem localfunc_name_is_upvalue (ls : LexState) (fs : FuncState) (prev : List FuncState)
    (hfs : ls.fs = fs :: prev) (htok : ls.t.token = Tok.TK_NAME)
    (hrec : (fs.nlocvars : Int) < SHRT_MAX)
    (hlen : ls.dyd.actvar.length = fs.firstlocal + fs.nactvar) (hlim : fs.nactvar < 200)
    (hblk : ∃ b ∈ fs.bl, b.nactvar ≤ fs.nactvar) :
    ∃ (ls3 : LexState) (fs3 : FuncState), ls3.fs = fs3 :: prev ∧
      fs3.nactvar = fs.nactvar + 1 ∧ fs3.bl = fs.bl ∧
      searchvar ls3.dyd fs3 ls.t.ts = (fs.nactvar : Int) ∧
      (∀ body, localfunc body ls =
        localfunc (fun _ _ _ => body ls3 false ls3.linenumber) ls) ∧
      (∀ (p : Proto) (ls4 : LexState) (f : Proto), addprototype ls3 = Except.ok (p, ls4) →
        ∃ (ls5 : LexState) (g0 fsA0 : FuncState), open_func ls4 f = Except.ok ls5 ∧
          ls5.fs = g0 :: fsA0 :: prev ∧ g0.f.upvalues = [] ∧ g0.nactvar = 0 ∧
          ls5.dyd = ls3.dyd ∧ fsA0.f = fs3.f ∧ fsA0.firstlocal = fs3.firstlocal ∧
          fsA0.nactvar = fs3.nactvar ∧ fsA0.bl = fs3.bl) ∧
      ∀ (dyd1 : Dyndata) (a : List Vardesc) (g fsA : FuncState),
        dyd1.actvar = ls3.dyd.actvar ++ a →
        fsA.f.locvars = fs3.f.locvars → fsA.firstlocal = fs3.firstlocal →
        fsA.nactvar = fs3.nactvar → (∃ b ∈ fsA.bl, b.nactvar ≤ fs.nactvar) →
        (∀ i, i < g.nactvar → localNamed dyd1 g ls.t.ts i = false) →
        (∀ d ∈ g.f.upvalues, d.name = ls.t.ts → d.instack = true ∧ d.idx = fs.nactvar) →
        (ls.t.ts ∈ g.f.upvalues.map Upvaldesc.name ∨ (g.nups : Int) + 1 ≤ MAXUPVAL) →
        ∃ (i : Nat) (g1 fsA1 : FuncState) (d : Upvaldesc),
          singlevaraux dyd1 (g :: fsA :: prev) ls.t.ts true =
            Except.ok (init_exp expkind.VUPVAL (i : Int), g1 :: fsA1 :: prev) ∧
          g1.f.upvalues.get? i = some d ∧ d.name = ls.t.ts ∧ d.instack = true ∧
          d.idx = fs.nactvar ∧
          (∀ d1 ∈ g1.f.upvalues, d1.name = ls.t.ts →
            d1.instack = true ∧ d1.idx = fs.nactvar) ∧
          (g1 = g ∨ g1 = g.addUpvalue d) ∧
          fsA1.f = fsA.f ∧ fsA1.firstlocal = fsA.firstlocal ∧ fsA1.nactvar = fsA.nactvar ∧
          ∃ b ∈ fsA1.bl, b.nactvar ≤ fs.nactvar := by
  obtain ⟨h1, ls2, h2, h3⟩ := localfunc_activate ls fs prev hfs htok hrec hlen hlim
  have hfind : ∀ (dyd1 : Dyndata) (a : List Vardesc) (fsA : FuncState),
      dyd1.actvar = (ls.dyd.actvar ++ [({ idx := fs.nlocvars } : Vardesc)]) ++ a →
      fsA.f.locvars = fs.f.locvars ++ [{ varname := ls.t.ts, startpc := fs.pc }] →
      fsA.firstlocal = fs.firstlocal → fsA.nactvar = fs.nactvar + 1 →
      searchvar dyd1 fsA ls.t.ts = (fs.nactvar : Int) := by
    intro dyd1 a fsA hd hl hf hn
    refine searchvar_eq_of_innermost dyd1 fsA ls.t.ts fs.nactvar (by omega) ?_
      (fun j h1 h2 => by omega)
    have hg1 : dyd1.actvar.get? (fsA.firstlocal + fs.nactvar) =
        some ({ idx := fs.nlocvars } : Vardesc) := by
      rw [hd, hf, ← hlen]
      exact get?_append_of_isSome _ a _ _ (by simp [List.get?_eq_getElem?])
    have hg2 : fsA.f.locvars.get? fs.nlocvars =
        some ({ varname := ls.t.ts, startpc := fs.pc } : LocVar) := by
      rw [hl]
      simp [List.get?_eq_getElem?, FuncState.nlocvars]
    unfold localNamed getlocvar
    rw [hg1]
    simp only []
    rw [hg2]
    simp [eqstr]
  refine ⟨{ luaX_next ls with
      fs := { fs with nactvar := fs.nactvar + 1, f := { fs.f with
        locvars := fs.f.locvars ++ [{ varname := ls.t.ts, startpc := fs.pc }] } } :: prev,
      dyd := { ls.dyd with actvar := ls.dyd.actvar ++ [{ idx := fs.nlocvars }] } },
    { fs with nactvar := fs.nactvar + 1, f := { fs.f with
        locvars := fs.f.locvars ++ [{ varname := ls.t.ts, startpc := fs.pc }] } },
    rfl, rfl, rfl, ?_, ?_, ?_, ?_⟩
  · exact hfind _ [] _ (by simp) rfl rfl rfl
  · intro body
    simp only [localfunc, h1, h2, h3]
  · intro p ls4 f h4
    unfold addprototype at h4
    simp only [] at h4
    by_cases hnp : fs.np ≥ MAXARG_Bx
    · simp [hnp] at h4
    · simp only [hnp, if_false, Except.ok.injEq, Prod.mk.injEq] at h4
      obtain ⟨_, rfl⟩ := h4
      exact ⟨_, _, _, rfl, rfl, rfl, rfl, rfl, rfl, rfl, rfl, rfl⟩
  · intro dyd1 a g fsA hd hl hf hn hb hg hinv hroom
    have hA := hfind dyd1 a fsA hd hl hf hn
    have hb1 : ∃ b ∈ fsA.bl, (b.nactvar : Int) ≤ (fs.nactvar : Int) := by
      obtain ⟨b, hb2, hb3⟩ := hb
      exact ⟨b, hb2, by omega⟩
    obtain ⟨i, g1, fsA1, d, e1, e2, e3, e4, e5, e6, e7, e8, e9, e10, b, hb4, hb5⟩ :=
      singlevaraux_enclosing_local dyd1 g fsA prev ls.t.ts fs.nactvar (by omega) hA hb1 hg
        hinv hroom
    exact ⟨i, g1, fsA1, d, e1, e2, e3, e4, e5, e6, e7, e8, e9, e10, b, hb4, by omega⟩

/-- Witness of C19: `local function f() return f end` at the start of a chunk.
The local `f` gets slot 0 and is active in the state given to `body`; a
reference to `f` from the function state opened there yields upvalue 0 with
`instack = 1`, `idx = 0`; and the whole statement, run with the parsers of
level 4, leaves the block of `f` marked as holding a captured local. -/
theorem localfunc_name_is_upvalue_witness :
    (∃ (ls3 : LexState) (fs3 : FuncState), ls3.fs = [fs3] ∧ fs3.nactvar = 1 ∧
      searchvar ls3.dyd fs3 "f" = 0 ∧
      ∃ (i : Nat) (g1 fsA1 : FuncState) (d : Upvaldesc),
        singlevaraux ls3.dyd [sampleOpened, fs3] "f" true =
          Except.ok (init_exp expkind.VUPVAL (i : Int), [g1, fsA1]) ∧
        g1.f.upvalues.get? i = some d ∧ d.name = "f" ∧ d.instack = true ∧ d.idx = 0) ∧
    (localfunc (body (parsers 4).1 4) (chunkStart localFuncToks)).map
        (fun s => s.fs.map (fun g => (g.nactvar, g.bl.map (fun b => b.upval)))) =
      Except.ok [(1, [true])] := by
  obtain ⟨ls3, fs3, h1, h2, hb, h3, _, _, h6⟩ :=
    localfunc_name_is_upvalue (chunkStart localFuncToks) _ [] rfl rfl (by decide) rfl
      (by decide) ⟨sampleBlock, List.mem_singleton.mpr rfl, Nat.le_refl 0⟩
  obtain ⟨i, g1, fsA1, d, e1, e2, e3, e4, e5, _⟩ :=
    h6 ls3.dyd [] sampleOpened fs3 (List.append_nil _).symm rfl rfl rfl
      ⟨sampleBlock, by rw [hb]; exact List.mem_singleton.mpr rfl, Nat.le_refl 0⟩
      (fun i hi => absurd hi (Nat.not_lt_zero i)) (fun d hd => absurd hd (List.not_mem_nil d))
      (Or.inr (by decide))
  refine ⟨⟨ls3, fs3, h1, h2, h3, i, g1, fsA1, d, e1, e2, e3, e4, e5⟩, ?_⟩
  decide!

/-! ## Theorems: the `for` statements -/

theorem withLocals_nil (ls : LexState) : withLocals ls [] = ls := by
  unfold withLocals
  cases h : ls.fs with
  | nil => rfl
  | cons fs prev =>
    simp only [List.map_nil, List.append_nil, List.length_nil, List.range_zero]
    cases ls
    simp only [] at h
    subst h
    rfl

theorem withLocals_fs (ls : LexState) (fs : FuncState) (prev : List FuncState)
    (names : List TString) (hfs : ls.fs = fs :: prev) :
    (withLocals ls names).fs = { fs with f := { fs.f with
      locvars := fs.f.locvars ++ names.map (fun n => { varname := n }) } } :: prev := by
  unfold withLocals; rw [hfs]

theorem withLocals_dyd (ls : LexState) (fs : FuncState) (prev : List FuncState)
    (names : List TString) (hfs : ls.fs = fs :: prev) :
    (withLocals ls names).dyd = { ls.dyd with actvar := (ls.dyd.actvar ++
      (List.range names.length).map (fun j => { idx := fs.nlocvars + j })) } := by
  unfold withLocals; rw [hfs]

theorem withLocals_t (ls : LexState) (names : List TString) :
    (withLocals ls names).t = ls.t ∧ (withLocals ls names).input = ls.input ∧
    (withLocals ls names).linenumber = ls.linenumber ∧
    (withLocals ls names).nCcalls = ls.nCcalls := by
  unfold withLocals
  cases ls.fs <;> exact ⟨rfl, rfl, rfl, rfl⟩

theorem withLocals_luaX_next (ls : LexState) (names : List TString) :
    withLocals (luaX_next ls) names = luaX_next (withLocals ls names) := by
  unfold withLocals luaX_next
  cases hfs : ls.fs <;> cases hin : ls.input <;> simp [hfs, hin]

theorem new_localvar_withLocals (ls : LexState) (fs : FuncState) (prev : List FuncState)
    (names : List TString) (n : TString) (hfs : ls.fs = fs :: prev)
    (hrec : (fs.nlocvars : Int) + names.length < SHRT_MAX)
    (hlim : (ls.dyd.actvar.length : Int) + names.length - fs.firstlocal < 200) :
    new_localvar (withLocals ls names) n = Except.ok (withLocals ls (names ++ [n])) := by
  have h := new_localvar_ok (withLocals ls names) _ prev n (withLocals_fs ls fs prev names hfs)
    (by simp only [FuncState.nlocvars, List.length_append, List.length_map] at hrec ⊢
        push_cast; exact hrec)
    (by rw [withLocals_dyd ls fs prev names hfs]
        simp only [List.length_append, List.length_map, List.length_range]
        push_cast; exact hlim)
  rw [h]
  congr 1
  unfold withLocals
  rw [hfs]
  simp only [List.map_append, List.map_cons, List.map_nil, List.append_assoc,
    List.length_append, List.length_singleton, List.range_succ, FuncState.nlocvars,
    List.length_map, List.length_range, List.length_cons, List.length_nil]

theorem adjustlocalvars_names (ls : LexState) (g : FuncState) (prev : List FuncState)
    (k : Nat) (hfs : ls.fs = g :: prev) (hlim : g.nactvar + k < 256)
    (hent : ∀ i, g.nactvar ≤ i → i < g.nactvar + k →
      ∃ vd, ls.dyd.actvar.get? (g.firstlocal + i) = some vd ∧ vd.idx < g.f.locvars.length) :
    ∃ g1, adjustlocalvars ls k = Except.ok { ls with fs := g1 :: prev } ∧
      g1 = { g with nactvar := g.nactvar + k, f := { g.f with locvars := g1.f.locvars } } ∧
      g1.f.locvars.map LocVar.varname = g.f.locvars.map LocVar.varname ∧
      ∀ i, g.nactvar ≤ i → i < g.nactvar + k →
        ∃ lv, getlocvar ls.dyd g1 i = some lv ∧ lv.startpc = g.pc := by
  have hc : cast_byte ((g.nactvar : Int) + (k : Int)) = g.nactvar + k := by
    have := cast_byte_natCast (g.nactvar + k) hlim
    rwa [Nat.cast_add] at this
  obtain ⟨g1, e1, e2, e3, e4, e5⟩ := adjustlocalvars_loop_spec ls.dyd k
    { g with nactvar := g.nactvar + k } (by simp)
    (by
      intro i h1 h2
      simp only [Nat.add_sub_cancel] at h1
      exact hent i h1 h2)
  refine ⟨g1, ?_, e2, ?_, ?_⟩
  · unfold adjustlocalvars
    rw [hfs]
    simp only [hc, e1]
    rw [if_neg (by omega)]
  · apply List.ext_get?
    intro j
    rw [List.get?_eq_getElem?, List.get?_eq_getElem?, List.getElem?_map, List.getElem?_map,
      ← List.get?_eq_getElem?, ← List.get?_eq_getElem?]
    cases hj : g.f.locvars.get? j with
    | none =>
      have hlen : g.f.locvars.length ≤ j := List.get?_eq_none.mp hj
      have : g1.f.locvars.get? j = none := List.get?_eq_none.mpr (by rw [e3]; exact hlen)
      rw [this]
    | some lv0 =>
      obtain ⟨lv1, q1, q2⟩ := e4 j lv0 hj
      rw [q1]
      rcases q2 with q2 | q2 <;> simp [q2]
  · intro i h1 h2
    obtain ⟨vd, hvd, _⟩ := hent i h1 h2
    obtain ⟨lv1, q1, q2⟩ := e5 i vd (by simp only [Nat.add_sub_cancel]; exact h1) h2 hvd
    refine ⟨lv1, ?_, q2⟩
    unfold getlocvar
    have hfl : g1.firstlocal = g.firstlocal := by rw [e2]
    rw [hfl, hvd]
    exact q1

theorem getlocvar_pending (dyd : Dyndata) (g : FuncState) (A : List Vardesc)
    (L names : List TString) (n0 : Nat)
    (hact : dyd.actvar = A ++ (List.range names.length).map (fun j => { idx := L.length + j }))
    (hloc : g.f.locvars.map LocVar.varname = L ++ names)
    (hlen : A.length = g.firstlocal + n0) (i : Nat) (hi : i < names.length) :
    (∃ vd, dyd.actvar.get? (g.firstlocal + (n0 + i)) = some vd ∧
      vd.idx < g.f.locvars.length) ∧
    ∃ lv, getlocvar dyd g (n0 + i) = some lv ∧ lv.varname = names.get ⟨i, hi⟩ := by
  have hlenL : g.f.locvars.length = L.length + names.length := by
    have := congrArg List.length hloc
    simpa using this
  have hvd : dyd.actvar.get? (g.firstlocal + (n0 + i)) =
      some ({ idx := L.length + i } : Vardesc) := by
    rw [hact, List.get?_eq_getElem?,
      List.getElem?_append_right (by omega)]
    have : g.firstlocal + (n0 + i) - A.length = i := by omega
    rw [this]
    simp [List.getElem?_map, List.getElem?_range hi]
  have hlt : L.length + i < g.f.locvars.length := by omega
  refine ⟨⟨_, hvd, by simpa using hlt⟩, g.f.locvars.get ⟨L.length + i, hlt⟩, ?_, ?_⟩
  · unfold getlocvar
    rw [hvd]
    exact List.get?_eq_get hlt
  · have h1 : (g.f.locvars.map LocVar.varname).get? (L.length + i) =
        some (g.f.locvars.get ⟨L.length + i, hlt⟩).varname := by
      rw [List.get?_eq_getElem?, List.getElem?_map, List.getElem?_eq_getElem hlt]; rfl
    rw [hloc, List.get?_eq_getElem?, List.getElem?_append_right (by omega)] at h1
    have : L.length + i - L.length = i := by omega
    rw [this, List.getElem?_eq_getElem hi] at h1
    exact (Option.some.inj h1).symm

theorem bind_match {ε α β : Type} (x : Except ε α) (f : α → Except ε β) :
    (match x with
      | Except.error e => Except.error e
      | Except.ok a => f a) = x.bind f := by
  cases x <;> rfl

theorem doFs_cons (ls : LexState) (fs : FuncState) (prev : List FuncState)
    (k : FuncState → FuncState) (hfs : ls.fs = fs :: prev) :
    ls.doFs k = Except.ok { ls with fs := k fs :: prev } := by
  unfold LexState.doFs; rw [hfs]

theorem onFs_cons {α : Type} (ls : LexState) (fs : FuncState) (prev : List FuncState)
    (k : FuncState → α × FuncState) (hfs : ls.fs = fs :: prev) :
    ls.onFs k = Except.ok ((k fs).1, { ls with fs := (k fs).2 :: prev }) := by
  unfold LexState.onFs; rw [hfs]

theorem forbody_at_block (statement : StmtParser) (fuel : Nat) (ls : LexState)
    (g : FuncState) (prev : List FuncState) (base line : Int) (nvars : Nat) (isnum : Bool)
    (A : List Vardesc) (L names : List TString)
    (hfs : ls.fs = g :: prev) (htok : ls.t.token = Tok.TK_DO)
    (hact : ls.dyd.actvar =
      A ++ (List.range names.length).map (fun j => { idx := L.length + j }))
    (hloc : g.f.locvars.map LocVar.varname = L ++ names)
    (hlenA : A.length = g.firstlocal + g.nactvar)
    (hn : names.length = 3 + nvars) (hlim : g.nactvar + 3 + nvars < 256) :
    ∃ (prep : Int) (ls6 : LexState) (g6 : FuncState), ls6.fs = g6 :: prev ∧
      ls6.dyd = ls.dyd ∧ g6.nactvar = g.nactvar + 3 + nvars ∧
      g6.bl = { isloop := false, nactvar := g.nactvar + 3,
                firstlabel := ls.dyd.label.length, firstgoto := ls.dyd.gt.length,
                upval := false } :: g.bl ∧
      (∀ (i : Nat) (hi : i < names.length), ∃ lv,
        getlocvar ls6.dyd g6 (g.nactvar + i) = some lv ∧ lv.varname = names.get ⟨i, hi⟩) ∧
      forbody statement fuel ls base line nvars isnum =
        (block statement fuel ls6).bind (fun ls7 =>
          (leaveblock ls7).bind (fun ls8 =>
            ls8.doFs (forbody_end prep base line nvars isnum))) := by
  -- the three control variables
  obtain ⟨g1, a1, a2, a3, _⟩ := adjustlocalvars_names ls g prev 3 hfs (by omega)
    (by
      intro i h1 h2
      have := (getlocvar_pending ls.dyd g A L names g.nactvar hact hloc hlenA
        (i - g.nactvar) (by omega)).1
      rwa [Nat.add_sub_cancel' h1] at this)
  -- the preparation jump
  obtain ⟨prep, g3, hk, hg3n, hg3l, hg3f, hg3b⟩ : ∃ (prep : Int) (g3 : FuncState),
      (if isnum then luaK_codeAsBx g1 OpCode.OP_FORPREP base NO_JUMP else luaK_jump g1) =
        (prep, g3) ∧ g3.nactvar = g1.nactvar ∧ g3.f = g1.f ∧
        g3.firstlocal = g1.firstlocal ∧ g3.bl = g1.bl := by
    cases isnum
    · exact ⟨_, _, rfl, rfl, rfl, rfl, rfl⟩
    · exact ⟨_, _, rfl, rfl, rfl, rfl, rfl⟩
  have hg1n : g1.nactvar = g.nactvar + 3 := by rw [a2]
  have hg1f : g1.firstlocal = g.firstlocal := by rw [a2]
  have hg1b : g1.bl = g.bl := by rw [a2]
  -- the declared variables, in the block of the body
  obtain ⟨g5, b1, b2, b3, _⟩ := adjustlocalvars_names
    { (luaX_next { ls with fs := g1 :: prev }) with
      fs := { g3 with bl := ({ isloop := false, nactvar := g3.nactvar, firstlabel := ls.dyd.label.length, firstgoto := ls.dyd.gt.length, upval := false } : BlockCnt) :: g3.bl } :: prev }
    { g3 with bl := ({ isloop := false, nactvar := g3.nactvar, firstlabel := ls.dyd.label.length, firstgoto := ls.dyd.gt.length, upval := false } : BlockCnt) :: g3.bl } prev nvars rfl
    (by simp only [hg3n, hg1n]; omega)
    (by
      intro i h1 h2
      simp only [hg3n, hg1n, hg3f, hg1f, luaX_next_dyd, hg3l] at h1 h2 ⊢
      have := (getlocvar_pending ls.dyd g A L names g.nactvar hact hloc hlenA
        (i - g.nactvar) (by omega)).1
      rw [Nat.add_sub_cancel' (by omega)] at this
      obtain ⟨vd, q1, q2⟩ := this
      refine ⟨vd, q1, ?_⟩
      have hlen1 : g1.f.locvars.length = g.f.locvars.length := by
        have := congrArg List.length a3
        simpa using this
      rw [hlen1]; exact q2)
  have hg5loc : g5.f.locvars.map LocVar.varname = L ++ names := by
    rw [b3]; simp only [hg3l]; rw [a3, hloc]
  refine ⟨prep, { (luaX_next { ls with fs := g1 :: prev }) with
      fs := luaK_reserveregs g5 nvars :: prev }, luaK_reserveregs g5 nvars, rfl, ?_, ?_, ?_, ?_, ?_⟩
  · simp only [luaX_next_dyd]
  · simp only [luaK_reserveregs]; rw [b2]; simp only [hg3n, hg1n]
  · simp only [luaK_reserveregs]; rw [b2]; simp only [hg3n, hg1n, hg3b, hg1b]
  · intro i hi
    have hx := (getlocvar_pending ls.dyd (luaK_reserveregs g5 nvars) A L names g.nactvar hact
      (by simpa [luaK_reserveregs] using hg5loc)
      (by
        have : (luaK_reserveregs g5 nvars).firstlocal = g.firstlocal := by
          simp only [luaK_reserveregs]; rw [b2]; simp only [hg3f, hg1f]
        rw [this]; exact hlenA) i hi).2
    simpa only [luaX_next_dyd] using hx
  · unfold forbody
    rw [a1]
    simp only [checknext, check, htok, ne_eq, not_true_eq_false, if_false]
    simp only [LexState.onFs, luaX_next_fs, hk, enterblock, luaX_next_dyd]
    simp only [luaX_next_dyd] at b1
    rw [b1]
    simp only []
    rw [doFs_cons _ g5 prev _ rfl]
    simp only []
    cases block statement fuel _ with
    | error e => rfl
    | ok ls7 =>
      simp only [Except.bind]
      cases leaveblock ls7 with
      | error e => rfl
      | ok ls8 => rfl

theorem new_localvar_four (ls : LexState) (fs : FuncState) (prev : List FuncState)
    (a b c d : TString) (hfs : ls.fs = fs :: prev)
    (hrec : (fs.nlocvars : Int) + 3 < SHRT_MAX)
    (hlim : (ls.dyd.actvar.length : Int) + 3 - fs.firstlocal < 200) :
    new_localvar ls a = Except.ok (withLocals ls [a]) ∧
    new_localvar (withLocals ls [a]) b = Except.ok (withLocals ls [a, b]) ∧
    new_localvar (withLocals ls [a, b]) c = Except.ok (withLocals ls [a, b, c]) ∧
    new_localvar (withLocals ls [a, b, c]) d = Except.ok (withLocals ls [a, b, c, d]) := by
  refine ⟨?_, ?_, ?_, ?_⟩
  · have := new_localvar_withLocals ls fs prev [] a hfs (by simp; omega) (by simp; omega)
    rwa [withLocals_nil] at this
  · exact new_localvar_withLocals ls fs prev [a] b hfs (by simp; omega) (by simp; omega)
  · exact new_localvar_withLocals ls fs prev [a, b] c hfs (by simp; omega) (by simp; omega)
  · exact new_localvar_withLocals ls fs prev [a, b, c] d hfs (by simp; omega) (by simp; omega)

/-- C21: a numeric `for` declares the three hidden control locals and then the
user variable; after `=` it takes two or three control expressions: a single
expression fails with "',' expected"; with two, the constant 1 is loaded into
the next register as the step; with three, the third is the step.  The body is
then built by `forbody` for one declared variable, which activates the three
control locals, opens the block of the body and activates the user variable
there before it calls `block`: four locals of the loop are active. -/
theorem fornum_control (expr : ExprParser) (statement : StmtParser) (fuel : Nat)
    (ls : LexState) (fs : FuncState) (prev : List FuncState) (varname : TString) (line : Int)
    (hfs : ls.fs = fs :: prev) (htok : ls.t.token = Tok.chr '=')
    (hrec : (fs.nlocvars : Int) + 3 < SHRT_MAX)
    (hlen : ls.dyd.actvar.length = fs.firstlocal + fs.nactvar) (hlim : fs.nactvar + 3 < 200) :
    (withLocals ls ["(for index)", "(for limit)", "(for step)", varname]).fs =
      { fs with f := { fs.f with locvars := fs.f.locvars ++
        [{ varname := "(for index)" }, { varname := "(for limit)" },
         { varname := "(for step)" }, { varname := varname }] } } :: prev ∧
    (∀ r1 ls6,
      exp1 expr (luaX_next
        (withLocals ls ["(for index)", "(for limit)", "(for step)", varname])) =
          Except.ok (r1, ls6) →
      (ls6.t.token ≠ Tok.chr ',' →
        fornum expr statement fuel ls varname line =
          Except.error (ParseError.expected (Tok.chr ','))) ∧
      ∀ r2 ls8, ls6.t.token = Tok.chr ',' →
        exp1 expr (luaX_next ls6) = Except.ok (r2, ls8) →
        (∀ fs8 prev8, ls8.t.token ≠ Tok.chr ',' → ls8.fs = fs8 :: prev8 →
          ∃ (k : Nat) (fs9 : FuncState), fs9.k.get? k = some (Konst.int 1) ∧
            fs9.kcalls = fs8.kcalls ++
              [KCall.codek (fs8.freereg : Int) (k : Int), KCall.reserveregs 1] ∧
            fs9.freereg = fs8.freereg + 1 ∧
            fornum expr statement fuel ls varname line =
              forbody statement fuel { ls8 with fs := fs9 :: prev8 } fs.freereg line 1 true) ∧
        (ls8.t.token = Tok.chr ',' → ∀ r3 ls10,
          exp1 expr (luaX_next ls8) = Except.ok (r3, ls10) →
          fornum expr statement fuel ls varname line =
            forbody statement fuel ls10 fs.freereg line 1 true)) ∧
    ∀ (ls11 : LexState) (g : FuncState) (base : Int), ls11.fs = g :: prev →
      ls11.t.token = Tok.TK_DO →
      ls11.dyd.actvar =
        (withLocals ls ["(for index)", "(for limit)", "(for step)", varname]).dyd.actvar →
      g.f.locvars.map LocVar.varname = fs.f.locvars.map LocVar.varname ++
        ["(for index)", "(for limit)", "(for step)", varname] →
      g.firstlocal = fs.firstlocal → g.nactvar = fs.nactvar →
      ∃ (prep : Int) (ls6 : LexState) (g6 : FuncState), ls6.fs = g6 :: prev ∧
        g6.nactvar = fs.nactvar + 4 ∧
        (∀ (i : Nat) (hi : i < 4), ∃ lv, getlocvar ls6.dyd g6 (fs.nactvar + i) = some lv ∧
          lv.varname =
            ["(for index)", "(for limit)", "(for step)", varname].get ⟨i, hi⟩) ∧
        forbody statement fuel ls11 base line 1 true =
          (block statement fuel ls6).bind (fun ls7 =>
            (leaveblock ls7).bind (fun ls8 =>
              ls8.doFs (forbody_end prep base line 1 true))) := by
  obtain ⟨h1, h2, h3, h4⟩ := new_localvar_four ls fs prev "(for index)" "(for limit)"
    "(for step)" varname hfs hrec (by rw [hlen]; push_cast; omega)
  have hck : checknext (withLocals ls ["(for index)", "(for limit)", "(for step)", varname])
      (Tok.chr '=') = Except.ok (luaX_next
        (withLocals ls ["(for index)", "(for limit)", "(for step)", varname])) := by
    simp [checknext, check, (withLocals_t ls _).1, htok]
  refine ⟨by rw [withLocals_fs ls fs prev _ hfs]; rfl, ?_, ?_⟩
  · intro r1 ls6 he1
    refine ⟨?_, ?_⟩
    · intro hne
      have hck6 : checknext ls6 (Tok.chr ',') =
          Except.error (ParseError.expected (Tok.chr ',')) := by
        simp [checknext, check, hne]
      unfold fornum
      simp only [hfs, h1, h2, h3, h4, hck, he1, hck6]
    · intro r2 ls8 hc he2
      have hck6 : checknext ls6 (Tok.chr ',') = Except.ok (luaX_next ls6) := by
        simp [checknext, check, hc]
      refine ⟨?_, ?_⟩
      · intro fs8 prev8 hne h8
        have ht : testnext ls8 (Tok.chr ',') = (false, ls8) := by
          simp [testnext, hne]
        refine ⟨(luaK_intK fs8 1).1.toNat,
          luaK_reserveregs (luaK_codek (luaK_intK fs8 1).2
            ((luaK_intK fs8 1).2.freereg : Int) (luaK_intK fs8 1).1).2 1, ?_, ?_, ?_, ?_⟩
        rotate_left 3
        · unfold fornum
          simp only [hfs, h1, h2, h3, h4, hck, he1, hck6, he2, ht, doFs_cons ls8 fs8 prev8 _ h8]
        · unfold luaK_intK
          by_cases hm : Konst.int 1 ∈ fs8.k
          · simp only [hm, if_true, luaK_reserveregs, luaK_codek, FuncState.code]
            simp only [Int.toNat_ofNat, List.get?_eq_getElem?]
            rw [List.getElem?_eq_getElem (List.indexOf_lt_length.mpr hm)]
            simp
          · simp only [hm, if_false, luaK_reserveregs, luaK_codek, FuncState.code]
            simp [List.get?_eq_getElem?]
        · unfold luaK_intK
          by_cases hm : Konst.int 1 ∈ fs8.k
          · simp [hm, luaK_reserveregs, luaK_codek, FuncState.code]
          · simp [hm, luaK_reserveregs, luaK_codek, FuncState.code]
        · unfold luaK_intK
          by_cases hm : Konst.int 1 ∈ fs8.k
          · simp [hm, luaK_reserveregs, luaK_codek, FuncState.code]
          · simp [hm, luaK_reserveregs, luaK_codek, FuncState.code]
      · intro hc8 r3 ls10 he3
        have ht : testnext ls8 (Tok.chr ',') = (true, luaX_next ls8) := by
          simp [testnext, hc8]
        unfold fornum
        simp only [hfs, h1, h2, h3, h4, hck, he1, hck6, he2, ht, he3]
  · intro ls11 g base h11 htk hact hloc hfl hna
    obtain ⟨prep, ls6, g6, q1, _, q3, _, q5, q6⟩ := forbody_at_block statement fuel ls11 g prev
      base line 1 true ls.dyd.actvar (fs.f.locvars.map LocVar.varname)
      ["(for index)", "(for limit)", "(for step)", varname] h11 htk
      (by rw [hact, withLocals_dyd ls fs prev _ hfs]
          simp [FuncState.nlocvars])
      hloc (by rw [hlen, hfl, hna]) rfl (by rw [hna]; omega)
    refine ⟨prep, ls6, g6, q1, by rw [q3, hna], ?_, q6⟩
    intro i hi
    have := q5 i hi
    rwa [hna] at this

/-- Counterexample to C21 as stated: `for i = 1 do end`, a numeric `for` with
one control expression, is rejected with "',' expected". -/
theorem fornum_one_expression_rejected :
    forstat (parsers 4).2 (parsers 4).1 4 (chunkStart forOneToks) 1 =
      Except.error (ParseError.expected (Tok.chr ',')) := by
  decide!

/-- Witness of C21: after `for i`, the inputs `= 1 do end`, `= 1, 2 do end` and
`= 1, 2, 3 do end` in the main function of a chunk. -/
theorem fornum_control_witness :
    fornum (parsers 3).2 (parsers 3).1 4 (chunkStart forOneArgs) "i" 1 =
      Except.error (ParseError.expected (Tok.chr ',')) ∧
    (∃ (ls8 : LexState) (fs8 : FuncState) (k : Nat) (fs9 : FuncState), ls8.fs = [fs8] ∧
      fs9.k.get? k = some (Konst.int 1) ∧
      fs9.kcalls = fs8.kcalls ++
        [KCall.codek (fs8.freereg : Int) (k : Int), KCall.reserveregs 1] ∧
      fornum (parsers 3).2 (parsers 3).1 4 (chunkStart forTwoArgs) "i" 1 =
        forbody (parsers 3).1 4 { ls8 with fs := [fs9] } 0 1 1 true) ∧
    ∃ ls10, fornum (parsers 3).2 (parsers 3).1 4 (chunkStart forThreeArgs) "i" 1 =
      forbody (parsers 3).1 4 ls10 0 1 1 true := by
  refine ⟨?_, ?_, ?_⟩
  · exact ((fornum_control (parsers 3).2 (parsers 3).1 4 (chunkStart forOneArgs) _ []
      "i" 1 rfl rfl (by decide) rfl (by decide)).2.1 _ _ rfl).1 (by decide)
  · obtain ⟨k, fs9, q1, q2, _, q4⟩ :=
      (((fornum_control (parsers 3).2 (parsers 3).1 4 (chunkStart forTwoArgs) _ []
        "i" 1 rfl rfl (by decide) rfl (by decide)).2.1 _ _ rfl).2 _ _ rfl rfl).1 _ []
        (by decide) rfl
    exact ⟨_, _, k, fs9, rfl, q1, q2, q4⟩
  · exact ⟨_, ((((fornum_control (parsers 3).2 (parsers 3).1 4 (chunkStart forThreeArgs) _ []
      "i" 1 rfl rfl (by decide) rfl (by decide)).2.1 _ _ rfl).2 _ _ rfl rfl).2 rfl) _ _ rfl⟩

theorem new_localvar_eq_withLocals (ls ls1 : LexState) (name : TString)
    (h : new_localvar ls name = Except.ok ls1) : ls1 = withLocals ls [name] := by
  obtain ⟨fs, prev, hfs, rfl, _⟩ := new_localvar_inv ls ls1 name h
  unfold withLocals
  rw [hfs]
  simp [List.range_succ]

theorem withLocals_append (ls : LexState) (a b : List TString) :
    withLocals (withLocals ls a) b = withLocals ls (a ++ b) := by
  unfold withLocals
  cases hfs : ls.fs with
  | nil => simp [hfs]
  | cons fs prev =>
    simp only [List.map_append, List.append_assoc, List.length_append, FuncState.nlocvars,
      List.length_map, List.range_add, List.map_map]
    congr 5
    funext j
    simp only [Function.comp, Nat.add_assoc]

theorem withLocals_congr (ls ls1 : LexState) (names : List TString) (h1 : ls1.fs = ls.fs)
    (h2 : ls1.dyd = ls.dyd) :
    (withLocals ls1 names).fs = (withLocals ls names).fs ∧
    (withLocals ls1 names).dyd = (withLocals ls names).dyd := by
  unfold withLocals
  rw [h1]
  cases ls.fs with
  | nil => exact ⟨h1, h2⟩
  | cons fs prev => simp only [h2]; trivial

theorem forlist_names_spec :
    ∀ (fuel nvars : Nat) (ls ls1 : LexState) (n1 : Nat),
      forlist_names fuel nvars ls = Except.ok (n1, ls1) →
      ∃ more : List TString, n1 = nvars + more.length ∧
        ls1.fs = (withLocals ls more).fs ∧ ls1.dyd = (withLocals ls more).dyd ∧
        ls1.t.token ≠ Tok.chr ',' := by
  intro fuel
  induction fuel with
  | zero => intro nvars ls ls1 n1 h; simp [forlist_names] at h
  | succ k ih =>
    intro nvars ls ls1 n1 h
    rw [forlist_names] at h
    by_cases hc : ls.t.token = Tok.chr ','
    · simp only [testnext, hc, if_true] at h
      cases hs : str_checkname (luaX_next ls) with
      | error e => rw [hs] at h; cases h
      | ok r =>
        obtain ⟨name, ls2⟩ := r
        rw [hs] at h
        obtain ⟨_, _, rfl⟩ := str_checkname_inv _ _ _ hs
        simp only [] at h
        cases hn : new_localvar (luaX_next (luaX_next ls)) name with
        | error e => rw [hn] at h; cases h
        | ok ls3 =>
          rw [hn] at h
          simp only [] at h
          obtain ⟨more, e1, e2, e3, e4⟩ := ih _ _ _ _ h
          have h3 := new_localvar_eq_withLocals _ _ _ hn
          refine ⟨name :: more, by simp only [List.length_cons]; omega, ?_, ?_, e4⟩
          · rw [e2, h3, withLocals_append]
            exact (withLocals_congr ls _ _ (by rw [luaX_next_fs, luaX_next_fs])
              (by rw [luaX_next_dyd, luaX_next_dyd])).1
          · rw [e3, h3, withLocals_append]
            exact (withLocals_congr ls _ _ (by rw [luaX_next_fs, luaX_next_fs])
              (by rw [luaX_next_dyd, luaX_next_dyd])).2
    · simp only [testnext, hc, if_false, Except.ok.injEq, Prod.mk.injEq] at h
      obtain ⟨h1, h2⟩ := h
      subst h2
      exact ⟨[], by simp [h1], by rw [withLocals_nil], by rw [withLocals_nil], hc⟩

/-- C22: a generic `for` declares three hidden control locals (generator,
state, control) and then the user variables: with `k` user variables the name
loop ends with `nvars = 3 + k` declared locals; the iterator expression list
is adjusted to three values, the number of hidden control locals; and
`forbody`, called for `nvars - 3 = k` declared variables, has the `3 + k`
locals of the loop active when it calls `block`. -/
theorem forlist_control (expr : ExprParser) (statement : StmtParser) (fuel : Nat)
    (ls : LexState) (fs : FuncState) (prev : List FuncState) (indexname : TString)
    (hfs : ls.fs = fs :: prev) (hrec : (fs.nlocvars : Int) + 3 < SHRT_MAX)
    (hlen : ls.dyd.actvar.length = fs.firstlocal + fs.nactvar) (hlim : fs.nactvar + 3 < 200) :
    ∀ (nvars : Nat) (ls5 : LexState),
      forlist_names fuel 4
        (withLocals ls ["(for generator)", "(for state)", "(for control)", indexname]) =
          Except.ok (nvars, ls5) →
      ∃ more : List TString, nvars = 3 + (1 + more.length) ∧
        ls5.fs = (withLocals ls
          (["(for generator)", "(for state)", "(for control)", indexname] ++ more)).fs ∧
        ls5.dyd = (withLocals ls
          (["(for generator)", "(for state)", "(for control)", indexname] ++ more)).dyd ∧
        (∀ nexps e ls7, ls5.t.token = Tok.TK_IN →
          explist expr (luaX_next ls5) fuel = Except.ok ((nexps, e), ls7) →
          forlist expr statement fuel ls indexname =
            (adjust_assign ls7 3 nexps e).bind (fun ls8 =>
              (ls8.doFs (fun g => luaK_checkstack g 3)).bind (fun ls9 =>
                forbody statement fuel ls9 fs.freereg (luaX_next ls5).linenumber
                  (1 + more.length) false))) ∧
        ∀ (ls11 : LexState) (g : FuncState) (base line : Int), ls11.fs = g :: prev →
          ls11.t.token = Tok.TK_DO → ls11.dyd.actvar = ls5.dyd.actvar →
          g.f.locvars.map LocVar.varname = fs.f.locvars.map LocVar.varname ++
            (["(for generator)", "(for state)", "(for control)", indexname] ++ more) →
          g.firstlocal = fs.firstlocal → g.nactvar = fs.nactvar →
          fs.nactvar + 3 + (1 + more.length) < 256 →
          ∃ (prep : Int) (ls6 : LexState) (g6 : FuncState), ls6.fs = g6 :: prev ∧
            g6.nactvar = fs.nactvar + 3 + (1 + more.length) ∧
            (∀ (i : Nat)
              (hi : i < (["(for generator)", "(for state)", "(for control)", indexname] ++
                more).length),
              ∃ lv, getlocvar ls6.dyd g6 (fs.nactvar + i) = some lv ∧
                lv.varname =
                  (["(for generator)", "(for state)", "(for control)", indexname] ++
                    more).get ⟨i, hi⟩) ∧
            forbody statement fuel ls11 base line (1 + more.length) false =
              (block statement fuel ls6).bind (fun ls7 =>
                (leaveblock ls7).bind (fun ls8 =>
                  ls8.doFs (forbody_end prep base line (1 + more.length) false))) := by
  intro nvars ls5 h5
  obtain ⟨h1, h2, h3, h4⟩ := new_localvar_four ls fs prev "(for generator)" "(for state)"
    "(for control)" indexname hfs hrec (by rw [hlen]; push_cast; omega)
  obtain ⟨more, e1, e2, e3, e4⟩ := forlist_names_spec fuel 4 _ ls5 nvars h5
  rw [withLocals_append] at e2 e3
  refine ⟨more, by omega, e2, e3, ?_, ?_⟩
  · intro nexps e ls7 htok hex
    have hck : checknext ls5 Tok.TK_IN = Except.ok (luaX_next ls5) := by
      simp [checknext, check, htok]
    have hn : nvars - 3 = 1 + more.length := by omega
    unfold forlist
    simp only [hfs, h1, h2, h3, h4, h5, hck, hex, hn]
    cases adjust_assign ls7 3 (↑nexps) e with
    | error err => rfl
    | ok ls8 =>
      simp only [Except.bind]
      cases ls8.doFs (fun g => luaK_checkstack g 3) with
      | error err => rfl
      | ok ls9 => rfl
  · intro ls11 g base line h11 htk hact hloc hfl hna hlim2
    obtain ⟨prep, ls6, g6, q1, _, q3, _, q5, q6⟩ := forbody_at_block statement fuel ls11 g prev
      base line (1 + more.length) false ls.dyd.actvar (fs.f.locvars.map LocVar.varname)
      (["(for generator)", "(for state)", "(for control)", indexname] ++ more) h11 htk
      (by rw [hact, e3, withLocals_dyd ls fs prev _ hfs]
          simp [FuncState.nlocvars])
      hloc (by rw [hlen, hfl, hna])
      (by simp only [List.length_append, List.length_cons, List.length_nil]; omega)
      (by rw [hna]; exact hlim2)
    refine ⟨prep, ls6, g6, q1, by rw [q3, hna], ?_, q6⟩
    intro i hi
    have := q5 i hi
    rwa [hna] at this

/-- Counterexample to C22 as stated: `for a in x do end` has one user variable
and the loop declares four locals in all, three hidden ones and `a`, not
five. -/
theorem forlist_three_hidden_locals :
    (forstat (parsers 4).2 (parsers 4).1 4 (chunkStart forInToks) 1).map
        (fun s => s.fs.map (fun g => g.f.locvars.map LocVar.varname)) =
      Except.ok [["(for generator)", "(for state)", "(for control)", "a"]] := by
  decide!

/-- Witness of C22: after `for a`, the input `, b in x do end` in the main
function of a chunk: the name loop ends with five declared locals, three
hidden ones and the two user variables. -/
theorem forlist_control_witness :
    ∃ (ls5 : LexState) (more : List TString),
      forlist_names 4 4 (withLocals (chunkStart forInArgs)
        ["(for generator)", "(for state)", "(for control)", "a"]) = Except.ok (5, ls5) ∧
      5 = 3 + (1 + more.length) ∧
      ls5.dyd = (withLocals (chunkStart forInArgs)
        (["(for generator)", "(for state)", "(for control)", "a"] ++ more)).dyd := by
  obtain ⟨more, q1, _, q3, _⟩ :=
    forlist_control (parsers 3).2 (parsers 3).1 4 (chunkStart forInArgs) _ [] "a" rfl
      (by decide) rfl (by decide) 5 _ rfl
  exact ⟨_, more, rfl, q1, q3⟩

/-! ## Theorems: parameter lists -/

theorem luaX_next_with (ls : LexState) (F : List FuncState) (D : Dyndata) :
    luaX_next { ls with fs := F, dyd := D } = { luaX_next ls with fs := F, dyd := D } := by
  unfold luaX_next
  cases ls.input <;> rfl

theorem luaX_next_t_with (ls : LexState) (F : List FuncState) (D : Dyndata) :
    (luaX_next { ls with fs := F, dyd := D }).t = (luaX_next ls).t := by
  rw [luaX_next_with]

theorem Params_congr (ls lsT : LexState) (names : List TString) (d : Bool)
    (h : Params ls names d lsT) :
    ∀ (F : List FuncState) (D : Dyndata),
      Params { ls with fs := F, dyd := D } names d { lsT with fs := F, dyd := D } := by
  induction h with
  | last ls h1 h2 =>
    intro F D
    have := Params.last { ls with fs := F, dyd := D } h1 (by rw [luaX_next_t_with]; exact h2)
    rw [luaX_next_with] at this
    exact this
  | dots ls h1 =>
    intro F D
    have := Params.dots { ls with fs := F, dyd := D } h1
    rw [luaX_next_with] at this
    exact this
  | more ls names d lsT h1 h2 _ ih =>
    intro F D
    have h3 := ih F D
    rw [← luaX_next_with, ← luaX_next_with] at h3
    exact Params.more { ls with fs := F, dyd := D } names d _ h1
      (by rw [luaX_next_t_with]; exact h2) h3

theorem parlist_loop_spec (ls lsT : LexState) (names : List TString) (d : Bool)
    (h : Params ls names d lsT) :
    ∀ (fuel nparams : Nat) (fs : FuncState) (prev : List FuncState) (D : Dyndata),
      fs.f.is_vararg = false → names.length < fuel →
      (fs.nlocvars : Int) + names.length ≤ SHRT_MAX →
      (D.actvar.length : Int) + names.length - fs.firstlocal ≤ 200 →
      parlist_loop fuel nparams { ls with fs := fs :: prev, dyd := D } =
        Except.ok (nparams + names.length,
          { lsT with
            fs := { fs with f := { fs.f with
              locvars := fs.f.locvars ++ names.map (fun n => { varname := n }),
              is_vararg := d } } :: prev,
            dyd := { D with actvar := (D.actvar ++
              (List.range names.length).map (fun j => { idx := fs.nlocvars + j })) } }) := by
  induction h with
  | last ls h1 h2 =>
    intro fuel nparams fs prev D hv hf hrec hlim
    obtain ⟨k, rfl⟩ : ∃ k, fuel = k + 1 := ⟨fuel - 1, by omega⟩
    simp only [List.length_singleton, Nat.cast_one] at hrec hlim
    have hs : str_checkname { ls with fs := fs :: prev, dyd := D } =
        Except.ok (ls.t.ts, { luaX_next ls with fs := fs :: prev, dyd := D }) := by
      simp [str_checkname, check, h1, luaX_next_with]
    have hn := new_localvar_ok { luaX_next ls with fs := fs :: prev, dyd := D } fs prev ls.t.ts
      rfl (by omega) (by simp only []; omega)
    rw [parlist_loop]
    simp only [h1, hs, hn, hv]
    simp only [testnext, h2, if_false, Bool.false_eq_true]
    simp [List.range_succ]
  | dots ls h1 =>
    intro fuel nparams fs prev D hv hf hrec hlim
    obtain ⟨k, rfl⟩ : ∃ k, fuel = k + 1 := ⟨fuel - 1, by omega⟩
    rw [parlist_loop]
    simp only [h1, luaX_next_with, LexState.doFs]
    simp
  | more ls names d lsT h1 h2 _ ih =>
    intro fuel nparams fs prev D hv hf hrec hlim
    obtain ⟨k, rfl⟩ : ∃ k, fuel = k + 1 := ⟨fuel - 1, by omega⟩
    simp only [List.length_cons, Nat.cast_add, Nat.cast_one] at hrec hlim hf
    have hs : str_checkname { ls with fs := fs :: prev, dyd := D } =
        Except.ok (ls.t.ts, { luaX_next ls with fs := fs :: prev, dyd := D }) := by
      simp [str_checkname, check, h1, luaX_next_with]
    have hn := new_localvar_ok { luaX_next ls with fs := fs :: prev, dyd := D } fs prev ls.t.ts
      rfl (by omega) (by simp only []; omega)
    have hi := ih k (nparams + 1)
      { fs with f := { fs.f with locvars := fs.f.locvars ++ [{ varname := ls.t.ts }] } } prev
      { D with actvar := D.actvar ++ [{ idx := fs.nlocvars }] } hv (by omega)
      (by simp only [FuncState.nlocvars, List.length_append, List.length_singleton] at hrec ⊢
          push_cast; omega)
      (by simp only [List.length_append, List.length_singleton]; push_cast; omega)
    rw [parlist_loop]
    simp only [h1, hs, hn, hv]
    simp only [testnext, h2, if_true, Bool.false_eq_true, if_false, luaX_next_with]
    simp only [hv] at hi
    refine hi.trans ?_
    simp only [List.length_cons, List.map_cons, List.append_assoc, List.singleton_append,
      FuncState.nlocvars, List.length_append, List.length_singleton, Except.ok.injEq,
      Prod.mk.injEq]
    refine ⟨by omega, ?_⟩
    congr 3
    rw [List.range_succ_eq_map]
    simp only [List.map_cons, List.map_map, Nat.add_zero, List.cons.injEq, true_and]
    apply List.map_congr_left
    intro j _
    simp only [Function.comp, Nat.succ_eq_add_one]
    simp only [List.length_nil, Nat.zero_add, Vardesc.mk.injEq]
    omega

theorem map_varname_mk (names : List TString) :
    (names.map (fun n => ({ varname := n } : LocVar))).map LocVar.varname = names := by
  induction names with
  | nil => rfl
  | cons a l ih => simp only [List.map_cons, ih]

theorem parlist_ok (fuel : Nat) (ls lsT : LexState) (fs : FuncState) (prev : List FuncState)
    (names : List TString) (d : Bool) (hfs : ls.fs = fs :: prev)
    (hlen : ls.dyd.actvar.length = fs.firstlocal + fs.nactvar)
    (hp : Params ls names d lsT ∨
      (ls.t.token = Tok.chr ')' ∧ names = [] ∧ d = false ∧ lsT = ls))
    (hfuel : names.length < fuel)
    (hrec : (fs.nlocvars : Int) + names.length ≤ SHRT_MAX)
    (hlim : fs.nactvar + names.length ≤ 200) :
    ∃ g1 : FuncState,
      parlist fuel ls = Except.ok { lsT with fs := g1 :: prev, dyd := (withLocals ls names).dyd } ∧
      g1.f.numparams = fs.nactvar + names.length ∧
      g1.nactvar = fs.nactvar + names.length ∧ g1.f.is_vararg = d ∧
      g1.freereg = fs.freereg + (fs.nactvar + names.length) ∧
      g1.f.locvars.map LocVar.varname = fs.f.locvars.map LocVar.varname ++ names ∧
      g1.firstlocal = fs.firstlocal ∧
      ∀ (i : Nat) (hi : i < names.length), ∃ lv,
        getlocvar (withLocals ls names).dyd g1 (fs.nactvar + i) = some lv ∧
        lv.varname = names.get ⟨i, hi⟩ := by
  -- the loop over the parameters
  have hloop : (if ls.t.token ≠ Tok.chr ')' then
        parlist_loop fuel 0 { ls with fs := { fs with f := { fs.f with is_vararg := false } } :: prev }
      else Except.ok (0, { ls with fs := { fs with f := { fs.f with is_vararg := false } } :: prev })) =
      Except.ok (names.length,
        { lsT with
          fs := { fs with f := { fs.f with
            locvars := fs.f.locvars ++ names.map (fun n => { varname := n }),
            is_vararg := d } } :: prev,
          dyd := (withLocals ls names).dyd }) := by
    rw [withLocals_dyd ls fs prev names hfs]
    rcases hp with hp | ⟨h1, h2, h3, h4⟩
    · have hne : ls.t.token ≠ Tok.chr ')' := by
        cases hp with
        | last _ h1 _ => rw [h1]; decide
        | dots _ h1 => rw [h1]; decide
        | more _ _ _ _ h1 _ _ => rw [h1]; decide
      rw [if_pos hne]
      have := parlist_loop_spec ls lsT names d hp fuel 0
        { fs with f := { fs.f with is_vararg := false } } prev ls.dyd rfl hfuel
        (by simpa [FuncState.nlocvars] using hrec)
        (by rw [hlen]; push_cast; omega)
      rw [Nat.zero_add] at this
      exact this
    · subst h2; subst h3; subst h4
      rw [if_neg (by simp [h1])]
      simp
  -- the activation
  obtain ⟨g1, a1, a2, a3, _⟩ := adjustlocalvars_names
    { lsT with
      fs := { fs with f := { fs.f with
        locvars := fs.f.locvars ++ names.map (fun n => { varname := n }),
        is_vararg := d } } :: prev,
      dyd := (withLocals ls names).dyd }
    { fs with f := { fs.f with
        locvars := fs.f.locvars ++ names.map (fun n => { varname := n }),
        is_vararg := d } } prev names.length rfl (by simp only []; omega)
    (by
      intro i h1 h2
      simp only [] at h1 h2 ⊢
      have := (getlocvar_pending (withLocals ls names).dyd
        { fs with f := { fs.f with
          locvars := fs.f.locvars ++ names.map (fun n => { varname := n }),
          is_vararg := d } } ls.dyd.actvar (fs.f.locvars.map LocVar.varname) names fs.nactvar
        (by rw [withLocals_dyd ls fs prev names hfs]; simp [FuncState.nlocvars])
        (by simp only [List.map_append, map_varname_mk]) hlen (i - fs.nactvar) (by omega)).1
      rwa [Nat.add_sub_cancel' h1] at this)
  have hg1n : g1.nactvar = fs.nactvar + names.length := by rw [a2]
  refine ⟨luaK_reserveregs { g1 with f := { g1.f with numparams := cast_byte g1.nactvar } }
    g1.nactvar, ?_, ?_, ?_, ?_, ?_, ?_, ?_, ?_⟩
  · unfold parlist
    rw [doFs_cons ls fs prev _ hfs]
    simp only [hloop, a1]
    rw [doFs_cons _ g1 prev _ rfl]
  · simp only [luaK_reserveregs, hg1n]
    have := cast_byte_natCast (fs.nactvar + names.length) (by omega)
    rwa [Nat.cast_add] at this
  · simp only [luaK_reserveregs, hg1n]
  · simp only [luaK_reserveregs]; rw [a2]
  · simp only [luaK_reserveregs, hg1n]; rw [a2]
  · simp only [luaK_reserveregs]
    rw [a3]
    simp only [List.map_append, map_varname_mk]
  · simp only [luaK_reserveregs]; rw [a2]
  · intro i hi
    exact (getlocvar_pending (withLocals ls names).dyd _ ls.dyd.actvar
      (fs.f.locvars.map LocVar.varname) names fs.nactvar
      (by rw [withLocals_dyd ls fs prev names hfs]; simp [FuncState.nlocvars])
      (by
        simp only [luaK_reserveregs]
        rw [a3]
        simp only [List.map_append, map_varname_mk])
      (by
        have : (luaK_reserveregs { g1 with f := { g1.f with numparams := cast_byte g1.nactvar } }
          g1.nactvar).firstlocal = fs.firstlocal := by
          simp only [luaK_reserveregs]; rw [a2]
        rw [this]; exact hlen) i hi).2

theorem body_after_parlist (statement : StmtParser) (fuel : Nat) (ls ls5 : LexState)
    (ismethod : Bool) (line : Int) (h5 : body_open ls ismethod line = Except.ok ls5) :
    (∀ e, parlist fuel ls5 = Except.error e →
      body statement fuel ls ismethod line = Except.error e) ∧
    ∀ ls6, parlist fuel ls5 = Except.ok ls6 → ls6.t.token ≠ Tok.chr ')' →
      body statement fuel ls ismethod line =
        Except.error (ParseError.expected (Tok.chr ')')) := by
  unfold body_open at h5
  unfold body
  cases ha : addprototype ls with
  | error e => rw [ha] at h5; cases h5
  | ok r =>
    obtain ⟨clp, ls1⟩ := r
    rw [ha] at h5
    simp only [] at h5 ⊢
    cases ho : open_func ls1 { clp with linedefined := line } with
    | error e => rw [ho] at h5; cases h5
    | ok ls2 =>
      rw [ho] at h5
      simp only [] at h5 ⊢
      cases hc : checknext ls2 (Tok.chr '(') with
      | error e => rw [hc] at h5; cases h5
      | ok ls3 =>
        rw [hc] at h5
        simp only [] at h5 ⊢
        have hr : ∀ (k : LexState → Except ParseError (expdesc × LexState)),
            (match (if ismethod = true then
                match new_localvar ls3 "self" with
                | Except.error e => Except.error e
                | Except.ok ls4 => adjustlocalvars ls4 1
              else Except.ok ls3) with
              | Except.error e => Except.error e
              | Except.ok ls5 => k ls5) = k ls5 := by
          intro k
          cases ismethod with
          | false =>
            simp only [Bool.false_eq_true, if_false, Except.ok.injEq] at h5
            subst h5
            rfl
          | true =>
            simp only [if_true] at h5 ⊢
            cases hn : new_localvar ls3 "self" with
            | error e => rw [hn] at h5; cases h5
            | ok ls4 =>
              rw [hn] at h5
              simp only [] at h5
              simp only [h5]
        refine ⟨?_, ?_⟩
        · intro e he
          refine (hr _).trans ?_
          rw [he]
        · intro ls6 h6 hne
          refine (hr _).trans ?_
          rw [h6]
          simp only [checknext, check, hne, ne_eq, not_false_eq_true, if_true]

theorem body_open_ok (ls : LexState) (fs : FuncState) (prev : List FuncState)
    (ismethod : Bool) (line : Int) (hfs : ls.fs = fs :: prev) (hnp : fs.np < MAXARG_Bx)
    (htok : ls.t.token = Tok.chr '(') :
    ∃ (ls5 : LexState) (g : FuncState), body_open ls ismethod line = Except.ok ls5 ∧
      ls5.fs = g :: { fs with np := fs.np + 1 } :: prev ∧
      ls5.t = (luaX_next ls).t ∧ ls5.input = (luaX_next ls).input ∧
      g.nactvar = (if ismethod then 1 else 0) ∧
      g.nlocvars = (if ismethod then 1 else 0) ∧
      ls5.dyd.actvar.length = g.firstlocal + g.nactvar ∧
      g.f.numparams = 0 ∧ g.freereg = 0 ∧
      (ismethod = true → ∃ lv, getlocvar ls5.dyd g 0 = some lv ∧ lv.varname = "self") ∧
      ls5.dyd.actvar = ls.dyd.actvar ++
        (List.range (if ismethod then 1 else 0)).map (fun j => { idx := j }) ∧
      g.f.locvars.map LocVar.varname = (if ismethod then ["self"] else []) ∧
      g.firstlocal = ls.dyd.actvar.length := by
  have hnp2 : ¬ fs.np ≥ MAXARG_Bx := by omega
  have hck : ∀ F : List FuncState,
      checknext { ls with fs := F } (Tok.chr '(') = Except.ok (luaX_next { ls with fs := F }) := by
    intro F
    simp [checknext, check, htok]
  obtain ⟨g0, hg0⟩ : ∃ g0 : FuncState, g0 =
      { f := { linedefined := line }, bl := [{ isloop := false, nactvar := 0, firstlabel := ls.dyd.label.length, firstgoto := ls.dyd.gt.length, upval := false }],
        firstlocal := ls.dyd.actvar.length } := ⟨_, rfl⟩
  have hopen : ∀ ism, body_open ls ism line =
      if ism then
        match new_localvar (luaX_next { ls with fs := g0 :: { fs with np := fs.np + 1 } :: prev })
            "self" with
        | Except.error e => Except.error e
        | Except.ok ls4 => adjustlocalvars ls4 1
      else Except.ok (luaX_next { ls with fs := g0 :: { fs with np := fs.np + 1 } :: prev }) := by
    intro ism
    unfold body_open addprototype open_func enterblock
    simp only [hfs, hnp2, if_false]
    rw [hck, hg0]
  cases ismethod with
  | false =>
    refine ⟨luaX_next { ls with fs := g0 :: { fs with np := fs.np + 1 } :: prev }, g0, ?_,
      by rw [luaX_next_fs], ?_, ?_, by rw [hg0]; rfl, by rw [hg0]; rfl, ?_, by rw [hg0],
      by rw [hg0], (fun h => by cases h), by rw [luaX_next_dyd]; simp, by rw [hg0]; rfl,
      by rw [hg0]⟩
    · rw [hopen]; rfl
    · unfold luaX_next; cases ls.input <;> rfl
    · unfold luaX_next; cases ls.input <;> rfl
    · rw [luaX_next_dyd, hg0]; rfl
  | true =>
    have hn := new_localvar_ok
      (luaX_next { ls with fs := g0 :: { fs with np := fs.np + 1 } :: prev })
      g0 ({ fs with np := fs.np + 1 } :: prev) "self"
      (by rw [luaX_next_fs]) (by rw [hg0]; simp [FuncState.nlocvars, SHRT_MAX])
      (by rw [luaX_next_dyd, hg0]; simp)
    obtain ⟨S, hS⟩ : ∃ S : LexState, S =
        { (luaX_next { ls with fs := g0 :: { fs with np := fs.np + 1 } :: prev }) with
          fs := { g0 with f := { g0.f with locvars := g0.f.locvars ++ [{ varname := "self" }] } } ::
            ({ fs with np := fs.np + 1 } :: prev),
          dyd := { ls.dyd with actvar := ls.dyd.actvar ++ [{ idx := g0.nlocvars }] } } :=
      ⟨_, rfl⟩
    have hn2 : new_localvar (luaX_next { ls with fs := g0 :: { fs with np := fs.np + 1 } :: prev })
        "self" = Except.ok S := by
      rw [hn, hS]
      simp only [luaX_next_dyd]
    obtain ⟨g1, a1, a2, a3, _⟩ := adjustlocalvars_names S
      { g0 with f := { g0.f with locvars := g0.f.locvars ++ [{ varname := "self" }] } }
      ({ fs with np := fs.np + 1 } :: prev) 1 (by rw [hS]) (by rw [hg0]; simp)
      (by
        intro i h1 h2
        rw [hg0] at h1 h2 ⊢
        rw [hS, hg0]
        simp only [Nat.zero_add] at h1 h2
        have hi : i = 0 := by omega
        subst hi
        refine ⟨{ idx := 0 }, ?_, by simp⟩
        simp [List.get?_eq_getElem?, FuncState.nlocvars])
    have hSt : S.t = (luaX_next ls).t ∧ S.input = (luaX_next ls).input := by
      rw [hS]
      unfold luaX_next; cases ls.input <;> exact ⟨rfl, rfl⟩
    have hSd : S.dyd = { ls.dyd with actvar := ls.dyd.actvar ++ [{ idx := 0 }] } := by
      rw [hS, hg0]; rfl
    refine ⟨{ S with fs := g1 :: { fs with np := fs.np + 1 } :: prev }, g1, ?_, rfl,
      hSt.1, hSt.2, ?_, ?_, ?_, ?_, ?_, ?_, by simp [hSd, List.range_succ],
      by rw [a3, hg0]; rfl, by rw [a2, hg0]⟩
    · rw [hopen]
      simp only [if_true]
      rw [hn2]
      exact a1
    · rw [a2, hg0]; rfl
    · have := congrArg List.length a3
      simp only [List.length_map] at this
      simp only [FuncState.nlocvars, if_true]
      rw [this, hg0]; rfl
    · have h1 : g1.firstlocal = ls.dyd.actvar.length := by rw [a2, hg0]
      have h2 : g1.nactvar = 1 := by rw [a2, hg0]
      rw [h1, h2]
      simp only [hSd, List.length_append, List.length_singleton]
    · rw [a2, hg0]
    · rw [a2, hg0]
    · intro _
      have := (getlocvar_pending
        { ls.dyd with actvar := ls.dyd.actvar ++ [{ idx := 0 }] } g1
        ls.dyd.actvar [] ["self"] 0 (by simp [List.range_succ]) (by rw [a3, hg0]; rfl)
        (by rw [a2, hg0]; rfl) 0 (by decide)).2
      simpa only [hSd] using this

theorem range_map_shift (k n : Nat) :
    (List.range k).map (fun j => ({ idx := j } : Vardesc)) ++
      (List.range n).map (fun j => { idx := k + j }) =
    (List.range (k + n)).map (fun j => { idx := j }) := by
  rw [List.range_add, List.map_append, List.map_map]
  rfl

/-- C23: the parameters of a function.  `body` opens the new function state,
skips `(` and, for a method, declares `self` as local 0.  From there, for a
parameter list made of the names `names` and of `...` exactly when `dots`
holds, `parlist` returns: `numparams` and `nactvar` are the number of names,
plus one for `self`; the parameters are the active locals in declaration
order (`self` first); `is_vararg` is `dots`.  A token that is neither a name
nor `...` in parameter position is the syntax error "<name> or '...'
expected", and whatever `parlist` returns, `body` fails with "')' expected"
unless the next token is `)`: nothing can follow `...`. -/
theorem parlist_parameters (statement : StmtParser) (fuel : Nat) (ls : LexState)
    (fs : FuncState) (prev : List FuncState) (ismethod : Bool) (line : Int)
    (hfs : ls.fs = fs :: prev) (hnp : fs.np < MAXARG_Bx) (htok : ls.t.token = Tok.chr '(') :
    ∃ (ls5 : LexState) (g : FuncState), body_open ls ismethod line = Except.ok ls5 ∧
      ls5.fs = g :: { fs with np := fs.np + 1 } :: prev ∧
      ls5.t = (luaX_next ls).t ∧ ls5.input = (luaX_next ls).input ∧
      g.nactvar = (if ismethod then 1 else 0) ∧
      (∀ (names : List TString) (d : Bool) (lsT : LexState),
        (Params ls5 names d lsT ∨
          (ls5.t.token = Tok.chr ')' ∧ names = [] ∧ d = false ∧ lsT = ls5)) →
        names.length < fuel → names.length < 199 →
        ∃ g1 : FuncState,
          parlist fuel ls5 = Except.ok { lsT with
            fs := g1 :: { fs with np := fs.np + 1 } :: prev,
            dyd := (withLocals ls5 names).dyd } ∧
          g1.f.numparams = (if ismethod then 1 else 0) + names.length ∧
          g1.nactvar = (if ismethod then 1 else 0) + names.length ∧
          g1.f.is_vararg = d ∧
          ∀ (i : Nat) (hi : i < ((if ismethod then ["self"] else []) ++ names).length),
            ∃ lv, getlocvar (withLocals ls5 names).dyd g1 i = some lv ∧
              lv.varname = ((if ismethod then ["self"] else []) ++ names).get ⟨i, hi⟩) ∧
      (∀ (k nparams : Nat) (ls6 : LexState), ls6.t.token ≠ Tok.TK_NAME →
        ls6.t.token ≠ Tok.TK_DOTS →
        parlist_loop (k + 1) nparams ls6 =
          Except.error (ParseError.syntaxerror "<name> or '...' expected")) ∧
      (ls5.t.token ≠ Tok.TK_NAME → ls5.t.token ≠ Tok.TK_DOTS → ls5.t.token ≠ Tok.chr ')' →
        0 < fuel →
        body statement fuel ls ismethod line =
          Except.error (ParseError.syntaxerror "<name> or '...' expected")) ∧
      ∀ ls6, parlist fuel ls5 = Except.ok ls6 → ls6.t.token ≠ Tok.chr ')' →
        body statement fuel ls ismethod line =
          Except.error (ParseError.expected (Tok.chr ')')) := by
  obtain ⟨ls5, g, b1, b2, b3, b4, b5, b6, b7, _, _, _, b11, b12, b13⟩ :=
    body_open_ok ls fs prev ismethod line hfs hnp htok
  have hloopErr : ∀ (k nparams : Nat) (ls6 : LexState), ls6.t.token ≠ Tok.TK_NAME →
      ls6.t.token ≠ Tok.TK_DOTS →
      parlist_loop (k + 1) nparams ls6 =
        Except.error (ParseError.syntaxerror "<name> or '...' expected") := by
    intro k nparams ls6 h1 h2
    rw [parlist_loop]
    split <;> simp_all
  have hk : (if ismethod then 1 else 0) ≤ 1 := by cases ismethod <;> decide
  refine ⟨ls5, g, b1, b2, b3, b4, b5, ?_, hloopErr, ?_, (body_after_parlist statement fuel ls ls5
    ismethod line b1).2⟩
  · intro names d lsT hp hfuel hlim
    obtain ⟨g1, p1, p2, p3, p4, _, p6, p7, _⟩ := parlist_ok fuel ls5 lsT g
      ({ fs with np := fs.np + 1 } :: prev) names d b2 b7 hp hfuel
      (by rw [b6]; unfold SHRT_MAX; push_cast; omega) (by rw [b5]; omega)
    refine ⟨g1, p1, by rw [p2, b5], by rw [p3, b5], p4, ?_⟩
    intro i hi
    have hx := (getlocvar_pending (withLocals ls5 names).dyd g1 ls.dyd.actvar []
      ((if ismethod then ["self"] else []) ++ names) 0
      (by
        rw [withLocals_dyd ls5 g _ names b2, b11, b6]
        cases ismethod
        · simp only [Bool.false_eq_true, if_false, List.range_zero, List.map_nil,
            List.append_nil, List.nil_append, List.length_nil, Nat.zero_add]
        · simp only [if_true, List.append_assoc, List.length_nil, Nat.zero_add,
            List.length_append, List.length_singleton]
          rw [← range_map_shift 1 names.length])
      (by rw [p6, b12]; rfl)
      (by rw [p7, b13]; rfl) i hi).2
    simpa using hx
  · intro h1 h2 h3 hf
    obtain ⟨k, rfl⟩ : ∃ k, fuel = k + 1 := ⟨fuel - 1, by omega⟩
    refine (body_after_parlist statement (k + 1) ls ls5 ismethod line b1).1 _ ?_
    unfold parlist
    rw [doFs_cons ls5 g _ _ b2]
    simp only [h3, ne_eq, not_false_eq_true, if_true]
    have := hloopErr k 0 { ls5 with fs := { g with f := { g.f with is_vararg := false } } ::
      { fs with np := fs.np + 1 } :: prev } h1 h2
    rw [this]

/-- Witness of C23: the method parameters `(a, b, ...)`: three parameters
`self`, `a`, `b` in the slots 0, 1, 2 and the vararg flag set; and `(a, ..., b)`
is rejected with "')' expected". -/
theorem parlist_parameters_witness :
    (∃ (lsT : LexState) (g1 : FuncState) (D : Dyndata),
      parlist 4 sampleAtParams =
        Except.ok { lsT with fs := g1 :: sampleAtParams.fs.tail, dyd := D } ∧
      g1.f.numparams = 3 ∧ g1.nactvar = 3 ∧ g1.f.is_vararg = true ∧
      (∃ lv, getlocvar D g1 0 = some lv ∧ lv.varname = "self") ∧
      (∃ lv, getlocvar D g1 1 = some lv ∧ lv.varname = "a") ∧
      (∃ lv, getlocvar D g1 2 = some lv ∧ lv.varname = "b")) ∧
    body (parsers 3).1 4 (chunkStart paramDotsMidToks) false 1 =
      Except.error (ParseError.expected (Tok.chr ')')) := by
  obtain ⟨ls5, g, b1, b2, _, _, _, b6, _, _, _⟩ :=
    parlist_parameters (parsers 3).1 4 (chunkStart paramToks) _ [] true 1 rfl (by decide)
      (by decide)
  have h5 : ls5 = sampleAtParams := by
    have : Except.ok ls5 = (Except.ok sampleAtParams : Except ParseError LexState) :=
      b1.symm.trans (by decide!)
    exact Except.ok.inj this
  subst h5
  obtain ⟨g1, p1, p2, p3, p4, p5⟩ := b6 ["a", "b"] true
    (luaX_next (luaX_next (luaX_next (luaX_next (luaX_next sampleAtParams)))))
    (Or.inl (Params.more _ _ _ _ (by decide!) (by decide!)
      (Params.more _ _ _ _ (by decide!) (by decide!) (Params.dots _ (by decide!)))))
    (by decide) (by decide)
  refine ⟨⟨luaX_next (luaX_next (luaX_next (luaX_next (luaX_next sampleAtParams)))), g1,
    (withLocals sampleAtParams ["a", "b"]).dyd, ?_, p2, p3, p4, ?_, ?_, ?_⟩, ?_⟩
  · rw [p1, b2]; rfl
  · exact p5 0 (by decide)
  · exact p5 1 (by decide)
  · exact p5 2 (by decide)
  · obtain ⟨ls5, g, c1, _, _, _, _, c6, _, _, c9⟩ :=
      parlist_parameters (parsers 3).1 4 (chunkStart paramDotsMidToks) _ [] false 1 rfl
        (by decide) (by decide)
    have h5 : ls5 = sampleAtParamsMid := by
      have : Except.ok ls5 = (Except.ok sampleAtParamsMid : Except ParseError LexState) :=
        c1.symm.trans (by decide!)
      exact Except.ok.inj this
    subst h5
    obtain ⟨g1, q1, _⟩ := c6 ["a"] true
      (luaX_next (luaX_next (luaX_next sampleAtParamsMid)))
      (Or.inl (Params.more _ _ _ _ (by decide!) (by decide!) (Params.dots _ (by decide!))))
      (by decide) (by decide)
    exact c9 _ q1 (by
      show (luaX_next (luaX_next (luaX_next sampleAtParamsMid))).t.token ≠ Tok.chr ')'
      decide!)

/-! ## Theorems: the return statement -/

/-- C24: `return`.  When the next token ends the block or is `;`, `retstat`
emits the return of no value (`luaK_ret(fs, 0, 0)`).  Otherwise, after the
expression list of `nret` expressions with last descriptor `e`, it emits the
return last; before it the call instruction of `e` is rewritten to a tail
call exactly when `e` is a call and `nret = 1`, and nothing else is
rewritten; a multi-result `e` (call or vararg) is set to all results and the
return gets the open count `LUA_MULTRET` from the first free register of the
locals; otherwise the return has `nret` values.  And `statlist` parses a
statement that starts with `return` as its last one. -/
theorem retstat_return (expr : ExprParser) (statement : StmtParser) (fuel : Nat)
    (ls : LexState) :
    ((block_follow ls true = true ∨ ls.t.token = Tok.chr ';') →
      ∀ fs prev, ls.fs = fs :: prev →
        retstat expr fuel ls = Except.ok (testnext { ls with
          fs := { fs with pc := fs.pc + 1, kcalls := fs.kcalls ++ [KCall.ret 0 0] } :: prev }
          (Tok.chr ';')).2) ∧
    (¬ (block_follow ls true = true ∨ ls.t.token = Tok.chr ';') →
      ∀ nret e ls1 fs1 prev1, explist expr ls fuel = Except.ok ((nret, e), ls1) →
        ls1.fs = fs1 :: prev1 →
        ∃ (fs2 : FuncState) (calls : List KCall) (first nr : Int),
          retstat expr fuel ls =
            Except.ok (testnext { ls1 with fs := fs2 :: prev1 } (Tok.chr ';')).2 ∧
          fs2.kcalls = fs1.kcalls ++ calls ++ [KCall.ret first nr] ∧
          (KCall.setopcode e.info OpCode.OP_TAILCALL ∈ calls ↔
            (e.k = expkind.VCALL ∧ nret = 1)) ∧
          (∀ pc op, KCall.setopcode pc op ∈ calls →
            pc = e.info ∧ op = OpCode.OP_TAILCALL) ∧
          (hasmultret e.k = true → KCall.setreturns e LUA_MULTRET ∈ calls ∧
            first = fs1.nactvar ∧ nr = LUA_MULTRET) ∧
          (hasmultret e.k = false → nr = nret)) ∧
    (ls.t.token = Tok.TK_RETURN → statlist statement (fuel + 1) ls = statement ls) := by
  refine ⟨?_, ?_, ?_⟩
  · intro h fs prev hfs
    unfold retstat
    simp only [h, if_true]
    rw [doFs_cons ls fs prev _ hfs]
    rfl
  · intro h nret e ls1 fs1 prev1 hex h1
    by_cases hm : hasmultret e.k = true
    · by_cases ht : e.k = expkind.VCALL ∧ nret = 1
      · refine ⟨luaK_ret ((luaK_setmultret fs1 e).emit
            (KCall.setopcode e.info OpCode.OP_TAILCALL)) (fs1.nactvar : Int) LUA_MULTRET,
          [KCall.setreturns e LUA_MULTRET, KCall.setopcode e.info OpCode.OP_TAILCALL],
          (fs1.nactvar : Int), LUA_MULTRET, ?_, ?_, ?_, ?_, ?_, ?_⟩
        · unfold retstat
          simp only [h, if_false, hex, hm, if_true, onFs_cons ls1 fs1 prev1 _ h1]
          simp [ht, LexState.doFs, luaK_setmultret, luaK_setreturns, FuncState.emit]
        · simp [luaK_ret, FuncState.code, FuncState.emit, luaK_setmultret, luaK_setreturns]
        · simp [ht]
        · intro pc op hmem
          simpa using hmem
        · intro _
          exact ⟨by simp, by simp [luaK_setmultret, luaK_setreturns, FuncState.emit], rfl⟩
        · intro hf; rw [hm] at hf; cases hf
      · refine ⟨luaK_ret (luaK_setmultret fs1 e) (fs1.nactvar : Int) LUA_MULTRET,
          [KCall.setreturns e LUA_MULTRET], (fs1.nactvar : Int), LUA_MULTRET,
          ?_, ?_, ?_, ?_, ?_, ?_⟩
        · unfold retstat
          simp only [h, if_false, hex, hm, if_true, onFs_cons ls1 fs1 prev1 _ h1]
          simp [ht, LexState.doFs, luaK_setmultret, luaK_setreturns, FuncState.emit]
        · simp [luaK_ret, FuncState.code, FuncState.emit, luaK_setmultret, luaK_setreturns]
        · simp [ht]
        · intro pc op hmem
          simp at hmem
        · intro _
          exact ⟨by simp, by simp [luaK_setmultret, luaK_setreturns, FuncState.emit], rfl⟩
        · intro hf; rw [hm] at hf; cases hf
    · have hm2 : hasmultret e.k = false := by simpa using hm
      have hk : ¬ e.k = expkind.VCALL := by
        intro hc; rw [hc] at hm2; exact absurd hm2 (by decide)
      by_cases hn : nret = 1
      · refine ⟨luaK_ret (luaK_exp2anyreg fs1 e).2 (luaK_exp2anyreg fs1 e).1.info (nret : Int),
          [KCall.exp2anyreg e], (luaK_exp2anyreg fs1 e).1.info, (nret : Int),
          ?_, ?_, ?_, ?_, ?_, ?_⟩
        · unfold retstat
          simp only [h, if_false, hex, hm2, Bool.false_eq_true, hn, if_true,
            onFs_cons ls1 fs1 prev1 _ h1]
          simp [LexState.doFs]
        · unfold luaK_exp2anyreg
          split <;> simp [luaK_ret, FuncState.code, FuncState.emit]
        · simp [hk]
        · intro pc op hmem
          simp at hmem
        · intro hf; rw [hm2] at hf; cases hf
        · intro _; rfl
      · refine ⟨luaK_ret (luaK_exp2nextreg fs1 e).2 ((luaK_exp2nextreg fs1 e).2.nactvar : Int)
            (nret : Int),
          [KCall.exp2nextreg e], ((luaK_exp2nextreg fs1 e).2.nactvar : Int), (nret : Int),
          ?_, ?_, ?_, ?_, ?_, ?_⟩
        · unfold retstat
          simp only [h, if_false, hex, hm2, Bool.false_eq_true, hn,
            onFs_cons ls1 fs1 prev1 _ h1]
          simp [LexState.doFs]
        · simp [luaK_ret, FuncState.code, FuncState.emit, luaK_exp2nextreg]
        · simp [hk]
        · intro pc op hmem
          simp at hmem
        · intro hf; rw [hm2] at hf; cases hf
        · intro _; rfl
  · intro h
    rw [statlist]
    have hb : block_follow ls true = false := by
      unfold block_follow; rw [h]
    simp [hb, h]

/-- Witness of C24: `return f()` is made a tail call, `return 1, f()` is not,
and a bare `return` before `end` returns no value. -/
theorem retstat_return_witness :
    (∃ (fs2 : FuncState) (calls : List KCall) (e : expdesc) (ls1 : LexState)
        (pre : List KCall) (first nr : Int),
      retstat (parsers 3).2 4 (chunkStart retCallToks) =
        Except.ok (testnext { ls1 with fs := [fs2] } (Tok.chr ';')).2 ∧
      fs2.kcalls = pre ++ calls ++ [KCall.ret first nr] ∧
      KCall.setopcode e.info OpCode.OP_TAILCALL ∈ calls) ∧
    (∃ (fs2 : FuncState) (calls : List KCall) (e : expdesc) (ls1 : LexState)
        (pre : List KCall) (first nr : Int),
      retstat (parsers 3).2 4 (chunkStart retTwoToks) =
        Except.ok (testnext { ls1 with fs := [fs2] } (Tok.chr ';')).2 ∧
      fs2.kcalls = pre ++ calls ++ [KCall.ret first nr] ∧
      KCall.setopcode e.info OpCode.OP_TAILCALL ∉ calls ∧
      KCall.setreturns e LUA_MULTRET ∈ calls) ∧
    (∃ fs, (chunkStart [tk Tok.TK_END]).fs = [fs] ∧
      retstat (parsers 3).2 4 (chunkStart [tk Tok.TK_END]) =
        Except.ok (testnext { chunkStart [tk Tok.TK_END] with
          fs := [{ fs with pc := fs.pc + 1, kcalls := fs.kcalls ++ [KCall.ret 0 0] }] }
          (Tok.chr ';')).2) := by
  refine ⟨?_, ?_, ?_⟩
  · obtain ⟨fs2, calls, first, nr, q1, q2, q3, _⟩ :=
      (retstat_return (parsers 3).2 (parsers 3).1 4 (chunkStart retCallToks)).2.1 (by decide)
        1 _ _ _ [] rfl rfl
    exact ⟨fs2, calls, _, _, _, first, nr, q1, q2, q3.mpr ⟨rfl, rfl⟩⟩
  · obtain ⟨fs2, calls, first, nr, q1, q2, q3, _, q5, _⟩ :=
      (retstat_return (parsers 3).2 (parsers 3).1 4 (chunkStart retTwoToks)).2.1 (by decide)
        2 _ _ _ [] rfl rfl
    exact ⟨fs2, calls, _, _, _, first, nr, q1, q2,
      fun hmem => absurd (q3.mp hmem).2 (by decide), (q5 rfl).1⟩
  · exact ⟨_, rfl, (retstat_return (parsers 3).2 (parsers 3).1 4
      (chunkStart [tk Tok.TK_END])).1 (Or.inl rfl) _ [] rfl⟩

/-! ## Theorems: the gotos a label resolves -/

/-- Counterexample to C25 as stated: in `goto L do ::L:: end` the goto was
issued in the enclosing block before the block of the label was entered; the
label does not resolve it and the chunk fails with the undefined-label
error. -/
theorem goto_of_enclosing_block_unresolved :
    parseChunk 5 gotoIntoBlockToks = Except.error (ParseError.noVisibleLabel "L" 1) := by
  decide!

/-- C25: a label resolves the gotos of its own block.  When the label `L` is
declared in the block `bl` (no label of this name in the block, no no-op
statement after it, no pending goto of the block that the label would bring
into the scope of a local), every pending goto named `L` at an index from
`bl.firstgoto` on is patched to the position of the label and removed from
the pending list; the other entries from `bl.firstgoto` on stay, and the
entries below `bl.firstgoto`, the gotos of the enclosing blocks, stay
pending, whatever their names. -/
theorem label_resolves_block_gotos (R : StatRules) (fuel : Nat) (ls : LexState)
    (fs : FuncState) (prev : List FuncState) (bl : BlockCnt) (previous : List BlockCnt)
    (L : TString) (line : Int) (lvl : Nat)
    (hfs : ls.fs = fs :: prev) (hbl : fs.bl = bl :: previous)
    (htok : ls.t.token = Tok.TK_DBCOLON)
    (hnoop : ¬ ((luaX_next ls).t.token = Tok.chr ';' ∨ (luaX_next ls).t.token = Tok.TK_DBCOLON))
    (hrep : ∀ lb ∈ ls.dyd.label.drop bl.firstlabel, lb.name ≠ L)
    (hlim : (ls.dyd.label.length : Int) < SHRT_MAX)
    (hfg : bl.firstgoto ≤ ls.dyd.gt.length)
    (hlvl : lvl = if block_follow (luaX_next ls) false then bl.nactvar else fs.nactvar)
    (hall : ∀ x ∈ ls.dyd.gt.drop bl.firstgoto, x.name = L → lvl ≤ x.nactvar) :
    ∃ (ls1 : LexState) (fs1 : FuncState),
      labelstat R (fuel + 2) ls L line = Except.ok ls1 ∧ ls1.fs = fs1 :: prev ∧
      (∀ x ∈ ls.dyd.gt.drop bl.firstgoto, x.name = L →
        KCall.patchlist x.pc fs.pc ∈ fs1.kcalls.drop fs.kcalls.length) ∧
      (∀ x ∈ ls1.dyd.gt.drop bl.firstgoto, x.name ≠ L) ∧
      ls1.dyd.gt.drop bl.firstgoto =
        (ls.dyd.gt.drop bl.firstgoto).filter (fun x => !eqstr x.name L) ∧
      ls1.dyd.gt.take bl.firstgoto = ls.dyd.gt.take bl.firstgoto := by
  obtain ⟨ls1, h1, h2, h3, _⟩ := labelstat_forward R fuel ls fs prev bl previous L line lvl
    hfs hbl htok hnoop hrep hlim hfg hlvl hall
  have hlen : (ls.dyd.gt.take bl.firstgoto).length = bl.firstgoto := by
    rw [List.length_take]; omega
  have hdrop : ls1.dyd.gt.drop bl.firstgoto =
      gotosNotNamed L (ls.dyd.gt.drop bl.firstgoto) := by
    rw [h3]
    have := List.drop_left (ls.dyd.gt.take bl.firstgoto)
      (gotosNotNamed L (ls.dyd.gt.drop bl.firstgoto))
    rwa [hlen] at this
  refine ⟨ls1, _, h1, h2, ?_, ?_, ?_, ?_⟩
  · intro x hx hn
    simp only [List.drop_left, List.append_assoc]
    refine List.mem_cons_of_mem _ ?_
    unfold patchCalls gotosNamed
    exact List.mem_map.mpr ⟨x, List.mem_filter.mpr ⟨hx, by simp [eqstr, hn]⟩, rfl⟩
  · intro x hx hn
    rw [hdrop] at hx
    unfold gotosNotNamed at hx
    have := (List.mem_filter.mp hx).2
    simp [eqstr, hn] at this
  · rw [hdrop]; rfl
  · rw [h3]
    have := List.take_left (ls.dyd.gt.take bl.firstgoto)
      (gotosNotNamed L (ls.dyd.gt.drop bl.firstgoto))
    rwa [hlen] at this

/-- Witness of C25: at `::L::` with the pending gotos `[goto L, goto L]`, the
first one issued in the enclosing block, the second one in the block of the
label: the second is patched and removed, the first stays pending. -/
theorem label_resolves_block_gotos_witness :
    ∃ (ls1 : LexState) (fs1 : FuncState),
      labelstat localStatRules 2 sampleAtLabelTwoGotos "L" 1 = Except.ok ls1 ∧
      ls1.fs = [fs1] ∧ KCall.patchlist 1 2 ∈ fs1.kcalls.drop 2 ∧
      ls1.dyd.gt.drop 1 = [] ∧ ls1.dyd.gt.take 1 = [samplePendingGoto] := by
  obtain ⟨ls1, fs1, h1, h2, h3, _, h5, h6⟩ :=
    label_resolves_block_gotos localStatRules 0 sampleAtLabelTwoGotos _ [] _ _ "L" 1 0
      rfl rfl rfl (by decide) (by decide) (by decide) (by decide) (by decide) (by decide)
  exact ⟨ls1, fs1, h1, h2,
    h3 { name := "L", pc := 1, line := 1, nactvar := 0 } (by decide) rfl, h5, h6⟩

/-! ## Theorems: leaving a block -/

theorem set_append_length {α : Type} (pre : List α) (x y : α) (suf : List α) :
    (pre ++ x :: suf).set pre.length y = pre ++ y :: suf := by
  induction pre with
  | nil => rfl
  | cons a pre ih => simp [ih]

theorem findlabel_none (ls : LexState) (fs : FuncState) (prev : List FuncState)
    (parent : BlockCnt) (rest : List BlockCnt) (i : Nat) (g : Labeldesc)
    (hfs : ls.fs = fs :: prev) (hbl : fs.bl = parent :: rest)
    (hg : ls.dyd.gt.get? i = some g) (hl : parentLabel parent ls.dyd.label g = none) :
    findlabel ls i = Except.ok (false, ls) := by
  unfold findlabel
  unfold parentLabel at hl
  rw [hfs, hg]
  simp only [hbl, hl]

theorem findlabel_some (ls : LexState) (fs : FuncState) (prev : List FuncState)
    (parent : BlockCnt) (rest : List BlockCnt) (i : Nat) (g lb : Labeldesc)
    (hfs : ls.fs = fs :: prev) (hbl : fs.bl = parent :: rest)
    (hg : ls.dyd.gt.get? i = some g) (hl : parentLabel parent ls.dyd.label g = some lb)
    (hle : lb.nactvar ≤ g.nactvar) :
    findlabel ls i = Except.ok (true, { ls with
      fs := { fs with kcalls := fs.kcalls ++
        ((if g.nactvar > lb.nactvar ∧
            (parent.upval = true ∨ ls.dyd.label.length > parent.firstlabel)
          then [KCall.patchclose g.pc lb.nactvar] else []) ++
          [KCall.patchlist g.pc lb.pc]) } :: prev,
      dyd := { ls.dyd with gt := ls.dyd.gt.eraseIdx i } }) := by
  cases fs with
  | mk f bl0 pc lasttarget jpc k np firstlocal nactvar freereg kcalls =>
    simp only [] at hbl
    subst hbl
    unfold findlabel
    unfold parentLabel at hl
    rw [hfs, hg]
    simp only [hl]
    by_cases hc : g.nactvar > lb.nactvar ∧
        (parent.upval = true ∨ ls.dyd.label.length > parent.firstlabel)
    · rw [if_pos hc, if_pos hc]
      rw [closegoto_ok { ls with fs := luaK_patchclose _ g.pc lb.nactvar :: prev } _ prev i g lb
        rfl hg hle]
      simp [luaK_patchlist, luaK_patchclose, FuncState.emit]
    · rw [if_neg hc, if_neg hc]
      rw [closegoto_ok { ls with fs := _ :: prev } _ prev i g lb rfl hg hle]
      simp [luaK_patchlist, FuncState.emit]

theorem rehomed_name (bl : BlockCnt) (g : Labeldesc) : (rehomed bl g).name = g.name := by
  unfold rehomed
  split <;> rfl

theorem rehomed_pc (bl : BlockCnt) (g : Labeldesc) : (rehomed bl g).pc = g.pc := by
  unfold rehomed
  split <;> rfl

theorem rehomed_nactvar_le (bl : BlockCnt) (g : Labeldesc) :
    (rehomed bl g).nactvar ≤ bl.nactvar := by
  unfold rehomed
  split
  · exact Nat.le_refl _
  · omega

theorem parentLabel_rehomed (bl parent : BlockCnt) (labels : List Labeldesc) (g : Labeldesc) :
    parentLabel parent labels (rehomed bl g) = parentLabel parent labels g := by
  unfold parentLabel
  rw [rehomed_name]

theorem findlabel_bad (ls : LexState) (fs : FuncState) (prev : List FuncState)
    (parent : BlockCnt) (rest : List BlockCnt) (i : Nat) (g lb : Labeldesc)
    (hfs : ls.fs = fs :: prev) (hbl : fs.bl = parent :: rest)
    (hg : ls.dyd.gt.get? i = some g) (hl : parentLabel parent ls.dyd.label g = some lb)
    (hlt : g.nactvar < lb.nactvar) :
    ∃ e, findlabel ls i = Except.error e ∧
      ∀ n l v, e = ParseError.jumpsIntoScope n l v → n = g.name := by
  have hc : ¬ (g.nactvar > lb.nactvar ∧
      (parent.upval = true ∨ ls.dyd.label.length > parent.firstlabel)) :=
    fun h => by have := h.1; omega
  unfold findlabel
  unfold parentLabel at hl
  rw [hfs, hg]
  simp only [hbl, hl, if_neg hc]
  unfold closegoto
  simp only [hg, hlt, if_true]
  cases getlocvar ls.dyd fs g.nactvar with
  | none => exact ⟨_, rfl, fun n l v h => by cases h⟩
  | some lv => exact ⟨_, rfl, fun n l v h => by cases h; rfl⟩

theorem movegotosout_loop_inv (bl parent : BlockCnt) (rest : List BlockCnt) :
    ∀ (suf pre : List Labeldesc) (fuel : Nat) (ls : LexState) (fs : FuncState)
      (prev : List FuncState),
      suf.length ≤ fuel → ls.fs = fs :: prev → fs.bl = parent :: rest →
      ls.dyd.gt = pre ++ suf →
      (∀ ls1, movegotosout_loop bl fuel pre.length ls = Except.ok ls1 →
        ls1 = { ls with
          fs := { fs with
            kcalls := fs.kcalls ++ suf.flatMap (moveCalls bl parent ls.dyd.label) } :: prev,
          dyd := { ls.dyd with gt := pre ++ movedOut bl parent ls.dyd.label suf } }) ∧
      (∀ n l v, movegotosout_loop bl fuel pre.length ls =
          Except.error (ParseError.jumpsIntoScope n l v) → ∃ g ∈ suf, g.name = n) := by
  intro suf
  induction suf with
  | nil =>
    intro pre fuel ls fs prev _ hfs _ hgt
    have hget : ls.dyd.gt.get? pre.length = none := by
      rw [hgt]; simp
    have hls : ls = { ls with
        fs := { fs with
          kcalls := fs.kcalls ++ ([] : List Labeldesc).flatMap (moveCalls bl parent ls.dyd.label) } ::
            prev,
        dyd := { ls.dyd with gt := pre ++ movedOut bl parent ls.dyd.label [] } } := by
      cases ls with
      | mk t input linenumber fs0 dyd nCcalls envn =>
        cases dyd with
        | mk actvar gt label =>
          simp at hfs hgt
          simp [hfs, hgt, movedOut]
    have hrun : movegotosout_loop bl fuel pre.length ls = Except.ok ls := by
      cases fuel with
      | zero => rw [movegotosout_loop, hget]
      | succ f => rw [movegotosout_loop, hget]; simp only []
    rw [hrun]
    refine ⟨fun ls1 h => ?_, fun n l v h => by cases h⟩
    cases h
    exact hls
  | cons x suf ih =>
    intro pre fuel ls fs prev hfuel hfs hbl hgt
    cases fuel with
    | zero => simp at hfuel
    | succ f =>
      have hget : ls.dyd.gt.get? pre.length = some x := by
        rw [hgt]; exact get?_append_length pre x suf
      have hset : ∀ y, ls.dyd.gt.set pre.length y = pre ++ y :: suf := by
        intro y; rw [hgt]; exact set_append_length pre x y suf
      have herase : ∀ y, (pre ++ y :: suf).eraseIdx pre.length = pre ++ suf :=
        fun y => eraseIdx_append_length pre y suf
      rw [movegotosout_loop, hfs, hget]
      simp only []
      have hU : (if x.nactvar > bl.nactvar then
            ({ ls with
              fs := (if bl.upval then luaK_patchclose fs x.pc bl.nactvar else fs) :: prev,
              dyd := { ls.dyd with
                gt := ls.dyd.gt.set pre.length { x with nactvar := bl.nactvar } } } : LexState)
          else ls) =
          { ls with
            fs := { fs with kcalls := fs.kcalls ++ closeCall bl x } :: prev,
            dyd := { ls.dyd with gt := pre ++ rehomed bl x :: suf } } := by
        cases ls with
        | mk t input linenumber fs0 dyd nCcalls envn =>
          cases dyd with
          | mk actvar gt label =>
            simp only [] at hfs hgt hset
            subst hfs
            by_cases hx : x.nactvar > bl.nactvar
            · by_cases hu : bl.upval = true
              · simp [hx, hu, hset, rehomed, closeCall, luaK_patchclose, FuncState.emit]
              · simp [hx, hu, hset, rehomed, closeCall]
            · simp [hx, hgt, rehomed, closeCall]
      rw [hU]
      have hgetU : (pre ++ rehomed bl x :: suf).get? pre.length = some (rehomed bl x) :=
        get?_append_length _ _ _
      cases hpl : parentLabel parent ls.dyd.label x with
      | none =>
        have hfl := findlabel_none
          { ls with
            fs := { fs with kcalls := fs.kcalls ++ closeCall bl x } :: prev,
            dyd := { ls.dyd with gt := pre ++ rehomed bl x :: suf } }
          { fs with kcalls := fs.kcalls ++ closeCall bl x } prev parent rest pre.length
          (rehomed bl x) rfl hbl hgetU (by rw [parentLabel_rehomed]; exact hpl)
        rw [hfl]
        simp only []
        have ih1 := ih (pre ++ [rehomed bl x]) f
          { ls with
            fs := { fs with kcalls := fs.kcalls ++ closeCall bl x } :: prev,
            dyd := { ls.dyd with gt := pre ++ rehomed bl x :: suf } }
          { fs with kcalls := fs.kcalls ++ closeCall bl x } prev
          (by simpa using hfuel) rfl hbl (by simp)
        rw [List.length_append, List.length_singleton] at ih1
        refine ⟨fun ls1 h => ?_, fun n l v h => ?_⟩
        · rw [ih1.1 ls1 h]
          simp [moveCalls, movedOut, hpl]
        · obtain ⟨g, hg, hn⟩ := ih1.2 n l v h
          exact ⟨g, List.mem_cons_of_mem _ hg, hn⟩
      | some lb =>
        by_cases hle : lb.nactvar ≤ (rehomed bl x).nactvar
        · have hfl := findlabel_some
            { ls with
              fs := { fs with kcalls := fs.kcalls ++ closeCall bl x } :: prev,
              dyd := { ls.dyd with gt := pre ++ rehomed bl x :: suf } }
            { fs with kcalls := fs.kcalls ++ closeCall bl x } prev parent rest pre.length
            (rehomed bl x) lb rfl hbl hgetU (by rw [parentLabel_rehomed]; exact hpl) hle
          rw [hfl]
          simp only [herase]
          have ih1 := ih pre f
            { ls with
              fs := { fs with kcalls := fs.kcalls ++ closeCall bl x ++
                ((if (rehomed bl x).nactvar > lb.nactvar ∧
                    (parent.upval = true ∨ ls.dyd.label.length > parent.firstlabel)
                  then [KCall.patchclose (rehomed bl x).pc lb.nactvar] else []) ++
                  [KCall.patchlist (rehomed bl x).pc lb.pc]) } :: prev,
              dyd := { ls.dyd with gt := pre ++ suf } }
            { fs with kcalls := fs.kcalls ++ closeCall bl x ++
                ((if (rehomed bl x).nactvar > lb.nactvar ∧
                    (parent.upval = true ∨ ls.dyd.label.length > parent.firstlabel)
                  then [KCall.patchclose (rehomed bl x).pc lb.nactvar] else []) ++
                  [KCall.patchlist (rehomed bl x).pc lb.pc]) } prev
            (by simp at hfuel; omega) rfl hbl rfl
          refine ⟨fun ls1 h => ?_, fun n l v h => ?_⟩
          · rw [ih1.1 ls1 h]
            simp [moveCalls, movedOut, hpl, rehomed_pc]
          · obtain ⟨g, hg, hn⟩ := ih1.2 n l v h
            exact ⟨g, List.mem_cons_of_mem _ hg, hn⟩
        · obtain ⟨e, he, hen⟩ := findlabel_bad
            { ls with
              fs := { fs with kcalls := fs.kcalls ++ closeCall bl x } :: prev,
              dyd := { ls.dyd with gt := pre ++ rehomed bl x :: suf } }
            { fs with kcalls := fs.kcalls ++ closeCall bl x } prev parent rest pre.length
            (rehomed bl x) lb rfl hbl hgetU (by rw [parentLabel_rehomed]; exact hpl)
            (by omega)
          rw [he]
          refine ⟨fun ls1 h => (by cases h), fun n l v h => ?_⟩
          simp only [Except.error.injEq] at h
          exact ⟨x, List.mem_cons_self _ _, ((hen n l v h).trans (rehomed_name bl x)).symm⟩

theorem findgotos_loop_inv (lb : Labeldesc) :
    ∀ (suf pre : List Labeldesc) (fuel : Nat) (ls ls1 : LexState) (fs : FuncState)
      (prev : List FuncState),
      suf.length ≤ fuel → ls.fs = fs :: prev → ls.dyd.gt = pre ++ suf →
      findgotos_loop lb fuel pre.length ls = Except.ok ls1 →
      ls1 = { ls with
        fs := { fs with
          kcalls := fs.kcalls ++ patchCalls lb.pc (gotosNamed lb.name suf) } :: prev,
        dyd := { ls.dyd with gt := pre ++ gotosNotNamed lb.name suf } } := by
  intro suf
  induction suf with
  | nil =>
    intro pre fuel ls ls1 fs prev _ hfs hgt h
    have hget : ls.dyd.gt.get? pre.length = none := by
      rw [hgt]; simp
    have hls : ls = { ls with
        fs := { fs with
          kcalls := fs.kcalls ++ patchCalls lb.pc (gotosNamed lb.name []) } :: prev,
        dyd := { ls.dyd with gt := pre ++ gotosNotNamed lb.name [] } } := by
      cases ls with
      | mk t input linenumber fs0 dyd nCcalls envn =>
        cases dyd with
        | mk actvar gt label =>
          simp at hfs hgt
          simp [hfs, hgt, patchCalls, gotosNamed, gotosNotNamed]
    have hrun : findgotos_loop lb fuel pre.length ls = Except.ok ls := by
      cases fuel with
      | zero => rw [findgotos_loop, hget]
      | succ f => rw [findgotos_loop, hget]
    rw [hrun] at h
    cases h
    exact hls
  | cons x suf ih =>
    intro pre fuel ls ls1 fs prev hfuel hfs hgt h
    cases fuel with
    | zero => simp at hfuel
    | succ f =>
      have hget : ls.dyd.gt.get? pre.length = some x := by
        rw [hgt]; exact get?_append_length pre x suf
      rw [findgotos_loop, hget] at h
      simp only [] at h
      by_cases hm : eqstr x.name lb.name = true
      · simp only [hm, if_true] at h
        cases hc : closegoto ls pre.length lb with
        | error e => rw [hc] at h; cases h
        | ok ls2 =>
          rw [hc] at h
          simp only [] at h
          obtain ⟨fs0, prev0, gt0, hfs0, hg0, hls2⟩ := closegoto_inv ls ls2 pre.length lb hc
          rw [hfs] at hfs0
          rw [hget] at hg0
          cases hfs0
          cases hg0
          subst hls2
          have herase : ls.dyd.gt.eraseIdx pre.length = pre ++ suf := by
            rw [hgt]; exact eraseIdx_append_length pre x suf
          rw [ih pre f _ ls1 (luaK_patchlist fs x.pc lb.pc) prev (by simp at hfuel; omega) rfl
            (by simpa using herase) h]
          simp [luaK_patchlist, FuncState.emit, hm, patchCalls, gotosNamed, gotosNotNamed]
      · have hm2 : eqstr x.name lb.name = false := by simpa using hm
        simp only [hm2, Bool.false_eq_true, if_false] at h
        have hgt2 : ls.dyd.gt = (pre ++ [x]) ++ suf := by rw [hgt]; simp
        have h2 : findgotos_loop lb f (pre ++ [x]).length ls = Except.ok ls1 := by
          rw [List.length_append, List.length_singleton]; exact h
        rw [ih (pre ++ [x]) f ls ls1 fs prev (by simp at hfuel; omega) hfs hgt2 h2]
        simp [hm2, patchCalls, gotosNamed, gotosNotNamed]

theorem findgotos_inv (ls ls1 : LexState) (lb : Labeldesc) (fs : FuncState)
    (prev : List FuncState) (bl : BlockCnt) (previous : List BlockCnt)
    (hfs : ls.fs = fs :: prev) (hbl : fs.bl = bl :: previous)
    (h : findgotos ls lb = Except.ok ls1) :
    ls1 = { ls with
      fs := { fs with
        kcalls := fs.kcalls ++
          patchCalls lb.pc (gotosNamed lb.name (ls.dyd.gt.drop bl.firstgoto)) } :: prev,
      dyd := { ls.dyd with
        gt := ls.dyd.gt.take bl.firstgoto ++
          gotosNotNamed lb.name (ls.dyd.gt.drop bl.firstgoto) } } := by
  unfold findgotos at h
  rw [hfs] at h
  simp only [hbl] at h
  by_cases hfg : bl.firstgoto ≤ ls.dyd.gt.length
  · have hlen : (ls.dyd.gt.take bl.firstgoto).length = bl.firstgoto := by
      simp [List.length_take]; omega
    rw [← hlen] at h
    have := findgotos_loop_inv lb (ls.dyd.gt.drop bl.firstgoto) (ls.dyd.gt.take bl.firstgoto)
      (ls.dyd.gt.length - bl.firstgoto) ls ls1 fs prev (by simp) hfs (by simp)
      (by rw [hlen] at h ⊢; exact h)
    exact this
  · have hz : ls.dyd.gt.length - bl.firstgoto = 0 := by omega
    have hget : ls.dyd.gt.get? bl.firstgoto = none := by
      rw [List.get?_eq_none]; omega
    rw [hz, findgotos_loop, hget] at h
    cases h
    have hd : ls.dyd.gt.drop bl.firstgoto = [] := List.drop_eq_nil_of_le (by omega)
    have ht : ls.dyd.gt.take bl.firstgoto = ls.dyd.gt := List.take_of_length_le (by omega)
    cases ls with
    | mk t input linenumber fs0 dyd nCcalls envn =>
      cases dyd with
      | mk actvar gt label =>
        simp only [] at hfs hd ht
        subst hfs
        simp [hd, ht, patchCalls, gotosNamed, gotosNotNamed]

theorem breaklabel_inv (ls ls1 : LexState) (fs : FuncState)
    (prev : List FuncState) (bl : BlockCnt) (previous : List BlockCnt)
    (hfs : ls.fs = fs :: prev) (hbl : fs.bl = bl :: previous)
    (h : breaklabel ls = Except.ok ls1) :
    ls1 = { ls with
      fs := { fs with
        kcalls := fs.kcalls ++
          patchCalls fs.pc (gotosNamed "break" (ls.dyd.gt.drop bl.firstgoto)) } :: prev,
      dyd := { ls.dyd with
        gt := ls.dyd.gt.take bl.firstgoto ++
          gotosNotNamed "break" (ls.dyd.gt.drop bl.firstgoto),
        label := ls.dyd.label ++
          [{ name := "break", line := 0, nactvar := fs.nactvar, pc := fs.pc }] } } := by
  unfold breaklabel at h
  rw [hfs] at h
  simp only [] at h
  unfold newlabelentry at h
  rw [hfs] at h
  simp only [] at h
  split at h
  · cases h
  · rename_i e1 lab hq
    split at hq
    · cases hq
    · simp only [Except.ok.injEq, Prod.mk.injEq] at hq
      obtain ⟨_, hq2⟩ := hq
      subst hq2
      have := findgotos_inv _ ls1 _ fs prev bl previous rfl hbl h
      rw [this]

theorem get?_set_of_get? {α : Type} (l : List α) (i j : Nat) (a b : α)
    (h : l.get? i = some b) :
    (l.set i a).get? j = if j = i then some a else l.get? j := by
  have hi : i < l.length := by
    rw [List.get?_eq_getElem?] at h
    exact (List.getElem?_eq_some_iff.mp h).1
  simp only [List.get?_eq_getElem?, List.getElem?_set]
  by_cases hji : j = i
  · subst hji
    simp [hi]
  · have : ¬ i = j := fun e => hji e.symm
    simp [hji, this]

theorem removevars_loop_inv (dyd : Dyndata) (tolevel : Nat) :
    ∀ (n : Nat) (fs fs1 : FuncState),
      removevars_loop dyd tolevel n fs = some fs1 →
      ∃ L : List LocVar, fs1 = { fs with f := { fs.f with locvars := L } } ∧
        (∀ i, tolevel ≤ i → i < tolevel + n →
          ∃ vd lv, dyd.actvar.get? (fs.firstlocal + i) = some vd ∧
            fs.f.locvars.get? vd.idx = some lv ∧
            L.get? vd.idx = some { lv with endpc := fs.pc }) ∧
        (∀ k, (∀ i vd, tolevel ≤ i → i < tolevel + n →
            dyd.actvar.get? (fs.firstlocal + i) = some vd → vd.idx ≠ k) →
          L.get? k = fs.f.locvars.get? k) := by
  intro n
  induction n with
  | zero =>
    intro fs fs1 h
    rw [removevars_loop] at h
    cases h
    exact ⟨fs.f.locvars, rfl, fun i h1 h2 => by omega, fun k _ => rfl⟩
  | succ m ih =>
    intro fs fs1 h
    rw [removevars_loop] at h
    cases hvd : dyd.actvar.get? (fs.firstlocal + (tolevel + m)) with
    | none => rw [hvd] at h; cases h
    | some vd0 =>
      rw [hvd] at h
      simp only [] at h
      cases hlv : fs.f.locvars.get? vd0.idx with
      | none => rw [hlv] at h; cases h
      | some lv0 =>
        rw [hlv] at h
        simp only [] at h
        obtain ⟨L, hfs1, ha, hb⟩ := ih _ fs1 h
        simp only [] at ha hb
        have hmid := fun j => get?_set_of_get? fs.f.locvars vd0.idx j
          { lv0 with endpc := fs.pc } lv0 hlv
        refine ⟨L, ?_, ?_, ?_⟩
        · rw [hfs1]
        · intro i h1 h2
          by_cases hi : i < tolevel + m
          · obtain ⟨vd, lv, e1, e2, e3⟩ := ha i h1 hi
            rw [hmid] at e2
            by_cases hk : vd.idx = vd0.idx
            · rw [if_pos hk] at e2
              cases e2
              exact ⟨vd, lv0, e1, by rw [hk]; exact hlv, e3⟩
            · rw [if_neg hk] at e2
              exact ⟨vd, lv, e1, e2, e3⟩
          · have hi2 : i = tolevel + m := by omega
            subst hi2
            refine ⟨vd0, lv0, hvd, hlv, ?_⟩
            by_cases hex : ∃ i vd, tolevel ≤ i ∧ i < tolevel + m ∧
                dyd.actvar.get? (fs.firstlocal + i) = some vd ∧ vd.idx = vd0.idx
            · obtain ⟨i, vd, g1, g2, g3, g4⟩ := hex
              obtain ⟨vd2, lv, e1, e2, e3⟩ := ha i g1 g2
              rw [g3] at e1
              cases e1
              rw [hmid, if_pos g4] at e2
              cases e2
              rw [g4] at e3
              exact e3
            · rw [hb vd0.idx (fun i vd g1 g2 g3 g4 => hex ⟨i, vd, g1, g2, g3, g4⟩), hmid,
                if_pos rfl]
        · intro k hk
          rw [hb k (fun i vd g1 g2 g3 => hk i vd g1 (by omega) g3), hmid]
          have : ¬ k = vd0.idx := fun e => hk (tolevel + m) vd0 (by omega) (by omega) hvd e.symm
          rw [if_neg this]

theorem removevars_inv (ls ls1 : LexState) (fs : FuncState) (prev : List FuncState)
    (tolevel : Nat) (hfs : ls.fs = fs :: prev)
    (h : removevars ls tolevel = Except.ok ls1) :
    tolevel ≤ fs.nactvar ∧ fs.nactvar - tolevel ≤ ls.dyd.actvar.length ∧
    ∃ L : List LocVar,
      ls1 = { ls with
        fs := { fs with f := { fs.f with locvars := L }, nactvar := tolevel } :: prev,
        dyd := { ls.dyd with
          actvar := ls.dyd.actvar.take (ls.dyd.actvar.length - (fs.nactvar - tolevel)) } } ∧
      (∀ i, tolevel ≤ i → i < fs.nactvar →
        ∃ vd lv, ls.dyd.actvar.get? (fs.firstlocal + i) = some vd ∧
          fs.f.locvars.get? vd.idx = some lv ∧
          L.get? vd.idx = some { lv with endpc := fs.pc }) ∧
      (∀ k, (∀ i vd, tolevel ≤ i → i < fs.nactvar →
          ls.dyd.actvar.get? (fs.firstlocal + i) = some vd → vd.idx ≠ k) →
        L.get? k = fs.f.locvars.get? k) := by
  unfold removevars at h
  rw [hfs] at h
  simp only [] at h
  split at h
  · cases h
  · rename_i hc
    have h1 : tolevel ≤ fs.nactvar := by omega
    have h2 : fs.nactvar - tolevel ≤ ls.dyd.actvar.length := by omega
    cases hr : removevars_loop ls.dyd tolevel (fs.nactvar - tolevel) fs with
    | none => rw [hr] at h; cases h
    | some fs1 =>
      rw [hr] at h
      simp only [Except.ok.injEq] at h
      obtain ⟨L, hfs1, ha, hb⟩ := removevars_loop_inv ls.dyd tolevel _ fs fs1 hr
      refine ⟨h1, h2, L, ?_, ?_, ?_⟩
      · rw [← h, hfs1]
      · intro i g1 g2
        exact ha i g1 (by omega)
      · intro k hk
        exact hb k (fun i vd g1 g2 g3 => hk i vd g1 (by omega) g3)

theorem movegotosout_inv (ls : LexState) (fs : FuncState) (prev : List FuncState)
    (bl parent : BlockCnt) (rest : List BlockCnt)
    (hfs : ls.fs = fs :: prev) (hbl : fs.bl = parent :: rest) :
    (∀ ls1, movegotosout ls bl = Except.ok ls1 →
      ls1 = { ls with
        fs := { fs with
          kcalls := fs.kcalls ++
            (ls.dyd.gt.drop bl.firstgoto).flatMap (moveCalls bl parent ls.dyd.label) } :: prev,
        dyd := { ls.dyd with
          gt := ls.dyd.gt.take bl.firstgoto ++
            movedOut bl parent ls.dyd.label (ls.dyd.gt.drop bl.firstgoto) } }) ∧
    (∀ n l v, movegotosout ls bl = Except.error (ParseError.jumpsIntoScope n l v) →
      ∃ g ∈ ls.dyd.gt.drop bl.firstgoto, g.name = n) := by
  unfold movegotosout
  by_cases hfg : bl.firstgoto ≤ ls.dyd.gt.length
  · have hlen : (ls.dyd.gt.take bl.firstgoto).length = bl.firstgoto := by
      simp [List.length_take]; omega
    have := movegotosout_loop_inv bl parent rest (ls.dyd.gt.drop bl.firstgoto)
      (ls.dyd.gt.take bl.firstgoto) (ls.dyd.gt.length - bl.firstgoto) ls fs prev (by simp)
      hfs hbl (by simp)
    rw [hlen] at this
    exact this
  · have hz : ls.dyd.gt.length - bl.firstgoto = 0 := by omega
    have hget : ls.dyd.gt.get? bl.firstgoto = none := by
      rw [List.get?_eq_none]; omega
    rw [hz, movegotosout_loop, hget]
    simp only []
    have hd : ls.dyd.gt.drop bl.firstgoto = [] := List.drop_eq_nil_of_le (by omega)
    have ht : ls.dyd.gt.take bl.firstgoto = ls.dyd.gt := List.take_of_length_le (by omega)
    refine ⟨fun ls1 h => ?_, fun n l v h => (by cases h)⟩
    cases h
    cases ls with
    | mk t input linenumber fs0 dyd nCcalls envn =>
      cases dyd with
      | mk actvar gt label =>
        simp only [] at hfs hd ht
        subst hfs
        simp [hd, ht, movedOut]

theorem afterBreaks_drop (bl : BlockCnt) (gt : List Labeldesc) :
    (gt.take bl.firstgoto ++ afterBreaks bl gt).drop bl.firstgoto = afterBreaks bl gt ∧
    (gt.take bl.firstgoto ++ afterBreaks bl gt).take bl.firstgoto = gt.take bl.firstgoto := by
  by_cases hfg : bl.firstgoto ≤ gt.length
  · have hlen : (gt.take bl.firstgoto).length = bl.firstgoto := by
      simp [List.length_take]; omega
    constructor
    · have := List.drop_left (gt.take bl.firstgoto) (afterBreaks bl gt)
      rw [hlen] at this
      exact this
    · have := List.take_left (gt.take bl.firstgoto) (afterBreaks bl gt)
      rw [hlen] at this
      exact this
  · have hd : gt.drop bl.firstgoto = [] := List.drop_eq_nil_of_le (by omega)
    have hab : afterBreaks bl gt = [] := by
      unfold afterBreaks
      rw [hd]
      simp [gotosNotNamed]
    rw [hab, List.append_nil]
    exact ⟨by simp [hd], by simp⟩

theorem leaveblock_inv (ls ls1 : LexState) (fs : FuncState) (prev : List FuncState)
    (bl : BlockCnt) (previous : List BlockCnt)
    (hfs : ls.fs = fs :: prev) (hbl : fs.bl = bl :: previous)
    (h : leaveblock ls = Except.ok ls1) :
    bl.nactvar ≤ fs.nactvar ∧ fs.nactvar - bl.nactvar ≤ ls.dyd.actvar.length ∧
    (previous = [] → afterBreaks bl ls.dyd.gt = []) ∧
    ∃ L : List LocVar,
      ls1 = { ls with
        fs := { fs with
          f := { fs.f with locvars := L }, bl := previous, pc := exitPc fs bl previous,
          nactvar := bl.nactvar, freereg := bl.nactvar,
          kcalls := fs.kcalls ++ closeJump fs bl previous ++
            breakCalls bl (exitPc fs bl previous) ls.dyd.gt ++
            leaveCalls bl previous
              (labelsLeft bl fs.nactvar (exitPc fs bl previous) ls.dyd.label)
              (afterBreaks bl ls.dyd.gt) } :: prev,
        dyd := {
          actvar := ls.dyd.actvar.take (ls.dyd.actvar.length - (fs.nactvar - bl.nactvar)),
          gt := ls.dyd.gt.take bl.firstgoto ++
            leaveGotos bl previous
              (labelsLeft bl fs.nactvar (exitPc fs bl previous) ls.dyd.label)
              (afterBreaks bl ls.dyd.gt),
          label := labelsLeft bl fs.nactvar (exitPc fs bl previous) ls.dyd.label } } ∧
      (∀ i, bl.nactvar ≤ i → i < fs.nactvar →
        ∃ vd lv, ls.dyd.actvar.get? (fs.firstlocal + i) = some vd ∧
          fs.f.locvars.get? vd.idx = some lv ∧
          L.get? vd.idx = some { lv with endpc := exitPc fs bl previous }) ∧
      (∀ k, (∀ i vd, bl.nactvar ≤ i → i < fs.nactvar →
          ls.dyd.actvar.get? (fs.firstlocal + i) = some vd → vd.idx ≠ k) →
        L.get? k = fs.f.locvars.get? k) := by
  unfold leaveblock at h
  rw [hfs] at h
  simp only [hbl] at h
  have hj : (if previous ≠ [] ∧ bl.upval = true then
        luaK_patchtohere (luaK_patchclose (luaK_jump fs).2 (luaK_jump fs).1 bl.nactvar)
          (luaK_jump fs).1
      else fs) =
      { fs with pc := exitPc fs bl previous,
                kcalls := fs.kcalls ++ closeJump fs bl previous } := by
    by_cases hc : previous ≠ [] ∧ bl.upval = true
    · simp [hc, exitPc, closeJump, luaK_jump, luaK_patchtohere, luaK_patchclose, FuncState.emit]
    · simp [hc, exitPc, closeJump]
  rw [hj] at h
  generalize hbr : (if bl.isloop = true then breaklabel _ else Except.ok _) = r at h
  cases r with
  | error e => cases h
  | ok ls2 =>
    have hls2 : ls2 = { ls with
        fs := { fs with
          pc := exitPc fs bl previous,
          kcalls := fs.kcalls ++ closeJump fs bl previous ++
            breakCalls bl (exitPc fs bl previous) ls.dyd.gt } :: prev,
        dyd := { ls.dyd with
          gt := ls.dyd.gt.take bl.firstgoto ++ afterBreaks bl ls.dyd.gt,
          label := if bl.isloop then ls.dyd.label ++
            [{ name := "break", line := 0, nactvar := fs.nactvar,
               pc := exitPc fs bl previous }] else ls.dyd.label } } := by
      by_cases hl : bl.isloop = true
      · rw [if_pos hl] at hbr
        rw [breaklabel_inv _ ls2
          { fs with pc := exitPc fs bl previous,
                    kcalls := fs.kcalls ++ closeJump fs bl previous }
          prev bl previous rfl hbl hbr]
        simp [hl, breakCalls, afterBreaks]
      · rw [if_neg hl] at hbr
        cases hbr
        simp [hl, breakCalls, afterBreaks]
    subst hls2
    simp only [] at h
    generalize hrv : removevars _ bl.nactvar = r at h
    cases r with
    | error e => cases h
    | ok ls3 =>
      obtain ⟨h1, h2, L, hls3, ha, hb⟩ := removevars_inv _ ls3
        { fs with
          bl := previous, pc := exitPc fs bl previous,
          kcalls := fs.kcalls ++ closeJump fs bl previous ++
            breakCalls bl (exitPc fs bl previous) ls.dyd.gt }
        prev bl.nactvar rfl hrv
      subst hls3
      simp only [] at h h1 h2 ha hb
      have hab : ¬ bl.firstgoto ≤ ls.dyd.gt.length → afterBreaks bl ls.dyd.gt = [] := by
        intro hn
        have hd : ls.dyd.gt.drop bl.firstgoto = [] := List.drop_eq_nil_of_le (by omega)
        unfold afterBreaks
        rw [hd]
        simp [gotosNotNamed]
      cases previous with
      | nil =>
        simp only [ne_eq, not_true_eq_false, if_false] at h
        cases hget : (ls.dyd.gt.take bl.firstgoto ++ afterBreaks bl ls.dyd.gt).get? bl.firstgoto with
        | some g => rw [hget] at h; cases h
        | none =>
          rw [hget] at h
          simp only [Except.ok.injEq] at h
          have hnil : afterBreaks bl ls.dyd.gt = [] := by
            by_cases hfg : bl.firstgoto ≤ ls.dyd.gt.length
            · rw [List.get?_eq_none] at hget
              have hlen : (ls.dyd.gt.take bl.firstgoto).length = bl.firstgoto := by
                simp [List.length_take]; omega
              rw [List.length_append, hlen] at hget
              exact List.eq_nil_of_length_eq_zero (by omega)
            · exact hab hfg
          refine ⟨h1, h2, fun _ => hnil, L, ?_, ha, hb⟩
          rw [← h]
          simp [leaveCalls, leaveGotos, labelsLeft]
      | cons parent rest =>
        simp only [ne_eq, not_false_eq_true, if_true, reduceCtorEq] at h
        refine ⟨h1, h2, (fun hc => (by cases hc)), L, ?_, ha, hb⟩
        rw [(movegotosout_inv _ _ prev bl parent rest rfl rfl).1 ls1 h]
        simp only [(afterBreaks_drop bl ls.dyd.gt).1, (afterBreaks_drop bl ls.dyd.gt).2]
        simp [leaveCalls, leaveGotos, labelsLeft]

theorem findgotos_total (ls : LexState) (lb : Labeldesc) (fs : FuncState)
    (prev : List FuncState) (bl : BlockCnt) (previous : List BlockCnt)
    (hfs : ls.fs = fs :: prev) (hbl : fs.bl = bl :: previous)
    (hall : ∀ x ∈ ls.dyd.gt.drop bl.firstgoto, eqstr x.name lb.name = true →
      lb.nactvar ≤ x.nactvar) :
    ∃ ls1, findgotos ls lb = Except.ok ls1 := by
  by_cases hfg : bl.firstgoto ≤ ls.dyd.gt.length
  · exact ⟨_, findgotos_ok ls lb fs prev bl previous hfs hbl hfg hall⟩
  · have hz : ls.dyd.gt.length - bl.firstgoto = 0 := by omega
    have hget : ls.dyd.gt.get? bl.firstgoto = none := by
      rw [List.get?_eq_none]; omega
    refine ⟨ls, ?_⟩
    unfold findgotos
    rw [hfs]
    simp only [hbl]
    rw [hz, findgotos_loop, hget]

theorem breaklabel_total (ls : LexState) (fs : FuncState)
    (prev : List FuncState) (bl : BlockCnt) (previous : List BlockCnt)
    (hfs : ls.fs = fs :: prev) (hbl : fs.bl = bl :: previous)
    (hall : ∀ x ∈ ls.dyd.gt.drop bl.firstgoto, x.name = "break" → fs.nactvar ≤ x.nactvar) :
    (∃ ls1, breaklabel ls = Except.ok ls1) ∨
      breaklabel ls = Except.error (ParseError.tooMany "labels/gotos" SHRT_MAX) := by
  unfold breaklabel
  rw [hfs]
  simp only []
  unfold newlabelentry
  rw [hfs]
  simp only []
  by_cases hlim : (ls.dyd.label.length : Int) ≥ SHRT_MAX
  · right
    simp [hlim]
  · left
    simp only [hlim, if_false]
    exact findgotos_total _ _ fs prev bl previous rfl hbl
      (fun x hx hn => hall x hx (by simpa [eqstr] using hn))

theorem removevars_err (ls : LexState) (tolevel : Nat) (e : ParseError)
    (h : removevars ls tolevel = Except.error e) : e = ParseError.undefinedBehaviour := by
  unfold removevars at h
  cases hfs : ls.fs with
  | nil => rw [hfs] at h; simp only [Except.error.injEq] at h; exact h.symm
  | cons fs prev =>
    rw [hfs] at h
    simp only [] at h
    split at h
    · simp only [Except.error.injEq] at h; exact h.symm
    · cases hr : removevars_loop ls.dyd tolevel (fs.nactvar - tolevel) fs with
      | none => rw [hr] at h; simp only [Except.error.injEq] at h; exact h.symm
      | some fs1 => rw [hr] at h; cases h

theorem undefgoto_ne (g : Labeldesc) (n : TString) (l : Int) (v : TString) :
    undefgoto g ≠ ParseError.jumpsIntoScope n l v := by
  unfold undefgoto
  split <;> exact fun h => (by cases h)

theorem leaveblock_break_err (ls : LexState) (fs : FuncState) (prev : List FuncState)
    (bl : BlockCnt) (previous : List BlockCnt)
    (hfs : ls.fs = fs :: prev) (hbl : fs.bl = bl :: previous) (hloop : bl.isloop = true)
    (hbrk : ∀ g ∈ ls.dyd.gt.drop bl.firstgoto, g.name = "break" → fs.nactvar ≤ g.nactvar)
    (l : Int) (v : TString) :
    leaveblock ls ≠ Except.error (ParseError.jumpsIntoScope "break" l v) := by
  intro h
  unfold leaveblock at h
  rw [hfs] at h
  simp only [hbl, hloop, if_true] at h
  have hj : (if previous ≠ [] ∧ bl.upval = true then
        luaK_patchtohere (luaK_patchclose (luaK_jump fs).2 (luaK_jump fs).1 bl.nactvar)
          (luaK_jump fs).1
      else fs) =
      { fs with pc := exitPc fs bl previous,
                kcalls := fs.kcalls ++ closeJump fs bl previous } := by
    by_cases hc : previous ≠ [] ∧ bl.upval = true
    · simp [hc, exitPc, closeJump, luaK_jump, luaK_patchtohere, luaK_patchclose, FuncState.emit]
    · simp [hc, exitPc, closeJump]
  rw [hj] at h
  generalize hbr : breaklabel _ = r at h
  cases r with
  | error e =>
    rcases breaklabel_total
      { ls with fs := { fs with pc := exitPc fs bl previous,
                                kcalls := fs.kcalls ++ closeJump fs bl previous } :: prev }
      { fs with pc := exitPc fs bl previous,
                kcalls := fs.kcalls ++ closeJump fs bl previous }
      prev bl previous rfl hbl hbrk with ⟨ls1, h1⟩ | h1
    · rw [hbr] at h1; cases h1
    · rw [hbr] at h1
      simp only [Except.error.injEq] at h h1
      rw [h] at h1
      cases h1
  | ok ls2 =>
    have hls2 := breaklabel_inv _ ls2
      { fs with pc := exitPc fs bl previous,
                kcalls := fs.kcalls ++ closeJump fs bl previous }
      prev bl previous rfl hbl hbr
    subst hls2
    simp only [] at h
    generalize hrv : removevars _ bl.nactvar = r at h
    cases r with
    | error e =>
      have := removevars_err _ _ e hrv
      simp only [Except.error.injEq] at h
      rw [h] at this
      cases this
    | ok ls3 =>
      obtain ⟨h1, h2, L, hls3, ha, hb⟩ := removevars_inv _ ls3
        { fs with
          bl := previous, pc := exitPc fs bl previous,
          kcalls := fs.kcalls ++ closeJump fs bl previous ++
            patchCalls (exitPc fs bl previous)
              (gotosNamed "break" (ls.dyd.gt.drop bl.firstgoto)) }
        prev bl.nactvar rfl hrv
      subst hls3
      simp only [] at h
      cases previous with
      | nil =>
        simp only [ne_eq, not_true_eq_false, if_false] at h
        split at h
        · simp only [Except.error.injEq] at h
          exact undefgoto_ne _ _ _ _ h
        · cases h
      | cons parent rest =>
        simp only [ne_eq, not_false_eq_true, if_true, reduceCtorEq] at h
        obtain ⟨g, hg, hn⟩ := (movegotosout_inv _ _ prev bl parent rest rfl rfl).2 "break" l v h
        simp only [] at hg
        have hab : afterBreaks bl ls.dyd.gt = gotosNotNamed "break" (ls.dyd.gt.drop bl.firstgoto) := by
          simp [afterBreaks, hloop]
        rw [← hab, (afterBreaks_drop bl ls.dyd.gt).1, hab] at hg
        unfold gotosNotNamed at hg
        rw [List.mem_filter] at hg
        simp [eqstr, hn] at hg

theorem labelsLeft_of_le (bl : BlockCnt) (n : Nat) (pc : Int) (label : List Labeldesc)
    (hfl : bl.firstlabel ≤ label.length) :
    labelsLeft bl n pc label = label.take bl.firstlabel := by
  unfold labelsLeft
  split
  · exact List.take_append_of_le_length hfl
  · rfl

theorem exitPc_closeJump (fs : FuncState) (bl : BlockCnt) (previous : List BlockCnt) :
    (previous ≠ [] ∧ bl.upval = true →
      closeJump fs bl previous =
        [KCall.jump fs.pc, KCall.patchclose fs.pc bl.nactvar, KCall.patchtohere fs.pc] ∧
      exitPc fs bl previous = fs.pc + 1) ∧
    (¬ (previous ≠ [] ∧ bl.upval = true) →
      closeJump fs bl previous = [] ∧ exitPc fs bl previous = fs.pc) := by
  unfold closeJump exitPc
  exact ⟨fun h => by simp [h], fun h => by simp [h]⟩

theorem movedOut_mem (bl parent : BlockCnt) (labels pend : List Labeldesc) (g : Labeldesc)
    (h : g ∈ movedOut bl parent labels pend) :
    ∃ g0 ∈ pend, g = rehomed bl g0 ∧ parentLabel parent labels g0 = none := by
  unfold movedOut at h
  rw [List.mem_filterMap] at h
  obtain ⟨g0, h0, h1⟩ := h
  refine ⟨g0, h0, ?_⟩
  cases hp : parentLabel parent labels g0 with
  | none => rw [hp] at h1; simp only [Option.some.injEq] at h1; exact ⟨h1.symm, rfl⟩
  | some lb => rw [hp] at h1; cases h1

theorem afterBreaks_mem (bl : BlockCnt) (gt : List Labeldesc) (g : Labeldesc)
    (h : g ∈ afterBreaks bl gt) :
    g ∈ gt.drop bl.firstgoto ∧ (bl.isloop = true → g.name ≠ "break") := by
  unfold afterBreaks at h
  by_cases hl : bl.isloop = true
  · rw [if_pos hl] at h
    unfold gotosNotNamed at h
    rw [List.mem_filter] at h
    refine ⟨h.1, fun _ => ?_⟩
    have := h.2
    simpa [eqstr] using this
  · rw [if_neg hl] at h
    exact ⟨h, fun h2 => absurd h2 hl⟩

theorem leaveGotos_mem (bl : BlockCnt) (previous : List BlockCnt) (labels pend : List Labeldesc)
    (g : Labeldesc) (h : g ∈ leaveGotos bl previous labels pend) :
    ∃ g0 ∈ pend, g.name = g0.name := by
  cases previous with
  | nil => exact ⟨g, h, rfl⟩
  | cons parent rest =>
    obtain ⟨g0, h0, h1, _⟩ := movedOut_mem bl parent labels pend g h
    exact ⟨g0, h0, by rw [h1, rehomed_name]⟩

theorem take_append_drop_at {α : Type} (l x : List α) (n : Nat) (h : ¬ n ≤ l.length → x = []) :
    (l.take n ++ x).drop n = x ∧ (l.take n ++ x).take n = l.take n := by
  by_cases hn : n ≤ l.length
  · have hlen : (l.take n).length = n := by
      simp [List.length_take]; omega
    constructor
    · have := List.drop_left (l.take n) x
      rw [hlen] at this
      exact this
    · have := List.take_left (l.take n) x
      rw [hlen] at this
      exact this
  · rw [h hn, List.append_nil]
    have hd : l.drop n = [] := List.drop_eq_nil_of_le (by omega)
    exact ⟨by simp [hd], by simp⟩

theorem afterBreaks_nil (bl : BlockCnt) (gt : List Labeldesc)
    (h : ¬ bl.firstgoto ≤ gt.length) : afterBreaks bl gt = [] := by
  have hd : gt.drop bl.firstgoto = [] := List.drop_eq_nil_of_le (by omega)
  unfold afterBreaks
  rw [hd]
  simp [gotosNotNamed]

theorem leaveGotos_nil (bl : BlockCnt) (previous : List BlockCnt) (labels : List Labeldesc) :
    leaveGotos bl previous labels [] = [] := by
  cases previous <;> rfl

/-- C27: the state after `leaveblock` returns normally for the block `bl`
(with `bl.firstlabel` within the label list).  The current block is
`bl.previous`; `nactvar` is `bl.nactvar`, the count at block entry; `freereg`
equals `nactvar`; the label list is cut to `bl.firstlabel` entries; the
active-variable list has lost its last `fs.nactvar - bl.nactvar` entries, the
locals activated inside the block; the debug record of each of those locals is
the record before with `endpc` set to the program counter at block exit; every
debug record that belongs to none of them is unchanged, so that a local
activated before the block, whose record is not shared with a local of the
block, keeps its recorded range when the active-variable list holds all active
locals of the function. -/
theorem leaveblock_frame (ls ls1 : LexState) (fs : FuncState) (prev : List FuncState)
    (bl : BlockCnt) (previous : List BlockCnt)
    (hfs : ls.fs = fs :: prev) (hbl : fs.bl = bl :: previous)
    (hfl : bl.firstlabel ≤ ls.dyd.label.length)
    (h : leaveblock ls = Except.ok ls1) :
    ∃ fs1, ls1.fs = fs1 :: prev ∧ fs1.bl = previous ∧ fs1.nactvar = bl.nactvar ∧
      fs1.freereg = fs1.nactvar ∧
      ls1.dyd.label = ls.dyd.label.take bl.firstlabel ∧
      bl.nactvar ≤ fs.nactvar ∧
      ls1.dyd.actvar =
        ls.dyd.actvar.take (ls.dyd.actvar.length - (fs.nactvar - bl.nactvar)) ∧
      ls1.dyd.actvar.length + (fs.nactvar - bl.nactvar) = ls.dyd.actvar.length ∧
      (∀ i, bl.nactvar ≤ i → i < fs.nactvar →
        ∃ vd lv, ls.dyd.actvar.get? (fs.firstlocal + i) = some vd ∧
          fs.f.locvars.get? vd.idx = some lv ∧
          fs1.f.locvars.get? vd.idx = some { lv with endpc := fs1.pc }) ∧
      (∀ k, (∀ i vd, bl.nactvar ≤ i → i < fs.nactvar →
          ls.dyd.actvar.get? (fs.firstlocal + i) = some vd → vd.idx ≠ k) →
        fs1.f.locvars.get? k = fs.f.locvars.get? k) ∧
      (fs.firstlocal + fs.nactvar ≤ ls.dyd.actvar.length →
        ∀ j vd, j < bl.nactvar → ls.dyd.actvar.get? (fs.firstlocal + j) = some vd →
          (∀ i vd1, bl.nactvar ≤ i → i < fs.nactvar →
            ls.dyd.actvar.get? (fs.firstlocal + i) = some vd1 → vd1.idx ≠ vd.idx) →
          getlocvar ls1.dyd fs1 j = getlocvar ls.dyd fs j) := by
  obtain ⟨h1, h2, _, L, hls1, ha, hb⟩ := leaveblock_inv ls ls1 fs prev bl previous hfs hbl h
  subst hls1
  refine ⟨_, rfl, rfl, rfl, rfl, labelsLeft_of_le bl _ _ _ hfl, h1, rfl, ?_, ha, hb, ?_⟩
  · simp only [List.length_take]
    omega
  · intro hwf j vd hj hvd hdis
    have hlt : fs.firstlocal + j <
        ls.dyd.actvar.length - (fs.nactvar - bl.nactvar) := by omega
    unfold getlocvar
    simp only []
    rw [List.get?_eq_getElem?, List.getElem?_take_of_lt hlt, ← List.get?_eq_getElem?, hvd]
    simp only []
    exact hb vd.idx hdis

/-- Witness for C27: in `sampleLoopExit` the loop block holds the local `y`;
after the block is left `y` ends at the exit point 10 and `x` is as before. -/
theorem leaveblock_frame_witness :
    leaveblock sampleLoopExit = Except.ok sampleLoopLeft ∧
    ∃ fs1, sampleLoopLeft.fs = [fs1] ∧ fs1.bl = [sampleBlock] ∧ fs1.nactvar = 1 ∧
      fs1.freereg = fs1.nactvar ∧
      sampleLoopLeft.dyd.label = sampleLoopExit.dyd.label.take 1 ∧
      fs1.f.locvars.get? 1 = some { varname := "y", startpc := 3, endpc := fs1.pc } ∧
      fs1.f.locvars.get? 0 = some { varname := "x" } :=
  have h := leaveblock_frame sampleLoopExit sampleLoopLeft _ [] _ [sampleBlock] rfl rfl
    (by decide) (by decide)
  ⟨by decide,
    match h with
    | ⟨fs1, e1, e2, e3, e4, e5, _, _, _, _, _, _⟩ =>
      ⟨fs1, e1, e2, e3, e4, e5,
        (by cases e1; decide), (by cases e1; decide)⟩⟩

theorem moveCalls_no_jump (bl parent : BlockCnt) (labels : List Labeldesc) (g : Labeldesc)
    (c : KCall) (h : c ∈ moveCalls bl parent labels g) (p : Int) : c ≠ KCall.jump p := by
  intro hc
  subst hc
  unfold moveCalls closeCall at h
  rw [List.mem_append] at h
  rcases h with h | h
  · split at h <;> simp at h
  · split at h
    · simp at h
    · rw [List.mem_append] at h
      rcases h with h | h
      · split at h <;> simp at h
      · simp at h

theorem leave_calls_no_jump (bl : BlockCnt) (previous : List BlockCnt) (pc : Int)
    (gt labels pend : List Labeldesc) (c : KCall)
    (h : c ∈ breakCalls bl pc gt ++ leaveCalls bl previous labels pend) (p : Int) :
    c ≠ KCall.jump p := by
  rw [List.mem_append] at h
  rcases h with h | h
  · intro hc
    subst hc
    unfold breakCalls at h
    split at h
    · simp [patchCalls] at h
    · simp at h
  · cases previous with
    | nil => simp [leaveCalls] at h
    | cons parent rest =>
      simp only [leaveCalls, List.mem_flatMap] at h
      obtain ⟨g, _, hg⟩ := h
      exact moveCalls_no_jump bl parent labels g c hg p

/-- Counterexample to C28 as stated: after the statements of the chunk
`local x function f() return x end` the only block of the main function, its
outermost block, has its upvalue flag set (the nested function captures `x`);
`leaveblock` returns and records no call at all, so no close jump is emitted
for this block, and the whole chunk parses with no jump recorded for the main
function. -/
theorem outermost_block_upvalue_no_jump :
    sampleOuterUpval.fs.map FuncState.bl = [[{ sampleBlock with upval := true }]] ∧
    (leaveblock sampleOuterUpval).map (fun s => s.fs.map FuncState.kcalls) =
      Except.ok (sampleOuterUpval.fs.map FuncState.kcalls) ∧
    (leaveblock sampleOuterUpval).map (fun s => s.fs.map FuncState.pc) =
      Except.ok (sampleOuterUpval.fs.map FuncState.pc) ∧
    (parseChunk 6 upvalOuterToks).map
      (fun r => r.1.kcalls.filter (fun c => match c with | KCall.jump _ => true | _ => false)) =
      Except.ok [] := by
  refine ⟨?_, ?_, ?_, ?_⟩
  · decide!
  · decide!
  · decide!
  · decide!

/-- C28, amended: the close jump of `leaveblock`.  When `leaveblock` returns
for the block `bl`, the calls recorded for the function are those before,
then, exactly when `bl` is an inner block (`bl.previous` is not null) whose
upvalue flag is set, the calls `luaK_jump` (the jump is the instruction at the
old program counter), `luaK_patchclose` of that jump with level `bl.nactvar`
and `luaK_patchtohere` of that jump, the program counter advancing by one to
the exit point; then calls none of which is `luaK_jump`.  For a block whose
flag is clear, and for the outermost block of a function, no jump is emitted
and the program counter is unchanged. -/
theorem leaveblock_close_jump (ls ls1 : LexState) (fs : FuncState) (prev : List FuncState)
    (bl : BlockCnt) (previous : List BlockCnt)
    (hfs : ls.fs = fs :: prev) (hbl : fs.bl = bl :: previous)
    (h : leaveblock ls = Except.ok ls1) :
    ∃ fs1 calls, ls1.fs = fs1 :: prev ∧ (∀ c ∈ calls, ∀ p, c ≠ KCall.jump p) ∧
      (previous ≠ [] ∧ bl.upval = true →
        fs1.kcalls = fs.kcalls ++
          [KCall.jump fs.pc, KCall.patchclose fs.pc bl.nactvar, KCall.patchtohere fs.pc] ++
          calls ∧
        fs1.pc = fs.pc + 1) ∧
      (¬ (previous ≠ [] ∧ bl.upval = true) →
        fs1.kcalls = fs.kcalls ++ calls ∧ fs1.pc = fs.pc) := by
  obtain ⟨_, _, _, L, hls1, _, _⟩ := leaveblock_inv ls ls1 fs prev bl previous hfs hbl h
  subst hls1
  refine ⟨_, breakCalls bl (exitPc fs bl previous) ls.dyd.gt ++
    leaveCalls bl previous (labelsLeft bl fs.nactvar (exitPc fs bl previous) ls.dyd.label)
      (afterBreaks bl ls.dyd.gt), rfl,
    fun c hc p => leave_calls_no_jump _ _ _ _ _ _ c hc p, fun hc => ?_, fun hc => ?_⟩
  · obtain ⟨e1, e2⟩ := (exitPc_closeJump fs bl previous).1 hc
    simp only []
    rw [← e1]
    exact ⟨by simp only [List.append_assoc], e2⟩
  · obtain ⟨e1, e2⟩ := (exitPc_closeJump fs bl previous).2 hc
    simp only []
    rw [e1]
    exact ⟨by simp only [List.append_assoc, List.append_nil], e2⟩

/-- Witness for C28: the loop block of `sampleLoopExit` is an inner block with
the upvalue flag set; the close jump is instruction 9, closes from level 1 and
is patched to the exit point 10. -/
theorem leaveblock_close_jump_witness :
    leaveblock sampleLoopExit = Except.ok sampleLoopLeft ∧
    ∃ fs1 calls, sampleLoopLeft.fs = [fs1] ∧ (∀ c ∈ calls, ∀ p, c ≠ KCall.jump p) ∧
      fs1.kcalls =
        [KCall.jump 9, KCall.patchclose 9 1, KCall.patchtohere 9] ++ calls ∧
      fs1.pc = 10 :=
  have h := leaveblock_close_jump sampleLoopExit sampleLoopLeft _ [] _ [sampleBlock] rfl rfl
    (by decide)
  ⟨by decide,
    match h with
    | ⟨fs1, calls, e1, e2, e3, _⟩ =>
      ⟨fs1, calls, e1, e2, (e3 ⟨by decide, rfl⟩).1, (e3 ⟨by decide, rfl⟩).2⟩⟩

theorem moveCalls_close_iff (bl parent : BlockCnt) (labels : List Labeldesc) (g : Labeldesc) :
    KCall.patchclose g.pc bl.nactvar ∈ moveCalls bl parent labels g ↔
      g.nactvar > bl.nactvar ∧ bl.upval = true := by
  constructor
  · intro h
    unfold moveCalls at h
    rw [List.mem_append] at h
    rcases h with h | h
    · unfold closeCall at h
      split at h
      · assumption
      · simp at h
    · split at h
      · simp at h
      · rename_i lb _
        rw [List.mem_append] at h
        rcases h with h | h
        · split at h
          · rename_i hc
            simp only [List.mem_singleton, KCall.patchclose.injEq, true_and] at h
            have := rehomed_nactvar_le bl g
            omega
          · simp at h
        · simp at h
  · intro h
    unfold moveCalls closeCall
    rw [List.mem_append]
    left
    simp [h]

theorem moveCalls_patch (bl parent : BlockCnt) (labels : List Labeldesc) (g lb : Labeldesc)
    (h : parentLabel parent labels g = some lb) :
    KCall.patchlist g.pc lb.pc ∈ moveCalls bl parent labels g := by
  unfold moveCalls
  rw [h]
  simp

/-- C29: the pending gotos after `leaveblock` returns for an inner block `bl`
with enclosing block `parent` (and `bl.firstlabel` within the label list).
Let the pending gotos of the block be the entries from `bl.firstgoto` on (for
a loop block, those that `breaklabel` has left) and let the visible labels be
the label list cut to `bl.firstlabel` entries.  (1) The entries below
`bl.firstgoto` are unchanged.  (2) The entries from `bl.firstgoto` on are the
pending gotos of the block without a label of that name among the labels of
`parent`, in order, each with its level lowered to `bl.nactvar` when it was
higher; so each has a level of at most `bl.nactvar` and no matching label in
`parent`.  (3) The calls recorded for the function are those before, the
close jump, the calls of `breaklabel`, then for every pending goto of the block
in order its calls `moveCalls`: among them `luaK_patchclose` of the goto with
level `bl.nactvar` exactly when its level was lowered and `bl` has its upvalue
flag set, and `luaK_patchlist` of the goto to the label when a label of
`parent` matches. -/
theorem leaveblock_moves_gotos (ls ls1 : LexState) (fs : FuncState) (prev : List FuncState)
    (bl parent : BlockCnt) (rest : List BlockCnt)
    (hfs : ls.fs = fs :: prev) (hbl : fs.bl = bl :: parent :: rest)
    (hfl : bl.firstlabel ≤ ls.dyd.label.length)
    (h : leaveblock ls = Except.ok ls1) :
    ls1.dyd.gt.take bl.firstgoto = ls.dyd.gt.take bl.firstgoto ∧
    ls1.dyd.gt.drop bl.firstgoto =
      movedOut bl parent (ls.dyd.label.take bl.firstlabel) (afterBreaks bl ls.dyd.gt) ∧
    (∀ g ∈ ls1.dyd.gt.drop bl.firstgoto, g.nactvar ≤ bl.nactvar ∧
      parentLabel parent (ls.dyd.label.take bl.firstlabel) g = none) ∧
    (∃ fs1, ls1.fs = fs1 :: prev ∧
      fs1.kcalls = fs.kcalls ++ closeJump fs bl (parent :: rest) ++
        breakCalls bl fs1.pc ls.dyd.gt ++
        (afterBreaks bl ls.dyd.gt).flatMap
          (moveCalls bl parent (ls.dyd.label.take bl.firstlabel))) ∧
    (∀ g, KCall.patchclose g.pc bl.nactvar ∈
        moveCalls bl parent (ls.dyd.label.take bl.firstlabel) g ↔
      g.nactvar > bl.nactvar ∧ bl.upval = true) ∧
    (∀ g lb, parentLabel parent (ls.dyd.label.take bl.firstlabel) g = some lb →
      KCall.patchlist g.pc lb.pc ∈
        moveCalls bl parent (ls.dyd.label.take bl.firstlabel) g) := by
  obtain ⟨_, _, _, L, hls1, _, _⟩ := leaveblock_inv ls ls1 fs prev bl (parent :: rest) hfs hbl h
  subst hls1
  have hlab := labelsLeft_of_le bl fs.nactvar (exitPc fs bl (parent :: rest)) ls.dyd.label hfl
  have hsplit := take_append_drop_at ls.dyd.gt
    (movedOut bl parent (ls.dyd.label.take bl.firstlabel) (afterBreaks bl ls.dyd.gt))
    bl.firstgoto (fun hn => by rw [afterBreaks_nil bl ls.dyd.gt hn]; rfl)
  simp only [hlab, leaveGotos, leaveCalls]
  refine ⟨hsplit.2, hsplit.1, ?_, ⟨_, rfl, rfl⟩, fun g => moveCalls_close_iff _ _ _ g,
    fun g lb hg => moveCalls_patch _ _ _ g lb hg⟩
  intro g hg
  rw [hsplit.1] at hg
  obtain ⟨g0, _, e1, e2⟩ := movedOut_mem _ _ _ _ g hg
  rw [e1]
  exact ⟨rehomed_nactvar_le bl g0, by rw [parentLabel_rehomed]; exact e2⟩

/-- Witness for C29: leaving the loop block of `sampleLoopExit`, an inner
block with the upvalue flag set.  The `goto N` of the enclosing block is
unchanged; the `goto L` and the `goto M` are lowered from level 2 to level 1
and get a close at level 1; the `goto L` is patched to the label `L` of the
enclosing block and removed; the `goto M` stays pending at level 1. -/
theorem leaveblock_moves_gotos_witness :
    leaveblock sampleLoopExit = Except.ok sampleLoopLeft ∧
    sampleLoopLeft.dyd.gt.take 1 = sampleLoopExit.dyd.gt.take 1 ∧
    sampleLoopLeft.dyd.gt.drop 1 = [{ name := "M", pc := 7, line := 2, nactvar := 1 }] ∧
    (∀ g ∈ sampleLoopLeft.dyd.gt.drop 1, g.nactvar ≤ 1) :=
  have h := leaveblock_moves_gotos sampleLoopExit sampleLoopLeft _ [] _ sampleBlock [] rfl rfl
    (by decide) (by decide)
  ⟨by decide, h.1, h.2.1.trans (by decide), fun g hg => (h.2.2.1 g hg).1⟩

theorem markupval_loop_owner (level : Int) :
    ∀ bl : List BlockCnt, (∃ b ∈ bl, (b.nactvar : Int) ≤ level) →
      ∃ pre b post, bl = pre ++ b :: post ∧ (∀ c ∈ pre, (c.nactvar : Int) > level) ∧
        (b.nactvar : Int) ≤ level ∧
        markupval_loop level bl = some (pre ++ { b with upval := true } :: post) := by
  intro bl
  induction bl with
  | nil => intro h; obtain ⟨b, hb, _⟩ := h; cases hb
  | cons b0 rest ih =>
    intro h
    by_cases h0 : (b0.nactvar : Int) > level
    · have hrest : ∃ b ∈ rest, (b.nactvar : Int) ≤ level := by
        obtain ⟨b, hb, hle⟩ := h
        rcases List.mem_cons.mp hb with e | e
        · subst e; omega
        · exact ⟨b, e, hle⟩
      obtain ⟨pre, b, post, e1, e2, e3, e4⟩ := ih hrest
      refine ⟨b0 :: pre, b, post, by rw [e1]; rfl, ?_, e3, by simp [markupval_loop, h0, e4]⟩
      intro c hc
      rcases List.mem_cons.mp hc with e | e
      · subst e; exact h0
      · exact e2 c e
    · exact ⟨[], b0, rest, rfl, fun c hc => (by cases hc), by omega,
        by simp [markupval_loop, h0]⟩

/-- C30: the block marked by a reference from a nested function.  Let the
name `n` be the active local `v` of the function `fs` (`searchvar` returns
`v`), and let the block chain of `fs` hold a block entered with at most `v`
active locals.  (1) The recursive lookup (`base = 0`) returns `VLOCAL v` and
changes the chain of `fs` in one place: the chain is `pre ++ b :: post` where
every block of `pre` was entered with more than `v` active locals and `b` with
at most `v`, and after the call it is `pre ++ b' :: post` with `b'` equal to
`b` with the upvalue flag set; the function is otherwise unchanged and so are
the enclosing functions.  (2) The direct lookup (`base = 1`) returns `VLOCAL v`
and changes nothing. -/
theorem singlevaraux_marks_owner (dyd : Dyndata) (fs : FuncState) (prev : List FuncState)
    (n : TString) (v : Nat)
    (hv : searchvar dyd fs n = (v : Int))
    (hblk : ∃ b ∈ fs.bl, b.nactvar ≤ v) :
    (∃ pre b post, fs.bl = pre ++ b :: post ∧ (∀ c ∈ pre, v < c.nactvar) ∧ b.nactvar ≤ v ∧
      singlevaraux dyd (fs :: prev) n false =
        Except.ok (init_exp expkind.VLOCAL (v : Int),
          { fs with bl := pre ++ { b with upval := true } :: post } :: prev)) ∧
    singlevaraux dyd (fs :: prev) n true =
      Except.ok (init_exp expkind.VLOCAL (v : Int), fs :: prev) := by
  have hblk2 : ∃ b ∈ fs.bl, (b.nactvar : Int) ≤ (v : Int) := by
    obtain ⟨b, hb, hle⟩ := hblk
    exact ⟨b, hb, by omega⟩
  obtain ⟨pre, b, post, e1, e2, e3, e4⟩ := markupval_loop_owner (v : Int) fs.bl hblk2
  refine ⟨⟨pre, b, post, e1, fun c hc => by have := e2 c hc; omega, by omega, ?_⟩, ?_⟩
  · rw [singlevaraux]
    simp [hv, markupval, e4]
  · rw [singlevaraux]
    simp [hv]

/-- Witness for C30: the local `y` (index 1) of `sampleMainBlocks`, referenced
through the recursive lookup: the innermost block was entered with three
active locals, the next with one; the second block is the one marked. -/
theorem singlevaraux_marks_owner_witness :
    searchvar sampleDyd sampleMainBlocks "y" = 1 ∧
    (∃ pre b post, sampleMainBlocks.bl = pre ++ b :: post ∧ (∀ c ∈ pre, 1 < c.nactvar) ∧
      b.nactvar ≤ 1 ∧
      singlevaraux sampleDyd [sampleMainBlocks] "y" false =
        Except.ok (init_exp expkind.VLOCAL 1,
          [{ sampleMainBlocks with bl := pre ++ { b with upval := true } :: post }])) ∧
    singlevaraux sampleDyd [sampleMainBlocks] "y" false =
      Except.ok (init_exp expkind.VLOCAL 1,
        [{ sampleMainBlocks with bl :=
          [{ firstlabel := 0, firstgoto := 0, nactvar := 3, upval := false, isloop := false },
           { firstlabel := 0, firstgoto := 0, nactvar := 1, upval := true, isloop := true },
           sampleBlock] }]) ∧
    singlevaraux sampleDyd [sampleInner, sampleMainBlocks] "y" true =
      Except.ok (init_exp expkind.VUPVAL 0,
        [sampleInner.addUpvalue { name := "y", instack := true, idx := 1 },
         { sampleMainBlocks with bl :=
          [{ firstlabel := 0, firstgoto := 0, nactvar := 3, upval := false, isloop := false },
           { firstlabel := 0, firstgoto := 0, nactvar := 1, upval := true, isloop := true },
           sampleBlock] }]) ∧
    singlevaraux sampleDyd [sampleMainBlocks] "y" true =
      Except.ok (init_exp expkind.VLOCAL 1, [sampleMainBlocks]) :=
  have h := singlevaraux_marks_owner sampleDyd sampleMainBlocks [] "y" 1 (by decide)
    ⟨sampleBlock, by decide, by decide⟩
  ⟨by decide, h.1, by decide, by decide, h.2⟩

/-! ## Theorems: associativity and unary operators -/

theorem subexpr_while_none (simpleexp : ExprParser) (fuel : Nat) (ls : LexState)
    (v : expdesc) (limit : Nat) :
    subexpr_while simpleexp (fuel + 1) ls v BinOpr.OPR_NOBINOPR limit =
      Except.ok ((v, BinOpr.OPR_NOBINOPR), leavelevel ls) :=
  subexpr_while_stop simpleexp fuel ls v _ limit (fun h => h.1 rfl)

theorem subexpr_right_group (simpleexp : ExprParser) (fuel : Nat)
    (s0 a0 a1 a2 a3 a4 a5 a6 a7 a8 a9 : LexState) (x x1 y y1 z r r2 : expdesc)
    (op1 op2 : BinOpr)
    (h0 : enterlevel s0 = Except.ok a0) (hu0 : getunopr a0.t.token = UnOpr.OPR_NOUNOPR)
    (hx : simpleexp a0 = Except.ok (x, a1))
    (hop1 : getbinopr a1.t.token = op1) (hne1 : op1 ≠ BinOpr.OPR_NOBINOPR)
    (hi1 : (luaX_next a1).onFs (fun fs => luaK_infix fs op1 x) = Except.ok (x1, a2))
    (h2 : enterlevel a2 = Except.ok a3) (hu2 : getunopr a3.t.token = UnOpr.OPR_NOUNOPR)
    (hy : simpleexp a3 = Except.ok (y, a4))
    (hop2 : getbinopr a4.t.token = op2) (hne2 : op2 ≠ BinOpr.OPR_NOBINOPR)
    (hgt : (priority op2).1 > (priority op1).2)
    (hi2 : (luaX_next a4).onFs (fun fs => luaK_infix fs op2 y) = Except.ok (y1, a5))
    (h5 : enterlevel a5 = Except.ok a6) (hu5 : getunopr a6.t.token = UnOpr.OPR_NOUNOPR)
    (hz : simpleexp a6 = Except.ok (z, a7))
    (hend : getbinopr a7.t.token = BinOpr.OPR_NOBINOPR)
    (hf2 : (leavelevel a7).onFs (fun fs => luaK_posfix fs op2 y1 z a4.linenumber) =
      Except.ok (r, a8))
    (hf1 : (leavelevel a8).onFs (fun fs => luaK_posfix fs op1 x1 r a1.linenumber) =
      Except.ok (r2, a9)) :
    subexpr simpleexp (fuel + 6) s0 0 =
      Except.ok ((r2, BinOpr.OPR_NOBINOPR), leavelevel a9) := by
  have hz1 : subexpr simpleexp (fuel + 2) a5 (priority op2).2 =
      Except.ok ((z, BinOpr.OPR_NOBINOPR), leavelevel a7) := by
    rw [subexpr_operand simpleexp (fuel + 1) a5 a6 a7 _ z h5 hu5 hz, hend]
    exact subexpr_while_none simpleexp fuel a7 z _
  have hy1 : subexpr simpleexp (fuel + 4) a2 (priority op1).2 =
      Except.ok ((r, BinOpr.OPR_NOBINOPR), leavelevel a8) := by
    rw [subexpr_operand simpleexp (fuel + 3) a2 a3 a4 _ y h2 hu2 hy, hop2,
      subexpr_while_fold simpleexp (fuel + 2) a4 a5 (leavelevel a7) a8 y y1 z r op2
        BinOpr.OPR_NOBINOPR _ hne2 hgt hi2 hz1 hf2]
    exact subexpr_while_none simpleexp (fuel + 1) a8 r _
  rw [subexpr_operand simpleexp (fuel + 5) s0 a0 a1 0 x h0 hu0 hx, hop1,
    subexpr_while_fold simpleexp (fuel + 4) a1 a2 (leavelevel a8) a9 x x1 r r2 op1
      BinOpr.OPR_NOBINOPR 0 hne1 (priority_left_pos op1 hne1) hi1 hy1 hf1]
  exact subexpr_while_none simpleexp (fuel + 3) a9 r2 _

theorem subexpr_left_group (simpleexp : ExprParser) (fuel : Nat)
    (s0 a0 a1 a2 a3 a4 b5 b6 b7 b8 b9 : LexState) (x x1 y r r1 z r2 : expdesc)
    (op1 op2 : BinOpr)
    (h0 : enterlevel s0 = Except.ok a0) (hu0 : getunopr a0.t.token = UnOpr.OPR_NOUNOPR)
    (hx : simpleexp a0 = Except.ok (x, a1))
    (hop1 : getbinopr a1.t.token = op1) (hne1 : op1 ≠ BinOpr.OPR_NOBINOPR)
    (hi1 : (luaX_next a1).onFs (fun fs => luaK_infix fs op1 x) = Except.ok (x1, a2))
    (h2 : enterlevel a2 = Except.ok a3) (hu2 : getunopr a3.t.token = UnOpr.OPR_NOUNOPR)
    (hy : simpleexp a3 = Except.ok (y, a4))
    (hop2 : getbinopr a4.t.token = op2) (hne2 : op2 ≠ BinOpr.OPR_NOBINOPR)
    (hle : ¬ (priority op2).1 > (priority op1).2)
    (hf1 : (leavelevel a4).onFs (fun fs => luaK_posfix fs op1 x1 y a1.linenumber) =
      Except.ok (r, b5))
    (hi2 : (luaX_next b5).onFs (fun fs => luaK_infix fs op2 r) = Except.ok (r1, b6))
    (h6 : enterlevel b6 = Except.ok b7) (hu6 : getunopr b7.t.token = UnOpr.OPR_NOUNOPR)
    (hz : simpleexp b7 = Except.ok (z, b8))
    (hend : getbinopr b8.t.token = BinOpr.OPR_NOBINOPR)
    (hf2 : (leavelevel b8).onFs (fun fs => luaK_posfix fs op2 r1 z b5.linenumber) =
      Except.ok (r2, b9)) :
    subexpr simpleexp (fuel + 6) s0 0 =
      Except.ok ((r2, BinOpr.OPR_NOBINOPR), leavelevel b9) := by
  have hy1 : subexpr simpleexp (fuel + 4) a2 (priority op1).2 =
      Except.ok ((y, op2), leavelevel a4) := by
    rw [subexpr_operand simpleexp (fuel + 3) a2 a3 a4 _ y h2 hu2 hy, hop2]
    exact subexpr_while_stop simpleexp (fuel + 2) a4 y op2 _ (fun h => hle h.2)
  have hz1 : subexpr simpleexp (fuel + 3) b6 (priority op2).2 =
      Except.ok ((z, BinOpr.OPR_NOBINOPR), leavelevel b8) := by
    rw [subexpr_operand simpleexp (fuel + 2) b6 b7 b8 _ z h6 hu6 hz, hend]
    exact subexpr_while_none simpleexp (fuel + 1) b8 z _
  rw [subexpr_operand simpleexp (fuel + 5) s0 a0 a1 0 x h0 hu0 hx, hop1,
    subexpr_while_fold simpleexp (fuel + 4) a1 a2 (leavelevel a4) b5 x x1 y r op1
      op2 0 hne1 (priority_left_pos op1 hne1) hi1 hy1 hf1,
    subexpr_while_fold simpleexp (fuel + 3) b5 b6 (leavelevel b8) b9 r r1 z r2 op2
      BinOpr.OPR_NOBINOPR 0 hne2 (priority_left_pos op2 hne2) hi2 hz1 hf2]
  exact subexpr_while_none simpleexp (fuel + 2) b9 r2 _

/-- C31: the table `priority[]` has 21 binary operators; the right priority
is strictly less than the left one for exactly two of them, exponentiation
(14, 13) and concatenation (9, 8), and equal to it for every other one.  So
for the operand sequence `x op y op z` (operands read by `simpleexp`, no
operator after `z`): with `op` any operator other than those two, `subexpr`
folds `x op y` first and then that result with `z`, i.e. `(x op y) op z`;
with `op` exponentiation or concatenation it folds `y op z` first and then `x`
with that result, i.e. `x op (y op z)`. -/
theorem binop_associativity (simpleexp : ExprParser) (fuel : Nat)
    (s0 a0 a1 a2 a3 a4 : LexState) (x x1 y : expdesc) (op : BinOpr)
    (h0 : enterlevel s0 = Except.ok a0) (hu0 : getunopr a0.t.token = UnOpr.OPR_NOUNOPR)
    (hx : simpleexp a0 = Except.ok (x, a1))
    (hop1 : getbinopr a1.t.token = op) (hne : op ≠ BinOpr.OPR_NOBINOPR)
    (hi1 : (luaX_next a1).onFs (fun fs => luaK_infix fs op x) = Except.ok (x1, a2))
    (h2 : enterlevel a2 = Except.ok a3) (hu2 : getunopr a3.t.token = UnOpr.OPR_NOUNOPR)
    (hy : simpleexp a3 = Except.ok (y, a4))
    (hop2 : getbinopr a4.t.token = op) :
    (binaryOperators.length = 21 ∧ binaryOperators.Nodup ∧
      (∀ o : BinOpr, o ∈ binaryOperators ↔ o ≠ BinOpr.OPR_NOBINOPR) ∧
      binaryOperators.filter (fun o => decide ((priority o).2 < (priority o).1)) =
        [BinOpr.OPR_POW, BinOpr.OPR_CONCAT] ∧
      priority BinOpr.OPR_POW = (14, 13) ∧ priority BinOpr.OPR_CONCAT = (9, 8) ∧
      (∀ o : BinOpr, o ≠ BinOpr.OPR_POW → o ≠ BinOpr.OPR_CONCAT →
        (priority o).1 = (priority o).2)) ∧
    (op ≠ BinOpr.OPR_POW → op ≠ BinOpr.OPR_CONCAT →
      ∀ (r r1 z r2 : expdesc) (b5 b6 b7 b8 b9 : LexState),
        (leavelevel a4).onFs (fun fs => luaK_posfix fs op x1 y a1.linenumber) =
          Except.ok (r, b5) →
        (luaX_next b5).onFs (fun fs => luaK_infix fs op r) = Except.ok (r1, b6) →
        enterlevel b6 = Except.ok b7 → getunopr b7.t.token = UnOpr.OPR_NOUNOPR →
        simpleexp b7 = Except.ok (z, b8) → getbinopr b8.t.token = BinOpr.OPR_NOBINOPR →
        (leavelevel b8).onFs (fun fs => luaK_posfix fs op r1 z b5.linenumber) =
          Except.ok (r2, b9) →
        subexpr simpleexp (fuel + 6) s0 0 =
          Except.ok ((r2, BinOpr.OPR_NOBINOPR), leavelevel b9)) ∧
    (op = BinOpr.OPR_POW ∨ op = BinOpr.OPR_CONCAT →
      ∀ (y1 z r r2 : expdesc) (a5 a6 a7 a8 a9 : LexState),
        (luaX_next a4).onFs (fun fs => luaK_infix fs op y) = Except.ok (y1, a5) →
        enterlevel a5 = Except.ok a6 → getunopr a6.t.token = UnOpr.OPR_NOUNOPR →
        simpleexp a6 = Except.ok (z, a7) → getbinopr a7.t.token = BinOpr.OPR_NOBINOPR →
        (leavelevel a7).onFs (fun fs => luaK_posfix fs op y1 z a4.linenumber) =
          Except.ok (r, a8) →
        (leavelevel a8).onFs (fun fs => luaK_posfix fs op x1 r a1.linenumber) =
          Except.ok (r2, a9) →
        subexpr simpleexp (fuel + 6) s0 0 =
          Except.ok ((r2, BinOpr.OPR_NOBINOPR), leavelevel a9)) := by
  refine ⟨⟨rfl, by decide, ?_, by decide, rfl, rfl, ?_⟩, ?_, ?_⟩
  · intro o; cases o <;> simp [binaryOperators]
  · intro o h1 h2; cases o <;> simp [priority] at h1 h2 ⊢
  · intro hp hc r r1 z r2 b5 b6 b7 b8 b9 hf1 hi2 h6 hu6 hz hend hf2
    have hle : ¬ (priority op).1 > (priority op).2 := by
      cases op <;> simp [priority] at hp hc ⊢
    exact subexpr_left_group simpleexp fuel s0 a0 a1 a2 a3 a4 b5 b6 b7 b8 b9 x x1 y r r1 z r2
      op op h0 hu0 hx hop1 hne hi1 h2 hu2 hy hop2 hne hle hf1 hi2 h6 hu6 hz hend hf2
  · intro h y1 z r r2 a5 a6 a7 a8 a9 hi2 h5 hu5 hz hend hf2 hf1
    have hgt : (priority op).1 > (priority op).2 := by
      rcases h with h | h <;> subst h <;> decide
    exact subexpr_right_group simpleexp fuel s0 a0 a1 a2 a3 a4 a5 a6 a7 a8 a9 x x1 y y1 z r r2
      op op h0 hu0 hx hop1 hne hi1 h2 hu2 hy hop2 hne hgt hi2 h5 hu5 hz hend hf2 hf1

/-- Witness of C31: `1 - 2 - 3` folds `1 - 2` first and then `(...) - 3`;
`1 .. 2 .. 3` folds `2 .. 3` first and then `1 .. (...)`. -/
theorem binop_associativity_witness :
    (∃ ls : LexState,
      subexpr (simpleexp literalExpRules) 6 (sampleStart subSubToks) 0 =
        Except.ok ((init_exp expkind.VRELOCABLE 1, BinOpr.OPR_NOBINOPR), ls) ∧
      ls.fs.map FuncState.kcalls =
        [[KCall.infixOp BinOpr.OPR_SUB (intLit 1),
          KCall.posfixOp BinOpr.OPR_SUB (intLit 1) (intLit 2) 1,
          KCall.infixOp BinOpr.OPR_SUB (init_exp expkind.VRELOCABLE 0),
          KCall.posfixOp BinOpr.OPR_SUB (init_exp expkind.VRELOCABLE 0) (intLit 3) 1]]) ∧
    (∃ ls : LexState,
      subexpr (simpleexp literalExpRules) 6 (sampleStart concatToks) 0 =
        Except.ok ((init_exp expkind.VRELOCABLE 1, BinOpr.OPR_NOBINOPR), ls) ∧
      ls.fs.map FuncState.kcalls =
        [[KCall.infixOp BinOpr.OPR_CONCAT (intLit 1),
          KCall.infixOp BinOpr.OPR_CONCAT (intLit 2),
          KCall.posfixOp BinOpr.OPR_CONCAT (intLit 2) (intLit 3) 1,
          KCall.posfixOp BinOpr.OPR_CONCAT (intLit 1) (init_exp expkind.VRELOCABLE 0) 1]]) :=
  ⟨⟨_, (binop_associativity (simpleexp literalExpRules) 0 (sampleStart subSubToks) _ _ _ _ _ _ _ _
      BinOpr.OPR_SUB rfl rfl rfl rfl (by decide) rfl rfl rfl rfl rfl).2.1 (by decide) (by decide)
      _ _ _ _ _ _ _ _ _ rfl rfl rfl rfl rfl rfl rfl, rfl⟩,
    ⟨_, (binop_associativity (simpleexp literalExpRules) 0 (sampleStart concatToks) _ _ _ _ _ _ _ _
      BinOpr.OPR_CONCAT rfl rfl rfl rfl (by decide) rfl rfl rfl rfl rfl).2.2 (Or.inr rfl)
      _ _ _ _ _ _ _ _ _ rfl rfl rfl rfl rfl rfl rfl, rfl⟩⟩

theorem subexpr_op_current (simpleexp : ExprParser) (fuel : Nat) :
    (∀ (ls ls1 : LexState) (limit : Nat) (v : expdesc) (op : BinOpr),
      subexpr simpleexp fuel ls limit = Except.ok ((v, op), ls1) →
      op = getbinopr ls1.t.token ∧ (op = BinOpr.OPR_NOBINOPR ∨ (priority op).1 ≤ limit)) ∧
    (∀ (ls ls1 : LexState) (v v1 : expdesc) (op op1 : BinOpr) (limit : Nat),
      op = getbinopr ls.t.token →
      subexpr_while simpleexp fuel ls v op limit = Except.ok ((v1, op1), ls1) →
      op1 = getbinopr ls1.t.token ∧ (op1 = BinOpr.OPR_NOBINOPR ∨ (priority op1).1 ≤ limit)) := by
  induction fuel with
  | zero =>
    constructor
    · intro ls ls1 limit v op h; simp [subexpr] at h
    · intro ls ls1 v v1 op op1 limit _ h; simp [subexpr_while] at h
  | succ fuel ih =>
    obtain ⟨ih1, ih2⟩ := ih
    constructor
    · intro ls ls1 limit v op h
      simp only [subexpr] at h
      split at h
      · cases h
      split at h
      · cases h
      exact ih2 _ _ _ _ _ _ _ rfl h
    · intro ls ls1 v v1 op op1 limit hop h
      simp only [subexpr_while] at h
      split at h
      · split at h
        · cases h
        split at h
        · cases h
        split at h
        · cases h
        rename_i v2 ls3 hf _ va nextop ls2 hs _ _ _ hp
        refine ih2 _ _ _ _ _ _ _ ?_ h
        rw [(onFs_frame _ _ _ _ hp).1]
        exact (ih1 _ _ _ _ _ hs).1
      · rename_i hc
        simp only [Except.ok.injEq, Prod.mk.injEq] at h
        obtain ⟨⟨_, rfl⟩, rfl⟩ := h
        refine ⟨hop, ?_⟩
        by_cases hn : op = BinOpr.OPR_NOBINOPR
        · exact Or.inl hn
        · exact Or.inr (Nat.le_of_not_lt (fun hlt => hc ⟨hn, hlt⟩))

/-- C32: when `subexpr` returns with limit `limit`, the operator it returns
is the binary operator at the current token, and it is `OPR_NOBINOPR` or has
left priority at most `limit`; a turn of its loop either consumes an operator of
left priority above the limit or returns at once with the operator untreated.
Every left priority of the table is at least 1, so with limit 0 (as in `expr`)
the operator returned is `OPR_NOBINOPR`: no binary operator is at the token
where `expr` returns. -/
theorem subexpr_untreated_operator (simpleexp : ExprParser) (fuel : Nat) (ls ls1 : LexState)
    (limit : Nat) (v : expdesc) (op : BinOpr)
    (h : subexpr simpleexp fuel ls limit = Except.ok ((v, op), ls1)) :
    op = getbinopr ls1.t.token ∧
    (op = BinOpr.OPR_NOBINOPR ∨ (priority op).1 ≤ limit) ∧
    (limit = 0 → op = BinOpr.OPR_NOBINOPR) ∧
    (∀ (n : Nat) (s : LexState) (w : expdesc) (o : BinOpr) (lim : Nat)
        (r : (expdesc × BinOpr) × LexState),
      subexpr_while simpleexp (n + 1) s w o lim = Except.ok r →
      (o ≠ BinOpr.OPR_NOBINOPR ∧ (priority o).1 > lim) ∨ r = ((w, o), leavelevel s)) ∧
    (∀ o : BinOpr, o ≠ BinOpr.OPR_NOBINOPR → 1 ≤ (priority o).1) ∧
    (∀ (n : Nat) (s s1 : LexState) (w : expdesc),
      expr simpleexp n s = Except.ok (w, s1) → getbinopr s1.t.token = BinOpr.OPR_NOBINOPR) := by
  have hpos : ∀ o : BinOpr, o ≠ BinOpr.OPR_NOBINOPR → 1 ≤ (priority o).1 :=
    fun o ho => priority_left_pos o ho
  have hzero : ∀ (n : Nat) (s s1 : LexState) (w : expdesc) (o : BinOpr),
      subexpr simpleexp n s 0 = Except.ok ((w, o), s1) → o = BinOpr.OPR_NOBINOPR := by
    intro n s s1 w o hs
    rcases ((subexpr_op_current simpleexp n).1 _ _ _ _ _ hs).2 with h1 | h1
    · exact h1
    · by_contra hne
      have := hpos o hne
      omega
  obtain ⟨h1, h2⟩ := (subexpr_op_current simpleexp fuel).1 _ _ _ _ _ h
  refine ⟨h1, h2, ?_, ?_, hpos, ?_⟩
  · intro hl
    subst hl
    exact hzero _ _ _ _ _ h
  · intro n s w o lim r hr
    by_cases hc : o ≠ BinOpr.OPR_NOBINOPR ∧ (priority o).1 > lim
    · exact Or.inl hc
    · rw [subexpr_while_stop simpleexp n s w o lim hc] at hr
      simp only [Except.ok.injEq] at hr
      exact Or.inr hr.symm
  · intro n s s1 w he
    simp only [expr] at he
    split at he
    · cases he
    rename_i w1 o s2 hs
    simp only [Except.ok.injEq, Prod.mk.injEq] at he
    obtain ⟨rfl, rfl⟩ := he
    rw [← ((subexpr_op_current simpleexp n).1 _ _ _ _ _ hs).1]
    exact hzero _ _ _ _ _ hs

/-- Witness of C32: on `1 * 2 + 3` with limit 10, `subexpr` consumes `*` (left
priority 11) and returns the untreated `+` (left priority 10), the current
token. -/
theorem subexpr_untreated_operator_witness :
    ∃ ls1 : LexState,
      subexpr (simpleexp literalExpRules) 6 (sampleStart mulAddToks) 10 =
        Except.ok ((init_exp expkind.VRELOCABLE 0, BinOpr.OPR_ADD), ls1) ∧
      BinOpr.OPR_ADD = getbinopr ls1.t.token ∧
      ls1.fs.map FuncState.kcalls =
        [[KCall.infixOp BinOpr.OPR_MUL (intLit 1),
          KCall.posfixOp BinOpr.OPR_MUL (intLit 1) (intLit 2) 1]] :=
  ⟨_, rfl, (subexpr_untreated_operator (simpleexp literalExpRules) 6 (sampleStart mulAddToks) _
    10 _ _ rfl).1, rfl⟩

theorem subexpr_unary (simpleexp : ExprParser) (fuel : Nat) (s0 a0 ls1 ls2 : LexState)
    (limit : Nat) (uop : UnOpr) (v v1 : expdesc) (o : BinOpr)
    (h0 : enterlevel s0 = Except.ok a0) (hu : getunopr a0.t.token = uop)
    (hne : uop ≠ UnOpr.OPR_NOUNOPR)
    (hs : subexpr simpleexp fuel (luaX_next a0) UNARY_PRIORITY = Except.ok ((v, o), ls1))
    (hp : ls1.onFs (fun fs => luaK_prefix fs uop v a0.linenumber) = Except.ok (v1, ls2)) :
    subexpr simpleexp (fuel + 1) s0 limit =
      subexpr_while simpleexp fuel ls2 v1 (getbinopr ls2.t.token) limit := by
  rw [subexpr]
  simp only [h0, hu, ne_eq, hne, not_false_eq_true, if_true, hs, hp]

/-- C33: the operand of a unary operator is read by `subexpr` with the limit
`UNARY_PRIORITY` = 12, which is above the left priority of every binary
operator except exponentiation (14).  So for the sequence `uop x op y`
(`x`, `y` read by `simpleexp`, no operator after `y`): with `op` exponentiation
`subexpr` folds `x ^ y` first and applies the unary operator to the result,
i.e. `uop (x ^ y)`; with any other `op` it applies the unary operator to `x`
first and folds the result with `y`, i.e. `(uop x) op y`. -/
theorem unary_operand_priority (simpleexp : ExprParser) (fuel : Nat)
    (s0 a0 a1 a2 : LexState) (uop : UnOpr) (x : expdesc) (op : BinOpr)
    (h0 : enterlevel s0 = Except.ok a0) (hu : getunopr a0.t.token = uop)
    (hune : uop ≠ UnOpr.OPR_NOUNOPR)
    (h1 : enterlevel (luaX_next a0) = Except.ok a1)
    (hu1 : getunopr a1.t.token = UnOpr.OPR_NOUNOPR)
    (hx : simpleexp a1 = Except.ok (x, a2))
    (hop : getbinopr a2.t.token = op) (hne : op ≠ BinOpr.OPR_NOBINOPR) :
    (UNARY_PRIORITY = 12 ∧ (priority BinOpr.OPR_POW).1 = 14 ∧
      (∀ o : BinOpr, o ≠ BinOpr.OPR_POW → (priority o).1 < UNARY_PRIORITY)) ∧
    (∀ (limit : Nat) (o : BinOpr) (ls1 ls2 : LexState) (v v1 : expdesc),
      subexpr simpleexp (fuel + 4) (luaX_next a0) UNARY_PRIORITY = Except.ok ((v, o), ls1) →
      ls1.onFs (fun fs => luaK_prefix fs uop v a0.linenumber) = Except.ok (v1, ls2) →
      subexpr simpleexp (fuel + 5) s0 limit =
        subexpr_while simpleexp (fuel + 4) ls2 v1 (getbinopr ls2.t.token) limit) ∧
    (op = BinOpr.OPR_POW →
      ∀ (x1 y r r2 : expdesc) (a3 a4 a5 a6 a7 : LexState),
        (luaX_next a2).onFs (fun fs => luaK_infix fs op x) = Except.ok (x1, a3) →
        enterlevel a3 = Except.ok a4 → getunopr a4.t.token = UnOpr.OPR_NOUNOPR →
        simpleexp a4 = Except.ok (y, a5) → getbinopr a5.t.token = BinOpr.OPR_NOBINOPR →
        (leavelevel a5).onFs (fun fs => luaK_posfix fs op x1 y a2.linenumber) =
          Except.ok (r, a6) →
        (leavelevel a6).onFs (fun fs => luaK_prefix fs uop r a0.linenumber) =
          Except.ok (r2, a7) →
        subexpr simpleexp (fuel + 5) s0 0 =
          Except.ok ((r2, BinOpr.OPR_NOBINOPR), leavelevel a7)) ∧
    (op ≠ BinOpr.OPR_POW →
      ∀ (r r1 y r2 : expdesc) (b3 b4 b5 b6 b7 : LexState),
        (leavelevel a2).onFs (fun fs => luaK_prefix fs uop x a0.linenumber) =
          Except.ok (r, b3) →
        (luaX_next b3).onFs (fun fs => luaK_infix fs op r) = Except.ok (r1, b4) →
        enterlevel b4 = Except.ok b5 → getunopr b5.t.token = UnOpr.OPR_NOUNOPR →
        simpleexp b5 = Except.ok (y, b6) → getbinopr b6.t.token = BinOpr.OPR_NOBINOPR →
        (leavelevel b6).onFs (fun fs => luaK_posfix fs op r1 y b3.linenumber) =
          Except.ok (r2, b7) →
        subexpr simpleexp (fuel + 5) s0 0 =
          Except.ok ((r2, BinOpr.OPR_NOBINOPR), leavelevel b7)) := by
  have hlow : ∀ o : BinOpr, o ≠ BinOpr.OPR_POW → (priority o).1 < UNARY_PRIORITY := by
    intro o ho; cases o <;> simp [priority, UNARY_PRIORITY] at ho ⊢
  have hinner : subexpr simpleexp (fuel + 4) (luaX_next a0) UNARY_PRIORITY =
      subexpr_while simpleexp (fuel + 3) a2 x op UNARY_PRIORITY := by
    rw [subexpr_operand simpleexp (fuel + 3) _ a1 a2 _ x h1 hu1 hx, hop]
  refine ⟨⟨rfl, rfl, hlow⟩, ?_, ?_, ?_⟩
  · intro limit o ls1 ls2 v v1 hs hq
    exact subexpr_unary simpleexp (fuel + 4) s0 a0 ls1 ls2 limit uop v v1 o h0 hu hune hs hq
  · intro hpow x1 y r r2 a3 a4 a5 a6 a7 hi h3 hu3 hy hend hf hp
    have hy1 : subexpr simpleexp (fuel + 2) a3 (priority op).2 =
        Except.ok ((y, BinOpr.OPR_NOBINOPR), leavelevel a5) := by
      rw [subexpr_operand simpleexp (fuel + 1) a3 a4 a5 _ y h3 hu3 hy, hend]
      exact subexpr_while_none simpleexp fuel a5 y _
    have hgt : (priority op).1 > UNARY_PRIORITY := by subst hpow; decide
    have hin : subexpr simpleexp (fuel + 4) (luaX_next a0) UNARY_PRIORITY =
        Except.ok ((r, BinOpr.OPR_NOBINOPR), leavelevel a6) := by
      rw [hinner, subexpr_while_fold simpleexp (fuel + 2) a2 a3 (leavelevel a5) a6 x x1 y r op
        BinOpr.OPR_NOBINOPR _ hne hgt hi hy1 hf]
      exact subexpr_while_none simpleexp (fuel + 1) a6 r _
    have ht : a7.t = a5.t := by
      rw [(onFs_frame _ _ _ _ hp).1]
      show a6.t = a5.t
      rw [(onFs_frame _ _ _ _ hf).1]
      rfl
    rw [subexpr_unary simpleexp (fuel + 4) s0 a0 _ a7 0 uop r r2 _ h0 hu hune hin hp, ht, hend]
    exact subexpr_while_none simpleexp (fuel + 3) a7 r2 _
  · intro hnp r r1 y r2 b3 b4 b5 b6 b7 hp hi h4 hu4 hy hend hf
    have hle : ¬ (op ≠ BinOpr.OPR_NOBINOPR ∧ (priority op).1 > UNARY_PRIORITY) :=
      fun h => absurd (hlow op hnp) (Nat.not_lt.mpr (Nat.le_of_lt h.2))
    have hin : subexpr simpleexp (fuel + 4) (luaX_next a0) UNARY_PRIORITY =
        Except.ok ((x, op), leavelevel a2) := by
      rw [hinner]
      exact subexpr_while_stop simpleexp (fuel + 2) a2 x op _ hle
    have ht : b3.t = a2.t := by
      rw [(onFs_frame _ _ _ _ hp).1]
      rfl
    have hy1 : subexpr simpleexp (fuel + 3) b4 (priority op).2 =
        Except.ok ((y, BinOpr.OPR_NOBINOPR), leavelevel b6) := by
      rw [subexpr_operand simpleexp (fuel + 2) b4 b5 b6 _ y h4 hu4 hy, hend]
      exact subexpr_while_none simpleexp (fuel + 1) b6 y _
    rw [subexpr_unary simpleexp (fuel + 4) s0 a0 _ b3 0 uop x r _ h0 hu hune hin hp, ht, hop,
      subexpr_while_fold simpleexp (fuel + 3) b3 b4 (leavelevel b6) b7 r r1 y r2 op
        BinOpr.OPR_NOBINOPR 0 hne (priority_left_pos op hne) hi hy1 hf]
    exact subexpr_while_none simpleexp (fuel + 2) b7 r2 _

/-- Witness of C33: `-1 ^ 2` folds `1 ^ 2` and then negates; `-1 * 2` negates
`1` and then multiplies; `not 1 == 2` negates `1` and then compares. -/
theorem unary_operand_priority_witness :
    (∃ ls : LexState,
      subexpr (simpleexp literalExpRules) 5 (sampleStart negPowToks) 0 =
        Except.ok ((init_exp expkind.VRELOCABLE 1, BinOpr.OPR_NOBINOPR), ls) ∧
      ls.fs.map FuncState.kcalls =
        [[KCall.infixOp BinOpr.OPR_POW (intLit 1),
          KCall.posfixOp BinOpr.OPR_POW (intLit 1) (intLit 2) 1,
          KCall.prefixOp UnOpr.OPR_MINUS (init_exp expkind.VRELOCABLE 0) 1]]) ∧
    (∃ ls : LexState,
      subexpr (simpleexp literalExpRules) 5 (sampleStart negMulToks) 0 =
        Except.ok ((init_exp expkind.VRELOCABLE 1, BinOpr.OPR_NOBINOPR), ls) ∧
      ls.fs.map FuncState.kcalls =
        [[KCall.prefixOp UnOpr.OPR_MINUS (intLit 1) 1,
          KCall.infixOp BinOpr.OPR_MUL (init_exp expkind.VRELOCABLE 0),
          KCall.posfixOp BinOpr.OPR_MUL (init_exp expkind.VRELOCABLE 0) (intLit 2) 1]]) ∧
    (∃ ls : LexState,
      subexpr (simpleexp literalExpRules) 5 (sampleStart notEqToks) 0 =
        Except.ok ((init_exp expkind.VRELOCABLE 1, BinOpr.OPR_NOBINOPR), ls) ∧
      ls.fs.map FuncState.kcalls =
        [[KCall.prefixOp UnOpr.OPR_NOT (intLit 1) 1,
          KCall.infixOp BinOpr.OPR_EQ (init_exp expkind.VRELOCABLE 0),
          KCall.posfixOp BinOpr.OPR_EQ (init_exp expkind.VRELOCABLE 0) (intLit 2) 1]]) :=
  ⟨⟨_, (unary_operand_priority (simpleexp literalExpRules) 0 (sampleStart negPowToks) _ _ _
      UnOpr.OPR_MINUS _ BinOpr.OPR_POW rfl rfl (by decide) rfl rfl rfl rfl (by decide)).2.2.1 rfl
      _ _ _ _ _ _ _ _ _ rfl rfl rfl rfl rfl rfl rfl, rfl⟩,
    ⟨_, (unary_operand_priority (simpleexp literalExpRules) 0 (sampleStart negMulToks) _ _ _
      UnOpr.OPR_MINUS _ BinOpr.OPR_MUL rfl rfl (by decide) rfl rfl rfl rfl (by decide)).2.2.2
      (by decide) _ _ _ _ _ _ _ _ _ rfl rfl rfl rfl rfl rfl rfl, rfl⟩,
    ⟨_, (unary_operand_priority (simpleexp literalExpRules) 0 (sampleStart notEqToks) _ _ _
      UnOpr.OPR_NOT _ BinOpr.OPR_EQ rfl rfl (by decide) rfl rfl rfl rfl (by decide)).2.2.2
      (by decide) _ _ _ _ _ _ _ _ _ rfl rfl rfl rfl rfl rfl rfl, rfl⟩⟩

/-! ## Theorems: conflicts in multiple assignment -/

theorem check_conflict_loop_spec (v : expdesc) (extra : Int) (lh : List expdesc) :
    List.Forall₂ (fun t t1 : expdesc =>
        (t.k ≠ expkind.VINDEXED → t1 = t) ∧
        (t.k = expkind.VINDEXED →
          t1 = { t with ind_vt := t1.ind_vt, ind_t := t1.ind_t, ind_idx := t1.ind_idx } ∧
          ((t.ind_vt = v.k ∧ t.ind_t = v.info) →
            t1.ind_vt = expkind.VLOCAL ∧ t1.ind_t = extra) ∧
          (¬ (t.ind_vt = v.k ∧ t.ind_t = v.info) →
            t1.ind_vt = t.ind_vt ∧ t1.ind_t = t.ind_t) ∧
          ((v.k = expkind.VLOCAL ∧ t.ind_idx = v.info) → t1.ind_idx = extra) ∧
          (¬ (v.k = expkind.VLOCAL ∧ t.ind_idx = v.info) → t1.ind_idx = t.ind_idx)))
      lh (check_conflict_loop v extra lh).1 ∧
    ((check_conflict_loop v extra lh).2 = true ↔
      ∃ t ∈ lh, t.k = expkind.VINDEXED ∧
        ((t.ind_vt = v.k ∧ t.ind_t = v.info) ∨ (v.k = expkind.VLOCAL ∧ t.ind_idx = v.info))) := by
  induction lh with
  | nil => simp [check_conflict_loop]
  | cons t rest ih =>
    obtain ⟨ih1, ih2⟩ := ih
    by_cases hk : t.k = expkind.VINDEXED
    · obtain ⟨k, info, ival, idx, tt, vt, tj, fj⟩ := t
      simp only at hk
      subst hk
      have h1 : (check_conflict_loop v extra
            ({ k := expkind.VINDEXED, info := info, ival := ival, ind_idx := idx, ind_t := tt,
               ind_vt := vt, t := tj, f := fj } :: rest)).1 =
          { k := expkind.VINDEXED, info := info, ival := ival,
            ind_vt := if vt = v.k ∧ tt = v.info then expkind.VLOCAL else vt,
            ind_t := if vt = v.k ∧ tt = v.info then extra else tt,
            ind_idx := if v.k = expkind.VLOCAL ∧ idx = v.info then extra else idx,
            t := tj, f := fj } ::
            (check_conflict_loop v extra rest).1 := by
        simp only [check_conflict_loop, if_true, decide_eq_true_eq]
        split_ifs <;> simp_all
      have h2 : (check_conflict_loop v extra
            ({ k := expkind.VINDEXED, info := info, ival := ival, ind_idx := idx, ind_t := tt,
               ind_vt := vt, t := tj, f := fj } :: rest)).2 =
          (decide (vt = v.k ∧ tt = v.info) ||
            decide (v.k = expkind.VLOCAL ∧ idx = v.info) ||
            (check_conflict_loop v extra rest).2) := by
        simp only [check_conflict_loop, if_true, decide_eq_true_eq]
        split_ifs <;> simp_all
      rw [h1, h2]
      refine ⟨List.Forall₂.cons ⟨fun h => absurd rfl h, fun _ => ⟨rfl, ?_, ?_, ?_, ?_⟩⟩ ih1, ?_⟩
      · exact fun hc => ⟨if_pos hc, if_pos hc⟩
      · exact fun hc => ⟨if_neg hc, if_neg hc⟩
      · exact fun hc => if_pos hc
      · exact fun hc => if_neg hc
      · simp only [Bool.or_eq_true, decide_eq_true_eq, ih2, List.mem_cons, exists_eq_or_imp,
          true_and]
    · have h1 : check_conflict_loop v extra (t :: rest) =
          (t :: (check_conflict_loop v extra rest).1, (check_conflict_loop v extra rest).2) := by
        simp [check_conflict_loop, hk]
      rw [h1]
      refine ⟨List.Forall₂.cons ⟨fun _ => rfl, fun h => absurd h hk⟩ ih1, ?_⟩
      simp only [ih2, List.mem_cons, exists_eq_or_imp, hk, false_and, false_or]

/-- C34: `check_conflict` for a variable `v` (a local or an upvalue in the
source) whose index is not the register frontier `extra` = `fs->freereg`.
Afterwards the chain has the same
targets in the same order, where a target that is not indexed is unchanged
and an indexed target differs at most in its table and index operands: it
does not have `v` as its table operand any more and, when `v` is a local, not
`v`'s register as its index operand; an operand that conflicted is now the local
register `extra`, an operand that did not is unchanged.  If some operand of some
indexed target conflicted, exactly one copy instruction into `extra` (`OP_MOVE`
for a local, `OP_GETUPVAL` for an upvalue) is emitted and one register is
reserved; otherwise the function state is unchanged.  No property of the
kind of `v` is used: the source takes every kind other than the local for an
upvalue. -/
theorem check_conflict_redirects (fs : FuncState) (lh : List expdesc) (v : expdesc)
    (hx : v.info ≠ (fs.freereg : Int)) :
    List.Forall₂ (fun t t1 : expdesc =>
        (t.k ≠ expkind.VINDEXED → t1 = t) ∧
        (t.k = expkind.VINDEXED →
          t1 = { t with ind_vt := t1.ind_vt, ind_t := t1.ind_t, ind_idx := t1.ind_idx } ∧
          ¬ (t1.ind_vt = v.k ∧ t1.ind_t = v.info) ∧
          (v.k = expkind.VLOCAL → t1.ind_idx ≠ v.info) ∧
          ((t.ind_vt = v.k ∧ t.ind_t = v.info) →
            t1.ind_vt = expkind.VLOCAL ∧ t1.ind_t = (fs.freereg : Int)) ∧
          (¬ (t.ind_vt = v.k ∧ t.ind_t = v.info) →
            t1.ind_vt = t.ind_vt ∧ t1.ind_t = t.ind_t) ∧
          ((v.k = expkind.VLOCAL ∧ t.ind_idx = v.info) → t1.ind_idx = (fs.freereg : Int)) ∧
          (¬ (v.k = expkind.VLOCAL ∧ t.ind_idx = v.info) → t1.ind_idx = t.ind_idx)))
      lh (check_conflict fs lh v).1 ∧
    ((∃ t ∈ lh, t.k = expkind.VINDEXED ∧
        ((t.ind_vt = v.k ∧ t.ind_t = v.info) ∨ (v.k = expkind.VLOCAL ∧ t.ind_idx = v.info))) →
      (check_conflict fs lh v).2 =
        { fs with
          pc := fs.pc + 1,
          freereg := fs.freereg + 1,
          kcalls := fs.kcalls ++
            [KCall.codeABC fs.pc
                (if v.k = expkind.VLOCAL then OpCode.OP_MOVE else OpCode.OP_GETUPVAL)
                (fs.freereg : Int) v.info 0,
              KCall.reserveregs 1] }) ∧
    (¬ (∃ t ∈ lh, t.k = expkind.VINDEXED ∧
        ((t.ind_vt = v.k ∧ t.ind_t = v.info) ∨ (v.k = expkind.VLOCAL ∧ t.ind_idx = v.info))) →
      (check_conflict fs lh v).2 = fs) := by
  obtain ⟨h1, h2⟩ := check_conflict_loop_spec v (fs.freereg : Int) lh
  have hfst : (check_conflict fs lh v).1 = (check_conflict_loop v (fs.freereg : Int) lh).1 := by
    simp only [check_conflict]; split <;> rfl
  refine ⟨?_, ?_, ?_⟩
  · rw [hfst]
    refine List.Forall₂.imp ?_ h1
    intro t t1 ⟨ha, hb⟩
    refine ⟨ha, fun hki => ?_⟩
    obtain ⟨e0, e1, e2, e3, e4⟩ := hb hki
    refine ⟨e0, ?_, ?_, e1, e2, e3, e4⟩
    · intro ⟨c1, c2⟩
      by_cases hc : t.ind_vt = v.k ∧ t.ind_t = v.info
      · exact hx ((e1 hc).2 ▸ c2).symm
      · exact hc ⟨(e2 hc).1 ▸ c1, (e2 hc).2 ▸ c2⟩
    · intro hl c
      by_cases hc : v.k = expkind.VLOCAL ∧ t.ind_idx = v.info
      · exact hx ((e3 hc) ▸ c).symm
      · exact hc ⟨hl, (e4 hc) ▸ c⟩
  · intro hc
    have := h2.mpr hc
    simp only [check_conflict, this, if_true, luaK_reserveregs, luaK_codeABC, List.append_assoc,
      List.singleton_append]
  · intro hc
    have : (check_conflict_loop v (fs.freereg : Int) lh).2 = false := by
      cases hb : (check_conflict_loop v (fs.freereg : Int) lh).2 with
      | false => rfl
      | true => exact absurd (h2.mp hb) hc
    simp only [check_conflict, this]
    rfl

/-- Witness of C34: the local in register 0 is assigned after the targets
`a[b]` (table in register 0), a local and `b[a]` (index in register 0) with
the frontier at register 3: both operands are redirected to register 3 and
one `OP_MOVE` into register 3 is emitted. -/
theorem check_conflict_redirects_witness :
    (check_conflict sampleFsThree sampleTargets (init_exp expkind.VLOCAL 0)).1 =
      [{ k := expkind.VINDEXED, ind_vt := expkind.VLOCAL, ind_t := 3, ind_idx := 1 },
       init_exp expkind.VLOCAL 2,
       { k := expkind.VINDEXED, ind_vt := expkind.VLOCAL, ind_t := 1, ind_idx := 3 }] ∧
    (check_conflict sampleFsThree sampleTargets (init_exp expkind.VLOCAL 0)).2 =
      { sampleFsThree with
        pc := 1, freereg := 4,
        kcalls := [KCall.codeABC 0 OpCode.OP_MOVE 3 0 0, KCall.reserveregs 1] } :=
  ⟨by decide,
    (check_conflict_redirects sampleFsThree sampleTargets (init_exp expkind.VLOCAL 0)
      (by decide)).2.1
      ⟨_, List.mem_cons_self _ _, rfl, Or.inl ⟨rfl, rfl⟩⟩⟩

/-! ## Theorems: the pending items of a constructor -/

theorem subexpr_nonvoid (simpleexp : ExprParser) (hS : NonVoid simpleexp) (fuel : Nat) :
    (∀ (ls ls1 : LexState) (limit : Nat) (v : expdesc) (op : BinOpr),
      subexpr simpleexp fuel ls limit = Except.ok ((v, op), ls1) → v.k ≠ expkind.VVOID) ∧
    (∀ (ls ls1 : LexState) (v v1 : expdesc) (op op1 : BinOpr) (limit : Nat),
      v.k ≠ expkind.VVOID →
      subexpr_while simpleexp fuel ls v op limit = Except.ok ((v1, op1), ls1) →
      v1.k ≠ expkind.VVOID) := by
  induction fuel with
  | zero =>
    constructor
    · intro ls ls1 limit v op h; simp [subexpr] at h
    · intro ls ls1 v v1 op op1 limit _ h; simp [subexpr_while] at h
  | succ fuel ih =>
    obtain ⟨_, ih2⟩ := ih
    constructor
    · intro ls ls1 limit v op h
      simp only [subexpr] at h
      split at h
      · cases h
      split at h
      · cases h
      rename_i v0 ls2 hr
      refine ih2 _ _ _ _ _ _ _ ?_ h
      split at hr
      · split at hr
        · cases hr
        obtain ⟨_, _, _, _, _, _, fs, prev, _, hv, _⟩ := onFs_frame _ _ _ _ hr
        rw [hv]
        simp [ luaK_prefix, init_exp]
      · exact hS _ _ _ hr
    · intro ls ls1 v v1 op op1 limit hv h
      simp only [subexpr_while] at h
      split at h
      · split at h
        · cases h
        split at h
        · cases h
        split at h
        · cases h
        rename_i v3 ls3 hp
        refine ih2 _ _ _ _ _ _ _ ?_ h
        obtain ⟨_, _, _, _, _, _, fs, prev, _, hv3, _⟩ := onFs_frame _ _ _ _ hp
        rw [hv3]
        simp [luaK_posfix, init_exp]
      · simp only [Except.ok.injEq, Prod.mk.injEq] at h
        obtain ⟨⟨rfl, _⟩, _⟩ := h
        exact hv

theorem expr_nonvoid (simpleexp : ExprParser) (hS : NonVoid simpleexp) (fuel : Nat) :
    NonVoid (expr simpleexp fuel) := by
  intro ls ls1 v h
  simp only [expr] at h
  split at h
  · cases h
  rename_i v0 op ls2 hs
  simp only [Except.ok.injEq, Prod.mk.injEq] at h
  obtain ⟨rfl, _⟩ := h
  exact (subexpr_nonvoid simpleexp hS fuel).1 _ _ _ _ _ hs

theorem simpleexp_nonvoid (E : ExpRules) (hc : NonVoid E.constructor)
    (hb : ∀ m l, NonVoid (fun ls => E.body ls m l)) (hs : NonVoid E.suffixedexp) :
    NonVoid (simpleexp E) := by
  intro ls ls1 v h
  simp only [simpleexp] at h
  repeat' split at h
  all_goals try cases h
  all_goals try (simp [init_exp]; done)
  · exact hc _ _ _ h
  · exact hb _ _ _ _ _ h
  · exact hs _ _ _ h

theorem constructor_nonvoid (X : ExprParser) (fuel : Nat) : NonVoid (constructor X fuel) := by
  intro ls ls1 v h
  simp only [constructor] at h
  repeat' split at h
  all_goals try cases h
  rename_i hopen _ _ _ _ _ _
  simp only [constructor_open] at hopen
  repeat' split at hopen
  all_goals try cases hopen
  rename_i hq _ _
  obtain ⟨_, _, _, _, _, _, fs, prev, _, hv, _⟩ := onFs_frame _ _ _ _ hq
  show _ ≠ _
  rw [hv]
  simp [luaK_exp2nextreg, init_exp]

theorem body_nonvoid (S : StmtParser) (fuel : Nat) (m : Bool) (l : Int) :
    NonVoid (fun ls => body S fuel ls m l) := by
  intro ls ls1 v h
  simp only [body] at h
  repeat' split at h
  all_goals try cases h
  rename_i hcc _
  simp only [codeclosure] at hcc
  split at hcc
  · simp only [Except.ok.injEq, Prod.mk.injEq] at hcc
    obtain ⟨rfl, _⟩ := hcc
    simp [luaK_exp2nextreg, init_exp]
  · cases hcc

theorem dischargedKind_nonvoid (fs : FuncState) (e : expdesc) (h : e.k ≠ expkind.VVOID) :
    (dischargedKind fs e).k ≠ expkind.VVOID := by
  unfold dischargedKind
  split <;> simp_all

theorem singlevar_nonvoid : NonVoid singlevar := by
  intro ls ls1 v h
  simp only [singlevar] at h
  repeat' split at h
  all_goals try cases h
  · obtain ⟨_, _, _, _, _, _, fs, prev, _, hv, _⟩ := onFs_frame _ _ _ _ h
    rw [hv]
    simp [luaK_indexed]
  · assumption

theorem primaryexp_nonvoid (X : ExprParser) (hX : NonVoid X) : NonVoid (primaryexp X) := by
  intro ls ls1 v h
  simp only [primaryexp] at h
  repeat' split at h
  all_goals try cases h
  · obtain ⟨_, _, _, _, _, _, fs, prev, _, hv, _⟩ := onFs_frame _ _ _ _ h
    rw [hv]
    exact dischargedKind_nonvoid _ _ (hX _ _ _ (by assumption))
  · exact singlevar_nonvoid _ _ _ h

theorem funcargs_nonvoid (X : ExprParser) (fuel : Nat) (f : expdesc) (line : Int) :
    NonVoid (fun ls => funcargs X fuel ls f line) := by
  intro ls ls1 v h
  simp only [funcargs] at h
  split at h
  · cases h
  obtain ⟨_, _, _, _, _, _, fs, prev, _, hv, _⟩ := onFs_frame _ _ _ _ h
  rw [hv]
  simp [init_exp]

theorem fieldsel_nonvoid (v : expdesc) : NonVoid (fun ls => fieldsel ls v) := by
  intro ls ls1 v1 h
  simp only [fieldsel] at h
  repeat' split at h
  all_goals try cases h
  obtain ⟨_, _, _, _, _, _, fs, prev, _, hv, _⟩ := onFs_frame _ _ _ _ h
  rw [hv]
  simp [luaK_indexed]

theorem suffixedexp_loop_nonvoid (X : ExprParser) (line : Int) :
    ∀ (fuel : Nat) (v : expdesc), v.k ≠ expkind.VVOID →
      NonVoid (suffixedexp_loop X line fuel v) := by
  intro fuel
  induction fuel with
  | zero => intro v _ ls ls1 v1 h; simp [suffixedexp_loop] at h
  | succ fuel ih =>
    intro v hv ls ls1 v1 h
    simp only [suffixedexp_loop] at h
    repeat' split at h
    all_goals try cases h
    all_goals first
      | exact hv
      | exact ih _ (fieldsel_nonvoid _ _ _ _ (by assumption)) _ _ _ h
      | exact ih _ (funcargs_nonvoid X _ _ _ _ _ _ (by assumption)) _ _ _ h
      | skip
    refine ih _ ?_ _ _ _ h
    rename_i hq
    obtain ⟨_, _, _, _, _, _, fs, prev, _, hv2, _⟩ := onFs_frame _ _ _ _ hq
    rw [hv2]
    simp [luaK_indexed]

theorem suffixedexp_nonvoid (X : ExprParser) (hX : NonVoid X) (fuel : Nat) :
    NonVoid (suffixedexp X fuel) := by
  intro ls ls1 v h
  simp only [suffixedexp] at h
  split at h
  · cases h
  exact suffixedexp_loop_nonvoid X _ _ _
    (primaryexp_nonvoid X hX _ _ _ (by assumption)) _ _ _ h

theorem parsers_nonvoid (n : Nat) : NonVoid (parsers n).2 := by
  induction n with
  | zero => intro ls ls1 v h; simp [parsers] at h
  | succ n ih =>
    simp only [parsers]
    refine expr_nonvoid _ (simpleexp_nonvoid _ ?_ ?_ ?_) _
    · exact constructor_nonvoid _ _
    · exact fun m l => body_nonvoid _ _ m l
    · exact suffixedexp_nonvoid _ ih _

theorem closelistfield_pending (fs : FuncState) (cc : ConsControl) (h : PendingOk cc) :
    (closelistfield fs cc).1.v.k = expkind.VVOID ∧
    0 ≤ (closelistfield fs cc).1.tostore ∧
    (closelistfield fs cc).1.tostore < LFIELDS_PER_FLUSH ∧
    (cc.tostore = LFIELDS_PER_FLUSH →
      (closelistfield fs cc).1.tostore = 0 ∧
      (closelistfield fs cc).2.kcalls =
        fs.kcalls ++ [KCall.exp2nextreg cc.v,
          KCall.setlist cc.t.info cc.na LFIELDS_PER_FLUSH]) ∧
    (cc.tostore ≠ LFIELDS_PER_FLUSH →
      (closelistfield fs cc).1.tostore = cc.tostore ∧
      (closelistfield fs cc).2.kcalls =
        fs.kcalls ++ (if cc.v.k = expkind.VVOID then [] else [KCall.exp2nextreg cc.v])) := by
  obtain ⟨h0, h1, _, h3⟩ := h
  unfold closelistfield
  split
  · rename_i hv
    have hne : cc.tostore ≠ LFIELDS_PER_FLUSH := fun he => h3 he hv
    refine ⟨hv, h0, lt_of_le_of_ne h1 hne, fun he => absurd he hne, fun _ => ⟨rfl, ?_⟩⟩
    simp
  · rename_i hv
    simp only []
    split
    · rename_i ht
      have ht2 : cc.tostore = LFIELDS_PER_FLUSH := ht
      refine ⟨rfl, le_refl _, ?_, fun _ => ⟨rfl, ?_⟩, fun he => absurd ht2 he⟩
      · show (0 : Int) < LFIELDS_PER_FLUSH
        decide
      simp [luaK_setlist, luaK_exp2nextreg, FuncState.code, ht2]
    · rename_i ht
      have ht2 : cc.tostore ≠ LFIELDS_PER_FLUSH := ht
      refine ⟨rfl, h0, lt_of_le_of_ne h1 ht2, fun he => absurd he ht2, fun _ => ⟨rfl, ?_⟩⟩
      simp [luaK_exp2nextreg]

/-- C35: the pending-item counter of a table constructor, for an expression
parser that never yields a void descriptor (as the parser of expressions at
every nesting level does, last part).  The loop of `constructor` starts with
`PendingOk` (`0 <= tostore <= 50`, the loop assertion `v.k == VVOID || tostore > 0`,
and a full buffer holds its last item), and every turn of the loop keeps it,
so it holds at every iteration and when the loop ends.  At the start of a
field `closelistfield` emits a list-store of 50 items and resets the counter
to 0 exactly when 50 items are pending, and otherwise emits no list-store
and leaves the counter as it is; a record field does not change the counter
and a list field adds one to it. -/
theorem constructor_pending_bound (expr : ExprParser) (hexpr : NonVoid expr) :
    (∀ (ls ls1 : LexState) (pc : Int) (cc : ConsControl),
      constructor_open ls = Except.ok ((pc, cc), ls1) → PendingOk cc ∧ cc.tostore = 0) ∧
    (∀ (fs : FuncState) (cc : ConsControl), PendingOk cc →
      (closelistfield fs cc).1.v.k = expkind.VVOID ∧
      0 ≤ (closelistfield fs cc).1.tostore ∧
      (closelistfield fs cc).1.tostore < LFIELDS_PER_FLUSH ∧
      (cc.tostore = LFIELDS_PER_FLUSH →
        (closelistfield fs cc).1.tostore = 0 ∧
        (closelistfield fs cc).2.kcalls =
          fs.kcalls ++ [KCall.exp2nextreg cc.v,
            KCall.setlist cc.t.info cc.na LFIELDS_PER_FLUSH]) ∧
      (cc.tostore ≠ LFIELDS_PER_FLUSH →
        (closelistfield fs cc).1.tostore = cc.tostore ∧
        (closelistfield fs cc).2.kcalls =
          fs.kcalls ++ (if cc.v.k = expkind.VVOID then [] else [KCall.exp2nextreg cc.v]))) ∧
    (∀ (ls ls2 : LexState) (cc cc2 : ConsControl),
      recfield expr ls cc = Except.ok (cc2, ls2) → cc2.tostore = cc.tostore ∧ cc2.v = cc.v) ∧
    (∀ (ls ls2 : LexState) (cc cc2 : ConsControl),
      listfield expr ls cc = Except.ok (cc2, ls2) →
      cc2.tostore = cc.tostore + 1 ∧ cc2.v.k ≠ expkind.VVOID) ∧
    (∀ (kind : Bool) (cc cc2 : ConsControl) (ls ls2 : LexState),
      PendingOk cc → FieldStep expr kind cc ls cc2 ls2 → PendingOk cc2) ∧
    (∀ (fuel : Nat) (cc cc1 : ConsControl) (ls ls1 : LexState),
      PendingOk cc → constructor_loop expr fuel cc ls = Except.ok (cc1, ls1) → PendingOk cc1) ∧
    (∀ n : Nat, NonVoid (parsers n).2) := by
  have hrec : ∀ (ls ls2 : LexState) (cc cc2 : ConsControl),
      recfield expr ls cc = Except.ok (cc2, ls2) → cc2.tostore = cc.tostore ∧ cc2.v = cc.v := by
    intro ls ls2 cc cc2 h
    rw [recfield_spec expr ls ls2 cc cc2 h]
    exact ⟨rfl, rfl⟩
  have hlist : ∀ (ls ls2 : LexState) (cc cc2 : ConsControl),
      listfield expr ls cc = Except.ok (cc2, ls2) →
      cc2.tostore = cc.tostore + 1 ∧ cc2.v.k ≠ expkind.VVOID := by
    intro ls ls2 cc cc2 h
    obtain ⟨v, hv, rfl⟩ := listfield_spec expr ls ls2 cc cc2 h
    exact ⟨rfl, hexpr _ _ _ hv⟩
  have hfield : ∀ (ls ls2 : LexState) (cc cc2 : ConsControl),
      cc.v.k = expkind.VVOID → 0 ≤ cc.tostore → cc.tostore < LFIELDS_PER_FLUSH →
      field expr ls cc = Except.ok (cc2, ls2) → PendingOk cc2 := by
    intro ls ls2 cc cc2 hv h0 h1 h
    rw [field_eq] at h
    split at h
    · obtain ⟨e1, e2⟩ := hlist _ _ _ _ h
      refine ⟨by omega, by omega, Or.inr (by omega), fun _ => e2⟩
    · obtain ⟨e1, e2⟩ := hrec _ _ _ _ h
      refine ⟨by omega, by omega, Or.inl (by rw [e2]; exact hv), fun he => ?_⟩
      omega
  have hturn : ∀ (ls ls1 ls2 : LexState) (cc cc1 cc2 : ConsControl),
      PendingOk cc → ls.onFs (fun fs => closelistfield fs cc) = Except.ok (cc1, ls1) →
      field expr ls1 cc1 = Except.ok (cc2, ls2) → PendingOk cc2 := by
    intro ls ls1 ls2 cc cc1 cc2 hp hc hf
    obtain ⟨_, _, _, _, _, _, fs, prev, _, hcc1, _⟩ := onFs_frame _ _ _ _ hc
    obtain ⟨c1, c2, c3, _, _⟩ := closelistfield_pending fs cc hp
    rw [← hcc1] at c1 c2 c3
    exact hfield _ _ _ _ c1 c2 c3 hf
  refine ⟨?_, closelistfield_pending, hrec, hlist, ?_, ?_, parsers_nonvoid⟩
  · intro ls ls1 pc cc h
    simp only [constructor_open] at h
    repeat' split at h
    all_goals try cases h
    exact ⟨⟨le_refl _, by simp [LFIELDS_PER_FLUSH], Or.inl rfl, fun he => by simp [LFIELDS_PER_FLUSH] at he⟩, rfl⟩
  · intro kind cc cc2 ls ls2 hp hs
    obtain ⟨_, _, cc1, ls1, hc, hf⟩ := hs
    exact hturn _ _ _ _ _ _ hp hc hf
  · intro fuel
    induction fuel with
    | zero => intro cc cc1 ls ls1 _ h; simp [constructor_loop] at h
    | succ fuel ih =>
      intro cc cc1 ls ls1 hp h
      simp only [constructor_loop] at h
      split at h
      · simp only [Except.ok.injEq, Prod.mk.injEq] at h
        obtain ⟨rfl, _⟩ := h
        exact hp
      split at h
      · cases h
      split at h
      · cases h
      rename_i cc2 ls2 hc _ cc3 ls3 hf
      have hp3 : PendingOk cc3 := hturn _ _ _ _ _ _ hp hc hf
      repeat' split at h
      · exact ih _ _ _ _ hp3 h
      · exact ih _ _ _ _ hp3 h
      · simp only [Except.ok.injEq, Prod.mk.injEq] at h
        obtain ⟨rfl, _⟩ := h
        exact hp3

/-- Witness of C35: with 50 items pending, the start of the next list item
`8` flushes them and the item makes one pending. -/
theorem constructor_pending_bound_witness :
    PendingOk sampleFullCc ∧
    PendingOk { v := intLit 8, t := init_exp expkind.VNONRELOC 0, na := 51, tostore := 1 } :=
  ⟨by simp [PendingOk, sampleFullCc, LFIELDS_PER_FLUSH, intLit, init_exp],
    (constructor_pending_bound (parsers 3).2 (parsers_nonvoid 3)).2.2.2.2.1 true sampleFullCc
      { v := intLit 8, t := init_exp expkind.VNONRELOC 0, na := 51, tostore := 1 }
      (sampleStart lastItemToks) _
      (by simp [PendingOk, sampleFullCc, LFIELDS_PER_FLUSH, intLit, init_exp])
      ⟨by decide, rfl, _, _, rfl, rfl⟩⟩

/-! ## Theorems: a label at the end of its block -/

theorem enterlevel_inv (ls ls1 : LexState) (h : enterlevel ls = Except.ok ls1) :
    ls1 = { ls with nCcalls := ls.nCcalls + 1 } := by
  simp only [enterlevel] at h
  repeat' split at h
  all_goals try cases h
  rfl

theorem noop_labels_kept (R : StatRules) (fuel : Nat) :
    (∀ ls ls1 : LexState, (ls.t.token = Tok.chr ';' ∨ ls.t.token = Tok.TK_DBCOLON) →
      statement R fuel ls = Except.ok ls1 → ∃ t, ls1.dyd.label = ls.dyd.label ++ t) ∧
    (∀ ls ls1 : LexState, skipnoopstat R fuel ls = Except.ok ls1 →
      ∃ t, ls1.dyd.label = ls.dyd.label ++ t) ∧
    (∀ (ls ls1 : LexState) (L : TString) (line : Int),
      labelstat R fuel ls L line = Except.ok ls1 → ∃ t, ls1.dyd.label = ls.dyd.label ++ t) := by
  induction fuel with
  | zero =>
    refine ⟨?_, ?_, ?_⟩
    · intro ls ls1 _ h; simp [statement] at h
    · intro ls ls1 h; simp [skipnoopstat] at h
    · intro ls ls1 L line h; simp [labelstat] at h
  | succ fuel ih =>
    obtain ⟨ih1, ih2, ih3⟩ := ih
    refine ⟨?_, ?_, ?_⟩
    · intro ls ls1 htok h
      simp only [statement] at h
      split at h
      · cases h
      rename_i lsA hent
      have hA := enterlevel_inv _ _ hent
      subst hA
      split at h
      · cases h
      split at h
      · cases h
      rename_i lsB hmid _ fsB tl hfsB
      simp only [Except.ok.injEq] at h
      subst h
      show ∃ t, lsB.dyd.label = ls.dyd.label ++ t
      rcases htok with htok | htok
      · simp only [htok, Except.ok.injEq] at hmid
        subst hmid
        exact ⟨[], by simp [luaX_next_dyd]⟩
      · simp only [htok] at hmid
        split at hmid
        · cases hmid
        rename_i nm lsC hname
        obtain ⟨_, _, rfl⟩ := str_checkname_inv _ _ _ hname
        obtain ⟨t, ht⟩ := ih3 _ _ _ _ hmid
        exact ⟨t, by simpa [luaX_next_dyd] using ht⟩
    · intro ls ls1 h
      simp only [skipnoopstat] at h
      split at h
      · rename_i htok
        split at h
        · cases h
        rename_i lsA hst
        obtain ⟨t1, ht1⟩ := ih1 _ _ htok hst
        obtain ⟨t2, ht2⟩ := ih2 _ _ h
        exact ⟨t1 ++ t2, by rw [ht2, ht1, List.append_assoc]⟩
      · cases h
        exact ⟨[], by simp⟩
    · intro ls ls1 L line h
      simp only [labelstat] at h
      repeat' split at h
      all_goals try cases h
      all_goals
        rename_i hck _ l label1 hnew _ lsC hskip _ _ fsC prevC lb hfsC hget _ blC restC hblC _
        obtain ⟨t, ht⟩ := ih2 _ _ hskip
        have hlab := findgotos_label _ _ _ h
        simp only at ht hlab
        unfold newlabelentry at hnew
        repeat' split at hnew
        all_goals try cases hnew
        unfold checknext at hck
        split at hck
        · cases hck
        cases hck
        rw [luaX_next_dyd] at ht hget
        rw [hlab, ht, List.append_assoc, luaX_next_dyd,
          List.set_append_right _ _ (le_refl _)]
        exact ⟨_, rfl⟩

/-- C36: a label `L` at whose closing `::` the parser is, in the block `bl` of
the function `fs`; `s2` is the state after the no-op statements (`;` and
further labels) that follow it, in which the current block is `bl2`.  The
entry of the label is still as it was created, with the current number
`fs.nactvar` of active locals.  `block_follow(ls, 0)` holds in `s2` exactly when
the token there is `else`, `elseif`, `end` or the end of the stream (not
`until`); then `labelstat` records the label with the entry count `bl2.nactvar`
of the block and closes the pending gotos with it, so every pending goto of
the block named `L` that has at least that count (as a goto issued in the
block has) is patched to the label and none raises the jumps-into-scope
error, whatever locals were declared since; otherwise the label keeps the
count `fs.nactvar`. -/
theorem label_block_end_level (R : StatRules) (fuel : Nat) (ls s2 : LexState)
    (fs fs2 : FuncState) (prev prev2 : List FuncState) (bl bl2 : BlockCnt)
    (previous previous2 : List BlockCnt) (L : TString) (line : Int)
    (hfs : ls.fs = fs :: prev) (hbl : fs.bl = bl :: previous)
    (htok : ls.t.token = Tok.TK_DBCOLON)
    (hrep : ∀ lb ∈ ls.dyd.label.drop bl.firstlabel, lb.name ≠ L)
    (hlim : (ls.dyd.label.length : Int) < SHRT_MAX)
    (hskip : skipnoopstat R fuel
      { luaX_next ls with
        fs := (luaK_getlabel fs).2 :: prev,
        dyd := { ls.dyd with
          label := ls.dyd.label ++
            [{ name := L, line := line, nactvar := fs.nactvar, pc := fs.pc }] } } =
        Except.ok s2)
    (hfs2 : s2.fs = fs2 :: prev2) (hbl2 : fs2.bl = bl2 :: previous2) :
    s2.dyd.label.get? ls.dyd.label.length =
      some { name := L, line := line, nactvar := fs.nactvar, pc := fs.pc } ∧
    (block_follow s2 false = true ↔
      (s2.t.token = Tok.TK_ELSE ∨ s2.t.token = Tok.TK_ELSEIF ∨ s2.t.token = Tok.TK_END ∨
        s2.t.token = Tok.TK_EOS)) ∧
    (block_follow s2 false = true →
      labelstat R (fuel + 1) ls L line =
        findgotos
          { s2 with dyd := { s2.dyd with
            label := s2.dyd.label.set ls.dyd.label.length
              { name := L, line := line, nactvar := bl2.nactvar, pc := fs.pc } } }
          { name := L, line := line, nactvar := bl2.nactvar, pc := fs.pc }) ∧
    (block_follow s2 false = false →
      labelstat R (fuel + 1) ls L line =
        findgotos
          { s2 with dyd := { s2.dyd with
            label := s2.dyd.label.set ls.dyd.label.length
              { name := L, line := line, nactvar := fs.nactvar, pc := fs.pc } } }
          { name := L, line := line, nactvar := fs.nactvar, pc := fs.pc }) ∧
    (block_follow s2 false = true → bl2.firstgoto ≤ s2.dyd.gt.length →
      (∀ x ∈ s2.dyd.gt.drop bl2.firstgoto, x.name = L → bl2.nactvar ≤ x.nactvar) →
      ∃ ls1 : LexState, labelstat R (fuel + 1) ls L line = Except.ok ls1 ∧
        ls1.fs = { fs2 with
          kcalls := fs2.kcalls ++
            patchCalls fs.pc (gotosNamed L (s2.dyd.gt.drop bl2.firstgoto)) } :: prev2 ∧
        ls1.dyd.gt = s2.dyd.gt.take bl2.firstgoto ++
          gotosNotNamed L (s2.dyd.gt.drop bl2.firstgoto)) := by
  have hchk : checkrepeated fs ls.dyd.label L = Except.ok () :=
    ((checkrepeated_iff fs bl previous ls.dyd.label L hbl).2).mpr hrep
  have hnext : checknext ls Tok.TK_DBCOLON = Except.ok (luaX_next ls) := by
    simp [checknext, check, htok]
  have hnew : newlabelentry (luaX_next ls) (luaX_next ls).dyd.label L line fs.pc =
      Except.ok (ls.dyd.label.length,
        ls.dyd.label ++ [{ name := L, line := line, nactvar := fs.nactvar, pc := fs.pc }]) := by
    unfold newlabelentry
    rw [luaX_next_fs, hfs, luaX_next_dyd]
    have : ¬ ((ls.dyd.label.length : Int) ≥ SHRT_MAX) := by omega
    simp [this]
  have hget : s2.dyd.label.get? ls.dyd.label.length =
      some { name := L, line := line, nactvar := fs.nactvar, pc := fs.pc } := by
    obtain ⟨t, ht⟩ := (noop_labels_kept R fuel).2.1 _ _ hskip
    rw [ht]
    simp only [List.append_assoc, List.singleton_append]
    exact get?_append_length _ _ _
  have hbf : block_follow s2 false = true ↔
      (s2.t.token = Tok.TK_ELSE ∨ s2.t.token = Tok.TK_ELSEIF ∨ s2.t.token = Tok.TK_END ∨
        s2.t.token = Tok.TK_EOS) := by
    unfold block_follow
    split <;> simp_all
  have hstat : labelstat R (fuel + 1) ls L line =
      findgotos
        { s2 with dyd := { s2.dyd with
          label := s2.dyd.label.set ls.dyd.label.length
            (if block_follow s2 false then
              { name := L, line := line, nactvar := bl2.nactvar, pc := fs.pc }
            else { name := L, line := line, nactvar := fs.nactvar, pc := fs.pc }) } }
        (if block_follow s2 false then
          { name := L, line := line, nactvar := bl2.nactvar, pc := fs.pc }
        else { name := L, line := line, nactvar := fs.nactvar, pc := fs.pc }) := by
    have hdyd : (luaX_next ls).dyd = ls.dyd := luaX_next_dyd ls
    rw [labelstat, hfs]
    simp only [hchk, hnext, luaK_getlabel, hnew]
    simp only [luaK_getlabel, hdyd] at hskip
    simp only [hdyd, hskip, hfs2, hget, hbl2]
  refine ⟨hget, hbf, ?_, ?_, ?_⟩
  · intro h
    rw [hstat]
    simp only [h, if_true]
  · intro h
    rw [hstat]
    simp only [h, Bool.false_eq_true, if_false]
  · intro h hfg hall
    rw [hstat]
    simp only [h, if_true]
    refine ⟨_, findgotos_ok
      { s2 with dyd := { s2.dyd with
        label := s2.dyd.label.set ls.dyd.label.length
          { name := L, line := line, nactvar := bl2.nactvar, pc := fs.pc } } }
      { name := L, line := line, nactvar := bl2.nactvar, pc := fs.pc }
      fs2 prev2 bl2 previous2 hfs2 hbl2 hfg
      (fun x hx hm => hall x hx (by simpa [eqstr] using hm)), rfl, rfl⟩

/-- Witness of C36: in `do goto L local x ::L:: ; end` the label is followed
by `;` and `end` only; it takes the entry count 0 of the block although `x` is
active, and the goto is patched to it. -/
theorem label_block_end_level_witness :
    ∃ ls1 : LexState, labelstat localStatRules 3 sampleAtLabelBeforeEnd "L" 1 = Except.ok ls1 ∧
      ls1.fs.map FuncState.kcalls =
        [[KCall.jump 0, KCall.reserveregs 1, KCall.nil 0 1, KCall.getlabel 1,
          KCall.patchlist 0 1]] ∧
      ls1.dyd.gt = [] ∧
      ls1.dyd.label = [{ name := "L", pc := 1, line := 1, nactvar := 0 }] := by
  obtain ⟨ls1, h1, h2, h3⟩ :=
    (label_block_end_level localStatRules 2 sampleAtLabelBeforeEnd _
      { sampleFsLocal with bl := [sampleBlock, sampleBlock] } _ [] _ sampleBlock sampleBlock
      [sampleBlock] _ "L" 1 rfl rfl rfl (by decide) (by decide) rfl rfl rfl).2.2.2.2
      rfl (by decide) (by decide)
  refine ⟨ls1, h1, ?_, ?_, ?_⟩
  · rw [h2]; rfl
  · rw [h3]; rfl
  · have := h1
    rw [show labelstat localStatRules 3 sampleAtLabelBeforeEnd "L" 1 = Except.ok
      { t := tk Tok.TK_END,
        fs := [{ sampleFsLocal with
          bl := [sampleBlock, sampleBlock], lasttarget := 1,
          kcalls := [KCall.jump 0, KCall.reserveregs 1, KCall.nil 0 1, KCall.getlabel 1,
            KCall.patchlist 0 1] }],
        dyd := { actvar := [{ idx := 0 }],
                 label := [{ name := "L", pc := 1, line := 1, nactvar := 0 }] } } from by decide]
      at this
    cases this
    rfl

/-! ## Theorems: the close condition of `findlabel` -/

theorem find?_drop_index {α : Type} (p : α → Bool) (l : List α) (k : Nat) (x : α)
    (h : (l.drop k).find? p = some x) :
    ∃ i, k ≤ i ∧ i < l.length ∧ l.get? i = some x := by
  have hm : x ∈ l.drop k := (mem_of_find?_eq_some p _ _ h).1
  obtain ⟨j, hj⟩ := List.get?_of_mem hm
  rw [List.get?_eq_getElem?, List.getElem?_drop, ← List.get?_eq_getElem?] at hj
  refine ⟨k + j, Nat.le_add_right _ _, ?_, hj⟩
  by_contra hge
  rw [List.get?_eq_none.mpr (Nat.le_of_not_lt hge)] at hj
  cases hj

/-- C37: `findlabel` equals its simplified version whose close condition is
only `gt->nactvar > lb->nactvar`, in every state and for every goto; a label
that matches is at an index `i` with `bl->firstlabel <= i < label.n`, so the
disjunct `label.n > bl->firstlabel` holds whenever it is tested and the flag
`bl->upval` has no influence. -/
theorem findlabel_simplified (ls : LexState) (g : Nat) :
    findlabel ls g = findlabel_simple ls g ∧
    ∀ (fs : FuncState) (prev : List FuncState) (bl : BlockCnt) (rest : List BlockCnt)
      (gt lb : Labeldesc),
      ls.fs = fs :: prev → fs.bl = bl :: rest → ls.dyd.gt.get? g = some gt →
      (ls.dyd.label.drop bl.firstlabel).find? (fun lb => eqstr lb.name gt.name) = some lb →
      (∃ i, bl.firstlabel ≤ i ∧ i < ls.dyd.label.length ∧ ls.dyd.label.get? i = some lb) ∧
      ls.dyd.label.length > bl.firstlabel := by
  have key : ∀ (bl : BlockCnt) (gt lb : Labeldesc),
      (ls.dyd.label.drop bl.firstlabel).find? (fun lb => eqstr lb.name gt.name) = some lb →
      (∃ i, bl.firstlabel ≤ i ∧ i < ls.dyd.label.length ∧ ls.dyd.label.get? i = some lb) ∧
      ls.dyd.label.length > bl.firstlabel := by
    intro bl gt lb h
    obtain ⟨i, h1, h2, h3⟩ := find?_drop_index _ _ _ _ h
    exact ⟨⟨i, h1, h2, h3⟩, Nat.lt_of_le_of_lt h1 h2⟩
  constructor
  · cases hfs : ls.fs with
    | nil => simp only [findlabel, findlabel_simple, hfs]
    | cons fs prev =>
      cases hg : ls.dyd.gt.get? g with
      | none => simp only [findlabel, findlabel_simple, hfs, hg]
      | some gt =>
        cases hbl : fs.bl with
        | nil => simp only [findlabel, findlabel_simple, hfs, hg, hbl]
        | cons bl rest =>
          cases hf : (ls.dyd.label.drop bl.firstlabel).find? (fun lb => eqstr lb.name gt.name) with
          | none => simp only [findlabel, findlabel_simple, hfs, hg, hbl, hf]
          | some lb =>
            have hlen := (key bl gt lb hf).2
            simp only [findlabel, findlabel_simple, hfs, hg, hbl, hf, hlen, or_true, and_true]
  · intro fs prev bl rest gt lb _ _ _ h
    exact key bl gt lb h

/-- Witness of C37: a goto with one active local is closed with a label that
has none, in a block without captured upvalue: the close is attached. -/
theorem findlabel_simplified_witness :
    (∃ i, 0 ≤ i ∧ i < sampleGotoOverLabel.dyd.label.length ∧
      sampleGotoOverLabel.dyd.label.get? i = some sampleLabel) ∧
    findlabel sampleGotoOverLabel 0 =
      Except.ok (true,
        { sampleGotoOverLabel with
          fs := [{ sampleFsLabel with
            nactvar := 1,
            kcalls := [KCall.getlabel 0, KCall.jump 0, KCall.patchclose 1 0,
              KCall.patchlist 1 0] }],
          dyd := { label := [sampleLabel] } }) :=
  ⟨((findlabel_simplified sampleGotoOverLabel 0).2 { sampleFsLabel with nactvar := 1 } []
      sampleBlock [] { name := "L", pc := 1, line := 1, nactvar := 1 } sampleLabel
      rfl rfl rfl rfl).1,
    by decide⟩

/-! ## Theorems: the environment variable always resolves -/

theorem getLast?_cons_cons {α : Type} (a b : α) (l : List α) :
    (a :: b :: l).getLast? = (b :: l).getLast? := by
  simp [List.getLast?_cons_cons]

theorem envAtBottom_head (envn : TString) (fs fs1 : FuncState) (prev : List FuncState)
    (hf : fs1.f.upvalues = fs.f.upvalues ∨ ∃ d, fs1.f.upvalues = fs.f.upvalues ++ [d])
    (h : EnvAtBottom envn (fs :: prev)) : EnvAtBottom envn (fs1 :: prev) := by
  cases prev with
  | nil =>
    obtain ⟨g, hg, hm⟩ := h
    simp only [List.getLast?_singleton, Option.some.injEq] at hg
    subst hg
    refine ⟨fs1, by simp, ?_⟩
    rcases hf with e | ⟨d, e⟩
    · rw [e]; exact hm
    · rw [e, List.map_append]; exact List.mem_append_left _ hm
  | cons b l =>
    obtain ⟨g, hg, hm⟩ := h
    rw [getLast?_cons_cons] at hg
    exact ⟨g, by rw [getLast?_cons_cons]; exact hg, hm⟩

theorem envAtBottom_tail (envn : TString) (fs1 : FuncState) (b : FuncState)
    (prev1 : List FuncState) (h : EnvAtBottom envn (b :: prev1)) :
    EnvAtBottom envn (fs1 :: b :: prev1) := by
  obtain ⟨g, hg, hm⟩ := h
  exact ⟨g, by rw [getLast?_cons_cons]; exact hg, hm⟩

theorem singlevaraux_env (dyd : Dyndata) (envn : TString) :
    ∀ (fss fss1 : List FuncState) (base : Bool) (var : expdesc),
      EnvAtBottom envn fss → singlevaraux dyd fss envn base = Except.ok (var, fss1) →
      (var.k = expkind.VLOCAL ∨ var.k = expkind.VUPVAL) ∧ EnvAtBottom envn fss1 ∧
      fss1.length = fss.length ∧
      (var.k = expkind.VUPVAL → ∃ (fs1 : FuncState) (rest : List FuncState) (i : Nat)
        (d : Upvaldesc), fss1 = fs1 :: rest ∧ var.info = (i : Int) ∧
          fs1.f.upvalues.get? i = some d ∧ d.name = envn) := by
  intro fss
  induction fss with
  | nil =>
    intro fss1 base var henv _
    obtain ⟨g, hg, _⟩ := henv
    cases hg
  | cons fs prev ih =>
    intro fss1 base var henv h
    rw [singlevaraux] at h
    simp only [] at h
    split at h
    · split at h
      · simp only [Except.ok.injEq, Prod.mk.injEq] at h
        obtain ⟨rfl, rfl⟩ := h
        exact ⟨Or.inl rfl, henv, rfl, fun hk => by simp [init_exp] at hk⟩
      · split at h
        · cases h
        rename_i fsm hmark
        simp only [Except.ok.injEq, Prod.mk.injEq] at h
        obtain ⟨rfl, rfl⟩ := h
        refine ⟨Or.inl rfl, envAtBottom_head envn fs fsm prev
          (Or.inl (by rw [markupval_f fs fsm _ hmark])) henv, rfl,
          fun hk => by simp [init_exp] at hk⟩
    · split at h
      · rename_i hidx
        have hnot : envn ∉ fs.f.upvalues.map Upvaldesc.name :=
          (searchupvalue_loop_neg_iff envn fs.f.upvalues 0).mp hidx
        cases prev with
        | nil =>
          obtain ⟨g, hg, hm⟩ := henv
          simp only [List.getLast?_singleton, Option.some.injEq] at hg
          subst hg
          exact absurd hm hnot
        | cons b l =>
          have henv2 : EnvAtBottom envn (b :: l) := by
            obtain ⟨g, hg, hm⟩ := henv
            rw [getLast?_cons_cons] at hg
            exact ⟨g, hg, hm⟩
          split at h
          · cases h
          rename_i var0 prev1 hrec
          obtain ⟨hk, henv1, hlen, _⟩ := ih prev1 false var0 henv2 hrec
          have hnv : var0.k ≠ expkind.VVOID := by
            rcases hk with e | e <;> rw [e] <;> decide
          rw [if_neg hnv] at h
          split at h
          · cases h
          rename_i idx1 fsn hnew
          simp only [Except.ok.injEq, Prod.mk.injEq] at h
          obtain ⟨rfl, rfl⟩ := h
          obtain ⟨e1, _, e3⟩ := newupvalue_ok fs envn var0 idx1 fsn hnew
          cases prev1 with
          | nil => simp at hlen
          | cons b1 l1 =>
            refine ⟨Or.inr rfl, envAtBottom_tail envn fsn b1 l1 henv1, by simpa using hlen,
              fun _ => ⟨fsn, b1 :: l1, fs.nups,
                { name := envn, instack := decide (var0.k = expkind.VLOCAL),
                  idx := cast_byte var0.info }, rfl, e1, ?_, rfl⟩⟩
            rw [e3]
            simp [FuncState.addUpvalue, FuncState.nups]
      · rename_i hidx
        simp only [Except.ok.injEq, Prod.mk.injEq] at h
        obtain ⟨rfl, rfl⟩ := h
        obtain ⟨i, d, e1, e2, e3⟩ := searchupvalue_loop_get envn fs.f.upvalues 0 hidx
        refine ⟨Or.inr rfl, henv, rfl, fun _ => ⟨fs, prev, i, d, rfl, ?_, e2, e3⟩⟩
        show searchupvalue fs envn = (i : Int)
        unfold searchupvalue
        rw [e1]
        simp

theorem singlevaraux_void_same (dyd : Dyndata) (n : TString) :
    ∀ (fss fss1 : List FuncState) (base : Bool) (var : expdesc),
      singlevaraux dyd fss n base = Except.ok (var, fss1) → var.k = expkind.VVOID →
      fss1 = fss := by
  intro fss
  induction fss with
  | nil =>
    intro fss1 base var h _
    simp only [singlevaraux, Except.ok.injEq, Prod.mk.injEq] at h
    exact h.2.symm
  | cons fs prev ih =>
    intro fss1 base var h hv
    rw [singlevaraux] at h
    simp only [] at h
    repeat' split at h
    all_goals try cases h
    all_goals try (simp [init_exp] at hv)
    rename_i var0 prev1 hrec hvoid
    rw [ih prev1 false _ hrec hvoid]

/-- C39: for every chain of function states whose outermost one has an
upvalue named `envn`, `singlevaraux` for `envn` never answers `VVOID`: when it
returns, the answer is a local or an upvalue, the chain has the same length
and its outermost function still has that upvalue, and an upvalue answer is
the index of a descriptor named `envn` in the current function (created on
the way where it was missing).  The same holds from every frame of the
chain, since the rest of the chain from any frame on ends with the same
function.  The chain that `mainfunc` sets up is of this kind (last part), and
for a name that no function of the chain knows `singlevar` yields the indexed
access whose table is that variable and whose key is the string constant of
the name. -/
theorem env_always_resolves (dyd : Dyndata) (fss fss1 : List FuncState) (envn : TString)
    (base : Bool) (var : expdesc) (henv : EnvAtBottom envn fss)
    (h : singlevaraux dyd fss envn base = Except.ok (var, fss1)) :
    var.k ≠ expkind.VVOID ∧ (var.k = expkind.VLOCAL ∨ var.k = expkind.VUPVAL) ∧
    EnvAtBottom envn fss1 ∧ fss1.length = fss.length ∧
    (var.k = expkind.VUPVAL → ∃ (fs1 : FuncState) (rest : List FuncState) (i : Nat)
      (d : Upvaldesc), fss1 = fs1 :: rest ∧ var.info = (i : Int) ∧
        fs1.f.upvalues.get? i = some d ∧ d.name = envn) ∧
    (∀ pre suf : List FuncState, fss = pre ++ suf → suf ≠ [] → EnvAtBottom envn suf) ∧
    (∀ (ls lsA ls1 : LexState) (name : TString) (v var0 : expdesc) (fss0 : List FuncState),
      str_checkname ls = Except.ok (name, lsA) → EnvAtBottom lsA.envn lsA.fs →
      singlevaraux lsA.dyd lsA.fs name true = Except.ok (var0, fss0) →
      var0.k = expkind.VVOID → singlevar ls = Except.ok (v, ls1) →
      ∃ (var1 key : expdesc) (fssE : List FuncState) (ls2 : LexState) (fs2 : FuncState)
        (prev2 : List FuncState),
        singlevaraux lsA.dyd lsA.fs lsA.envn true = Except.ok (var1, fssE) ∧
        (var1.k = expkind.VLOCAL ∨ var1.k = expkind.VUPVAL) ∧
        codestring { lsA with fs := fssE } name = Except.ok (key, ls2) ∧
        key.k = expkind.VK ∧ ls2.fs = fs2 :: prev2 ∧
        v = (luaK_indexed fs2 var1 key).1 ∧ v.k = expkind.VINDEXED ∧ v.ind_t = var1.info) ∧
    (∀ (fs fs1 : FuncState) (name : TString) (v : expdesc) (idx : Int),
      newupvalue fs name v = Except.ok (idx, fs1) → EnvAtBottom name [fs1]) := by
  obtain ⟨h1, h2, h3, h4⟩ := singlevaraux_env dyd envn fss fss1 base var henv h
  refine ⟨?_, h1, h2, h3, h4, ?_, ?_, ?_⟩
  · rcases h1 with e | e <;> rw [e] <;> decide
  · intro pre suf hsplit hne
    obtain ⟨g, hg, hm⟩ := henv
    refine ⟨g, ?_, hm⟩
    rw [hsplit, List.getLast?_append_of_ne_nil _ hne] at hg
    exact hg
  · intro ls lsA ls1 name v var0 fss0 hname henvA hres hvoid hsv
    have hsame := singlevaraux_void_same lsA.dyd name lsA.fs fss0 true var0 hres hvoid
    subst hsame
    simp only [singlevar, hname, hres, hvoid, if_true] at hsv
    split at hsv
    · cases hsv
    rename_i var1 fssE hE
    split at hsv
    · cases hsv
    rename_i key ls2 hkey
    obtain ⟨hk1, _⟩ := singlevaraux_env lsA.dyd lsA.envn lsA.fs fssE true var1 henvA hE
    obtain ⟨_, _, _, _, _, _, fs2, prev2, hfs2, hv, _⟩ := onFs_frame _ _ _ _ hsv
    have hkk : key.k = expkind.VK := by
      simp only [codestring] at hkey
      split at hkey
      · cases hkey
      simp only [Except.ok.injEq, Prod.mk.injEq] at hkey
      rw [← hkey.1]
      rfl
    refine ⟨var1, key, fssE, ls2, fs2, prev2, hE, hk1, hkey, hkk, hfs2, hv, ?_, ?_⟩
    · rw [hv]; rfl
    · rw [hv]; rfl
  · intro fs fs1 name v idx hn
    obtain ⟨_, _, e⟩ := newupvalue_ok fs name v idx fs1 hn
    refine ⟨fs1, rfl, ?_⟩
    rw [e]
    simp [FuncState.addUpvalue]

/-- Witness of C39: from a function without upvalues that is nested in the main
function, the environment name resolves to a new upvalue 0 of the nested
function, which refers to upvalue 0 of the main function. -/
theorem env_always_resolves_witness :
    singlevaraux sampleDyd [sampleInner, sampleMain] "_ENV" true =
      Except.ok (init_exp expkind.VUPVAL 0,
        [sampleInner.addUpvalue { name := "_ENV", instack := false, idx := 0 }, sampleMain]) ∧
    EnvAtBottom "_ENV"
      [sampleInner.addUpvalue { name := "_ENV", instack := false, idx := 0 }, sampleMain] :=
  ⟨by decide,
    (env_always_resolves sampleDyd [sampleInner, sampleMain]
      [sampleInner.addUpvalue { name := "_ENV", instack := false, idx := 0 }, sampleMain]
      "_ENV" true (init_exp expkind.VUPVAL 0) ⟨sampleMain, rfl, by decide⟩ (by decide)).2.2.1⟩

/-! ## Theorems: the emitter leaves the prototype, the blocks and the counts of locals alone -/

@[simp] theorem FuncState_emit_f (fs : FuncState) (c : KCall) :
    (fs.emit c).f = fs.f := by
  simp only [FuncState.code, FuncState.emit, check_conflict, closelistfield, lastlistfield, luaK_checkstack, luaK_codeABC, luaK_codeABx, luaK_codeAsBx, luaK_codek, luaK_concat, luaK_dischargevars, luaK_exp2RK, luaK_exp2anyreg, luaK_exp2anyregup, luaK_exp2nextreg, luaK_exp2val, luaK_fixline, luaK_getlabel, luaK_goiffalse, luaK_goiftrue, luaK_indexed, luaK_infix, luaK_intK, luaK_jump, luaK_jumpto, luaK_nil, luaK_patchclose, luaK_patchlist, luaK_patchtohere, luaK_posfix, luaK_prefix, luaK_reserveregs, luaK_ret, luaK_self, luaK_setlist, luaK_setmultret, luaK_setoneret, luaK_setreturns, luaK_storevar, luaK_stringK]

@[simp] theorem FuncState_emit_nactvar (fs : FuncState) (c : KCall) :
    (fs.emit c).nactvar = fs.nactvar := by
  simp only [FuncState.code, FuncState.emit, check_conflict, closelistfield, lastlistfield, luaK_checkstack, luaK_codeABC, luaK_codeABx, luaK_codeAsBx, luaK_codek, luaK_concat, luaK_dischargevars, luaK_exp2RK, luaK_exp2anyreg, luaK_exp2anyregup, luaK_exp2nextreg, luaK_exp2val, luaK_fixline, luaK_getlabel, luaK_goiffalse, luaK_goiftrue, luaK_indexed, luaK_infix, luaK_intK, luaK_jump, luaK_jumpto, luaK_nil, luaK_patchclose, luaK_patchlist, luaK_patchtohere, luaK_posfix, luaK_prefix, luaK_reserveregs, luaK_ret, luaK_self, luaK_setlist, luaK_setmultret, luaK_setoneret, luaK_setreturns, luaK_storevar, luaK_stringK]

@[simp] theorem FuncState_emit_firstlocal (fs : FuncState) (c : KCall) :
    (fs.emit c).firstlocal = fs.firstlocal := by
  simp only [FuncState.code, FuncState.emit, check_conflict, closelistfield, lastlistfield, luaK_checkstack, luaK_codeABC, luaK_codeABx, luaK_codeAsBx, luaK_codek, luaK_concat, luaK_dischargevars, luaK_exp2RK, luaK_exp2anyreg, luaK_exp2anyregup, luaK_exp2nextreg, luaK_exp2val, luaK_fixline, luaK_getlabel, luaK_goiffalse, luaK_goiftrue, luaK_indexed, luaK_infix, luaK_intK, luaK_jump, luaK_jumpto, luaK_nil, luaK_patchclose, luaK_patchlist, luaK_patchtohere, luaK_posfix, luaK_prefix, luaK_reserveregs, luaK_ret, luaK_self, luaK_setlist, luaK_setmultret, luaK_setoneret, luaK_setreturns, luaK_storevar, luaK_stringK]

@[simp] theorem FuncState_emit_bl (fs : FuncState) (c : KCall) :
    (fs.emit c).bl = fs.bl := by
  simp only [FuncState.code, FuncState.emit, check_conflict, closelistfield, lastlistfield, luaK_checkstack, luaK_codeABC, luaK_codeABx, luaK_codeAsBx, luaK_codek, luaK_concat, luaK_dischargevars, luaK_exp2RK, luaK_exp2anyreg, luaK_exp2anyregup, luaK_exp2nextreg, luaK_exp2val, luaK_fixline, luaK_getlabel, luaK_goiffalse, luaK_goiftrue, luaK_indexed, luaK_infix, luaK_intK, luaK_jump, luaK_jumpto, luaK_nil, luaK_patchclose, luaK_patchlist, luaK_patchtohere, luaK_posfix, luaK_prefix, luaK_reserveregs, luaK_ret, luaK_self, luaK_setlist, luaK_setmultret, luaK_setoneret, luaK_setreturns, luaK_storevar, luaK_stringK]

@[simp] theorem FuncState_code_f (fs : FuncState) (c : KCall) :
    (fs.code c).2.f = fs.f := by
  simp only [FuncState.code, FuncState.emit, check_conflict, closelistfield, lastlistfield, luaK_checkstack, luaK_codeABC, luaK_codeABx, luaK_codeAsBx, luaK_codek, luaK_concat, luaK_dischargevars, luaK_exp2RK, luaK_exp2anyreg, luaK_exp2anyregup, luaK_exp2nextreg, luaK_exp2val, luaK_fixline, luaK_getlabel, luaK_goiffalse, luaK_goiftrue, luaK_indexed, luaK_infix, luaK_intK, luaK_jump, luaK_jumpto, luaK_nil, luaK_patchclose, luaK_patchlist, luaK_patchtohere, luaK_posfix, luaK_prefix, luaK_reserveregs, luaK_ret, luaK_self, luaK_setlist, luaK_setmultret, luaK_setoneret, luaK_setreturns, luaK_storevar, luaK_stringK]

@[simp] theorem FuncState_code_nactvar (fs : FuncState) (c : KCall) :
    (fs.code c).2.nactvar = fs.nactvar := by
  simp only [FuncState.code, FuncState.emit, check_conflict, closelistfield, lastlistfield, luaK_checkstack, luaK_codeABC, luaK_codeABx, luaK_codeAsBx, luaK_codek, luaK_concat, luaK_dischargevars, luaK_exp2RK, luaK_exp2anyreg, luaK_exp2anyregup, luaK_exp2nextreg, luaK_exp2val, luaK_fixline, luaK_getlabel, luaK_goiffalse, luaK_goiftrue, luaK_indexed, luaK_infix, luaK_intK, luaK_jump, luaK_jumpto, luaK_nil, luaK_patchclose, luaK_patchlist, luaK_patchtohere, luaK_posfix, luaK_prefix, luaK_reserveregs, luaK_ret, luaK_self, luaK_setlist, luaK_setmultret, luaK_setoneret, luaK_setreturns, luaK_storevar, luaK_stringK]

@[simp] theorem FuncState_code_firstlocal (fs : FuncState) (c : KCall) :
    (fs.code c).2.firstlocal = fs.firstlocal := by
  simp only [FuncState.code, FuncState.emit, check_conflict, closelistfield, lastlistfield, luaK_checkstack, luaK_codeABC, luaK_codeABx, luaK_codeAsBx, luaK_codek, luaK_concat, luaK_dischargevars, luaK_exp2RK, luaK_exp2anyreg, luaK_exp2anyregup, luaK_exp2nextreg, luaK_exp2val, luaK_fixline, luaK_getlabel, luaK_goiffalse, luaK_goiftrue, luaK_indexed, luaK_infix, luaK_intK, luaK_jump, luaK_jumpto, luaK_nil, luaK_patchclose, luaK_patchlist, luaK_patchtohere, luaK_posfix, luaK_prefix, luaK_reserveregs, luaK_ret, luaK_self, luaK_setlist, luaK_setmultret, luaK_setoneret, luaK_setreturns, luaK_storevar, luaK_stringK]

@[simp] theorem FuncState_code_bl (fs : FuncState) (c : KCall) :
    (fs.code c).2.bl = fs.bl := by
  simp only [FuncState.code, FuncState.emit, check_conflict, closelistfield, lastlistfield, luaK_checkstack, luaK_codeABC, luaK_codeABx, luaK_codeAsBx, luaK_codek, luaK_concat, luaK_dischargevars, luaK_exp2RK, luaK_exp2anyreg, luaK_exp2anyregup, luaK_exp2nextreg, luaK_exp2val, luaK_fixline, luaK_getlabel, luaK_goiffalse, luaK_goiftrue, luaK_indexed, luaK_infix, luaK_intK, luaK_jump, luaK_jumpto, luaK_nil, luaK_patchclose, luaK_patchlist, luaK_patchtohere, luaK_posfix, luaK_prefix, luaK_reserveregs, luaK_ret, luaK_self, luaK_setlist, luaK_setmultret, luaK_setoneret, luaK_setreturns, luaK_storevar, luaK_stringK]

@[simp] theorem luaK_patchlist_f (fs : FuncState) (list target : Int) :
    (luaK_patchlist fs list target).f = fs.f := by
  simp only [FuncState.code, FuncState.emit, check_conflict, closelistfield, lastlistfield, luaK_checkstack, luaK_codeABC, luaK_codeABx, luaK_codeAsBx, luaK_codek, luaK_concat, luaK_dischargevars, luaK_exp2RK, luaK_exp2anyreg, luaK_exp2anyregup, luaK_exp2nextreg, luaK_exp2val, luaK_fixline, luaK_getlabel, luaK_goiffalse, luaK_goiftrue, luaK_indexed, luaK_infix, luaK_intK, luaK_jump, luaK_jumpto, luaK_nil, luaK_patchclose, luaK_patchlist, luaK_patchtohere, luaK_posfix, luaK_prefix, luaK_reserveregs, luaK_ret, luaK_self, luaK_setlist, luaK_setmultret, luaK_setoneret, luaK_setreturns, luaK_storevar, luaK_stringK]

@[simp] theorem luaK_patchlist_nactvar (fs : FuncState) (list target : Int) :
    (luaK_patchlist fs list target).nactvar = fs.nactvar := by
  simp only [FuncState.code, FuncState.emit, check_conflict, closelistfield, lastlistfield, luaK_checkstack, luaK_codeABC, luaK_codeABx, luaK_codeAsBx, luaK_codek, luaK_concat, luaK_dischargevars, luaK_exp2RK, luaK_exp2anyreg, luaK_exp2anyregup, luaK_exp2nextreg, luaK_exp2val, luaK_fixline, luaK_getlabel, luaK_goiffalse, luaK_goiftrue, luaK_indexed, luaK_infix, luaK_intK, luaK_jump, luaK_jumpto, luaK_nil, luaK_patchclose, luaK_patchlist, luaK_patchtohere, luaK_posfix, luaK_prefix, luaK_reserveregs, luaK_ret, luaK_self, luaK_setlist, luaK_setmultret, luaK_setoneret, luaK_setreturns, luaK_storevar, luaK_stringK]

@[simp] theorem luaK_patchlist_firstlocal (fs : FuncState) (list target : Int) :
    (luaK_patchlist fs list target).firstlocal = fs.firstlocal := by
  simp only [FuncState.code, FuncState.emit, check_conflict, closelistfield, lastlistfield, luaK_checkstack, luaK_codeABC, luaK_codeABx, luaK_codeAsBx, luaK_codek, luaK_concat, luaK_dischargevars, luaK_exp2RK, luaK_exp2anyreg, luaK_exp2anyregup, luaK_exp2nextreg, luaK_exp2val, luaK_fixline, luaK_getlabel, luaK_goiffalse, luaK_goiftrue, luaK_indexed, luaK_infix, luaK_intK, luaK_jump, luaK_jumpto, luaK_nil, luaK_patchclose, luaK_patchlist, luaK_patchtohere, luaK_posfix, luaK_prefix, luaK_reserveregs, luaK_ret, luaK_self, luaK_setlist, luaK_setmultret, luaK_setoneret, luaK_setreturns, luaK_storevar, luaK_stringK]

@[simp] theorem luaK_patchlist_bl (fs : FuncState) (list target : Int) :
    (luaK_patchlist fs list target).bl = fs.bl := by
  simp only [FuncState.code, FuncState.emit, check_conflict, closelistfield, lastlistfield, luaK_checkstack, luaK_codeABC, luaK_codeABx, luaK_codeAsBx, luaK_codek, luaK_concat, luaK_dischargevars, luaK_exp2RK, luaK_exp2anyreg, luaK_exp2anyregup, luaK_exp2nextreg, luaK_exp2val, luaK_fixline, luaK_getlabel, luaK_goiffalse, luaK_goiftrue, luaK_indexed, luaK_infix, luaK_intK, luaK_jump, luaK_jumpto, luaK_nil, luaK_patchclose, luaK_patchlist, luaK_patchtohere, luaK_posfix, luaK_prefix, luaK_reserveregs, luaK_ret, luaK_self, luaK_setlist, luaK_setmultret, luaK_setoneret, luaK_setreturns, luaK_storevar, luaK_stringK]

@[simp] theorem luaK_patchclose_f (fs : FuncState) (list : Int) (level : Nat) :
    (luaK_patchclose fs list level).f = fs.f := by
  simp only [FuncState.code, FuncState.emit, check_conflict, closelistfield, lastlistfield, luaK_checkstack, luaK_codeABC, luaK_codeABx, luaK_codeAsBx, luaK_codek, luaK_concat, luaK_dischargevars, luaK_exp2RK, luaK_exp2anyreg, luaK_exp2anyregup, luaK_exp2nextreg, luaK_exp2val, luaK_fixline, luaK_getlabel, luaK_goiffalse, luaK_goiftrue, luaK_indexed, luaK_infix, luaK_intK, luaK_jump, luaK_jumpto, luaK_nil, luaK_patchclose, luaK_patchlist, luaK_patchtohere, luaK_posfix, luaK_prefix, luaK_reserveregs, luaK_ret, luaK_self, luaK_setlist, luaK_setmultret, luaK_setoneret, luaK_setreturns, luaK_storevar, luaK_stringK]

@[simp] theorem luaK_patchclose_nactvar (fs : FuncState) (list : Int) (level : Nat) :
    (luaK_patchclose fs list level).nactvar = fs.nactvar := by
  simp only [FuncState.code, FuncState.emit, check_conflict, closelistfield, lastlistfield, luaK_checkstack, luaK_codeABC, luaK_codeABx, luaK_codeAsBx, luaK_codek, luaK_concat, luaK_dischargevars, luaK_exp2RK, luaK_exp2anyreg, luaK_exp2anyregup, luaK_exp2nextreg, luaK_exp2val, luaK_fixline, luaK_getlabel, luaK_goiffalse, luaK_goiftrue, luaK_indexed, luaK_infix, luaK_intK, luaK_jump, luaK_jumpto, luaK_nil, luaK_patchclose, luaK_patchlist, luaK_patchtohere, luaK_posfix, luaK_prefix, luaK_reserveregs, luaK_ret, luaK_self, luaK_setlist, luaK_setmultret, luaK_setoneret, luaK_setreturns, luaK_storevar, luaK_stringK]

@[simp] theorem luaK_patchclose_firstlocal (fs : FuncState) (list : Int) (level : Nat) :
    (luaK_patchclose fs list level).firstlocal = fs.firstlocal := by
  simp only [FuncState.code, FuncState.emit, check_conflict, closelistfield, lastlistfield, luaK_checkstack, luaK_codeABC, luaK_codeABx, luaK_codeAsBx, luaK_codek, luaK_concat, luaK_dischargevars, luaK_exp2RK, luaK_exp2anyreg, luaK_exp2anyregup, luaK_exp2nextreg, luaK_exp2val, luaK_fixline, luaK_getlabel, luaK_goiffalse, luaK_goiftrue, luaK_indexed, luaK_infix, luaK_intK, luaK_jump, luaK_jumpto, luaK_nil, luaK_patchclose, luaK_patchlist, luaK_patchtohere, luaK_posfix, luaK_prefix, luaK_reserveregs, luaK_ret, luaK_self, luaK_setlist, luaK_setmultret, luaK_setoneret, luaK_setreturns, luaK_storevar, luaK_stringK]

@[simp] theorem luaK_patchclose_bl (fs : FuncState) (list : Int) (level : Nat) :
    (luaK_patchclose fs list level).bl = fs.bl := by
  simp only [FuncState.code, FuncState.emit, check_conflict, closelistfield, lastlistfield, luaK_checkstack, luaK_codeABC, luaK_codeABx, luaK_codeAsBx, luaK_codek, luaK_concat, luaK_dischargevars, luaK_exp2RK, luaK_exp2anyreg, luaK_exp2anyregup, luaK_exp2nextreg, luaK_exp2val, luaK_fixline, luaK_getlabel, luaK_goiffalse, luaK_goiftrue, luaK_indexed, luaK_infix, luaK_intK, luaK_jump, luaK_jumpto, luaK_nil, luaK_patchclose, luaK_patchlist, luaK_patchtohere, luaK_posfix, luaK_prefix, luaK_reserveregs, luaK_ret, luaK_self, luaK_setlist, luaK_setmultret, luaK_setoneret, luaK_setreturns, luaK_storevar, luaK_stringK]

@[simp] theorem luaK_patchtohere_f (fs : FuncState) (list : Int) :
    (luaK_patchtohere fs list).f = fs.f := by
  simp only [FuncState.code, FuncState.emit, check_conflict, closelistfield, lastlistfield, luaK_checkstack, luaK_codeABC, luaK_codeABx, luaK_codeAsBx, luaK_codek, luaK_concat, luaK_dischargevars, luaK_exp2RK, luaK_exp2anyreg, luaK_exp2anyregup, luaK_exp2nextreg, luaK_exp2val, luaK_fixline, luaK_getlabel, luaK_goiffalse, luaK_goiftrue, luaK_indexed, luaK_infix, luaK_intK, luaK_jump, luaK_jumpto, luaK_nil, luaK_patchclose, luaK_patchlist, luaK_patchtohere, luaK_posfix, luaK_prefix, luaK_reserveregs, luaK_ret, luaK_self, luaK_setlist, luaK_setmultret, luaK_setoneret, luaK_setreturns, luaK_storevar, luaK_stringK]

@[simp] theorem luaK_patchtohere_nactvar (fs : FuncState) (list : Int) :
    (luaK_patchtohere fs list).nactvar = fs.nactvar := by
  simp only [FuncState.code, FuncState.emit, check_conflict, closelistfield, lastlistfield, luaK_checkstack, luaK_codeABC, luaK_codeABx, luaK_codeAsBx, luaK_codek, luaK_concat, luaK_dischargevars, luaK_exp2RK, luaK_exp2anyreg, luaK_exp2anyregup, luaK_exp2nextreg, luaK_exp2val, luaK_fixline, luaK_getlabel, luaK_goiffalse, luaK_goiftrue, luaK_indexed, luaK_infix, luaK_intK, luaK_jump, luaK_jumpto, luaK_nil, luaK_patchclose, luaK_patchlist, luaK_patchtohere, luaK_posfix, luaK_prefix, luaK_reserveregs, luaK_ret, luaK_self, luaK_setlist, luaK_setmultret, luaK_setoneret, luaK_setreturns, luaK_storevar, luaK_stringK]

@[simp] theorem luaK_patchtohere_firstlocal (fs : FuncState) (list : Int) :
    (luaK_patchtohere fs list).firstlocal = fs.firstlocal := by
  simp only [FuncState.code, FuncState.emit, check_conflict, closelistfield, lastlistfield, luaK_checkstack, luaK_codeABC, luaK_codeABx, luaK_codeAsBx, luaK_codek, luaK_concat, luaK_dischargevars, luaK_exp2RK, luaK_exp2anyreg, luaK_exp2anyregup, luaK_exp2nextreg, luaK_exp2val, luaK_fixline, luaK_getlabel, luaK_goiffalse, luaK_goiftrue, luaK_indexed, luaK_infix, luaK_intK, luaK_jump, luaK_jumpto, luaK_nil, luaK_patchclose, luaK_patchlist, luaK_patchtohere, luaK_posfix, luaK_prefix, luaK_reserveregs, luaK_ret, luaK_self, luaK_setlist, luaK_setmultret, luaK_setoneret, luaK_setreturns, luaK_storevar, luaK_stringK]

@[simp] theorem luaK_patchtohere_bl (fs : FuncState) (list : Int) :
    (luaK_patchtohere fs list).bl = fs.bl := by
  simp only [FuncState.code, FuncState.emit, check_conflict, closelistfield, lastlistfield, luaK_checkstack, luaK_codeABC, luaK_codeABx, luaK_codeAsBx, luaK_codek, luaK_concat, luaK_dischargevars, luaK_exp2RK, luaK_exp2anyreg, luaK_exp2anyregup, luaK_exp2nextreg, luaK_exp2val, luaK_fixline, luaK_getlabel, luaK_goiffalse, luaK_goiftrue, luaK_indexed, luaK_infix, luaK_intK, luaK_jump, luaK_jumpto, luaK_nil, luaK_patchclose, luaK_patchlist, luaK_patchtohere, luaK_posfix, luaK_prefix, luaK_reserveregs, luaK_ret, luaK_self, luaK_setlist, luaK_setmultret, luaK_setoneret, luaK_setreturns, luaK_storevar, luaK_stringK]

@[simp] theorem luaK_jump_f (fs : FuncState)  :
    (luaK_jump fs).2.f = fs.f := by
  simp only [FuncState.code, FuncState.emit, check_conflict, closelistfield, lastlistfield, luaK_checkstack, luaK_codeABC, luaK_codeABx, luaK_codeAsBx, luaK_codek, luaK_concat, luaK_dischargevars, luaK_exp2RK, luaK_exp2anyreg, luaK_exp2anyregup, luaK_exp2nextreg, luaK_exp2val, luaK_fixline, luaK_getlabel, luaK_goiffalse, luaK_goiftrue, luaK_indexed, luaK_infix, luaK_intK, luaK_jump, luaK_jumpto, luaK_nil, luaK_patchclose, luaK_patchlist, luaK_patchtohere, luaK_posfix, luaK_prefix, luaK_reserveregs, luaK_ret, luaK_self, luaK_setlist, luaK_setmultret, luaK_setoneret, luaK_setreturns, luaK_storevar, luaK_stringK]

@[simp] theorem luaK_jump_nactvar (fs : FuncState)  :
    (luaK_jump fs).2.nactvar = fs.nactvar := by
  simp only [FuncState.code, FuncState.emit, check_conflict, closelistfield, lastlistfield, luaK_checkstack, luaK_codeABC, luaK_codeABx, luaK_codeAsBx, luaK_codek, luaK_concat, luaK_dischargevars, luaK_exp2RK, luaK_exp2anyreg, luaK_exp2anyregup, luaK_exp2nextreg, luaK_exp2val, luaK_fixline, luaK_getlabel, luaK_goiffalse, luaK_goiftrue, luaK_indexed, luaK_infix, luaK_intK, luaK_jump, luaK_jumpto, luaK_nil, luaK_patchclose, luaK_patchlist, luaK_patchtohere, luaK_posfix, luaK_prefix, luaK_reserveregs, luaK_ret, luaK_self, luaK_setlist, luaK_setmultret, luaK_setoneret, luaK_setreturns, luaK_storevar, luaK_stringK]

@[simp] theorem luaK_jump_firstlocal (fs : FuncState)  :
    (luaK_jump fs).2.firstlocal = fs.firstlocal := by
  simp only [FuncState.code, FuncState.emit, check_conflict, closelistfield, lastlistfield, luaK_checkstack, luaK_codeABC, luaK_codeABx, luaK_codeAsBx, luaK_codek, luaK_concat, luaK_dischargevars, luaK_exp2RK, luaK_exp2anyreg, luaK_exp2anyregup, luaK_exp2nextreg, luaK_exp2val, luaK_fixline, luaK_getlabel, luaK_goiffalse, luaK_goiftrue, luaK_indexed, luaK_infix, luaK_intK, luaK_jump, luaK_jumpto, luaK_nil, luaK_patchclose, luaK_patchlist, luaK_patchtohere, luaK_posfix, luaK_prefix, luaK_reserveregs, luaK_ret, luaK_self, luaK_setlist, luaK_setmultret, luaK_setoneret, luaK_setreturns, luaK_storevar, luaK_stringK]

@[simp] theorem luaK_jump_bl (fs : FuncState)  :
    (luaK_jump fs).2.bl = fs.bl := by
  simp only [FuncState.code, FuncState.emit, check_conflict, closelistfield, lastlistfield, luaK_checkstack, luaK_codeABC, luaK_codeABx, luaK_codeAsBx, luaK_codek, luaK_concat, luaK_dischargevars, luaK_exp2RK, luaK_exp2anyreg, luaK_exp2anyregup, luaK_exp2nextreg, luaK_exp2val, luaK_fixline, luaK_getlabel, luaK_goiffalse, luaK_goiftrue, luaK_indexed, luaK_infix, luaK_intK, luaK_jump, luaK_jumpto, luaK_nil, luaK_patchclose, luaK_patchlist, luaK_patchtohere, luaK_posfix, luaK_prefix, luaK_reserveregs, luaK_ret, luaK_self, luaK_setlist, luaK_setmultret, luaK_setoneret, luaK_setreturns, luaK_storevar, luaK_stringK]

@[simp] theorem luaK_getlabel_f (fs : FuncState)  :
    (luaK_getlabel fs).2.f = fs.f := by
  simp only [FuncState.code, FuncState.emit, check_conflict, closelistfield, lastlistfield, luaK_checkstack, luaK_codeABC, luaK_codeABx, luaK_codeAsBx, luaK_codek, luaK_concat, luaK_dischargevars, luaK_exp2RK, luaK_exp2anyreg, luaK_exp2anyregup, luaK_exp2nextreg, luaK_exp2val, luaK_fixline, luaK_getlabel, luaK_goiffalse, luaK_goiftrue, luaK_indexed, luaK_infix, luaK_intK, luaK_jump, luaK_jumpto, luaK_nil, luaK_patchclose, luaK_patchlist, luaK_patchtohere, luaK_posfix, luaK_prefix, luaK_reserveregs, luaK_ret, luaK_self, luaK_setlist, luaK_setmultret, luaK_setoneret, luaK_setreturns, luaK_storevar, luaK_stringK]

@[simp] theorem luaK_getlabel_nactvar (fs : FuncState)  :
    (luaK_getlabel fs).2.nactvar = fs.nactvar := by
  simp only [FuncState.code, FuncState.emit, check_conflict, closelistfield, lastlistfield, luaK_checkstack, luaK_codeABC, luaK_codeABx, luaK_codeAsBx, luaK_codek, luaK_concat, luaK_dischargevars, luaK_exp2RK, luaK_exp2anyreg, luaK_exp2anyregup, luaK_exp2nextreg, luaK_exp2val, luaK_fixline, luaK_getlabel, luaK_goiffalse, luaK_goiftrue, luaK_indexed, luaK_infix, luaK_intK, luaK_jump, luaK_jumpto, luaK_nil, luaK_patchclose, luaK_patchlist, luaK_patchtohere, luaK_posfix, luaK_prefix, luaK_reserveregs, luaK_ret, luaK_self, luaK_setlist, luaK_setmultret, luaK_setoneret, luaK_setreturns, luaK_storevar, luaK_stringK]

@[simp] theorem luaK_getlabel_firstlocal (fs : FuncState)  :
    (luaK_getlabel fs).2.firstlocal = fs.firstlocal := by
  simp only [FuncState.code, FuncState.emit, check_conflict, closelistfield, lastlistfield, luaK_checkstack, luaK_codeABC, luaK_codeABx, luaK_codeAsBx, luaK_codek, luaK_concat, luaK_dischargevars, luaK_exp2RK, luaK_exp2anyreg, luaK_exp2anyregup, luaK_exp2nextreg, luaK_exp2val, luaK_fixline, luaK_getlabel, luaK_goiffalse, luaK_goiftrue, luaK_indexed, luaK_infix, luaK_intK, luaK_jump, luaK_jumpto, luaK_nil, luaK_patchclose, luaK_patchlist, luaK_patchtohere, luaK_posfix, luaK_prefix, luaK_reserveregs, luaK_ret, luaK_self, luaK_setlist, luaK_setmultret, luaK_setoneret, luaK_setreturns, luaK_storevar, luaK_stringK]

@[simp] theorem luaK_getlabel_bl (fs : FuncState)  :
    (luaK_getlabel fs).2.bl = fs.bl := by
  simp only [FuncState.code, FuncState.emit, check_conflict, closelistfield, lastlistfield, luaK_checkstack, luaK_codeABC, luaK_codeABx, luaK_codeAsBx, luaK_codek, luaK_concat, luaK_dischargevars, luaK_exp2RK, luaK_exp2anyreg, luaK_exp2anyregup, luaK_exp2nextreg, luaK_exp2val, luaK_fixline, luaK_getlabel, luaK_goiffalse, luaK_goiftrue, luaK_indexed, luaK_infix, luaK_intK, luaK_jump, luaK_jumpto, luaK_nil, luaK_patchclose, luaK_patchlist, luaK_patchtohere, luaK_posfix, luaK_prefix, luaK_reserveregs, luaK_ret, luaK_self, luaK_setlist, luaK_setmultret, luaK_setoneret, luaK_setreturns, luaK_storevar, luaK_stringK]

@[simp] theorem luaK_reserveregs_f (fs : FuncState) (n : Nat) :
    (luaK_reserveregs fs n).f = fs.f := by
  simp only [FuncState.code, FuncState.emit, check_conflict, closelistfield, lastlistfield, luaK_checkstack, luaK_codeABC, luaK_codeABx, luaK_codeAsBx, luaK_codek, luaK_concat, luaK_dischargevars, luaK_exp2RK, luaK_exp2anyreg, luaK_exp2anyregup, luaK_exp2nextreg, luaK_exp2val, luaK_fixline, luaK_getlabel, luaK_goiffalse, luaK_goiftrue, luaK_indexed, luaK_infix, luaK_intK, luaK_jump, luaK_jumpto, luaK_nil, luaK_patchclose, luaK_patchlist, luaK_patchtohere, luaK_posfix, luaK_prefix, luaK_reserveregs, luaK_ret, luaK_self, luaK_setlist, luaK_setmultret, luaK_setoneret, luaK_setreturns, luaK_storevar, luaK_stringK]

@[simp] theorem luaK_reserveregs_nactvar (fs : FuncState) (n : Nat) :
    (luaK_reserveregs fs n).nactvar = fs.nactvar := by
  simp only [FuncState.code, FuncState.emit, check_conflict, closelistfield, lastlistfield, luaK_checkstack, luaK_codeABC, luaK_codeABx, luaK_codeAsBx, luaK_codek, luaK_concat, luaK_dischargevars, luaK_exp2RK, luaK_exp2anyreg, luaK_exp2anyregup, luaK_exp2nextreg, luaK_exp2val, luaK_fixline, luaK_getlabel, luaK_goiffalse, luaK_goiftrue, luaK_indexed, luaK_infix, luaK_intK, luaK_jump, luaK_jumpto, luaK_nil, luaK_patchclose, luaK_patchlist, luaK_patchtohere, luaK_posfix, luaK_prefix, luaK_reserveregs, luaK_ret, luaK_self, luaK_setlist, luaK_setmultret, luaK_setoneret, luaK_setreturns, luaK_storevar, luaK_stringK]

@[simp] theorem luaK_reserveregs_firstlocal (fs : FuncState) (n : Nat) :
    (luaK_reserveregs fs n).firstlocal = fs.firstlocal := by
  simp only [FuncState.code, FuncState.emit, check_conflict, closelistfield, lastlistfield, luaK_checkstack, luaK_codeABC, luaK_codeABx, luaK_codeAsBx, luaK_codek, luaK_concat, luaK_dischargevars, luaK_exp2RK, luaK_exp2anyreg, luaK_exp2anyregup, luaK_exp2nextreg, luaK_exp2val, luaK_fixline, luaK_getlabel, luaK_goiffalse, luaK_goiftrue, luaK_indexed, luaK_infix, luaK_intK, luaK_jump, luaK_jumpto, luaK_nil, luaK_patchclose, luaK_patchlist, luaK_patchtohere, luaK_posfix, luaK_prefix, luaK_reserveregs, luaK_ret, luaK_self, luaK_setlist, luaK_setmultret, luaK_setoneret, luaK_setreturns, luaK_storevar, luaK_stringK]

@[simp] theorem luaK_reserveregs_bl (fs : FuncState) (n : Nat) :
    (luaK_reserveregs fs n).bl = fs.bl := by
  simp only [FuncState.code, FuncState.emit, check_conflict, closelistfield, lastlistfield, luaK_checkstack, luaK_codeABC, luaK_codeABx, luaK_codeAsBx, luaK_codek, luaK_concat, luaK_dischargevars, luaK_exp2RK, luaK_exp2anyreg, luaK_exp2anyregup, luaK_exp2nextreg, luaK_exp2val, luaK_fixline, luaK_getlabel, luaK_goiffalse, luaK_goiftrue, luaK_indexed, luaK_infix, luaK_intK, luaK_jump, luaK_jumpto, luaK_nil, luaK_patchclose, luaK_patchlist, luaK_patchtohere, luaK_posfix, luaK_prefix, luaK_reserveregs, luaK_ret, luaK_self, luaK_setlist, luaK_setmultret, luaK_setoneret, luaK_setreturns, luaK_storevar, luaK_stringK]

@[simp] theorem luaK_nil_f (fs : FuncState) (a n : Nat) :
    (luaK_nil fs a n).f = fs.f := by
  simp only [FuncState.code, FuncState.emit, check_conflict, closelistfield, lastlistfield, luaK_checkstack, luaK_codeABC, luaK_codeABx, luaK_codeAsBx, luaK_codek, luaK_concat, luaK_dischargevars, luaK_exp2RK, luaK_exp2anyreg, luaK_exp2anyregup, luaK_exp2nextreg, luaK_exp2val, luaK_fixline, luaK_getlabel, luaK_goiffalse, luaK_goiftrue, luaK_indexed, luaK_infix, luaK_intK, luaK_jump, luaK_jumpto, luaK_nil, luaK_patchclose, luaK_patchlist, luaK_patchtohere, luaK_posfix, luaK_prefix, luaK_reserveregs, luaK_ret, luaK_self, luaK_setlist, luaK_setmultret, luaK_setoneret, luaK_setreturns, luaK_storevar, luaK_stringK]

@[simp] theorem luaK_nil_nactvar (fs : FuncState) (a n : Nat) :
    (luaK_nil fs a n).nactvar = fs.nactvar := by
  simp only [FuncState.code, FuncState.emit, check_conflict, closelistfield, lastlistfield, luaK_checkstack, luaK_codeABC, luaK_codeABx, luaK_codeAsBx, luaK_codek, luaK_concat, luaK_dischargevars, luaK_exp2RK, luaK_exp2anyreg, luaK_exp2anyregup, luaK_exp2nextreg, luaK_exp2val, luaK_fixline, luaK_getlabel, luaK_goiffalse, luaK_goiftrue, luaK_indexed, luaK_infix, luaK_intK, luaK_jump, luaK_jumpto, luaK_nil, luaK_patchclose, luaK_patchlist, luaK_patchtohere, luaK_posfix, luaK_prefix, luaK_reserveregs, luaK_ret, luaK_self, luaK_setlist, luaK_setmultret, luaK_setoneret, luaK_setreturns, luaK_storevar, luaK_stringK]

@[simp] theorem luaK_nil_firstlocal (fs : FuncState) (a n : Nat) :
    (luaK_nil fs a n).firstlocal = fs.firstlocal := by
  simp only [FuncState.code, FuncState.emit, check_conflict, closelistfield, lastlistfield, luaK_checkstack, luaK_codeABC, luaK_codeABx, luaK_codeAsBx, luaK_codek, luaK_concat, luaK_dischargevars, luaK_exp2RK, luaK_exp2anyreg, luaK_exp2anyregup, luaK_exp2nextreg, luaK_exp2val, luaK_fixline, luaK_getlabel, luaK_goiffalse, luaK_goiftrue, luaK_indexed, luaK_infix, luaK_intK, luaK_jump, luaK_jumpto, luaK_nil, luaK_patchclose, luaK_patchlist, luaK_patchtohere, luaK_posfix, luaK_prefix, luaK_reserveregs, luaK_ret, luaK_self, luaK_setlist, luaK_setmultret, luaK_setoneret, luaK_setreturns, luaK_storevar, luaK_stringK]

@[simp] theorem luaK_nil_bl (fs : FuncState) (a n : Nat) :
    (luaK_nil fs a n).bl = fs.bl := by
  simp only [FuncState.code, FuncState.emit, check_conflict, closelistfield, lastlistfield, luaK_checkstack, luaK_codeABC, luaK_codeABx, luaK_codeAsBx, luaK_codek, luaK_concat, luaK_dischargevars, luaK_exp2RK, luaK_exp2anyreg, luaK_exp2anyregup, luaK_exp2nextreg, luaK_exp2val, luaK_fixline, luaK_getlabel, luaK_goiffalse, luaK_goiftrue, luaK_indexed, luaK_infix, luaK_intK, luaK_jump, luaK_jumpto, luaK_nil, luaK_patchclose, luaK_patchlist, luaK_patchtohere, luaK_posfix, luaK_prefix, luaK_reserveregs, luaK_ret, luaK_self, luaK_setlist, luaK_setmultret, luaK_setoneret, luaK_setreturns, luaK_storevar, luaK_stringK]

@[simp] theorem luaK_setreturns_f (fs : FuncState) (e : expdesc) (n : Int) :
    (luaK_setreturns fs e n).f = fs.f := by
  simp only [FuncState.code, FuncState.emit, check_conflict, closelistfield, lastlistfield, luaK_checkstack, luaK_codeABC, luaK_codeABx, luaK_codeAsBx, luaK_codek, luaK_concat, luaK_dischargevars, luaK_exp2RK, luaK_exp2anyreg, luaK_exp2anyregup, luaK_exp2nextreg, luaK_exp2val, luaK_fixline, luaK_getlabel, luaK_goiffalse, luaK_goiftrue, luaK_indexed, luaK_infix, luaK_intK, luaK_jump, luaK_jumpto, luaK_nil, luaK_patchclose, luaK_patchlist, luaK_patchtohere, luaK_posfix, luaK_prefix, luaK_reserveregs, luaK_ret, luaK_self, luaK_setlist, luaK_setmultret, luaK_setoneret, luaK_setreturns, luaK_storevar, luaK_stringK]

@[simp] theorem luaK_setreturns_nactvar (fs : FuncState) (e : expdesc) (n : Int) :
    (luaK_setreturns fs e n).nactvar = fs.nactvar := by
  simp only [FuncState.code, FuncState.emit, check_conflict, closelistfield, lastlistfield, luaK_checkstack, luaK_codeABC, luaK_codeABx, luaK_codeAsBx, luaK_codek, luaK_concat, luaK_dischargevars, luaK_exp2RK, luaK_exp2anyreg, luaK_exp2anyregup, luaK_exp2nextreg, luaK_exp2val, luaK_fixline, luaK_getlabel, luaK_goiffalse, luaK_goiftrue, luaK_indexed, luaK_infix, luaK_intK, luaK_jump, luaK_jumpto, luaK_nil, luaK_patchclose, luaK_patchlist, luaK_patchtohere, luaK_posfix, luaK_prefix, luaK_reserveregs, luaK_ret, luaK_self, luaK_setlist, luaK_setmultret, luaK_setoneret, luaK_setreturns, luaK_storevar, luaK_stringK]

@[simp] theorem luaK_setreturns_firstlocal (fs : FuncState) (e : expdesc) (n : Int) :
    (luaK_setreturns fs e n).firstlocal = fs.firstlocal := by
  simp only [FuncState.code, FuncState.emit, check_conflict, closelistfield, lastlistfield, luaK_checkstack, luaK_codeABC, luaK_codeABx, luaK_codeAsBx, luaK_codek, luaK_concat, luaK_dischargevars, luaK_exp2RK, luaK_exp2anyreg, luaK_exp2anyregup, luaK_exp2nextreg, luaK_exp2val, luaK_fixline, luaK_getlabel, luaK_goiffalse, luaK_goiftrue, luaK_indexed, luaK_infix, luaK_intK, luaK_jump, luaK_jumpto, luaK_nil, luaK_patchclose, luaK_patchlist, luaK_patchtohere, luaK_posfix, luaK_prefix, luaK_reserveregs, luaK_ret, luaK_self, luaK_setlist, luaK_setmultret, luaK_setoneret, luaK_setreturns, luaK_storevar, luaK_stringK]

@[simp] theorem luaK_setreturns_bl (fs : FuncState) (e : expdesc) (n : Int) :
    (luaK_setreturns fs e n).bl = fs.bl := by
  simp only [FuncState.code, FuncState.emit, check_conflict, closelistfield, lastlistfield, luaK_checkstack, luaK_codeABC, luaK_codeABx, luaK_codeAsBx, luaK_codek, luaK_concat, luaK_dischargevars, luaK_exp2RK, luaK_exp2anyreg, luaK_exp2anyregup, luaK_exp2nextreg, luaK_exp2val, luaK_fixline, luaK_getlabel, luaK_goiffalse, luaK_goiftrue, luaK_indexed, luaK_infix, luaK_intK, luaK_jump, luaK_jumpto, luaK_nil, luaK_patchclose, luaK_patchlist, luaK_patchtohere, luaK_posfix, luaK_prefix, luaK_reserveregs, luaK_ret, luaK_self, luaK_setlist, luaK_setmultret, luaK_setoneret, luaK_setreturns, luaK_storevar, luaK_stringK]

@[simp] theorem luaK_exp2nextreg_f (fs : FuncState) (e : expdesc) :
    (luaK_exp2nextreg fs e).2.f = fs.f := by
  simp only [FuncState.code, FuncState.emit, check_conflict, closelistfield, lastlistfield, luaK_checkstack, luaK_codeABC, luaK_codeABx, luaK_codeAsBx, luaK_codek, luaK_concat, luaK_dischargevars, luaK_exp2RK, luaK_exp2anyreg, luaK_exp2anyregup, luaK_exp2nextreg, luaK_exp2val, luaK_fixline, luaK_getlabel, luaK_goiffalse, luaK_goiftrue, luaK_indexed, luaK_infix, luaK_intK, luaK_jump, luaK_jumpto, luaK_nil, luaK_patchclose, luaK_patchlist, luaK_patchtohere, luaK_posfix, luaK_prefix, luaK_reserveregs, luaK_ret, luaK_self, luaK_setlist, luaK_setmultret, luaK_setoneret, luaK_setreturns, luaK_storevar, luaK_stringK]

@[simp] theorem luaK_exp2nextreg_nactvar (fs : FuncState) (e : expdesc) :
    (luaK_exp2nextreg fs e).2.nactvar = fs.nactvar := by
  simp only [FuncState.code, FuncState.emit, check_conflict, closelistfield, lastlistfield, luaK_checkstack, luaK_codeABC, luaK_codeABx, luaK_codeAsBx, luaK_codek, luaK_concat, luaK_dischargevars, luaK_exp2RK, luaK_exp2anyreg, luaK_exp2anyregup, luaK_exp2nextreg, luaK_exp2val, luaK_fixline, luaK_getlabel, luaK_goiffalse, luaK_goiftrue, luaK_indexed, luaK_infix, luaK_intK, luaK_jump, luaK_jumpto, luaK_nil, luaK_patchclose, luaK_patchlist, luaK_patchtohere, luaK_posfix, luaK_prefix, luaK_reserveregs, luaK_ret, luaK_self, luaK_setlist, luaK_setmultret, luaK_setoneret, luaK_setreturns, luaK_storevar, luaK_stringK]

@[simp] theorem luaK_exp2nextreg_firstlocal (fs : FuncState) (e : expdesc) :
    (luaK_exp2nextreg fs e).2.firstlocal = fs.firstlocal := by
  simp only [FuncState.code, FuncState.emit, check_conflict, closelistfield, lastlistfield, luaK_checkstack, luaK_codeABC, luaK_codeABx, luaK_codeAsBx, luaK_codek, luaK_concat, luaK_dischargevars, luaK_exp2RK, luaK_exp2anyreg, luaK_exp2anyregup, luaK_exp2nextreg, luaK_exp2val, luaK_fixline, luaK_getlabel, luaK_goiffalse, luaK_goiftrue, luaK_indexed, luaK_infix, luaK_intK, luaK_jump, luaK_jumpto, luaK_nil, luaK_patchclose, luaK_patchlist, luaK_patchtohere, luaK_posfix, luaK_prefix, luaK_reserveregs, luaK_ret, luaK_self, luaK_setlist, luaK_setmultret, luaK_setoneret, luaK_setreturns, luaK_storevar, luaK_stringK]

@[simp] theorem luaK_exp2nextreg_bl (fs : FuncState) (e : expdesc) :
    (luaK_exp2nextreg fs e).2.bl = fs.bl := by
  simp only [FuncState.code, FuncState.emit, check_conflict, closelistfield, lastlistfield, luaK_checkstack, luaK_codeABC, luaK_codeABx, luaK_codeAsBx, luaK_codek, luaK_concat, luaK_dischargevars, luaK_exp2RK, luaK_exp2anyreg, luaK_exp2anyregup, luaK_exp2nextreg, luaK_exp2val, luaK_fixline, luaK_getlabel, luaK_goiffalse, luaK_goiftrue, luaK_indexed, luaK_infix, luaK_intK, luaK_jump, luaK_jumpto, luaK_nil, luaK_patchclose, luaK_patchlist, luaK_patchtohere, luaK_posfix, luaK_prefix, luaK_reserveregs, luaK_ret, luaK_self, luaK_setlist, luaK_setmultret, luaK_setoneret, luaK_setreturns, luaK_storevar, luaK_stringK]

@[simp] theorem luaK_codeABC_f (fs : FuncState) (op : OpCode) (a b c : Int) :
    (luaK_codeABC fs op a b c).2.f = fs.f := by
  simp only [FuncState.code, FuncState.emit, check_conflict, closelistfield, lastlistfield, luaK_checkstack, luaK_codeABC, luaK_codeABx, luaK_codeAsBx, luaK_codek, luaK_concat, luaK_dischargevars, luaK_exp2RK, luaK_exp2anyreg, luaK_exp2anyregup, luaK_exp2nextreg, luaK_exp2val, luaK_fixline, luaK_getlabel, luaK_goiffalse, luaK_goiftrue, luaK_indexed, luaK_infix, luaK_intK, luaK_jump, luaK_jumpto, luaK_nil, luaK_patchclose, luaK_patchlist, luaK_patchtohere, luaK_posfix, luaK_prefix, luaK_reserveregs, luaK_ret, luaK_self, luaK_setlist, luaK_setmultret, luaK_setoneret, luaK_setreturns, luaK_storevar, luaK_stringK]

@[simp] theorem luaK_codeABC_nactvar (fs : FuncState) (op : OpCode) (a b c : Int) :
    (luaK_codeABC fs op a b c).2.nactvar = fs.nactvar := by
  simp only [FuncState.code, FuncState.emit, check_conflict, closelistfield, lastlistfield, luaK_checkstack, luaK_codeABC, luaK_codeABx, luaK_codeAsBx, luaK_codek, luaK_concat, luaK_dischargevars, luaK_exp2RK, luaK_exp2anyreg, luaK_exp2anyregup, luaK_exp2nextreg, luaK_exp2val, luaK_fixline, luaK_getlabel, luaK_goiffalse, luaK_goiftrue, luaK_indexed, luaK_infix, luaK_intK, luaK_jump, luaK_jumpto, luaK_nil, luaK_patchclose, luaK_patchlist, luaK_patchtohere, luaK_posfix, luaK_prefix, luaK_reserveregs, luaK_ret, luaK_self, luaK_setlist, luaK_setmultret, luaK_setoneret, luaK_setreturns, luaK_storevar, luaK_stringK]

@[simp] theorem luaK_codeABC_firstlocal (fs : FuncState) (op : OpCode) (a b c : Int) :
    (luaK_codeABC fs op a b c).2.firstlocal = fs.firstlocal := by
  simp only [FuncState.code, FuncState.emit, check_conflict, closelistfield, lastlistfield, luaK_checkstack, luaK_codeABC, luaK_codeABx, luaK_codeAsBx, luaK_codek, luaK_concat, luaK_dischargevars, luaK_exp2RK, luaK_exp2anyreg, luaK_exp2anyregup, luaK_exp2nextreg, luaK_exp2val, luaK_fixline, luaK_getlabel, luaK_goiffalse, luaK_goiftrue, luaK_indexed, luaK_infix, luaK_intK, luaK_jump, luaK_jumpto, luaK_nil, luaK_patchclose, luaK_patchlist, luaK_patchtohere, luaK_posfix, luaK_prefix, luaK_reserveregs, luaK_ret, luaK_self, luaK_setlist, luaK_setmultret, luaK_setoneret, luaK_setreturns, luaK_storevar, luaK_stringK]

@[simp] theorem luaK_codeABC_bl (fs : FuncState) (op : OpCode) (a b c : Int) :
    (luaK_codeABC fs op a b c).2.bl = fs.bl := by
  simp only [FuncState.code, FuncState.emit, check_conflict, closelistfield, lastlistfield, luaK_checkstack, luaK_codeABC, luaK_codeABx, luaK_codeAsBx, luaK_codek, luaK_concat, luaK_dischargevars, luaK_exp2RK, luaK_exp2anyreg, luaK_exp2anyregup, luaK_exp2nextreg, luaK_exp2val, luaK_fixline, luaK_getlabel, luaK_goiffalse, luaK_goiftrue, luaK_indexed, luaK_infix, luaK_intK, luaK_jump, luaK_jumpto, luaK_nil, luaK_patchclose, luaK_patchlist, luaK_patchtohere, luaK_posfix, luaK_prefix, luaK_reserveregs, luaK_ret, luaK_self, luaK_setlist, luaK_setmultret, luaK_setoneret, luaK_setreturns, luaK_storevar, luaK_stringK]

@[simp] theorem luaK_stringK_f (fs : FuncState) (s : TString) :
    (luaK_stringK fs s).2.f = fs.f := by
  simp only [FuncState.code, FuncState.emit, check_conflict, closelistfield, lastlistfield, luaK_checkstack, luaK_codeABC, luaK_codeABx, luaK_codeAsBx, luaK_codek, luaK_concat, luaK_dischargevars, luaK_exp2RK, luaK_exp2anyreg, luaK_exp2anyregup, luaK_exp2nextreg, luaK_exp2val, luaK_fixline, luaK_getlabel, luaK_goiffalse, luaK_goiftrue, luaK_indexed, luaK_infix, luaK_intK, luaK_jump, luaK_jumpto, luaK_nil, luaK_patchclose, luaK_patchlist, luaK_patchtohere, luaK_posfix, luaK_prefix, luaK_reserveregs, luaK_ret, luaK_self, luaK_setlist, luaK_setmultret, luaK_setoneret, luaK_setreturns, luaK_storevar, luaK_stringK]
  repeat' split
  all_goals rfl

@[simp] theorem luaK_stringK_nactvar (fs : FuncState) (s : TString) :
    (luaK_stringK fs s).2.nactvar = fs.nactvar := by
  simp only [FuncState.code, FuncState.emit, check_conflict, closelistfield, lastlistfield, luaK_checkstack, luaK_codeABC, luaK_codeABx, luaK_codeAsBx, luaK_codek, luaK_concat, luaK_dischargevars, luaK_exp2RK, luaK_exp2anyreg, luaK_exp2anyregup, luaK_exp2nextreg, luaK_exp2val, luaK_fixline, luaK_getlabel, luaK_goiffalse, luaK_goiftrue, luaK_indexed, luaK_infix, luaK_intK, luaK_jump, luaK_jumpto, luaK_nil, luaK_patchclose, luaK_patchlist, luaK_patchtohere, luaK_posfix, luaK_prefix, luaK_reserveregs, luaK_ret, luaK_self, luaK_setlist, luaK_setmultret, luaK_setoneret, luaK_setreturns, luaK_storevar, luaK_stringK]
  repeat' split
  all_goals rfl

@[simp] theorem luaK_stringK_firstlocal (fs : FuncState) (s : TString) :
    (luaK_stringK fs s).2.firstlocal = fs.firstlocal := by
  simp only [FuncState.code, FuncState.emit, check_conflict, closelistfield, lastlistfield, luaK_checkstack, luaK_codeABC, luaK_codeABx, luaK_codeAsBx, luaK_codek, luaK_concat, luaK_dischargevars, luaK_exp2RK, luaK_exp2anyreg, luaK_exp2anyregup, luaK_exp2nextreg, luaK_exp2val, luaK_fixline, luaK_getlabel, luaK_goiffalse, luaK_goiftrue, luaK_indexed, luaK_infix, luaK_intK, luaK_jump, luaK_jumpto, luaK_nil, luaK_patchclose, luaK_patchlist, luaK_patchtohere, luaK_posfix, luaK_prefix, luaK_reserveregs, luaK_ret, luaK_self, luaK_setlist, luaK_setmultret, luaK_setoneret, luaK_setreturns, luaK_storevar, luaK_stringK]
  repeat' split
  all_goals rfl

@[simp] theorem luaK_stringK_bl (fs : FuncState) (s : TString) :
    (luaK_stringK fs s).2.bl = fs.bl := by
  simp only [FuncState.code, FuncState.emit, check_conflict, closelistfield, lastlistfield, luaK_checkstack, luaK_codeABC, luaK_codeABx, luaK_codeAsBx, luaK_codek, luaK_concat, luaK_dischargevars, luaK_exp2RK, luaK_exp2anyreg, luaK_exp2anyregup, luaK_exp2nextreg, luaK_exp2val, luaK_fixline, luaK_getlabel, luaK_goiffalse, luaK_goiftrue, luaK_indexed, luaK_infix, luaK_intK, luaK_jump, luaK_jumpto, luaK_nil, luaK_patchclose, luaK_patchlist, luaK_patchtohere, luaK_posfix, luaK_prefix, luaK_reserveregs, luaK_ret, luaK_self, luaK_setlist, luaK_setmultret, luaK_setoneret, luaK_setreturns, luaK_storevar, luaK_stringK]
  repeat' split
  all_goals rfl

@[simp] theorem luaK_prefix_f (fs : FuncState) (op : UnOpr) (e : expdesc) (line : Int) :
    ( luaK_prefix fs op e line).2.f = fs.f := by
  simp only [FuncState.code, FuncState.emit, check_conflict, closelistfield, lastlistfield, luaK_checkstack, luaK_codeABC, luaK_codeABx, luaK_codeAsBx, luaK_codek, luaK_concat, luaK_dischargevars, luaK_exp2RK, luaK_exp2anyreg, luaK_exp2anyregup, luaK_exp2nextreg, luaK_exp2val, luaK_fixline, luaK_getlabel, luaK_goiffalse, luaK_goiftrue, luaK_indexed, luaK_infix, luaK_intK, luaK_jump, luaK_jumpto, luaK_nil, luaK_patchclose, luaK_patchlist, luaK_patchtohere, luaK_posfix, luaK_prefix, luaK_reserveregs, luaK_ret, luaK_self, luaK_setlist, luaK_setmultret, luaK_setoneret, luaK_setreturns, luaK_storevar, luaK_stringK]

@[simp] theorem luaK_prefix_nactvar (fs : FuncState) (op : UnOpr) (e : expdesc) (line : Int) :
    ( luaK_prefix fs op e line).2.nactvar = fs.nactvar := by
  simp only [FuncState.code, FuncState.emit, check_conflict, closelistfield, lastlistfield, luaK_checkstack, luaK_codeABC, luaK_codeABx, luaK_codeAsBx, luaK_codek, luaK_concat, luaK_dischargevars, luaK_exp2RK, luaK_exp2anyreg, luaK_exp2anyregup, luaK_exp2nextreg, luaK_exp2val, luaK_fixline, luaK_getlabel, luaK_goiffalse, luaK_goiftrue, luaK_indexed, luaK_infix, luaK_intK, luaK_jump, luaK_jumpto, luaK_nil, luaK_patchclose, luaK_patchlist, luaK_patchtohere, luaK_posfix, luaK_prefix, luaK_reserveregs, luaK_ret, luaK_self, luaK_setlist, luaK_setmultret, luaK_setoneret, luaK_setreturns, luaK_storevar, luaK_stringK]

@[simp] theorem luaK_prefix_firstlocal (fs : FuncState) (op : UnOpr) (e : expdesc) (line : Int) :
    ( luaK_prefix fs op e line).2.firstlocal = fs.firstlocal := by
  simp only [FuncState.code, FuncState.emit, check_conflict, closelistfield, lastlistfield, luaK_checkstack, luaK_codeABC, luaK_codeABx, luaK_codeAsBx, luaK_codek, luaK_concat, luaK_dischargevars, luaK_exp2RK, luaK_exp2anyreg, luaK_exp2anyregup, luaK_exp2nextreg, luaK_exp2val, luaK_fixline, luaK_getlabel, luaK_goiffalse, luaK_goiftrue, luaK_indexed, luaK_infix, luaK_intK, luaK_jump, luaK_jumpto, luaK_nil, luaK_patchclose, luaK_patchlist, luaK_patchtohere, luaK_posfix, luaK_prefix, luaK_reserveregs, luaK_ret, luaK_self, luaK_setlist, luaK_setmultret, luaK_setoneret, luaK_setreturns, luaK_storevar, luaK_stringK]

@[simp] theorem luaK_prefix_bl (fs : FuncState) (op : UnOpr) (e : expdesc) (line : Int) :
    ( luaK_prefix fs op e line).2.bl = fs.bl := by
  simp only [FuncState.code, FuncState.emit, check_conflict, closelistfield, lastlistfield, luaK_checkstack, luaK_codeABC, luaK_codeABx, luaK_codeAsBx, luaK_codek, luaK_concat, luaK_dischargevars, luaK_exp2RK, luaK_exp2anyreg, luaK_exp2anyregup, luaK_exp2nextreg, luaK_exp2val, luaK_fixline, luaK_getlabel, luaK_goiffalse, luaK_goiftrue, luaK_indexed, luaK_infix, luaK_intK, luaK_jump, luaK_jumpto, luaK_nil, luaK_patchclose, luaK_patchlist, luaK_patchtohere, luaK_posfix, luaK_prefix, luaK_reserveregs, luaK_ret, luaK_self, luaK_setlist, luaK_setmultret, luaK_setoneret, luaK_setreturns, luaK_storevar, luaK_stringK]

@[simp] theorem luaK_infix_f (fs : FuncState) (op : BinOpr) (v : expdesc) :
    ( luaK_infix fs op v).2.f = fs.f := by
  simp only [FuncState.code, FuncState.emit, check_conflict, closelistfield, lastlistfield, luaK_checkstack, luaK_codeABC, luaK_codeABx, luaK_codeAsBx, luaK_codek, luaK_concat, luaK_dischargevars, luaK_exp2RK, luaK_exp2anyreg, luaK_exp2anyregup, luaK_exp2nextreg, luaK_exp2val, luaK_fixline, luaK_getlabel, luaK_goiffalse, luaK_goiftrue, luaK_indexed, luaK_infix, luaK_intK, luaK_jump, luaK_jumpto, luaK_nil, luaK_patchclose, luaK_patchlist, luaK_patchtohere, luaK_posfix, luaK_prefix, luaK_reserveregs, luaK_ret, luaK_self, luaK_setlist, luaK_setmultret, luaK_setoneret, luaK_setreturns, luaK_storevar, luaK_stringK]

@[simp] theorem luaK_infix_nactvar (fs : FuncState) (op : BinOpr) (v : expdesc) :
    ( luaK_infix fs op v).2.nactvar = fs.nactvar := by
  simp only [FuncState.code, FuncState.emit, check_conflict, closelistfield, lastlistfield, luaK_checkstack, luaK_codeABC, luaK_codeABx, luaK_codeAsBx, luaK_codek, luaK_concat, luaK_dischargevars, luaK_exp2RK, luaK_exp2anyreg, luaK_exp2anyregup, luaK_exp2nextreg, luaK_exp2val, luaK_fixline, luaK_getlabel, luaK_goiffalse, luaK_goiftrue, luaK_indexed, luaK_infix, luaK_intK, luaK_jump, luaK_jumpto, luaK_nil, luaK_patchclose, luaK_patchlist, luaK_patchtohere, luaK_posfix, luaK_prefix, luaK_reserveregs, luaK_ret, luaK_self, luaK_setlist, luaK_setmultret, luaK_setoneret, luaK_setreturns, luaK_storevar, luaK_stringK]

@[simp] theorem luaK_infix_firstlocal (fs : FuncState) (op : BinOpr) (v : expdesc) :
    ( luaK_infix fs op v).2.firstlocal = fs.firstlocal := by
  simp only [FuncState.code, FuncState.emit, check_conflict, closelistfield, lastlistfield, luaK_checkstack, luaK_codeABC, luaK_codeABx, luaK_codeAsBx, luaK_codek, luaK_concat, luaK_dischargevars, luaK_exp2RK, luaK_exp2anyreg, luaK_exp2anyregup, luaK_exp2nextreg, luaK_exp2val, luaK_fixline, luaK_getlabel, luaK_goiffalse, luaK_goiftrue, luaK_indexed, luaK_infix, luaK_intK, luaK_jump, luaK_jumpto, luaK_nil, luaK_patchclose, luaK_patchlist, luaK_patchtohere, luaK_posfix, luaK_prefix, luaK_reserveregs, luaK_ret, luaK_self, luaK_setlist, luaK_setmultret, luaK_setoneret, luaK_setreturns, luaK_storevar, luaK_stringK]

@[simp] theorem luaK_infix_bl (fs : FuncState) (op : BinOpr) (v : expdesc) :
    ( luaK_infix fs op v).2.bl = fs.bl := by
  simp only [FuncState.code, FuncState.emit, check_conflict, closelistfield, lastlistfield, luaK_checkstack, luaK_codeABC, luaK_codeABx, luaK_codeAsBx, luaK_codek, luaK_concat, luaK_dischargevars, luaK_exp2RK, luaK_exp2anyreg, luaK_exp2anyregup, luaK_exp2nextreg, luaK_exp2val, luaK_fixline, luaK_getlabel, luaK_goiffalse, luaK_goiftrue, luaK_indexed, luaK_infix, luaK_intK, luaK_jump, luaK_jumpto, luaK_nil, luaK_patchclose, luaK_patchlist, luaK_patchtohere, luaK_posfix, luaK_prefix, luaK_reserveregs, luaK_ret, luaK_self, luaK_setlist, luaK_setmultret, luaK_setoneret, luaK_setreturns, luaK_storevar, luaK_stringK]

@[simp] theorem luaK_posfix_f (fs : FuncState) (op : BinOpr) (e1 e2 : expdesc) (line : Int) :
    (luaK_posfix fs op e1 e2 line).2.f = fs.f := by
  simp only [FuncState.code, FuncState.emit, check_conflict, closelistfield, lastlistfield, luaK_checkstack, luaK_codeABC, luaK_codeABx, luaK_codeAsBx, luaK_codek, luaK_concat, luaK_dischargevars, luaK_exp2RK, luaK_exp2anyreg, luaK_exp2anyregup, luaK_exp2nextreg, luaK_exp2val, luaK_fixline, luaK_getlabel, luaK_goiffalse, luaK_goiftrue, luaK_indexed, luaK_infix, luaK_intK, luaK_jump, luaK_jumpto, luaK_nil, luaK_patchclose, luaK_patchlist, luaK_patchtohere, luaK_posfix, luaK_prefix, luaK_reserveregs, luaK_ret, luaK_self, luaK_setlist, luaK_setmultret, luaK_setoneret, luaK_setreturns, luaK_storevar, luaK_stringK]

@[simp] theorem luaK_posfix_nactvar (fs : FuncState) (op : BinOpr) (e1 e2 : expdesc) (line : Int) :
    (luaK_posfix fs op e1 e2 line).2.nactvar = fs.nactvar := by
  simp only [FuncState.code, FuncState.emit, check_conflict, closelistfield, lastlistfield, luaK_checkstack, luaK_codeABC, luaK_codeABx, luaK_codeAsBx, luaK_codek, luaK_concat, luaK_dischargevars, luaK_exp2RK, luaK_exp2anyreg, luaK_exp2anyregup, luaK_exp2nextreg, luaK_exp2val, luaK_fixline, luaK_getlabel, luaK_goiffalse, luaK_goiftrue, luaK_indexed, luaK_infix, luaK_intK, luaK_jump, luaK_jumpto, luaK_nil, luaK_patchclose, luaK_patchlist, luaK_patchtohere, luaK_posfix, luaK_prefix, luaK_reserveregs, luaK_ret, luaK_self, luaK_setlist, luaK_setmultret, luaK_setoneret, luaK_setreturns, luaK_storevar, luaK_stringK]

@[simp] theorem luaK_posfix_firstlocal (fs : FuncState) (op : BinOpr) (e1 e2 : expdesc) (line : Int) :
    (luaK_posfix fs op e1 e2 line).2.firstlocal = fs.firstlocal := by
  simp only [FuncState.code, FuncState.emit, check_conflict, closelistfield, lastlistfield, luaK_checkstack, luaK_codeABC, luaK_codeABx, luaK_codeAsBx, luaK_codek, luaK_concat, luaK_dischargevars, luaK_exp2RK, luaK_exp2anyreg, luaK_exp2anyregup, luaK_exp2nextreg, luaK_exp2val, luaK_fixline, luaK_getlabel, luaK_goiffalse, luaK_goiftrue, luaK_indexed, luaK_infix, luaK_intK, luaK_jump, luaK_jumpto, luaK_nil, luaK_patchclose, luaK_patchlist, luaK_patchtohere, luaK_posfix, luaK_prefix, luaK_reserveregs, luaK_ret, luaK_self, luaK_setlist, luaK_setmultret, luaK_setoneret, luaK_setreturns, luaK_storevar, luaK_stringK]

@[simp] theorem luaK_posfix_bl (fs : FuncState) (op : BinOpr) (e1 e2 : expdesc) (line : Int) :
    (luaK_posfix fs op e1 e2 line).2.bl = fs.bl := by
  simp only [FuncState.code, FuncState.emit, check_conflict, closelistfield, lastlistfield, luaK_checkstack, luaK_codeABC, luaK_codeABx, luaK_codeAsBx, luaK_codek, luaK_concat, luaK_dischargevars, luaK_exp2RK, luaK_exp2anyreg, luaK_exp2anyregup, luaK_exp2nextreg, luaK_exp2val, luaK_fixline, luaK_getlabel, luaK_goiffalse, luaK_goiftrue, luaK_indexed, luaK_infix, luaK_intK, luaK_jump, luaK_jumpto, luaK_nil, luaK_patchclose, luaK_patchlist, luaK_patchtohere, luaK_posfix, luaK_prefix, luaK_reserveregs, luaK_ret, luaK_self, luaK_setlist, luaK_setmultret, luaK_setoneret, luaK_setreturns, luaK_storevar, luaK_stringK]

@[simp] theorem luaK_ret_f (fs : FuncState) (a b : Int) :
    (luaK_ret fs a b).f = fs.f := by
  simp only [FuncState.code, FuncState.emit, check_conflict, closelistfield, lastlistfield, luaK_checkstack, luaK_codeABC, luaK_codeABx, luaK_codeAsBx, luaK_codek, luaK_concat, luaK_dischargevars, luaK_exp2RK, luaK_exp2anyreg, luaK_exp2anyregup, luaK_exp2nextreg, luaK_exp2val, luaK_fixline, luaK_getlabel, luaK_goiffalse, luaK_goiftrue, luaK_indexed, luaK_infix, luaK_intK, luaK_jump, luaK_jumpto, luaK_nil, luaK_patchclose, luaK_patchlist, luaK_patchtohere, luaK_posfix, luaK_prefix, luaK_reserveregs, luaK_ret, luaK_self, luaK_setlist, luaK_setmultret, luaK_setoneret, luaK_setreturns, luaK_storevar, luaK_stringK]

@[simp] theorem luaK_ret_nactvar (fs : FuncState) (a b : Int) :
    (luaK_ret fs a b).nactvar = fs.nactvar := by
  simp only [FuncState.code, FuncState.emit, check_conflict, closelistfield, lastlistfield, luaK_checkstack, luaK_codeABC, luaK_codeABx, luaK_codeAsBx, luaK_codek, luaK_concat, luaK_dischargevars, luaK_exp2RK, luaK_exp2anyreg, luaK_exp2anyregup, luaK_exp2nextreg, luaK_exp2val, luaK_fixline, luaK_getlabel, luaK_goiffalse, luaK_goiftrue, luaK_indexed, luaK_infix, luaK_intK, luaK_jump, luaK_jumpto, luaK_nil, luaK_patchclose, luaK_patchlist, luaK_patchtohere, luaK_posfix, luaK_prefix, luaK_reserveregs, luaK_ret, luaK_self, luaK_setlist, luaK_setmultret, luaK_setoneret, luaK_setreturns, luaK_storevar, luaK_stringK]

@[simp] theorem luaK_ret_firstlocal (fs : FuncState) (a b : Int) :
    (luaK_ret fs a b).firstlocal = fs.firstlocal := by
  simp only [FuncState.code, FuncState.emit, check_conflict, closelistfield, lastlistfield, luaK_checkstack, luaK_codeABC, luaK_codeABx, luaK_codeAsBx, luaK_codek, luaK_concat, luaK_dischargevars, luaK_exp2RK, luaK_exp2anyreg, luaK_exp2anyregup, luaK_exp2nextreg, luaK_exp2val, luaK_fixline, luaK_getlabel, luaK_goiffalse, luaK_goiftrue, luaK_indexed, luaK_infix, luaK_intK, luaK_jump, luaK_jumpto, luaK_nil, luaK_patchclose, luaK_patchlist, luaK_patchtohere, luaK_posfix, luaK_prefix, luaK_reserveregs, luaK_ret, luaK_self, luaK_setlist, luaK_setmultret, luaK_setoneret, luaK_setreturns, luaK_storevar, luaK_stringK]

@[simp] theorem luaK_ret_bl (fs : FuncState) (a b : Int) :
    (luaK_ret fs a b).bl = fs.bl := by
  simp only [FuncState.code, FuncState.emit, check_conflict, closelistfield, lastlistfield, luaK_checkstack, luaK_codeABC, luaK_codeABx, luaK_codeAsBx, luaK_codek, luaK_concat, luaK_dischargevars, luaK_exp2RK, luaK_exp2anyreg, luaK_exp2anyregup, luaK_exp2nextreg, luaK_exp2val, luaK_fixline, luaK_getlabel, luaK_goiffalse, luaK_goiftrue, luaK_indexed, luaK_infix, luaK_intK, luaK_jump, luaK_jumpto, luaK_nil, luaK_patchclose, luaK_patchlist, luaK_patchtohere, luaK_posfix, luaK_prefix, luaK_reserveregs, luaK_ret, luaK_self, luaK_setlist, luaK_setmultret, luaK_setoneret, luaK_setreturns, luaK_storevar, luaK_stringK]

@[simp] theorem luaK_setmultret_f (fs : FuncState) (e : expdesc) :
    (luaK_setmultret fs e).f = fs.f := by
  simp only [FuncState.code, FuncState.emit, check_conflict, closelistfield, lastlistfield, luaK_checkstack, luaK_codeABC, luaK_codeABx, luaK_codeAsBx, luaK_codek, luaK_concat, luaK_dischargevars, luaK_exp2RK, luaK_exp2anyreg, luaK_exp2anyregup, luaK_exp2nextreg, luaK_exp2val, luaK_fixline, luaK_getlabel, luaK_goiffalse, luaK_goiftrue, luaK_indexed, luaK_infix, luaK_intK, luaK_jump, luaK_jumpto, luaK_nil, luaK_patchclose, luaK_patchlist, luaK_patchtohere, luaK_posfix, luaK_prefix, luaK_reserveregs, luaK_ret, luaK_self, luaK_setlist, luaK_setmultret, luaK_setoneret, luaK_setreturns, luaK_storevar, luaK_stringK]

@[simp] theorem luaK_setmultret_nactvar (fs : FuncState) (e : expdesc) :
    (luaK_setmultret fs e).nactvar = fs.nactvar := by
  simp only [FuncState.code, FuncState.emit, check_conflict, closelistfield, lastlistfield, luaK_checkstack, luaK_codeABC, luaK_codeABx, luaK_codeAsBx, luaK_codek, luaK_concat, luaK_dischargevars, luaK_exp2RK, luaK_exp2anyreg, luaK_exp2anyregup, luaK_exp2nextreg, luaK_exp2val, luaK_fixline, luaK_getlabel, luaK_goiffalse, luaK_goiftrue, luaK_indexed, luaK_infix, luaK_intK, luaK_jump, luaK_jumpto, luaK_nil, luaK_patchclose, luaK_patchlist, luaK_patchtohere, luaK_posfix, luaK_prefix, luaK_reserveregs, luaK_ret, luaK_self, luaK_setlist, luaK_setmultret, luaK_setoneret, luaK_setreturns, luaK_storevar, luaK_stringK]

@[simp] theorem luaK_setmultret_firstlocal (fs : FuncState) (e : expdesc) :
    (luaK_setmultret fs e).firstlocal = fs.firstlocal := by
  simp only [FuncState.code, FuncState.emit, check_conflict, closelistfield, lastlistfield, luaK_checkstack, luaK_codeABC, luaK_codeABx, luaK_codeAsBx, luaK_codek, luaK_concat, luaK_dischargevars, luaK_exp2RK, luaK_exp2anyreg, luaK_exp2anyregup, luaK_exp2nextreg, luaK_exp2val, luaK_fixline, luaK_getlabel, luaK_goiffalse, luaK_goiftrue, luaK_indexed, luaK_infix, luaK_intK, luaK_jump, luaK_jumpto, luaK_nil, luaK_patchclose, luaK_patchlist, luaK_patchtohere, luaK_posfix, luaK_prefix, luaK_reserveregs, luaK_ret, luaK_self, luaK_setlist, luaK_setmultret, luaK_setoneret, luaK_setreturns, luaK_storevar, luaK_stringK]

@[simp] theorem luaK_setmultret_bl (fs : FuncState) (e : expdesc) :
    (luaK_setmultret fs e).bl = fs.bl := by
  simp only [FuncState.code, FuncState.emit, check_conflict, closelistfield, lastlistfield, luaK_checkstack, luaK_codeABC, luaK_codeABx, luaK_codeAsBx, luaK_codek, luaK_concat, luaK_dischargevars, luaK_exp2RK, luaK_exp2anyreg, luaK_exp2anyregup, luaK_exp2nextreg, luaK_exp2val, luaK_fixline, luaK_getlabel, luaK_goiffalse, luaK_goiftrue, luaK_indexed, luaK_infix, luaK_intK, luaK_jump, luaK_jumpto, luaK_nil, luaK_patchclose, luaK_patchlist, luaK_patchtohere, luaK_posfix, luaK_prefix, luaK_reserveregs, luaK_ret, luaK_self, luaK_setlist, luaK_setmultret, luaK_setoneret, luaK_setreturns, luaK_storevar, luaK_stringK]

@[simp] theorem luaK_setlist_f (fs : FuncState) (a b c : Int) :
    (luaK_setlist fs a b c).f = fs.f := by
  simp only [FuncState.code, FuncState.emit, check_conflict, closelistfield, lastlistfield, luaK_checkstack, luaK_codeABC, luaK_codeABx, luaK_codeAsBx, luaK_codek, luaK_concat, luaK_dischargevars, luaK_exp2RK, luaK_exp2anyreg, luaK_exp2anyregup, luaK_exp2nextreg, luaK_exp2val, luaK_fixline, luaK_getlabel, luaK_goiffalse, luaK_goiftrue, luaK_indexed, luaK_infix, luaK_intK, luaK_jump, luaK_jumpto, luaK_nil, luaK_patchclose, luaK_patchlist, luaK_patchtohere, luaK_posfix, luaK_prefix, luaK_reserveregs, luaK_ret, luaK_self, luaK_setlist, luaK_setmultret, luaK_setoneret, luaK_setreturns, luaK_storevar, luaK_stringK]

@[simp] theorem luaK_setlist_nactvar (fs : FuncState) (a b c : Int) :
    (luaK_setlist fs a b c).nactvar = fs.nactvar := by
  simp only [FuncState.code, FuncState.emit, check_conflict, closelistfield, lastlistfield, luaK_checkstack, luaK_codeABC, luaK_codeABx, luaK_codeAsBx, luaK_codek, luaK_concat, luaK_dischargevars, luaK_exp2RK, luaK_exp2anyreg, luaK_exp2anyregup, luaK_exp2nextreg, luaK_exp2val, luaK_fixline, luaK_getlabel, luaK_goiffalse, luaK_goiftrue, luaK_indexed, luaK_infix, luaK_intK, luaK_jump, luaK_jumpto, luaK_nil, luaK_patchclose, luaK_patchlist, luaK_patchtohere, luaK_posfix, luaK_prefix, luaK_reserveregs, luaK_ret, luaK_self, luaK_setlist, luaK_setmultret, luaK_setoneret, luaK_setreturns, luaK_storevar, luaK_stringK]

@[simp] theorem luaK_setlist_firstlocal (fs : FuncState) (a b c : Int) :
    (luaK_setlist fs a b c).firstlocal = fs.firstlocal := by
  simp only [FuncState.code, FuncState.emit, check_conflict, closelistfield, lastlistfield, luaK_checkstack, luaK_codeABC, luaK_codeABx, luaK_codeAsBx, luaK_codek, luaK_concat, luaK_dischargevars, luaK_exp2RK, luaK_exp2anyreg, luaK_exp2anyregup, luaK_exp2nextreg, luaK_exp2val, luaK_fixline, luaK_getlabel, luaK_goiffalse, luaK_goiftrue, luaK_indexed, luaK_infix, luaK_intK, luaK_jump, luaK_jumpto, luaK_nil, luaK_patchclose, luaK_patchlist, luaK_patchtohere, luaK_posfix, luaK_prefix, luaK_reserveregs, luaK_ret, luaK_self, luaK_setlist, luaK_setmultret, luaK_setoneret, luaK_setreturns, luaK_storevar, luaK_stringK]

@[simp] theorem luaK_setlist_bl (fs : FuncState) (a b c : Int) :
    (luaK_setlist fs a b c).bl = fs.bl := by
  simp only [FuncState.code, FuncState.emit, check_conflict, closelistfield, lastlistfield, luaK_checkstack, luaK_codeABC, luaK_codeABx, luaK_codeAsBx, luaK_codek, luaK_concat, luaK_dischargevars, luaK_exp2RK, luaK_exp2anyreg, luaK_exp2anyregup, luaK_exp2nextreg, luaK_exp2val, luaK_fixline, luaK_getlabel, luaK_goiffalse, luaK_goiftrue, luaK_indexed, luaK_infix, luaK_intK, luaK_jump, luaK_jumpto, luaK_nil, luaK_patchclose, luaK_patchlist, luaK_patchtohere, luaK_posfix, luaK_prefix, luaK_reserveregs, luaK_ret, luaK_self, luaK_setlist, luaK_setmultret, luaK_setoneret, luaK_setreturns, luaK_storevar, luaK_stringK]

@[simp] theorem luaK_setoneret_f (fs : FuncState) (e : expdesc) :
    (luaK_setoneret fs e).2.f = fs.f := by
  simp only [FuncState.code, FuncState.emit, check_conflict, closelistfield, lastlistfield, luaK_checkstack, luaK_codeABC, luaK_codeABx, luaK_codeAsBx, luaK_codek, luaK_concat, luaK_dischargevars, luaK_exp2RK, luaK_exp2anyreg, luaK_exp2anyregup, luaK_exp2nextreg, luaK_exp2val, luaK_fixline, luaK_getlabel, luaK_goiffalse, luaK_goiftrue, luaK_indexed, luaK_infix, luaK_intK, luaK_jump, luaK_jumpto, luaK_nil, luaK_patchclose, luaK_patchlist, luaK_patchtohere, luaK_posfix, luaK_prefix, luaK_reserveregs, luaK_ret, luaK_self, luaK_setlist, luaK_setmultret, luaK_setoneret, luaK_setreturns, luaK_storevar, luaK_stringK]

@[simp] theorem luaK_setoneret_nactvar (fs : FuncState) (e : expdesc) :
    (luaK_setoneret fs e).2.nactvar = fs.nactvar := by
  simp only [FuncState.code, FuncState.emit, check_conflict, closelistfield, lastlistfield, luaK_checkstack, luaK_codeABC, luaK_codeABx, luaK_codeAsBx, luaK_codek, luaK_concat, luaK_dischargevars, luaK_exp2RK, luaK_exp2anyreg, luaK_exp2anyregup, luaK_exp2nextreg, luaK_exp2val, luaK_fixline, luaK_getlabel, luaK_goiffalse, luaK_goiftrue, luaK_indexed, luaK_infix, luaK_intK, luaK_jump, luaK_jumpto, luaK_nil, luaK_patchclose, luaK_patchlist, luaK_patchtohere, luaK_posfix, luaK_prefix, luaK_reserveregs, luaK_ret, luaK_self, luaK_setlist, luaK_setmultret, luaK_setoneret, luaK_setreturns, luaK_storevar, luaK_stringK]

@[simp] theorem luaK_setoneret_firstlocal (fs : FuncState) (e : expdesc) :
    (luaK_setoneret fs e).2.firstlocal = fs.firstlocal := by
  simp only [FuncState.code, FuncState.emit, check_conflict, closelistfield, lastlistfield, luaK_checkstack, luaK_codeABC, luaK_codeABx, luaK_codeAsBx, luaK_codek, luaK_concat, luaK_dischargevars, luaK_exp2RK, luaK_exp2anyreg, luaK_exp2anyregup, luaK_exp2nextreg, luaK_exp2val, luaK_fixline, luaK_getlabel, luaK_goiffalse, luaK_goiftrue, luaK_indexed, luaK_infix, luaK_intK, luaK_jump, luaK_jumpto, luaK_nil, luaK_patchclose, luaK_patchlist, luaK_patchtohere, luaK_posfix, luaK_prefix, luaK_reserveregs, luaK_ret, luaK_self, luaK_setlist, luaK_setmultret, luaK_setoneret, luaK_setreturns, luaK_storevar, luaK_stringK]

@[simp] theorem luaK_setoneret_bl (fs : FuncState) (e : expdesc) :
    (luaK_setoneret fs e).2.bl = fs.bl := by
  simp only [FuncState.code, FuncState.emit, check_conflict, closelistfield, lastlistfield, luaK_checkstack, luaK_codeABC, luaK_codeABx, luaK_codeAsBx, luaK_codek, luaK_concat, luaK_dischargevars, luaK_exp2RK, luaK_exp2anyreg, luaK_exp2anyregup, luaK_exp2nextreg, luaK_exp2val, luaK_fixline, luaK_getlabel, luaK_goiffalse, luaK_goiftrue, luaK_indexed, luaK_infix, luaK_intK, luaK_jump, luaK_jumpto, luaK_nil, luaK_patchclose, luaK_patchlist, luaK_patchtohere, luaK_posfix, luaK_prefix, luaK_reserveregs, luaK_ret, luaK_self, luaK_setlist, luaK_setmultret, luaK_setoneret, luaK_setreturns, luaK_storevar, luaK_stringK]

@[simp] theorem luaK_dischargevars_f (fs : FuncState) (e : expdesc) :
    (luaK_dischargevars fs e).2.f = fs.f := by
  simp only [FuncState.code, FuncState.emit, check_conflict, closelistfield, lastlistfield, luaK_checkstack, luaK_codeABC, luaK_codeABx, luaK_codeAsBx, luaK_codek, luaK_concat, luaK_dischargevars, luaK_exp2RK, luaK_exp2anyreg, luaK_exp2anyregup, luaK_exp2nextreg, luaK_exp2val, luaK_fixline, luaK_getlabel, luaK_goiffalse, luaK_goiftrue, luaK_indexed, luaK_infix, luaK_intK, luaK_jump, luaK_jumpto, luaK_nil, luaK_patchclose, luaK_patchlist, luaK_patchtohere, luaK_posfix, luaK_prefix, luaK_reserveregs, luaK_ret, luaK_self, luaK_setlist, luaK_setmultret, luaK_setoneret, luaK_setreturns, luaK_storevar, luaK_stringK]
  repeat' split
  all_goals rfl

@[simp] theorem luaK_dischargevars_nactvar (fs : FuncState) (e : expdesc) :
    (luaK_dischargevars fs e).2.nactvar = fs.nactvar := by
  simp only [FuncState.code, FuncState.emit, check_conflict, closelistfield, lastlistfield, luaK_checkstack, luaK_codeABC, luaK_codeABx, luaK_codeAsBx, luaK_codek, luaK_concat, luaK_dischargevars, luaK_exp2RK, luaK_exp2anyreg, luaK_exp2anyregup, luaK_exp2nextreg, luaK_exp2val, luaK_fixline, luaK_getlabel, luaK_goiffalse, luaK_goiftrue, luaK_indexed, luaK_infix, luaK_intK, luaK_jump, luaK_jumpto, luaK_nil, luaK_patchclose, luaK_patchlist, luaK_patchtohere, luaK_posfix, luaK_prefix, luaK_reserveregs, luaK_ret, luaK_self, luaK_setlist, luaK_setmultret, luaK_setoneret, luaK_setreturns, luaK_storevar, luaK_stringK]
  repeat' split
  all_goals rfl

@[simp] theorem luaK_dischargevars_firstlocal (fs : FuncState) (e : expdesc) :
    (luaK_dischargevars fs e).2.firstlocal = fs.firstlocal := by
  simp only [FuncState.code, FuncState.emit, check_conflict, closelistfield, lastlistfield, luaK_checkstack, luaK_codeABC, luaK_codeABx, luaK_codeAsBx, luaK_codek, luaK_concat, luaK_dischargevars, luaK_exp2RK, luaK_exp2anyreg, luaK_exp2anyregup, luaK_exp2nextreg, luaK_exp2val, luaK_fixline, luaK_getlabel, luaK_goiffalse, luaK_goiftrue, luaK_indexed, luaK_infix, luaK_intK, luaK_jump, luaK_jumpto, luaK_nil, luaK_patchclose, luaK_patchlist, luaK_patchtohere, luaK_posfix, luaK_prefix, luaK_reserveregs, luaK_ret, luaK_self, luaK_setlist, luaK_setmultret, luaK_setoneret, luaK_setreturns, luaK_storevar, luaK_stringK]
  repeat' split
  all_goals rfl

@[simp] theorem luaK_dischargevars_bl (fs : FuncState) (e : expdesc) :
    (luaK_dischargevars fs e).2.bl = fs.bl := by
  simp only [FuncState.code, FuncState.emit, check_conflict, closelistfield, lastlistfield, luaK_checkstack, luaK_codeABC, luaK_codeABx, luaK_codeAsBx, luaK_codek, luaK_concat, luaK_dischargevars, luaK_exp2RK, luaK_exp2anyreg, luaK_exp2anyregup, luaK_exp2nextreg, luaK_exp2val, luaK_fixline, luaK_getlabel, luaK_goiffalse, luaK_goiftrue, luaK_indexed, luaK_infix, luaK_intK, luaK_jump, luaK_jumpto, luaK_nil, luaK_patchclose, luaK_patchlist, luaK_patchtohere, luaK_posfix, luaK_prefix, luaK_reserveregs, luaK_ret, luaK_self, luaK_setlist, luaK_setmultret, luaK_setoneret, luaK_setreturns, luaK_storevar, luaK_stringK]
  repeat' split
  all_goals rfl

@[simp] theorem luaK_exp2val_f (fs : FuncState) (e : expdesc) :
    (luaK_exp2val fs e).2.f = fs.f := by
  simp only [FuncState.code, FuncState.emit, check_conflict, closelistfield, lastlistfield, luaK_checkstack, luaK_codeABC, luaK_codeABx, luaK_codeAsBx, luaK_codek, luaK_concat, luaK_dischargevars, luaK_exp2RK, luaK_exp2anyreg, luaK_exp2anyregup, luaK_exp2nextreg, luaK_exp2val, luaK_fixline, luaK_getlabel, luaK_goiffalse, luaK_goiftrue, luaK_indexed, luaK_infix, luaK_intK, luaK_jump, luaK_jumpto, luaK_nil, luaK_patchclose, luaK_patchlist, luaK_patchtohere, luaK_posfix, luaK_prefix, luaK_reserveregs, luaK_ret, luaK_self, luaK_setlist, luaK_setmultret, luaK_setoneret, luaK_setreturns, luaK_storevar, luaK_stringK]
  repeat' split
  all_goals rfl

@[simp] theorem luaK_exp2val_nactvar (fs : FuncState) (e : expdesc) :
    (luaK_exp2val fs e).2.nactvar = fs.nactvar := by
  simp only [FuncState.code, FuncState.emit, check_conflict, closelistfield, lastlistfield, luaK_checkstack, luaK_codeABC, luaK_codeABx, luaK_codeAsBx, luaK_codek, luaK_concat, luaK_dischargevars, luaK_exp2RK, luaK_exp2anyreg, luaK_exp2anyregup, luaK_exp2nextreg, luaK_exp2val, luaK_fixline, luaK_getlabel, luaK_goiffalse, luaK_goiftrue, luaK_indexed, luaK_infix, luaK_intK, luaK_jump, luaK_jumpto, luaK_nil, luaK_patchclose, luaK_patchlist, luaK_patchtohere, luaK_posfix, luaK_prefix, luaK_reserveregs, luaK_ret, luaK_self, luaK_setlist, luaK_setmultret, luaK_setoneret, luaK_setreturns, luaK_storevar, luaK_stringK]
  repeat' split
  all_goals rfl

@[simp] theorem luaK_exp2val_firstlocal (fs : FuncState) (e : expdesc) :
    (luaK_exp2val fs e).2.firstlocal = fs.firstlocal := by
  simp only [FuncState.code, FuncState.emit, check_conflict, closelistfield, lastlistfield, luaK_checkstack, luaK_codeABC, luaK_codeABx, luaK_codeAsBx, luaK_codek, luaK_concat, luaK_dischargevars, luaK_exp2RK, luaK_exp2anyreg, luaK_exp2anyregup, luaK_exp2nextreg, luaK_exp2val, luaK_fixline, luaK_getlabel, luaK_goiffalse, luaK_goiftrue, luaK_indexed, luaK_infix, luaK_intK, luaK_jump, luaK_jumpto, luaK_nil, luaK_patchclose, luaK_patchlist, luaK_patchtohere, luaK_posfix, luaK_prefix, luaK_reserveregs, luaK_ret, luaK_self, luaK_setlist, luaK_setmultret, luaK_setoneret, luaK_setreturns, luaK_storevar, luaK_stringK]
  repeat' split
  all_goals rfl

@[simp] theorem luaK_exp2val_bl (fs : FuncState) (e : expdesc) :
    (luaK_exp2val fs e).2.bl = fs.bl := by
  simp only [FuncState.code, FuncState.emit, check_conflict, closelistfield, lastlistfield, luaK_checkstack, luaK_codeABC, luaK_codeABx, luaK_codeAsBx, luaK_codek, luaK_concat, luaK_dischargevars, luaK_exp2RK, luaK_exp2anyreg, luaK_exp2anyregup, luaK_exp2nextreg, luaK_exp2val, luaK_fixline, luaK_getlabel, luaK_goiffalse, luaK_goiftrue, luaK_indexed, luaK_infix, luaK_intK, luaK_jump, luaK_jumpto, luaK_nil, luaK_patchclose, luaK_patchlist, luaK_patchtohere, luaK_posfix, luaK_prefix, luaK_reserveregs, luaK_ret, luaK_self, luaK_setlist, luaK_setmultret, luaK_setoneret, luaK_setreturns, luaK_storevar, luaK_stringK]
  repeat' split
  all_goals rfl

@[simp] theorem luaK_exp2anyreg_f (fs : FuncState) (e : expdesc) :
    (luaK_exp2anyreg fs e).2.f = fs.f := by
  simp only [FuncState.code, FuncState.emit, check_conflict, closelistfield, lastlistfield, luaK_checkstack, luaK_codeABC, luaK_codeABx, luaK_codeAsBx, luaK_codek, luaK_concat, luaK_dischargevars, luaK_exp2RK, luaK_exp2anyreg, luaK_exp2anyregup, luaK_exp2nextreg, luaK_exp2val, luaK_fixline, luaK_getlabel, luaK_goiffalse, luaK_goiftrue, luaK_indexed, luaK_infix, luaK_intK, luaK_jump, luaK_jumpto, luaK_nil, luaK_patchclose, luaK_patchlist, luaK_patchtohere, luaK_posfix, luaK_prefix, luaK_reserveregs, luaK_ret, luaK_self, luaK_setlist, luaK_setmultret, luaK_setoneret, luaK_setreturns, luaK_storevar, luaK_stringK]
  repeat' split
  all_goals rfl

@[simp] theorem luaK_exp2anyreg_nactvar (fs : FuncState) (e : expdesc) :
    (luaK_exp2anyreg fs e).2.nactvar = fs.nactvar := by
  simp only [FuncState.code, FuncState.emit, check_conflict, closelistfield, lastlistfield, luaK_checkstack, luaK_codeABC, luaK_codeABx, luaK_codeAsBx, luaK_codek, luaK_concat, luaK_dischargevars, luaK_exp2RK, luaK_exp2anyreg, luaK_exp2anyregup, luaK_exp2nextreg, luaK_exp2val, luaK_fixline, luaK_getlabel, luaK_goiffalse, luaK_goiftrue, luaK_indexed, luaK_infix, luaK_intK, luaK_jump, luaK_jumpto, luaK_nil, luaK_patchclose, luaK_patchlist, luaK_patchtohere, luaK_posfix, luaK_prefix, luaK_reserveregs, luaK_ret, luaK_self, luaK_setlist, luaK_setmultret, luaK_setoneret, luaK_setreturns, luaK_storevar, luaK_stringK]
  repeat' split
  all_goals rfl

@[simp] theorem luaK_exp2anyreg_firstlocal (fs : FuncState) (e : expdesc) :
    (luaK_exp2anyreg fs e).2.firstlocal = fs.firstlocal := by
  simp only [FuncState.code, FuncState.emit, check_conflict, closelistfield, lastlistfield, luaK_checkstack, luaK_codeABC, luaK_codeABx, luaK_codeAsBx, luaK_codek, luaK_concat, luaK_dischargevars, luaK_exp2RK, luaK_exp2anyreg, luaK_exp2anyregup, luaK_exp2nextreg, luaK_exp2val, luaK_fixline, luaK_getlabel, luaK_goiffalse, luaK_goiftrue, luaK_indexed, luaK_infix, luaK_intK, luaK_jump, luaK_jumpto, luaK_nil, luaK_patchclose, luaK_patchlist, luaK_patchtohere, luaK_posfix, luaK_prefix, luaK_reserveregs, luaK_ret, luaK_self, luaK_setlist, luaK_setmultret, luaK_setoneret, luaK_setreturns, luaK_storevar, luaK_stringK]
  repeat' split
  all_goals rfl

@[simp] theorem luaK_exp2anyreg_bl (fs : FuncState) (e : expdesc) :
    (luaK_exp2anyreg fs e).2.bl = fs.bl := by
  simp only [FuncState.code, FuncState.emit, check_conflict, closelistfield, lastlistfield, luaK_checkstack, luaK_codeABC, luaK_codeABx, luaK_codeAsBx, luaK_codek, luaK_concat, luaK_dischargevars, luaK_exp2RK, luaK_exp2anyreg, luaK_exp2anyregup, luaK_exp2nextreg, luaK_exp2val, luaK_fixline, luaK_getlabel, luaK_goiffalse, luaK_goiftrue, luaK_indexed, luaK_infix, luaK_intK, luaK_jump, luaK_jumpto, luaK_nil, luaK_patchclose, luaK_patchlist, luaK_patchtohere, luaK_posfix, luaK_prefix, luaK_reserveregs, luaK_ret, luaK_self, luaK_setlist, luaK_setmultret, luaK_setoneret, luaK_setreturns, luaK_storevar, luaK_stringK]
  repeat' split
  all_goals rfl

@[simp] theorem luaK_exp2anyregup_f (fs : FuncState) (e : expdesc) :
    (luaK_exp2anyregup fs e).2.f = fs.f := by
  simp only [FuncState.code, FuncState.emit, check_conflict, closelistfield, lastlistfield, luaK_checkstack, luaK_codeABC, luaK_codeABx, luaK_codeAsBx, luaK_codek, luaK_concat, luaK_dischargevars, luaK_exp2RK, luaK_exp2anyreg, luaK_exp2anyregup, luaK_exp2nextreg, luaK_exp2val, luaK_fixline, luaK_getlabel, luaK_goiffalse, luaK_goiftrue, luaK_indexed, luaK_infix, luaK_intK, luaK_jump, luaK_jumpto, luaK_nil, luaK_patchclose, luaK_patchlist, luaK_patchtohere, luaK_posfix, luaK_prefix, luaK_reserveregs, luaK_ret, luaK_self, luaK_setlist, luaK_setmultret, luaK_setoneret, luaK_setreturns, luaK_storevar, luaK_stringK]
  repeat' split
  all_goals rfl

@[simp] theorem luaK_exp2anyregup_nactvar (fs : FuncState) (e : expdesc) :
    (luaK_exp2anyregup fs e).2.nactvar = fs.nactvar := by
  simp only [FuncState.code, FuncState.emit, check_conflict, closelistfield, lastlistfield, luaK_checkstack, luaK_codeABC, luaK_codeABx, luaK_codeAsBx, luaK_codek, luaK_concat, luaK_dischargevars, luaK_exp2RK, luaK_exp2anyreg, luaK_exp2anyregup, luaK_exp2nextreg, luaK_exp2val, luaK_fixline, luaK_getlabel, luaK_goiffalse, luaK_goiftrue, luaK_indexed, luaK_infix, luaK_intK, luaK_jump, luaK_jumpto, luaK_nil, luaK_patchclose, luaK_patchlist, luaK_patchtohere, luaK_posfix, luaK_prefix, luaK_reserveregs, luaK_ret, luaK_self, luaK_setlist, luaK_setmultret, luaK_setoneret, luaK_setreturns, luaK_storevar, luaK_stringK]
  repeat' split
  all_goals rfl

@[simp] theorem luaK_exp2anyregup_firstlocal (fs : FuncState) (e : expdesc) :
    (luaK_exp2anyregup fs e).2.firstlocal = fs.firstlocal := by
  simp only [FuncState.code, FuncState.emit, check_conflict, closelistfield, lastlistfield, luaK_checkstack, luaK_codeABC, luaK_codeABx, luaK_codeAsBx, luaK_codek, luaK_concat, luaK_dischargevars, luaK_exp2RK, luaK_exp2anyreg, luaK_exp2anyregup, luaK_exp2nextreg, luaK_exp2val, luaK_fixline, luaK_getlabel, luaK_goiffalse, luaK_goiftrue, luaK_indexed, luaK_infix, luaK_intK, luaK_jump, luaK_jumpto, luaK_nil, luaK_patchclose, luaK_patchlist, luaK_patchtohere, luaK_posfix, luaK_prefix, luaK_reserveregs, luaK_ret, luaK_self, luaK_setlist, luaK_setmultret, luaK_setoneret, luaK_setreturns, luaK_storevar, luaK_stringK]
  repeat' split
  all_goals rfl

@[simp] theorem luaK_exp2anyregup_bl (fs : FuncState) (e : expdesc) :
    (luaK_exp2anyregup fs e).2.bl = fs.bl := by
  simp only [FuncState.code, FuncState.emit, check_conflict, closelistfield, lastlistfield, luaK_checkstack, luaK_codeABC, luaK_codeABx, luaK_codeAsBx, luaK_codek, luaK_concat, luaK_dischargevars, luaK_exp2RK, luaK_exp2anyreg, luaK_exp2anyregup, luaK_exp2nextreg, luaK_exp2val, luaK_fixline, luaK_getlabel, luaK_goiffalse, luaK_goiftrue, luaK_indexed, luaK_infix, luaK_intK, luaK_jump, luaK_jumpto, luaK_nil, luaK_patchclose, luaK_patchlist, luaK_patchtohere, luaK_posfix, luaK_prefix, luaK_reserveregs, luaK_ret, luaK_self, luaK_setlist, luaK_setmultret, luaK_setoneret, luaK_setreturns, luaK_storevar, luaK_stringK]
  repeat' split
  all_goals rfl

@[simp] theorem luaK_exp2RK_f (fs : FuncState) (e : expdesc) :
    (luaK_exp2RK fs e).2.f = fs.f := by
  simp only [FuncState.code, FuncState.emit, check_conflict, closelistfield, lastlistfield, luaK_checkstack, luaK_codeABC, luaK_codeABx, luaK_codeAsBx, luaK_codek, luaK_concat, luaK_dischargevars, luaK_exp2RK, luaK_exp2anyreg, luaK_exp2anyregup, luaK_exp2nextreg, luaK_exp2val, luaK_fixline, luaK_getlabel, luaK_goiffalse, luaK_goiftrue, luaK_indexed, luaK_infix, luaK_intK, luaK_jump, luaK_jumpto, luaK_nil, luaK_patchclose, luaK_patchlist, luaK_patchtohere, luaK_posfix, luaK_prefix, luaK_reserveregs, luaK_ret, luaK_self, luaK_setlist, luaK_setmultret, luaK_setoneret, luaK_setreturns, luaK_storevar, luaK_stringK]
  repeat' split
  all_goals rfl

@[simp] theorem luaK_exp2RK_nactvar (fs : FuncState) (e : expdesc) :
    (luaK_exp2RK fs e).2.nactvar = fs.nactvar := by
  simp only [FuncState.code, FuncState.emit, check_conflict, closelistfield, lastlistfield, luaK_checkstack, luaK_codeABC, luaK_codeABx, luaK_codeAsBx, luaK_codek, luaK_concat, luaK_dischargevars, luaK_exp2RK, luaK_exp2anyreg, luaK_exp2anyregup, luaK_exp2nextreg, luaK_exp2val, luaK_fixline, luaK_getlabel, luaK_goiffalse, luaK_goiftrue, luaK_indexed, luaK_infix, luaK_intK, luaK_jump, luaK_jumpto, luaK_nil, luaK_patchclose, luaK_patchlist, luaK_patchtohere, luaK_posfix, luaK_prefix, luaK_reserveregs, luaK_ret, luaK_self, luaK_setlist, luaK_setmultret, luaK_setoneret, luaK_setreturns, luaK_storevar, luaK_stringK]
  repeat' split
  all_goals rfl

@[simp] theorem luaK_exp2RK_firstlocal (fs : FuncState) (e : expdesc) :
    (luaK_exp2RK fs e).2.firstlocal = fs.firstlocal := by
  simp only [FuncState.code, FuncState.emit, check_conflict, closelistfield, lastlistfield, luaK_checkstack, luaK_codeABC, luaK_codeABx, luaK_codeAsBx, luaK_codek, luaK_concat, luaK_dischargevars, luaK_exp2RK, luaK_exp2anyreg, luaK_exp2anyregup, luaK_exp2nextreg, luaK_exp2val, luaK_fixline, luaK_getlabel, luaK_goiffalse, luaK_goiftrue, luaK_indexed, luaK_infix, luaK_intK, luaK_jump, luaK_jumpto, luaK_nil, luaK_patchclose, luaK_patchlist, luaK_patchtohere, luaK_posfix, luaK_prefix, luaK_reserveregs, luaK_ret, luaK_self, luaK_setlist, luaK_setmultret, luaK_setoneret, luaK_setreturns, luaK_storevar, luaK_stringK]
  repeat' split
  all_goals rfl

@[simp] theorem luaK_exp2RK_bl (fs : FuncState) (e : expdesc) :
    (luaK_exp2RK fs e).2.bl = fs.bl := by
  simp only [FuncState.code, FuncState.emit, check_conflict, closelistfield, lastlistfield, luaK_checkstack, luaK_codeABC, luaK_codeABx, luaK_codeAsBx, luaK_codek, luaK_concat, luaK_dischargevars, luaK_exp2RK, luaK_exp2anyreg, luaK_exp2anyregup, luaK_exp2nextreg, luaK_exp2val, luaK_fixline, luaK_getlabel, luaK_goiffalse, luaK_goiftrue, luaK_indexed, luaK_infix, luaK_intK, luaK_jump, luaK_jumpto, luaK_nil, luaK_patchclose, luaK_patchlist, luaK_patchtohere, luaK_posfix, luaK_prefix, luaK_reserveregs, luaK_ret, luaK_self, luaK_setlist, luaK_setmultret, luaK_setoneret, luaK_setreturns, luaK_storevar, luaK_stringK]
  repeat' split
  all_goals rfl

@[simp] theorem luaK_indexed_f (fs : FuncState) (t k : expdesc) :
    (luaK_indexed fs t k).2.f = fs.f := by
  simp only [FuncState.code, FuncState.emit, check_conflict, closelistfield, lastlistfield, luaK_checkstack, luaK_codeABC, luaK_codeABx, luaK_codeAsBx, luaK_codek, luaK_concat, luaK_dischargevars, luaK_exp2RK, luaK_exp2anyreg, luaK_exp2anyregup, luaK_exp2nextreg, luaK_exp2val, luaK_fixline, luaK_getlabel, luaK_goiffalse, luaK_goiftrue, luaK_indexed, luaK_infix, luaK_intK, luaK_jump, luaK_jumpto, luaK_nil, luaK_patchclose, luaK_patchlist, luaK_patchtohere, luaK_posfix, luaK_prefix, luaK_reserveregs, luaK_ret, luaK_self, luaK_setlist, luaK_setmultret, luaK_setoneret, luaK_setreturns, luaK_storevar, luaK_stringK]
  repeat' split
  all_goals rfl

@[simp] theorem luaK_indexed_nactvar (fs : FuncState) (t k : expdesc) :
    (luaK_indexed fs t k).2.nactvar = fs.nactvar := by
  simp only [FuncState.code, FuncState.emit, check_conflict, closelistfield, lastlistfield, luaK_checkstack, luaK_codeABC, luaK_codeABx, luaK_codeAsBx, luaK_codek, luaK_concat, luaK_dischargevars, luaK_exp2RK, luaK_exp2anyreg, luaK_exp2anyregup, luaK_exp2nextreg, luaK_exp2val, luaK_fixline, luaK_getlabel, luaK_goiffalse, luaK_goiftrue, luaK_indexed, luaK_infix, luaK_intK, luaK_jump, luaK_jumpto, luaK_nil, luaK_patchclose, luaK_patchlist, luaK_patchtohere, luaK_posfix, luaK_prefix, luaK_reserveregs, luaK_ret, luaK_self, luaK_setlist, luaK_setmultret, luaK_setoneret, luaK_setreturns, luaK_storevar, luaK_stringK]
  repeat' split
  all_goals rfl

@[simp] theorem luaK_indexed_firstlocal (fs : FuncState) (t k : expdesc) :
    (luaK_indexed fs t k).2.firstlocal = fs.firstlocal := by
  simp only [FuncState.code, FuncState.emit, check_conflict, closelistfield, lastlistfield, luaK_checkstack, luaK_codeABC, luaK_codeABx, luaK_codeAsBx, luaK_codek, luaK_concat, luaK_dischargevars, luaK_exp2RK, luaK_exp2anyreg, luaK_exp2anyregup, luaK_exp2nextreg, luaK_exp2val, luaK_fixline, luaK_getlabel, luaK_goiffalse, luaK_goiftrue, luaK_indexed, luaK_infix, luaK_intK, luaK_jump, luaK_jumpto, luaK_nil, luaK_patchclose, luaK_patchlist, luaK_patchtohere, luaK_posfix, luaK_prefix, luaK_reserveregs, luaK_ret, luaK_self, luaK_setlist, luaK_setmultret, luaK_setoneret, luaK_setreturns, luaK_storevar, luaK_stringK]
  repeat' split
  all_goals rfl

@[simp] theorem luaK_indexed_bl (fs : FuncState) (t k : expdesc) :
    (luaK_indexed fs t k).2.bl = fs.bl := by
  simp only [FuncState.code, FuncState.emit, check_conflict, closelistfield, lastlistfield, luaK_checkstack, luaK_codeABC, luaK_codeABx, luaK_codeAsBx, luaK_codek, luaK_concat, luaK_dischargevars, luaK_exp2RK, luaK_exp2anyreg, luaK_exp2anyregup, luaK_exp2nextreg, luaK_exp2val, luaK_fixline, luaK_getlabel, luaK_goiffalse, luaK_goiftrue, luaK_indexed, luaK_infix, luaK_intK, luaK_jump, luaK_jumpto, luaK_nil, luaK_patchclose, luaK_patchlist, luaK_patchtohere, luaK_posfix, luaK_prefix, luaK_reserveregs, luaK_ret, luaK_self, luaK_setlist, luaK_setmultret, luaK_setoneret, luaK_setreturns, luaK_storevar, luaK_stringK]
  repeat' split
  all_goals rfl

@[simp] theorem luaK_self_f (fs : FuncState) (e key : expdesc) :
    (luaK_self fs e key).2.f = fs.f := by
  simp only [FuncState.code, FuncState.emit, check_conflict, closelistfield, lastlistfield, luaK_checkstack, luaK_codeABC, luaK_codeABx, luaK_codeAsBx, luaK_codek, luaK_concat, luaK_dischargevars, luaK_exp2RK, luaK_exp2anyreg, luaK_exp2anyregup, luaK_exp2nextreg, luaK_exp2val, luaK_fixline, luaK_getlabel, luaK_goiffalse, luaK_goiftrue, luaK_indexed, luaK_infix, luaK_intK, luaK_jump, luaK_jumpto, luaK_nil, luaK_patchclose, luaK_patchlist, luaK_patchtohere, luaK_posfix, luaK_prefix, luaK_reserveregs, luaK_ret, luaK_self, luaK_setlist, luaK_setmultret, luaK_setoneret, luaK_setreturns, luaK_storevar, luaK_stringK]

@[simp] theorem luaK_self_nactvar (fs : FuncState) (e key : expdesc) :
    (luaK_self fs e key).2.nactvar = fs.nactvar := by
  simp only [FuncState.code, FuncState.emit, check_conflict, closelistfield, lastlistfield, luaK_checkstack, luaK_codeABC, luaK_codeABx, luaK_codeAsBx, luaK_codek, luaK_concat, luaK_dischargevars, luaK_exp2RK, luaK_exp2anyreg, luaK_exp2anyregup, luaK_exp2nextreg, luaK_exp2val, luaK_fixline, luaK_getlabel, luaK_goiffalse, luaK_goiftrue, luaK_indexed, luaK_infix, luaK_intK, luaK_jump, luaK_jumpto, luaK_nil, luaK_patchclose, luaK_patchlist, luaK_patchtohere, luaK_posfix, luaK_prefix, luaK_reserveregs, luaK_ret, luaK_self, luaK_setlist, luaK_setmultret, luaK_setoneret, luaK_setreturns, luaK_storevar, luaK_stringK]

@[simp] theorem luaK_self_firstlocal (fs : FuncState) (e key : expdesc) :
    (luaK_self fs e key).2.firstlocal = fs.firstlocal := by
  simp only [FuncState.code, FuncState.emit, check_conflict, closelistfield, lastlistfield, luaK_checkstack, luaK_codeABC, luaK_codeABx, luaK_codeAsBx, luaK_codek, luaK_concat, luaK_dischargevars, luaK_exp2RK, luaK_exp2anyreg, luaK_exp2anyregup, luaK_exp2nextreg, luaK_exp2val, luaK_fixline, luaK_getlabel, luaK_goiffalse, luaK_goiftrue, luaK_indexed, luaK_infix, luaK_intK, luaK_jump, luaK_jumpto, luaK_nil, luaK_patchclose, luaK_patchlist, luaK_patchtohere, luaK_posfix, luaK_prefix, luaK_reserveregs, luaK_ret, luaK_self, luaK_setlist, luaK_setmultret, luaK_setoneret, luaK_setreturns, luaK_storevar, luaK_stringK]

@[simp] theorem luaK_self_bl (fs : FuncState) (e key : expdesc) :
    (luaK_self fs e key).2.bl = fs.bl := by
  simp only [FuncState.code, FuncState.emit, check_conflict, closelistfield, lastlistfield, luaK_checkstack, luaK_codeABC, luaK_codeABx, luaK_codeAsBx, luaK_codek, luaK_concat, luaK_dischargevars, luaK_exp2RK, luaK_exp2anyreg, luaK_exp2anyregup, luaK_exp2nextreg, luaK_exp2val, luaK_fixline, luaK_getlabel, luaK_goiffalse, luaK_goiftrue, luaK_indexed, luaK_infix, luaK_intK, luaK_jump, luaK_jumpto, luaK_nil, luaK_patchclose, luaK_patchlist, luaK_patchtohere, luaK_posfix, luaK_prefix, luaK_reserveregs, luaK_ret, luaK_self, luaK_setlist, luaK_setmultret, luaK_setoneret, luaK_setreturns, luaK_storevar, luaK_stringK]

@[simp] theorem luaK_storevar_f (fs : FuncState) (v e : expdesc) :
    (luaK_storevar fs v e).f = fs.f := by
  simp only [FuncState.code, FuncState.emit, check_conflict, closelistfield, lastlistfield, luaK_checkstack, luaK_codeABC, luaK_codeABx, luaK_codeAsBx, luaK_codek, luaK_concat, luaK_dischargevars, luaK_exp2RK, luaK_exp2anyreg, luaK_exp2anyregup, luaK_exp2nextreg, luaK_exp2val, luaK_fixline, luaK_getlabel, luaK_goiffalse, luaK_goiftrue, luaK_indexed, luaK_infix, luaK_intK, luaK_jump, luaK_jumpto, luaK_nil, luaK_patchclose, luaK_patchlist, luaK_patchtohere, luaK_posfix, luaK_prefix, luaK_reserveregs, luaK_ret, luaK_self, luaK_setlist, luaK_setmultret, luaK_setoneret, luaK_setreturns, luaK_storevar, luaK_stringK]

@[simp] theorem luaK_storevar_nactvar (fs : FuncState) (v e : expdesc) :
    (luaK_storevar fs v e).nactvar = fs.nactvar := by
  simp only [FuncState.code, FuncState.emit, check_conflict, closelistfield, lastlistfield, luaK_checkstack, luaK_codeABC, luaK_codeABx, luaK_codeAsBx, luaK_codek, luaK_concat, luaK_dischargevars, luaK_exp2RK, luaK_exp2anyreg, luaK_exp2anyregup, luaK_exp2nextreg, luaK_exp2val, luaK_fixline, luaK_getlabel, luaK_goiffalse, luaK_goiftrue, luaK_indexed, luaK_infix, luaK_intK, luaK_jump, luaK_jumpto, luaK_nil, luaK_patchclose, luaK_patchlist, luaK_patchtohere, luaK_posfix, luaK_prefix, luaK_reserveregs, luaK_ret, luaK_self, luaK_setlist, luaK_setmultret, luaK_setoneret, luaK_setreturns, luaK_storevar, luaK_stringK]

@[simp] theorem luaK_storevar_firstlocal (fs : FuncState) (v e : expdesc) :
    (luaK_storevar fs v e).firstlocal = fs.firstlocal := by
  simp only [FuncState.code, FuncState.emit, check_conflict, closelistfield, lastlistfield, luaK_checkstack, luaK_codeABC, luaK_codeABx, luaK_codeAsBx, luaK_codek, luaK_concat, luaK_dischargevars, luaK_exp2RK, luaK_exp2anyreg, luaK_exp2anyregup, luaK_exp2nextreg, luaK_exp2val, luaK_fixline, luaK_getlabel, luaK_goiffalse, luaK_goiftrue, luaK_indexed, luaK_infix, luaK_intK, luaK_jump, luaK_jumpto, luaK_nil, luaK_patchclose, luaK_patchlist, luaK_patchtohere, luaK_posfix, luaK_prefix, luaK_reserveregs, luaK_ret, luaK_self, luaK_setlist, luaK_setmultret, luaK_setoneret, luaK_setreturns, luaK_storevar, luaK_stringK]

@[simp] theorem luaK_storevar_bl (fs : FuncState) (v e : expdesc) :
    (luaK_storevar fs v e).bl = fs.bl := by
  simp only [FuncState.code, FuncState.emit, check_conflict, closelistfield, lastlistfield, luaK_checkstack, luaK_codeABC, luaK_codeABx, luaK_codeAsBx, luaK_codek, luaK_concat, luaK_dischargevars, luaK_exp2RK, luaK_exp2anyreg, luaK_exp2anyregup, luaK_exp2nextreg, luaK_exp2val, luaK_fixline, luaK_getlabel, luaK_goiffalse, luaK_goiftrue, luaK_indexed, luaK_infix, luaK_intK, luaK_jump, luaK_jumpto, luaK_nil, luaK_patchclose, luaK_patchlist, luaK_patchtohere, luaK_posfix, luaK_prefix, luaK_reserveregs, luaK_ret, luaK_self, luaK_setlist, luaK_setmultret, luaK_setoneret, luaK_setreturns, luaK_storevar, luaK_stringK]

@[simp] theorem luaK_goiftrue_f (fs : FuncState) (e : expdesc) :
    (luaK_goiftrue fs e).2.f = fs.f := by
  simp only [FuncState.code, FuncState.emit, check_conflict, closelistfield, lastlistfield, luaK_checkstack, luaK_codeABC, luaK_codeABx, luaK_codeAsBx, luaK_codek, luaK_concat, luaK_dischargevars, luaK_exp2RK, luaK_exp2anyreg, luaK_exp2anyregup, luaK_exp2nextreg, luaK_exp2val, luaK_fixline, luaK_getlabel, luaK_goiffalse, luaK_goiftrue, luaK_indexed, luaK_infix, luaK_intK, luaK_jump, luaK_jumpto, luaK_nil, luaK_patchclose, luaK_patchlist, luaK_patchtohere, luaK_posfix, luaK_prefix, luaK_reserveregs, luaK_ret, luaK_self, luaK_setlist, luaK_setmultret, luaK_setoneret, luaK_setreturns, luaK_storevar, luaK_stringK]
  repeat' split
  all_goals rfl

@[simp] theorem luaK_goiftrue_nactvar (fs : FuncState) (e : expdesc) :
    (luaK_goiftrue fs e).2.nactvar = fs.nactvar := by
  simp only [FuncState.code, FuncState.emit, check_conflict, closelistfield, lastlistfield, luaK_checkstack, luaK_codeABC, luaK_codeABx, luaK_codeAsBx, luaK_codek, luaK_concat, luaK_dischargevars, luaK_exp2RK, luaK_exp2anyreg, luaK_exp2anyregup, luaK_exp2nextreg, luaK_exp2val, luaK_fixline, luaK_getlabel, luaK_goiffalse, luaK_goiftrue, luaK_indexed, luaK_infix, luaK_intK, luaK_jump, luaK_jumpto, luaK_nil, luaK_patchclose, luaK_patchlist, luaK_patchtohere, luaK_posfix, luaK_prefix, luaK_reserveregs, luaK_ret, luaK_self, luaK_setlist, luaK_setmultret, luaK_setoneret, luaK_setreturns, luaK_storevar, luaK_stringK]
  repeat' split
  all_goals rfl

@[simp] theorem luaK_goiftrue_firstlocal (fs : FuncState) (e : expdesc) :
    (luaK_goiftrue fs e).2.firstlocal = fs.firstlocal := by
  simp only [FuncState.code, FuncState.emit, check_conflict, closelistfield, lastlistfield, luaK_checkstack, luaK_codeABC, luaK_codeABx, luaK_codeAsBx, luaK_codek, luaK_concat, luaK_dischargevars, luaK_exp2RK, luaK_exp2anyreg, luaK_exp2anyregup, luaK_exp2nextreg, luaK_exp2val, luaK_fixline, luaK_getlabel, luaK_goiffalse, luaK_goiftrue, luaK_indexed, luaK_infix, luaK_intK, luaK_jump, luaK_jumpto, luaK_nil, luaK_patchclose, luaK_patchlist, luaK_patchtohere, luaK_posfix, luaK_prefix, luaK_reserveregs, luaK_ret, luaK_self, luaK_setlist, luaK_setmultret, luaK_setoneret, luaK_setreturns, luaK_storevar, luaK_stringK]
  repeat' split
  all_goals rfl

@[simp] theorem luaK_goiftrue_bl (fs : FuncState) (e : expdesc) :
    (luaK_goiftrue fs e).2.bl = fs.bl := by
  simp only [FuncState.code, FuncState.emit, check_conflict, closelistfield, lastlistfield, luaK_checkstack, luaK_codeABC, luaK_codeABx, luaK_codeAsBx, luaK_codek, luaK_concat, luaK_dischargevars, luaK_exp2RK, luaK_exp2anyreg, luaK_exp2anyregup, luaK_exp2nextreg, luaK_exp2val, luaK_fixline, luaK_getlabel, luaK_goiffalse, luaK_goiftrue, luaK_indexed, luaK_infix, luaK_intK, luaK_jump, luaK_jumpto, luaK_nil, luaK_patchclose, luaK_patchlist, luaK_patchtohere, luaK_posfix, luaK_prefix, luaK_reserveregs, luaK_ret, luaK_self, luaK_setlist, luaK_setmultret, luaK_setoneret, luaK_setreturns, luaK_storevar, luaK_stringK]
  repeat' split
  all_goals rfl

@[simp] theorem luaK_goiffalse_f (fs : FuncState) (e : expdesc) :
    (luaK_goiffalse fs e).2.f = fs.f := by
  simp only [FuncState.code, FuncState.emit, check_conflict, closelistfield, lastlistfield, luaK_checkstack, luaK_codeABC, luaK_codeABx, luaK_codeAsBx, luaK_codek, luaK_concat, luaK_dischargevars, luaK_exp2RK, luaK_exp2anyreg, luaK_exp2anyregup, luaK_exp2nextreg, luaK_exp2val, luaK_fixline, luaK_getlabel, luaK_goiffalse, luaK_goiftrue, luaK_indexed, luaK_infix, luaK_intK, luaK_jump, luaK_jumpto, luaK_nil, luaK_patchclose, luaK_patchlist, luaK_patchtohere, luaK_posfix, luaK_prefix, luaK_reserveregs, luaK_ret, luaK_self, luaK_setlist, luaK_setmultret, luaK_setoneret, luaK_setreturns, luaK_storevar, luaK_stringK]
  repeat' split
  all_goals rfl

@[simp] theorem luaK_goiffalse_nactvar (fs : FuncState) (e : expdesc) :
    (luaK_goiffalse fs e).2.nactvar = fs.nactvar := by
  simp only [FuncState.code, FuncState.emit, check_conflict, closelistfield, lastlistfield, luaK_checkstack, luaK_codeABC, luaK_codeABx, luaK_codeAsBx, luaK_codek, luaK_concat, luaK_dischargevars, luaK_exp2RK, luaK_exp2anyreg, luaK_exp2anyregup, luaK_exp2nextreg, luaK_exp2val, luaK_fixline, luaK_getlabel, luaK_goiffalse, luaK_goiftrue, luaK_indexed, luaK_infix, luaK_intK, luaK_jump, luaK_jumpto, luaK_nil, luaK_patchclose, luaK_patchlist, luaK_patchtohere, luaK_posfix, luaK_prefix, luaK_reserveregs, luaK_ret, luaK_self, luaK_setlist, luaK_setmultret, luaK_setoneret, luaK_setreturns, luaK_storevar, luaK_stringK]
  repeat' split
  all_goals rfl

@[simp] theorem luaK_goiffalse_firstlocal (fs : FuncState) (e : expdesc) :
    (luaK_goiffalse fs e).2.firstlocal = fs.firstlocal := by
  simp only [FuncState.code, FuncState.emit, check_conflict, closelistfield, lastlistfield, luaK_checkstack, luaK_codeABC, luaK_codeABx, luaK_codeAsBx, luaK_codek, luaK_concat, luaK_dischargevars, luaK_exp2RK, luaK_exp2anyreg, luaK_exp2anyregup, luaK_exp2nextreg, luaK_exp2val, luaK_fixline, luaK_getlabel, luaK_goiffalse, luaK_goiftrue, luaK_indexed, luaK_infix, luaK_intK, luaK_jump, luaK_jumpto, luaK_nil, luaK_patchclose, luaK_patchlist, luaK_patchtohere, luaK_posfix, luaK_prefix, luaK_reserveregs, luaK_ret, luaK_self, luaK_setlist, luaK_setmultret, luaK_setoneret, luaK_setreturns, luaK_storevar, luaK_stringK]
  repeat' split
  all_goals rfl

@[simp] theorem luaK_goiffalse_bl (fs : FuncState) (e : expdesc) :
    (luaK_goiffalse fs e).2.bl = fs.bl := by
  simp only [FuncState.code, FuncState.emit, check_conflict, closelistfield, lastlistfield, luaK_checkstack, luaK_codeABC, luaK_codeABx, luaK_codeAsBx, luaK_codek, luaK_concat, luaK_dischargevars, luaK_exp2RK, luaK_exp2anyreg, luaK_exp2anyregup, luaK_exp2nextreg, luaK_exp2val, luaK_fixline, luaK_getlabel, luaK_goiffalse, luaK_goiftrue, luaK_indexed, luaK_infix, luaK_intK, luaK_jump, luaK_jumpto, luaK_nil, luaK_patchclose, luaK_patchlist, luaK_patchtohere, luaK_posfix, luaK_prefix, luaK_reserveregs, luaK_ret, luaK_self, luaK_setlist, luaK_setmultret, luaK_setoneret, luaK_setreturns, luaK_storevar, luaK_stringK]
  repeat' split
  all_goals rfl

@[simp] theorem luaK_concat_f (fs : FuncState) (a b : Int) :
    (luaK_concat fs a b).2.f = fs.f := by
  simp only [FuncState.code, FuncState.emit, check_conflict, closelistfield, lastlistfield, luaK_checkstack, luaK_codeABC, luaK_codeABx, luaK_codeAsBx, luaK_codek, luaK_concat, luaK_dischargevars, luaK_exp2RK, luaK_exp2anyreg, luaK_exp2anyregup, luaK_exp2nextreg, luaK_exp2val, luaK_fixline, luaK_getlabel, luaK_goiffalse, luaK_goiftrue, luaK_indexed, luaK_infix, luaK_intK, luaK_jump, luaK_jumpto, luaK_nil, luaK_patchclose, luaK_patchlist, luaK_patchtohere, luaK_posfix, luaK_prefix, luaK_reserveregs, luaK_ret, luaK_self, luaK_setlist, luaK_setmultret, luaK_setoneret, luaK_setreturns, luaK_storevar, luaK_stringK]

@[simp] theorem luaK_concat_nactvar (fs : FuncState) (a b : Int) :
    (luaK_concat fs a b).2.nactvar = fs.nactvar := by
  simp only [FuncState.code, FuncState.emit, check_conflict, closelistfield, lastlistfield, luaK_checkstack, luaK_codeABC, luaK_codeABx, luaK_codeAsBx, luaK_codek, luaK_concat, luaK_dischargevars, luaK_exp2RK, luaK_exp2anyreg, luaK_exp2anyregup, luaK_exp2nextreg, luaK_exp2val, luaK_fixline, luaK_getlabel, luaK_goiffalse, luaK_goiftrue, luaK_indexed, luaK_infix, luaK_intK, luaK_jump, luaK_jumpto, luaK_nil, luaK_patchclose, luaK_patchlist, luaK_patchtohere, luaK_posfix, luaK_prefix, luaK_reserveregs, luaK_ret, luaK_self, luaK_setlist, luaK_setmultret, luaK_setoneret, luaK_setreturns, luaK_storevar, luaK_stringK]

@[simp] theorem luaK_concat_firstlocal (fs : FuncState) (a b : Int) :
    (luaK_concat fs a b).2.firstlocal = fs.firstlocal := by
  simp only [FuncState.code, FuncState.emit, check_conflict, closelistfield, lastlistfield, luaK_checkstack, luaK_codeABC, luaK_codeABx, luaK_codeAsBx, luaK_codek, luaK_concat, luaK_dischargevars, luaK_exp2RK, luaK_exp2anyreg, luaK_exp2anyregup, luaK_exp2nextreg, luaK_exp2val, luaK_fixline, luaK_getlabel, luaK_goiffalse, luaK_goiftrue, luaK_indexed, luaK_infix, luaK_intK, luaK_jump, luaK_jumpto, luaK_nil, luaK_patchclose, luaK_patchlist, luaK_patchtohere, luaK_posfix, luaK_prefix, luaK_reserveregs, luaK_ret, luaK_self, luaK_setlist, luaK_setmultret, luaK_setoneret, luaK_setreturns, luaK_storevar, luaK_stringK]

@[simp] theorem luaK_concat_bl (fs : FuncState) (a b : Int) :
    (luaK_concat fs a b).2.bl = fs.bl := by
  simp only [FuncState.code, FuncState.emit, check_conflict, closelistfield, lastlistfield, luaK_checkstack, luaK_codeABC, luaK_codeABx, luaK_codeAsBx, luaK_codek, luaK_concat, luaK_dischargevars, luaK_exp2RK, luaK_exp2anyreg, luaK_exp2anyregup, luaK_exp2nextreg, luaK_exp2val, luaK_fixline, luaK_getlabel, luaK_goiffalse, luaK_goiftrue, luaK_indexed, luaK_infix, luaK_intK, luaK_jump, luaK_jumpto, luaK_nil, luaK_patchclose, luaK_patchlist, luaK_patchtohere, luaK_posfix, luaK_prefix, luaK_reserveregs, luaK_ret, luaK_self, luaK_setlist, luaK_setmultret, luaK_setoneret, luaK_setreturns, luaK_storevar, luaK_stringK]

@[simp] theorem luaK_jumpto_f (fs : FuncState) (t : Int) :
    (luaK_jumpto fs t).f = fs.f := by
  simp only [FuncState.code, FuncState.emit, check_conflict, closelistfield, lastlistfield, luaK_checkstack, luaK_codeABC, luaK_codeABx, luaK_codeAsBx, luaK_codek, luaK_concat, luaK_dischargevars, luaK_exp2RK, luaK_exp2anyreg, luaK_exp2anyregup, luaK_exp2nextreg, luaK_exp2val, luaK_fixline, luaK_getlabel, luaK_goiffalse, luaK_goiftrue, luaK_indexed, luaK_infix, luaK_intK, luaK_jump, luaK_jumpto, luaK_nil, luaK_patchclose, luaK_patchlist, luaK_patchtohere, luaK_posfix, luaK_prefix, luaK_reserveregs, luaK_ret, luaK_self, luaK_setlist, luaK_setmultret, luaK_setoneret, luaK_setreturns, luaK_storevar, luaK_stringK]

@[simp] theorem luaK_jumpto_nactvar (fs : FuncState) (t : Int) :
    (luaK_jumpto fs t).nactvar = fs.nactvar := by
  simp only [FuncState.code, FuncState.emit, check_conflict, closelistfield, lastlistfield, luaK_checkstack, luaK_codeABC, luaK_codeABx, luaK_codeAsBx, luaK_codek, luaK_concat, luaK_dischargevars, luaK_exp2RK, luaK_exp2anyreg, luaK_exp2anyregup, luaK_exp2nextreg, luaK_exp2val, luaK_fixline, luaK_getlabel, luaK_goiffalse, luaK_goiftrue, luaK_indexed, luaK_infix, luaK_intK, luaK_jump, luaK_jumpto, luaK_nil, luaK_patchclose, luaK_patchlist, luaK_patchtohere, luaK_posfix, luaK_prefix, luaK_reserveregs, luaK_ret, luaK_self, luaK_setlist, luaK_setmultret, luaK_setoneret, luaK_setreturns, luaK_storevar, luaK_stringK]

@[simp] theorem luaK_jumpto_firstlocal (fs : FuncState) (t : Int) :
    (luaK_jumpto fs t).firstlocal = fs.firstlocal := by
  simp only [FuncState.code, FuncState.emit, check_conflict, closelistfield, lastlistfield, luaK_checkstack, luaK_codeABC, luaK_codeABx, luaK_codeAsBx, luaK_codek, luaK_concat, luaK_dischargevars, luaK_exp2RK, luaK_exp2anyreg, luaK_exp2anyregup, luaK_exp2nextreg, luaK_exp2val, luaK_fixline, luaK_getlabel, luaK_goiffalse, luaK_goiftrue, luaK_indexed, luaK_infix, luaK_intK, luaK_jump, luaK_jumpto, luaK_nil, luaK_patchclose, luaK_patchlist, luaK_patchtohere, luaK_posfix, luaK_prefix, luaK_reserveregs, luaK_ret, luaK_self, luaK_setlist, luaK_setmultret, luaK_setoneret, luaK_setreturns, luaK_storevar, luaK_stringK]

@[simp] theorem luaK_jumpto_bl (fs : FuncState) (t : Int) :
    (luaK_jumpto fs t).bl = fs.bl := by
  simp only [FuncState.code, FuncState.emit, check_conflict, closelistfield, lastlistfield, luaK_checkstack, luaK_codeABC, luaK_codeABx, luaK_codeAsBx, luaK_codek, luaK_concat, luaK_dischargevars, luaK_exp2RK, luaK_exp2anyreg, luaK_exp2anyregup, luaK_exp2nextreg, luaK_exp2val, luaK_fixline, luaK_getlabel, luaK_goiffalse, luaK_goiftrue, luaK_indexed, luaK_infix, luaK_intK, luaK_jump, luaK_jumpto, luaK_nil, luaK_patchclose, luaK_patchlist, luaK_patchtohere, luaK_posfix, luaK_prefix, luaK_reserveregs, luaK_ret, luaK_self, luaK_setlist, luaK_setmultret, luaK_setoneret, luaK_setreturns, luaK_storevar, luaK_stringK]

@[simp] theorem luaK_fixline_f (fs : FuncState) (line : Int) :
    (luaK_fixline fs line).f = fs.f := by
  simp only [FuncState.code, FuncState.emit, check_conflict, closelistfield, lastlistfield, luaK_checkstack, luaK_codeABC, luaK_codeABx, luaK_codeAsBx, luaK_codek, luaK_concat, luaK_dischargevars, luaK_exp2RK, luaK_exp2anyreg, luaK_exp2anyregup, luaK_exp2nextreg, luaK_exp2val, luaK_fixline, luaK_getlabel, luaK_goiffalse, luaK_goiftrue, luaK_indexed, luaK_infix, luaK_intK, luaK_jump, luaK_jumpto, luaK_nil, luaK_patchclose, luaK_patchlist, luaK_patchtohere, luaK_posfix, luaK_prefix, luaK_reserveregs, luaK_ret, luaK_self, luaK_setlist, luaK_setmultret, luaK_setoneret, luaK_setreturns, luaK_storevar, luaK_stringK]

@[simp] theorem luaK_fixline_nactvar (fs : FuncState) (line : Int) :
    (luaK_fixline fs line).nactvar = fs.nactvar := by
  simp only [FuncState.code, FuncState.emit, check_conflict, closelistfield, lastlistfield, luaK_checkstack, luaK_codeABC, luaK_codeABx, luaK_codeAsBx, luaK_codek, luaK_concat, luaK_dischargevars, luaK_exp2RK, luaK_exp2anyreg, luaK_exp2anyregup, luaK_exp2nextreg, luaK_exp2val, luaK_fixline, luaK_getlabel, luaK_goiffalse, luaK_goiftrue, luaK_indexed, luaK_infix, luaK_intK, luaK_jump, luaK_jumpto, luaK_nil, luaK_patchclose, luaK_patchlist, luaK_patchtohere, luaK_posfix, luaK_prefix, luaK_reserveregs, luaK_ret, luaK_self, luaK_setlist, luaK_setmultret, luaK_setoneret, luaK_setreturns, luaK_storevar, luaK_stringK]

@[simp] theorem luaK_fixline_firstlocal (fs : FuncState) (line : Int) :
    (luaK_fixline fs line).firstlocal = fs.firstlocal := by
  simp only [FuncState.code, FuncState.emit, check_conflict, closelistfield, lastlistfield, luaK_checkstack, luaK_codeABC, luaK_codeABx, luaK_codeAsBx, luaK_codek, luaK_concat, luaK_dischargevars, luaK_exp2RK, luaK_exp2anyreg, luaK_exp2anyregup, luaK_exp2nextreg, luaK_exp2val, luaK_fixline, luaK_getlabel, luaK_goiffalse, luaK_goiftrue, luaK_indexed, luaK_infix, luaK_intK, luaK_jump, luaK_jumpto, luaK_nil, luaK_patchclose, luaK_patchlist, luaK_patchtohere, luaK_posfix, luaK_prefix, luaK_reserveregs, luaK_ret, luaK_self, luaK_setlist, luaK_setmultret, luaK_setoneret, luaK_setreturns, luaK_storevar, luaK_stringK]

@[simp] theorem luaK_fixline_bl (fs : FuncState) (line : Int) :
    (luaK_fixline fs line).bl = fs.bl := by
  simp only [FuncState.code, FuncState.emit, check_conflict, closelistfield, lastlistfield, luaK_checkstack, luaK_codeABC, luaK_codeABx, luaK_codeAsBx, luaK_codek, luaK_concat, luaK_dischargevars, luaK_exp2RK, luaK_exp2anyreg, luaK_exp2anyregup, luaK_exp2nextreg, luaK_exp2val, luaK_fixline, luaK_getlabel, luaK_goiffalse, luaK_goiftrue, luaK_indexed, luaK_infix, luaK_intK, luaK_jump, luaK_jumpto, luaK_nil, luaK_patchclose, luaK_patchlist, luaK_patchtohere, luaK_posfix, luaK_prefix, luaK_reserveregs, luaK_ret, luaK_self, luaK_setlist, luaK_setmultret, luaK_setoneret, luaK_setreturns, luaK_storevar, luaK_stringK]

@[simp] theorem luaK_codeABx_f (fs : FuncState) (op : OpCode) (a b : Int) :
    (luaK_codeABx fs op a b).2.f = fs.f := by
  simp only [FuncState.code, FuncState.emit, check_conflict, closelistfield, lastlistfield, luaK_checkstack, luaK_codeABC, luaK_codeABx, luaK_codeAsBx, luaK_codek, luaK_concat, luaK_dischargevars, luaK_exp2RK, luaK_exp2anyreg, luaK_exp2anyregup, luaK_exp2nextreg, luaK_exp2val, luaK_fixline, luaK_getlabel, luaK_goiffalse, luaK_goiftrue, luaK_indexed, luaK_infix, luaK_intK, luaK_jump, luaK_jumpto, luaK_nil, luaK_patchclose, luaK_patchlist, luaK_patchtohere, luaK_posfix, luaK_prefix, luaK_reserveregs, luaK_ret, luaK_self, luaK_setlist, luaK_setmultret, luaK_setoneret, luaK_setreturns, luaK_storevar, luaK_stringK]

@[simp] theorem luaK_codeABx_nactvar (fs : FuncState) (op : OpCode) (a b : Int) :
    (luaK_codeABx fs op a b).2.nactvar = fs.nactvar := by
  simp only [FuncState.code, FuncState.emit, check_conflict, closelistfield, lastlistfield, luaK_checkstack, luaK_codeABC, luaK_codeABx, luaK_codeAsBx, luaK_codek, luaK_concat, luaK_dischargevars, luaK_exp2RK, luaK_exp2anyreg, luaK_exp2anyregup, luaK_exp2nextreg, luaK_exp2val, luaK_fixline, luaK_getlabel, luaK_goiffalse, luaK_goiftrue, luaK_indexed, luaK_infix, luaK_intK, luaK_jump, luaK_jumpto, luaK_nil, luaK_patchclose, luaK_patchlist, luaK_patchtohere, luaK_posfix, luaK_prefix, luaK_reserveregs, luaK_ret, luaK_self, luaK_setlist, luaK_setmultret, luaK_setoneret, luaK_setreturns, luaK_storevar, luaK_stringK]

@[simp] theorem luaK_codeABx_firstlocal (fs : FuncState) (op : OpCode) (a b : Int) :
    (luaK_codeABx fs op a b).2.firstlocal = fs.firstlocal := by
  simp only [FuncState.code, FuncState.emit, check_conflict, closelistfield, lastlistfield, luaK_checkstack, luaK_codeABC, luaK_codeABx, luaK_codeAsBx, luaK_codek, luaK_concat, luaK_dischargevars, luaK_exp2RK, luaK_exp2anyreg, luaK_exp2anyregup, luaK_exp2nextreg, luaK_exp2val, luaK_fixline, luaK_getlabel, luaK_goiffalse, luaK_goiftrue, luaK_indexed, luaK_infix, luaK_intK, luaK_jump, luaK_jumpto, luaK_nil, luaK_patchclose, luaK_patchlist, luaK_patchtohere, luaK_posfix, luaK_prefix, luaK_reserveregs, luaK_ret, luaK_self, luaK_setlist, luaK_setmultret, luaK_setoneret, luaK_setreturns, luaK_storevar, luaK_stringK]

@[simp] theorem luaK_codeABx_bl (fs : FuncState) (op : OpCode) (a b : Int) :
    (luaK_codeABx fs op a b).2.bl = fs.bl := by
  simp only [FuncState.code, FuncState.emit, check_conflict, closelistfield, lastlistfield, luaK_checkstack, luaK_codeABC, luaK_codeABx, luaK_codeAsBx, luaK_codek, luaK_concat, luaK_dischargevars, luaK_exp2RK, luaK_exp2anyreg, luaK_exp2anyregup, luaK_exp2nextreg, luaK_exp2val, luaK_fixline, luaK_getlabel, luaK_goiffalse, luaK_goiftrue, luaK_indexed, luaK_infix, luaK_intK, luaK_jump, luaK_jumpto, luaK_nil, luaK_patchclose, luaK_patchlist, luaK_patchtohere, luaK_posfix, luaK_prefix, luaK_reserveregs, luaK_ret, luaK_self, luaK_setlist, luaK_setmultret, luaK_setoneret, luaK_setreturns, luaK_storevar, luaK_stringK]

@[simp] theorem luaK_codeAsBx_f (fs : FuncState) (op : OpCode) (a b : Int) :
    (luaK_codeAsBx fs op a b).2.f = fs.f := by
  simp only [FuncState.code, FuncState.emit, check_conflict, closelistfield, lastlistfield, luaK_checkstack, luaK_codeABC, luaK_codeABx, luaK_codeAsBx, luaK_codek, luaK_concat, luaK_dischargevars, luaK_exp2RK, luaK_exp2anyreg, luaK_exp2anyregup, luaK_exp2nextreg, luaK_exp2val, luaK_fixline, luaK_getlabel, luaK_goiffalse, luaK_goiftrue, luaK_indexed, luaK_infix, luaK_intK, luaK_jump, luaK_jumpto, luaK_nil, luaK_patchclose, luaK_patchlist, luaK_patchtohere, luaK_posfix, luaK_prefix, luaK_reserveregs, luaK_ret, luaK_self, luaK_setlist, luaK_setmultret, luaK_setoneret, luaK_setreturns, luaK_storevar, luaK_stringK]

@[simp] theorem luaK_codeAsBx_nactvar (fs : FuncState) (op : OpCode) (a b : Int) :
    (luaK_codeAsBx fs op a b).2.nactvar = fs.nactvar := by
  simp only [FuncState.code, FuncState.emit, check_conflict, closelistfield, lastlistfield, luaK_checkstack, luaK_codeABC, luaK_codeABx, luaK_codeAsBx, luaK_codek, luaK_concat, luaK_dischargevars, luaK_exp2RK, luaK_exp2anyreg, luaK_exp2anyregup, luaK_exp2nextreg, luaK_exp2val, luaK_fixline, luaK_getlabel, luaK_goiffalse, luaK_goiftrue, luaK_indexed, luaK_infix, luaK_intK, luaK_jump, luaK_jumpto, luaK_nil, luaK_patchclose, luaK_patchlist, luaK_patchtohere, luaK_posfix, luaK_prefix, luaK_reserveregs, luaK_ret, luaK_self, luaK_setlist, luaK_setmultret, luaK_setoneret, luaK_setreturns, luaK_storevar, luaK_stringK]

@[simp] theorem luaK_codeAsBx_firstlocal (fs : FuncState) (op : OpCode) (a b : Int) :
    (luaK_codeAsBx fs op a b).2.firstlocal = fs.firstlocal := by
  simp only [FuncState.code, FuncState.emit, check_conflict, closelistfield, lastlistfield, luaK_checkstack, luaK_codeABC, luaK_codeABx, luaK_codeAsBx, luaK_codek, luaK_concat, luaK_dischargevars, luaK_exp2RK, luaK_exp2anyreg, luaK_exp2anyregup, luaK_exp2nextreg, luaK_exp2val, luaK_fixline, luaK_getlabel, luaK_goiffalse, luaK_goiftrue, luaK_indexed, luaK_infix, luaK_intK, luaK_jump, luaK_jumpto, luaK_nil, luaK_patchclose, luaK_patchlist, luaK_patchtohere, luaK_posfix, luaK_prefix, luaK_reserveregs, luaK_ret, luaK_self, luaK_setlist, luaK_setmultret, luaK_setoneret, luaK_setreturns, luaK_storevar, luaK_stringK]

@[simp] theorem luaK_codeAsBx_bl (fs : FuncState) (op : OpCode) (a b : Int) :
    (luaK_codeAsBx fs op a b).2.bl = fs.bl := by
  simp only [FuncState.code, FuncState.emit, check_conflict, closelistfield, lastlistfield, luaK_checkstack, luaK_codeABC, luaK_codeABx, luaK_codeAsBx, luaK_codek, luaK_concat, luaK_dischargevars, luaK_exp2RK, luaK_exp2anyreg, luaK_exp2anyregup, luaK_exp2nextreg, luaK_exp2val, luaK_fixline, luaK_getlabel, luaK_goiffalse, luaK_goiftrue, luaK_indexed, luaK_infix, luaK_intK, luaK_jump, luaK_jumpto, luaK_nil, luaK_patchclose, luaK_patchlist, luaK_patchtohere, luaK_posfix, luaK_prefix, luaK_reserveregs, luaK_ret, luaK_self, luaK_setlist, luaK_setmultret, luaK_setoneret, luaK_setreturns, luaK_storevar, luaK_stringK]

@[simp] theorem luaK_intK_f (fs : FuncState) (n : Int) :
    (luaK_intK fs n).2.f = fs.f := by
  simp only [FuncState.code, FuncState.emit, check_conflict, closelistfield, lastlistfield, luaK_checkstack, luaK_codeABC, luaK_codeABx, luaK_codeAsBx, luaK_codek, luaK_concat, luaK_dischargevars, luaK_exp2RK, luaK_exp2anyreg, luaK_exp2anyregup, luaK_exp2nextreg, luaK_exp2val, luaK_fixline, luaK_getlabel, luaK_goiffalse, luaK_goiftrue, luaK_indexed, luaK_infix, luaK_intK, luaK_jump, luaK_jumpto, luaK_nil, luaK_patchclose, luaK_patchlist, luaK_patchtohere, luaK_posfix, luaK_prefix, luaK_reserveregs, luaK_ret, luaK_self, luaK_setlist, luaK_setmultret, luaK_setoneret, luaK_setreturns, luaK_storevar, luaK_stringK]
  repeat' split
  all_goals rfl

@[simp] theorem luaK_intK_nactvar (fs : FuncState) (n : Int) :
    (luaK_intK fs n).2.nactvar = fs.nactvar := by
  simp only [FuncState.code, FuncState.emit, check_conflict, closelistfield, lastlistfield, luaK_checkstack, luaK_codeABC, luaK_codeABx, luaK_codeAsBx, luaK_codek, luaK_concat, luaK_dischargevars, luaK_exp2RK, luaK_exp2anyreg, luaK_exp2anyregup, luaK_exp2nextreg, luaK_exp2val, luaK_fixline, luaK_getlabel, luaK_goiffalse, luaK_goiftrue, luaK_indexed, luaK_infix, luaK_intK, luaK_jump, luaK_jumpto, luaK_nil, luaK_patchclose, luaK_patchlist, luaK_patchtohere, luaK_posfix, luaK_prefix, luaK_reserveregs, luaK_ret, luaK_self, luaK_setlist, luaK_setmultret, luaK_setoneret, luaK_setreturns, luaK_storevar, luaK_stringK]
  repeat' split
  all_goals rfl

@[simp] theorem luaK_intK_firstlocal (fs : FuncState) (n : Int) :
    (luaK_intK fs n).2.firstlocal = fs.firstlocal := by
  simp only [FuncState.code, FuncState.emit, check_conflict, closelistfield, lastlistfield, luaK_checkstack, luaK_codeABC, luaK_codeABx, luaK_codeAsBx, luaK_codek, luaK_concat, luaK_dischargevars, luaK_exp2RK, luaK_exp2anyreg, luaK_exp2anyregup, luaK_exp2nextreg, luaK_exp2val, luaK_fixline, luaK_getlabel, luaK_goiffalse, luaK_goiftrue, luaK_indexed, luaK_infix, luaK_intK, luaK_jump, luaK_jumpto, luaK_nil, luaK_patchclose, luaK_patchlist, luaK_patchtohere, luaK_posfix, luaK_prefix, luaK_reserveregs, luaK_ret, luaK_self, luaK_setlist, luaK_setmultret, luaK_setoneret, luaK_setreturns, luaK_storevar, luaK_stringK]
  repeat' split
  all_goals rfl

@[simp] theorem luaK_intK_bl (fs : FuncState) (n : Int) :
    (luaK_intK fs n).2.bl = fs.bl := by
  simp only [FuncState.code, FuncState.emit, check_conflict, closelistfield, lastlistfield, luaK_checkstack, luaK_codeABC, luaK_codeABx, luaK_codeAsBx, luaK_codek, luaK_concat, luaK_dischargevars, luaK_exp2RK, luaK_exp2anyreg, luaK_exp2anyregup, luaK_exp2nextreg, luaK_exp2val, luaK_fixline, luaK_getlabel, luaK_goiffalse, luaK_goiftrue, luaK_indexed, luaK_infix, luaK_intK, luaK_jump, luaK_jumpto, luaK_nil, luaK_patchclose, luaK_patchlist, luaK_patchtohere, luaK_posfix, luaK_prefix, luaK_reserveregs, luaK_ret, luaK_self, luaK_setlist, luaK_setmultret, luaK_setoneret, luaK_setreturns, luaK_storevar, luaK_stringK]
  repeat' split
  all_goals rfl

@[simp] theorem luaK_codek_f (fs : FuncState) (a b : Int) :
    (luaK_codek fs a b).2.f = fs.f := by
  simp only [FuncState.code, FuncState.emit, check_conflict, closelistfield, lastlistfield, luaK_checkstack, luaK_codeABC, luaK_codeABx, luaK_codeAsBx, luaK_codek, luaK_concat, luaK_dischargevars, luaK_exp2RK, luaK_exp2anyreg, luaK_exp2anyregup, luaK_exp2nextreg, luaK_exp2val, luaK_fixline, luaK_getlabel, luaK_goiffalse, luaK_goiftrue, luaK_indexed, luaK_infix, luaK_intK, luaK_jump, luaK_jumpto, luaK_nil, luaK_patchclose, luaK_patchlist, luaK_patchtohere, luaK_posfix, luaK_prefix, luaK_reserveregs, luaK_ret, luaK_self, luaK_setlist, luaK_setmultret, luaK_setoneret, luaK_setreturns, luaK_storevar, luaK_stringK]

@[simp] theorem luaK_codek_nactvar (fs : FuncState) (a b : Int) :
    (luaK_codek fs a b).2.nactvar = fs.nactvar := by
  simp only [FuncState.code, FuncState.emit, check_conflict, closelistfield, lastlistfield, luaK_checkstack, luaK_codeABC, luaK_codeABx, luaK_codeAsBx, luaK_codek, luaK_concat, luaK_dischargevars, luaK_exp2RK, luaK_exp2anyreg, luaK_exp2anyregup, luaK_exp2nextreg, luaK_exp2val, luaK_fixline, luaK_getlabel, luaK_goiffalse, luaK_goiftrue, luaK_indexed, luaK_infix, luaK_intK, luaK_jump, luaK_jumpto, luaK_nil, luaK_patchclose, luaK_patchlist, luaK_patchtohere, luaK_posfix, luaK_prefix, luaK_reserveregs, luaK_ret, luaK_self, luaK_setlist, luaK_setmultret, luaK_setoneret, luaK_setreturns, luaK_storevar, luaK_stringK]

@[simp] theorem luaK_codek_firstlocal (fs : FuncState) (a b : Int) :
    (luaK_codek fs a b).2.firstlocal = fs.firstlocal := by
  simp only [FuncState.code, FuncState.emit, check_conflict, closelistfield, lastlistfield, luaK_checkstack, luaK_codeABC, luaK_codeABx, luaK_codeAsBx, luaK_codek, luaK_concat, luaK_dischargevars, luaK_exp2RK, luaK_exp2anyreg, luaK_exp2anyregup, luaK_exp2nextreg, luaK_exp2val, luaK_fixline, luaK_getlabel, luaK_goiffalse, luaK_goiftrue, luaK_indexed, luaK_infix, luaK_intK, luaK_jump, luaK_jumpto, luaK_nil, luaK_patchclose, luaK_patchlist, luaK_patchtohere, luaK_posfix, luaK_prefix, luaK_reserveregs, luaK_ret, luaK_self, luaK_setlist, luaK_setmultret, luaK_setoneret, luaK_setreturns, luaK_storevar, luaK_stringK]

@[simp] theorem luaK_codek_bl (fs : FuncState) (a b : Int) :
    (luaK_codek fs a b).2.bl = fs.bl := by
  simp only [FuncState.code, FuncState.emit, check_conflict, closelistfield, lastlistfield, luaK_checkstack, luaK_codeABC, luaK_codeABx, luaK_codeAsBx, luaK_codek, luaK_concat, luaK_dischargevars, luaK_exp2RK, luaK_exp2anyreg, luaK_exp2anyregup, luaK_exp2nextreg, luaK_exp2val, luaK_fixline, luaK_getlabel, luaK_goiffalse, luaK_goiftrue, luaK_indexed, luaK_infix, luaK_intK, luaK_jump, luaK_jumpto, luaK_nil, luaK_patchclose, luaK_patchlist, luaK_patchtohere, luaK_posfix, luaK_prefix, luaK_reserveregs, luaK_ret, luaK_self, luaK_setlist, luaK_setmultret, luaK_setoneret, luaK_setreturns, luaK_storevar, luaK_stringK]

@[simp] theorem luaK_checkstack_f (fs : FuncState) (n : Nat) :
    (luaK_checkstack fs n).f = fs.f := by
  simp only [FuncState.code, FuncState.emit, check_conflict, closelistfield, lastlistfield, luaK_checkstack, luaK_codeABC, luaK_codeABx, luaK_codeAsBx, luaK_codek, luaK_concat, luaK_dischargevars, luaK_exp2RK, luaK_exp2anyreg, luaK_exp2anyregup, luaK_exp2nextreg, luaK_exp2val, luaK_fixline, luaK_getlabel, luaK_goiffalse, luaK_goiftrue, luaK_indexed, luaK_infix, luaK_intK, luaK_jump, luaK_jumpto, luaK_nil, luaK_patchclose, luaK_patchlist, luaK_patchtohere, luaK_posfix, luaK_prefix, luaK_reserveregs, luaK_ret, luaK_self, luaK_setlist, luaK_setmultret, luaK_setoneret, luaK_setreturns, luaK_storevar, luaK_stringK]

@[simp] theorem luaK_checkstack_nactvar (fs : FuncState) (n : Nat) :
    (luaK_checkstack fs n).nactvar = fs.nactvar := by
  simp only [FuncState.code, FuncState.emit, check_conflict, closelistfield, lastlistfield, luaK_checkstack, luaK_codeABC, luaK_codeABx, luaK_codeAsBx, luaK_codek, luaK_concat, luaK_dischargevars, luaK_exp2RK, luaK_exp2anyreg, luaK_exp2anyregup, luaK_exp2nextreg, luaK_exp2val, luaK_fixline, luaK_getlabel, luaK_goiffalse, luaK_goiftrue, luaK_indexed, luaK_infix, luaK_intK, luaK_jump, luaK_jumpto, luaK_nil, luaK_patchclose, luaK_patchlist, luaK_patchtohere, luaK_posfix, luaK_prefix, luaK_reserveregs, luaK_ret, luaK_self, luaK_setlist, luaK_setmultret, luaK_setoneret, luaK_setreturns, luaK_storevar, luaK_stringK]

@[simp] theorem luaK_checkstack_firstlocal (fs : FuncState) (n : Nat) :
    (luaK_checkstack fs n).firstlocal = fs.firstlocal := by
  simp only [FuncState.code, FuncState.emit, check_conflict, closelistfield, lastlistfield, luaK_checkstack, luaK_codeABC, luaK_codeABx, luaK_codeAsBx, luaK_codek, luaK_concat, luaK_dischargevars, luaK_exp2RK, luaK_exp2anyreg, luaK_exp2anyregup, luaK_exp2nextreg, luaK_exp2val, luaK_fixline, luaK_getlabel, luaK_goiffalse, luaK_goiftrue, luaK_indexed, luaK_infix, luaK_intK, luaK_jump, luaK_jumpto, luaK_nil, luaK_patchclose, luaK_patchlist, luaK_patchtohere, luaK_posfix, luaK_prefix, luaK_reserveregs, luaK_ret, luaK_self, luaK_setlist, luaK_setmultret, luaK_setoneret, luaK_setreturns, luaK_storevar, luaK_stringK]

@[simp] theorem luaK_checkstack_bl (fs : FuncState) (n : Nat) :
    (luaK_checkstack fs n).bl = fs.bl := by
  simp only [FuncState.code, FuncState.emit, check_conflict, closelistfield, lastlistfield, luaK_checkstack, luaK_codeABC, luaK_codeABx, luaK_codeAsBx, luaK_codek, luaK_concat, luaK_dischargevars, luaK_exp2RK, luaK_exp2anyreg, luaK_exp2anyregup, luaK_exp2nextreg, luaK_exp2val, luaK_fixline, luaK_getlabel, luaK_goiffalse, luaK_goiftrue, luaK_indexed, luaK_infix, luaK_intK, luaK_jump, luaK_jumpto, luaK_nil, luaK_patchclose, luaK_patchlist, luaK_patchtohere, luaK_posfix, luaK_prefix, luaK_reserveregs, luaK_ret, luaK_self, luaK_setlist, luaK_setmultret, luaK_setoneret, luaK_setreturns, luaK_storevar, luaK_stringK]

@[simp] theorem closelistfield_f (fs : FuncState) (cc : ConsControl) :
    (closelistfield fs cc).2.f = fs.f := by
  simp only [FuncState.code, FuncState.emit, check_conflict, closelistfield, lastlistfield, luaK_checkstack, luaK_codeABC, luaK_codeABx, luaK_codeAsBx, luaK_codek, luaK_concat, luaK_dischargevars, luaK_exp2RK, luaK_exp2anyreg, luaK_exp2anyregup, luaK_exp2nextreg, luaK_exp2val, luaK_fixline, luaK_getlabel, luaK_goiffalse, luaK_goiftrue, luaK_indexed, luaK_infix, luaK_intK, luaK_jump, luaK_jumpto, luaK_nil, luaK_patchclose, luaK_patchlist, luaK_patchtohere, luaK_posfix, luaK_prefix, luaK_reserveregs, luaK_ret, luaK_self, luaK_setlist, luaK_setmultret, luaK_setoneret, luaK_setreturns, luaK_storevar, luaK_stringK]
  repeat' split
  all_goals rfl

@[simp] theorem closelistfield_nactvar (fs : FuncState) (cc : ConsControl) :
    (closelistfield fs cc).2.nactvar = fs.nactvar := by
  simp only [FuncState.code, FuncState.emit, check_conflict, closelistfield, lastlistfield, luaK_checkstack, luaK_codeABC, luaK_codeABx, luaK_codeAsBx, luaK_codek, luaK_concat, luaK_dischargevars, luaK_exp2RK, luaK_exp2anyreg, luaK_exp2anyregup, luaK_exp2nextreg, luaK_exp2val, luaK_fixline, luaK_getlabel, luaK_goiffalse, luaK_goiftrue, luaK_indexed, luaK_infix, luaK_intK, luaK_jump, luaK_jumpto, luaK_nil, luaK_patchclose, luaK_patchlist, luaK_patchtohere, luaK_posfix, luaK_prefix, luaK_reserveregs, luaK_ret, luaK_self, luaK_setlist, luaK_setmultret, luaK_setoneret, luaK_setreturns, luaK_storevar, luaK_stringK]
  repeat' split
  all_goals rfl

@[simp] theorem closelistfield_firstlocal (fs : FuncState) (cc : ConsControl) :
    (closelistfield fs cc).2.firstlocal = fs.firstlocal := by
  simp only [FuncState.code, FuncState.emit, check_conflict, closelistfield, lastlistfield, luaK_checkstack, luaK_codeABC, luaK_codeABx, luaK_codeAsBx, luaK_codek, luaK_concat, luaK_dischargevars, luaK_exp2RK, luaK_exp2anyreg, luaK_exp2anyregup, luaK_exp2nextreg, luaK_exp2val, luaK_fixline, luaK_getlabel, luaK_goiffalse, luaK_goiftrue, luaK_indexed, luaK_infix, luaK_intK, luaK_jump, luaK_jumpto, luaK_nil, luaK_patchclose, luaK_patchlist, luaK_patchtohere, luaK_posfix, luaK_prefix, luaK_reserveregs, luaK_ret, luaK_self, luaK_setlist, luaK_setmultret, luaK_setoneret, luaK_setreturns, luaK_storevar, luaK_stringK]
  repeat' split
  all_goals rfl

@[simp] theorem closelistfield_bl (fs : FuncState) (cc : ConsControl) :
    (closelistfield fs cc).2.bl = fs.bl := by
  simp only [FuncState.code, FuncState.emit, check_conflict, closelistfield, lastlistfield, luaK_checkstack, luaK_codeABC, luaK_codeABx, luaK_codeAsBx, luaK_codek, luaK_concat, luaK_dischargevars, luaK_exp2RK, luaK_exp2anyreg, luaK_exp2anyregup, luaK_exp2nextreg, luaK_exp2val, luaK_fixline, luaK_getlabel, luaK_goiffalse, luaK_goiftrue, luaK_indexed, luaK_infix, luaK_intK, luaK_jump, luaK_jumpto, luaK_nil, luaK_patchclose, luaK_patchlist, luaK_patchtohere, luaK_posfix, luaK_prefix, luaK_reserveregs, luaK_ret, luaK_self, luaK_setlist, luaK_setmultret, luaK_setoneret, luaK_setreturns, luaK_storevar, luaK_stringK]
  repeat' split
  all_goals rfl

@[simp] theorem lastlistfield_f (fs : FuncState) (cc : ConsControl) :
    (lastlistfield fs cc).2.f = fs.f := by
  simp only [FuncState.code, FuncState.emit, check_conflict, closelistfield, lastlistfield, luaK_checkstack, luaK_codeABC, luaK_codeABx, luaK_codeAsBx, luaK_codek, luaK_concat, luaK_dischargevars, luaK_exp2RK, luaK_exp2anyreg, luaK_exp2anyregup, luaK_exp2nextreg, luaK_exp2val, luaK_fixline, luaK_getlabel, luaK_goiffalse, luaK_goiftrue, luaK_indexed, luaK_infix, luaK_intK, luaK_jump, luaK_jumpto, luaK_nil, luaK_patchclose, luaK_patchlist, luaK_patchtohere, luaK_posfix, luaK_prefix, luaK_reserveregs, luaK_ret, luaK_self, luaK_setlist, luaK_setmultret, luaK_setoneret, luaK_setreturns, luaK_storevar, luaK_stringK]
  repeat' split
  all_goals rfl

@[simp] theorem lastlistfield_nactvar (fs : FuncState) (cc : ConsControl) :
    (lastlistfield fs cc).2.nactvar = fs.nactvar := by
  simp only [FuncState.code, FuncState.emit, check_conflict, closelistfield, lastlistfield, luaK_checkstack, luaK_codeABC, luaK_codeABx, luaK_codeAsBx, luaK_codek, luaK_concat, luaK_dischargevars, luaK_exp2RK, luaK_exp2anyreg, luaK_exp2anyregup, luaK_exp2nextreg, luaK_exp2val, luaK_fixline, luaK_getlabel, luaK_goiffalse, luaK_goiftrue, luaK_indexed, luaK_infix, luaK_intK, luaK_jump, luaK_jumpto, luaK_nil, luaK_patchclose, luaK_patchlist, luaK_patchtohere, luaK_posfix, luaK_prefix, luaK_reserveregs, luaK_ret, luaK_self, luaK_setlist, luaK_setmultret, luaK_setoneret, luaK_setreturns, luaK_storevar, luaK_stringK]
  repeat' split
  all_goals rfl

@[simp] theorem lastlistfield_firstlocal (fs : FuncState) (cc : ConsControl) :
    (lastlistfield fs cc).2.firstlocal = fs.firstlocal := by
  simp only [FuncState.code, FuncState.emit, check_conflict, closelistfield, lastlistfield, luaK_checkstack, luaK_codeABC, luaK_codeABx, luaK_codeAsBx, luaK_codek, luaK_concat, luaK_dischargevars, luaK_exp2RK, luaK_exp2anyreg, luaK_exp2anyregup, luaK_exp2nextreg, luaK_exp2val, luaK_fixline, luaK_getlabel, luaK_goiffalse, luaK_goiftrue, luaK_indexed, luaK_infix, luaK_intK, luaK_jump, luaK_jumpto, luaK_nil, luaK_patchclose, luaK_patchlist, luaK_patchtohere, luaK_posfix, luaK_prefix, luaK_reserveregs, luaK_ret, luaK_self, luaK_setlist, luaK_setmultret, luaK_setoneret, luaK_setreturns, luaK_storevar, luaK_stringK]
  repeat' split
  all_goals rfl

@[simp] theorem lastlistfield_bl (fs : FuncState) (cc : ConsControl) :
    (lastlistfield fs cc).2.bl = fs.bl := by
  simp only [FuncState.code, FuncState.emit, check_conflict, closelistfield, lastlistfield, luaK_checkstack, luaK_codeABC, luaK_codeABx, luaK_codeAsBx, luaK_codek, luaK_concat, luaK_dischargevars, luaK_exp2RK, luaK_exp2anyreg, luaK_exp2anyregup, luaK_exp2nextreg, luaK_exp2val, luaK_fixline, luaK_getlabel, luaK_goiffalse, luaK_goiftrue, luaK_indexed, luaK_infix, luaK_intK, luaK_jump, luaK_jumpto, luaK_nil, luaK_patchclose, luaK_patchlist, luaK_patchtohere, luaK_posfix, luaK_prefix, luaK_reserveregs, luaK_ret, luaK_self, luaK_setlist, luaK_setmultret, luaK_setoneret, luaK_setreturns, luaK_storevar, luaK_stringK]
  repeat' split
  all_goals rfl

@[simp] theorem check_conflict_f (fs : FuncState) (lh : List expdesc) (v : expdesc) :
    (check_conflict fs lh v).2.f = fs.f := by
  simp only [FuncState.code, FuncState.emit, check_conflict, closelistfield, lastlistfield, luaK_checkstack, luaK_codeABC, luaK_codeABx, luaK_codeAsBx, luaK_codek, luaK_concat, luaK_dischargevars, luaK_exp2RK, luaK_exp2anyreg, luaK_exp2anyregup, luaK_exp2nextreg, luaK_exp2val, luaK_fixline, luaK_getlabel, luaK_goiffalse, luaK_goiftrue, luaK_indexed, luaK_infix, luaK_intK, luaK_jump, luaK_jumpto, luaK_nil, luaK_patchclose, luaK_patchlist, luaK_patchtohere, luaK_posfix, luaK_prefix, luaK_reserveregs, luaK_ret, luaK_self, luaK_setlist, luaK_setmultret, luaK_setoneret, luaK_setreturns, luaK_storevar, luaK_stringK]
  repeat' split
  all_goals rfl

@[simp] theorem check_conflict_nactvar (fs : FuncState) (lh : List expdesc) (v : expdesc) :
    (check_conflict fs lh v).2.nactvar = fs.nactvar := by
  simp only [FuncState.code, FuncState.emit, check_conflict, closelistfield, lastlistfield, luaK_checkstack, luaK_codeABC, luaK_codeABx, luaK_codeAsBx, luaK_codek, luaK_concat, luaK_dischargevars, luaK_exp2RK, luaK_exp2anyreg, luaK_exp2anyregup, luaK_exp2nextreg, luaK_exp2val, luaK_fixline, luaK_getlabel, luaK_goiffalse, luaK_goiftrue, luaK_indexed, luaK_infix, luaK_intK, luaK_jump, luaK_jumpto, luaK_nil, luaK_patchclose, luaK_patchlist, luaK_patchtohere, luaK_posfix, luaK_prefix, luaK_reserveregs, luaK_ret, luaK_self, luaK_setlist, luaK_setmultret, luaK_setoneret, luaK_setreturns, luaK_storevar, luaK_stringK]
  repeat' split
  all_goals rfl

@[simp] theorem check_conflict_firstlocal (fs : FuncState) (lh : List expdesc) (v : expdesc) :
    (check_conflict fs lh v).2.firstlocal = fs.firstlocal := by
  simp only [FuncState.code, FuncState.emit, check_conflict, closelistfield, lastlistfield, luaK_checkstack, luaK_codeABC, luaK_codeABx, luaK_codeAsBx, luaK_codek, luaK_concat, luaK_dischargevars, luaK_exp2RK, luaK_exp2anyreg, luaK_exp2anyregup, luaK_exp2nextreg, luaK_exp2val, luaK_fixline, luaK_getlabel, luaK_goiffalse, luaK_goiftrue, luaK_indexed, luaK_infix, luaK_intK, luaK_jump, luaK_jumpto, luaK_nil, luaK_patchclose, luaK_patchlist, luaK_patchtohere, luaK_posfix, luaK_prefix, luaK_reserveregs, luaK_ret, luaK_self, luaK_setlist, luaK_setmultret, luaK_setoneret, luaK_setreturns, luaK_storevar, luaK_stringK]
  repeat' split
  all_goals rfl

@[simp] theorem check_conflict_bl (fs : FuncState) (lh : List expdesc) (v : expdesc) :
    (check_conflict fs lh v).2.bl = fs.bl := by
  simp only [FuncState.code, FuncState.emit, check_conflict, closelistfield, lastlistfield, luaK_checkstack, luaK_codeABC, luaK_codeABx, luaK_codeAsBx, luaK_codek, luaK_concat, luaK_dischargevars, luaK_exp2RK, luaK_exp2anyreg, luaK_exp2anyregup, luaK_exp2nextreg, luaK_exp2val, luaK_fixline, luaK_getlabel, luaK_goiffalse, luaK_goiftrue, luaK_indexed, luaK_infix, luaK_intK, luaK_jump, luaK_jumpto, luaK_nil, luaK_patchclose, luaK_patchlist, luaK_patchtohere, luaK_posfix, luaK_prefix, luaK_reserveregs, luaK_ret, luaK_self, luaK_setlist, luaK_setmultret, luaK_setoneret, luaK_setreturns, luaK_storevar, luaK_stringK]
  repeat' split
  all_goals rfl

/-! ## Theorems: invariants of the whole parse -/

theorem sameFrame_of {fs fs1 : FuncState} (h1 : fs1.f = fs.f) (h2 : fs1.bl = fs.bl)
    (h3 : fs1.nactvar = fs.nactvar) (h4 : fs1.firstlocal = fs.firstlocal) :
    sameFrame fs fs1 :=
  ⟨by rw [h1], by rw [h1], h2, h3, h4⟩

theorem set_get?_same {α : Type} : ∀ (l : List α) (i : Nat) (a : α),
    l.get? i = some a → l.set i a = l
  | [], _, _, h => by simp at h
  | x :: l, 0, a, h => by
    simp only [List.get?_cons_zero, Option.some.injEq] at h
    rw [h, List.set_cons_zero]
  | x :: l, i + 1, a, h => by
    simp only [List.get?_cons_succ] at h
    rw [List.set_cons_succ, set_get?_same l i a h]

theorem checknext_fs {ls ls1 : LexState} {t : Tok} (h : checknext ls t = Except.ok ls1) :
    ls1.fs = ls.fs := by
  unfold checknext at h
  split at h <;> cases h
  exact luaX_next_fs ls

theorem newlabelentry_idx {ls : LexState} {l l1 : List Labeldesc} {name : TString}
    {line pc : Int} {i : Nat} (h : newlabelentry ls l name line pc = Except.ok (i, l1)) :
    i = l.length := by
  unfold newlabelentry at h
  repeat' split at h
  all_goals try cases h
  rfl

section Frames

variable {C : Type u} {J : C → LexState → Prop} {up decl : C → C} {push fn : LexState → C → C}

theorem keep_testnext (F : FrameLaws J up decl push fn) {c : C} {ls ls1 : LexState} {t : Tok}
    {b : Bool} (h : testnext ls t = (b, ls1)) (hJ : J c ls) : J c ls1 := by
  unfold testnext at h
  split at h <;> cases h
  · exact F.next hJ
  · exact hJ

theorem keep_checknext (F : FrameLaws J up decl push fn) {c : C} {ls ls1 : LexState} {t : Tok}
    (h : checknext ls t = Except.ok ls1) (hJ : J c ls) : J c ls1 := by
  unfold checknext at h
  split at h <;> cases h
  exact F.next hJ

theorem keep_str_checkname (F : FrameLaws J up decl push fn) {c : C} {ls ls1 : LexState}
    {s : TString} (h : str_checkname ls = Except.ok (s, ls1)) (hJ : J c ls) : J c ls1 := by
  unfold str_checkname at h
  split at h <;> cases h
  exact F.next hJ

theorem keep_check_match (F : FrameLaws J up decl push fn) {c : C} {ls ls1 : LexState}
    {what who : Tok} {w : Int} (h : check_match ls what who w = Except.ok ls1) (hJ : J c ls) :
    J c ls1 := by
  unfold check_match at h
  repeat' split at h
  all_goals try cases h
  exact keep_testnext F (by assumption) hJ

theorem keep_onFs (F : FrameLaws J up decl push fn) {α : Type} {c : C} {ls ls1 : LexState}
    {k : FuncState → α × FuncState} {a : α}
    (h : ls.onFs k = Except.ok (a, ls1)) (hk : ∀ fs, sameFrame fs (k fs).2) (hJ : J c ls) :
    J c ls1 := by
  unfold LexState.onFs at h
  split at h <;> cases h
  exact F.head (by assumption) (hk _) hJ

theorem keep_doFs (F : FrameLaws J up decl push fn) {c : C} {ls ls1 : LexState}
    {k : FuncState → FuncState}
    (h : ls.doFs k = Except.ok ls1) (hk : ∀ fs, sameFrame fs (k fs)) (hJ : J c ls) :
    J c ls1 := by
  unfold LexState.doFs at h
  split at h <;> cases h
  exact F.head (by assumption) (hk _) hJ

theorem keep_statement (F : FrameLaws J up decl push fn) (R : StatRules) (hR : KeepR J R) :
    ∀ fuel, KeepS J (statement R fuel) ∧
      (∀ label line, KeepS J (fun ls => labelstat R fuel ls label line)) ∧
      KeepS J (skipnoopstat R fuel) := by
  intro fuel
  induction fuel with
  | zero =>
    refine ⟨?_, ?_, ?_⟩
    · intro c ls ls1 h _; simp [statement] at h
    · intro label line c ls ls1 h _; simp [labelstat] at h
    · intro c ls ls1 h _; simp [skipnoopstat] at h
  | succ fuel ih =>
    obtain ⟨ihs, ihl, ihk⟩ := ih
    refine ⟨?_, ?_, ?_⟩
    · intro c ls ls1 h hJ
      simp only [statement] at h
      repeat' split at h
      all_goals try cases h
      rename_i _ lsA hent _ lsB hmid _ fsB tl hfs
      have hA : J (up c) lsA := F.enter hent hJ
      refine F.leave (F.head hfs (sameFrame_of rfl rfl rfl rfl) ?_)
      repeat' split at hmid
      all_goals try cases hmid
      all_goals repeat (first
        | exact hA
        | refine F.next ?_
        | refine F.head (by assumption) (sameFrame_of (by simp) (by simp) (by simp) (by simp)) ?_
        | refine F.jump (by assumption) ?_
        | refine keep_check_match F (by assumption) ?_
        | refine keep_testnext F (by assumption) ?_
        | refine keep_str_checkname F (by assumption) ?_
        | refine ihl _ _ (by assumption) ?_
        | refine hR.ifstat _ (by assumption) ?_
        | refine hR.whilestat _ (by assumption) ?_
        | refine hR.block (by assumption) ?_
        | refine hR.forstat _ (by assumption) ?_
        | refine hR.repeatstat _ (by assumption) ?_
        | refine hR.funcstat _ (by assumption) ?_
        | refine hR.localfunc (by assumption) ?_
        | refine hR.localstat (by assumption) ?_
        | refine hR.retstat (by assumption) ?_
        | refine hR.exprstat (by assumption) ?_)
    · intro label line c ls ls1 h hJ
      simp only [labelstat] at h
      repeat' split at h
      all_goals try cases h
      all_goals
        rename_i _ fsA tl hfs _ _ _ _ lsB hck _ l label1 hnew _ lsC hskip _ _ fsC prevC lb hfsC hget _
          bl previous hbl _
        have hB : J c lsB := keep_checknext F hck hJ
        have hfsB : lsB.fs = fsA :: tl := (checknext_fs hck).trans hfs
        have hl : l = lsB.dyd.label.length := newlabelentry_idx hnew
        have hS1 : J c { lsB with dyd := { lsB.dyd with label := label1 } } :=
          F.addlabel hnew hB
        have hfs2 : ({ lsB with dyd := { lsB.dyd with label := label1 } } : LexState).fs =
            fsA :: tl := hfsB
        have hS2 : J c { lsB with fs := (luaK_getlabel fsA).2 :: tl,
                                  dyd := { lsB.dyd with label := label1 } } :=
          F.head hfs2 (sameFrame_of (by simp) (by simp) (by simp) (by simp)) hS1
        have hC : J c lsC := ihk hskip hS2
        subst hl
        first
          | exact F.closegotos h (F.setlabel hB hC hfsC hbl hget)
          | (rw [set_get?_same _ _ _ hget] at h; exact F.closegotos h hC)
    · intro c ls ls1 h hJ
      simp only [skipnoopstat] at h
      repeat' split at h
      all_goals try cases h
      all_goals repeat (first
        | exact hJ
        | refine ihk (by assumption) ?_
        | refine ihs (by assumption) ?_)

theorem keep_subexpr (F : FrameLaws J up decl push fn) (X : ExprParser) (hX : KeepX J X) :
    ∀ fuel, (∀ limit, KeepX J (fun ls => subexpr X fuel ls limit)) ∧
      (∀ (v : expdesc) (op : BinOpr) (limit : Nat) {c : C} {ls ls1 : LexState}
        {a : expdesc × BinOpr},
        subexpr_while X fuel ls v op limit = Except.ok (a, ls1) → J (up c) ls → J c ls1) := by
  intro fuel
  induction fuel with
  | zero =>
    refine ⟨?_, ?_⟩
    · intro limit c ls ls1 a h _; simp [subexpr] at h
    · intro v op limit c ls ls1 a h _; simp [subexpr_while] at h
  | succ fuel ih =>
    obtain ⟨ihs, ihw⟩ := ih
    refine ⟨?_, ?_⟩
    · intro limit c ls ls1 a h hJ
      simp only [subexpr] at h
      repeat' split at h
      all_goals try cases h
      all_goals
        rename_i _ lsA hent _ v lsB hmid
        have hA : J (up c) lsA := F.enter hent hJ
        refine ihw _ _ _ h ?_
        repeat' split at hmid
        all_goals try cases hmid
        all_goals repeat (first
          | exact hA
          | refine F.next ?_
          | refine keep_onFs F (by assumption) (fun fs => sameFrame_of (by simp) (by simp) (by simp) (by simp)) ?_
          | refine ihs _ (by assumption) ?_
          | refine hX (by assumption) ?_)
    · intro v op limit c ls ls1 a h hJ
      simp only [subexpr_while] at h
      repeat' split at h
      all_goals try cases h
      all_goals repeat (first
        | exact hJ
        | refine F.leave ?_
        | refine F.next ?_
        | refine ihw _ _ _ (by assumption) ?_
        | refine keep_onFs F (by assumption) (fun fs => sameFrame_of (by simp) (by simp) (by simp) (by simp)) ?_
        | refine ihs _ (by assumption) ?_)

theorem keep_expr (F : FrameLaws J up decl push fn) (X : ExprParser) (hX : KeepX J X) (fuel : Nat) :
    KeepX J (expr X fuel) := by
  intro c ls ls1 a h hJ
  simp only [expr] at h
  repeat' split at h
  all_goals try cases h
  exact (keep_subexpr F X hX fuel).1 _ (by assumption) hJ

theorem keep_simpleexp (F : FrameLaws J up decl push fn) (E : ExpRules) (hE : KeepE J E) :
    KeepX J (simpleexp E) := by
  intro c ls ls1 a h hJ
  simp only [simpleexp] at h
  repeat' split at h
  all_goals try cases h
  all_goals repeat (first
    | exact hJ
    | refine F.next ?_
    | refine keep_onFs F (by assumption) (fun fs => sameFrame_of (by simp) (by simp) (by simp) (by simp)) ?_
    | refine hE.constructor (by assumption) ?_
    | refine hE.body _ _ (by assumption) ?_
    | refine hE.suffixedexp (by assumption) ?_)

theorem iterate_decl_succ (decl : C → C) (n : Nat) (c : C) :
    decl (Nat.iterate decl n c) = Nat.iterate decl (n + 1) c :=
  (Function.iterate_succ_apply' decl n c).symm

theorem keep_newvar_iter (F : FrameLaws J up decl push fn) {n : Nat} {c : C}
    {ls ls1 : LexState} {name : TString} (h : new_localvar ls name = Except.ok ls1)
    (hJ : J (Nat.iterate decl n c) ls) : J (Nat.iterate decl (n + 1) c) ls1 := by
  rw [← iterate_decl_succ]
  exact F.newvar h hJ

theorem keep_adjust_assign (F : FrameLaws J up decl push fn) (nvars nexps : Int) (e : expdesc) :
    KeepS J (fun ls => adjust_assign ls nvars nexps e) := by
  intro c ls ls1 h hJ
  simp only [adjust_assign] at h
  repeat' split at h
  all_goals try cases h
  all_goals
    refine F.head (by assumption) (sameFrame_of ?_ ?_ ?_ ?_) hJ
  all_goals simp

theorem keep_explist (F : FrameLaws J up decl push fn) (X : ExprParser) (hX : KeepX J X) :
    ∀ fuel, (∀ n v, KeepX J (fun ls => explist.explist_loop X fuel n v ls)) := by
  intro fuel
  induction fuel with
  | zero => intro n v c ls ls1 a h _; simp [explist.explist_loop] at h
  | succ fuel ih =>
    intro n v c ls ls1 a h hJ
    simp only [explist.explist_loop] at h
    repeat' split at h
    all_goals try cases h
    all_goals repeat (first
      | exact hJ
      | refine keep_testnext F (by assumption) ?_
      | refine keep_onFs F (by assumption) (fun fs => sameFrame_of (by simp) (by simp) (by simp) (by simp)) ?_
      | refine ih _ _ (by assumption) ?_
      | refine hX (by assumption) ?_)

theorem keep_explist_top (F : FrameLaws J up decl push fn) (X : ExprParser) (hX : KeepX J X)
    (fuel : Nat) : KeepX J (fun ls => explist X ls fuel) := by
  intro c ls ls1 a h hJ
  cases fuel with
  | zero => simp [explist] at h
  | succ fuel =>
    simp only [explist] at h
    repeat' split at h
    all_goals try cases h
    all_goals repeat (first
      | exact hJ
      | refine keep_explist F X hX _ _ _ (by assumption) ?_
      | refine hX (by assumption) ?_)

theorem keep_localstat_names (F : FrameLaws J up decl push fn) :
    ∀ (fuel n : Nat) (c : C) (ls ls1 : LexState) (n1 : Nat),
      localstat.localstat_names fuel n ls = Except.ok (n1, ls1) →
      J (Nat.iterate decl n c) ls → J (Nat.iterate decl n1 c) ls1 := by
  intro fuel
  induction fuel with
  | zero => intro n c ls ls1 n1 h _; simp [localstat.localstat_names] at h
  | succ fuel ih =>
    intro n c ls ls1 n1 h hJ
    simp only [localstat.localstat_names] at h
    repeat' split at h
    all_goals try cases h
    all_goals repeat (first
      | exact hJ
      | refine keep_testnext F (by assumption) ?_
      | refine keep_str_checkname F (by assumption) ?_
      | refine keep_newvar_iter F (by assumption) ?_
      | refine ih _ _ _ _ _ (by assumption) ?_)

theorem keep_localstat (F : FrameLaws J up decl push fn) (X : ExprParser) (hX : KeepX J X)
    (fuel : Nat) : KeepS J (localstat X fuel) := by
  intro c ls ls1 h hJ
  simp only [localstat] at h
  repeat' split at h
  all_goals try cases h
  all_goals
    rename_i _ nvars lsA hnames _ nexps e lsB hmid _ lsC hadj
    have hA : J (Nat.iterate decl nvars c) lsA :=
      keep_localstat_names F _ 0 c _ _ _ hnames hJ
    refine F.adjust h (keep_adjust_assign F _ _ _ hadj ?_)
    repeat' split at hmid
    all_goals try cases hmid
    all_goals repeat (first
      | exact hA
      | refine keep_testnext F (by assumption) ?_
      | refine keep_explist_top F X hX _ (by assumption) ?_)

theorem keep_codestring (F : FrameLaws J up decl push fn) (s : TString) :
    KeepX J (fun ls => codestring ls s) := by
  intro c ls ls1 a h hJ
  simp only [codestring] at h
  repeat' split at h
  all_goals try cases h
  exact keep_onFs F (by assumption) (fun fs => sameFrame_of (by simp) (by simp) (by simp) (by simp)) hJ

theorem keep_checkname (F : FrameLaws J up decl push fn) : KeepX J checkname := by
  intro c ls ls1 a h hJ
  simp only [checkname] at h
  repeat' split at h
  all_goals try cases h
  exact keep_codestring F _ h (keep_str_checkname F (by assumption) hJ)

theorem keep_singlevar (F : FrameLaws J up decl push fn) : KeepX J singlevar := by
  intro c ls ls1 a h hJ
  simp only [singlevar] at h
  repeat' split at h
  all_goals try cases h
  · rename_i _ nm lsA hname _ var fss hres hvoid _ var1 fss1 hres1 _ key lsB hcode
    have hA : J c lsA := keep_str_checkname F hname hJ
    have hB : J c { lsA with fs := fss } := F.resolve hres hA
    have hC : J c { lsA with fs := fss1 } := F.resolve hres1 hB
    exact keep_onFs F h (fun fs => sameFrame_of (by simp) (by simp) (by simp) (by simp))
      (keep_codestring F _ hcode hC)
  · rename_i hres _
    exact F.resolve hres (keep_str_checkname F (by assumption) hJ)

theorem keep_fieldsel (F : FrameLaws J up decl push fn) (v : expdesc) :
    KeepX J (fun ls => fieldsel ls v) := by
  intro c ls ls1 a h hJ
  simp only [fieldsel] at h
  repeat' split at h
  all_goals try cases h
  all_goals repeat (first
    | exact hJ
    | refine F.next ?_
    | refine keep_onFs F (by assumption) (fun fs => sameFrame_of (by simp) (by simp) (by simp) (by simp)) ?_
    | refine keep_checkname F (by assumption) ?_)

theorem keep_yindex (F : FrameLaws J up decl push fn) (X : ExprParser) (hX : KeepX J X) :
    KeepX J (yindex X) := by
  intro c ls ls1 a h hJ
  simp only [yindex] at h
  repeat' split at h
  all_goals try cases h
  all_goals repeat (first
    | exact hJ
    | refine F.next ?_
    | refine keep_checknext F (by assumption) ?_
    | refine keep_onFs F (by assumption) (fun fs => sameFrame_of (by simp) (by simp) (by simp) (by simp)) ?_
    | refine hX (by assumption) ?_)

theorem keep_listfield (_F : FrameLaws J up decl push fn) (X : ExprParser) (hX : KeepX J X)
    (cc : ConsControl) : KeepX J (fun ls => listfield X ls cc) := by
  intro c ls ls1 a h hJ
  simp only [listfield] at h
  repeat' split at h
  all_goals try cases h
  exact hX (by assumption) hJ

theorem keep_recfield (F : FrameLaws J up decl push fn) (X : ExprParser) (hX : KeepX J X)
    (cc : ConsControl) : KeepX J (fun ls => recfield X ls cc) := by
  intro c ls ls1 a h hJ
  simp only [recfield] at h
  repeat' split at h
  all_goals try cases h
  all_goals
    rename_i lsA hkey _ _ _ _ _ _ _ _ _ _ _ _ _ _ _ _ _
    have hA : J c lsA := by
      repeat' split at hkey
      all_goals try cases hkey
      all_goals repeat (first
        | exact hJ
        | refine keep_checkname F (by assumption) ?_
        | refine keep_yindex F X hX (by assumption) ?_)
    repeat (first
      | exact hA
      | refine keep_checknext F (by assumption) ?_
      | refine keep_doFs F (by assumption) (fun fs => sameFrame_of (by simp) (by simp) (by simp) (by simp)) ?_
      | refine keep_onFs F (by assumption) (fun fs => sameFrame_of (by simp) (by simp) (by simp) (by simp)) ?_
      | refine hX (by assumption) ?_)

theorem keep_field (F : FrameLaws J up decl push fn) (X : ExprParser) (hX : KeepX J X)
    (cc : ConsControl) : KeepX J (fun ls => field X ls cc) := by
  intro c ls ls1 a h hJ
  simp only [field] at h
  repeat' split at h
  all_goals repeat (first
    | exact hJ
    | refine keep_listfield F X hX _ (by assumption) ?_
    | refine keep_recfield F X hX _ (by assumption) ?_)

theorem keep_constructor_loop (F : FrameLaws J up decl push fn) (X : ExprParser) (hX : KeepX J X) :
    ∀ fuel cc, KeepX J (fun ls => constructor_loop X fuel cc ls) := by
  intro fuel
  induction fuel with
  | zero => intro cc c ls ls1 a h _; simp [constructor_loop] at h
  | succ fuel ih =>
    intro cc c ls ls1 a h hJ
    simp only [constructor_loop] at h
    repeat' split at h
    all_goals try cases h
    all_goals repeat (first
      | exact hJ
      | refine ih _ (by assumption) ?_
      | refine keep_testnext F (by assumption) ?_
      | refine keep_field F X hX _ (by assumption) ?_
      | refine keep_onFs F (by assumption) (fun fs => sameFrame_of (by simp) (by simp) (by simp) (by simp)) ?_)

theorem keep_constructor_open (F : FrameLaws J up decl push fn) : KeepX J constructor_open := by
  intro c ls ls1 a h hJ
  simp only [constructor_open] at h
  repeat' split at h
  all_goals try cases h
  all_goals repeat (first
    | exact hJ
    | refine keep_checknext F (by assumption) ?_
    | refine keep_onFs F (by assumption) (fun fs => sameFrame_of (by simp) (by simp) (by simp) (by simp)) ?_)

theorem keep_constructor_close (F : FrameLaws J up decl push fn) (line pc : Int) (cc : ConsControl) :
    KeepS J (fun ls => constructor_close ls line pc cc) := by
  intro c ls ls1 h hJ
  simp only [constructor_close] at h
  repeat' split at h
  all_goals try cases h
  all_goals repeat (first
    | exact hJ
    | refine keep_check_match F (by assumption) ?_
    | refine keep_doFs F (by assumption) (fun fs => sameFrame_of (by simp) (by simp) (by simp) (by simp)) ?_
    | refine keep_onFs F (by assumption) (fun fs => sameFrame_of (by simp) (by simp) (by simp) (by simp)) ?_)

theorem keep_constructor (F : FrameLaws J up decl push fn) (X : ExprParser) (hX : KeepX J X)
    (fuel : Nat) : KeepX J (constructor X fuel) := by
  intro c ls ls1 a h hJ
  simp only [constructor] at h
  repeat' split at h
  all_goals try cases h
  all_goals repeat (first
    | exact hJ
    | refine keep_constructor_close F _ _ _ (by assumption) ?_
    | refine keep_constructor_loop F X hX _ _ (by assumption) ?_
    | refine keep_constructor_open F (by assumption) ?_)

theorem keep_statlist (_F : FrameLaws J up decl push fn) (S : StmtParser) (hS : KeepS J S) :
    ∀ fuel, KeepS J (statlist S fuel) := by
  intro fuel
  induction fuel with
  | zero => intro c ls ls1 h _; simp [statlist] at h
  | succ fuel ih =>
    intro c ls ls1 h hJ
    simp only [statlist] at h
    repeat' split at h
    all_goals try cases h
    all_goals repeat (first
      | exact hJ
      | refine ih (by assumption) ?_
      | refine hS (by assumption) ?_)

theorem keep_block (F : FrameLaws J up decl push fn) (S : StmtParser) (hS : KeepS J S)
    (fuel : Nat) : KeepS J (block S fuel) := by
  intro c ls ls1 h hJ
  simp only [block] at h
  repeat' split at h
  all_goals try cases h
  all_goals repeat (first
    | exact hJ
    | (refine @FrameLaws.leaveblock _ _ _ _ _ _ F _ ?_ _ _ (by assumption) ?_; rotate_left)
    | refine F.enterblock (by assumption) ?_
    | refine keep_statlist F S hS _ (by assumption) ?_)

theorem keep_addprototype (F : FrameLaws J up decl push fn) : KeepX J addprototype := by
  intro c ls ls1 a h hJ
  simp only [addprototype] at h
  repeat' split at h
  all_goals try cases h
  refine F.head (by assumption) ?_ hJ
  exact ⟨rfl, rfl, rfl, rfl, rfl⟩

theorem keep_codeclosure (F : FrameLaws J up decl push fn) : KeepX J codeclosure := by
  intro c ls ls1 a h hJ
  simp only [codeclosure] at h
  repeat' split at h
  all_goals try cases h
  refine F.second (by assumption) ?_ hJ
  exact sameFrame_of (by simp) (by simp) (by simp) (by simp)

theorem keep_doFs_vararg (F : FrameLaws J up decl push fn) {c : C} {s ls ls1 : LexState}
    {b : Bool} {k : Nat}
    (h : ls.doFs (fun fs => { fs with f := { fs.f with is_vararg := b } }) = Except.ok ls1)
    (hJ : J (Nat.iterate decl k (fn s c)) ls) : J (Nat.iterate decl k (fn s c)) ls1 := by
  unfold LexState.doFs at h
  split at h <;> cases h
  exact F.vararg (by assumption) hJ

theorem keep_parlist_loop (F : FrameLaws J up decl push fn) :
    ∀ (fuel n : Nat) (c : C) (s ls ls1 : LexState) (a : Nat),
      parlist_loop fuel n ls = Except.ok (a, ls1) →
      J (Nat.iterate decl n (fn s c)) ls → J (Nat.iterate decl a (fn s c)) ls1 := by
  intro fuel
  induction fuel with
  | zero => intro n c s ls ls1 a h _; simp [parlist_loop] at h
  | succ fuel ih =>
    intro n c s ls ls1 a h hJ
    simp only [parlist_loop] at h
    repeat' split at h
    all_goals try cases h
    · rename_i hmid
      repeat' split at hmid
      all_goals try cases hmid
      all_goals repeat (first
        | exact hJ
        | refine F.next ?_
        | refine keep_doFs_vararg F (by assumption) ?_
        | refine keep_newvar_iter F (by assumption) ?_
        | refine keep_str_checkname F (by assumption) ?_)
    · rename_i hmid _ _ _ _ _ _ _ _
      repeat' split at hmid
      all_goals try cases hmid
      all_goals repeat (first
        | exact hJ
        | refine F.next ?_
        | refine ih _ _ _ _ _ _ (by assumption) ?_
        | refine keep_testnext F (by assumption) ?_
        | refine keep_doFs_vararg F (by assumption) ?_
        | refine keep_newvar_iter F (by assumption) ?_
        | refine keep_str_checkname F (by assumption) ?_)
    · rename_i hmid _
      repeat' split at hmid
      all_goals try cases hmid
      all_goals repeat (first
        | exact hJ
        | refine F.next ?_
        | refine keep_testnext F (by assumption) ?_
        | refine keep_doFs_vararg F (by assumption) ?_
        | refine keep_newvar_iter F (by assumption) ?_
        | refine keep_str_checkname F (by assumption) ?_)

theorem keep_parlist (F : FrameLaws J up decl push fn) (fuel : Nat) {c : C} {s ls ls1 : LexState}
    (h : parlist fuel ls = Except.ok ls1) (hJ : J (fn s c) ls) : J (fn s c) ls1 := by
  simp only [parlist] at h
  repeat' split at h
  all_goals try cases h
  rename_i hmid _ _ _
  refine keep_doFs F h (fun fs => ⟨by simp, by simp, by simp, by simp, by simp⟩) ?_
  refine F.adjust (by assumption) ?_
  repeat' split at hmid
  all_goals try cases hmid
  all_goals repeat (first
    | exact hJ
    | refine keep_doFs_vararg F (by assumption) ?_
    | refine keep_parlist_loop F _ 0 _ _ _ _ _ (by assumption) ?_)

theorem keep_body (F : FrameLaws J up decl push fn) (S : StmtParser) (hS : KeepS J S)
    (fuel : Nat) (ismethod : Bool) (line : Int) :
    KeepX J (fun ls => body S fuel ls ismethod line) := by
  intro c ls ls1 a h hJ
  simp only [body] at h
  repeat' split at h
  all_goals try cases h
  rename_i hmid _ _ _ _ _ _ _ _ _ _ _ _ _ _ _ _ _ _
  repeat' split at hmid
  all_goals try cases hmid
  all_goals repeat (first
    | exact hJ
    | (refine @FrameLaws.closef _ _ _ _ _ _ F _ ?_ _ _ _ (by assumption) ?_; rotate_left)
    | refine F.openf (by assumption) ?_
    | refine keep_codeclosure F (by assumption) ?_
    | refine keep_check_match F (by assumption) ?_
    | refine keep_checknext F (by assumption) ?_
    | refine keep_statlist F S hS _ (by assumption) ?_
    | refine keep_parlist F _ (by assumption) ?_
    | refine F.adjust (by assumption) ?_
    | refine F.newvar (by assumption) ?_
    | refine keep_addprototype F (by assumption) ?_)

theorem keep_funcargs (F : FrameLaws J up decl push fn) (X : ExprParser) (hX : KeepX J X)
    (fuel : Nat) (f : expdesc) (line : Int) :
    KeepX J (fun ls => funcargs X fuel ls f line) := by
  intro c ls ls1 a h hJ
  simp only [funcargs] at h
  split at h
  · cases h
  rename_i hmid
  refine keep_onFs F h (fun fs => sameFrame_of ?_ ?_ ?_ ?_) ?_
  · simp only [luaK_fixline_f, luaK_codeABC_f]; split <;> try split
    all_goals simp
  · simp only []; split <;> try split
    all_goals simp
  · simp only []; split <;> try split
    all_goals simp
  · simp only []; split <;> try split
    all_goals simp
  repeat' split at hmid
  all_goals try cases hmid
  all_goals repeat (first
    | exact hJ
    | refine F.next ?_
    | refine keep_check_match F (by assumption) ?_
    | refine keep_explist_top F X hX _ (by assumption) ?_
    | refine keep_constructor F X hX _ (by assumption) ?_
    | refine keep_codestring F _ (by assumption) ?_)
  rename_i hmid2 _
  repeat' split at hmid2
  all_goals try cases hmid2
  all_goals repeat (first
    | exact hJ
    | refine F.next ?_
    | refine keep_doFs F (by assumption) (fun fs => sameFrame_of (by simp) (by simp) (by simp) (by simp)) ?_
    | refine keep_explist_top F X hX _ (by assumption) ?_)

theorem keep_primaryexp (F : FrameLaws J up decl push fn) (X : ExprParser) (hX : KeepX J X) :
    KeepX J (primaryexp X) := by
  intro c ls ls1 a h hJ
  simp only [primaryexp] at h
  repeat' split at h
  all_goals try cases h
  all_goals repeat (first
    | exact hJ
    | refine F.next ?_
    | refine keep_check_match F (by assumption) ?_
    | refine keep_onFs F (by assumption) (fun fs => sameFrame_of (by simp) (by simp) (by simp) (by simp)) ?_
    | refine keep_singlevar F (by assumption) ?_
    | refine hX (by assumption) ?_)

theorem keep_suffixedexp_loop (F : FrameLaws J up decl push fn) (X : ExprParser) (hX : KeepX J X)
    (line : Int) : ∀ fuel v, KeepX J (suffixedexp_loop X line fuel v) := by
  intro fuel
  induction fuel with
  | zero => intro v c ls ls1 a h _; simp [suffixedexp_loop] at h
  | succ fuel ih =>
    intro v c ls ls1 a h hJ
    simp only [suffixedexp_loop] at h
    repeat' split at h
    all_goals try cases h
    all_goals repeat (first
      | exact hJ
      | refine F.next ?_
      | refine ih _ (by assumption) ?_
      | refine keep_funcargs F X hX _ _ _ (by assumption) ?_
      | refine keep_onFs F (by assumption) (fun fs => sameFrame_of (by simp) (by simp) (by simp) (by simp)) ?_
      | refine keep_checkname F (by assumption) ?_
      | refine keep_yindex F X hX (by assumption) ?_
      | refine keep_fieldsel F _ (by assumption) ?_)

theorem keep_suffixedexp (F : FrameLaws J up decl push fn) (X : ExprParser) (hX : KeepX J X)
    (fuel : Nat) : KeepX J (suffixedexp X fuel) := by
  intro c ls ls1 a h hJ
  simp only [suffixedexp] at h
  repeat' split at h
  all_goals try cases h
  all_goals repeat (first
    | exact hJ
    | refine keep_suffixedexp_loop F X hX _ _ _ (by assumption) ?_
    | refine keep_primaryexp F X hX (by assumption) ?_)

theorem keep_assignment (F : FrameLaws J up decl push fn) (SX : ExprParser) (hSX : KeepX J SX)
    (X : ExprParser) (hX : KeepX J X) :
    ∀ fuel lh nvars, KeepX J (fun ls => assignment SX X fuel ls lh nvars) := by
  intro fuel
  induction fuel with
  | zero => intro lh nvars c ls ls1 a h _; simp [assignment] at h
  | succ fuel ih =>
    intro lh nvars c ls ls1 a h hJ
    cases lh with
    | nil => simp [assignment] at h
    | cons lhv prev =>
      simp only [assignment] at h
      repeat' split at h
      all_goals try cases h
      · rename_i hmid
        repeat' split at hmid
        all_goals try cases hmid
        all_goals repeat (first
          | exact hJ
          | refine keep_testnext F (by assumption) ?_
          | refine keep_checknext F (by assumption) ?_
          | refine keep_adjust_assign F _ _ _ (by assumption) ?_
          | refine keep_onFs F (by assumption) (fun fs => sameFrame_of (by simp) (by simp) (by simp) (by simp)) ?_
          | refine keep_doFs F (by assumption) (fun fs => sameFrame_of (by simp) (by simp) (by simp) (by simp)) ?_
          | refine keep_explist_top F X hX _ (by assumption) ?_)
      · rename_i hmid _ _
        refine keep_doFs F (by assumption) (fun fs => sameFrame_of (by simp) (by simp) (by simp) (by simp)) ?_
        repeat' split at hmid
        all_goals try cases hmid
        all_goals try (simp only [Except.ok.injEq, Prod.mk.injEq, true_and] at hmid; obtain ⟨_, rfl⟩ := hmid)
        all_goals repeat (first
          | exact hJ
          | refine keep_testnext F (by assumption) ?_
          | refine keep_checknext F (by assumption) ?_
          | refine keep_adjust_assign F _ _ _ (by assumption) ?_
          | refine keep_doFs F (by assumption) (fun fs => sameFrame_of (by simp) (by simp) (by simp) (by simp)) ?_
          | refine keep_explist_top F X hX _ (by assumption) ?_
          | refine ih _ _ (by assumption) ?_
          | (refine F.head (by assumption) ?_ ?_; rotate_left)
          | refine hSX (by assumption) ?_)
        split <;> exact sameFrame_of (by simp) (by simp) (by simp) (by simp)

theorem keep_exprstat (F : FrameLaws J up decl push fn) (SX : ExprParser) (hSX : KeepX J SX)
    (X : ExprParser) (hX : KeepX J X) (fuel : Nat) : KeepS J (exprstat SX X fuel) := by
  intro c ls ls1 h hJ
  simp only [exprstat] at h
  repeat' split at h
  all_goals try cases h
  all_goals repeat (first
    | exact hJ
    | refine keep_doFs F (by assumption) (fun fs => sameFrame_of (by simp) (by simp) (by simp) (by simp)) ?_
    | refine keep_assignment F SX hSX X hX _ _ _ (by assumption) ?_
    | refine hSX (by assumption) ?_)

theorem keep_retstat (F : FrameLaws J up decl push fn) (X : ExprParser) (hX : KeepX J X)
    (fuel : Nat) : KeepS J (retstat X fuel) := by
  intro c ls ls1 h hJ
  simp only [retstat] at h
  split at h
  · cases h
  rename_i hmid
  repeat' split at h
  all_goals try cases h
  refine keep_testnext F rfl ?_
  refine keep_doFs F (by assumption) (fun fs => sameFrame_of (by simp) (by simp) (by simp) (by simp)) ?_
  repeat' split at hmid
  all_goals try cases hmid
  all_goals repeat (first
    | exact hJ
    | refine keep_explist_top F X hX _ (by assumption) ?_
    | refine keep_onFs F (by assumption) (fun fs => sameFrame_of (by simp) (by simp) (by simp) (by simp)) ?_)

theorem keep_localfunc (F : FrameLaws J up decl push fn)
    (B : LexState → Bool → Int → Except ParseError (expdesc × LexState))
    (hB : ∀ ismethod line, KeepX J (fun ls => B ls ismethod line)) : KeepS J (localfunc B) := by
  intro c ls ls1 h hJ
  simp only [localfunc] at h
  repeat' split at h
  all_goals try cases h
  refine F.head (by assumption) ?_ ?_
  · exact ⟨rfl, rfl, rfl, rfl, rfl⟩
  repeat (first
    | exact hJ
    | refine hB _ _ (by assumption) ?_
    | refine F.adjust (by assumption) ?_
    | refine F.newvar (by assumption) ?_
    | refine keep_str_checkname F (by assumption) ?_)

theorem keep_funcname_loop (F : FrameLaws J up decl push fn) :
    ∀ fuel v, KeepX J (funcname_loop fuel v) := by
  intro fuel
  induction fuel with
  | zero => intro v c ls ls1 a h _; simp [funcname_loop] at h
  | succ fuel ih =>
    intro v c ls ls1 a h hJ
    simp only [funcname_loop] at h
    repeat' split at h
    all_goals try cases h
    all_goals repeat (first
      | exact hJ
      | refine ih _ (by assumption) ?_
      | refine keep_fieldsel F _ (by assumption) ?_)

theorem keep_funcname (F : FrameLaws J up decl push fn) (fuel : Nat) : KeepX J (funcname fuel) := by
  intro c ls ls1 a h hJ
  simp only [funcname] at h
  repeat' split at h
  all_goals try cases h
  all_goals repeat (first
    | exact hJ
    | refine keep_fieldsel F _ (by assumption) ?_
    | refine keep_funcname_loop F _ _ (by assumption) ?_
    | refine keep_singlevar F (by assumption) ?_)

theorem keep_funcstat (F : FrameLaws J up decl push fn)
    (B : LexState → Bool → Int → Except ParseError (expdesc × LexState))
    (hB : ∀ ismethod line, KeepX J (fun ls => B ls ismethod line)) (fuel : Nat) (line : Int) :
    KeepS J (fun ls => funcstat B fuel ls line) := by
  intro c ls ls1 h hJ
  simp only [funcstat] at h
  repeat' split at h
  all_goals try cases h
  all_goals repeat (first
    | exact hJ
    | refine F.next ?_
    | refine keep_doFs F (by assumption) (fun fs => sameFrame_of (by simp) (by simp) (by simp) (by simp)) ?_
    | refine hB _ _ (by assumption) ?_
    | refine keep_funcname F _ (by assumption) ?_)

theorem keep_cond (F : FrameLaws J up decl push fn) (X : ExprParser) (hX : KeepX J X) :
    KeepX J (cond X) := by
  intro c ls ls1 a h hJ
  simp only [cond] at h
  repeat' split at h
  all_goals try cases h
  all_goals repeat (first
    | exact hJ
    | refine keep_onFs F (by assumption) (fun fs => sameFrame_of (by simp) (by simp) (by simp) (by simp)) ?_
    | refine hX (by assumption) ?_)

theorem push_iterate (F : FrameLaws J up decl push fn) (s : LexState) (n : Nat) (c : C) :
    push s (Nat.iterate decl n c) = Nat.iterate decl n (push s c) := by
  induction n generalizing c with
  | zero => rfl
  | succ n ih =>
    show push s (Nat.iterate decl n (decl c)) = Nat.iterate decl n (decl (push s c))
    rw [ih, F.push_decl]

theorem keep_whilestat (F : FrameLaws J up decl push fn) (X : ExprParser) (hX : KeepX J X)
    (S : StmtParser) (hS : KeepS J S) (fuel : Nat) (line : Int) :
    KeepS J (fun ls => whilestat X S fuel ls line) := by
  intro c ls ls1 h hJ
  simp only [whilestat] at h
  repeat' split at h
  all_goals try cases h
  all_goals repeat (first
    | exact hJ
    | refine F.next ?_
    | (refine @FrameLaws.leaveblock _ _ _ _ _ _ F _ ?_ _ _ (by assumption) ?_; rotate_left)
    | refine F.enterblock (by assumption) ?_
    | refine keep_checknext F (by assumption) ?_
    | refine keep_check_match F (by assumption) ?_
    | refine keep_cond F X hX (by assumption) ?_
    | refine keep_block F S hS _ (by assumption) ?_
    | refine keep_onFs F (by assumption) (fun fs => sameFrame_of (by simp) (by simp) (by simp) (by simp)) ?_
    | refine keep_doFs F (by assumption) (fun fs => sameFrame_of (by simp) (by simp) (by simp) (by simp)) ?_)

theorem keep_repeatstat (F : FrameLaws J up decl push fn) (X : ExprParser) (hX : KeepX J X)
    (S : StmtParser) (hS : KeepS J S) (fuel : Nat) (line : Int) :
    KeepS J (fun ls => repeatstat X S fuel ls line) := by
  intro c ls ls1 h hJ
  simp only [repeatstat] at h
  repeat' split at h
  all_goals try cases h
  all_goals
    refine @FrameLaws.leaveblock _ _ _ _ _ _ F _ ?_ _ _ h ?_
    rotate_left
    refine keep_doFs F (by assumption) (fun fs => sameFrame_of (by simp) (by simp) (by simp) (by simp)) ?_
    refine @FrameLaws.leaveblock _ _ _ _ _ _ F _ ?_ _ _ (by assumption) ?_
    rotate_left
    refine F.head (by assumption) (sameFrame_of ?_ ?_ ?_ ?_) ?_
    iterate 4 (first | rfl | (split <;> simp))
    repeat (first
      | exact hJ
      | refine F.next ?_
      | refine F.enterblock (by assumption) ?_
      | refine keep_check_match F (by assumption) ?_
      | refine keep_cond F X hX (by assumption) ?_
      | refine keep_statlist F S hS _ (by assumption) ?_
      | refine keep_onFs F (by assumption) (fun fs => sameFrame_of (by simp) (by simp) (by simp) (by simp)) ?_)

theorem keep_exp1 (F : FrameLaws J up decl push fn) (X : ExprParser) (hX : KeepX J X) :
    KeepX J (exp1 X) := by
  intro c ls ls1 a h hJ
  simp only [exp1] at h
  repeat' split at h
  all_goals try cases h
  all_goals repeat (first
    | exact hJ
    | refine keep_onFs F (by assumption) (fun fs => sameFrame_of (by simp) (by simp) (by simp) (by simp)) ?_
    | refine hX (by assumption) ?_)

theorem keep_forbody (F : FrameLaws J up decl push fn) (S : StmtParser) (hS : KeepS J S)
    (fuel : Nat) (base line : Int) (nvars : Nat) (isnum : Bool) {c : C} {ls ls1 : LexState}
    (h : forbody S fuel ls base line nvars isnum = Except.ok ls1)
    (hJ : J (Nat.iterate decl (nvars + 3) c) ls) : J c ls1 := by
  simp only [forbody] at h
  repeat' split at h
  all_goals try cases h
  all_goals
    rename_i _ lsA hA _ lsB hB _ prep lsC hC _ lsD hD _ lsE hE _ lsF hF _ lsG hG _ lsH hH hnum
    have h1 : J (Nat.iterate decl nvars c) lsA := by
      refine F.adjust hA ?_
      rw [← Function.iterate_add_apply, Nat.add_comm]
      exact hJ
    have h2 : J (Nat.iterate decl nvars c) lsC := by
      refine keep_onFs F hC (fun fs => sameFrame_of ?_ ?_ ?_ ?_) (keep_checknext F hB h1)
      all_goals (first | (split <;> simp) | simp)
    have h3 : J (Nat.iterate decl nvars (push lsC c)) lsD := by
      rw [← push_iterate F]
      exact F.enterblock hD h2
    have h4 : J (push lsC c) lsF :=
      keep_doFs F hF (fun fs => sameFrame_of (by simp) (by simp) (by simp) (by simp))
        (F.adjust hE h3)
    have h5 : J c lsH := F.leaveblock hH (keep_block F S hS _ hG h4)
    refine keep_doFs F h (fun fs => sameFrame_of ?_ ?_ ?_ ?_) h5
    all_goals (first | (split <;> simp) | simp)

theorem keep_fornum (F : FrameLaws J up decl push fn) (X : ExprParser) (hX : KeepX J X)
    (S : StmtParser) (hS : KeepS J S) (fuel : Nat) (varname : TString) (line : Int) :
    KeepS J (fun ls => fornum X S fuel ls varname line) := by
  intro c ls ls1 h hJ
  simp only [fornum] at h
  repeat' split at h
  all_goals try cases h
  rename_i hmid
  refine keep_forbody F S hS _ _ _ _ _ h ?_
  show J (Nat.iterate decl (0 + 1 + 1 + 1 + 1) c) _
  repeat' split at hmid
  all_goals try cases hmid
  all_goals repeat (first
    | exact hJ
    | refine keep_testnext F (by assumption) ?_
    | refine keep_checknext F (by assumption) ?_
    | refine keep_exp1 F X hX (by assumption) ?_
    | refine keep_newvar_iter F (by assumption) ?_
    | refine keep_doFs F (by assumption) (fun fs => sameFrame_of (by simp) (by simp) (by simp) (by simp)) ?_)

theorem keep_forlist_names (F : FrameLaws J up decl push fn) :
    ∀ (fuel n : Nat) (c : C) (ls ls1 : LexState) (n1 : Nat),
      forlist_names fuel n ls = Except.ok (n1, ls1) →
      J (Nat.iterate decl n c) ls → n ≤ n1 ∧ J (Nat.iterate decl n1 c) ls1 := by
  intro fuel
  induction fuel with
  | zero => intro n c ls ls1 n1 h _; simp [forlist_names] at h
  | succ fuel ih =>
    intro n c ls ls1 n1 h hJ
    simp only [forlist_names] at h
    repeat' split at h
    all_goals try cases h
    · have := ih _ c _ _ _ h (keep_newvar_iter F (by assumption)
        (keep_str_checkname F (by assumption) (keep_testnext F (by assumption) hJ)))
      exact ⟨by omega, this.2⟩
    · exact ⟨le_refl _, keep_testnext F (by assumption) hJ⟩

theorem keep_forlist (F : FrameLaws J up decl push fn) (X : ExprParser) (hX : KeepX J X)
    (S : StmtParser) (hS : KeepS J S) (fuel : Nat) (indexname : TString) :
    KeepS J (fun ls => forlist X S fuel ls indexname) := by
  intro c ls ls1 h hJ
  simp only [forlist] at h
  repeat' split at h
  all_goals try cases h
  rename_i _ fs tl hfs _ lsA hA _ lsB hB _ lsC hC _ lsD hD _ nvars lsE hE _ lsF hF _ nexps e
    lsG hG _ lsH hH _ lsI hI
  have h4 : J (Nat.iterate decl 4 c) lsD :=
    F.newvar hD (F.newvar hC (F.newvar hB (F.newvar hA hJ)))
  obtain ⟨hle, h5⟩ := keep_forlist_names F _ _ c _ _ _ hE h4
  refine keep_forbody F S hS _ _ _ _ _ h ?_
  have hn : nvars - 3 + 3 = nvars := by omega
  rw [hn]
  exact keep_doFs F hI (fun fs => sameFrame_of (by simp) (by simp) (by simp) (by simp))
    (keep_adjust_assign F _ _ _ hH (keep_explist_top F X hX _ hG (keep_checknext F hF h5)))

theorem keep_forstat (F : FrameLaws J up decl push fn) (X : ExprParser) (hX : KeepX J X)
    (S : StmtParser) (hS : KeepS J S) (fuel : Nat) (line : Int) :
    KeepS J (fun ls => forstat X S fuel ls line) := by
  intro c ls ls1 h hJ
  simp only [forstat] at h
  repeat' split at h
  all_goals try cases h
  rename_i _ lsA hE _ label lsB hN _ lsC hmid _ lsD hcm
  have hB : J (push ls c) lsB := keep_str_checkname F hN (F.next (F.enterblock hE hJ))
  refine @FrameLaws.leaveblock _ _ _ _ _ _ F c ls _ _ h (keep_check_match F hcm ?_)
  repeat' split at hmid
  all_goals try cases hmid
  · exact keep_fornum F X hX S hS _ _ _ hmid hB
  · exact keep_forlist F X hX S hS _ _ hmid hB
  · exact keep_forlist F X hX S hS _ _ hmid hB

theorem keep_skipsemicolons (F : FrameLaws J up decl push fn) :
    ∀ fuel, KeepS J (skipsemicolons fuel) := by
  intro fuel
  induction fuel with
  | zero => intro c ls ls1 h _; simp [skipsemicolons] at h
  | succ fuel ih =>
    intro c ls ls1 h hJ
    simp only [skipsemicolons] at h
    repeat' split at h
    all_goals try cases h
    all_goals repeat (first
      | exact hJ
      | refine ih (by assumption) ?_
      | refine keep_testnext F (by assumption) ?_)
theorem keep_test_then_block (F : FrameLaws J up decl push fn) (X : ExprParser)
    (hX : KeepX J X) (S : StmtParser) (hS : KeepS J S) (fuel : Nat) (esc : Int) :
    KeepX J (fun ls => test_then_block X S fuel ls esc) := by
  intro c ls ls1 a h hJ
  simp only [test_then_block] at h
  repeat' split at h
  all_goals try cases h
  · rename_i _ v lsA hA _ lsB hB _ hmid
    have hB1 : J c lsB := keep_checknext F hB (hX hA (F.next hJ))
    repeat' split at hmid
    all_goals try cases hmid
    all_goals repeat (first
      | exact hB1
      | (refine @FrameLaws.leaveblock _ _ _ _ _ _ F _ ?_ _ _ (by assumption) ?_; rotate_left)
      | refine F.enterblock (by assumption) ?_
      | refine F.jump (by assumption) ?_
      | refine keep_skipsemicolons F _ (by assumption) ?_
      | refine keep_statlist F S hS _ (by assumption) ?_
      | refine keep_onFs F (by assumption) (fun fs => sameFrame_of (by simp) (by simp) (by simp) (by simp)) ?_)
  · rename_i _ v lsA hA _ lsB hB _ jf ls3 hmid _ lsC _ hr1 hdo
    have hB1 : J c lsB := keep_checknext F hB (hX hA (F.next hJ))
    refine keep_doFs F hdo (fun fs => sameFrame_of (by simp) (by simp) (by simp) (by simp)) ?_
    have h3 : J c ls3 := by
      repeat' split at hmid
      all_goals try cases hmid
      all_goals repeat (first
        | exact hB1
        | (refine @FrameLaws.leaveblock _ _ _ _ _ _ F _ ?_ _ _ (by assumption) ?_; rotate_left)
        | refine F.enterblock (by assumption) ?_
        | refine F.jump (by assumption) ?_
        | refine keep_skipsemicolons F _ (by assumption) ?_
        | refine keep_statlist F S hS _ (by assumption) ?_
        | refine keep_onFs F (by assumption) (fun fs => sameFrame_of (by simp) (by simp) (by simp) (by simp)) ?_)
    split at hr1
    · exact keep_onFs F hr1 (fun fs => sameFrame_of (by simp) (by simp) (by simp) (by simp)) h3
    · cases hr1; exact h3

theorem keep_ifstat_loop (F : FrameLaws J up decl push fn) (X : ExprParser)
    (hX : KeepX J X) (S : StmtParser) (hS : KeepS J S) (fuel : Nat) :
    ∀ n esc, KeepX J (ifstat_loop X S fuel n esc) := by
  intro n
  induction n with
  | zero => intro esc c ls ls1 a h _; simp [ifstat_loop] at h
  | succ n ih =>
    intro esc c ls ls1 a h hJ
    simp only [ifstat_loop] at h
    repeat' split at h
    all_goals try cases h
    all_goals repeat (first
      | exact hJ
      | refine ih _ (by assumption) ?_
      | refine keep_test_then_block F X hX S hS _ _ (by assumption) ?_)

theorem keep_ifstat (F : FrameLaws J up decl push fn) (X : ExprParser) (hX : KeepX J X)
    (S : StmtParser) (hS : KeepS J S) (fuel : Nat) (line : Int) :
    KeepS J (fun ls => ifstat X S fuel ls line) := by
  intro c ls ls1 h hJ
  simp only [ifstat] at h
  repeat' split at h
  all_goals try cases h
  rename_i hmid _ _ _
  refine keep_doFs F h (fun fs => sameFrame_of (by simp) (by simp) (by simp) (by simp)) ?_
  refine keep_check_match F (by assumption) ?_
  repeat' split at hmid
  all_goals try cases hmid
  all_goals repeat (first
    | exact hJ
    | refine keep_testnext F (by assumption) ?_
    | refine keep_block F S hS _ (by assumption) ?_
    | refine keep_ifstat_loop F X hX S hS _ _ _ (by assumption) ?_
    | refine keep_test_then_block F X hX S hS _ _ (by assumption) ?_)

theorem keep_statRules (F : FrameLaws J up decl push fn) (S : StmtParser) (hS : KeepS J S)
    (X : ExprParser) (hX : KeepX J X) (n : Nat) : KeepR J (statRules S X n) where
  ifstat := keep_ifstat F X hX S hS n
  whilestat := keep_whilestat F X hX S hS n
  block := keep_block F S hS n
  forstat := keep_forstat F X hX S hS n
  repeatstat := keep_repeatstat F X hX S hS n
  funcstat := keep_funcstat F _ (keep_body F S hS n) n
  localfunc := keep_localfunc F _ (keep_body F S hS n)
  localstat := keep_localstat F X hX n
  retstat := keep_retstat F X hX n
  exprstat := keep_exprstat F _ (keep_suffixedexp F X hX n) X hX n

theorem keep_expRules (F : FrameLaws J up decl push fn) (S : StmtParser) (hS : KeepS J S)
    (X : ExprParser) (hX : KeepX J X) (n : Nat) : KeepE J (expRules S X n) where
  constructor := keep_constructor F X hX n
  body := keep_body F S hS n
  suffixedexp := keep_suffixedexp F X hX n

theorem keep_parsers (F : FrameLaws J up decl push fn) :
    ∀ n, KeepS J (parsers n).1 ∧ KeepX J (parsers n).2 := by
  intro n
  induction n with
  | zero =>
    exact ⟨fun h _ => by simp [parsers] at h, fun h _ => by simp [parsers] at h⟩
  | succ n ih =>
    exact ⟨(keep_statement F _ (keep_statRules F _ ih.1 _ ih.2 n) n).1,
      keep_expr F _ (keep_simpleexp F _ (keep_expRules F _ ih.1 _ ih.2 n)) n⟩

end Frames

/-! ## Theorems: the shape of the primitive steps -/

theorem adjustlocalvars_loop_frame (dyd : Dyndata) :
    ∀ (n : Nat) (fs fs1 : FuncState), adjustlocalvars_loop dyd n fs = some fs1 →
      sameFrame fs fs1 := by
  intro n
  induction n with
  | zero =>
    intro fs fs1 h
    simp only [adjustlocalvars_loop] at h
    cases h
    exact ⟨rfl, rfl, rfl, rfl, rfl⟩
  | succ n ih =>
    intro fs fs1 h
    simp only [adjustlocalvars_loop] at h
    repeat' split at h
    all_goals try cases h
    obtain ⟨e1, e2, e3, e4, e5⟩ := ih _ _ h
    exact ⟨e1, e2, e3, e4, e5⟩

theorem adjustlocalvars_inv (ls ls1 : LexState) (n : Nat)
    (h : adjustlocalvars ls n = Except.ok ls1) :
    ∃ fs prev fs1, ls.fs = fs :: prev ∧ ls1 = { ls with fs := fs1 :: prev } ∧
      sameFrame { fs with nactvar := cast_byte (fs.nactvar + n) } fs1 := by
  simp only [adjustlocalvars] at h
  repeat' split at h
  all_goals try cases h
  rename_i fs prev hfs _ _ fs1 hloop
  exact ⟨fs, prev, fs1, hfs, rfl, adjustlocalvars_loop_frame _ _ _ _ hloop⟩

theorem enterblock_inv (ls ls1 : LexState) (b : Bool) (h : enterblock ls b = Except.ok ls1) :
    ∃ fs prev, ls.fs = fs :: prev ∧
      ls1 = { ls with fs := { fs with bl :=
        { isloop := b, nactvar := fs.nactvar, firstlabel := ls.dyd.label.length,
          firstgoto := ls.dyd.gt.length, upval := false } :: fs.bl } :: prev } := by
  simp only [enterblock] at h
  split at h
  · cases h
  · rename_i fs prev hfs
    cases h
    exact ⟨fs, prev, hfs, rfl⟩

theorem leaveblock_shape (ls ls1 : LexState) (h : leaveblock ls = Except.ok ls1) :
    ∃ fs prev bl previous, ls.fs = fs :: prev ∧ fs.bl = bl :: previous := by
  unfold leaveblock at h
  split at h
  · cases h
  · rename_i fs prev hfs
    split at h
    · cases h
    · rename_i bl previous hbl
      exact ⟨fs, prev, bl, previous, hfs, hbl⟩

theorem findgotos_shape (ls ls1 : LexState) (lb : Labeldesc)
    (h : findgotos ls lb = Except.ok ls1) :
    ∃ fs prev bl previous, ls.fs = fs :: prev ∧ fs.bl = bl :: previous := by
  unfold findgotos at h
  split at h
  · rename_i fs prev hfs
    split at h
    · rename_i bl previous hbl
      exact ⟨fs, prev, bl, previous, hfs, hbl⟩
    · cases h
  · cases h

theorem close_func_inv (ls ls1 : LexState) (fs : FuncState)
    (h : close_func ls = Except.ok (fs, ls1)) :
    ∃ fs0 prev0 ls2 prev, ls.fs = fs0 :: prev0 ∧
      leaveblock { ls with fs := luaK_ret fs0 0 0 :: prev0 } = Except.ok ls2 ∧
      ls2.fs = fs :: prev ∧ ls1 = { ls2 with fs := prev } := by
  simp only [close_func, LexState.doFs] at h
  repeat' split at h
  all_goals try cases h
  rename_i _ lsA hA _ lsB hB _ tl hfs
  split at hA
  · cases hA
  · rename_i fs0 prev0 hfs0
    cases hA
    exact ⟨fs0, prev0, lsB, tl, hfs0, hB, hfs, rfl⟩

theorem findlabel_inv (ls ls2 : LexState) (g : Nat) (b : Bool)
    (h : findlabel ls g = Except.ok (b, ls2)) :
    (b = false ∧ ls2 = ls) ∨
    (b = true ∧ ∃ fs prev bl rest gt lb fs1, ls.fs = fs :: prev ∧ fs.bl = bl :: rest ∧
      ls.dyd.gt.get? g = some gt ∧ lb ∈ ls.dyd.label.drop bl.firstlabel ∧
      lb.nactvar ≤ gt.nactvar ∧ sameFrame fs fs1 ∧
      ls2 = { ls with fs := fs1 :: prev,
                      dyd := { ls.dyd with gt := ls.dyd.gt.eraseIdx g } }) := by
  simp only [findlabel] at h
  repeat' split at h
  all_goals try cases h
  · exact Or.inl ⟨rfl, rfl⟩
  · rename_i _ _ fs prev gt hfs hg _ bl previous hbl _ lb hfind _ hcl
    refine Or.inr ⟨rfl, fs, prev, bl, previous, gt, lb, ?_⟩
    simp only [closegoto] at hcl
    rw [hg] at hcl
    simp only [] at hcl
    split at hcl
    · split at hcl <;> cases hcl
    · rename_i hlt
      cases hcl
      refine ⟨_, hfs, hbl, hg, (mem_of_find?_eq_some _ _ _ hfind).1, by omega, ?_, rfl⟩
      refine sameFrame_of ?_ ?_ ?_ ?_
      all_goals (first | (split <;> simp) | simp)
theorem testnext_nCcalls (ls : LexState) (c : Tok) : (testnext ls c).2.nCcalls = ls.nCcalls := by
  rcases testnext_snd ls c with h | h <;> rw [h]
  rw [luaX_next_nCcalls]

theorem gotostat_inv (ls ls1 : LexState) (pc : Int) (h : gotostat ls pc = Except.ok ls1) :
    ∃ (ls0 : LexState) (fs : FuncState) (prev : List FuncState) (name : TString) (b : Bool),
      ls0.fs = ls.fs ∧ ls0.dyd = ls.dyd ∧ ls0.nCcalls = ls.nCcalls ∧ ls.fs = fs :: prev ∧
      findlabel { ls0 with dyd := { ls0.dyd with gt := ls.dyd.gt ++
        [{ name := name, line := ls.linenumber, nactvar := fs.nactvar, pc := pc }] } }
        ls.dyd.gt.length = Except.ok (b, ls1) := by
  simp only [gotostat] at h
  repeat' split at h
  all_goals try cases h
  rename_i _ label lsA hr _ g gt1 hnew _ b hfind
  have hA : lsA = luaX_next (testnext ls Tok.TK_GOTO).2 := by
    split at hr
    · rename_i lsB htn
      obtain ⟨_, _, e⟩ := str_checkname_inv _ _ _ hr
      rw [e, htn]
    · rename_i lsB htn
      cases hr
      rw [htn]
  have hfs : lsA.fs = ls.fs := by rw [hA, luaX_next_fs, testnext_fs]
  have hdyd : lsA.dyd = ls.dyd := by rw [hA, luaX_next_dyd, testnext_dyd]
  have hn : lsA.nCcalls = ls.nCcalls := by rw [hA, luaX_next_nCcalls, testnext_nCcalls]
  simp only [newlabelentry] at hnew
  split at hnew
  · cases hnew
  · rename_i fs prev hfsA
    split at hnew
    · cases hnew
    · simp only [Except.ok.injEq, Prod.mk.injEq] at hnew
      obtain ⟨hg, hgt⟩ := hnew
      subst hg hgt
      refine ⟨lsA, fs, prev, label, b, hfs, hdyd, hn, hfs ▸ hfsA, ?_⟩
      rw [← hdyd]
      exact hfind

/-! ## Theorems: the nesting counter -/

theorem leaveblock_nCcalls (ls ls1 : LexState) (h : leaveblock ls = Except.ok ls1) :
    ls1.nCcalls = ls.nCcalls := by
  obtain ⟨fs, prev, bl, previous, hfs, hbl⟩ := leaveblock_shape ls ls1 h
  obtain ⟨_, _, _, L, e, _⟩ := leaveblock_inv ls ls1 fs prev bl previous hfs hbl h
  rw [e]

theorem findlabel_nCcalls (ls ls1 : LexState) (g : Nat) (b : Bool)
    (h : findlabel ls g = Except.ok (b, ls1)) : ls1.nCcalls = ls.nCcalls := by
  rcases findlabel_inv ls ls1 g b h with ⟨_, e⟩ | ⟨_, _, _, _, _, _, _, _, _, _, _, _, _, _, e⟩
  · rw [e]
  · rw [e]

theorem levelIs_laws :
    FrameLaws LevelIs (fun n => n + 1) id (fun _ c => c) (fun _ c => c) where
  push_decl := fun _ _ => rfl
  next := fun h => (luaX_next_nCcalls _).trans h
  head := fun _ _ h => h
  second := fun _ _ h => h
  newvar := by
    intro c ls ls1 name h hJ
    obtain ⟨fs, prev, _, e, _⟩ := new_localvar_inv ls ls1 name h
    rw [e]; exact hJ
  adjust := by
    intro c ls ls1 n h hJ
    obtain ⟨fs, prev, fs1, _, e, _⟩ := adjustlocalvars_inv ls ls1 n h
    rw [Function.iterate_id] at hJ
    rw [e]; exact hJ
  enter := by
    intro c ls ls1 h hJ
    rw [enterlevel_inv ls ls1 h]
    show ls.nCcalls + 1 = c + 1
    rw [hJ]
  leave := by
    intro c ls hJ
    show ls.nCcalls - 1 = c
    rw [hJ]; rfl
  vararg := by
    intro c s ls fs prev b k _ hJ
    rw [Function.iterate_id] at hJ ⊢
    exact hJ
  enterblock := by
    intro c ls ls1 b h hJ
    obtain ⟨fs, prev, _, e⟩ := enterblock_inv ls ls1 b h
    rw [e]; exact hJ
  leaveblock := by
    intro c s ls ls1 h hJ
    exact (leaveblock_nCcalls ls ls1 h).trans hJ
  openf := by
    intro c ls ls1 f h hJ
    obtain ⟨fs, prev, _, e⟩ := enterblock_inv _ ls1 _ h
    rw [e]; exact hJ
  closef := by
    intro c s ls ls1 fs h hJ
    obtain ⟨fs0, prev0, ls2, prev, _, hl, _, e⟩ := close_func_inv ls ls1 fs h
    rw [e]
    exact (leaveblock_nCcalls _ ls2 hl).trans hJ
  resolve := fun _ h => h
  jump := by
    intro c ls ls1 pc h hJ
    obtain ⟨ls0, fs, prev, name, b, _, _, hn, _, hf⟩ := gotostat_inv ls ls1 pc h
    exact ((findlabel_nCcalls _ ls1 _ b hf).trans hn).trans hJ
  addlabel := fun _ h => h
  setlabel := fun _ h _ _ _ => h
  closegotos := by
    intro c ls ls1 lb h hJ
    obtain ⟨fs, prev, bl, previous, hfs, hbl⟩ := findgotos_shape ls ls1 lb h
    rw [findgotos_inv ls ls1 lb fs prev bl previous hfs hbl h]
    exact hJ

/-- C15: the nesting counter.  With the callees of every nesting depth `n`:
(1) a `statement` that returns has passed `enterlevel`, which raises the
counter `nCcalls` by one, and returns with the counter at its value on entry;
(2) the same holds of `subexpr`; (3) so does every statement and expression of
the whole parser; (4) a failure of `enterlevel` is the failure of the
statement or subexpression, nothing is parsed before it; (5) in a state with a
current function `enterlevel` fails, with the limit error for "C levels" and
`LUAI_MAXCCALLS`, exactly when the counter plus one exceeds `LUAI_MAXCCALLS`,
and otherwise returns the state with the counter raised by one. -/
theorem nesting_counter_balanced (n : Nat) :
    (∀ (fuel : Nat) (ls ls1 : LexState),
      statement (statRules (parsers n).1 (parsers n).2 n) fuel ls = Except.ok ls1 →
      (∃ lsA, enterlevel ls = Except.ok lsA ∧ lsA.nCcalls = ls.nCcalls + 1) ∧
      ls1.nCcalls = ls.nCcalls) ∧
    (∀ (fuel limit : Nat) (ls ls1 : LexState) (r : expdesc × BinOpr),
      subexpr (simpleexp (expRules (parsers n).1 (parsers n).2 n)) fuel ls limit =
        Except.ok (r, ls1) →
      (∃ lsA, enterlevel ls = Except.ok lsA ∧ lsA.nCcalls = ls.nCcalls + 1) ∧
      ls1.nCcalls = ls.nCcalls) ∧
    (∀ (ls ls1 : LexState), (parsers n).1 ls = Except.ok ls1 → ls1.nCcalls = ls.nCcalls) ∧
    (∀ (ls ls1 : LexState) (v : expdesc), (parsers n).2 ls = Except.ok (v, ls1) →
      ls1.nCcalls = ls.nCcalls) ∧
    (∀ (R : StatRules) (X : ExprParser) (fuel limit : Nat) (ls : LexState) (e : ParseError),
      enterlevel ls = Except.error e →
      statement R (fuel + 1) ls = Except.error e ∧
      subexpr X (fuel + 1) ls limit = Except.error e) ∧
    (∀ (ls : LexState) (fs : FuncState) (prev : List FuncState), ls.fs = fs :: prev →
      ((ls.nCcalls : Int) + 1 > LUAI_MAXCCALLS →
        enterlevel ls =
          Except.error (ParseError.limit "C levels" LUAI_MAXCCALLS fs.f.linedefined)) ∧
      (¬ (ls.nCcalls : Int) + 1 > LUAI_MAXCCALLS →
        enterlevel ls = Except.ok { ls with nCcalls := ls.nCcalls + 1 })) := by
  have hP := keep_parsers levelIs_laws n
  have hR := keep_statRules levelIs_laws _ hP.1 _ hP.2 n
  have hE := keep_expRules levelIs_laws _ hP.1 _ hP.2 n
  have hent : ∀ (ls lsA : LexState), enterlevel ls = Except.ok lsA →
      lsA.nCcalls = ls.nCcalls + 1 := by
    intro ls lsA h
    rw [enterlevel_inv ls lsA h]
  refine ⟨?_, ?_, ?_, ?_, ?_, ?_⟩
  · intro fuel ls ls1 h
    refine ⟨?_, (keep_statement levelIs_laws _ hR fuel).1 h rfl⟩
    cases fuel with
    | zero => simp [statement] at h
    | succ fuel =>
      simp only [statement] at h
      split at h
      · cases h
      · rename_i lsA hA
        exact ⟨lsA, hA, hent _ _ hA⟩
  · intro fuel limit ls ls1 r h
    refine ⟨?_, (keep_subexpr levelIs_laws _ (keep_simpleexp levelIs_laws _ hE) fuel).1 limit h
      rfl⟩
    cases fuel with
    | zero => simp [subexpr] at h
    | succ fuel =>
      simp only [subexpr] at h
      split at h
      · cases h
      · rename_i lsA hA
        exact ⟨lsA, hA, hent _ _ hA⟩
  · intro ls ls1 h
    exact hP.1 h rfl
  · intro ls ls1 v h
    exact hP.2 h rfl
  · intro R X fuel limit ls e h
    constructor
    · simp only [statement, h]
    · simp only [subexpr, h]
  · intro ls fs prev hfs
    constructor
    · intro hgt
      simp only [enterlevel, hfs, checklimit]
      rw [if_pos (by push_cast; exact hgt)]
    · intro hle
      simp only [enterlevel, hfs, checklimit]
      rw [if_neg (by push_cast; exact hle)]

theorem nesting_counter_balanced_witness :
    (∃ ls1, (parsers 6).1 (chunkStart upvalOuterToks) = Except.ok ls1 ∧
      ls1.nCcalls = (chunkStart upvalOuterToks).nCcalls) ∧
    enterlevel { chunkStart [] with nCcalls := 200 } =
      Except.error (ParseError.limit "C levels" LUAI_MAXCCALLS 0) := by
  constructor
  · cases h : (parsers 6).1 (chunkStart upvalOuterToks) with
    | error e =>
      have hok : ((parsers 6).1 (chunkStart upvalOuterToks)).isOk = true := by decide!
      rw [h] at hok
      cases hok
    | ok ls1 => exact ⟨ls1, rfl, (nesting_counter_balanced 6).2.2.1 _ _ h⟩
  · exact ((nesting_counter_balanced 0).2.2.2.2.2 { chunkStart [] with nCcalls := 200 } _ _
      rfl).1 (by decide)

/-! ## Theorems: the upvalue of the main function -/

theorem markupval_loop_snap (level : Int) :
    ∀ (bl bl1 : List BlockCnt), markupval_loop level bl = some bl1 →
      bl1.map blockSnap = bl.map blockSnap := by
  intro bl
  induction bl with
  | nil => intro bl1 h; simp [markupval_loop] at h
  | cons b rest ih =>
    intro bl1 h
    simp only [markupval_loop] at h
    repeat' split at h
    all_goals try cases h
    · rename_i hrec
      simp only [List.map_cons, ih _ hrec]
    · simp [blockSnap]

theorem markupval_snap (fs fs1 : FuncState) (level : Int) (h : markupval fs level = some fs1) :
    frameSnap fs1 = frameSnap fs ∧ fs1.f = fs.f := by
  unfold markupval at h
  cases hm : markupval_loop level fs.bl with
  | none => simp [hm] at h
  | some bl1 =>
    simp only [hm, Option.some.injEq] at h
    subst h
    simp [frameSnap, markupval_loop_snap level _ _ hm]

theorem singlevaraux_frames (dyd : Dyndata) (n : TString) :
    ∀ (fss fss1 : List FuncState) (base : Bool) (var : expdesc),
      singlevaraux dyd fss n base = Except.ok (var, fss1) →
      fss1.map frameSnap = fss.map frameSnap ∧
      fss1.map (fun fs => fs.f.is_vararg) = fss.map (fun fs => fs.f.is_vararg) ∧
      fss1.getLast?.map (fun fs => fs.f.upvalues) = fss.getLast?.map (fun fs => fs.f.upvalues) := by
  intro fss
  induction fss with
  | nil =>
    intro fss1 base var h
    simp only [singlevaraux, Except.ok.injEq, Prod.mk.injEq] at h
    rw [← h.2]
    exact ⟨rfl, rfl, rfl⟩
  | cons fs prev ih =>
    intro fss1 base var h
    rw [singlevaraux] at h
    simp only [] at h
    repeat' split at h
    all_goals try cases h
    · exact ⟨rfl, rfl, rfl⟩
    · rename_i _ _ _ fs1 hm
      obtain ⟨e1, e2⟩ := markupval_snap fs fs1 _ hm
      refine ⟨by simp only [List.map_cons, e1], by simp only [List.map_cons, e2], ?_⟩
      cases prev with
      | nil => simp [e2]
      | cons p ps => rw [getLast?_cons_cons, getLast?_cons_cons]
    · rename_i _ _ _ prev1 hrec hvoid
      rw [singlevaraux_void_same dyd n prev prev1 false var hrec hvoid]
      exact ⟨rfl, rfl, rfl⟩
    · rename_i _ _ _ var0 prev1 hrec hnv _ idx1 fs1 hnew
      obtain ⟨i1, i2, i3⟩ := ih prev1 false var0 hrec
      simp only [newupvalue] at hnew
      split at hnew
      · cases hnew
      · simp only [Except.ok.injEq, Prod.mk.injEq] at hnew
        obtain ⟨_, hfs1⟩ := hnew
        subst hfs1
        refine ⟨by simp only [List.map_cons, i1]; rfl, by simp only [List.map_cons, i2], ?_⟩
        cases prev with
        | nil =>
          simp only [singlevaraux, Except.ok.injEq, Prod.mk.injEq] at hrec
          exact absurd (by rw [← hrec.1]; rfl) hnv
        | cons p ps =>
          cases prev1 with
          | nil => simp at i1
          | cons q qs =>
            rw [getLast?_cons_cons, getLast?_cons_cons]
            exact i3
    · exact ⟨rfl, rfl, rfl⟩

theorem mainKept_head (U : List Upvaldesc) (c : Nat) (fs fs1 : FuncState)
    (prev : List FuncState) (h1 : fs1.f.upvalues = fs.f.upvalues)
    (h2 : fs1.f.is_vararg = fs.f.is_vararg) (h : MainKept U c (fs :: prev)) :
    MainKept U c (fs1 :: prev) := by
  obtain ⟨hl, g, hg, hu, hv⟩ := h
  refine ⟨by simpa using hl, ?_⟩
  cases prev with
  | nil =>
    simp only [List.getLast?_singleton, Option.some.injEq] at hg
    subst hg
    exact ⟨fs1, by simp, h1.trans hu, h2.trans hv⟩
  | cons p ps =>
    rw [getLast?_cons_cons] at hg
    exact ⟨g, by rw [getLast?_cons_cons]; exact hg, hu, hv⟩

theorem mainKept_same (U : List Upvaldesc) (c : Nat) (fs fs1 : FuncState)
    (prev : List FuncState) (hs : sameFrame fs fs1) (h : MainKept U c (fs :: prev)) :
    MainKept U c (fs1 :: prev) :=
  mainKept_head U c fs fs1 prev hs.1 hs.2.1 h

theorem mainKept_push (U : List Upvaldesc) (c : Nat) (fs : FuncState)
    (fss : List FuncState) (h : MainKept U c fss) : MainKept U (c + 1) (fs :: fss) := by
  obtain ⟨hl, g, hg, hu, hv⟩ := h
  refine ⟨by simp [hl], g, ?_, hu, hv⟩
  cases fss with
  | nil => simp at hl
  | cons p ps => rw [getLast?_cons_cons]; exact hg

theorem mainKept_pop (U : List Upvaldesc) (c : Nat) (fs : FuncState)
    (fss : List FuncState) (h : MainKept U (c + 1) (fs :: fss)) : MainKept U c fss := by
  obtain ⟨hl, g, hg, hu, hv⟩ := h
  refine ⟨by simpa using hl, g, ?_, hu, hv⟩
  cases fss with
  | nil => simp at hl
  | cons p ps => rw [getLast?_cons_cons] at hg; exact hg

theorem mainKept_resolve (U : List Upvaldesc) (c : Nat) (dyd : Dyndata) (n : TString)
    (fss fss1 : List FuncState) (base : Bool) (var : expdesc)
    (hs : singlevaraux dyd fss n base = Except.ok (var, fss1)) (h : MainKept U c fss) :
    MainKept U c fss1 := by
  obtain ⟨e1, e2, e3⟩ := singlevaraux_frames dyd n fss fss1 base var hs
  obtain ⟨hl, g, hg, hu, hv⟩ := h
  have hlen : fss1.length = fss.length := by
    have := congrArg List.length e1
    simpa using this
  refine ⟨hlen.trans hl, ?_⟩
  rw [hg] at e3
  cases hg1 : fss1.getLast? with
  | none => rw [hg1] at e3; simp at e3
  | some g1 =>
    rw [hg1] at e3
    simp only [Option.map_some', Option.some.injEq] at e3
    refine ⟨g1, rfl, e3.trans hu, ?_⟩
    have hv1 : (fss1.map (fun fs => fs.f.is_vararg)).getLast? = some g1.f.is_vararg := by
      rw [List.getLast?_map, hg1]; rfl
    have hv0 : (fss.map (fun fs => fs.f.is_vararg)).getLast? = some g.f.is_vararg := by
      rw [List.getLast?_map, hg]; rfl
    rw [e2, hv0] at hv1
    simp only [Option.some.injEq] at hv1
    rw [← hv1]; exact hv

theorem leaveblock_head (ls ls1 : LexState) (h : leaveblock ls = Except.ok ls1) :
    ∃ fs prev fs1, ls.fs = fs :: prev ∧ ls1.fs = fs1 :: prev ∧
      fs1.f.upvalues = fs.f.upvalues ∧ fs1.f.is_vararg = fs.f.is_vararg := by
  obtain ⟨fs, prev, bl, previous, hfs, hbl⟩ := leaveblock_shape ls ls1 h
  obtain ⟨_, _, _, L, e, _⟩ := leaveblock_inv ls ls1 fs prev bl previous hfs hbl h
  rw [e]
  exact ⟨fs, prev, _, hfs, rfl, rfl, rfl⟩

theorem mainKeptIn_laws (U : List Upvaldesc) :
    FrameLaws (MainKeptIn U) id id (fun _ c => c) (fun _ c => c + 1) where
  push_decl := fun _ _ => rfl
  next := by
    intro c ls h
    show MainKept U c (luaX_next ls).fs
    rw [luaX_next_fs]; exact h
  head := by
    intro c ls fs fs1 prev hfs hs h
    unfold MainKeptIn at h
    rw [hfs] at h
    exact mainKept_same U c fs fs1 prev hs h
  second := by
    intro c ls cur fs fs1 prev hfs hs h
    unfold MainKeptIn at h
    rw [hfs] at h
    have h1 : MainKept U (c - 1) (fs :: prev) := by
      have hl := h.1
      have : c = (c - 1) + 1 := by simp at hl; omega
      rw [this] at h
      exact mainKept_pop U _ cur _ h
    have h2 := mainKept_push U _ cur _ (mainKept_same U _ fs fs1 prev hs h1)
    have hl := h.1
    have : c - 1 + 1 = c := by simp at hl; omega
    rw [this] at h2
    exact h2
  newvar := by
    intro c ls ls1 name h hJ
    obtain ⟨fs, prev, hfs, e, _⟩ := new_localvar_inv ls ls1 name h
    unfold MainKeptIn at hJ
    rw [hfs] at hJ
    rw [e]
    exact mainKept_head U c fs _ prev rfl rfl hJ
  adjust := by
    intro c ls ls1 n h hJ
    obtain ⟨fs, prev, fs1, hfs, e, hs⟩ := adjustlocalvars_inv ls ls1 n h
    rw [Function.iterate_id] at hJ
    unfold MainKeptIn at hJ
    rw [hfs] at hJ
    rw [e]
    exact mainKept_head U c fs fs1 prev hs.1 hs.2.1 hJ
  enter := by
    intro c ls ls1 h hJ
    rw [enterlevel_inv ls ls1 h]
    exact hJ
  leave := fun h => h
  vararg := by
    intro c s ls fs prev b k hfs hJ
    rw [Function.iterate_id] at hJ ⊢
    unfold MainKeptIn at hJ
    rw [hfs] at hJ
    have hl := hJ.1
    cases prev with
    | nil => simp at hl
    | cons p ps =>
      exact mainKept_push U c _ _ (mainKept_pop U c fs _ hJ)
  enterblock := by
    intro c ls ls1 b h hJ
    obtain ⟨fs, prev, hfs, e⟩ := enterblock_inv ls ls1 b h
    unfold MainKeptIn at hJ
    rw [hfs] at hJ
    rw [e]
    exact mainKept_head U c fs _ prev rfl rfl hJ
  leaveblock := by
    intro c s ls ls1 h hJ
    obtain ⟨fs, prev, fs1, hfs, hfs1, e1, e2⟩ := leaveblock_head ls ls1 h
    unfold MainKeptIn at hJ ⊢
    rw [hfs] at hJ
    rw [hfs1]
    exact mainKept_head U c fs fs1 prev e1 e2 hJ
  openf := by
    intro c ls ls1 f h hJ
    obtain ⟨fs, prev, hfs, e⟩ := enterblock_inv _ ls1 _ h
    simp only [List.cons.injEq] at hfs
    obtain ⟨hfs0, hprev⟩ := hfs
    rw [e]
    show MainKept U (c + 1) (_ :: prev)
    rw [← hprev]
    exact mainKept_push U c _ _ hJ
  closef := by
    intro c s ls ls1 fs h hJ
    obtain ⟨fs0, prev0, ls2, prev, hfs0, hl, hfs2, e⟩ := close_func_inv ls ls1 fs h
    obtain ⟨fsA, prevA, fsB, hA, hB, _, _⟩ := leaveblock_head _ ls2 hl
    simp only [List.cons.injEq] at hA
    rw [hfs2] at hB
    simp only [List.cons.injEq] at hB
    unfold MainKeptIn at hJ
    rw [hfs0] at hJ
    rw [e]
    show MainKept U c prev
    rw [hB.2, ← hA.2]
    exact mainKept_pop U c fs0 _ hJ
  resolve := by
    intro c ls fss0 fss n v h hJ
    exact mainKept_resolve U c ls.dyd n fss0 fss true v h hJ
  jump := by
    intro c ls ls1 pc h hJ
    obtain ⟨ls0, fs, prev, name, b, h1, _, _, hfs, hf⟩ := gotostat_inv ls ls1 pc h
    unfold MainKeptIn at hJ ⊢
    rcases findlabel_inv _ ls1 _ b hf with ⟨_, e⟩ |
      ⟨_, fsA, prevA, _, _, _, _, fs1, hA, _, _, _, _, hs, e⟩
    · rw [e]
      show MainKept U c ls0.fs
      rw [h1]; exact hJ
    · rw [e]
      show MainKept U c (fs1 :: prevA)
      have hA1 : ls.fs = fsA :: prevA := h1 ▸ hA
      rw [hA1] at hJ
      exact mainKept_same U c fsA fs1 prevA hs hJ
  addlabel := fun _ h => h
  setlabel := fun _ h _ _ _ => h
  closegotos := by
    intro c ls ls1 lb h hJ
    obtain ⟨fs, prev, bl, previous, hfs, hbl⟩ := findgotos_shape ls ls1 lb h
    rw [findgotos_inv ls ls1 lb fs prev bl previous hfs hbl h]
    unfold MainKeptIn at hJ
    rw [hfs] at hJ
    exact mainKept_head U c fs _ prev rfl rfl hJ

/-- C18: the main function is a vararg function with one upvalue.  (1) No
statement and no expression of the whole parser changes the upvalue
descriptors or the vararg flag of the outermost function of the chain, however
many functions are open; (2) whenever the parse of a chunk succeeds, the
function state of the main function that `close_func` leaves has exactly one
upvalue descriptor, named after the environment, with `instack = 1` and
`idx = 0`, and its vararg flag is set. -/
theorem main_function_one_upvalue (n : Nat) :
    (∀ (U : List Upvaldesc) (c : Nat) (ls ls1 : LexState), MainKeptIn U c ls →
      (parsers n).1 ls = Except.ok ls1 → MainKeptIn U c ls1) ∧
    (∀ (U : List Upvaldesc) (c : Nat) (ls ls1 : LexState) (v : expdesc), MainKeptIn U c ls →
      (parsers n).2 ls = Except.ok (v, ls1) → MainKeptIn U c ls1) ∧
    (∀ (input : List Token) (fs : FuncState) (ls : LexState),
      parseChunk n input = Except.ok (fs, ls) →
      fs.f.upvalues = [{ name := (initialState input).envn, instack := true, idx := 0 }] ∧
      fs.nups = 1 ∧ fs.f.is_vararg = true) := by
  refine ⟨fun U c ls ls1 hJ h => (keep_parsers (mainKeptIn_laws U) n).1 h hJ,
    fun U c ls ls1 v hJ h => (keep_parsers (mainKeptIn_laws U) n).2 h hJ, ?_⟩
  intro input fs ls h
  simp only [parseChunk, luaYParser, mainfunc] at h
  repeat' split at h
  all_goals try cases h
  rename_i _ ls1 hopen _ fs0 tl hfs0 _ idx1 fs1 hnew _ ls2 hstat _ _ hchk
  obtain ⟨fsN, prevN, hN, e⟩ := enterblock_inv _ ls1 _ hopen
  simp only [initialState, List.cons.injEq] at hN
  obtain ⟨hN1, hN2⟩ := hN
  subst hN1 hN2
  rw [e] at hfs0 hnew hstat
  simp only [List.cons.injEq] at hfs0
  obtain ⟨hf0, htl⟩ := hfs0
  subst hf0 htl
  simp only [newupvalue, checklimit, FuncState.nups, List.length_nil, MAXUPVAL] at hnew
  rw [if_neg (by decide)] at hnew
  simp only [Except.ok.injEq, Prod.mk.injEq, List.nil_append] at hnew
  obtain ⟨_, hfs1⟩ := hnew
  have hU : MainKept [{ name := (initialState input).envn, instack := true, idx := 0 }] 0 [fs1] := by
    refine ⟨rfl, fs1, rfl, ?_, ?_⟩
    · rw [← hfs1]; simp [init_exp, cast_byte, initialState]
    · rw [← hfs1]
  have h2 := keep_statlist (mainKeptIn_laws _) _ (keep_parsers (mainKeptIn_laws _) n).1 n hstat
    ((mainKeptIn_laws _).next hU)
  obtain ⟨fsA, prevA, ls3, prev, hfsA, hl, hfs3, _⟩ := close_func_inv ls2 ls fs h
  obtain ⟨fsB, prevB, fsC, hB, hC, e1, e2⟩ := leaveblock_head _ ls3 hl
  simp only [List.cons.injEq] at hB
  rw [hfs3] at hC
  simp only [List.cons.injEq] at hC
  unfold MainKeptIn at h2
  rw [hfsA] at h2
  obtain ⟨hlen, g, hg, hu, hv⟩ := h2
  cases prevA with
  | cons p ps => simp at hlen
  | nil =>
    simp only [List.getLast?_singleton, Option.some.injEq] at hg
    subst hg
    have hup : fs.f.upvalues =
        [{ name := (initialState input).envn, instack := true, idx := 0 }] := by
      rw [hC.1, e1, ← hB.1, luaK_ret_f]; exact hu
    refine ⟨hup, ?_, ?_⟩
    · unfold FuncState.nups; rw [hup]; rfl
    · rw [hC.1, e2, ← hB.1, luaK_ret_f]; exact hv

theorem main_function_one_upvalue_witness :
    ∃ fs ls, parseChunk 6 upvalOuterToks = Except.ok (fs, ls) ∧
      fs.f.upvalues = [{ name := "_ENV", instack := true, idx := 0 }] ∧
      fs.nups = 1 ∧ fs.f.is_vararg = true := by
  cases h : parseChunk 6 upvalOuterToks with
  | error e =>
    have hok : (parseChunk 6 upvalOuterToks).isOk = true := by decide!
    rw [h] at hok
    cases hok
  | ok r => exact ⟨r.1, r.2, rfl, (main_function_one_upvalue 6).2.2 upvalOuterToks r.1 r.2 h⟩

/-! ## Theorems: the scope invariant -/

theorem scopeInv_of_view (c : ScopeCtx) (ls ls1 : LexState) (hv : viewOf ls1 = viewOf ls)
    (h : ScopeInv c ls) : ScopeInv c ls1 := by
  unfold ScopeInv
  rw [hv]
  exact h

theorem frameSnap_same {fs fs1 : FuncState} (h : sameFrame fs fs1) :
    frameSnap fs1 = frameSnap fs := by
  obtain ⟨_, _, e3, e4, e5⟩ := h
  simp [frameSnap, e3, e4, e5]

theorem scopeInv_head (c : ScopeCtx) (ls : LexState) (h : ScopeInv c ls) :
    ∃ fs prev, ls.fs = fs :: prev ∧ fs.firstlocal = c.fl ∧
      fs.bl.map blockSnap = c.hb ++ [(c.L0.length, c.G0.length, 0)] ∧
      prev.map frameSnap = c.tl ∧
      ls.dyd.actvar.length = c.fl + fs.nactvar + c.d ∧
      ((fs.nactvar : Int) + (c.d : Int) ≤ MAXVARS) ∧
      ls.dyd.label.take c.L0.length = c.L0 ∧ ls.dyd.gt.take c.G0.length = c.G0 ∧
      BlocksOk c.L0.length c.G0.length fs.nactvar c.hb ls.dyd.label ls.dyd.gt ∧ c.hold := by
  obtain ⟨hh, N, hf, h1, h2, h3, h4, h5⟩ := h
  simp only [viewOf] at hf h1 h3 h4 h5
  cases hfs : ls.fs with
  | nil => rw [hfs] at hf; simp at hf
  | cons fs prev =>
    rw [hfs] at hf
    simp only [List.map_cons, List.cons.injEq, frameSnap, Prod.mk.injEq] at hf
    obtain ⟨⟨e1, e2, e3⟩, e4⟩ := hf
    subst e2
    exact ⟨fs, prev, rfl, e1, e3, e4, h1, h2, h3, h4, h5, hh⟩

theorem scopeInv_mk (c : ScopeCtx) (ls : LexState) (fs : FuncState) (prev : List FuncState)
    (hfs : ls.fs = fs :: prev) (h1 : fs.firstlocal = c.fl)
    (h2 : fs.bl.map blockSnap = c.hb ++ [(c.L0.length, c.G0.length, 0)])
    (h3 : prev.map frameSnap = c.tl)
    (h4 : ls.dyd.actvar.length = c.fl + fs.nactvar + c.d)
    (h5 : (fs.nactvar : Int) + (c.d : Int) ≤ MAXVARS)
    (h6 : ls.dyd.label.take c.L0.length = c.L0) (h7 : ls.dyd.gt.take c.G0.length = c.G0)
    (h8 : BlocksOk c.L0.length c.G0.length fs.nactvar c.hb ls.dyd.label ls.dyd.gt)
    (h9 : c.hold) : ScopeInv c ls := by
  refine ⟨h9, fs.nactvar, ?_, h4, h5, h6, h7, h8⟩
  simp only [viewOf, hfs, List.map_cons, frameSnap, h1, h2, h3]

theorem scopeCtx_decl_iterate (n : Nat) (c : ScopeCtx) :
    Nat.iterate ScopeCtx.decl n c = { c with d := c.d + n } := by
  induction n generalizing c with
  | zero => rfl
  | succ n ih =>
    show Nat.iterate ScopeCtx.decl n (ScopeCtx.decl c) = _
    rw [ih]
    simp only [ScopeCtx.decl]
    congr 1
    omega

theorem blocksOk_mono (L G N N1 : Nat) (hb : List (Nat × Nat × Nat))
    (label gt : List Labeldesc) (hN : N ≤ N1) (h : BlocksOk L G N hb label gt) :
    BlocksOk L G N1 hb label gt := by
  obtain ⟨a1, a2, a3, a4, a5⟩ := h
  refine ⟨a1, fun b hm => ?_, fun j lb h1 h2 => le_trans (a3 j lb h1 h2) hN, a4, a5⟩
  obtain ⟨b1, b2, b3, b4, b5⟩ := a2 b hm
  exact ⟨b1, b2, b3, b4, le_trans b5 hN⟩

theorem scopeInv_newvar (c : ScopeCtx) (ls ls1 : LexState) (name : TString)
    (h : new_localvar ls name = Except.ok ls1) (hJ : ScopeInv c ls) :
    ScopeInv c.decl ls1 := by
  obtain ⟨fs, prev, hfs, e, hlim⟩ := new_localvar_inv ls ls1 name h
  obtain ⟨fs0, prev0, hfs0, h1, h2, h3, h4, h5, h6, h7, h8, h9⟩ := scopeInv_head c ls hJ
  rw [hfs] at hfs0
  simp only [List.cons.injEq] at hfs0
  obtain ⟨rfl, rfl⟩ := hfs0
  subst e
  refine scopeInv_mk c.decl _ _ prev rfl h1 h2 h3 ?_ ?_ h6 h7 h8 h9
  · simp only [ScopeCtx.decl, List.length_append, List.length_singleton, h4]
    omega
  · simp only [ScopeCtx.decl]
    rw [h4, h1] at hlim
    push_cast at hlim ⊢
    omega

theorem scopeInv_adjust (c : ScopeCtx) (ls ls1 : LexState) (n : Nat)
    (h : adjustlocalvars ls n = Except.ok ls1)
    (hJ : ScopeInv (Nat.iterate ScopeCtx.decl n c) ls) : ScopeInv c ls1 := by
  obtain ⟨fs, prev, fs1, hfs, e, hs⟩ := adjustlocalvars_inv ls ls1 n h
  rw [scopeCtx_decl_iterate] at hJ
  obtain ⟨fs0, prev0, hfs0, h1, h2, h3, h4, h5, h6, h7, h8, h9⟩ := scopeInv_head _ ls hJ
  rw [hfs] at hfs0
  simp only [List.cons.injEq] at hfs0
  obtain ⟨rfl, rfl⟩ := hfs0
  simp only [] at h1 h2 h3 h4 h5 h6 h7 h8 h9
  obtain ⟨_, _, s3, s4, s5⟩ := hs
  simp only [] at s3 s4 s5
  have hlt : fs.nactvar + n < 256 := by
    unfold MAXVARS at h5
    push_cast at h5
    omega
  have hN : fs1.nactvar = fs.nactvar + n := by
    rw [s4]
    have := cast_byte_natCast (fs.nactvar + n) hlt
    rwa [Nat.cast_add] at this
  subst e
  refine scopeInv_mk c _ fs1 prev rfl (s5.trans h1) (by rw [s3]; exact h2) h3 ?_ ?_ h6 h7
    (blocksOk_mono _ _ _ _ _ _ _ (by omega) h8) h9
  · show ls.dyd.actvar.length = c.fl + fs1.nactvar + c.d
    rw [h4, hN]; omega
  · rw [hN]; push_cast at h5 ⊢; omega

theorem mem_drop_append {α : Type} (a x : List α) (k : Nat) (g : α)
    (h : g ∈ (a ++ x).drop k) : g ∈ a.drop k ∨ g ∈ x := by
  rw [List.drop_append_eq_append_drop] at h
  rcases List.mem_append.mp h with h1 | h1
  · exact Or.inl h1
  · exact Or.inr (List.mem_of_mem_drop h1)

theorem mem_drop_take {α : Type} (l : List α) (n k : Nat) (g : α)
    (h : g ∈ (l.take n).drop k) : g ∈ l.drop k := by
  rw [List.drop_take] at h
  exact List.mem_of_mem_take h

theorem mem_drop_of_le {α : Type} (l : List α) (n k : Nat) (g : α) (hk : k ≤ n)
    (h : g ∈ l.drop n) : g ∈ l.drop k := by
  have : l.drop n = (l.drop k).drop (n - k) := by
    rw [List.drop_drop]; congr 1; omega
  rw [this] at h
  exact List.mem_of_mem_drop h

theorem get?_append_lt {α : Type} (l x : List α) (j : Nat) (h : j < l.length) :
    (l ++ x).get? j = l.get? j := by
  rw [List.get?_eq_getElem?, List.get?_eq_getElem?, List.getElem?_append_left h]

theorem get?_append_ge {α : Type} (l x : List α) (j : Nat) (h : l.length ≤ j) :
    (l ++ x).get? j = x.get? (j - l.length) := by
  rw [List.get?_eq_getElem?, List.get?_eq_getElem?, List.getElem?_append_right h]

theorem scopeInv_enterblock (c : ScopeCtx) (ls ls1 : LexState) (b : Bool)
    (h : enterblock ls b = Except.ok ls1) (hJ : ScopeInv c ls) :
    ScopeInv (ScopeCtx.push ls c) ls1 := by
  obtain ⟨fs, prev, hfs, e⟩ := enterblock_inv ls ls1 b h
  obtain ⟨fs0, prev0, hfs0, h1, h2, h3, h4, h5, h6, h7, h8, h9⟩ := scopeInv_head c ls hJ
  rw [hfs] at hfs0
  simp only [List.cons.injEq] at hfs0
  obtain ⟨rfl, rfl⟩ := hfs0
  subst e
  obtain ⟨a1, a2, a3, a4, a5⟩ := h8
  have hL : c.L0.length ≤ ls.dyd.label.length := by
    have := congrArg List.length h6
    simp only [List.length_take] at this
    omega
  have hG : c.G0.length ≤ ls.dyd.gt.length := by
    have := congrArg List.length h7
    simp only [List.length_take] at this
    omega
  refine scopeInv_mk (ScopeCtx.push ls c) _ _ prev rfl h1 ?_ h3 h4 h5 h6 h7 ?_ h9
  · simp only [ScopeCtx.push, hfs, List.map_cons, blockSnap, h2, List.cons_append]
  · simp only [ScopeCtx.push, hfs]
    refine ⟨?_, ?_, a3, ?_, ?_⟩
    · rw [List.pairwise_cons]
      refine ⟨fun x hx => ?_, a1⟩
      obtain ⟨b1, b2, b3, b4, b5⟩ := a2 x hx
      exact ⟨b2, b4, b5⟩
    · intro x hx
      rcases List.mem_cons.mp hx with rfl | hx
      · exact ⟨hL, le_refl _, hG, le_refl _, le_refl _⟩
      · exact a2 x hx
    · intro x hx j lb g1 g2 g3
      rcases List.mem_cons.mp hx with rfl | hx
      · exact a3 j lb g1 g3
      · exact a4 x hx j lb g1 g2 g3
    · intro x hx g hg
      rcases List.mem_cons.mp hx with rfl | hx
      · simp at hg
      · exact a5 x hx g hg

theorem scopeInv_addlabel (c : ScopeCtx) (ls : LexState) (name : TString) (line pc : Int)
    (l : Nat) (label1 : List Labeldesc)
    (h : newlabelentry ls ls.dyd.label name line pc = Except.ok (l, label1))
    (hJ : ScopeInv c ls) : ScopeInv c { ls with dyd := { ls.dyd with label := label1 } } := by
  obtain ⟨fs, prev, hfs, h1, h2, h3, h4, h5, h6, h7, h8, h9⟩ := scopeInv_head c ls hJ
  simp only [newlabelentry, hfs] at h
  split at h
  · cases h
  simp only [Except.ok.injEq, Prod.mk.injEq] at h
  obtain ⟨_, rfl⟩ := h
  obtain ⟨a1, a2, a3, a4, a5⟩ := h8
  have hL : c.L0.length ≤ ls.dyd.label.length := by
    have := congrArg List.length h6
    simp only [List.length_take] at this
    omega
  refine scopeInv_mk c _ fs prev hfs h1 h2 h3 h4 h5 ?_ h7 ⟨a1, ?_, ?_, ?_, a5⟩ h9
  · show (ls.dyd.label ++ _).take c.L0.length = c.L0
    rw [List.take_append_of_le_length hL]; exact h6
  · intro x hx
    obtain ⟨b1, b2, b3, b4, b5⟩ := a2 x hx
    refine ⟨b1, ?_, b3, b4, b5⟩
    show x.1 ≤ (ls.dyd.label ++ _).length
    rw [List.length_append]; omega
  · intro j lb g1 g2
    have g2 : (ls.dyd.label ++ [_]).get? j = some lb := g2
    by_cases hj : j < ls.dyd.label.length
    · rw [get?_append_lt _ _ _ hj] at g2
      exact a3 j lb g1 g2
    · rw [get?_append_ge _ _ _ (by omega)] at g2
      cases hk : j - ls.dyd.label.length with
      | zero =>
        rw [hk] at g2
        simp only [List.get?_cons_zero, Option.some.injEq] at g2
        rw [← g2]
      | succ k => rw [hk] at g2; simp at g2
  · intro x hx j lb g1 g2 g3
    have g3 : (ls.dyd.label ++ [_]).get? j = some lb := g3
    obtain ⟨b1, b2, b3, b4, b5⟩ := a2 x hx
    rw [get?_append_lt _ _ _ (by omega)] at g3
    exact a4 x hx j lb g1 g2 g3

theorem get?_set_cases {α : Type} (l : List α) (i j : Nat) (a x : α)
    (h : (l.set i a).get? j = some x) : l.get? j = some x ∨ (j = i ∧ x = a) := by
  rw [List.get?_eq_getElem?, List.getElem?_set] at h
  split at h
  · split at h
    · simp only [Option.some.injEq] at h
      exact Or.inr ⟨by omega, h.symm⟩
    · cases h
  · rw [List.get?_eq_getElem?]; exact Or.inl h

theorem take_set_ge {α : Type} (l : List α) (i k : Nat) (a : α) (h : k ≤ i) :
    (l.set i a).take k = l.take k := by
  induction l generalizing i k with
  | nil => simp
  | cons x l ih =>
    cases k with
    | zero => simp
    | succ k =>
      cases i with
      | zero => omega
      | succ i =>
        simp only [List.set_cons_succ, List.take_succ_cons, ih i k (by omega)]

theorem blocksOk_head_le (L G N : Nat) (hb : List (Nat × Nat × Nat))
    (label gt : List Labeldesc) (h : BlocksOk L G N hb label gt) (x : Nat × Nat × Nat)
    (hx : (hb ++ [(L, G, 0)]).head? = some x) (hL : L ≤ label.length) (hG : G ≤ gt.length) :
    L ≤ x.1 ∧ x.1 ≤ label.length ∧ G ≤ x.2.1 ∧ x.2.1 ≤ gt.length ∧ x.2.2 ≤ N ∧
    (∀ b ∈ hb, b.1 ≤ x.1 ∧ b.2.1 ≤ x.2.1) ∧
    (∀ g ∈ gt.drop x.2.1, x.2.2 ≤ g.nactvar) := by
  obtain ⟨a1, a2, a3, a4, a5⟩ := h
  cases hb with
  | nil =>
    simp only [List.nil_append, List.head?_cons, Option.some.injEq] at hx
    subst hx
    exact ⟨le_refl _, hL, le_refl _, hG, Nat.zero_le _, fun b hm => (by cases hm),
      fun g _ => Nat.zero_le _⟩
  | cons y ys =>
    simp only [List.cons_append, List.head?_cons, Option.some.injEq] at hx
    subst hx
    obtain ⟨b1, b2, b3, b4, b5⟩ := a2 y (List.mem_cons_self _ _)
    refine ⟨b1, b2, b3, b4, b5, fun b hm => ?_, a5 y (List.mem_cons_self _ _)⟩
    rcases List.mem_cons.mp hm with rfl | hm
    · exact ⟨le_refl _, le_refl _⟩
    · have := (List.pairwise_cons.mp a1).1 b hm
      exact ⟨this.1, this.2.1⟩

theorem scopeInv_lengths (c : ScopeCtx) (ls : LexState) (h : ScopeInv c ls) :
    c.L0.length ≤ ls.dyd.label.length ∧ c.G0.length ≤ ls.dyd.gt.length := by
  obtain ⟨fs, prev, hfs, h1, h2, h3, h4, h5, h6, h7, h8, h9⟩ := scopeInv_head c ls h
  constructor
  · have := congrArg List.length h6
    simp only [List.length_take] at this
    omega
  · have := congrArg List.length h7
    simp only [List.length_take] at this
    omega

theorem scopeInv_block (c : ScopeCtx) (ls : LexState) (fs : FuncState)
    (prev : List FuncState) (bl : BlockCnt) (rest : List BlockCnt)
    (h : ScopeInv c ls) (hfs : ls.fs = fs :: prev) (hbl : fs.bl = bl :: rest) :
    c.L0.length ≤ bl.firstlabel ∧ bl.firstlabel ≤ ls.dyd.label.length ∧
    c.G0.length ≤ bl.firstgoto ∧ bl.firstgoto ≤ ls.dyd.gt.length ∧
    bl.nactvar ≤ fs.nactvar ∧
    (∀ b ∈ c.hb, b.1 ≤ bl.firstlabel ∧ b.2.1 ≤ bl.firstgoto) ∧
    (∀ g ∈ ls.dyd.gt.drop bl.firstgoto, bl.nactvar ≤ g.nactvar) := by
  obtain ⟨fs0, prev0, hfs0, h1, h2, h3, h4, h5, h6, h7, h8, h9⟩ := scopeInv_head c ls h
  obtain ⟨hL, hG⟩ := scopeInv_lengths c ls h
  rw [hfs] at hfs0
  simp only [List.cons.injEq] at hfs0
  obtain ⟨rfl, rfl⟩ := hfs0
  have hx : (c.hb ++ [(c.L0.length, c.G0.length, 0)]).head? = some (blockSnap bl) := by
    rw [← h2, hbl]; rfl
  exact blocksOk_head_le _ _ _ _ _ _ h8 _ hx hL hG

theorem scopeInv_setlabel (c : ScopeCtx) (ls0 ls : LexState) (fs : FuncState)
    (prev : List FuncState) (bl : BlockCnt) (rest : List BlockCnt) (lb : Labeldesc)
    (h0 : ScopeInv c ls0) (hJ : ScopeInv c ls) (hfs : ls.fs = fs :: prev)
    (hbl : fs.bl = bl :: rest)
    (_hget : ls.dyd.label.get? ls0.dyd.label.length = some lb) :
    ScopeInv c { ls with dyd := { ls.dyd with
      label := ls.dyd.label.set ls0.dyd.label.length { lb with nactvar := bl.nactvar } } } := by
  obtain ⟨k1, k2, k3, k4, k5, k6, k7⟩ := scopeInv_block c ls fs prev bl rest hJ hfs hbl
  obtain ⟨fs0, prev0, hfs0, h1, h2, h3, h4, h5, h6, h7, h8, h9⟩ := scopeInv_head c ls hJ
  rw [hfs] at hfs0
  simp only [List.cons.injEq] at hfs0
  obtain ⟨rfl, rfl⟩ := hfs0
  obtain ⟨_, _, _, _, _, _, _, _, _, _, q8, _⟩ := scopeInv_head c ls0 h0
  obtain ⟨hL0, _⟩ := scopeInv_lengths c ls0 h0
  obtain ⟨a1, a2, a3, a4, a5⟩ := h8
  refine scopeInv_mk c _ fs prev hfs h1 h2 h3 h4 h5 ?_ h7 ⟨a1, ?_, ?_, ?_, a5⟩ h9
  · show (ls.dyd.label.set _ _).take c.L0.length = c.L0
    rw [take_set_ge _ _ _ _ hL0]; exact h6
  · intro x hx
    obtain ⟨b1, b2, b3, b4, b5⟩ := a2 x hx
    refine ⟨b1, ?_, b3, b4, b5⟩
    show x.1 ≤ (ls.dyd.label.set _ _).length
    rw [List.length_set]; exact b2
  · intro j x g1 g2
    rcases get?_set_cases _ _ _ _ _ g2 with g | ⟨_, rfl⟩
    · exact a3 j x g1 g
    · exact k5
  · intro x hx j y g1 g2 g3
    rcases get?_set_cases _ _ _ _ _ g3 with g | ⟨rfl, rfl⟩
    · exact a4 x hx j y g1 g2 g
    · have := (q8.2.1 x hx).2.1
      omega

theorem scopeInv_gt (c : ScopeCtx) (ls ls1 : LexState) (fs fs1 : FuncState)
    (prev : List FuncState) (hJ : ScopeInv c ls) (hfs : ls.fs = fs :: prev)
    (hfs1 : ls1.fs = fs1 :: prev) (hsnap : frameSnap fs1 = frameSnap fs)
    (hlabel : ls1.dyd.label = ls.dyd.label)
    (hact : ls1.dyd.actvar.length = ls.dyd.actvar.length)
    (ha : ls1.dyd.gt.take c.G0.length = ls.dyd.gt.take c.G0.length)
    (hb : ∀ b ∈ c.hb, b.2.1 ≤ ls1.dyd.gt.length)
    (hc : ∀ b ∈ c.hb, ∀ g ∈ ls1.dyd.gt.drop b.2.1,
      g ∈ ls.dyd.gt.drop b.2.1 ∨ b.2.2 ≤ g.nactvar) : ScopeInv c ls1 := by
  obtain ⟨fs0, prev0, hfs0, h1, h2, h3, h4, h5, h6, h7, h8, h9⟩ := scopeInv_head c ls hJ
  rw [hfs] at hfs0
  simp only [List.cons.injEq] at hfs0
  obtain ⟨rfl, rfl⟩ := hfs0
  simp only [frameSnap, Prod.mk.injEq] at hsnap
  obtain ⟨s1, s2, s3⟩ := hsnap
  obtain ⟨a1, a2, a3, a4, a5⟩ := h8
  refine scopeInv_mk c ls1 fs1 prev hfs1 (s1.trans h1) (s3.trans h2) h3
    (by rw [hact, s2]; exact h4) (by rw [s2]; exact h5) (by rw [hlabel]; exact h6)
    (ha.trans h7) ⟨a1, ?_, ?_, ?_, ?_⟩ h9
  · intro x hx
    obtain ⟨b1, b2, b3, b4, b5⟩ := a2 x hx
    exact ⟨b1, by rw [hlabel]; exact b2, b3, hb x hx, by rw [s2]; exact b5⟩
  · intro j lb g1 g2
    rw [s2]
    rw [hlabel] at g2
    exact a3 j lb g1 g2
  · intro x hx j lb g1 g2 g3
    rw [hlabel] at g3
    exact a4 x hx j lb g1 g2 g3
  · intro x hx g hg
    rcases hc x hx g hg with h | h
    · exact a5 x hx g h
    · exact h

theorem scopeInv_jump (c : ScopeCtx) (ls ls1 : LexState) (pc : Int)
    (h : gotostat ls pc = Except.ok ls1) (hJ : ScopeInv c ls) : ScopeInv c ls1 := by
  obtain ⟨ls0, fs, prev, name, b, e1, e2, _, hfs, hf⟩ := gotostat_inv ls ls1 pc h
  obtain ⟨_, hG⟩ := scopeInv_lengths c ls hJ
  obtain ⟨_, _, q0, _, _, _, _, _, _, _, q8, _⟩ := scopeInv_head c ls hJ
  rw [hfs] at q0
  simp only [List.cons.injEq] at q0
  obtain ⟨rfl, rfl⟩ := q0
  rcases findlabel_inv _ ls1 _ b hf with ⟨_, e⟩ |
    ⟨_, fsA, prevA, _, _, _, _, fs1, hA, _, _, _, _, hs, e⟩
  · refine scopeInv_gt c ls ls1 fs fs prev hJ hfs (by rw [e]; exact e1.trans hfs) rfl
      (by rw [e]; show ls0.dyd.label = ls.dyd.label; rw [e2])
      (by rw [e]; show ls0.dyd.actvar.length = ls.dyd.actvar.length; rw [e2]) ?_ ?_ ?_
    · rw [e]
      show (ls.dyd.gt ++ _).take c.G0.length = _
      rw [List.take_append_of_le_length hG]
    · intro x hx
      rw [e]
      show x.2.1 ≤ (ls.dyd.gt ++ _).length
      have := (q8.2.1 x hx).2.2.2.1
      rw [List.length_append]; omega
    · intro x hx g hg
      rw [e] at hg
      have hg : g ∈ (ls.dyd.gt ++ [_]).drop x.2.1 := hg
      rcases mem_drop_append _ _ _ _ hg with h1 | h1
      · exact Or.inl h1
      · simp only [List.mem_singleton] at h1
        rw [h1]
        exact Or.inr (q8.2.1 x hx).2.2.2.2
  · have hA1 : fsA = fs ∧ prevA = prev := by
      have : ls0.fs = fsA :: prevA := hA
      rw [e1, hfs] at this
      simp only [List.cons.injEq] at this
      exact ⟨this.1.symm, this.2.symm⟩
    obtain ⟨rfl, rfl⟩ := hA1
    have hgt : ls1.dyd.gt = ls.dyd.gt := by
      rw [e]
      show (ls.dyd.gt ++ [_]).eraseIdx ls.dyd.gt.length = ls.dyd.gt
      exact eraseIdx_length_append _ _
    refine scopeInv_gt c ls ls1 fsA fs1 prevA hJ hfs (by rw [e]) (frameSnap_same hs)
      (by rw [e]; show ls0.dyd.label = ls.dyd.label; rw [e2])
      (by rw [e]; show ls0.dyd.actvar.length = ls.dyd.actvar.length; rw [e2]) (by rw [hgt]) ?_ ?_
    · intro x hx
      rw [hgt]
      exact (q8.2.1 x hx).2.2.2.1
    · intro x hx g hg
      rw [hgt] at hg
      exact Or.inl hg

theorem scopeInv_closegotos (c : ScopeCtx) (ls ls1 : LexState) (lb : Labeldesc)
    (h : findgotos ls lb = Except.ok ls1) (hJ : ScopeInv c ls) : ScopeInv c ls1 := by
  obtain ⟨fs, prev, bl, previous, hfs, hbl⟩ := findgotos_shape ls ls1 lb h
  have e := findgotos_inv ls ls1 lb fs prev bl previous hfs hbl h
  obtain ⟨k1, k2, k3, k4, k5, k6, k7⟩ := scopeInv_block c ls fs prev bl previous hJ hfs hbl
  have hlen : (ls.dyd.gt.take bl.firstgoto).length = bl.firstgoto := by
    rw [List.length_take]; omega
  subst e
  refine scopeInv_gt c ls _ fs _ prev hJ hfs rfl rfl rfl rfl ?_ ?_ ?_
  · show (ls.dyd.gt.take bl.firstgoto ++ _).take c.G0.length = _
    rw [List.take_append_of_le_length (by omega), List.take_take, Nat.min_eq_left k3]
  · intro x hx
    show x.2.1 ≤ (ls.dyd.gt.take bl.firstgoto ++ _).length
    have := (k6 x hx).2
    rw [List.length_append, hlen]; omega
  · intro x hx g hg
    have hg : g ∈ (ls.dyd.gt.take bl.firstgoto ++
      gotosNotNamed lb.name (ls.dyd.gt.drop bl.firstgoto)).drop x.2.1 := hg
    rcases mem_drop_append _ _ _ _ hg with h1 | h1
    · exact Or.inl (mem_drop_take _ _ _ _ h1)
    · exact Or.inl (mem_drop_of_le _ _ _ _ (k6 x hx).2
        ((mem_gotosNotNamed _ _ _).mp h1).1)

theorem get?_take_some {α : Type} (l : List α) (n j : Nat) (x : α)
    (h : (l.take n).get? j = some x) : j < n ∧ l.get? j = some x := by
  rw [List.get?_eq_getElem?, List.getElem?_take] at h
  split at h
  · rename_i hj
    exact ⟨hj, by rw [List.get?_eq_getElem?]; exact h⟩
  · cases h

theorem rehomed_nactvar_ge (bl : BlockCnt) (g : Labeldesc) (k : Nat) (h1 : k ≤ bl.nactvar)
    (h2 : bl.nactvar ≤ g.nactvar) : k ≤ (rehomed bl g).nactvar := by
  unfold rehomed
  split
  · exact h1
  · omega

theorem scopeInv_leaveblock (c : ScopeCtx) (s ls ls1 : LexState)
    (h : leaveblock ls = Except.ok ls1) (hJ : ScopeInv (ScopeCtx.push s c) ls) :
    ScopeInv c ls1 := by
  obtain ⟨fs, prev, hfs, h1, h2, h3, h4, h5, h6, h7, h8, h9⟩ := scopeInv_head _ ls hJ
  obtain ⟨hL, hG⟩ := scopeInv_lengths _ ls hJ
  simp only [ScopeCtx.push] at h1 h2 h3 h4 h5 h6 h7 h8 h9 hL hG
  cases hbl : fs.bl with
  | nil => rw [hbl] at h2; simp at h2
  | cons bl previous =>
    rw [hbl] at h2
    simp only [List.map_cons, List.cons_append, List.cons.injEq] at h2
    obtain ⟨hsnap, hprev⟩ := h2
    obtain ⟨a1, a2, a3, a4, a5⟩ := h8
    rw [← hsnap] at a1 a2 a4 a5
    obtain ⟨p1, p2⟩ := List.pairwise_cons.mp a1
    obtain ⟨b1, b2, b3, b4, b5⟩ := a2 _ (List.mem_cons_self _ _)
    simp only [blockSnap] at b1 b2 b3 b4 b5
    obtain ⟨i1, i2, _, L, e, _⟩ := leaveblock_inv ls ls1 fs prev bl previous hfs hbl h
    cases previous with
    | nil => simp at hprev
    | cons parent rest =>
      rw [labelsLeft_of_le _ _ _ _ b2] at e
      simp only [leaveGotos] at e
      have hlen : (ls.dyd.gt.take bl.firstgoto).length = bl.firstgoto := by
        rw [List.length_take]; omega
      subst e
      refine scopeInv_mk c _ _ prev rfl h1 hprev h3 ?_ ?_ ?_ ?_ ⟨p2, ?_, ?_, ?_, ?_⟩ h9
      · show (ls.dyd.actvar.take _).length = c.fl + bl.nactvar + c.d
        rw [List.length_take, h4]; omega
      · show (bl.nactvar : Int) + (c.d : Int) ≤ MAXVARS
        have : (bl.nactvar : Int) ≤ (fs.nactvar : Int) := by exact_mod_cast i1
        omega
      · show (ls.dyd.label.take bl.firstlabel).take c.L0.length = c.L0
        rw [List.take_take, Nat.min_eq_left b1]; exact h6
      · show (ls.dyd.gt.take bl.firstgoto ++ _).take c.G0.length = c.G0
        rw [List.take_append_of_le_length (by omega), List.take_take, Nat.min_eq_left b3]
        exact h7
      · intro x hx
        obtain ⟨c1, c2, c3, c4, c5⟩ := a2 x (List.mem_cons_of_mem _ hx)
        obtain ⟨d1, d2, d3⟩ := p1 x hx
        simp only [blockSnap] at d1 d2 d3
        refine ⟨c1, ?_, c3, ?_, d3⟩
        · show x.1 ≤ (ls.dyd.label.take bl.firstlabel).length
          rw [List.length_take]; omega
        · show x.2.1 ≤ (ls.dyd.gt.take bl.firstgoto ++ _).length
          rw [List.length_append, hlen]; omega
      · intro j lb g1 g2
        obtain ⟨q1, q2⟩ := get?_take_some _ _ _ _ g2
        exact a4 _ (List.mem_cons_self _ _) j lb g1 q1 q2
      · intro x hx j lb g1 g2 g3
        obtain ⟨q1, q2⟩ := get?_take_some _ _ _ _ g3
        exact a4 x (List.mem_cons_of_mem _ hx) j lb g1 g2 q2
      · intro x hx g hg
        obtain ⟨d1, d2, d3⟩ := p1 x hx
        simp only [blockSnap] at d1 d2 d3
        have hg : g ∈ (ls.dyd.gt.take bl.firstgoto ++
          movedOut bl parent (ls.dyd.label.take bl.firstlabel)
            (afterBreaks bl ls.dyd.gt)).drop x.2.1 := hg
        rcases mem_drop_append _ _ _ _ hg with hm | hm
        · exact a5 x (List.mem_cons_of_mem _ hx) g (mem_drop_take _ _ _ _ hm)
        · obtain ⟨g0, hg0, rfl, _⟩ := movedOut_mem _ _ _ _ _ hm
          have := a5 _ (List.mem_cons_self _ _) g0 (afterBreaks_mem _ _ _ hg0).1
          exact rehomed_nactvar_ge bl g0 _ d3 this

theorem scopeInv_openf (c : ScopeCtx) (ls ls1 : LexState) (f : Proto)
    (h : open_func ls f = Except.ok ls1) (hJ : ScopeInv c ls) :
    ScopeInv (ScopeCtx.fn ls c) ls1 := by
  obtain ⟨fs, prev, hfs, e⟩ := enterblock_inv _ ls1 _ h
  simp only [List.cons.injEq] at hfs
  obtain ⟨rfl, rfl⟩ := hfs
  subst e
  refine scopeInv_mk (ScopeCtx.fn ls c) _ _ ls.fs rfl rfl rfl rfl ?_ ?_ ?_ ?_
    ⟨List.Pairwise.nil, ?_, ?_, ?_, ?_⟩ hJ
  · simp [ScopeCtx.fn]
  · simp [ScopeCtx.fn, MAXVARS]
  · simp [ScopeCtx.fn]
  · simp [ScopeCtx.fn]
  · intro x hx; cases hx
  · intro j lb g1 g2
    simp only [ScopeCtx.fn] at g1
    have g2 : ls.dyd.label.get? j = some lb := g2
    rw [List.get?_eq_getElem?] at g2
    have := (List.getElem?_eq_some_iff.mp g2).1
    omega
  · intro x hx; cases hx
  · intro x hx; cases hx

theorem close_func_restores (c : ScopeCtx) (ls ls1 : LexState) (fs : FuncState)
    (hJ : ScopeInv c ls) (hhb : c.hb = []) (hd : c.d = 0)
    (h : close_func ls = Except.ok (fs, ls1)) :
    viewOf ls1 = { frames := c.tl, label := c.L0, gt := c.G0, nact := c.fl } ∧
    fs.firstlocal = c.fl := by
  obtain ⟨fs0, prev0, ls2, prev, hfs0, hl, hfs2, e⟩ := close_func_inv ls ls1 fs h
  obtain ⟨fsA, prevA, hfsA, h1, h2, h3, h4, h5, h6, h7, h8, h9⟩ := scopeInv_head _ ls hJ
  obtain ⟨hL, hG⟩ := scopeInv_lengths _ ls hJ
  rw [hfs0] at hfsA
  simp only [List.cons.injEq] at hfsA
  obtain ⟨rfl, rfl⟩ := hfsA
  rw [hhb] at h2
  rw [hd] at h4
  cases hbl : fs0.bl with
  | nil => rw [hbl] at h2; simp at h2
  | cons bl previous =>
    rw [hbl] at h2
    simp only [List.map_cons, List.nil_append, List.cons.injEq, blockSnap, Prod.mk.injEq,
      List.map_eq_nil_iff] at h2
    obtain ⟨⟨b1, b2, b3⟩, hp⟩ := h2
    subst hp
    have hbl1 : (luaK_ret fs0 0 0).bl = bl :: [] := by rw [luaK_ret_bl]; exact hbl
    obtain ⟨i1, i2, i3, L, e2, _⟩ := leaveblock_inv _ ls2 (luaK_ret fs0 0 0) prev0 bl [] rfl
      hbl1 hl
    simp only [luaK_ret_nactvar] at i1 i2 e2
    have i3 : afterBreaks bl ls.dyd.gt = [] := i3 rfl
    have hll : labelsLeft bl fs0.nactvar (exitPc (luaK_ret fs0 0 0) bl []) ls.dyd.label =
        ls.dyd.label.take bl.firstlabel := labelsLeft_of_le _ _ _ _ (by omega)
    rw [e2] at hfs2 e
    simp only [List.cons.injEq] at hfs2
    obtain ⟨hfsc, hprev⟩ := hfs2
    subst e
    constructor
    · simp only [viewOf, ScopeView.mk.injEq]
      refine ⟨?_, ?_, ?_, ?_⟩
      · rw [← hprev]; exact h3
      · show labelsLeft bl fs0.nactvar _ ls.dyd.label = c.L0
        rw [hll, b1]; exact h6
      · show ls.dyd.gt.take bl.firstgoto ++ leaveGotos bl [] _ (afterBreaks bl ls.dyd.gt) = c.G0
        rw [i3, leaveGotos_nil, List.append_nil, b2]; exact h7
      · show (ls.dyd.actvar.take _).length = c.fl
        rw [List.length_take, h4, b3]; omega
    · rw [← hfsc]
      simp only [luaK_ret_firstlocal]
      exact h1

theorem scopeInv_closef (c : ScopeCtx) (s ls ls1 : LexState) (fs : FuncState)
    (h : close_func ls = Except.ok (fs, ls1)) (hJ : ScopeInv (ScopeCtx.fn s c) ls) :
    ScopeInv c ls1 := by
  obtain ⟨hv, _⟩ := close_func_restores _ ls ls1 fs hJ rfl rfl h
  exact scopeInv_of_view c s ls1 (by rw [hv]; rfl) hJ.1

theorem scopeInv_laws :
    FrameLaws ScopeInv id ScopeCtx.decl ScopeCtx.push ScopeCtx.fn where
  push_decl := fun _ _ => rfl
  next := by
    intro c ls h
    exact scopeInv_of_view c ls _ (by simp [viewOf, luaX_next_fs, luaX_next_dyd]) h
  head := by
    intro c ls fs fs1 prev hfs hs h
    refine scopeInv_of_view c ls _ ?_ h
    simp [viewOf, hfs, frameSnap_same hs]
  second := by
    intro c ls cur fs fs1 prev hfs hs h
    refine scopeInv_of_view c ls _ ?_ h
    simp [viewOf, hfs, frameSnap_same hs]
  newvar := fun h hJ => scopeInv_newvar _ _ _ _ h hJ
  adjust := fun h hJ => scopeInv_adjust _ _ _ _ h hJ
  enter := by
    intro c ls ls1 h hJ
    rw [enterlevel_inv ls ls1 h]
    exact hJ
  leave := fun h => h
  vararg := by
    intro c s ls fs prev b k hfs hJ
    refine scopeInv_of_view _ ls _ ?_ hJ
    simp [viewOf, hfs, frameSnap]
  enterblock := fun h hJ => scopeInv_enterblock _ _ _ _ h hJ
  leaveblock := fun h hJ => scopeInv_leaveblock _ _ _ _ h hJ
  openf := fun h hJ => scopeInv_openf _ _ _ _ h hJ
  closef := fun h hJ => scopeInv_closef _ _ _ _ _ h hJ
  resolve := by
    intro c ls fss0 fss n v h hJ
    refine scopeInv_of_view c _ _ ?_ hJ
    obtain ⟨e1, _, _⟩ := singlevaraux_frames ls.dyd n fss0 fss true v h
    simp [viewOf, e1]
  jump := fun h hJ => scopeInv_jump _ _ _ _ h hJ
  addlabel := fun h hJ => scopeInv_addlabel _ _ _ _ _ _ _ h hJ
  setlabel := fun h0 hJ hfs hbl hget => scopeInv_setlabel _ _ _ _ _ _ _ _ h0 hJ hfs hbl hget
  closegotos := fun h hJ => scopeInv_closegotos _ _ _ _ h hJ

theorem addprototype_view (ls ls1 : LexState) (p : Proto)
    (h : addprototype ls = Except.ok (p, ls1)) : viewOf ls1 = viewOf ls := by
  simp only [addprototype] at h
  repeat' split at h
  all_goals try cases h
  rename_i fs prev hfs _
  simp [viewOf, hfs, frameSnap]

theorem body_restores (n fuel : Nat) (c : ScopeCtx) (ls ls1 : LexState) (ismethod : Bool)
    (line : Int) (v : expdesc) (hJ : ScopeInv c ls)
    (h : body (parsers n).1 fuel ls ismethod line = Except.ok (v, ls1)) :
    viewOf ls1 = viewOf ls := by
  simp only [body] at h
  repeat' split at h
  all_goals try cases h
  rename_i _ clp lsA hA _ lsB hB _ lsC hC _ lsD hmid _ lsE hE _ lsF hF _ lsG hG _ lsH hH _
    lsI _ fsc hI hclose
  have hS : KeepS ScopeInv (parsers n).1 := (keep_parsers scopeInv_laws n).1
  have h1 : ScopeInv c lsA := keep_addprototype scopeInv_laws hA hJ
  have h2 : ScopeInv (ScopeCtx.fn lsA c) lsC :=
    keep_checknext scopeInv_laws hC (scopeInv_laws.openf hB h1)
  have h3 : ScopeInv (ScopeCtx.fn lsA c) lsD := by
    split at hmid
    · split at hmid
      · cases hmid
      · exact scopeInv_laws.adjust hmid (scopeInv_laws.newvar (by assumption) h2)
    · cases hmid
      exact h2
  have h4 : ScopeInv (ScopeCtx.fn lsA c) lsI :=
    keep_codeclosure scopeInv_laws hI
      (keep_check_match scopeInv_laws hH
        (keep_statlist scopeInv_laws _ hS _ hG
          (keep_checknext scopeInv_laws hF (keep_parlist scopeInv_laws _ hE h3))))
  obtain ⟨hv, _⟩ := close_func_restores _ lsI ls1 fsc h4 rfl rfl hclose
  rw [hv, ← addprototype_view ls lsA clp hA]
  rfl

theorem mem_drop_get? {α : Type} (l : List α) (k : Nat) (x : α) (h : x ∈ l.drop k) :
    ∃ j, k ≤ j ∧ l.get? j = some x := by
  obtain ⟨i, hi⟩ := List.mem_iff_get?.mp h
  refine ⟨k + i, Nat.le_add_right _ _, ?_⟩
  rw [List.get?_eq_getElem?] at hi ⊢
  rw [List.getElem?_drop] at hi
  exact hi

theorem findlabel_scope_err (ls : LexState) (g : Nat) (nm : TString) (l : Int) (v : TString)
    (h : findlabel ls g = Except.error (ParseError.jumpsIntoScope nm l v)) :
    ∃ fs prev bl rest gt lb, ls.fs = fs :: prev ∧ fs.bl = bl :: rest ∧
      ls.dyd.gt.get? g = some gt ∧ lb ∈ ls.dyd.label.drop bl.firstlabel ∧
      gt.nactvar < lb.nactvar := by
  unfold findlabel at h
  cases hfs : ls.fs with
  | nil => rw [hfs] at h; simp at h
  | cons fs prev =>
    cases hg : ls.dyd.gt.get? g with
    | none => rw [hfs, hg] at h; simp at h
    | some gt =>
      rw [hfs, hg] at h
      simp only [] at h
      cases hbl : fs.bl with
      | nil => rw [hbl] at h; simp at h
      | cons bl previous =>
        rw [hbl] at h
        simp only [] at h
        cases hf : (ls.dyd.label.drop bl.firstlabel).find? (fun lb => eqstr lb.name gt.name) with
        | none => rw [hf] at h; simp at h
        | some lb =>
          rw [hf] at h
          simp only [] at h
          by_cases hlt : gt.nactvar < lb.nactvar
          · exact ⟨fs, prev, bl, previous, gt, lb, rfl, hbl, rfl,
              (mem_of_find?_eq_some _ _ _ hf).1, hlt⟩
          · unfold closegoto at h
            simp only [hg, hlt, if_false] at h
            cases h

theorem gotostat_scope_err (ls : LexState) (pc : Int) (nm : TString) (l : Int) (v : TString)
    (h : gotostat ls pc = Except.error (ParseError.jumpsIntoScope nm l v)) :
    ∃ fs prev bl rest lb, ls.fs = fs :: prev ∧ fs.bl = bl :: rest ∧
      lb ∈ ls.dyd.label.drop bl.firstlabel ∧ fs.nactvar < lb.nactvar := by
  simp only [gotostat] at h
  repeat' split at h
  all_goals try cases h
  · rename_i _ hr
    split at hr
    · simp only [str_checkname, check] at hr
      repeat' split at hr
      all_goals try cases hr
      rename_i hc
      split at hc <;> cases hc
    · cases hr
  · rename_i _ _ _ _ _ hnew
    simp only [newlabelentry] at hnew
    repeat' split at hnew
    all_goals cases hnew
  · rename_i _ label lsA hr _ g gt1 hnew _ hfind
    have hA : lsA = luaX_next (testnext ls Tok.TK_GOTO).2 := by
      split at hr
      · rename_i lsB htn
        obtain ⟨_, _, e⟩ := str_checkname_inv _ _ _ hr
        rw [e, htn]
      · rename_i lsB htn
        cases hr
        rw [htn]
    have hfs : lsA.fs = ls.fs := by rw [hA, luaX_next_fs, testnext_fs]
    have hdyd : lsA.dyd = ls.dyd := by rw [hA, luaX_next_dyd, testnext_dyd]
    simp only [newlabelentry] at hnew
    split at hnew
    · cases hnew
    · rename_i fs prev hfsA
      split at hnew
      · cases hnew
      · simp only [Except.ok.injEq, Prod.mk.injEq] at hnew
        obtain ⟨hg, hgt⟩ := hnew
        subst hg hgt
        obtain ⟨fs1, prev1, bl, rest, gt, lb, q1, q2, q3, q4, q5⟩ :=
          findlabel_scope_err _ _ _ _ _ hfind
        have q1 : lsA.fs = fs1 :: prev1 := q1
        rw [hfsA] at q1
        simp only [List.cons.injEq] at q1
        obtain ⟨rfl, rfl⟩ := q1
        have q3 : (lsA.dyd.gt ++ [_]).get? lsA.dyd.gt.length = some gt := q3
        rw [get?_length_append] at q3
        simp only [Option.some.injEq] at q3
        subst q3
        have q4 : lb ∈ lsA.dyd.label.drop bl.firstlabel := q4
        rw [hdyd] at q4
        exact ⟨fs, prev, bl, rest, lb, hfs ▸ hfsA, q2, q4, q5⟩

theorem movegotosout_loop_safe (bl parent : BlockCnt) (rest : List BlockCnt) :
    ∀ (suf pre : List Labeldesc) (fuel : Nat) (ls : LexState) (fs : FuncState)
      (prev : List FuncState),
      suf.length ≤ fuel → ls.fs = fs :: prev → fs.bl = parent :: rest →
      ls.dyd.gt = pre ++ suf →
      (∀ g ∈ suf, bl.nactvar ≤ g.nactvar) →
      (∀ lb ∈ ls.dyd.label.drop parent.firstlabel, lb.nactvar ≤ bl.nactvar) →
      ∀ n l v, movegotosout_loop bl fuel pre.length ls ≠
        Except.error (ParseError.jumpsIntoScope n l v) := by
  intro suf
  induction suf with
  | nil =>
    intro pre fuel ls fs prev _ hfs _ hgt _ _ n l v h
    have hget : ls.dyd.gt.get? pre.length = none := by
      rw [hgt]; simp
    have hrun : movegotosout_loop bl fuel pre.length ls = Except.ok ls := by
      cases fuel with
      | zero => rw [movegotosout_loop, hget]
      | succ f => rw [movegotosout_loop, hget]; simp only []
    rw [hrun] at h
    cases h
  | cons x suf ih =>
    intro pre fuel ls fs prev hfuel hfs hbl hgt hG hLb n l v
    cases fuel with
    | zero => simp at hfuel
    | succ f =>
      have hget : ls.dyd.gt.get? pre.length = some x := by
        rw [hgt]; exact get?_append_length pre x suf
      have hset : ∀ y, ls.dyd.gt.set pre.length y = pre ++ y :: suf := by
        intro y; rw [hgt]; exact set_append_length pre x y suf
      have herase : ∀ y, (pre ++ y :: suf).eraseIdx pre.length = pre ++ suf :=
        fun y => eraseIdx_append_length pre y suf
      rw [movegotosout_loop, hfs, hget]
      simp only []
      have hU : (if x.nactvar > bl.nactvar then
            ({ ls with
              fs := (if bl.upval then luaK_patchclose fs x.pc bl.nactvar else fs) :: prev,
              dyd := { ls.dyd with
                gt := ls.dyd.gt.set pre.length { x with nactvar := bl.nactvar } } } : LexState)
          else ls) =
          { ls with
            fs := { fs with kcalls := fs.kcalls ++ closeCall bl x } :: prev,
            dyd := { ls.dyd with gt := pre ++ rehomed bl x :: suf } } := by
        cases ls with
        | mk t input linenumber fs0 dyd nCcalls envn =>
          cases dyd with
          | mk actvar gt label =>
            simp only [] at hfs hgt hset
            subst hfs
            by_cases hx : x.nactvar > bl.nactvar
            · by_cases hu : bl.upval = true
              · simp [hx, hu, hset, rehomed, closeCall, luaK_patchclose, FuncState.emit]
              · simp [hx, hu, hset, rehomed, closeCall]
            · simp [hx, hgt, rehomed, closeCall]
      rw [hU]
      have hgetU : (pre ++ rehomed bl x :: suf).get? pre.length = some (rehomed bl x) :=
        get?_append_length _ _ _
      cases hpl : parentLabel parent ls.dyd.label x with
      | none =>
        have hfl := findlabel_none
          { ls with
            fs := { fs with kcalls := fs.kcalls ++ closeCall bl x } :: prev,
            dyd := { ls.dyd with gt := pre ++ rehomed bl x :: suf } }
          { fs with kcalls := fs.kcalls ++ closeCall bl x } prev parent rest pre.length
          (rehomed bl x) rfl hbl hgetU (by rw [parentLabel_rehomed]; exact hpl)
        rw [hfl]
        simp only []
        have ih1 := ih (pre ++ [rehomed bl x]) f
          { ls with
            fs := { fs with kcalls := fs.kcalls ++ closeCall bl x } :: prev,
            dyd := { ls.dyd with gt := pre ++ rehomed bl x :: suf } }
          { fs with kcalls := fs.kcalls ++ closeCall bl x } prev
          (by simpa using hfuel) rfl hbl (by simp)
          (fun g hg => hG g (List.mem_cons_of_mem _ hg)) hLb n l v
        rw [List.length_append, List.length_singleton] at ih1
        exact ih1
      | some lb =>
        have hmem : lb ∈ ls.dyd.label.drop parent.firstlabel := by
          unfold parentLabel at hpl
          exact (mem_of_find?_eq_some _ _ _ hpl).1
        have hle : lb.nactvar ≤ (rehomed bl x).nactvar :=
          le_trans (hLb lb hmem)
            (rehomed_nactvar_ge bl x _ (le_refl _) (hG x (List.mem_cons_self _ _)))
        have hfl := findlabel_some
          { ls with
            fs := { fs with kcalls := fs.kcalls ++ closeCall bl x } :: prev,
            dyd := { ls.dyd with gt := pre ++ rehomed bl x :: suf } }
          { fs with kcalls := fs.kcalls ++ closeCall bl x } prev parent rest pre.length
          (rehomed bl x) lb rfl hbl hgetU (by rw [parentLabel_rehomed]; exact hpl) hle
        rw [hfl]
        simp only [herase]
        exact ih pre f
          { ls with
            fs := { fs with kcalls := fs.kcalls ++ closeCall bl x ++
              ((if (rehomed bl x).nactvar > lb.nactvar ∧
                  (parent.upval = true ∨ ls.dyd.label.length > parent.firstlabel)
                then [KCall.patchclose (rehomed bl x).pc lb.nactvar] else []) ++
                [KCall.patchlist (rehomed bl x).pc lb.pc]) } :: prev,
            dyd := { ls.dyd with gt := pre ++ suf } }
          { fs with kcalls := fs.kcalls ++ closeCall bl x ++
              ((if (rehomed bl x).nactvar > lb.nactvar ∧
                  (parent.upval = true ∨ ls.dyd.label.length > parent.firstlabel)
                then [KCall.patchclose (rehomed bl x).pc lb.nactvar] else []) ++
                [KCall.patchlist (rehomed bl x).pc lb.pc]) } prev
          (by simp at hfuel; omega) rfl hbl rfl
          (fun g hg => hG g (List.mem_cons_of_mem _ hg)) hLb n l v

theorem movegotosout_safe (ls : LexState) (fs : FuncState) (prev : List FuncState)
    (bl parent : BlockCnt) (rest : List BlockCnt)
    (hfs : ls.fs = fs :: prev) (hbl : fs.bl = parent :: rest)
    (hG : ∀ g ∈ ls.dyd.gt.drop bl.firstgoto, bl.nactvar ≤ g.nactvar)
    (hLb : ∀ lb ∈ ls.dyd.label.drop parent.firstlabel, lb.nactvar ≤ bl.nactvar)
    (n : TString) (l : Int) (v : TString) :
    movegotosout ls bl ≠ Except.error (ParseError.jumpsIntoScope n l v) := by
  unfold movegotosout
  by_cases hfg : bl.firstgoto ≤ ls.dyd.gt.length
  · have hlen : (ls.dyd.gt.take bl.firstgoto).length = bl.firstgoto := by
      simp [List.length_take]; omega
    have := movegotosout_loop_safe bl parent rest (ls.dyd.gt.drop bl.firstgoto)
      (ls.dyd.gt.take bl.firstgoto) (ls.dyd.gt.length - bl.firstgoto) ls fs prev (by simp)
      hfs hbl (by simp) hG hLb n l v
    rw [hlen] at this
    exact this
  · have hz : ls.dyd.gt.length - bl.firstgoto = 0 := by omega
    have hget : ls.dyd.gt.get? bl.firstgoto = none := by
      rw [List.get?_eq_none]; omega
    rw [hz, movegotosout_loop, hget]
    exact fun h => (by cases h)

theorem leaveblock_scope_err (ls : LexState) (fs : FuncState) (prev : List FuncState)
    (bl : BlockCnt) (previous : List BlockCnt)
    (hfs : ls.fs = fs :: prev) (hbl : fs.bl = bl :: previous)
    (hfg : bl.firstgoto ≤ ls.dyd.gt.length) (hfl : bl.firstlabel ≤ ls.dyd.label.length)
    (hG : ∀ g ∈ ls.dyd.gt.drop bl.firstgoto, bl.nactvar ≤ g.nactvar)
    (hLb : ∀ parent rest, previous = parent :: rest →
      ∀ lb ∈ (ls.dyd.label.take bl.firstlabel).drop parent.firstlabel,
        lb.nactvar ≤ bl.nactvar)
    (n : TString) (l : Int) (v : TString)
    (h : leaveblock ls = Except.error (ParseError.jumpsIntoScope n l v)) :
    bl.isloop = true ∧
    breaklabel { ls with fs := { fs with pc := exitPc fs bl previous,
                                         kcalls := fs.kcalls ++ closeJump fs bl previous } ::
                               prev } =
      Except.error (ParseError.jumpsIntoScope n l v) := by
  unfold leaveblock at h
  rw [hfs] at h
  simp only [hbl] at h
  have hj : (if previous ≠ [] ∧ bl.upval = true then
        luaK_patchtohere (luaK_patchclose (luaK_jump fs).2 (luaK_jump fs).1 bl.nactvar)
          (luaK_jump fs).1
      else fs) =
      { fs with pc := exitPc fs bl previous,
                kcalls := fs.kcalls ++ closeJump fs bl previous } := by
    by_cases hc : previous ≠ [] ∧ bl.upval = true
    · simp [hc, exitPc, closeJump, luaK_jump, luaK_patchtohere, luaK_patchclose, FuncState.emit]
    · simp [hc, exitPc, closeJump]
  rw [hj] at h
  have key : ∀ (ls2 : LexState) (fs2 : FuncState), ls2.fs = fs2 :: prev →
      fs2.nactvar = fs.nactvar → fs2.bl = bl :: previous →
      (∀ g ∈ ls2.dyd.gt.drop bl.firstgoto, bl.nactvar ≤ g.nactvar) →
      ls2.dyd.label.take bl.firstlabel = ls.dyd.label.take bl.firstlabel →
      (match removevars { ls2 with fs := { fs2 with bl := previous } :: prev } bl.nactvar with
        | Except.error e => Except.error e
        | Except.ok ls3 =>
          match ls3.fs with
          | [] => Except.error ParseError.undefinedBehaviour
          | fs3 :: prev3 =>
            let ls4 : LexState := { ls3 with
              fs := { fs3 with freereg := fs3.nactvar } :: prev3,
              dyd := { ls3.dyd with label := ls3.dyd.label.take bl.firstlabel } }
            if previous ≠ [] then movegotosout ls4 bl
            else
              match ls4.dyd.gt.get? bl.firstgoto with
              | some gt => Except.error (undefgoto gt)
              | none => Except.ok ls4) ≠
        Except.error (ParseError.jumpsIntoScope n l v) := by
    intro ls2 fs2 hfs2 hN hbl2 hG2 hL2 hk
    generalize hrv : removevars _ bl.nactvar = r at hk
    cases r with
    | error e =>
      have := removevars_err _ _ e hrv
      simp only [Except.error.injEq] at hk
      rw [hk] at this
      cases this
    | ok ls3 =>
      obtain ⟨h1, h2, L, hls3, ha, hb⟩ := removevars_inv _ ls3 { fs2 with bl := previous } prev
        bl.nactvar rfl hrv
      subst hls3
      simp only [] at hk
      cases previous with
      | nil =>
        simp only [ne_eq, not_true_eq_false, if_false] at hk
        split at hk
        · simp only [Except.error.injEq] at hk
          exact undefgoto_ne _ _ _ _ hk
        · cases hk
      | cons parent rest =>
        simp only [ne_eq, not_false_eq_true, if_true, reduceCtorEq] at hk
        refine movegotosout_safe _ ?_ prev bl parent rest ?_ ?_ ?_ ?_ n l v hk
        rotate_left
        · exact rfl
        · exact rfl
        · exact hG2
        intro lb hlb
        have hlb : lb ∈ (ls2.dyd.label.take bl.firstlabel).drop parent.firstlabel := hlb
        rw [hL2] at hlb
        exact hLb parent rest rfl lb hlb
  by_cases hloop : bl.isloop = true
  · refine ⟨hloop, ?_⟩
    simp only [hloop, if_true] at h
    generalize hbr : breaklabel _ = r at h
    cases r with
    | error e =>
      simp only [Except.error.injEq] at h
      rw [h]
    | ok ls2 =>
      exfalso
      have hls2 := breaklabel_inv _ ls2
        { fs with pc := exitPc fs bl previous,
                  kcalls := fs.kcalls ++ closeJump fs bl previous }
        prev bl previous rfl hbl hbr
      have hfs2 : ls2.fs = { fs with
          pc := exitPc fs bl previous,
          kcalls := fs.kcalls ++ closeJump fs bl previous ++
            patchCalls (exitPc fs bl previous)
              (gotosNamed "break" (ls.dyd.gt.drop bl.firstgoto)) } :: prev := by
        rw [hls2]
      have hgt2 : ls2.dyd.gt = ls.dyd.gt.take bl.firstgoto ++
          gotosNotNamed "break" (ls.dyd.gt.drop bl.firstgoto) := by
        rw [hls2]
      have hlab2 : ls2.dyd.label = ls.dyd.label ++
          [{ name := "break", line := 0, nactvar := fs.nactvar,
             pc := exitPc fs bl previous }] := by
        rw [hls2]
      simp only [] at h
      rw [hfs2] at h
      simp only [] at h
      refine key ls2 _ hfs2 rfl hbl ?_ ?_ h
      · intro g hg
        rw [hgt2, drop_take_append _ _ _ hfg] at hg
        exact hG g ((mem_gotosNotNamed _ _ _).mp hg).1
      · rw [hlab2]
        exact List.take_append_of_le_length hfl
  · exfalso
    simp only [hloop, Bool.false_eq_true, if_false] at h
    exact key
      { ls with fs := { fs with pc := exitPc fs bl previous,
                                kcalls := fs.kcalls ++ closeJump fs bl previous } :: prev }
      { fs with pc := exitPc fs bl previous,
                kcalls := fs.kcalls ++ closeJump fs bl previous } rfl rfl hbl hG rfl h

theorem scopeInv_parent (c : ScopeCtx) (ls : LexState) (fs : FuncState)
    (prev : List FuncState) (bl parent : BlockCnt) (rest : List BlockCnt)
    (h : ScopeInv c ls) (hfs : ls.fs = fs :: prev) (hbl : fs.bl = bl :: parent :: rest) :
    c.L0.length ≤ parent.firstlabel ∧
    (∀ j lb, c.L0.length ≤ j → j < bl.firstlabel → ls.dyd.label.get? j = some lb →
      lb.nactvar ≤ bl.nactvar) := by
  obtain ⟨fs0, prev0, hfs0, h1, h2, h3, h4, h5, h6, h7, h8, h9⟩ := scopeInv_head c ls h
  rw [hfs] at hfs0
  simp only [List.cons.injEq] at hfs0
  obtain ⟨rfl, rfl⟩ := hfs0
  obtain ⟨a1, a2, a3, a4, a5⟩ := h8
  rw [hbl] at h2
  cases hhb : c.hb with
  | nil => rw [hhb] at h2; simp at h2
  | cons x xs =>
    rw [hhb] at h2 a2 a4
    simp only [List.map_cons, List.cons_append, List.cons.injEq] at h2
    obtain ⟨e1, e2⟩ := h2
    constructor
    · cases xs with
      | nil =>
        simp only [List.nil_append, List.cons.injEq, blockSnap, Prod.mk.injEq] at e2
        omega
      | cons y ys =>
        simp only [List.cons_append, List.cons.injEq] at e2
        have := (a2 y (List.mem_cons_of_mem _ (List.mem_cons_self _ _))).1
        rw [← e2.1] at this
        exact this
    · intro j lb g1 g2 g3
      have := a4 x (List.mem_cons_self _ _) j lb g1 (by rw [← e1]; exact g2) g3
      rw [← e1] at this
      exact this

theorem scopeInv_label_bound (c : ScopeCtx) (ls : LexState) (fs : FuncState)
    (prev : List FuncState) (bl : BlockCnt) (rest : List BlockCnt)
    (h : ScopeInv c ls) (hfs : ls.fs = fs :: prev) (hbl : fs.bl = bl :: rest) :
    ∀ lb ∈ ls.dyd.label.drop bl.firstlabel, lb.nactvar ≤ fs.nactvar := by
  obtain ⟨k1, _⟩ := scopeInv_block c ls fs prev bl rest h hfs hbl
  obtain ⟨fs0, prev0, hfs0, _, _, _, _, _, _, _, h8, _⟩ := scopeInv_head c ls h
  rw [hfs] at hfs0
  simp only [List.cons.injEq] at hfs0
  obtain ⟨rfl, rfl⟩ := hfs0
  intro lb hlb
  obtain ⟨j, hj, hget⟩ := mem_drop_get? _ _ _ hlb
  exact h8.2.2.1 j lb (by omega) hget

theorem scopeInv_gotostat_safe (c : ScopeCtx) (ls : LexState) (h : ScopeInv c ls) (pc : Int)
    (nm : TString) (l : Int) (v : TString) :
    gotostat ls pc ≠ Except.error (ParseError.jumpsIntoScope nm l v) := by
  intro he
  obtain ⟨fs, prev, bl, rest, lb, hfs, hbl, hlb, hlt⟩ := gotostat_scope_err ls pc nm l v he
  have := scopeInv_label_bound c ls fs prev bl rest h hfs hbl lb hlb
  omega

theorem scopeInv_leaveblock_safe (c : ScopeCtx) (ls : LexState) (fs : FuncState)
    (prev : List FuncState) (bl : BlockCnt) (previous : List BlockCnt)
    (h : ScopeInv c ls) (hfs : ls.fs = fs :: prev) (hbl : fs.bl = bl :: previous)
    (nm : TString) (l : Int) (v : TString)
    (he : leaveblock ls = Except.error (ParseError.jumpsIntoScope nm l v)) :
    bl.isloop = true ∧
    breaklabel { ls with fs := { fs with pc := exitPc fs bl previous,
                                         kcalls := fs.kcalls ++ closeJump fs bl previous } ::
                               prev } =
      Except.error (ParseError.jumpsIntoScope nm l v) := by
  obtain ⟨k1, k2, k3, k4, k5, k6, k7⟩ := scopeInv_block c ls fs prev bl previous h hfs hbl
  refine leaveblock_scope_err ls fs prev bl previous hfs hbl k4 k2 k7 ?_ nm l v he
  intro parent rest hp lb hlb
  subst hp
  obtain ⟨q1, q2⟩ := scopeInv_parent c ls fs prev bl parent rest h hfs hbl
  obtain ⟨j, hj, hget⟩ := mem_drop_get? _ _ _ hlb
  obtain ⟨g1, g2⟩ := get?_take_some _ _ _ _ hget
  exact q2 j lb (by omega) g1 g2

theorem scopeInv_fresh (ls : LexState) (fs : FuncState)
    (hfs : ls.fs = [fs]) (h1 : fs.firstlocal = 0) (h2 : fs.nactvar = 0)
    (h3 : fs.bl.map blockSnap = [(0, 0, 0)]) (h4 : ls.dyd.actvar = [])
    (h5 : ls.dyd.label = []) : ScopeInv mainCtx ls := by
  refine scopeInv_mk mainCtx ls fs [] hfs h1 h3 rfl ?_ ?_ rfl rfl
    ⟨List.Pairwise.nil, ?_, ?_, ?_, ?_⟩ trivial
  · rw [h4, h2]; rfl
  · rw [h2]; simp [mainCtx, MAXVARS]
  · intro x hx; cases hx
  · intro j lb _ g2
    rw [h5] at g2
    simp at g2
  · intro x hx; cases hx
  · intro x hx; cases hx

theorem chunkStart_scope (toks : List Token) : ScopeInv mainCtx (chunkStart toks) :=
  scopeInv_fresh _ _ (luaX_next_fs _) rfl rfl rfl
    (by unfold chunkStart; rw [luaX_next_dyd])
    (by unfold chunkStart; rw [luaX_next_dyd])

theorem mainfunc_start_scope (input : List Token) (ls1 : LexState) (fs fs1 : FuncState)
    (prev : List FuncState) (i : Int)
    (hopen : open_func (initialState input) {} = Except.ok ls1) (hfs : ls1.fs = fs :: prev)
    (hnew : newupvalue { fs with f := { fs.f with is_vararg := true } } ls1.envn
      (init_exp expkind.VLOCAL 0) = Except.ok (i, fs1)) :
    ScopeInv mainCtx (luaX_next { ls1 with fs := fs1 :: prev }) := by
  obtain ⟨fsN, prevN, hN, e⟩ := enterblock_inv _ ls1 _ hopen
  simp only [initialState, List.cons.injEq] at hN
  obtain ⟨hN1, hN2⟩ := hN
  subst hN1 hN2
  rw [e] at hfs hnew
  simp only [List.cons.injEq] at hfs
  obtain ⟨hf0, htl⟩ := hfs
  subst hf0 htl
  simp only [newupvalue, checklimit, FuncState.nups, List.length_nil, MAXUPVAL] at hnew
  rw [if_neg (by decide)] at hnew
  simp only [Except.ok.injEq, Prod.mk.injEq, List.nil_append] at hnew
  obtain ⟨_, hfs1⟩ := hnew
  refine scopeInv_fresh _ fs1 (by rw [luaX_next_fs]) (by rw [← hfs1]) (by rw [← hfs1])
    (by rw [← hfs1]; rfl) (by rw [luaX_next_dyd, e]; rfl) (by rw [luaX_next_dyd, e]; rfl)

theorem mainfunc_scope (n : Nat) (input : List Token) (fs : FuncState) (ls : LexState)
    (h : parseChunk n input = Except.ok (fs, ls)) :
    ∃ ls0 ls2, ScopeInv mainCtx ls0 ∧ statlist (parsers n).1 n ls0 = Except.ok ls2 ∧
      ScopeInv mainCtx ls2 ∧ close_func ls2 = Except.ok (fs, ls) := by
  simp only [parseChunk, luaYParser, mainfunc] at h
  repeat' split at h
  all_goals try cases h
  rename_i _ ls1 hopen _ fs0 tl hfs0 _ idx1 fs1 hnew _ ls2 hstat _ _ hchk
  have h0 := mainfunc_start_scope input ls1 fs0 fs1 tl idx1 hopen hfs0 hnew
  exact ⟨_, ls2, h0, hstat,
    keep_statlist scopeInv_laws _ (keep_parsers scopeInv_laws n).1 n hstat h0, h⟩

theorem parse_end_view (n : Nat) (input : List Token) (fs : FuncState) (ls : LexState)
    (h : parseChunk n input = Except.ok (fs, ls)) :
    ls.dyd.actvar = [] ∧ ls.dyd.gt = [] ∧ ls.dyd.label = [] ∧ ls.fs = [] := by
  obtain ⟨ls0, ls2, _, _, h2, hc⟩ := mainfunc_scope n input fs ls h
  obtain ⟨hv, _⟩ := close_func_restores mainCtx ls2 ls fs h2 rfl rfl hc
  simp only [viewOf, ScopeView.mk.injEq, mainCtx] at hv
  obtain ⟨v1, v2, v3, v4⟩ := hv
  exact ⟨List.length_eq_zero.mp v4, v3, v2, List.map_eq_nil_iff.mp v1⟩

theorem scopeInv_leaveblock_kept (c : ScopeCtx) (ls ls1 : LexState) (h : ScopeInv c ls)
    (hl : leaveblock ls = Except.ok ls1) :
    ls1.dyd.gt.take c.G0.length = c.G0 ∧ ls1.dyd.label.take c.L0.length = c.L0 := by
  obtain ⟨fs, prev, bl, previous, hfs, hbl⟩ := leaveblock_shape ls ls1 hl
  obtain ⟨k1, k2, k3, k4, _⟩ := scopeInv_block c ls fs prev bl previous h hfs hbl
  obtain ⟨_, _, _, _, _, _, _, _, h6, h7, _, _⟩ := scopeInv_head c ls h
  obtain ⟨_, _, _, L, e, _⟩ := leaveblock_inv ls ls1 fs prev bl previous hfs hbl hl
  rw [labelsLeft_of_le _ _ _ _ k2] at e
  have hlen : (ls.dyd.gt.take bl.firstgoto).length = bl.firstgoto := by
    rw [List.length_take]; omega
  subst e
  constructor
  · show (ls.dyd.gt.take bl.firstgoto ++ _).take c.G0.length = c.G0
    rw [List.take_append_of_le_length (by omega), List.take_take, Nat.min_eq_left k3]
    exact h7
  · show (ls.dyd.label.take bl.firstlabel).take c.L0.length = c.L0
    rw [List.take_take, Nat.min_eq_left k1]
    exact h6

/-- C40: scopes are balanced.  `ScopeInv c ls` is the invariant of the parse
in which `c` records, for the current function, the lists as they were when
it was opened.  (1) `open_func` establishes it for the new function, with the
label list, the pending-goto list and the length of the active-variable list
of that moment; (2) every statement and every expression of the whole parser
keeps it; (3) when `close_func` returns for a function opened in the state
`s`, the length of the active-variable list is the function's `firstlocal`,
which is its length in `s`, the label list and the pending-goto list are
those of `s`, and the chain of function states is the chain of `s` again (the
same functions, with the same blocks and counts of locals); (4) hence `body`
leaves the three lists and the chain as it found them; (5) after a successful
parse of a chunk the active-variable list, the pending-goto list and the
label list are empty and no function state is current. -/
theorem scopes_balanced (n : Nat) :
    (∀ (c : ScopeCtx) (s ls : LexState) (f : Proto), ScopeInv c s →
      open_func s f = Except.ok ls → ScopeInv (ScopeCtx.fn s c) ls) ∧
    (∀ (c : ScopeCtx) (ls ls1 : LexState), ScopeInv c ls →
      (parsers n).1 ls = Except.ok ls1 → ScopeInv c ls1) ∧
    (∀ (c : ScopeCtx) (ls ls1 : LexState) (v : expdesc), ScopeInv c ls →
      (parsers n).2 ls = Except.ok (v, ls1) → ScopeInv c ls1) ∧
    (∀ (c : ScopeCtx) (s ls ls1 : LexState) (fs : FuncState),
      ScopeInv (ScopeCtx.fn s c) ls → close_func ls = Except.ok (fs, ls1) →
      ls1.dyd.actvar.length = fs.firstlocal ∧
      ls1.dyd.actvar.length = s.dyd.actvar.length ∧
      ls1.dyd.label = s.dyd.label ∧ ls1.dyd.gt = s.dyd.gt ∧
      ls1.fs.map frameSnap = s.fs.map frameSnap ∧ ls1.fs.length = s.fs.length) ∧
    (∀ (c : ScopeCtx) (fuel : Nat) (ls ls1 : LexState) (ismethod : Bool) (line : Int)
      (v : expdesc), ScopeInv c ls →
      body (parsers n).1 fuel ls ismethod line = Except.ok (v, ls1) →
      ls1.dyd.actvar.length = ls.dyd.actvar.length ∧ ls1.dyd.label = ls.dyd.label ∧
      ls1.dyd.gt = ls.dyd.gt ∧ ls1.fs.map frameSnap = ls.fs.map frameSnap) ∧
    (∀ (input : List Token) (fs : FuncState) (ls : LexState),
      parseChunk n input = Except.ok (fs, ls) →
      ls.dyd.actvar = [] ∧ ls.dyd.gt = [] ∧ ls.dyd.label = [] ∧ ls.fs = []) := by
  refine ⟨fun c s ls f hJ h => scopeInv_openf c s ls f h hJ,
    fun c ls ls1 hJ h => (keep_parsers scopeInv_laws n).1 h hJ,
    fun c ls ls1 v hJ h => (keep_parsers scopeInv_laws n).2 h hJ, ?_, ?_,
    fun input fs ls h => parse_end_view n input fs ls h⟩
  · intro c s ls ls1 fs hJ h
    obtain ⟨hv, hfl⟩ := close_func_restores _ ls ls1 fs hJ rfl rfl h
    simp only [viewOf, ScopeView.mk.injEq, ScopeCtx.fn] at hv hfl
    obtain ⟨v1, v2, v3, v4⟩ := hv
    refine ⟨by rw [v4, hfl], v4, v2, v3, v1, ?_⟩
    have := congrArg List.length v1
    simpa using this
  · intro c fuel ls ls1 ismethod line v hJ h
    have hv := body_restores n fuel c ls ls1 ismethod line v hJ h
    simp only [viewOf, ScopeView.mk.injEq] at hv
    exact ⟨hv.2.2.2, hv.2.1, hv.2.2.1, hv.1⟩

theorem scopes_balanced_witness :
    ∃ fs ls, parseChunk 6 upvalOuterToks = Except.ok (fs, ls) ∧
      ls.dyd.actvar = [] ∧ ls.dyd.gt = [] ∧ ls.dyd.label = [] ∧ ls.fs = [] := by
  cases h : parseChunk 6 upvalOuterToks with
  | error e =>
    have hok : (parseChunk 6 upvalOuterToks).isOk = true := by decide!
    rw [h] at hok
    cases hok
  | ok r => exact ⟨r.1, r.2, rfl, (scopes_balanced 6).2.2.2.2.2 upvalOuterToks r.1 r.2 h⟩

/-- C17: a goto is resolved against a label of its own function only.
`ScopeInv c ls` is the invariant of the parse in which `c.L0` and `c.G0` are
the label list and the pending-goto list as they were when the current
function was opened, the labels and pending gotos of the enclosing functions.
(1) `open_func` establishes it with the lists of that moment; (2) every
statement and expression of the whole parser keeps it; (3) in a state with
the invariant the two lists still start with `c.L0` and `c.G0`, unchanged,
and the current block starts its labels and its gotos after them; (4) a
label that `findlabel` matches is therefore not one of `c.L0`, and the
label list is left as it is; (5) `gotostat`, `findgotos` (the resolution at a
label) and `leaveblock` (the resolution of `movegotosout`) leave every goto of
`c.G0` pending and every label of `c.L0` in place; (6) when `body` returns for
a nested function the pending-goto list and the label list are those before
the body: no label of the nested function has resolved a goto of the
enclosing one, none of its labels is left, and none of its gotos is pending
(a goto left pending in its outermost block is an error of `leaveblock`). -/
theorem goto_label_own_function (n : Nat) :
    (∀ (c : ScopeCtx) (s ls : LexState) (f : Proto), ScopeInv c s →
      open_func s f = Except.ok ls →
      ScopeInv (ScopeCtx.fn s c) ls ∧ (ScopeCtx.fn s c).L0 = s.dyd.label ∧
      (ScopeCtx.fn s c).G0 = s.dyd.gt) ∧
    (∀ (c : ScopeCtx) (ls ls1 : LexState), ScopeInv c ls →
      (parsers n).1 ls = Except.ok ls1 → ScopeInv c ls1) ∧
    (∀ (c : ScopeCtx) (ls ls1 : LexState) (v : expdesc), ScopeInv c ls →
      (parsers n).2 ls = Except.ok (v, ls1) → ScopeInv c ls1) ∧
    (∀ (c : ScopeCtx) (ls : LexState), ScopeInv c ls →
      ls.dyd.label.take c.L0.length = c.L0 ∧ ls.dyd.gt.take c.G0.length = c.G0 ∧
      ∀ (fs : FuncState) (prev : List FuncState) (bl : BlockCnt) (rest : List BlockCnt),
        ls.fs = fs :: prev → fs.bl = bl :: rest →
        c.L0.length ≤ bl.firstlabel ∧ c.G0.length ≤ bl.firstgoto) ∧
    (∀ (c : ScopeCtx) (ls ls1 : LexState) (g : Nat), ScopeInv c ls →
      findlabel ls g = Except.ok (true, ls1) →
      ∃ gt lb, ls.dyd.gt.get? g = some gt ∧ lb ∈ ls.dyd.label.drop c.L0.length ∧
        ls1.dyd.label = ls.dyd.label ∧ ls1.dyd.gt = ls.dyd.gt.eraseIdx g) ∧
    (∀ (c : ScopeCtx) (ls ls1 : LexState) (pc : Int), ScopeInv c ls →
      gotostat ls pc = Except.ok ls1 →
      ls1.dyd.gt.take c.G0.length = c.G0 ∧ ls1.dyd.label = ls.dyd.label) ∧
    (∀ (c : ScopeCtx) (ls ls1 : LexState) (lb : Labeldesc), ScopeInv c ls →
      findgotos ls lb = Except.ok ls1 →
      ls1.dyd.gt.take c.G0.length = c.G0 ∧ ls1.dyd.label = ls.dyd.label) ∧
    (∀ (c : ScopeCtx) (ls ls1 : LexState), ScopeInv c ls → leaveblock ls = Except.ok ls1 →
      ls1.dyd.gt.take c.G0.length = c.G0 ∧ ls1.dyd.label.take c.L0.length = c.L0) ∧
    (∀ (c : ScopeCtx) (fuel : Nat) (ls ls1 : LexState) (ismethod : Bool) (line : Int)
      (v : expdesc), ScopeInv c ls →
      body (parsers n).1 fuel ls ismethod line = Except.ok (v, ls1) →
      ls1.dyd.gt = ls.dyd.gt ∧ ls1.dyd.label = ls.dyd.label) := by
  refine ⟨fun c s ls f hJ h => ⟨scopeInv_openf c s ls f h hJ, rfl, rfl⟩,
    fun c ls ls1 hJ h => (keep_parsers scopeInv_laws n).1 h hJ,
    fun c ls ls1 v hJ h => (keep_parsers scopeInv_laws n).2 h hJ, ?_, ?_, ?_, ?_,
    fun c ls ls1 hJ h => scopeInv_leaveblock_kept c ls ls1 hJ h, ?_⟩
  · intro c ls hJ
    obtain ⟨_, _, _, _, _, _, _, _, h6, h7, _, _⟩ := scopeInv_head c ls hJ
    refine ⟨h6, h7, fun fs prev bl rest hfs hbl => ?_⟩
    obtain ⟨k1, _, k3, _⟩ := scopeInv_block c ls fs prev bl rest hJ hfs hbl
    exact ⟨k1, k3⟩
  · intro c ls ls1 g hJ h
    rcases findlabel_inv ls ls1 g true h with ⟨hb, _⟩ |
      ⟨_, fs, prev, bl, rest, gt, lb, fs1, hfs, hbl, hg, hlb, _, _, e⟩
    · cases hb
    · obtain ⟨k1, _⟩ := scopeInv_block c ls fs prev bl rest hJ hfs hbl
      exact ⟨gt, lb, hg, mem_drop_of_le _ _ _ _ k1 hlb, by rw [e], by rw [e]⟩
  · intro c ls ls1 pc hJ h
    have h1 := scopeInv_jump c ls ls1 pc h hJ
    obtain ⟨_, _, _, _, _, _, _, _, _, h7, _, _⟩ := scopeInv_head c ls1 h1
    refine ⟨h7, ?_⟩
    obtain ⟨ls0, fs, prev, name, b, _, e2, _, _, hf⟩ := gotostat_inv ls ls1 pc h
    rcases findlabel_inv _ ls1 _ b hf with ⟨_, e⟩ |
      ⟨_, _, _, _, _, _, _, _, _, _, _, _, _, _, e⟩
    · rw [e]; show ls0.dyd.label = ls.dyd.label; rw [e2]
    · rw [e]; show ls0.dyd.label = ls.dyd.label; rw [e2]
  · intro c ls ls1 lb hJ h
    have h1 := scopeInv_closegotos c ls ls1 lb h hJ
    obtain ⟨_, _, _, _, _, _, _, _, _, h7, _, _⟩ := scopeInv_head c ls1 h1
    refine ⟨h7, ?_⟩
    obtain ⟨fs, prev, bl, previous, hfs, hbl⟩ := findgotos_shape ls ls1 lb h
    rw [findgotos_inv ls ls1 lb fs prev bl previous hfs hbl h]
  · intro c fuel ls ls1 ismethod line v hJ h
    have hv := body_restores n fuel c ls ls1 ismethod line v hJ h
    simp only [viewOf, ScopeView.mk.injEq] at hv
    exact ⟨hv.2.2.1, hv.2.1⟩

theorem goto_label_own_function_witness :
    ∃ v ls1, body (parsers 6).1 6 sampleNestedLabel false 1 = Except.ok (v, ls1) ∧
      ls1.dyd.gt = [samplePendingGoto] ∧ ls1.dyd.label = [] := by
  have hJ : ScopeInv mainCtx sampleNestedLabel :=
    scopeInv_fresh _ _ (luaX_next_fs _) rfl rfl rfl rfl rfl
  cases h : body (parsers 6).1 6 sampleNestedLabel false 1 with
  | error e =>
    have hok : (body (parsers 6).1 6 sampleNestedLabel false 1).isOk = true := by decide!
    rw [h] at hok
    cases hok
  | ok r =>
    exact ⟨r.1, r.2, rfl,
      (goto_label_own_function 6).2.2.2.2.2.2.2.2 mainCtx 6 sampleNestedLabel r.2 false 1 r.1
        hJ h⟩

/-- C38: a goto is never resolved backward into the scope of a local.
`ScopeInv c ls` is the invariant of the parse.  (1) The state in which
`mainfunc` starts the statements of a chunk has it, and (2) every statement
and expression of the whole parser keeps it.  In a state with the invariant:
(3) every label from the first label of the current block on was recorded
with at most the current number of active locals of the function, and every
pending goto from the first goto of the block on with at least the count at
the entry of the block; (4) `gotostat` never fails with the jumps-into-scope
error: the new goto has the current count, at least that of the label it
finds; (5) `leaveblock` fails with the jumps-into-scope error only when the
block is a loop block and `breaklabel`, which declares the label "break",
fails with it: the resolution of `movegotosout` after re-homing never does. -/
theorem label_counts_bounded (n : Nat) :
    (∀ (input : List Token) (ls1 : LexState) (fs fs1 : FuncState) (prev : List FuncState)
      (i : Int), open_func (initialState input) {} = Except.ok ls1 → ls1.fs = fs :: prev →
      newupvalue { fs with f := { fs.f with is_vararg := true } } ls1.envn
        (init_exp expkind.VLOCAL 0) = Except.ok (i, fs1) →
      ScopeInv mainCtx (luaX_next { ls1 with fs := fs1 :: prev })) ∧
    (∀ (c : ScopeCtx) (ls ls1 : LexState), ScopeInv c ls →
      (parsers n).1 ls = Except.ok ls1 → ScopeInv c ls1) ∧
    (∀ (c : ScopeCtx) (ls ls1 : LexState) (v : expdesc), ScopeInv c ls →
      (parsers n).2 ls = Except.ok (v, ls1) → ScopeInv c ls1) ∧
    (∀ (c : ScopeCtx) (ls : LexState) (fs : FuncState) (prev : List FuncState)
      (bl : BlockCnt) (rest : List BlockCnt), ScopeInv c ls → ls.fs = fs :: prev →
      fs.bl = bl :: rest →
      (∀ lb ∈ ls.dyd.label.drop bl.firstlabel, lb.nactvar ≤ fs.nactvar) ∧
      (∀ g ∈ ls.dyd.gt.drop bl.firstgoto, bl.nactvar ≤ g.nactvar)) ∧
    (∀ (c : ScopeCtx) (ls : LexState) (pc : Int) (nm : TString) (l : Int) (v : TString),
      ScopeInv c ls → gotostat ls pc ≠ Except.error (ParseError.jumpsIntoScope nm l v)) ∧
    (∀ (c : ScopeCtx) (ls : LexState) (fs : FuncState) (prev : List FuncState)
      (bl : BlockCnt) (previous : List BlockCnt) (nm : TString) (l : Int) (v : TString),
      ScopeInv c ls → ls.fs = fs :: prev → fs.bl = bl :: previous →
      leaveblock ls = Except.error (ParseError.jumpsIntoScope nm l v) →
      bl.isloop = true ∧
      breaklabel { ls with fs := { fs with pc := exitPc fs bl previous,
                                           kcalls := fs.kcalls ++ closeJump fs bl previous } ::
                                 prev } =
        Except.error (ParseError.jumpsIntoScope nm l v)) := by
  refine ⟨fun input ls1 fs fs1 prev i h1 h2 h3 =>
      mainfunc_start_scope input ls1 fs fs1 prev i h1 h2 h3,
    fun c ls ls1 hJ h => (keep_parsers scopeInv_laws n).1 h hJ,
    fun c ls ls1 v hJ h => (keep_parsers scopeInv_laws n).2 h hJ, ?_,
    fun c ls pc nm l v hJ => scopeInv_gotostat_safe c ls hJ pc nm l v,
    fun c ls fs prev bl previous nm l v hJ hfs hbl he =>
      scopeInv_leaveblock_safe c ls fs prev bl previous hJ hfs hbl nm l v he⟩
  intro c ls fs prev bl rest hJ hfs hbl
  exact ⟨scopeInv_label_bound c ls fs prev bl rest hJ hfs hbl,
    (scopeInv_block c ls fs prev bl rest hJ hfs hbl).2.2.2.2.2.2⟩

/-- Witness for C38: the chunk `local x ::L:: goto L`.  The parser reaches the
`goto` in the state `sampleBeforeGoto`, which has the invariant: the label `L`
of the current block is recorded with one active local, the number of active
locals of the function.  `gotostat` does not raise the jumps-into-scope error:
it finds the label, resolves the goto backward (a `luaK_patchlist` from the
jump 0 to the label's position 0) and leaves no goto pending. -/
theorem label_counts_bounded_witness :
    (∃ s : LexState, (parsers 6).1 (chunkStart labelGotoToks) = Except.ok s ∧
      (parsers 6).1 s = Except.ok sampleBeforeGoto) ∧
    sampleBeforeGoto.dyd.label.drop sampleBlock.firstlabel =
      [{ name := "L", pc := 0, line := 1, nactvar := 1 }] ∧
    (∀ lb ∈ sampleBeforeGoto.dyd.label.drop sampleBlock.firstlabel, lb.nactvar ≤ 1) ∧
    gotostat sampleBeforeGoto 0 ≠ Except.error (ParseError.jumpsIntoScope "L" 1 "x") ∧
    (gotostat sampleBeforeGoto 0).map (fun s => (s.dyd.gt, s.fs.map FuncState.kcalls)) =
      Except.ok ([], [[KCall.reserveregs 1, KCall.nil 0 1, KCall.getlabel 0,
        KCall.patchlist 0 0]]) := by
  cases h : (parsers 6).1 (chunkStart labelGotoToks) with
  | error e =>
    have hok : ((parsers 6).1 (chunkStart labelGotoToks)).isOk = true := by decide!
    rw [h] at hok
    cases hok
  | ok s =>
    have h2 : (match (parsers 6).1 (chunkStart labelGotoToks) with
        | Except.ok s => (parsers 6).1 s
        | Except.error e => Except.error e) = Except.ok sampleBeforeGoto := by decide!
    rw [h] at h2
    have hJ : ScopeInv mainCtx sampleBeforeGoto :=
      (label_counts_bounded 6).2.1 mainCtx _ _
        ((label_counts_bounded 6).2.1 mainCtx _ _ (chunkStart_scope _) h) h2
    refine ⟨⟨s, rfl, h2⟩, rfl,
      ((label_counts_bounded 6).2.2.2.1 mainCtx sampleBeforeGoto _ [] sampleBlock [] hJ rfl
        rfl).1,
      (label_counts_bounded 6).2.2.2.2.1 mainCtx _ 0 "L" 1 "x" hJ, by decide!⟩

theorem frameKept_refl (ls : LexState) : FrameKept ls ls :=
  ⟨rfl, fun fs _ h => ⟨fs, h, rfl, rfl, rfl, rfl, fun _ _ _ h => h⟩⟩

theorem frameKept_trans (a b c : LexState) (h1 : FrameKept a b) (h2 : FrameKept b c) :
    FrameKept a c := by
  refine ⟨h2.1.trans h1.1, ?_⟩
  intro fs prev hfs
  obtain ⟨fs1, e1, r1, r2, r3, r4, r5⟩ := h1.2 fs prev hfs
  obtain ⟨fs2, e2, q1, q2, q3, q4, q5⟩ := h2.2 fs1 prev e1
  refine ⟨fs2, e2, q1.trans r1, q2.trans r2, q3.trans r3, q4.trans r4, ?_⟩
  intro b rest hb hle
  exact q5 b rest (r2.trans hb) (r5 b rest hb hle)

theorem noop_frame_kept (R : StatRules) (fuel : Nat) :
    (∀ ls ls1 : LexState, (ls.t.token = Tok.chr ';' ∨ ls.t.token = Tok.TK_DBCOLON) →
      statement R fuel ls = Except.ok ls1 → FrameKept ls ls1) ∧
    (∀ ls ls1 : LexState, skipnoopstat R fuel ls = Except.ok ls1 → FrameKept ls ls1) ∧
    (∀ (ls ls1 : LexState) (L : TString) (line : Int),
      labelstat R fuel ls L line = Except.ok ls1 → FrameKept ls ls1) := by
  induction fuel with
  | zero =>
    refine ⟨?_, ?_, ?_⟩
    · intro ls ls1 _ h; simp [statement] at h
    · intro ls ls1 h; simp [skipnoopstat] at h
    · intro ls ls1 L line h; simp [labelstat] at h
  | succ fuel ih =>
    obtain ⟨ih1, ih2, ih3⟩ := ih
    refine ⟨?_, ?_, ?_⟩
    · intro ls ls1 htok h
      simp only [statement] at h
      split at h
      · cases h
      rename_i lsA hent
      have hA := enterlevel_inv _ _ hent
      subst hA
      split at h
      · cases h
      split at h
      · cases h
      rename_i lsB hmid _ fsB tl hfsB
      simp only [Except.ok.injEq] at h
      subst h
      have hB : FrameKept ls lsB := by
        rcases htok with htok | htok
        · simp only [htok, Except.ok.injEq] at hmid
          subst hmid
          exact ⟨by rw [luaX_next_dyd], fun fs prev hfs => ⟨fs, by rw [luaX_next_fs]; exact hfs,
            rfl, rfl, rfl, rfl, fun _ _ _ h => by rw [luaX_next_dyd]; exact h⟩⟩
        · simp only [htok] at hmid
          split at hmid
          · cases hmid
          rename_i nm lsC hname
          obtain ⟨_, _, rfl⟩ := str_checkname_inv _ _ _ hname
          obtain ⟨h1, h2⟩ := ih3 _ _ _ _ hmid
          simp only [luaX_next_dyd, luaX_next_fs] at h1 h2
          exact ⟨h1, h2⟩
      refine ⟨hB.1, ?_⟩
      intro fs prev hfs
      obtain ⟨fs1, e, r1, r2, r3, r4, r5⟩ := hB.2 fs prev hfs
      rw [e] at hfsB
      cases hfsB
      exact ⟨_, rfl, r1, r2, r3, r4, r5⟩
    · intro ls ls1 h
      simp only [skipnoopstat] at h
      split at h
      · rename_i htok
        split at h
        · cases h
        rename_i lsA hst
        exact frameKept_trans _ _ _ (ih1 _ _ htok hst) (ih2 _ _ h)
      · cases h
        exact frameKept_refl _
    · intro ls ls1 L line h
      simp only [labelstat] at h
      repeat' split at h
      all_goals try cases h
      all_goals
        rename_i _ fs0 prev0 hfs0 _ _ _ _ _ hck _ l label1 hnew _ lsC hskip _ _ fsC prevC lb hfsC
          hget _ blC restC hblC _
        obtain ⟨h1, h2⟩ := ih2 _ _ hskip
        unfold checknext at hck
        split at hck
        · cases hck
        cases hck
        simp only [luaX_next_dyd, luaK_getlabel] at h1 h2
        obtain ⟨fs1, e, r1, r2, r3, r4, r5⟩ := h2 _ _ rfl
        rw [e] at hfsC
        cases hfsC
        have e3 := (fun hh => findgotos_inv _ _ _ fsC prev0 blC restC hh hblC h) e
        subst e3
        refine ⟨h1, ?_⟩
        intro fs prev hfs
        rw [hfs0] at hfs
        cases hfs
        refine ⟨_, rfl, r1, r2, r3, r4, ?_⟩
        intro b rest hb hle
        have hb2 := (r2.trans hb).symm.trans hblC
        cases hb2
        have := r5 _ _ hb hle
        simp only [List.length_append, List.length_take]
        omega

theorem labelstat_noops_error (R : StatRules) (fuel : Nat) (ls : LexState)
    (fs : FuncState) (prev : List FuncState) (bl : BlockCnt) (previous : List BlockCnt)
    (L : TString) (line : Int) (e : ParseError)
    (hfs : ls.fs = fs :: prev) (hbl : fs.bl = bl :: previous)
    (htok : ls.t.token = Tok.TK_DBCOLON)
    (hrep : ∀ lb ∈ ls.dyd.label.drop bl.firstlabel, lb.name ≠ L)
    (hlim : (ls.dyd.label.length : Int) < SHRT_MAX)
    (hskip : skipnoopstat R fuel
      { luaX_next ls with
        fs := (luaK_getlabel fs).2 :: prev,
        dyd := { ls.dyd with
          label := ls.dyd.label ++
            [{ name := L, line := line, nactvar := fs.nactvar, pc := fs.pc }] } } =
        Except.error e) :
    labelstat R (fuel + 1) ls L line = Except.error e := by
  have hchk : checkrepeated fs ls.dyd.label L = Except.ok () :=
    ((checkrepeated_iff fs bl previous ls.dyd.label L hbl).2).mpr hrep
  have hnext : checknext ls Tok.TK_DBCOLON = Except.ok (luaX_next ls) := by
    simp [checknext, check, htok]
  have hnew : newlabelentry (luaX_next ls) (luaX_next ls).dyd.label L line fs.pc =
      Except.ok (ls.dyd.label.length,
        ls.dyd.label ++ [{ name := L, line := line, nactvar := fs.nactvar, pc := fs.pc }]) := by
    unfold newlabelentry
    rw [luaX_next_fs, hfs, luaX_next_dyd]
    have : ¬ ((ls.dyd.label.length : Int) ≥ SHRT_MAX) := by omega
    simp [this]
  have hdyd : (luaX_next ls).dyd = ls.dyd := luaX_next_dyd ls
  rw [labelstat, hfs]
  simp only [hchk, hnext, luaK_getlabel, hnew]
  simp only [luaK_getlabel, hdyd] at hskip
  simp only [hdyd, hskip]

theorem labelstat_noops_findgotos (R : StatRules) (fuel : Nat) (ls s2 : LexState)
    (fs fs2 : FuncState) (prev prev2 : List FuncState) (bl bl2 : BlockCnt)
    (previous previous2 : List BlockCnt) (L : TString) (line : Int)
    (hfs : ls.fs = fs :: prev) (hbl : fs.bl = bl :: previous)
    (htok : ls.t.token = Tok.TK_DBCOLON)
    (hrep : ∀ lb ∈ ls.dyd.label.drop bl.firstlabel, lb.name ≠ L)
    (hlim : (ls.dyd.label.length : Int) < SHRT_MAX)
    (hskip : skipnoopstat R fuel
      { luaX_next ls with
        fs := (luaK_getlabel fs).2 :: prev,
        dyd := { ls.dyd with
          label := ls.dyd.label ++
            [{ name := L, line := line, nactvar := fs.nactvar, pc := fs.pc }] } } =
        Except.ok s2)
    (hfs2 : s2.fs = fs2 :: prev2) (hbl2 : fs2.bl = bl2 :: previous2) :
    labelstat R (fuel + 1) ls L line =
      findgotos
        { s2 with dyd := { s2.dyd with
          label := s2.dyd.label.set ls.dyd.label.length
            { name := L, line := line,
              nactvar := if block_follow s2 false then bl2.nactvar else fs.nactvar,
              pc := fs.pc } } }
        { name := L, line := line,
          nactvar := if block_follow s2 false then bl2.nactvar else fs.nactvar, pc := fs.pc } := by
  have hchk : checkrepeated fs ls.dyd.label L = Except.ok () :=
    ((checkrepeated_iff fs bl previous ls.dyd.label L hbl).2).mpr hrep
  have hnext : checknext ls Tok.TK_DBCOLON = Except.ok (luaX_next ls) := by
    simp [checknext, check, htok]
  have hnew : newlabelentry (luaX_next ls) (luaX_next ls).dyd.label L line fs.pc =
      Except.ok (ls.dyd.label.length,
        ls.dyd.label ++ [{ name := L, line := line, nactvar := fs.nactvar, pc := fs.pc }]) := by
    unfold newlabelentry
    rw [luaX_next_fs, hfs, luaX_next_dyd]
    have : ¬ ((ls.dyd.label.length : Int) ≥ SHRT_MAX) := by omega
    simp [this]
  have hget : s2.dyd.label.get? ls.dyd.label.length =
      some { name := L, line := line, nactvar := fs.nactvar, pc := fs.pc } := by
    obtain ⟨t, ht⟩ := (noop_labels_kept R fuel).2.1 _ _ hskip
    rw [ht]
    simp only [List.append_assoc, List.singleton_append]
    exact get?_append_length _ _ _
  have hdyd : (luaX_next ls).dyd = ls.dyd := luaX_next_dyd ls
  rw [labelstat, hfs]
  simp only [hchk, hnext, luaK_getlabel, hnew]
  simp only [luaK_getlabel, hdyd] at hskip
  simp only [hdyd, hskip, hfs2, hget, hbl2]
  split <;> rfl

/-- C5, amended.  The parser is at the closing `::` of a label `L` in the block
`bl` of the function `fs`; the label is entered in the label list and the
no-op statements that follow it (`;` and further labels) are parsed by
`skipnoopstat`.
(1) An error raised there, such as that of a following label, is the result of
`labelstat`.
(2) When they are parsed, leaving the state `s2`, the function still has the
block `bl` and the same number of active locals, and the level `lvl` of the
label is that number, or the entry level of the block when the block ends in
`s2`.  If some goto named `L` still pending in the block has fewer active
locals than `lvl`, `labelstat` fails with the "jumps into the scope of local"
error for the first such goto in the pending list, naming the local at that
goto's level (the first local declared after it); if none has fewer,
`labelstat` succeeds, patches every pending goto of that name to the label and
leaves none of them pending. -/
theorem label_scope_check (R : StatRules) (fuel : Nat) (ls : LexState) (fs : FuncState)
    (prev : List FuncState) (bl : BlockCnt) (previous : List BlockCnt) (L : TString)
    (line : Int)
    (hfs : ls.fs = fs :: prev) (hbl : fs.bl = bl :: previous)
    (htok : ls.t.token = Tok.TK_DBCOLON)
    (hrep : ∀ lb ∈ ls.dyd.label.drop bl.firstlabel, lb.name ≠ L)
    (hlim : (ls.dyd.label.length : Int) < SHRT_MAX)
    (hfg : bl.firstgoto ≤ ls.dyd.gt.length) :
    (∀ e : ParseError,
      skipnoopstat R fuel
        { luaX_next ls with
          fs := (luaK_getlabel fs).2 :: prev,
          dyd := { ls.dyd with
            label := ls.dyd.label ++
              [{ name := L, line := line, nactvar := fs.nactvar, pc := fs.pc }] } } =
          Except.error e →
      labelstat R (fuel + 1) ls L line = Except.error e) ∧
    (∀ (s2 : LexState) (fs2 : FuncState) (prev2 : List FuncState) (lvl : Nat),
      skipnoopstat R fuel
        { luaX_next ls with
          fs := (luaK_getlabel fs).2 :: prev,
          dyd := { ls.dyd with
            label := ls.dyd.label ++
              [{ name := L, line := line, nactvar := fs.nactvar, pc := fs.pc }] } } =
          Except.ok s2 →
      s2.fs = fs2 :: prev2 →
      lvl = (if block_follow s2 false then bl.nactvar else fs.nactvar) →
      (prev2 = prev ∧ fs2.bl = bl :: previous ∧ fs2.nactvar = fs.nactvar ∧
        bl.firstgoto ≤ s2.dyd.gt.length) ∧
      (∀ (suf rest : List Labeldesc) (bad : Labeldesc) (lv : LocVar),
        s2.dyd.gt.drop bl.firstgoto = suf ++ bad :: rest →
        (∀ x ∈ suf, x.name = L → lvl ≤ x.nactvar) →
        bad.name = L → bad.nactvar < lvl → getlocvar ls.dyd fs bad.nactvar = some lv →
        labelstat R (fuel + 1) ls L line =
          Except.error (ParseError.jumpsIntoScope L bad.line lv.varname)) ∧
      ((∀ x ∈ s2.dyd.gt.drop bl.firstgoto, x.name = L → lvl ≤ x.nactvar) →
        ∃ ls1 : LexState, labelstat R (fuel + 1) ls L line = Except.ok ls1 ∧
          ls1.fs = { fs2 with
            kcalls := fs2.kcalls ++
              patchCalls fs.pc (gotosNamed L (s2.dyd.gt.drop bl.firstgoto)) } :: prev ∧
          ∀ x ∈ ls1.dyd.gt.drop bl.firstgoto, x.name ≠ L)) := by
  refine ⟨fun e he => labelstat_noops_error R fuel ls fs prev bl previous L line e hfs hbl htok
    hrep hlim he, ?_⟩
  intro s2 fs2 prev2 lvl hskip hfs2 hlvl
  obtain ⟨hact, hfr⟩ := (noop_frame_kept R fuel).2.1 _ _ hskip
  obtain ⟨fs3, e3, r1, r2, r3, r4, r5⟩ := hfr _ _ rfl
  rw [hfs2] at e3
  cases e3
  simp only [luaK_getlabel, luaX_next_dyd] at hact r1 r2 r3 r4 r5
  have hbl2 : fs2.bl = bl :: previous := r2.trans hbl
  have hfg2 : bl.firstgoto ≤ s2.dyd.gt.length := r5 bl previous hbl hfg
  have hstat := labelstat_noops_findgotos R fuel ls s2 fs fs2 prev prev bl bl previous previous L
    line hfs hbl htok hrep hlim hskip hfs2 hbl2
  rw [← hlvl] at hstat
  refine ⟨⟨rfl, hbl2, r3, hfg2⟩, ?_, ?_⟩
  · intro suf rest bad lv hsplit hall hbm hbn hlv
    rw [hstat]
    rw [findgotos_err
      { s2 with dyd := { s2.dyd with
        label := s2.dyd.label.set ls.dyd.label.length
          { name := L, line := line, nactvar := lvl, pc := fs.pc } } }
      { name := L, line := line, nactvar := lvl, pc := fs.pc } bad fs2 prev bl
      previous suf rest lv hfs2 hbl2 hfg2 hsplit
      (fun x hx hm => hall x hx (by simpa [eqstr] using hm))
      (by simp [eqstr, hbm]) hbn
      (by rw [← hlv]; exact getlocvar_congr _ _ _ _ _ hact (by rw [r1]) r4)]
    rw [hbm]
  · intro hall
    rw [hstat]
    refine ⟨_, findgotos_ok
      { s2 with dyd := { s2.dyd with
        label := s2.dyd.label.set ls.dyd.label.length
          { name := L, line := line, nactvar := lvl, pc := fs.pc } } }
      { name := L, line := line, nactvar := lvl, pc := fs.pc } fs2 prev
      bl previous hfs2 hbl2 hfg2
      (fun x hx hm => hall x hx (by simpa [eqstr] using hm)), rfl, ?_⟩
    intro x hx
    simp only [] at hx
    rw [drop_take_append _ _ _ hfg2] at hx
    exact ((mem_gotosNotNamed L _ x).mp hx).2

/-- Witness of C5.  In `goto L local x ::L:: ; local y` the label is followed
by `;` and is not the last statement: the goto has 0 active locals and the
label 1, and the error names `x`.  In `goto L ::L:: ;` the goto is patched.  In
`goto L goto M local x ::L:: ::M:: f` the label `M` that follows `L` is declared
first and its error, for `goto M`, is the one reported. -/
theorem label_scope_check_witness :
    labelstat localStatRules 5 sampleAtLabelNoop "L" 1 =
        Except.error (ParseError.jumpsIntoScope "L" 1 "x") ∧
    (∃ ls1 : LexState, labelstat localStatRules 5 sampleAtLabelCloseNoop "L" 1 = Except.ok ls1 ∧
      ls1.fs = [{ sampleFsGoto with
        lasttarget := 1,
        kcalls := [KCall.jump 0, KCall.getlabel 1, KCall.patchlist 0 1] }] ∧
      ∀ x ∈ ls1.dyd.gt.drop 0, x.name ≠ "L") ∧
    labelstat localStatRules 5 sampleAtTwoLabels "L" 1 =
        Except.error (ParseError.jumpsIntoScope "M" 1 "x") :=
  ⟨((label_scope_check localStatRules 4 sampleAtLabelNoop sampleFsLocal [] sampleBlock []
      "L" 1 rfl rfl rfl (by decide) (by decide) (by decide)).2 sampleAfterNoop _ [] 1
      (by decide) rfl rfl).2.1
      [] [] samplePendingGoto { varname := "x", startpc := 1 } rfl (by decide) rfl (by decide)
      rfl,
    ((label_scope_check localStatRules 4 sampleAtLabelCloseNoop sampleFsGoto [] sampleBlock []
      "L" 1 rfl rfl rfl (by decide) (by decide) (by decide)).2 sampleAfterCloseNoop _ [] 0
      (by decide) rfl rfl).2.2 (by decide),
    (label_scope_check localStatRules 4 sampleAtTwoLabels sampleFsLocal [] sampleBlock []
      "L" 1 rfl rfl rfl (by decide) (by decide) (by decide)).1 _ (by decide)⟩

section ExprFrames

variable {C : Type u} {J : C → LexState → Prop} {up : C → C}

theorem ekeep_testnext (F : ExprLaws J up) {c : C} {ls ls1 : LexState} {t : Tok}
    {b : Bool} (h : testnext ls t = (b, ls1)) (hJ : J c ls) : J c ls1 := by
  unfold testnext at h
  split at h <;> cases h
  · exact F.next hJ
  · exact hJ

theorem ekeep_checknext (F : ExprLaws J up) {c : C} {ls ls1 : LexState} {t : Tok}
    (h : checknext ls t = Except.ok ls1) (hJ : J c ls) : J c ls1 := by
  unfold checknext at h
  split at h <;> cases h
  exact F.next hJ

theorem ekeep_str_checkname (F : ExprLaws J up) {c : C} {ls ls1 : LexState}
    {s : TString} (h : str_checkname ls = Except.ok (s, ls1)) (hJ : J c ls) : J c ls1 := by
  unfold str_checkname at h
  split at h <;> cases h
  exact F.next hJ

theorem ekeep_check_match (F : ExprLaws J up) {c : C} {ls ls1 : LexState}
    {what who : Tok} {w : Int} (h : check_match ls what who w = Except.ok ls1) (hJ : J c ls) :
    J c ls1 := by
  unfold check_match at h
  repeat' split at h
  all_goals try cases h
  exact ekeep_testnext F (by assumption) hJ

theorem ekeep_onFs (F : ExprLaws J up) {α : Type} {c : C} {ls ls1 : LexState}
    {k : FuncState → α × FuncState} {a : α}
    (h : ls.onFs k = Except.ok (a, ls1)) (hk : ∀ fs, sameFrame fs (k fs).2) (hJ : J c ls) :
    J c ls1 := by
  unfold LexState.onFs at h
  split at h <;> cases h
  exact F.head (by assumption) (hk _) hJ

theorem ekeep_doFs (F : ExprLaws J up) {c : C} {ls ls1 : LexState}
    {k : FuncState → FuncState}
    (h : ls.doFs k = Except.ok ls1) (hk : ∀ fs, sameFrame fs (k fs)) (hJ : J c ls) :
    J c ls1 := by
  unfold LexState.doFs at h
  split at h <;> cases h
  exact F.head (by assumption) (hk _) hJ

theorem ekeep_subexpr (F : ExprLaws J up) (X : ExprParser) (hX : KeepX J X) :
    ∀ fuel, (∀ limit, KeepX J (fun ls => subexpr X fuel ls limit)) ∧
      (∀ (v : expdesc) (op : BinOpr) (limit : Nat) {c : C} {ls ls1 : LexState}
        {a : expdesc × BinOpr},
        subexpr_while X fuel ls v op limit = Except.ok (a, ls1) → J (up c) ls → J c ls1) := by
  intro fuel
  induction fuel with
  | zero =>
    refine ⟨?_, ?_⟩
    · intro limit c ls ls1 a h _; simp [subexpr] at h
    · intro v op limit c ls ls1 a h _; simp [subexpr_while] at h
  | succ fuel ih =>
    obtain ⟨ihs, ihw⟩ := ih
    refine ⟨?_, ?_⟩
    · intro limit c ls ls1 a h hJ
      simp only [subexpr] at h
      repeat' split at h
      all_goals try cases h
      all_goals
        rename_i _ lsA hent _ v lsB hmid
        have hA : J (up c) lsA := F.enter hent hJ
        refine ihw _ _ _ h ?_
        repeat' split at hmid
        all_goals try cases hmid
        all_goals repeat (first
          | exact hA
          | refine F.next ?_
          | refine ekeep_onFs F (by assumption) (fun fs => sameFrame_of (by simp) (by simp) (by simp) (by simp)) ?_
          | refine ihs _ (by assumption) ?_
          | refine hX (by assumption) ?_)
    · intro v op limit c ls ls1 a h hJ
      simp only [subexpr_while] at h
      repeat' split at h
      all_goals try cases h
      all_goals repeat (first
        | exact hJ
        | refine F.leave ?_
        | refine F.next ?_
        | refine ihw _ _ _ (by assumption) ?_
        | refine ekeep_onFs F (by assumption) (fun fs => sameFrame_of (by simp) (by simp) (by simp) (by simp)) ?_
        | refine ihs _ (by assumption) ?_)

theorem ekeep_expr (F : ExprLaws J up) (X : ExprParser) (hX : KeepX J X) (fuel : Nat) :
    KeepX J (expr X fuel) := by
  intro c ls ls1 a h hJ
  simp only [expr] at h
  repeat' split at h
  all_goals try cases h
  exact (ekeep_subexpr F X hX fuel).1 _ (by assumption) hJ

theorem ekeep_simpleexp (F : ExprLaws J up) (E : ExpRules) (hE : KeepE J E) :
    KeepX J (simpleexp E) := by
  intro c ls ls1 a h hJ
  simp only [simpleexp] at h
  repeat' split at h
  all_goals try cases h
  all_goals repeat (first
    | exact hJ
    | refine F.next ?_
    | refine ekeep_onFs F (by assumption) (fun fs => sameFrame_of (by simp) (by simp) (by simp) (by simp)) ?_
    | refine hE.constructor (by assumption) ?_
    | refine hE.body _ _ (by assumption) ?_
    | refine hE.suffixedexp (by assumption) ?_)

theorem ekeep_adjust_assign (F : ExprLaws J up) (nvars nexps : Int) (e : expdesc) :
    KeepS J (fun ls => adjust_assign ls nvars nexps e) := by
  intro c ls ls1 h hJ
  simp only [adjust_assign] at h
  repeat' split at h
  all_goals try cases h
  all_goals
    refine F.head (by assumption) (sameFrame_of ?_ ?_ ?_ ?_) hJ
  all_goals simp

theorem ekeep_explist (F : ExprLaws J up) (X : ExprParser) (hX : KeepX J X) :
    ∀ fuel, (∀ n v, KeepX J (fun ls => explist.explist_loop X fuel n v ls)) := by
  intro fuel
  induction fuel with
  | zero => intro n v c ls ls1 a h _; simp [explist.explist_loop] at h
  | succ fuel ih =>
    intro n v c ls ls1 a h hJ
    simp only [explist.explist_loop] at h
    repeat' split at h
    all_goals try cases h
    all_goals repeat (first
      | exact hJ
      | refine ekeep_testnext F (by assumption) ?_
      | refine ekeep_onFs F (by assumption) (fun fs => sameFrame_of (by simp) (by simp) (by simp) (by simp)) ?_
      | refine ih _ _ (by assumption) ?_
      | refine hX (by assumption) ?_)

theorem ekeep_explist_top (F : ExprLaws J up) (X : ExprParser) (hX : KeepX J X)
    (fuel : Nat) : KeepX J (fun ls => explist X ls fuel) := by
  intro c ls ls1 a h hJ
  cases fuel with
  | zero => simp [explist] at h
  | succ fuel =>
    simp only [explist] at h
    repeat' split at h
    all_goals try cases h
    all_goals repeat (first
      | exact hJ
      | refine ekeep_explist F X hX _ _ _ (by assumption) ?_
      | refine hX (by assumption) ?_)

theorem ekeep_codestring (F : ExprLaws J up) (s : TString) :
    KeepX J (fun ls => codestring ls s) := by
  intro c ls ls1 a h hJ
  simp only [codestring] at h
  repeat' split at h
  all_goals try cases h
  exact ekeep_onFs F (by assumption) (fun fs => sameFrame_of (by simp) (by simp) (by simp) (by simp)) hJ

theorem ekeep_checkname (F : ExprLaws J up) : KeepX J checkname := by
  intro c ls ls1 a h hJ
  simp only [checkname] at h
  repeat' split at h
  all_goals try cases h
  exact ekeep_codestring F _ h (ekeep_str_checkname F (by assumption) hJ)

theorem ekeep_singlevar (F : ExprLaws J up) : KeepX J singlevar := by
  intro c ls ls1 a h hJ
  simp only [singlevar] at h
  repeat' split at h
  all_goals try cases h
  · rename_i _ nm lsA hname _ var fss hres hvoid _ var1 fss1 hres1 _ key lsB hcode
    have hA : J c lsA := ekeep_str_checkname F hname hJ
    have hB : J c { lsA with fs := fss } := F.resolve hres hA
    have hC : J c { lsA with fs := fss1 } := F.resolve hres1 hB
    exact ekeep_onFs F h (fun fs => sameFrame_of (by simp) (by simp) (by simp) (by simp))
      (ekeep_codestring F _ hcode hC)
  · rename_i hres _
    exact F.resolve hres (ekeep_str_checkname F (by assumption) hJ)

theorem ekeep_fieldsel (F : ExprLaws J up) (v : expdesc) :
    KeepX J (fun ls => fieldsel ls v) := by
  intro c ls ls1 a h hJ
  simp only [fieldsel] at h
  repeat' split at h
  all_goals try cases h
  all_goals repeat (first
    | exact hJ
    | refine F.next ?_
    | refine ekeep_onFs F (by assumption) (fun fs => sameFrame_of (by simp) (by simp) (by simp) (by simp)) ?_
    | refine ekeep_checkname F (by assumption) ?_)

theorem ekeep_yindex (F : ExprLaws J up) (X : ExprParser) (hX : KeepX J X) :
    KeepX J (yindex X) := by
  intro c ls ls1 a h hJ
  simp only [yindex] at h
  repeat' split at h
  all_goals try cases h
  all_goals repeat (first
    | exact hJ
    | refine F.next ?_
    | refine ekeep_checknext F (by assumption) ?_
    | refine ekeep_onFs F (by assumption) (fun fs => sameFrame_of (by simp) (by simp) (by simp) (by simp)) ?_
    | refine hX (by assumption) ?_)

theorem ekeep_listfield (_F : ExprLaws J up) (X : ExprParser) (hX : KeepX J X)
    (cc : ConsControl) : KeepX J (fun ls => listfield X ls cc) := by
  intro c ls ls1 a h hJ
  simp only [listfield] at h
  repeat' split at h
  all_goals try cases h
  exact hX (by assumption) hJ

theorem ekeep_recfield (F : ExprLaws J up) (X : ExprParser) (hX : KeepX J X)
    (cc : ConsControl) : KeepX J (fun ls => recfield X ls cc) := by
  intro c ls ls1 a h hJ
  simp only [recfield] at h
  repeat' split at h
  all_goals try cases h
  all_goals
    rename_i lsA hkey _ _ _ _ _ _ _ _ _ _ _ _ _ _ _ _ _
    have hA : J c lsA := by
      repeat' split at hkey
      all_goals try cases hkey
      all_goals repeat (first
        | exact hJ
        | refine ekeep_checkname F (by assumption) ?_
        | refine ekeep_yindex F X hX (by assumption) ?_)
    repeat (first
      | exact hA
      | refine ekeep_checknext F (by assumption) ?_
      | refine ekeep_doFs F (by assumption) (fun fs => sameFrame_of (by simp) (by simp) (by simp) (by simp)) ?_
      | refine ekeep_onFs F (by assumption) (fun fs => sameFrame_of (by simp) (by simp) (by simp) (by simp)) ?_
      | refine hX (by assumption) ?_)

theorem ekeep_field (F : ExprLaws J up) (X : ExprParser) (hX : KeepX J X)
    (cc : ConsControl) : KeepX J (fun ls => field X ls cc) := by
  intro c ls ls1 a h hJ
  simp only [field] at h
  repeat' split at h
  all_goals repeat (first
    | exact hJ
    | refine ekeep_listfield F X hX _ (by assumption) ?_
    | refine ekeep_recfield F X hX _ (by assumption) ?_)

theorem ekeep_constructor_loop (F : ExprLaws J up) (X : ExprParser) (hX : KeepX J X) :
    ∀ fuel cc, KeepX J (fun ls => constructor_loop X fuel cc ls) := by
  intro fuel
  induction fuel with
  | zero => intro cc c ls ls1 a h _; simp [constructor_loop] at h
  | succ fuel ih =>
    intro cc c ls ls1 a h hJ
    simp only [constructor_loop] at h
    repeat' split at h
    all_goals try cases h
    all_goals repeat (first
      | exact hJ
      | refine ih _ (by assumption) ?_
      | refine ekeep_testnext F (by assumption) ?_
      | refine ekeep_field F X hX _ (by assumption) ?_
      | refine ekeep_onFs F (by assumption) (fun fs => sameFrame_of (by simp) (by simp) (by simp) (by simp)) ?_)

theorem ekeep_constructor_open (F : ExprLaws J up) : KeepX J constructor_open := by
  intro c ls ls1 a h hJ
  simp only [constructor_open] at h
  repeat' split at h
  all_goals try cases h
  all_goals repeat (first
    | exact hJ
    | refine ekeep_checknext F (by assumption) ?_
    | refine ekeep_onFs F (by assumption) (fun fs => sameFrame_of (by simp) (by simp) (by simp) (by simp)) ?_)

theorem ekeep_constructor_close (F : ExprLaws J up) (line pc : Int) (cc : ConsControl) :
    KeepS J (fun ls => constructor_close ls line pc cc) := by
  intro c ls ls1 h hJ
  simp only [constructor_close] at h
  repeat' split at h
  all_goals try cases h
  all_goals repeat (first
    | exact hJ
    | refine ekeep_check_match F (by assumption) ?_
    | refine ekeep_doFs F (by assumption) (fun fs => sameFrame_of (by simp) (by simp) (by simp) (by simp)) ?_
    | refine ekeep_onFs F (by assumption) (fun fs => sameFrame_of (by simp) (by simp) (by simp) (by simp)) ?_)

theorem ekeep_constructor (F : ExprLaws J up) (X : ExprParser) (hX : KeepX J X)
    (fuel : Nat) : KeepX J (constructor X fuel) := by
  intro c ls ls1 a h hJ
  simp only [constructor] at h
  repeat' split at h
  all_goals try cases h
  all_goals repeat (first
    | exact hJ
    | refine ekeep_constructor_close F _ _ _ (by assumption) ?_
    | refine ekeep_constructor_loop F X hX _ _ (by assumption) ?_
    | refine ekeep_constructor_open F (by assumption) ?_)

theorem ekeep_funcargs (F : ExprLaws J up) (X : ExprParser) (hX : KeepX J X)
    (fuel : Nat) (f : expdesc) (line : Int) :
    KeepX J (fun ls => funcargs X fuel ls f line) := by
  intro c ls ls1 a h hJ
  simp only [funcargs] at h
  split at h
  · cases h
  rename_i hmid
  refine ekeep_onFs F h (fun fs => sameFrame_of ?_ ?_ ?_ ?_) ?_
  · simp only [luaK_fixline_f, luaK_codeABC_f]; split <;> try split
    all_goals simp
  · simp only []; split <;> try split
    all_goals simp
  · simp only []; split <;> try split
    all_goals simp
  · simp only []; split <;> try split
    all_goals simp
  repeat' split at hmid
  all_goals try cases hmid
  all_goals repeat (first
    | exact hJ
    | refine F.next ?_
    | refine ekeep_check_match F (by assumption) ?_
    | refine ekeep_explist_top F X hX _ (by assumption) ?_
    | refine ekeep_constructor F X hX _ (by assumption) ?_
    | refine ekeep_codestring F _ (by assumption) ?_)
  rename_i hmid2 _
  repeat' split at hmid2
  all_goals try cases hmid2
  all_goals repeat (first
    | exact hJ
    | refine F.next ?_
    | refine ekeep_doFs F (by assumption) (fun fs => sameFrame_of (by simp) (by simp) (by simp) (by simp)) ?_
    | refine ekeep_explist_top F X hX _ (by assumption) ?_)

theorem ekeep_primaryexp (F : ExprLaws J up) (X : ExprParser) (hX : KeepX J X) :
    KeepX J (primaryexp X) := by
  intro c ls ls1 a h hJ
  simp only [primaryexp] at h
  repeat' split at h
  all_goals try cases h
  all_goals repeat (first
    | exact hJ
    | refine F.next ?_
    | refine ekeep_check_match F (by assumption) ?_
    | refine ekeep_onFs F (by assumption) (fun fs => sameFrame_of (by simp) (by simp) (by simp) (by simp)) ?_
    | refine ekeep_singlevar F (by assumption) ?_
    | refine hX (by assumption) ?_)

theorem ekeep_suffixedexp_loop (F : ExprLaws J up) (X : ExprParser) (hX : KeepX J X)
    (line : Int) : ∀ fuel v, KeepX J (suffixedexp_loop X line fuel v) := by
  intro fuel
  induction fuel with
  | zero => intro v c ls ls1 a h _; simp [suffixedexp_loop] at h
  | succ fuel ih =>
    intro v c ls ls1 a h hJ
    simp only [suffixedexp_loop] at h
    repeat' split at h
    all_goals try cases h
    all_goals repeat (first
      | exact hJ
      | refine F.next ?_
      | refine ih _ (by assumption) ?_
      | refine ekeep_funcargs F X hX _ _ _ (by assumption) ?_
      | refine ekeep_onFs F (by assumption) (fun fs => sameFrame_of (by simp) (by simp) (by simp) (by simp)) ?_
      | refine ekeep_checkname F (by assumption) ?_
      | refine ekeep_yindex F X hX (by assumption) ?_
      | refine ekeep_fieldsel F _ (by assumption) ?_)

theorem ekeep_suffixedexp (F : ExprLaws J up) (X : ExprParser) (hX : KeepX J X)
    (fuel : Nat) : KeepX J (suffixedexp X fuel) := by
  intro c ls ls1 a h hJ
  simp only [suffixedexp] at h
  repeat' split at h
  all_goals try cases h
  all_goals repeat (first
    | exact hJ
    | refine ekeep_suffixedexp_loop F X hX _ _ _ (by assumption) ?_
    | refine ekeep_primaryexp F X hX (by assumption) ?_)

theorem ekeep_exp1 (F : ExprLaws J up) (X : ExprParser) (hX : KeepX J X) :
    KeepX J (exp1 X) := by
  intro c ls ls1 a h hJ
  simp only [exp1] at h
  repeat' split at h
  all_goals try cases h
  all_goals repeat (first
    | exact hJ
    | refine ekeep_onFs F (by assumption) (fun fs => sameFrame_of (by simp) (by simp) (by simp) (by simp)) ?_
    | refine hX (by assumption) ?_)

end ExprFrames

theorem framesAt_laws : ExprLaws FramesAt id where
  next := by
    intro p ls h
    exact ⟨scopeInv_laws.next h.1, by rw [luaX_next_fs]; exact h.2.1,
      by rw [luaX_next_dyd]; exact h.2.2⟩
  head := by
    intro p ls fs fs1 prev hfs hs h
    refine ⟨scopeInv_laws.head hfs hs h.1, ?_, h.2.2⟩
    rw [← h.2.1, hfs]
    simp [frameSnap_same hs]
  enter := by
    intro p ls ls1 h hJ
    rw [enterlevel_inv ls ls1 h]
    exact hJ
  leave := fun h => h
  resolve := by
    intro p ls fss0 fss n v h hJ
    obtain ⟨e1, _, _⟩ := singlevaraux_frames ls.dyd n fss0 fss true v h
    exact ⟨scopeInv_laws.resolve h hJ.1, e1.trans hJ.2.1, hJ.2.2⟩

theorem frames_body (n fuel : Nat) (ismethod : Bool) (line : Int) :
    KeepX FramesAt (fun ls => body (parsers n).1 fuel ls ismethod line) := by
  intro p ls ls1 a h hJ
  have hv := body_restores n fuel p.1 ls ls1 ismethod line a hJ.1 h
  have h1 : ls1.fs.map frameSnap = ls.fs.map frameSnap := congrArg ScopeView.frames hv
  have h2 : ls1.dyd.gt = ls.dyd.gt := congrArg ScopeView.gt hv
  exact ⟨scopeInv_of_view _ _ _ hv hJ.1, h1.trans hJ.2.1, h2.trans hJ.2.2⟩

theorem frames_parsers : ∀ n, KeepX FramesAt (parsers n).2 := by
  intro n
  induction n with
  | zero => intro p ls ls1 a h _; simp [parsers] at h
  | succ n ih =>
    have hE : KeepE FramesAt (expRules (parsers n).1 (parsers n).2 n) :=
      { constructor := ekeep_constructor framesAt_laws _ ih n
        body := fun ismethod line => frames_body n n ismethod line
        suffixedexp := ekeep_suffixedexp framesAt_laws _ ih n }
    intro p ls ls1 a h hJ
    exact ekeep_expr framesAt_laws _ (ekeep_simpleexp framesAt_laws _ hE) n h hJ

theorem framesAt_newvar (c : ScopeCtx) (s ls ls1 : LexState) (name : TString)
    (h : new_localvar ls name = Except.ok ls1) (hJ : FramesAt (c, s) ls) :
    FramesAt (c.decl, s) ls1 := by
  refine ⟨scopeInv_laws.newvar h hJ.1, ?_, ?_⟩
  · obtain ⟨fs, prev, hfs, e, _⟩ := new_localvar_inv ls ls1 name h
    rw [← hJ.2.1, e, hfs]
    simp [frameSnap]
  · obtain ⟨fs, prev, hfs, e, _⟩ := new_localvar_inv ls ls1 name h
    rw [← hJ.2.2, e]

theorem framesAt_newvar_iter (c : ScopeCtx) (s ls ls1 : LexState) (name : TString) (n : Nat)
    (h : new_localvar ls name = Except.ok ls1)
    (hJ : FramesAt (Nat.iterate ScopeCtx.decl n c, s) ls) :
    FramesAt (Nat.iterate ScopeCtx.decl (n + 1) c, s) ls1 := by
  rw [← iterate_decl_succ]
  exact framesAt_newvar _ s ls ls1 name h hJ

theorem emptyRange_of_frames (s ls : LexState)
    (h1 : ls.fs.map frameSnap = s.fs.map frameSnap) (h2 : ls.dyd.gt = s.dyd.gt)
    (hE : EmptyRange s) : EmptyRange ls := by
  obtain ⟨fs, prev, bl, rest, hfs, hbl, he⟩ := hE
  rw [hfs] at h1
  cases hl : ls.fs with
  | nil => rw [hl] at h1; simp at h1
  | cons fs1 prev1 =>
    rw [hl] at h1
    simp only [List.map_cons, List.cons.injEq, frameSnap, Prod.mk.injEq] at h1
    obtain ⟨⟨_, _, e3⟩, _⟩ := h1
    rw [hbl] at e3
    cases hb : fs1.bl with
    | nil => rw [hb] at e3; simp at e3
    | cons bl1 rest1 =>
      rw [hb] at e3
      simp only [List.map_cons, List.cons.injEq, blockSnap, Prod.mk.injEq] at e3
      exact ⟨fs1, prev1, bl1, rest1, hl, hb, by rw [h2]; omega⟩

theorem gotosAbove_of_frames (s ls : LexState)
    (h1 : ls.fs.map frameSnap = s.fs.map frameSnap) (h2 : ls.dyd.gt = s.dyd.gt)
    (hE : GotosAbove s) : GotosAbove ls := by
  obtain ⟨fs, prev, bl, rest, hfs, hbl, he⟩ := hE
  rw [hfs] at h1
  cases hl : ls.fs with
  | nil => rw [hl] at h1; simp at h1
  | cons fs1 prev1 =>
    rw [hl] at h1
    simp only [List.map_cons, List.cons.injEq, frameSnap, Prod.mk.injEq] at h1
    obtain ⟨⟨_, e2, e3⟩, _⟩ := h1
    rw [hbl] at e3
    cases hb : fs1.bl with
    | nil => rw [hb] at e3; simp at e3
    | cons bl1 rest1 =>
      rw [hb] at e3
      simp only [List.map_cons, List.cons.injEq, blockSnap, Prod.mk.injEq] at e3
      refine ⟨fs1, prev1, bl1, rest1, hl, hb, ?_⟩
      rw [h2, e3.1.2.1, e2]
      exact he

theorem enterblock_emptyRange (ls ls1 : LexState) (b : Bool)
    (h : enterblock ls b = Except.ok ls1) : EmptyRange ls1 := by
  obtain ⟨fs, prev, hfs, e⟩ := enterblock_inv ls ls1 b h
  subst e
  exact ⟨_, prev, _, fs.bl, rfl, rfl, rfl⟩

theorem scopeInv_frames (c : ScopeCtx) (n : Nat) (ls : LexState)
    (h : ScopeInv (Nat.iterate ScopeCtx.decl n c) ls) :
    ∃ fs prev, ls.fs = fs :: prev ∧ fs.firstlocal = c.fl ∧
      fs.bl.map blockSnap = c.hb ++ [(c.L0.length, c.G0.length, 0)] ∧
      prev.map frameSnap = c.tl := by
  rw [scopeCtx_decl_iterate] at h
  obtain ⟨fs, prev, hfs, h1, h2, h3, _⟩ := scopeInv_head _ ls h
  exact ⟨fs, prev, hfs, h1, h2, h3⟩

theorem leave_pushed (c : ScopeCtx) (n : Nat) (s ls ls1 : LexState)
    (hs : ScopeInv (Nat.iterate ScopeCtx.decl n c) s)
    (hJ : ScopeInv (ScopeCtx.push s c) ls) (h : leaveblock ls = Except.ok ls1) :
    ls1.fs.map frameSnap = s.fs.map frameSnap ∧
    ∃ sfs sprev, s.fs = sfs :: sprev ∧
      ∀ g ∈ ls1.dyd.gt.drop s.dyd.gt.length, sfs.nactvar ≤ g.nactvar := by
  obtain ⟨sfs, sprev, hsfs, s1, s2, s3⟩ := scopeInv_frames c n s hs
  obtain ⟨fs, prev, hfs, h1, h2, h3, h4, h5, h6, h7, h8, h9⟩ := scopeInv_head _ ls hJ
  simp only [ScopeCtx.push, hsfs] at h1 h2 h3 h4 h5 h6 h7 h8 h9
  cases hbl : fs.bl with
  | nil => rw [hbl] at h2; simp at h2
  | cons bl previous =>
    rw [hbl] at h2
    simp only [List.map_cons, List.cons_append, List.cons.injEq] at h2
    obtain ⟨hsnap, hprev⟩ := h2
    obtain ⟨a1, a2, a3, a4, a5⟩ := h8
    rw [← hsnap] at a1 a2 a4 a5
    obtain ⟨b1, b2, b3, b4, b5⟩ := a2 _ (List.mem_cons_self _ _)
    simp only [blockSnap, Prod.mk.injEq] at b1 b2 b3 b4 b5 hsnap
    obtain ⟨q1, q2, q3⟩ := hsnap
    obtain ⟨i1, i2, _, L, e, _⟩ := leaveblock_inv ls ls1 fs prev bl previous hfs hbl h
    cases previous with
    | nil => simp at hprev
    | cons parent rest =>
      simp only [leaveGotos] at e
      have hlen : (ls.dyd.gt.take bl.firstgoto).length = bl.firstgoto := by
        rw [List.length_take]; omega
      subst e
      refine ⟨?_, sfs, sprev, hsfs, ?_⟩
      · rw [hsfs]
        simp only [List.map_cons, frameSnap, List.cons.injEq, Prod.mk.injEq]
        exact ⟨⟨h1.trans s1.symm, q3, hprev.trans s2.symm⟩, h3.trans s3.symm⟩
      · intro g hg
        have hg : g ∈ (ls.dyd.gt.take bl.firstgoto ++
          movedOut bl parent (labelsLeft bl fs.nactvar (exitPc fs bl (parent :: rest))
            ls.dyd.label) (afterBreaks bl ls.dyd.gt)).drop s.dyd.gt.length := hg
        rw [← q2, drop_take_append _ _ _ b4] at hg
        obtain ⟨g0, hg0, rfl, _⟩ := movedOut_mem _ _ _ _ _ hg
        have := a5 _ (List.mem_cons_self _ _) g0 (afterBreaks_mem _ _ _ hg0).1
        simp only [blockSnap] at this
        rw [← q3]
        exact rehomed_nactvar_ge bl g0 _ (le_refl _) this

theorem whilestat_factors (X : ExprParser) (S : StmtParser) (fuel : Nat) (ls : LexState)
    (line : Int) :
    whilestat X S fuel ls line =
      match whilestat_exit X S fuel ls line with
      | Except.error e => Except.error e
      | Except.ok (condexit, ls7) =>
        match leaveblock ls7 with
        | Except.error e => Except.error e
        | Except.ok ls8 => ls8.doFs (fun fs => luaK_patchtohere fs condexit) := by
  simp only [whilestat, whilestat_exit]
  repeat' split
  all_goals simp_all

theorem repeatstat_factors (X : ExprParser) (S : StmtParser) (fuel : Nat) (ls : LexState)
    (line : Int) :
    repeatstat X S fuel ls line =
      match repeatstat_exit X S fuel ls line with
      | Except.error e => Except.error e
      | Except.ok ls8 => leaveblock ls8 := by
  simp only [repeatstat, repeatstat_exit]
  repeat' split
  all_goals simp_all

theorem forstat_factors (X : ExprParser) (S : StmtParser) (fuel : Nat) (ls : LexState)
    (line : Int) :
    forstat X S fuel ls line =
      match forstat_exit X S fuel ls line with
      | Except.error e => Except.error e
      | Except.ok ls4 => leaveblock ls4 := by
  have key : ∀ r : Except ParseError LexState,
      (match r with
        | Except.error e => Except.error e
        | Except.ok ls3 =>
          match check_match ls3 Tok.TK_END Tok.TK_FOR line with
          | Except.error e => Except.error e
          | Except.ok ls4 => leaveblock ls4) =
      (match (match r with
          | Except.error e => Except.error e
          | Except.ok ls3 => check_match ls3 Tok.TK_END Tok.TK_FOR line) with
        | Except.error e => Except.error e
        | Except.ok ls4 => leaveblock ls4) := by
    intro r
    cases r with
    | error e => rfl
    | ok ls3 => cases check_match ls3 Tok.TK_END Tok.TK_FOR line <;> rfl
  simp only [forstat, forstat_exit]
  split
  · rename_i h1
    first | rfl | simp only [h1]
  rename_i h1
  try simp only [h1]
  split
  · rename_i h2
    first | rfl | simp only [h2]
  rename_i h2
  try simp only [h2]
  exact key _

theorem block_exported (S : StmtParser) (hS : KeepS ScopeInv S) (fuel : Nat) (c : ScopeCtx)
    (ls ls1 : LexState) (hJ : ScopeInv c ls) (h : block S fuel ls = Except.ok ls1) :
    ls1.fs.map frameSnap = ls.fs.map frameSnap ∧
    ∃ fs prev, ls.fs = fs :: prev ∧
      ∀ g ∈ ls1.dyd.gt.drop ls.dyd.gt.length, fs.nactvar ≤ g.nactvar := by
  simp only [block] at h
  split at h
  · cases h
  rename_i lsA hA
  split at h
  · cases h
  rename_i lsB hB
  have h1 : ScopeInv (ScopeCtx.push ls c) lsB :=
    keep_statlist scopeInv_laws S hS fuel hB (scopeInv_laws.enterblock hA hJ)
  exact leave_pushed c 0 ls lsB ls1 hJ h1 h

theorem gotosAbove_of_export (s ls1 : LexState) (hE : EmptyRange s)
    (h1 : ls1.fs.map frameSnap = s.fs.map frameSnap)
    (h2 : ∃ sfs sprev, s.fs = sfs :: sprev ∧
      ∀ g ∈ ls1.dyd.gt.drop s.dyd.gt.length, sfs.nactvar ≤ g.nactvar) :
    GotosAbove ls1 := by
  obtain ⟨fs, prev, bl, rest, hfs, hbl, he⟩ := hE
  obtain ⟨sfs, sprev, hs, hg⟩ := h2
  rw [hfs] at hs
  cases hs
  rw [hfs] at h1
  cases hl : ls1.fs with
  | nil => rw [hl] at h1; simp at h1
  | cons fs1 prev1 =>
    rw [hl] at h1
    simp only [List.map_cons, List.cons.injEq, frameSnap, Prod.mk.injEq] at h1
    obtain ⟨⟨_, e2, e3⟩, _⟩ := h1
    rw [hbl] at e3
    cases hb : fs1.bl with
    | nil => rw [hb] at e3; simp at e3
    | cons bl1 rest1 =>
      rw [hb] at e3
      simp only [List.map_cons, List.cons.injEq, blockSnap, Prod.mk.injEq] at e3
      refine ⟨fs1, prev1, bl1, rest1, hl, hb, ?_⟩
      rw [e3.1.2.1, he, e2]
      exact hg

theorem whilestat_exit_gotos (X : ExprParser) (hX : KeepX ScopeInv X) (S : StmtParser)
    (hS : KeepS ScopeInv S) (fuel : Nat) (c : ScopeCtx) (ls s : LexState) (line r : Int)
    (hJ : ScopeInv c ls) (h : whilestat_exit X S fuel ls line = Except.ok (r, s)) :
    GotosAbove s ∧ ∃ c1, ScopeInv c1 s := by
  simp only [whilestat_exit] at h
  repeat' split at h
  all_goals try cases h
  rename_i _ whileinit ls1 h1 _ ls2 _ ls3 h3 _ ls4 h4 _ ls5 h5 _ ls6 h6 _ h2 h7
  have J2 : ScopeInv c ls2 :=
    keep_cond scopeInv_laws X hX h2
      (keep_onFs scopeInv_laws h1
        (fun fs => sameFrame_of (by simp) (by simp) (by simp) (by simp))
        (scopeInv_laws.next hJ))
  have J3 : ScopeInv (ScopeCtx.push ls2 c) ls3 := scopeInv_laws.enterblock h3 J2
  have F4 : FramesAt (ScopeCtx.push ls2 c, ls3) ls4 :=
    ekeep_checknext framesAt_laws h4 ⟨J3, rfl, rfl⟩
  have E4 : EmptyRange ls4 :=
    emptyRange_of_frames ls3 ls4 F4.2.1 F4.2.2 (enterblock_emptyRange _ _ _ h3)
  obtain ⟨b1, b2⟩ := block_exported S hS fuel _ ls4 ls5 F4.1 h5
  have G5 : GotosAbove ls5 := gotosAbove_of_export ls4 ls5 E4 b1 b2
  have J5 : ScopeInv (ScopeCtx.push ls2 c) ls5 := keep_block scopeInv_laws S hS fuel h5 F4.1
  have F6 : FramesAt (ScopeCtx.push ls2 c, ls5) ls6 :=
    ekeep_doFs framesAt_laws h6
      (fun fs => sameFrame_of (by simp) (by simp) (by simp) (by simp)) ⟨J5, rfl, rfl⟩
  have F7 : FramesAt (ScopeCtx.push ls2 c, ls5) s := ekeep_check_match framesAt_laws h7 F6
  exact ⟨gotosAbove_of_frames ls5 s F7.2.1 F7.2.2 G5, _, F7.1⟩

theorem repeatstat_exit_gotos (X : ExprParser) (hX : KeepX ScopeInv X) (S : StmtParser)
    (hS : KeepS ScopeInv S) (fuel : Nat) (c : ScopeCtx) (ls s : LexState) (line : Int)
    (hJ : ScopeInv c ls) (h : repeatstat_exit X S fuel ls line = Except.ok s) :
    GotosAbove s ∧ ∃ c1, ScopeInv c1 s := by
  simp only [repeatstat_exit] at h
  repeat' split at h
  all_goals try cases h
  all_goals
    rename_i _ repeat_init ls1 h1 _ ls2 h2 _ ls3 h3 _ ls4 h4 _ ls5 h5 _ condexit ls6 h6 _ fs prev
      hfs _ bl2 rest hbl _ ls7 h7
    have J1 : ScopeInv c ls1 :=
      keep_onFs scopeInv_laws h1
        (fun fs => sameFrame_of (by simp) (by simp) (by simp) (by simp)) hJ
    have J2 : ScopeInv (ScopeCtx.push ls1 c) ls2 := scopeInv_laws.enterblock h2 J1
    have J3 : ScopeInv (ScopeCtx.push ls2 (ScopeCtx.push ls1 c)) ls3 :=
      scopeInv_laws.enterblock h3 J2
    have J6 : ScopeInv (ScopeCtx.push ls2 (ScopeCtx.push ls1 c)) ls6 :=
      keep_cond scopeInv_laws X hX h6
        (keep_check_match scopeInv_laws h5
          (keep_statlist scopeInv_laws S hS fuel h4 (scopeInv_laws.next J3)))
    have J6b : ScopeInv (ScopeCtx.push ls2 (ScopeCtx.push ls1 c))
        { ls6 with
          fs := (if bl2.upval then luaK_patchclose fs condexit bl2.nactvar else fs) :: prev } := by
      refine scopeInv_laws.head hfs (sameFrame_of ?_ ?_ ?_ ?_) J6
      all_goals (first | rfl | (split <;> simp))
    obtain ⟨b1, b2⟩ := leave_pushed _ 0 ls2 _ ls7 J2 J6b h7
    have G7 : GotosAbove ls7 :=
      gotosAbove_of_export ls2 ls7 (enterblock_emptyRange _ _ _ h2) b1 b2
    have J7 : ScopeInv (ScopeCtx.push ls1 c) ls7 := scopeInv_laws.leaveblock h7 J6b
    have F8 : FramesAt (ScopeCtx.push ls1 c, ls7) s :=
      ekeep_doFs framesAt_laws h
        (fun fs => sameFrame_of (by simp) (by simp) (by simp) (by simp)) ⟨J7, rfl, rfl⟩
    exact ⟨gotosAbove_of_frames ls7 s F8.2.1 F8.2.2 G7, _, F8.1⟩

theorem adjust_emptyRange (ls ls1 : LexState) (n : Nat)
    (h : adjustlocalvars ls n = Except.ok ls1) (hE : EmptyRange ls) : EmptyRange ls1 := by
  obtain ⟨fs, prev, fs1, hfs, e, hs⟩ := adjustlocalvars_inv ls ls1 n h
  obtain ⟨fs0, prev0, bl, rest, hfs0, hbl, he⟩ := hE
  rw [hfs] at hfs0
  cases hfs0
  subst e
  exact ⟨fs1, prev, bl, rest, rfl, hs.2.2.1.trans hbl, he⟩

theorem forbody_gotos (S : StmtParser) (hS : KeepS ScopeInv S) (fuel : Nat) (base line : Int)
    (nvars : Nat) (isnum : Bool) (c : ScopeCtx) (ls ls1 : LexState)
    (h : forbody S fuel ls base line nvars isnum = Except.ok ls1)
    (hJ : ScopeInv (Nat.iterate ScopeCtx.decl (nvars + 3) c) ls) (hE : EmptyRange ls) :
    GotosAbove ls1 := by
  simp only [forbody] at h
  repeat' split at h
  all_goals try cases h
  all_goals
    rename_i _ lsA hA _ lsB hB _ prep lsC hC _ lsD hD _ lsE hE1 _ lsF hF _ lsG hG _ lsH hH hnum
    have h1 : ScopeInv (Nat.iterate ScopeCtx.decl nvars c) lsA := by
      refine scopeInv_laws.adjust hA ?_
      rw [← Function.iterate_add_apply, Nat.add_comm]
      exact hJ
    have EA : EmptyRange lsA := adjust_emptyRange ls lsA 3 hA hE
    have FC : FramesAt (Nat.iterate ScopeCtx.decl nvars c, lsA) lsC := by
      refine ekeep_onFs framesAt_laws hC (fun fs => sameFrame_of ?_ ?_ ?_ ?_)
        (ekeep_checknext framesAt_laws hB ⟨h1, rfl, rfl⟩)
      all_goals (first | (split <;> simp) | simp)
    have EC : EmptyRange lsC := emptyRange_of_frames lsA lsC FC.2.1 FC.2.2 EA
    have h3 : ScopeInv (Nat.iterate ScopeCtx.decl nvars (ScopeCtx.push lsC c)) lsD := by
      rw [← push_iterate scopeInv_laws]
      exact scopeInv_laws.enterblock hD FC.1
    have h4 : ScopeInv (ScopeCtx.push lsC c) lsF :=
      keep_doFs scopeInv_laws hF
        (fun fs => sameFrame_of (by simp) (by simp) (by simp) (by simp))
        (scopeInv_laws.adjust hE1 h3)
    have hG2 : ScopeInv (ScopeCtx.push lsC c) lsG := keep_block scopeInv_laws S hS _ hG h4
    obtain ⟨b1, b2⟩ := leave_pushed c nvars lsC lsG lsH FC.1 hG2 hH
    have GH : GotosAbove lsH := gotosAbove_of_export lsC lsH EC b1 b2
    have h5 : ScopeInv c lsH := scopeInv_laws.leaveblock hH hG2
    have F1 : FramesAt (c, lsH) ls1 := by
      refine ekeep_doFs framesAt_laws h (fun fs => sameFrame_of ?_ ?_ ?_ ?_) ⟨h5, rfl, rfl⟩
      all_goals (first | (split <;> simp) | simp)
    exact gotosAbove_of_frames lsH ls1 F1.2.1 F1.2.2 GH

theorem fornum_gotos (X : ExprParser) (hX : KeepX FramesAt X) (S : StmtParser)
    (hS : KeepS ScopeInv S) (fuel : Nat) (varname : TString) (line : Int) (c : ScopeCtx)
    (ls ls1 : LexState) (h : fornum X S fuel ls varname line = Except.ok ls1)
    (hJ : ScopeInv c ls) (hE : EmptyRange ls) : GotosAbove ls1 := by
  simp only [fornum] at h
  repeat' split at h
  all_goals try cases h
  rename_i _ fs tl hfs _ l1 e1 _ l2 e2 _ l3 e3 _ l4 e4 _ l5 e5 _ i6 l6 e6 _ l7 e7 _ i8 l8 e8 _
    lsK hmid
  have F4 : FramesAt (Nat.iterate ScopeCtx.decl 4 c, ls) l4 :=
    framesAt_newvar_iter c ls l3 l4 _ 3 e4
      (framesAt_newvar_iter c ls l2 l3 _ 2 e3
        (framesAt_newvar_iter c ls l1 l2 _ 1 e2
          (framesAt_newvar_iter c ls ls l1 _ 0 e1 ⟨hJ, rfl, rfl⟩)))
  have F8 : FramesAt (Nat.iterate ScopeCtx.decl 4 c, ls) l8 :=
    ekeep_exp1 framesAt_laws X hX e8
      (ekeep_checknext framesAt_laws e7
        (ekeep_exp1 framesAt_laws X hX e6 (ekeep_checknext framesAt_laws e5 F4)))
  have FK : FramesAt (Nat.iterate ScopeCtx.decl 4 c, ls) lsK := by
    split at hmid
    · rename_i l9 e9
      split at hmid
      · cases hmid
      · rename_i i10 l10 e10
        cases hmid
        exact ekeep_exp1 framesAt_laws X hX e10 (ekeep_testnext framesAt_laws e9 F8)
    · rename_i l9 e9
      exact ekeep_doFs framesAt_laws hmid
        (fun fs => sameFrame_of (by simp) (by simp) (by simp) (by simp))
        (ekeep_testnext framesAt_laws e9 F8)
  exact forbody_gotos S hS _ _ _ 1 _ c lsK ls1 h FK.1
    (emptyRange_of_frames ls lsK FK.2.1 FK.2.2 hE)

theorem framesAt_forlist_names (s : LexState) :
    ∀ (fuel n : Nat) (c : ScopeCtx) (ls ls1 : LexState) (n1 : Nat),
      forlist_names fuel n ls = Except.ok (n1, ls1) →
      FramesAt (Nat.iterate ScopeCtx.decl n c, s) ls →
      n ≤ n1 ∧ FramesAt (Nat.iterate ScopeCtx.decl n1 c, s) ls1 := by
  intro fuel
  induction fuel with
  | zero => intro n c ls ls1 n1 h _; simp [forlist_names] at h
  | succ fuel ih =>
    intro n c ls ls1 n1 h hJ
    simp only [forlist_names] at h
    repeat' split at h
    all_goals try cases h
    · rename_i _ lsA hA _ name lsB hB _ lsC hC
      have := ih _ c _ _ _ h (framesAt_newvar_iter c s lsB lsC name n hC
        (ekeep_str_checkname framesAt_laws hB (ekeep_testnext framesAt_laws hA hJ)))
      exact ⟨by omega, this.2⟩
    · exact ⟨le_refl _, ekeep_testnext framesAt_laws (by assumption) hJ⟩

theorem forlist_gotos (X : ExprParser) (hX : KeepX FramesAt X) (S : StmtParser)
    (hS : KeepS ScopeInv S) (fuel : Nat) (indexname : TString) (c : ScopeCtx)
    (ls ls1 : LexState) (h : forlist X S fuel ls indexname = Except.ok ls1)
    (hJ : ScopeInv c ls) (hE : EmptyRange ls) : GotosAbove ls1 := by
  simp only [forlist] at h
  repeat' split at h
  all_goals try cases h
  rename_i _ fs tl hfs _ lsA hA _ lsB hB _ lsC hC _ lsD hD _ nvars lsE hE1 _ lsF hF _ nexps e
    lsG hG _ lsH hH _ lsI hI
  have F4 : FramesAt (Nat.iterate ScopeCtx.decl 4 c, ls) lsD :=
    framesAt_newvar_iter c ls lsC lsD _ 3 hD
      (framesAt_newvar_iter c ls lsB lsC _ 2 hC
        (framesAt_newvar_iter c ls lsA lsB _ 1 hB
          (framesAt_newvar_iter c ls ls lsA _ 0 hA ⟨hJ, rfl, rfl⟩)))
  obtain ⟨hle, F5⟩ := framesAt_forlist_names ls _ _ c _ _ _ hE1 F4
  have FI : FramesAt (Nat.iterate ScopeCtx.decl nvars c, ls) lsI :=
    ekeep_doFs framesAt_laws hI
      (fun fs => sameFrame_of (by simp) (by simp) (by simp) (by simp))
      (ekeep_adjust_assign framesAt_laws _ _ _ hH
        (ekeep_explist_top framesAt_laws X hX _ hG (ekeep_checknext framesAt_laws hF F5)))
  have hn : nvars - 3 + 3 = nvars := by omega
  refine forbody_gotos S hS _ _ _ (nvars - 3) _ c lsI ls1 h ?_
    (emptyRange_of_frames ls lsI FI.2.1 FI.2.2 hE)
  rw [hn]
  exact FI.1

theorem forstat_exit_gotos (X : ExprParser) (hX : KeepX ScopeInv X)
    (hXF : KeepX FramesAt X) (S : StmtParser)
    (hS : KeepS ScopeInv S) (fuel : Nat) (c : ScopeCtx) (ls s : LexState) (line : Int)
    (hJ : ScopeInv c ls) (h : forstat_exit X S fuel ls line = Except.ok s) :
    GotosAbove s ∧ ∃ c1, ScopeInv c1 s := by
  simp only [forstat_exit] at h
  repeat' split at h
  all_goals try cases h
  rename_i _ lsA hE _ label lsB hN _ lsC hmid
  have FB : FramesAt (ScopeCtx.push ls c, lsA) lsB :=
    ekeep_str_checkname framesAt_laws hN
      (framesAt_laws.next ⟨scopeInv_laws.enterblock hE hJ, rfl, rfl⟩)
  have EB : EmptyRange lsB :=
    emptyRange_of_frames lsA lsB FB.2.1 FB.2.2 (enterblock_emptyRange _ _ _ hE)
  have hC : GotosAbove lsC ∧ ScopeInv (ScopeCtx.push ls c) lsC := by
    repeat' split at hmid
    all_goals try cases hmid
    · exact ⟨fornum_gotos X hXF S hS _ _ _ _ lsB lsC hmid FB.1 EB,
        keep_fornum scopeInv_laws X hX S hS _ _ _ hmid FB.1⟩
    · exact ⟨forlist_gotos X hXF S hS _ _ _ lsB lsC hmid FB.1 EB,
        keep_forlist scopeInv_laws X hX S hS _ _ hmid FB.1⟩
    · exact ⟨forlist_gotos X hXF S hS _ _ _ lsB lsC hmid FB.1 EB,
        keep_forlist scopeInv_laws X hX S hS _ _ hmid FB.1⟩
  have F : FramesAt (ScopeCtx.push ls c, lsC) s :=
    ekeep_check_match framesAt_laws h ⟨hC.2, rfl, rfl⟩
  exact ⟨gotosAbove_of_frames lsC s F.2.1 F.2.2 hC.1, _, F.1⟩

theorem loopsAt_of_view (c : List (Nat × List Bool)) (ls ls1 : LexState)
    (hv : loopView ls1 = loopView ls) (h : LoopsAt c ls) : LoopsAt c ls1 := by
  unfold LoopsAt
  rw [hv]
  exact h

theorem markupval_loop_flags (level : Int) :
    ∀ (bl bl1 : List BlockCnt), markupval_loop level bl = some bl1 →
      bl1.map BlockCnt.isloop = bl.map BlockCnt.isloop := by
  intro bl
  induction bl with
  | nil => intro bl1 h; simp [markupval_loop] at h
  | cons b rest ih =>
    intro bl1 h
    simp only [markupval_loop] at h
    repeat' split at h
    all_goals try cases h
    · rename_i hrec
      simp only [List.map_cons, ih _ hrec]
    · simp

theorem singlevaraux_flags (dyd : Dyndata) (n : TString) :
    ∀ (fss fss1 : List FuncState) (base : Bool) (var : expdesc),
      singlevaraux dyd fss n base = Except.ok (var, fss1) →
      fss1.map (fun fs => fs.bl.map BlockCnt.isloop) =
        fss.map (fun fs => fs.bl.map BlockCnt.isloop) := by
  intro fss
  induction fss with
  | nil =>
    intro fss1 base var h
    simp only [singlevaraux, Except.ok.injEq, Prod.mk.injEq] at h
    rw [← h.2]
  | cons fs prev ih =>
    intro fss1 base var h
    rw [singlevaraux] at h
    simp only [] at h
    repeat' split at h
    all_goals try cases h
    · rfl
    · rename_i _ _ _ fs1 hm
      unfold markupval at hm
      split at hm
      · cases hm
      · rename_i bl1 hl
        cases hm
        simp [markupval_loop_flags _ _ _ hl]
    · rename_i _ _ _ prev1 hrec hvoid
      rw [singlevaraux_void_same dyd n prev prev1 false var hrec hvoid]
    · rename_i _ _ _ var0 prev1 hrec hnv _ idx1 fs1 hnew
      have i1 := ih prev1 false var0 hrec
      simp only [newupvalue] at hnew
      split at hnew
      · cases hnew
      · simp only [Except.ok.injEq, Prod.mk.injEq] at hnew
        obtain ⟨_, hfs1⟩ := hnew
        subst hfs1
        simp only [List.map_cons, i1]
    · rfl

theorem loopsAt_laws :
    FrameLaws LoopsAt id id (fun _ c => pushLoop c) (fun _ c => (0, [false]) :: c) where
  push_decl := fun _ _ => rfl
  next := by
    intro c ls h
    exact loopsAt_of_view c ls _ (by simp [loopView, luaX_next_fs]) h
  head := by
    intro c ls fs fs1 prev hfs hs h
    refine loopsAt_of_view c ls _ ?_ h
    simp [loopView, hfs, hs.2.2.1]
  second := by
    intro c ls cur fs fs1 prev hfs hs h
    refine loopsAt_of_view c ls _ ?_ h
    simp [loopView, hfs, hs.2.2.1]
  newvar := by
    intro c ls ls1 name h hJ
    obtain ⟨fs, prev, hfs, e, _⟩ := new_localvar_inv ls ls1 name h
    refine loopsAt_of_view c ls _ ?_ hJ
    rw [e]
    simp [loopView, hfs]
  adjust := by
    intro c ls ls1 n h hJ
    obtain ⟨fs, prev, fs1, hfs, e, hs⟩ := adjustlocalvars_inv ls ls1 n h
    rw [Function.iterate_id] at hJ
    refine loopsAt_of_view c ls _ ?_ hJ
    rw [e]
    simp [loopView, hfs, hs.2.2.1]
  enter := by
    intro c ls ls1 h hJ
    rw [enterlevel_inv ls ls1 h]
    exact hJ
  leave := fun h => h
  vararg := by
    intro c s ls fs prev b k hfs hJ
    rw [Function.iterate_id] at hJ ⊢
    refine loopsAt_of_view _ ls _ ?_ hJ
    simp [loopView, hfs]
  enterblock := by
    intro c ls ls1 b h hJ
    obtain ⟨fs, prev, hfs, e⟩ := enterblock_inv ls ls1 b h
    subst e
    unfold LoopsAt loopView at hJ ⊢
    rw [hfs] at hJ
    simp only [List.map_cons] at hJ ⊢
    cases hJ with
    | cons h1 h2 =>
      rename_i e t
      obtain ⟨k, l⟩ := e
      exact List.Forall₂.cons ⟨by simpa using h1.1, by simp at h1 ⊢; omega⟩ h2
  leaveblock := by
    intro c s ls ls1 h hJ
    obtain ⟨fs, prev, bl, previous, hfs, hbl⟩ := leaveblock_shape ls ls1 h
    obtain ⟨_, _, _, L, e, _⟩ := leaveblock_inv ls ls1 fs prev bl previous hfs hbl h
    subst e
    unfold LoopsAt loopView at hJ ⊢
    rw [hfs] at hJ
    simp only [List.map_cons, hbl] at hJ ⊢
    cases c with
    | nil => cases hJ
    | cons e t =>
      obtain ⟨k, l⟩ := e
      simp only [pushLoop] at hJ
      cases hJ with
      | cons h1 h2 =>
        exact List.Forall₂.cons ⟨by simpa using h1.1, by simp at h1 ⊢; omega⟩ h2
  openf := by
    intro c ls ls1 f h hJ
    obtain ⟨fs, prev, hfs, e⟩ := enterblock_inv _ ls1 _ h
    simp only [List.cons.injEq] at hfs
    obtain ⟨hfs0, hprev⟩ := hfs
    subst e
    unfold LoopsAt loopView at hJ ⊢
    simp only [List.map_cons, ← hfs0, ← hprev, List.map_nil]
    exact List.Forall₂.cons ⟨rfl, by simp⟩ hJ
  closef := by
    intro c s ls ls1 fs h hJ
    obtain ⟨fs0, prev0, ls2, prev, hfs0, hl, hfs2, e⟩ := close_func_inv ls ls1 fs h
    obtain ⟨fsA, prevA, fsB, hA, hB, _, _⟩ := leaveblock_head _ ls2 hl
    simp only [List.cons.injEq] at hA
    rw [hfs2] at hB
    simp only [List.cons.injEq] at hB
    subst e
    unfold LoopsAt loopView at hJ ⊢
    rw [hfs0] at hJ
    simp only [List.map_cons] at hJ
    cases hJ with
    | cons h1 h2 =>
      show List.Forall₂ _ (prev.map _) c
      rw [hB.2, ← hA.2]
      exact h2
  resolve := by
    intro c ls fss0 fss n v h hJ
    refine loopsAt_of_view c _ _ ?_ hJ
    exact singlevaraux_flags ls.dyd n fss0 fss true v h
  jump := by
    intro c ls ls1 pc h hJ
    obtain ⟨ls0, fs, prev, name, b, h1, _, _, hfs, hf⟩ := gotostat_inv ls ls1 pc h
    rcases findlabel_inv _ ls1 _ b hf with ⟨_, e⟩ |
      ⟨_, fsA, prevA, _, _, _, _, fs1, hA, _, _, _, _, hs, e⟩
    · refine loopsAt_of_view c ls _ ?_ hJ
      rw [e]
      simp [loopView, h1]
    · refine loopsAt_of_view c ls _ ?_ hJ
      have hA1 : ls.fs = fsA :: prevA := h1 ▸ hA
      rw [e]
      simp [loopView, hA1, hs.2.2.1]
  addlabel := fun _ h => h
  setlabel := fun _ h _ _ _ => h
  closegotos := by
    intro c ls ls1 lb h hJ
    obtain ⟨fs, prev, bl, previous, hfs, hbl⟩ := findgotos_shape ls ls1 lb h
    rw [findgotos_inv ls ls1 lb fs prev bl previous hfs hbl h]
    refine loopsAt_of_view c ls _ ?_ hJ
    simp [loopView, hfs]

theorem loopsAt_self (ls : LexState) : LoopsAt ((loopView ls).map (fun l => (0, l))) ls := by
  unfold LoopsAt
  generalize loopView ls = V
  induction V with
  | nil => exact List.Forall₂.nil
  | cons l t ih => exact List.Forall₂.cons ⟨rfl, Nat.zero_le _⟩ ih

theorem loopsAt_self_eq (V : List (List Bool)) (s : LexState)
    (h : LoopsAt (V.map (fun l => (0, l))) s) : loopView s = V := by
  unfold LoopsAt at h
  generalize loopView s = W at h
  induction V generalizing W with
  | nil => cases h; rfl
  | cons l t ih =>
    cases h with
    | cons h1 h2 =>
      rename_i w ws
      rw [ih _ h2]
      have : w = l := by simpa using h1.1
      rw [this]

theorem loop_top (ls ls1 s : LexState) (h : enterblock ls true = Except.ok ls1)
    (hv : LoopsAt ((loopView ls1).map (fun l => (0, l))) s) :
    ∃ fs prev bl rest, s.fs = fs :: prev ∧ fs.bl = bl :: rest ∧ bl.isloop = true := by
  have e := loopsAt_self_eq _ s hv
  obtain ⟨fs0, prev0, hfs0, e1⟩ := enterblock_inv ls ls1 true h
  subst e1
  simp only [loopView, List.map_cons] at e
  cases hs : s.fs with
  | nil => rw [hs] at e; simp at e
  | cons fs prev =>
    rw [hs] at e
    simp only [List.map_cons, List.cons.injEq] at e
    cases hb : fs.bl with
    | nil => rw [hb] at e; simp at e
    | cons bl rest =>
      rw [hb] at e
      simp only [List.map_cons, List.cons.injEq] at e
      exact ⟨fs, prev, bl, rest, rfl, hb, e.1.1⟩

theorem whilestat_exit_loop (X : ExprParser) (S : StmtParser)
    (hS : KeepS LoopsAt S) (fuel : Nat) (ls s : LexState) (line r : Int)
    (h : whilestat_exit X S fuel ls line = Except.ok (r, s)) :
    ∃ fs prev bl rest, s.fs = fs :: prev ∧ fs.bl = bl :: rest ∧ bl.isloop = true := by
  simp only [whilestat_exit] at h
  repeat' split at h
  all_goals try cases h
  rename_i _ whileinit ls1 h1 _ ls2 _ ls3 h3 _ ls4 h4 _ ls5 h5 _ ls6 h6 _ h2 h7
  refine loop_top ls2 ls3 s h3 ?_
  exact keep_check_match loopsAt_laws h7
    (keep_doFs loopsAt_laws h6
      (fun fs => sameFrame_of (by simp) (by simp) (by simp) (by simp))
      (keep_block loopsAt_laws S hS fuel h5
        (keep_checknext loopsAt_laws h4 (loopsAt_self ls3))))

theorem repeatstat_exit_loop (X : ExprParser) (hX : KeepX LoopsAt X) (S : StmtParser)
    (hS : KeepS LoopsAt S) (fuel : Nat) (ls s : LexState) (line : Int)
    (h : repeatstat_exit X S fuel ls line = Except.ok s) :
    ∃ fs prev bl rest, s.fs = fs :: prev ∧ fs.bl = bl :: rest ∧ bl.isloop = true := by
  simp only [repeatstat_exit] at h
  repeat' split at h
  all_goals try cases h
  all_goals
    rename_i _ repeat_init ls1 h1 _ ls2 h2 _ ls3 h3 _ ls4 h4 _ ls5 h5 _ condexit ls6 h6 _ fs prev
      hfs _ bl2 rest hbl _ ls7 h7
    refine loop_top ls1 ls2 s h2 ?_
    have J6 := keep_cond loopsAt_laws X hX h6
      (keep_check_match loopsAt_laws h5
        (keep_statlist loopsAt_laws S hS fuel h4
          (loopsAt_laws.next (loopsAt_laws.enterblock h3 (loopsAt_self ls2)))))
    have J6b : LoopsAt (pushLoop ((loopView ls2).map (fun l => (0, l))))
        { ls6 with
          fs := (if bl2.upval then luaK_patchclose fs condexit bl2.nactvar else fs) :: prev } := by
      refine loopsAt_laws.head hfs (sameFrame_of ?_ ?_ ?_ ?_) J6
      all_goals (first | rfl | (split <;> simp))
    exact keep_doFs loopsAt_laws h
      (fun fs => sameFrame_of (by simp) (by simp) (by simp) (by simp))
      (@FrameLaws.leaveblock _ _ _ _ _ _ loopsAt_laws _ ls2 _ _ h7 J6b)

theorem forstat_exit_loop (X : ExprParser) (hX : KeepX LoopsAt X) (S : StmtParser)
    (hS : KeepS LoopsAt S) (fuel : Nat) (ls s : LexState) (line : Int)
    (h : forstat_exit X S fuel ls line = Except.ok s) :
    ∃ fs prev bl rest, s.fs = fs :: prev ∧ fs.bl = bl :: rest ∧ bl.isloop = true := by
  simp only [forstat_exit] at h
  repeat' split at h
  all_goals try cases h
  rename_i _ lsA hE _ label lsB hN _ lsC hmid
  refine loop_top ls lsA s hE ?_
  have hB := keep_str_checkname loopsAt_laws hN (loopsAt_laws.next (loopsAt_self lsA))
  refine keep_check_match loopsAt_laws h ?_
  repeat' split at hmid
  all_goals try cases hmid
  · exact keep_fornum loopsAt_laws X hX S hS _ _ _ hmid hB
  · exact keep_forlist loopsAt_laws X hX S hS _ _ hmid hB
  · exact keep_forlist loopsAt_laws X hX S hS _ _ hmid hB

theorem loopExit_mk (c : ScopeCtx) (s : LexState) (hG : GotosAbove s) (hJ : ScopeInv c s)
    (hL : ∃ fs prev bl rest, s.fs = fs :: prev ∧ fs.bl = bl :: rest ∧ bl.isloop = true) :
    LoopExit s := by
  obtain ⟨fs, prev, bl, rest, hfs, hbl, hg⟩ := hG
  obtain ⟨fs1, prev1, bl1, rest1, hfs1, hbl1, hl⟩ := hL
  rw [hfs] at hfs1
  cases hfs1
  rw [hbl] at hbl1
  cases hbl1
  exact ⟨fs, prev, bl, rest, hfs, hbl, hl,
    (scopeInv_block c s fs prev bl rest hJ hfs hbl).2.1, hg⟩

theorem loopExit_safe (s : LexState) (h : LoopExit s) (l : Int) (v : TString) :
    leaveblock s ≠ Except.error (ParseError.jumpsIntoScope "break" l v) := by
  obtain ⟨fs, prev, bl, rest, hfs, hbl, hl, _, hg⟩ := h
  exact leaveblock_break_err s fs prev bl rest hfs hbl hl (fun g hm _ => hg g hm) l v

theorem loop_exits (n fuel : Nat) (c : ScopeCtx) (ls : LexState) (line : Int)
    (hJ : ScopeInv c ls) :
    (∀ r s, whilestat_exit (parsers n).2 (parsers n).1 fuel ls line = Except.ok (r, s) →
      LoopExit s) ∧
    (∀ s, repeatstat_exit (parsers n).2 (parsers n).1 fuel ls line = Except.ok s →
      LoopExit s) ∧
    (∀ s, forstat_exit (parsers n).2 (parsers n).1 fuel ls line = Except.ok s →
      LoopExit s) := by
  have hS : KeepS ScopeInv (parsers n).1 := (keep_parsers scopeInv_laws n).1
  have hX : KeepX ScopeInv (parsers n).2 := (keep_parsers scopeInv_laws n).2
  have hSL : KeepS LoopsAt (parsers n).1 := (keep_parsers loopsAt_laws n).1
  have hXL : KeepX LoopsAt (parsers n).2 := (keep_parsers loopsAt_laws n).2
  refine ⟨?_, ?_, ?_⟩
  · intro r s h
    obtain ⟨hG, c1, h1⟩ := whilestat_exit_gotos _ hX _ hS fuel c ls s line r hJ h
    exact loopExit_mk c1 s hG h1 (whilestat_exit_loop _ _ hSL fuel ls s line r h)
  · intro s h
    obtain ⟨hG, c1, h1⟩ := repeatstat_exit_gotos _ hX _ hS fuel c ls s line hJ h
    exact loopExit_mk c1 s hG h1 (repeatstat_exit_loop _ hXL _ hSL fuel ls s line h)
  · intro s h
    obtain ⟨hG, c1, h1⟩ :=
      forstat_exit_gotos _ hX (frames_parsers n) _ hS fuel c ls s line hJ h
    exact loopExit_mk c1 s hG h1 (forstat_exit_loop _ hXL _ hSL fuel ls s line h)

/-- C26: leaving a loop block resolves every pending `break` of the block.
(1) For a state whose current block `bl` is a loop block with `bl.firstlabel`
within the label list, whenever `leaveblock` returns, no pending goto at an
index from `bl.firstgoto` on is named "break"; the calls recorded for the
function are those before, the close jump of the block if any, then one
`luaK_patchlist` to the program counter at the exit for every `break` that was
pending in the block, in order, then the calls of `movegotosout`; and the
label list is the list before cut to `bl.firstlabel` entries, so the label
"break" that was appended is gone.
(2) The three loop statements of the parser leave their loop block with
`leaveblock` in the state that `whilestat_exit`, `repeatstat_exit` and
`forstat_exit` return.
(3) Started in a state with the invariant `ScopeInv` of the parse, each of
them reaches this call in a state `LoopExit`: the current block is a loop
block that starts within the label list, and every goto pending in it was
recorded with at least the current number of active locals (the count of the
loop block for `while` and `repeat`, three more for `for`, whose control
variables are active).  In such a state `leaveblock` never fails with the
jumps-into-scope error for "break".
(4) The invariant holds in the state in which `mainfunc` starts the statements
of a chunk, and every statement and every expression of the whole parser
keeps it. -/
theorem leaveblock_loop_breaks (n fuel : Nat) :
    (∀ (ls ls1 : LexState) (fs : FuncState) (prev : List FuncState) (bl : BlockCnt)
      (previous : List BlockCnt),
      ls.fs = fs :: prev → fs.bl = bl :: previous → bl.isloop = true →
      bl.firstlabel ≤ ls.dyd.label.length → leaveblock ls = Except.ok ls1 →
      (∀ g ∈ ls1.dyd.gt.drop bl.firstgoto, g.name ≠ "break") ∧
      (∃ fs1 calls, ls1.fs = fs1 :: prev ∧
        (fs1.pc = if previous ≠ [] ∧ bl.upval = true then fs.pc + 1 else fs.pc) ∧
        fs1.kcalls = fs.kcalls ++ closeJump fs bl previous ++
          patchCalls fs1.pc (gotosNamed "break" (ls.dyd.gt.drop bl.firstgoto)) ++ calls) ∧
      ls1.dyd.label = ls.dyd.label.take bl.firstlabel) ∧
    (∀ (ls : LexState) (line : Int),
      (whilestat (parsers n).2 (parsers n).1 fuel ls line =
        match whilestat_exit (parsers n).2 (parsers n).1 fuel ls line with
        | Except.error e => Except.error e
        | Except.ok (condexit, ls7) =>
          match leaveblock ls7 with
          | Except.error e => Except.error e
          | Except.ok ls8 => ls8.doFs (fun fs => luaK_patchtohere fs condexit)) ∧
      (repeatstat (parsers n).2 (parsers n).1 fuel ls line =
        match repeatstat_exit (parsers n).2 (parsers n).1 fuel ls line with
        | Except.error e => Except.error e
        | Except.ok ls8 => leaveblock ls8) ∧
      (forstat (parsers n).2 (parsers n).1 fuel ls line =
        match forstat_exit (parsers n).2 (parsers n).1 fuel ls line with
        | Except.error e => Except.error e
        | Except.ok ls4 => leaveblock ls4)) ∧
    (∀ (c : ScopeCtx) (ls s : LexState) (line : Int), ScopeInv c ls →
      ((∃ r, whilestat_exit (parsers n).2 (parsers n).1 fuel ls line = Except.ok (r, s)) ∨
        repeatstat_exit (parsers n).2 (parsers n).1 fuel ls line = Except.ok s ∨
        forstat_exit (parsers n).2 (parsers n).1 fuel ls line = Except.ok s) →
      LoopExit s ∧
      ∀ l v, leaveblock s ≠ Except.error (ParseError.jumpsIntoScope "break" l v)) ∧
    ((∀ (input : List Token) (ls1 : LexState) (fs fs1 : FuncState) (prev : List FuncState)
        (i : Int), open_func (initialState input) {} = Except.ok ls1 → ls1.fs = fs :: prev →
        newupvalue { fs with f := { fs.f with is_vararg := true } } ls1.envn
          (init_exp expkind.VLOCAL 0) = Except.ok (i, fs1) →
        ScopeInv mainCtx (luaX_next { ls1 with fs := fs1 :: prev })) ∧
      (∀ (c : ScopeCtx) (ls ls1 : LexState), ScopeInv c ls →
        (parsers n).1 ls = Except.ok ls1 → ScopeInv c ls1) ∧
      (∀ (c : ScopeCtx) (ls ls1 : LexState) (v : expdesc), ScopeInv c ls →
        (parsers n).2 ls = Except.ok (v, ls1) → ScopeInv c ls1)) := by
  refine ⟨?_, fun ls line => ⟨whilestat_factors _ _ fuel ls line,
    repeatstat_factors _ _ fuel ls line, forstat_factors _ _ fuel ls line⟩, ?_,
    fun input ls1 fs fs1 prev i h1 h2 h3 =>
      mainfunc_start_scope input ls1 fs fs1 prev i h1 h2 h3,
    fun c ls ls1 hJ h => (keep_parsers scopeInv_laws n).1 h hJ,
    fun c ls ls1 v hJ h => (keep_parsers scopeInv_laws n).2 h hJ⟩
  · intro ls ls1 fs prev bl previous hfs hbl hloop hfl h
    obtain ⟨_, _, _, L, hls1, _, _⟩ := leaveblock_inv ls ls1 fs prev bl previous hfs hbl h
    subst hls1
    refine ⟨?_, ⟨_, leaveCalls bl previous
      (labelsLeft bl fs.nactvar (exitPc fs bl previous) ls.dyd.label)
      (afterBreaks bl ls.dyd.gt), rfl, rfl, ?_⟩, ?_⟩
    · intro g hg
      simp only [] at hg
      rw [(take_append_drop_at ls.dyd.gt _ bl.firstgoto (fun hn => by
        rw [afterBreaks_nil bl ls.dyd.gt hn, leaveGotos_nil])).1] at hg
      obtain ⟨g0, h0, hn⟩ := leaveGotos_mem _ _ _ _ g hg
      rw [hn]
      exact (afterBreaks_mem bl ls.dyd.gt g0 h0).2 hloop
    · simp only [breakCalls, hloop, if_true, exitPc]
    · simp only []
      exact labelsLeft_of_le bl _ _ _ hfl
  · intro c ls s line hJ h
    obtain ⟨hw, hr, hf⟩ := loop_exits n fuel c ls line hJ
    have hE : LoopExit s := by
      rcases h with ⟨r, h⟩ | h | h
      · exact hw r s h
      · exact hr s h
      · exact hf s h
    exact ⟨hE, fun l v => loopExit_safe s hE l v⟩

/-- Witness for C26: in `for i = 1, 2 do local x break end` the `break` is
issued with five active locals and leaves the two inner blocks with three,
the number of active locals when `forstat` leaves the loop block: the state
is a `LoopExit`, `leaveblock` does not raise the error and returns with the
`break` (jump 2) patched to the exit point 4 and nothing pending.  For the
loop block of `sampleLoopExit`, `leaveblock` patches its `break` (jump 5) to
the exit point 10 and no `break` stays pending. -/
theorem leaveblock_loop_breaks_witness :
    forstat_exit (parsers 6).2 (parsers 6).1 6 (chunkStart forBreakToks) 1 =
      Except.ok sampleForExit ∧
    sampleForExit.fs.map FuncState.nactvar = [3] ∧
    sampleForExit.dyd.gt = [{ name := "break", pc := 2, line := 1, nactvar := 3 }] ∧
    LoopExit sampleForExit ∧
    (∀ l v, leaveblock sampleForExit ≠ Except.error (ParseError.jumpsIntoScope "break" l v)) ∧
    (leaveblock sampleForExit).map
        (fun s => (s.dyd.gt, s.dyd.label, s.fs.map (fun fs => fs.kcalls.getLast?))) =
      Except.ok ([], [], [some (KCall.patchlist 2 4)]) ∧
    leaveblock sampleLoopExit = Except.ok sampleLoopLeft ∧
    (∀ g ∈ sampleLoopLeft.dyd.gt.drop 1, g.name ≠ "break") ∧
    sampleLoopLeft.dyd.label = sampleLoopExit.dyd.label.take 1 :=
  have hx : forstat_exit (parsers 6).2 (parsers 6).1 6 (chunkStart forBreakToks) 1 =
      Except.ok sampleForExit := by decide!
  have h := (leaveblock_loop_breaks 6 6).2.2.1 mainCtx (chunkStart forBreakToks) sampleForExit 1
    (chunkStart_scope _) (Or.inr (Or.inr hx))
  have h1 := (leaveblock_loop_breaks 6 6).1 sampleLoopExit sampleLoopLeft _ [] _ [sampleBlock]
    rfl rfl rfl (by decide) (by decide)
  ⟨hx, by decide!, by decide!, h.1, h.2, by decide!, by decide, h1.1, h1.2.2⟩

end LuaParser
